import Mathlib

/-!
# A shallow embedding of the finite-domain solver `Formula.cc`

The state of `class Formula` is a record; every member function becomes a pure
function on that record.  C++ `vector`s and raw arrays are lists read with
`List.getD` and written with `List.set`; `Clause*` pointers stored in `CLAUSELIST`
are addresses into `HEAP`, so that two entries of `CLAUSELIST` may denote the same
clause object, as they can in the source.
-/

namespace MVL

/-! ## Data model -/

/-- The class `Literal`: the atom `VAR = VAL` when `EQUAL`, `VAR ! VAL` otherwise. -/
structure Literal where
  VAR : Nat
  VAL : Nat
  EQUAL : Bool
deriving DecidableEq, Repr, Inhabited

/-- The class `Clause` as used by `Formula.cc`: the atoms and the mutable fields
`NumUnAss`, `SAT`, `LEVEL`.  `NumAtom` is the length of `ATOM_LIST`. -/
structure Clause where
  ATOM_LIST : List Literal
  NumUnAss : Int
  SAT : Bool
  LEVEL : Int
deriving DecidableEq, Repr

instance : Inhabited Clause := ⟨⟨[], 0, false, -1⟩⟩

/-- Number of atoms of a clause (`NumAtom`, equal to `ATOM_LIST.size()`). -/
def Clause.NumAtom (c : Clause) : Nat := c.ATOM_LIST.length

/-- The class `Variable` as used by `Formula.cc`: per variable fields and the
per value arrays, all indexed by the domain value. -/
structure Variable where
  VAR : Nat
  VAL : Int
  DOMAINSIZE : Nat
  SAT : Bool
  LEVEL : Int
  ATOMLEVEL : List Int
  ATOMASSIGN : List Int
  ATOMCNTPOS : List Int
  ATOMCNTNEG : List Int
  CLAUSEID : List Int
  ATOMRECPOS : List (List Nat)
  ATOMRECNEG : List (List Nat)
deriving DecidableEq, Repr

instance : Inhabited Variable := ⟨⟨0, -1, 0, false, -1, [], [], [], [], [], [], []⟩⟩

/-- The mutable members of `class Formula` that the search engine reads or writes. -/
structure Formula where
  VARLIST : List Variable
  HEAP : List Clause
  CLAUSELIST : List Nat
  DECSTACK : List Literal
  UNITLIST : List Nat
  LEVEL : Int
  UNITS : Int
  BACKTRACKS : Int
  DECISIONS : Int
  ENTAILS : Int
  RESTARTS : Int
  UNITCLAUSE : Int
  CONFLICT : Bool
  CONFLICTINGCLAUSE : Int
  ENTAILLITERAL : Option Literal
deriving DecidableEq, Repr

/-! ## Access to vectors and arrays -/

/-- Apply `f` to the element at index `i`; nothing happens when `i` is out of range. -/
def modifyAt {α : Type} (l : List α) (i : Nat) (f : α → α) : List α :=
  match l, i with
  | [], _ => []
  | a :: as, 0 => f a :: as
  | a :: as, i + 1 => a :: modifyAt as i f

/-- The variable record `VARLIST[v]`. -/
def Formula.var (s : Formula) (v : Nat) : Variable := s.VARLIST.getD v default

/-- Update of the variable record `VARLIST[v]`. -/
def Formula.setVar (s : Formula) (v : Nat) (f : Variable → Variable) : Formula :=
  { s with VARLIST := modifyAt s.VARLIST v f }

/-- The address stored in `CLAUSELIST[c]`. -/
def Formula.addr (s : Formula) (c : Nat) : Nat := s.CLAUSELIST.getD c s.HEAP.length

/-- The clause object `*CLAUSELIST[c]`. -/
def Formula.clause (s : Formula) (c : Nat) : Clause := s.HEAP.getD (s.addr c) default

/-- Update of the clause object `*CLAUSELIST[c]`. -/
def Formula.setClause (s : Formula) (c : Nat) (f : Clause → Clause) : Formula :=
  { s with HEAP := modifyAt s.HEAP (s.addr c) f }

/-- Read `ATOMASSIGN[val]` of variable `var`. -/
def Formula.assign (s : Formula) (var val : Nat) : Int := (s.var var).ATOMASSIGN.getD val 0

/-- Read `ATOMLEVEL[val]` of variable `var`. -/
def Formula.level (s : Formula) (var val : Nat) : Int := (s.var var).ATOMLEVEL.getD val 0

/-- Read `CLAUSEID[val]` of variable `var`. -/
def Formula.reason (s : Formula) (var val : Nat) : Int := (s.var var).CLAUSEID.getD val 0

/-- Read `ATOMCNTPOS[val]` of variable `var`. -/
def Formula.cntPos (s : Formula) (var val : Nat) : Int := (s.var var).ATOMCNTPOS.getD val 0

/-- Read `ATOMCNTNEG[val]` of variable `var`. -/
def Formula.cntNeg (s : Formula) (var val : Nat) : Int := (s.var var).ATOMCNTNEG.getD val 0

/-- The occurrence list `ATOMRECPOS[val]` or `ATOMRECNEG[val]` of variable `var`,
as the list of its `c_num` fields from the head on. -/
def Formula.records (s : Formula) (var : Nat) (equals : Bool) (val : Nat) : List Nat :=
  if equals then (s.var var).ATOMRECPOS.getD val [] else (s.var var).ATOMRECNEG.getD val []

/-- The statement `ATOMCNTPOS[val] += d` or `ATOMCNTNEG[val] += d` on variable `var`. -/
def Formula.bumpCnt (s : Formula) (var : Nat) (equals : Bool) (val : Nat) (d : Int) : Formula :=
  s.setVar var (fun V =>
    if equals then { V with ATOMCNTPOS := modifyAt V.ATOMCNTPOS val (fun n => n + d) }
    else { V with ATOMCNTNEG := modifyAt V.ATOMCNTNEG val (fun n => n + d) })

/-- The statement `CLAUSELIST[c]->NumUnAss += d`. -/
def Formula.bumpUnAss (s : Formula) (c : Nat) (d : Int) : Formula :=
  s.setClause c (fun C => { C with NumUnAss := C.NumUnAss + d })

/-! ## Checks -/

/-- `Formula::checkSat`: every clause of `CLAUSELIST` has its `SAT` flag set. -/
def checkSat (s : Formula) : Bool :=
  (List.range s.CLAUSELIST.length).all (fun i => (s.clause i).SAT)

/-- `Formula::checkUnit`: rebuild `UNITLIST` from the clauses with one unassigned
atom; a clause with none raises `CONFLICT`. -/
def checkUnit (s : Formula) : Formula :=
  (List.range s.CLAUSELIST.length).foldl
    (fun s i =>
      if (s.clause i).NumUnAss == 1 && !(s.clause i).SAT then
        { s with UNITLIST := s.UNITLIST ++ [i] }
      else if (s.clause i).NumUnAss == 0 && !(s.clause i).SAT then
        { s with CONFLICT := true }
      else s)
    { s with UNITLIST := [] }

/-- The loop of `Formula::checkEntail` over the domain values `js`, on the pair
`(flag, domainvalue)`; a second free value clears the flag and leaves the loop. -/
def entailScan (V : Variable) : List Nat → Bool × Nat → Bool × Nat
  | [], st => st
  | j :: js, (flag, dv) =>
    if V.ATOMASSIGN.getD j 0 == 0 then
      if !flag then entailScan V js (true, j) else (false, dv)
    else entailScan V js (flag, dv)

/-- `Formula::checkEntail`: the value of the entailed literal `var = value`, when the
variable is not assigned and exactly one of its values has `ATOMASSIGN` 0. -/
def checkEntail (s : Formula) (var : Nat) : Option Nat :=
  let V := s.var var
  let r := if !V.SAT then entailScan V (List.range V.DOMAINSIZE) (false, 0) else (false, 0)
  if r.1 then some r.2 else none

/-- `Formula::checkEntail` as a call: the value returned and the state after it, in
which `ENTAILLITERAL` is the new literal `Literal(var, domainvalue)`, an `=` atom. -/
def checkEntailCall (s : Formula) (var : Nat) : Bool × Formula :=
  match checkEntail s var with
  | some k => (true, { s with ENTAILLITERAL := some ⟨var, k, true⟩ })
  | none => (false, s)

/-! ## Propagation -/

/-- The inner loop of `Formula::satisfyClauses` over the atoms of clause `c`. -/
def satisfyAtoms (c : Nat) (s : Formula) (atoms : List Literal) : Formula :=
  atoms.foldl
    (fun s a =>
      if s.assign a.VAR a.VAL == 0 then
        (s.bumpUnAss c (-1)).bumpCnt a.VAR a.EQUAL a.VAL (-1)
      else s)
    s

/-- `Formula::satisfyClauses`: mark every clause holding the literal as satisfied at
the current level and take its free atoms out of the counters. -/
def satisfyClauses (s : Formula) (var : Nat) (equals : Bool) (val : Nat) : Formula :=
  (s.records var equals val).foldl
    (fun s c =>
      if !(s.clause c).SAT then
        let s1 := s.setClause c (fun C => { C with SAT := true, LEVEL := s.LEVEL })
        satisfyAtoms c s1 (s1.clause c).ATOM_LIST
      else s)
    s

/-- `Formula::removeLiteral`: the literal became false; every unsatisfied clause
holding it loses one unassigned atom, becomes a unit at 1 and a conflict at 0. -/
def removeLiteral (s : Formula) (var : Nat) (equals : Bool) (val : Nat) : Formula :=
  (s.records var equals val).foldl
    (fun s c =>
      if !(s.clause c).SAT then
        let s1 := (s.bumpUnAss c (-1)).bumpCnt var equals val (-1)
        let s2 := if (s1.clause c).NumUnAss == 1 then { s1 with UNITLIST := c :: s1.UNITLIST } else s1
        if (s2.clause c).NumUnAss == 0 then
          { s2 with CONFLICT := true, CONFLICTINGCLAUSE := (c : Int) }
        else s2
      else s)
    s

/-- The three assignments `ATOMASSIGN[val] = a; ATOMLEVEL[val] = LEVEL;
CLAUSEID[val] = UNITCLAUSE` of `reduceTheory`. -/
def Formula.mark (s : Formula) (var val : Nat) (a : Int) : Formula :=
  s.setVar var (fun V =>
    { V with
      ATOMASSIGN := V.ATOMASSIGN.set val a
      ATOMLEVEL := V.ATOMLEVEL.set val s.LEVEL
      CLAUSEID := V.CLAUSEID.set val s.UNITCLAUSE })

/-- One round of the two domain loops of `reduceTheory`: the free value `i` of `var`
is forbidden, unless `CONFLICT` has ended the loop. -/
def forbidValue (var : Nat) (s : Formula) (i : Nat) : Formula :=
  if s.CONFLICT then s
  else if s.assign var i == 0 then
    let s1 := satisfyClauses s var false i
    let s2 := removeLiteral s1 var true i
    s2.mark var i (-1)
  else s

/-- The statements of the branch `equals` of `reduceTheory` before its two loops:
the value is assigned and the literal is pushed on the decision stack. -/
def assignValue (s : Formula) (var val : Nat) : Formula :=
  let s1 := satisfyClauses s var true val
  let s2 := removeLiteral s1 var false val
  let s3 := s2.mark var val 1
  let s4 := s3.setVar var (fun V => { V with VAL := (val : Int), SAT := true, LEVEL := s3.LEVEL })
  { s4 with DECSTACK := s4.DECSTACK ++ [⟨var, val, true⟩] }

/-- The body of `Formula::reduceTheory` before its entailment check. -/
def reduceLiteral (s : Formula) (var : Nat) (equals : Bool) (val : Nat) : Formula :=
  if equals then
    let s5 := assignValue s var val
    let s6 := (List.range val).foldl (forbidValue var) s5
    (List.range' (val + 1) ((s6.var var).DOMAINSIZE - (val + 1))).foldl (forbidValue var) s6
  else
    let s1 := satisfyClauses s var false val
    let s2 := removeLiteral s1 var true val
    let s3 := s2.mark var val (-1)
    { s3 with DECSTACK := s3.DECSTACK ++ [⟨var, val, false⟩] }

/-- `Formula::reduceTheory` with the depth of its recursion bounded by `fuel`;
`none` when the bound is reached. -/
def reduceTheoryAux : Nat → Formula → Nat → Bool → Nat → Option Formula
  | 0, _, _, _, _ => none
  | fuel + 1, s, var, equals, val =>
    let s1 := reduceLiteral s var equals val
    match checkEntail s1 var with
    | some k =>
      reduceTheoryAux fuel
        { s1 with ENTAILLITERAL := some ⟨var, k, true⟩, ENTAILS := s1.ENTAILS + 1, UNITCLAUSE := -2 }
        var true k
    | none => some s1

/-- `Formula::reduceTheory`: the recursion through entailment is at most two deep
(see `reduceTheoryAux_eq`). -/
def reduceTheory (s : Formula) (var : Nat) (equals : Bool) (val : Nat) : Formula :=
  (reduceTheoryAux 2 s var equals val).getD s

/-! ## Backtracking -/

/-- `Formula::addLiteral`: the literal is free again; every unsatisfied clause
holding it regains one unassigned atom. -/
def addLiteral (s : Formula) (var : Nat) (equals : Bool) (val : Nat) : Formula :=
  (s.records var equals val).foldl
    (fun s c =>
      if !(s.clause c).SAT then (s.bumpUnAss c 1).bumpCnt var equals val 1 else s)
    s

/-- The inner loop of `Formula::unsatisfyClauses` over the atoms of clause `c`. -/
def unsatisfyAtoms (c : Nat) (level : Int) (s : Formula) (atoms : List Literal) : Formula :=
  atoms.foldl
    (fun s a =>
      if decide (s.level a.VAR a.VAL > level) || s.assign a.VAR a.VAL == 0 then
        (s.bumpUnAss c 1).bumpCnt a.VAR a.EQUAL a.VAL 1
      else s)
    s

/-- `Formula::unsatisfyClauses`: every clause holding the literal that was satisfied
above `level` is unsatisfied again and its counters are rebuilt. -/
def unsatisfyClauses (s : Formula) (var : Nat) (equals : Bool) (val : Nat) (level : Int) : Formula :=
  (s.records var equals val).foldl
    (fun s c =>
      if (s.clause c).LEVEL > level then
        let s1 := unsatisfyAtoms c level s (s.clause c).ATOM_LIST
        s1.setClause c (fun C => { C with LEVEL := -1, SAT := false })
      else s)
    s

/-- Body of the first loop of `undoTheory` for the value `j` of variable `i`. -/
def undoAdd (level : Int) (i : Nat) (s : Formula) (j : Nat) : Formula :=
  if s.level i j > level then
    if s.assign i j == -1 then addLiteral s i true j else addLiteral s i false j
  else s

/-- Body of the second loop of `undoTheory` for the value `j` of variable `i`. -/
def undoValue (level : Int) (i : Nat) (s : Formula) (j : Nat) : Formula :=
  if s.level i j > level then
    let s1 := if s.assign i j == -1 then unsatisfyClauses s i false j level
              else unsatisfyClauses s i true j level
    s1.setVar i (fun V =>
      { V with
        ATOMLEVEL := V.ATOMLEVEL.set j (-10)
        ATOMASSIGN := V.ATOMASSIGN.set j 0
        CLAUSEID := V.CLAUSEID.set j (-10) })
  else s

/-- Body of the second loop of `undoTheory` for variable `i`. -/
def undoVar (level : Int) (s : Formula) (i : Nat) : Formula :=
  let s1 := (List.range (s.var i).DOMAINSIZE).foldl (undoValue level i) s
  if (s1.var i).LEVEL > level then
    s1.setVar i (fun V => { V with LEVEL := -1, SAT := false, VAL := -1 })
  else s1

/-- The last loop of `undoTheory`, from index `n - 1` down to 0: the entry at an
index is erased when its atom has `ATOMASSIGN` 0. -/
def undoStack (s : Formula) : Nat → List Literal → List Literal
  | 0, st => st
  | n + 1, st =>
    let a := st.getD n default
    undoStack s n (if s.assign a.VAR a.VAL == 0 then st.eraseIdx n else st)

/-- `Formula::undoTheory`. -/
def undoTheory (s : Formula) (level : Int) : Formula :=
  let vars := List.range' 1 (s.VARLIST.length - 1)
  let s1 := vars.foldl
    (fun s i => (List.range (s.var i).DOMAINSIZE).foldl (undoAdd level i) s) s
  let s2 := vars.foldl (undoVar level) s1
  { s2 with DECSTACK := undoStack s2 s2.DECSTACK.length s2.DECSTACK }

/-! ## Loading a problem -/

/-- Modelled from the spec: the constructor `Variable(var, domainsize)` of `Variable.h`,
which is not part of the sources at hand.  Every value is Free (status 0, level -1,
reason None = -1), the counters are 0, the occurrence lists empty, and the variable
is unassigned (`VAL` -1, `SAT` false, `LEVEL` -1). -/
def Variable.new (var dom : Nat) : Variable :=
  { VAR := var, VAL := -1, DOMAINSIZE := dom, SAT := false, LEVEL := -1
    ATOMLEVEL := List.replicate dom (-1)
    ATOMASSIGN := List.replicate dom 0
    ATOMCNTPOS := List.replicate dom 0
    ATOMCNTNEG := List.replicate dom 0
    CLAUSEID := List.replicate dom (-1)
    ATOMRECPOS := List.replicate dom []
    ATOMRECNEG := List.replicate dom [] }

/-- Modelled from the spec: `Variable::AddRecord(c_num, val, flag)` of `Variable.h`,
which is not part of the sources at hand: the occurrence list of the atom is
extended by the clause id. -/
def Variable.AddRecord (V : Variable) (c_num val : Nat) (flag : Bool) : Variable :=
  if flag then { V with ATOMRECPOS := modifyAt V.ATOMRECPOS val (fun l => l ++ [c_num]) }
  else { V with ATOMRECNEG := modifyAt V.ATOMRECNEG val (fun l => l ++ [c_num]) }

/-- Modelled from the spec: a clause object built by `Clause::AddAtom` (`Clause.h`,
not part of the sources at hand) from the given atoms: not satisfied, satisfaction
level -1, every atom counted as unassigned. -/
def Clause.new (atoms : List Literal) : Clause :=
  { ATOM_LIST := atoms, NumUnAss := (atoms.length : Int), SAT := false, LEVEL := -1 }

/-- The state set up by the constructor `Formula::Formula`. -/
def Formula.empty : Formula :=
  { VARLIST := [], HEAP := [], CLAUSELIST := [], DECSTACK := [], UNITLIST := []
    LEVEL := 0, UNITS := 0, BACKTRACKS := 0, DECISIONS := 0, ENTAILS := 0, RESTARTS := 0
    UNITCLAUSE := -1, CONFLICT := false, CONFLICTINGCLAUSE := -1, ENTAILLITERAL := none }

/-- The clause branch of `Formula::BuildFunction` for one input line: the atoms are
counted and recorded under the number of the clause, then the clause is pushed. -/
def addInputClause (s : Formula) (atoms : List Literal) : Formula :=
  let clause_num := s.CLAUSELIST.length
  let s1 := atoms.foldl
    (fun s a =>
      (s.bumpCnt a.VAR a.EQUAL a.VAL 1).setVar a.VAR (fun V => V.AddRecord clause_num a.VAL a.EQUAL))
    s
  { s1 with HEAP := s1.HEAP ++ [Clause.new atoms], CLAUSELIST := s1.CLAUSELIST ++ [s1.HEAP.length] }

/-- `Formula::BuildFunction` on a parsed input: the lines `d v dom` in order, giving
the domain sizes of the variables 1, 2, ..., then the clause lines.  `VARLIST[0]` is
the placeholder `Variable(0, 0)` with `SAT` set. -/
def BuildFunction (doms : List Nat) (clauses : List (List Literal)) : Formula :=
  let v0 := { Variable.new 0 0 with SAT := true }
  let vars := (List.range doms.length).map (fun i => Variable.new (i + 1) (doms.getD i 0))
  clauses.foldl addInputClause { Formula.empty with VARLIST := v0 :: vars }

/-! ## Model verification -/

/-- The statement `CLAUSELIST[c_num]->SAT = true` along an occurrence list. -/
def markSat (s : Formula) (recs : List Nat) : Formula :=
  recs.foldl (fun s c => s.setClause c (fun C => { C with SAT := true })) s

/-- Body of the loop of `verifyModel` over the values `j` of a variable `i` whose
value `val` is not -1. -/
def verifyValue (i : Nat) (val : Int) (s : Formula) (j : Nat) : Formula :=
  if (j : Int) != val then markSat s (s.records i false j) else markSat s (s.records i true j)

/-- Body of the loop of `verifyModel` over the values `j` of a variable `i` that had
no value on entry of the loop. -/
def verifyFree (i : Nat) (s : Formula) (j : Nat) : Formula :=
  if s.assign i j == -1 then markSat s (s.records i false j)
  else s.setVar i (fun V => { V with VAL := (j : Int) })

/-- Body of the loop of `verifyModel` over the variables. -/
def verifyVar (s : Formula) (i : Nat) : Formula :=
  let val := (s.var i).VAL
  if val != -1 then
    (List.range (s.var i).DOMAINSIZE).foldl (verifyValue i val) s
  else
    (List.range (s.var i).DOMAINSIZE).foldl (verifyFree i) s

/-- The state after the loops of `Formula::verifyModel`. -/
def verifyState (s : Formula) : Formula :=
  let s0 := (List.range s.CLAUSELIST.length).foldl
    (fun s i => s.setClause i (fun C => { C with SAT := false })) s
  (List.range' 1 (s0.VARLIST.length - 1)).foldl verifyVar s0

/-- `Formula::verifyModel`. -/
def verifyModel (s : Formula) : Bool := checkSat (verifyState s)

/-! ## Decision heuristic -/

/-- The value of an `int`: the integer `x` brought into the range of 32 bits in two's
complement, from `INT_MIN` = -2147483648 to `INT_MAX` = 2147483647. -/
def int32 (x : Int) : Int := (x + 2147483648) % 4294967296 - 2147483648

/-- Body of the inner loop of `chooseLiteral` on `(max, tvar, tval)`.  The difference
`tmax` is an `int`: it is the difference of the counters when that lies between
`INT_MIN` and `INT_MAX`, and wraps around otherwise. -/
def chooseValue (s : Formula) (i : Nat) (st : Int × Option (Nat × Nat)) (j : Nat) :
    Int × Option (Nat × Nat) :=
  if s.assign i j == 0 then
    let tmax := int32 (s.cntPos i j - s.cntNeg i j)
    if st.1 < tmax then (tmax, some (i, j)) else st
  else st

/-- `Formula::chooseLiteral`: the returned literal, `none` for `NULL`.  The function
also sets `UNITCLAUSE = -1`; the drivers below do that at the call. -/
def chooseLiteral (s : Formula) : Option Literal :=
  let r := (List.range s.VARLIST.length).foldl
    (fun st i =>
      if !(s.var i).SAT then (List.range (s.var i).DOMAINSIZE).foldl (chooseValue s i) st else st)
    ((-2147483648 : Int), none)
  r.2.map (fun p => ⟨p.1, p.2, true⟩)

/-! ## Conflict analysis -/

/-- `Formula::HasAtom`, on the atoms of the clause. -/
def HasAtom (atoms : List Literal) (atom : Literal) : Bool :=
  atoms.any (fun a => a.VAR == atom.VAR && a.EQUAL == atom.EQUAL && a.VAL == atom.VAL)

/-- `Formula::resolve`, on the atom lists of `clause` and `reason`. -/
def resolve (clause : List Literal) (literal : Literal) (reason : List Literal) : List Literal :=
  let r1 := clause.foldl
    (fun res a =>
      if a.VAR != literal.VAR then res ++ [a]
      else if a.VAL == literal.VAL && a.EQUAL != literal.EQUAL then res ++ [a]
      else if a.VAL != literal.VAL && a.EQUAL == literal.EQUAL then res ++ [a]
      else res)
    []
  reason.foldl
    (fun res a =>
      if a.VAR != literal.VAR && !HasAtom res a then res ++ [a]
      else if a.VAL == literal.VAL && a.EQUAL == literal.EQUAL && !HasAtom res a then res ++ [a]
      else if a.VAL != literal.VAL && a.EQUAL != literal.EQUAL && !HasAtom res a then res ++ [a]
      else if a.VAL != literal.VAL && a.EQUAL == literal.EQUAL && a.EQUAL == false
          && !HasAtom res a then res ++ [a]
      else res)
    r1

/-- `Formula::Potent`: exactly one atom of the clause has its `ATOMLEVEL` at the
current level. -/
def Potent (s : Formula) (atoms : List Literal) : Bool :=
  let counter := atoms.foldl
    (fun (n : Nat) a => if s.level a.VAR a.VAL == s.LEVEL then n + 1 else n) 0
  counter == 1

/-- The value returned by `Formula::backtrackLevel`.  Its last branch is
`return LEVEL--`, whose value is the level before the decrement; both drivers store
the returned value in `LEVEL`, which undoes the decrement. -/
def backtrackLevel (s : Formula) (atoms : List Literal) : Int :=
  if atoms.length == 1 then 0
  else
    let max := atoms.foldl
      (fun (max : Int) a =>
        let atom_level := s.level a.VAR a.VAL
        if s.LEVEL > atom_level && max < atom_level then atom_level else max)
      (-1)
    if max != -1 then max else s.LEVEL

/-- The condition of `maxLit`: the stack entry `d` falsifies the atom `current`. -/
def falsifiedBy (current d : Literal) : Bool :=
  (current.VAR == d.VAR && current.VAL == d.VAL && current.EQUAL != d.EQUAL)
  || (current.VAR == d.VAR && current.VAL != d.VAL && current.EQUAL == d.EQUAL && current.EQUAL)

/-- `Formula::maxLit`: the pair `(result[0], result[1])` = `(clindex, index)`. -/
def maxLit (s : Formula) (atoms : List Literal) : Nat × Nat :=
  let decisions := s.DECSTACK.length
  (List.range atoms.length).foldl
    (fun st i =>
      let current := atoms.getD i default
      (List.range decisions).reverse.foldl
        (fun (st : Nat × Nat) j =>
          if falsifiedBy current (s.DECSTACK.getD j default) && decide (st.2 ≤ j) then (i, j) else st)
        st)
    (0, 0)

/-- The argument of `analyzeConflict`: a clause object of the heap, or a resolvent
that is not stored yet. -/
inductive ClauseRef where
  | stored (addr : Nat)
  | fresh (atoms : List Literal)
deriving DecidableEq, Repr

/-- The atoms of the clause behind a reference. -/
def ClauseRef.atoms (s : Formula) : ClauseRef → List Literal
  | .stored a => (s.HEAP.getD a default).ATOM_LIST
  | .fresh atoms => atoms

/-- The statements `clause->NumUnAss = 0; CLAUSELIST.push_back(clause)` of
`analyzeConflict`: a clause of the heap is pushed by its address, so that it is
listed twice; a resolvent becomes a new object of the heap. -/
def pushClause (s : Formula) (r : ClauseRef) : Formula :=
  match r with
  | .stored a =>
    { s with HEAP := modifyAt s.HEAP a (fun C => { C with NumUnAss := 0 })
             CLAUSELIST := s.CLAUSELIST ++ [a] }
  | .fresh atoms =>
    { s with HEAP := s.HEAP ++ [{ Clause.new atoms with NumUnAss := 0 }]
             CLAUSELIST := s.CLAUSELIST ++ [s.HEAP.length] }

/-- The first branch of `analyzeConflict`: the clause is learned.  Its `NumUnAss`
becomes 0, its address is pushed on `CLAUSELIST` and every atom is recorded under
the new clause id. -/
def learnClause (s : Formula) (r : ClauseRef) : Formula :=
  let s1 := pushClause s r
  let cid := s1.CLAUSELIST.length - 1
  (r.atoms s).foldl (fun s a => s.setVar a.VAR (fun V => V.AddRecord cid a.VAL a.EQUAL)) s1

/-- The reason clause built by `analyzeConflict` for the atom `lastFalse`; `index` is
`maxLit(clause)[1]`.  `none` when the source reads outside `DECSTACK` or
`CLAUSELIST`. -/
def reasonAtoms (s : Formula) (lastFalse : Literal) (index : Nat) : Option (List Literal) :=
  let id := s.reason lastFalse.VAR lastFalse.VAL
  if id == -1 then
    (s.DECSTACK.get? index).map (fun f => [⟨f.VAR, f.VAL, true⟩, ⟨f.VAR, f.VAL, false⟩])
  else if id == -2 then
    some ((List.range (s.var lastFalse.VAR).DOMAINSIZE).map (fun i => ⟨lastFalse.VAR, i, true⟩))
  else if 0 ≤ id ∧ id.toNat < s.CLAUSELIST.length then
    some (s.clause id.toNat).ATOM_LIST
  else none

/-- `Formula::analyzeConflict` with the number of resolution steps bounded by `fuel`:
the state with the learned clause, and the atoms of that clause.  `none` when the
bound is reached or the source reads outside a vector. -/
def analyzeConflict : Nat → Formula → ClauseRef → Option (Formula × List Literal)
  | 0, _, _ => none
  | fuel + 1, s, r =>
    let atoms := r.atoms s
    if Potent s atoms then some (learnClause s r, atoms)
    else
      let m := maxLit s atoms
      match atoms.get? m.1 with
      | none => none
      | some lastFalse =>
        match reasonAtoms s lastFalse m.2 with
        | none => none
        | some reason => analyzeConflict fuel s (.fresh (resolve atoms lastFalse reason))

/-! ## Unit propagation and the search drivers -/

/-- The first atom of the clause with `ATOMASSIGN` 0, as found by the scan of
`unitPropagation`. -/
def firstFree (s : Formula) (atoms : List Literal) : Option Literal :=
  atoms.find? (fun a => s.assign a.VAR a.VAL == 0)

/-- One round of the loop of `Formula::unitPropagation`, entered with `UNITLIST`
holding `unit_clause :: rest`. -/
def unitRound (s : Formula) (unit_clause : Nat) (rest : List Nat) : Formula :=
  let s1 := { s with UNITS := s.UNITS + 1, UNITCLAUSE := (unit_clause : Int), UNITLIST := rest }
  if !(s1.clause unit_clause).SAT then
    match firstFree s1 (s1.clause unit_clause).ATOM_LIST with
    | some a =>
      let s2 := s1.setVar a.VAR (fun V => { V with CLAUSEID := V.CLAUSEID.set a.VAL (unit_clause : Int) })
      reduceTheory s2 a.VAR a.EQUAL a.VAL
    | none => s1
  else s1

/-- `Formula::unitPropagation` with the number of rounds bounded by `fuel`; `none`
when the bound is reached. -/
def unitPropagation : Nat → Formula → Option Formula
  | 0, _ => none
  | fuel + 1, s =>
    if s.CONFLICT then some { s with UNITLIST := [] }
    else
      match s.UNITLIST with
      | [] => some s
      | c :: rest => unitPropagation fuel (unitRound s c rest)

/-- What one round of the loop of a driver yields: a return code with the final
state, or the state at the next loop head. -/
inductive Round where
  | ret (code : Nat) (s : Formula)
  | next (s : Formula)
deriving DecidableEq, Repr

/-- The part of a driver round after the conflict branch: `checkUnit`, unit
propagation, and a decision when there is no conflict. -/
def propagateDecide (fuel : Nat) (s : Formula) : Option Formula :=
  let s1 := checkUnit s
  match (if s1.UNITLIST.isEmpty then some s1 else unitPropagation fuel s1) with
  | none => none
  | some s2 =>
    if !s2.CONFLICT then
      match chooseLiteral s2 with
      | some atom =>
        let s3 := { s2 with UNITCLAUSE := -1, DECISIONS := s2.DECISIONS + 1, LEVEL := s2.LEVEL + 1 }
        some (reduceTheory s3 atom.VAR atom.EQUAL atom.VAL)
      | none => some { s2 with UNITCLAUSE := -1 }
    else some s2

/-- The conflict branch of a driver up to its call of `undoTheory`: the conflicting
clause is analysed, `LEVEL` becomes the backtrack level, `BACKTRACKS` is counted and
`CONFLICT` is cleared.  `none` when `analyzeConflict` gives none or
`CONFLICTINGCLAUSE` is no index of `CLAUSELIST`. -/
def conflictStep (inner : Nat) (s : Formula) : Option Formula :=
  if 0 ≤ s.CONFLICTINGCLAUSE ∧ s.CONFLICTINGCLAUSE.toNat < s.CLAUSELIST.length then
    match analyzeConflict inner s (.stored (s.addr s.CONFLICTINGCLAUSE.toNat)) with
    | none => none
    | some (s1, learned) =>
      let s2 := { s1 with LEVEL := backtrackLevel s1 learned }
      some { s2 with BACKTRACKS := s2.BACKTRACKS + 1, CONFLICT := false }
  else none

/-- One round of the loop of `Formula::NonChronoBacktrack()`.  `timeUp` tells whether
the clock has passed `TIMELIMIT`; `inner` bounds the inner loops. -/
def searchRound (inner : Nat) (timeUp : Bool) (s : Formula) : Option Round :=
  if checkSat s then some (.ret 0 s)
  else if timeUp then some (.ret 1 s)
  else if s.CONFLICT then
    if s.LEVEL == 0 then some (.ret 2 s)
    else
      match conflictStep inner s with
      | none => none
      | some s3 => (propagateDecide inner (undoTheory s3 s3.LEVEL)).map .next
  else (propagateDecide inner s).map .next

/-- `Formula::NonChronoBacktrack()` with the number of rounds bounded by `fuel`: the
return code (0 satisfied, 1 time out, 2 unsatisfiable) and the final state.  `clock n`
tells whether the time is up in round `n`.  `none` when a bound is reached. -/
def NonChronoBacktrackFrom (clock : Nat → Bool) (inner : Nat) :
    Nat → Nat → Formula → Option (Nat × Formula)
  | 0, _, _ => none
  | fuel + 1, n, s =>
    match searchRound inner (clock n) s with
    | none => none
    | some (.ret code s1) => some (code, s1)
    | some (.next s1) => NonChronoBacktrackFrom clock inner fuel (n + 1) s1

/-- `Formula::NonChronoBacktrack()` from the first round on. -/
def NonChronoBacktrack (clock : Nat → Bool) (inner fuel : Nat) (s : Formula) :
    Option (Nat × Formula) :=
  NonChronoBacktrackFrom clock inner fuel 0 s

/-- The state at the head of round `n + k` of `Formula::NonChronoBacktrack()`, from
the state `s` at the head of round `n`; `none` when the driver has returned before. -/
def loopHead (clock : Nat → Bool) (inner : Nat) : Nat → Nat → Formula → Option Formula
  | 0, _, s => some s
  | k + 1, n, s =>
    match searchRound inner (clock n) s with
    | some (.next s1) => loopHead clock inner k (n + 1) s1
    | _ => none

/-- One round of the loop of `Formula::NonChronoBacktrack(int restarts)`, on the
state and the local variable `restartCount`. -/
def searchRoundRestart (inner : Nat) (timeUp : Bool) (restarts : Int) (restartCount : Int)
    (s : Formula) : Option (Round × Int) :=
  if checkSat s then some (.ret 0 s, restartCount)
  else if timeUp then some (.ret 1 s, restartCount)
  else if s.CONFLICT then
    if s.LEVEL == 0 then some (.ret 2 s, restartCount)
    else
      match conflictStep inner s with
      | none => none
      | some s3 =>
        if s3.BACKTRACKS == restartCount then
          let s4 := undoTheory s3 0
          (propagateDecide inner { s4 with RESTARTS := s4.RESTARTS + 1 }).map
            (fun t => (.next t, s3.BACKTRACKS + restarts))
        else (propagateDecide inner (undoTheory s3 s3.LEVEL)).map (fun t => (.next t, restartCount))
  else (propagateDecide inner s).map (fun t => (.next t, restartCount))

/-- `Formula::NonChronoBacktrack(int restarts)` with the number of rounds bounded by
`fuel`; as `NonChronoBacktrackFrom`. -/
def NonChronoBacktrackRestartFrom (clock : Nat → Bool) (inner : Nat) (restarts : Int) :
    Nat → Nat → Int → Formula → Option (Nat × Formula)
  | 0, _, _, _ => none
  | fuel + 1, n, restartCount, s =>
    match searchRoundRestart inner (clock n) restarts restartCount s with
    | none => none
    | some (.ret code s1, _) => some (code, s1)
    | some (.next s1, rc) => NonChronoBacktrackRestartFrom clock inner restarts fuel (n + 1) rc s1

/-- `Formula::NonChronoBacktrack(int restarts)` from the first round on. -/
def NonChronoBacktrackRestart (clock : Nat → Bool) (inner : Nat) (restarts : Int) (fuel : Nat)
    (s : Formula) : Option (Nat × Formula) :=
  NonChronoBacktrackRestartFrom clock inner restarts fuel 0 restarts s

/-- The state and `restartCount` at the head of round `n + k` of
`Formula::NonChronoBacktrack(int restarts)`; as `loopHead`. -/
def loopHeadRestart (clock : Nat → Bool) (inner : Nat) (restarts : Int) :
    Nat → Nat → Int → Formula → Option (Formula × Int)
  | 0, _, rc, s => some (s, rc)
  | k + 1, n, rc, s =>
    match searchRoundRestart inner (clock n) restarts rc s with
    | some (.next s1, rc1) => loopHeadRestart clock inner restarts k (n + 1) rc1 s1
    | _ => none

/-! ## The watched-literal checks -/

/-- What `watchedCheckSat` reads of a clause: the field `SAT` of its first watched atom
`WATCHED[0]` and the field `SAT` of its second watched atom `WATCHED[1]`, `none` when
`WATCHED[1]` is the null pointer.  The field `SAT` of an atom is 1 for satisfied, 0 for
falsified and 2 for undefined (`Literal.h`). -/
structure Watched where
  SAT0 : Int
  SAT1 : Option Int
deriving DecidableEq, Repr

/-- `Formula::watchedCheckSat` on the watched atoms of the clauses of `CLAUSELIST`, in
order, and the flag `CONFLICT`: the return value and the flag afterwards. -/
def watchedCheckSat : List Watched → Bool → Int × Bool
  | [], conflict => (1, conflict)
  | w :: ws, conflict =>
    if w.SAT0 == 0 && (w.SAT1 == none || w.SAT1 == some 0) then (0, true)
    else if w.SAT0 == 2 then (2, conflict)
    else watchedCheckSat ws conflict

/-! ## The watched-literal driver -/

/-- The state of the watched-literal driver: the formula, and the field `SAT` of the
`Literal` objects of the input clauses, `LITSAT[a][i]` for the atom `ATOM_LIST[i]` of
the clause object at address `a` of the heap (1 satisfied, 0 falsified, 2 undefined).
`BuildFunction` under `cline->WATCH` sets `WATCHED[0]` to `ATOM_LIST[0]`, and
`WATCHED[1]` to `ATOM_LIST[1]`, or to `NULL` when the clause has one atom; no other
statement of `Formula.cc` assigns a slot `WATCHED[..]`, so that the slots are no part
of the state.  The field `LEVEL` of a `Literal` is written and never read; it is left
out. -/
structure WatchedFormula where
  F : Formula
  LITSAT : List (List Int)
deriving DecidableEq, Repr

/-- `Formula::BuildFunction` under `cline->WATCH`: every `Literal` is constructed with
`SAT = 2` (`Literal_old.h`). -/
def watchedBuild (doms : List Nat) (clauses : List (List Literal)) : WatchedFormula :=
  ⟨BuildFunction doms clauses, clauses.map (fun cl => cl.map (fun _ => 2))⟩

/-- A pointer `Literal*` of the watched-literal functions: the atom `ATOM_LIST[i]` of
the clause `CLAUSELIST[c]`, or the object made by `checkEntail`, which is in no
clause. -/
inductive LitPtr where
  | atom (c i : Nat)
  | entail (var val : Nat)
deriving DecidableEq, Repr

/-- The fields `VAR`, `VAL`, `EQUAL` of the object behind a pointer. -/
def WatchedFormula.lit (w : WatchedFormula) : LitPtr → Literal
  | .atom c i => (w.F.clause c).ATOM_LIST.getD i default
  | .entail var val => ⟨var, val, true⟩

/-- The field `SAT` of the atom `ATOM_LIST[i]` of `CLAUSELIST[c]`; `none` when there
is no such object of an input clause. -/
def WatchedFormula.sat (w : WatchedFormula) (c i : Nat) : Option Int :=
  (w.LITSAT.get? (w.F.addr c)).bind (fun l => l.get? i)

/-- The statement `p->SAT = v`. -/
def WatchedFormula.setSat (w : WatchedFormula) (p : LitPtr) (v : Int) : WatchedFormula :=
  match p with
  | .atom c i => { w with LITSAT := modifyAt w.LITSAT (w.F.addr c) (fun l => l.set i v) }
  | .entail _ _ => w

/-- What the watched-literal functions read of the clause `CLAUSELIST[c]` through its
slots `WATCHED[0]` and `WATCHED[1]`.  `none` when `WATCHED[0]` is no object of an input
clause: the clause is empty, so that `BuildFunction` has read `ATOM_LIST[0]` out of
range, or it is a learned clause, whose slots no statement of `Formula.cc` sets. -/
def WatchedFormula.watched (w : WatchedFormula) (c : Nat) : Option Watched :=
  (w.sat c 0).map (fun s0 => ⟨s0, w.sat c 1⟩)

/-- The watched atoms of the clauses of `CLAUSELIST`, in order; `none` when a slot
`WATCHED[0]` is not determined. -/
def WatchedFormula.allWatched (w : WatchedFormula) : Option (List Watched) :=
  (List.range w.F.CLAUSELIST.length).foldr
    (fun c acc =>
      match w.watched c, acc with
      | some x, some l => some (x :: l)
      | _, _ => none)
    (some [])

/-- The call `watchedCheckSat()`: the value returned, and the state with the flag
`CONFLICT` as the call leaves it. -/
def watchedCheckSatCall (w : WatchedFormula) : Option (Int × WatchedFormula) :=
  w.allWatched.map (fun ws =>
    let r := watchedCheckSat ws w.F.CONFLICT
    (r.1, { w with F := { w.F with CONFLICT := r.2 } }))

/-- The loop of `Formula::watchedCheckUnit` over the clauses `cs`: the pointer
returned (`none` for `NULL`) and the state after the call. -/
def watchedCheckUnitFrom (w : WatchedFormula) : List Nat → Option (Option LitPtr × WatchedFormula)
  | [] => some (none, w)
  | c :: cs =>
    match w.watched c with
    | none => none
    | some x =>
      if x.SAT0 == 2 && (x.SAT1 == none || x.SAT1 == some 0) then some (some (.atom c 0), w)
      else if x.SAT0 == 0 && x.SAT1 == none then
        some (none, { w with F := { w.F with CONFLICT := true } })
      else if x.SAT0 == 0 && x.SAT1 == some 2 then some (some (.atom c 1), w)
      else watchedCheckUnitFrom w cs

/-- `Formula::watchedCheckUnit`. -/
def watchedCheckUnit (w : WatchedFormula) : Option (Option LitPtr × WatchedFormula) :=
  watchedCheckUnitFrom w (List.range w.F.CLAUSELIST.length)

/-- The loop of `Formula::watchedChooseLiteral` over the clauses `cs`: the pointer
returned, `none` for `NULL`. -/
def watchedChooseLiteralFrom (w : WatchedFormula) : List Nat → Option (Option LitPtr)
  | [] => some none
  | c :: cs =>
    match w.sat c 0 with
    | none => none
    | some s0 => if s0 == 2 then some (some (.atom c 0)) else watchedChooseLiteralFrom w cs

/-- `Formula::watchedChooseLiteral`. -/
def watchedChooseLiteral (w : WatchedFormula) : Option (Option LitPtr) :=
  watchedChooseLiteralFrom w (List.range w.F.CLAUSELIST.length)

/-- `Formula::LitisEqual`. -/
def LitisEqual (literal1 literal2 : Literal) : Bool :=
  literal1.VAR == literal2.VAR && literal1.VAL == literal2.VAL
    && literal1.EQUAL == literal2.EQUAL

/-- `Formula::SwapPointer` on the clause `CLAUSELIST[c]`.  Each of its two loops
starts from the local `int i`, which has no initial value, and assigns local pointers
only: `none` when a loop is entered, and no change otherwise. -/
def SwapPointer (w : WatchedFormula) (c : Nat) : Option WatchedFormula :=
  match w.watched c with
  | none => none
  | some x =>
    if x.SAT1 == some 2 then none
    else if x.SAT0 == 2 then none
    else some w

/-- `Formula::watchedSatisfyLiteral(int var, bool equals, int val)`: the loop over the
occurrence list assigns local pointers only.  `none` when `watched2->VAR` is read
with `watched2` being `NULL`. -/
def watchedSatisfyLiteral (w : WatchedFormula) (var : Nat) (equals : Bool) (val : Nat) :
    Option WatchedFormula :=
  (w.F.records var equals val).foldl
    (fun acc c =>
      match acc with
      | none => none
      | some w =>
        match w.watched c with
        | none => none
        | some x =>
          if x.SAT0 != 1 then
            if x.SAT1 == none then none else some w
          else some w)
    (some w)

/-- `Formula::watchedSatisfyLiteral(Literal*)`: the field `SAT` of the object becomes
1; the loop over the occurrence list reads `watched1->SAT` and assigns local pointers
only. -/
def watchedSatisfyLiteralPtr (w : WatchedFormula) (p : LitPtr) : Option WatchedFormula :=
  let w1 := w.setSat p 1
  let literal := w1.lit p
  (w1.F.records literal.VAR literal.EQUAL literal.VAL).foldl
    (fun acc c =>
      match acc with
      | none => none
      | some w => (w.watched c).map (fun _ => w))
    (some w1)

/-- The inner loop of the first loop of `Formula::watchedFalsifyLiteral(Literal*)`, at
the atom `ATOM_LIST[i]` of the clause `CLAUSELIST[c]`. -/
def watchedFalsifyAtom (literal : Literal) (c : Nat) (acc : Option WatchedFormula) (i : Nat) :
    Option WatchedFormula :=
  match acc with
  | none => none
  | some w =>
    let falsified := (w.F.clause c).ATOM_LIST.getD i default
    match w.sat c i with
    | none => none
    | some st =>
      if st == 2 && literal.VAR == falsified.VAR && literal.VAL == falsified.VAL
          && literal.EQUAL != falsified.EQUAL then some (w.setSat (.atom c i) 0)
      else if st == 2 && literal.VAR == falsified.VAR && literal.VAL != falsified.VAL
          && literal.EQUAL == falsified.EQUAL && literal.EQUAL then some (w.setSat (.atom c i) 0)
      else some w

/-- The first loop of `Formula::watchedFalsifyLiteral(Literal*)` at the record of the
clause `CLAUSELIST[c]`.  The counter is indexed by the local `val`, which the function
sets to `literal->VAR`: `none` when that is no index of the counters. -/
def watchedFalsifyClause (literal : Literal) (acc : Option WatchedFormula) (c : Nat) :
    Option WatchedFormula :=
  match acc with
  | none => none
  | some w =>
    if !(w.F.clause c).SAT then
      match (List.range (w.F.clause c).NumAtom).foldl (watchedFalsifyAtom literal c) (some w) with
      | none => none
      | some w1 =>
        let var := literal.VAR
        let val := literal.VAR
        if val < (if literal.EQUAL then (w1.F.var var).ATOMCNTPOS else (w1.F.var var).ATOMCNTNEG).length then
          some { w1 with F := (w1.F.bumpUnAss c (-1)).bumpCnt var literal.EQUAL val (-1) }
        else none
    else some w

/-- The second loop of `Formula::watchedFalsifyLiteral(Literal*)` at the record of the
clause `CLAUSELIST[c]`. -/
def watchedFalsifySwap (literal : Literal) (acc : Option WatchedFormula) (c : Nat) :
    Option WatchedFormula :=
  match acc with
  | none => none
  | some w =>
    match watchedCheckSatCall w with
    | none => none
    | some (r, w1) =>
      match w1.watched c with
      | none => none
      | some x =>
        let watched1 := (w1.F.clause c).ATOM_LIST.getD 0 default
        let watched2 := (w1.F.clause c).ATOM_LIST.getD 1 default
        if r != 0 && x.SAT0 != 1
            && (LitisEqual watched1 literal || (x.SAT1 != none && LitisEqual watched2 literal)) then
          SwapPointer w1 c
        else some w1

/-- `Formula::watchedFalsifyLiteral(Literal*)`. -/
def watchedFalsifyLiteralPtr (w : WatchedFormula) (p : LitPtr) : Option WatchedFormula :=
  let literal := w.lit p
  let recs := w.F.records literal.VAR literal.EQUAL literal.VAL
  match recs.foldl (watchedFalsifyClause literal) (some w) with
  | none => none
  | some w1 =>
    (w1.F.records literal.VAR literal.EQUAL literal.VAL).foldl (watchedFalsifySwap literal) (some w1)

/-- `Formula::watchedFalsifyLiteral(int var, bool equals, int val)`.  The loop moves
to the next record inside its `if` only: `none` when the condition fails at a record,
so that the loop does not end, and when `watched2->VAR` is read with `watched2` being
`NULL`. -/
def watchedFalsifyLiteral (w : WatchedFormula) (var : Nat) (equals : Bool) (val : Nat) :
    Option WatchedFormula :=
  (w.F.records var equals val).foldl
    (fun acc c =>
      match acc with
      | none => none
      | some w =>
        match w.watched c with
        | none => none
        | some x =>
          let watched1 := (w.F.clause c).ATOM_LIST.getD 0 default
          let watched2 := (w.F.clause c).ATOM_LIST.getD 1 default
          if x.SAT0 != 1 then
            if LitisEqual watched1 ⟨var, val, equals⟩ then SwapPointer w c
            else if x.SAT1 == none then none
            else if LitisEqual watched2 ⟨var, val, equals⟩ then SwapPointer w c
            else none
          else none)
    (some w)

/-- One round of the two domain loops of `Formula::watchedReduceTheory`, at the value
`i` of `var`; the loops have no condition on `CONFLICT`. -/
def watchedForbidValue (var : Nat) (equals : Bool) (acc : Option WatchedFormula) (i : Nat) :
    Option WatchedFormula :=
  match acc with
  | none => none
  | some w =>
    if w.F.assign var i == 0 then
      match watchedSatisfyLiteral w var (!equals) i with
      | none => none
      | some w1 =>
        match watchedFalsifyLiteral w1 var equals i with
        | none => none
        | some w2 => some { w2 with F := w2.F.mark var i (-1) }
    else some w

/-- The body of `Formula::watchedReduceTheory` before its entailment check. -/
def watchedReduceLiteral (w : WatchedFormula) (literal : LitPtr) (var : Nat) (equals : Bool)
    (val : Nat) : Option WatchedFormula :=
  let w0 := w.setSat literal 1
  match watchedSatisfyLiteralPtr w0 literal with
  | none => none
  | some w1 =>
    match watchedFalsifyLiteralPtr w1 literal with
    | none => none
    | some w2 =>
      if equals then
        let f3 := w2.F.mark var val 1
        let f4 := f3.setVar var (fun V => { V with VAL := (val : Int), SAT := true, LEVEL := f3.LEVEL })
        let w5 : WatchedFormula :=
          { w2 with F := { f4 with DECSTACK := f4.DECSTACK ++ [w2.lit literal] } }
        let w6 := (List.range val).foldl (watchedForbidValue var equals) (some w5)
        (List.range' (val + 1) ((w5.F.var var).DOMAINSIZE - (val + 1))).foldl
          (watchedForbidValue var equals) w6
      else
        let f3 := w2.F.mark var val (-1)
        some { w2 with F := { f3 with DECSTACK := f3.DECSTACK ++ [w2.lit literal] } }

/-- `Formula::watchedReduceTheory` with the depth of its recursion bounded by `fuel`;
`none` when the bound is reached, and when a callee gives `none`. -/
def watchedReduceTheory : Nat → WatchedFormula → LitPtr → Nat → Bool → Nat → Option WatchedFormula
  | 0, _, _, _, _, _ => none
  | fuel + 1, w, literal, var, equals, val =>
    match watchedReduceLiteral w literal var equals val with
    | none => none
    | some w1 =>
      match checkEntail w1.F var with
      | some k =>
        watchedReduceTheory fuel
          { w1 with F := { w1.F with ENTAILLITERAL := some ⟨var, k, true⟩,
                                     ENTAILS := w1.F.ENTAILS + 1, UNITCLAUSE := -2 } }
          (.entail var k) var true k
      | none => some w1

/-- What one round of the loop of `Formula::WatchedLiterals` yields: a return code with
the final state, or the state at the next loop head. -/
inductive WatchedRound where
  | ret (code : Nat) (w : WatchedFormula)
  | next (w : WatchedFormula)
deriving DecidableEq, Repr

/-- The part of a round of `Formula::WatchedLiterals` after the conflict branch: a unit
literal is propagated, or a decision is made when there is no conflict. -/
def watchedPropagateDecide (inner : Nat) (w : WatchedFormula) : Option WatchedFormula :=
  match watchedCheckUnit w with
  | none => none
  | some (some unit, w1) =>
    watchedReduceTheory inner w1 unit (w1.lit unit).VAR (w1.lit unit).EQUAL (w1.lit unit).VAL
  | some (none, w1) =>
    if !w1.F.CONFLICT then
      match watchedChooseLiteral w1 with
      | none => none
      | some (some atom) =>
        let w2 : WatchedFormula :=
          { w1 with F := { w1.F with DECISIONS := w1.F.DECISIONS + 1, LEVEL := w1.F.LEVEL + 1,
                                     UNITCLAUSE := -1 } }
        let w3 := w2.setSat atom 1
        watchedReduceTheory inner w3 atom (w3.lit atom).VAR (w3.lit atom).EQUAL (w3.lit atom).VAL
      | some none => some w1
    else some w1

/-- One round of the loop of `Formula::WatchedLiterals`.  `timeUp` tells whether the
clock has passed `TIMELIMIT`; `inner` bounds the inner recursions. -/
def watchedRound (inner : Nat) (timeUp : Bool) (w : WatchedFormula) : Option WatchedRound :=
  match watchedCheckSatCall w with
  | none => none
  | some (r, w1) =>
    if r == 1 then some (.ret 0 w1)
    else if timeUp then some (.ret 1 w1)
    else if w1.F.CONFLICT then
      if w1.F.LEVEL == 0 then some (.ret 2 w1)
      else
        match conflictStep inner w1.F with
        | none => none
        | some f3 =>
          (watchedPropagateDecide inner { w1 with F := undoTheory f3 f3.LEVEL }).map .next
    else (watchedPropagateDecide inner w1).map .next

/-- `Formula::WatchedLiterals` with the number of rounds bounded by `fuel`: the return
code (0 satisfied, 1 time out, 2 unsatisfiable) and the final state.  `clock n` tells
whether the time is up in round `n`.  `none` when a bound is reached, when the run
does not return, and when it reads what the source does not determine. -/
def WatchedLiteralsFrom (clock : Nat → Bool) (inner : Nat) :
    Nat → Nat → WatchedFormula → Option (Nat × WatchedFormula)
  | 0, _, _ => none
  | fuel + 1, n, w =>
    match watchedRound inner (clock n) w with
    | none => none
    | some (.ret code w1) => some (code, w1)
    | some (.next w1) => WatchedLiteralsFrom clock inner fuel (n + 1) w1

/-- `Formula::WatchedLiterals` from the first round on. -/
def WatchedLiterals (clock : Nat → Bool) (inner fuel : Nat) (w : WatchedFormula) :
    Option (Nat × WatchedFormula) :=
  WatchedLiteralsFrom clock inner fuel 0 w

/-! ## Well-formed states and frames -/

/-- The arrays of a variable have one cell per domain value, as allocated by the
constructor of `Variable`. -/
def Variable.WF (V : Variable) : Prop :=
  V.ATOMLEVEL.length = V.DOMAINSIZE ∧ V.ATOMASSIGN.length = V.DOMAINSIZE ∧
  V.CLAUSEID.length = V.DOMAINSIZE ∧ V.ATOMCNTPOS.length = V.DOMAINSIZE ∧
  V.ATOMCNTNEG.length = V.DOMAINSIZE ∧ V.ATOMRECPOS.length = V.DOMAINSIZE ∧
  V.ATOMRECNEG.length = V.DOMAINSIZE

instance (V : Variable) : Decidable V.WF := by unfold Variable.WF; infer_instance

/-- Every variable record of the state has arrays of the size of its domain. -/
def Formula.WF (s : Formula) : Prop := ∀ V ∈ s.VARLIST, V.WF

instance (s : Formula) : Decidable s.WF := by unfold Formula.WF; infer_instance

/-- The variable record without the contents of its two counter arrays. -/
def Variable.status (V : Variable) : Variable :=
  { V with ATOMCNTPOS := V.ATOMCNTPOS.map (fun _ => 0), ATOMCNTNEG := V.ATOMCNTNEG.map (fun _ => 0) }

/-- The states `s` and `t` differ at most in the counters of the variables, the
mutable fields of the clauses, the unit list and the statistics; the conflict flag
is at most raised. -/
structure Frame (s t : Formula) : Prop where
  vars : t.VARLIST.map Variable.status = s.VARLIST.map Variable.status
  atoms : t.HEAP.map Clause.ATOM_LIST = s.HEAP.map Clause.ATOM_LIST
  clist : t.CLAUSELIST = s.CLAUSELIST
  stack : t.DECSTACK = s.DECSTACK
  level : t.LEVEL = s.LEVEL
  unitclause : t.UNITCLAUSE = s.UNITCLAUSE
  conflict : s.CONFLICT = true → t.CONFLICT = true

/-- The cell of value `k` of variable `v`: its `ATOMASSIGN`, `ATOMLEVEL` and `CLAUSEID`. -/
def Formula.cell (s : Formula) (v k : Nat) : Int × Int × Int :=
  (s.assign v k, s.level v k, s.reason v k)

/-- The assignment fields `VAL`, `SAT`, `LEVEL` of variable `v`. -/
def Formula.head (s : Formula) (v : Nat) : Int × Bool × Int :=
  ((s.var v).VAL, (s.var v).SAT, (s.var v).LEVEL)

/-- The immutable part of a variable record: its name, its domain size, its occurrence
lists and the sizes of its arrays. -/
def Variable.shape (V : Variable) : Variable :=
  { V with
    VAL := 0, SAT := false, LEVEL := 0
    ATOMLEVEL := V.ATOMLEVEL.map (fun _ => 0)
    ATOMASSIGN := V.ATOMASSIGN.map (fun _ => 0)
    CLAUSEID := V.CLAUSEID.map (fun _ => 0)
    ATOMCNTPOS := V.ATOMCNTPOS.map (fun _ => 0)
    ATOMCNTNEG := V.ATOMCNTNEG.map (fun _ => 0) }

/-- The states `s` and `t` have the same variables, domains, occurrence lists and
clauses: they differ at most in what propagation and backtracking write. -/
structure Shape (s t : Formula) : Prop where
  vars : t.VARLIST.map Variable.shape = s.VARLIST.map Variable.shape
  atoms : t.HEAP.map Clause.ATOM_LIST = s.HEAP.map Clause.ATOM_LIST
  clist : t.CLAUSELIST = s.CLAUSELIST

/-! ## Statements about backtracking -/

/-- What `undoTheory s L` leaves of the cells set above `L`, with the level and the
reason of a freed cell as parameters: every value `k` of a variable `v` whose
`ATOMLEVEL` was above `L` has `ATOMASSIGN` 0, `ATOMLEVEL` `freeLevel` and `CLAUSEID`
`freeReason`; and a variable whose own `LEVEL` was above `L` has `SAT` false and
`VAL` -1. -/
def UndoRestores (freeLevel freeReason : Int) (s : Formula) (L : Int) : Prop :=
  (∀ v k, 1 ≤ v → v < s.VARLIST.length → k < (s.var v).DOMAINSIZE → L < s.level v k →
    (undoTheory s L).assign v k = 0 ∧ (undoTheory s L).level v k = freeLevel ∧
    (undoTheory s L).reason v k = freeReason) ∧
  (∀ v, 1 ≤ v → v < s.VARLIST.length → L < (s.var v).LEVEL →
    ((undoTheory s L).var v).SAT = false ∧ ((undoTheory s L).var v).VAL = -1)

/-- Every entry of the decision stack is an atom of a declared variable and of a
value of its domain, and the status of that value is not Free. -/
def TrailAssigned (s : Formula) : Prop :=
  ∀ a ∈ s.DECSTACK, 1 ≤ a.VAR ∧ a.VAR < s.VARLIST.length ∧
    a.VAL < (s.var a.VAR).DOMAINSIZE ∧ s.assign a.VAR a.VAL ≠ 0

instance (s : Formula) : Decidable (TrailAssigned s) := by
  unfold TrailAssigned; infer_instance

/-- The levels of the entries of the decision stack do not decrease from the bottom
to the top. -/
def TrailSorted (s : Formula) : Prop :=
  s.DECSTACK.Pairwise (fun a b => s.level a.VAR a.VAL ≤ s.level b.VAR b.VAL)

instance (s : Formula) : Decidable (TrailSorted s) := by
  unfold TrailSorted; infer_instance

/-! ## Example states -/

/-- Two variables with two values each and the clause `1=0 v 2=0`, after the decision
`1=0` at level 1. -/
def exDecided : Formula :=
  reduceTheory { BuildFunction [2, 2] [[⟨1, 0, true⟩, ⟨2, 0, true⟩]] with LEVEL := 1 } 1 true 0

/-- The states `s` and `t` have the same shape, level, current reason, decision stack
and assignment fields of the variables; the conflict flag is at most raised. -/
structure Steady (s t : Formula) : Prop where
  shape : Shape s t
  level : t.LEVEL = s.LEVEL
  unitclause : t.UNITCLAUSE = s.UNITCLAUSE
  stack : t.DECSTACK = s.DECSTACK
  head : ∀ v, t.head v = s.head v
  conflict : s.CONFLICT = true → t.CONFLICT = true

/-! ## The domain invariant -/

/-- Every status is Free (0), Forbidden (-1) or Assigned (1). -/
def Ternary (s : Formula) : Prop :=
  ∀ v < s.VARLIST.length, ∀ k < (s.var v).DOMAINSIZE,
    s.assign v k = 0 ∨ s.assign v k = -1 ∨ s.assign v k = 1

instance (s : Formula) : Decidable (Ternary s) := by unfold Ternary; infer_instance

/-- Each variable has at most one value with `ATOMASSIGN` 1. -/
def AtMostOneAssigned (s : Formula) : Prop :=
  ∀ v < s.VARLIST.length, ∀ k < (s.var v).DOMAINSIZE, ∀ j < (s.var v).DOMAINSIZE,
    s.assign v k = 1 → s.assign v j = 1 → k = j

instance (s : Formula) : Decidable (AtMostOneAssigned s) := by
  unfold AtMostOneAssigned; infer_instance

/-- If a value of a variable has `ATOMASSIGN` 1, every other value of that variable
has `ATOMASSIGN` -1. -/
def OthersForbidden (s : Formula) : Prop :=
  ∀ v < s.VARLIST.length, ∀ k < (s.var v).DOMAINSIZE, ∀ j < (s.var v).DOMAINSIZE,
    s.assign v k = 1 → j = k ∨ s.assign v j = -1

instance (s : Formula) : Decidable (OthersForbidden s) := by
  unfold OthersForbidden; infer_instance

/-- The domain invariant of the specification. -/
def DomainInv (s : Formula) : Prop := AtMostOneAssigned s ∧ OthersForbidden s

instance (s : Formula) : Decidable (DomainInv s) := by unfold DomainInv; infer_instance

/-- No Forbidden value of a variable has a level above the level of the Assigned
value of that variable. -/
def LevelOrdered (s : Formula) : Prop :=
  ∀ v < s.VARLIST.length, ∀ k < (s.var v).DOMAINSIZE, ∀ j < (s.var v).DOMAINSIZE,
    s.assign v k = 1 → s.assign v j = -1 → s.level v j ≤ s.level v k

instance (s : Formula) : Decidable (LevelOrdered s) := by unfold LevelOrdered; infer_instance

/-- One variable with four values, one with two, and the clauses `1=1 v 1=2`,
`1=0 v 2=0`, `1=0 v 2=1`, at the first decision of the search: level 1, reason -1. -/
def exClosure : Formula :=
  { BuildFunction [4, 2]
      [[⟨1, 1, true⟩, ⟨1, 2, true⟩], [⟨1, 0, true⟩, ⟨2, 0, true⟩], [⟨1, 0, true⟩, ⟨2, 1, true⟩]]
    with LEVEL := 1 }

/-! ## Meaning of a problem -/

/-- The atom holds when variable `v` has the value `asg v`. -/
def Literal.holds (asg : Nat → Nat) (a : Literal) : Bool :=
  if a.EQUAL then asg a.VAR == a.VAL else asg a.VAR != a.VAL

/-- Every clause has an atom that holds under `asg`. -/
def satisfies (asg : Nat → Nat) (clauses : List (List Literal)) : Bool :=
  clauses.all (fun c => c.any (fun a => a.holds asg))

/-- The value of each of the variables 1, 2, ... lies in its domain. -/
def inDomains (doms : List Nat) (asg : Nat → Nat) : Prop :=
  ∀ i < doms.length, asg (i + 1) < doms.getD i 0

instance (doms : List Nat) (asg : Nat → Nat) : Decidable (inDomains doms asg) := by
  unfold inDomains; infer_instance

/-- The clauses `1!3 v 1=2 v 1=0`, `1=3 v 1!2`, `1!0`, `1=3 v 1!2` over one variable
with the four values 0..3.  The value 1 satisfies all of them. -/
def exUnsound : List (List Literal) :=
  [[⟨1, 3, false⟩, ⟨1, 2, true⟩, ⟨1, 0, true⟩], [⟨1, 3, true⟩, ⟨1, 2, false⟩], [⟨1, 0, false⟩],
   [⟨1, 3, true⟩, ⟨1, 2, false⟩]]

/-! ## The counter invariant -/

/-- Number of atoms of the clause whose value is Free. -/
def freeAtoms (s : Formula) (C : Clause) : Nat :=
  (C.ATOM_LIST.filter (fun a => s.assign a.VAR a.VAL == 0)).length

/-- The counter invariant of the specification: `NumUnAss` of every clause is the
number of its atoms with a Free value. -/
def CounterInv (s : Formula) : Prop :=
  ∀ c < s.CLAUSELIST.length, (s.clause c).NumUnAss = (freeAtoms s (s.clause c) : Int)

instance (s : Formula) : Decidable (CounterInv s) := by unfold CounterInv; infer_instance

/-- The state `exDecided` before the decision: the loaded problem. -/
def exLoaded : Formula := BuildFunction [2, 2] [[⟨1, 0, true⟩, ⟨2, 0, true⟩]]

/-- A decision on the atom `var equals val` one level up, with all it propagates,
followed by the backtrack to the level before. -/
def decideAndUndo (s : Formula) (var : Nat) (equals : Bool) (val : Nat) : Formula :=
  undoTheory (reduceTheory { s with LEVEL := s.LEVEL + 1 } var equals val) s.LEVEL

/-! ## The level invariant -/

/-- The level invariant of the specification: the current level is not negative and
every value that is not Free has a level between 0 and the current level. -/
def LevelInv (s : Formula) : Prop :=
  0 ≤ s.LEVEL ∧ ∀ v k, s.assign v k ≠ 0 → 0 ≤ s.level v k ∧ s.level v k ≤ s.LEVEL

/-- From `s` to `t` the shape and the level are kept, and every value keeps its status
and level or gets the current level. -/
structure LevelStep (s t : Formula) : Prop where
  shape : Shape s t
  level : t.LEVEL = s.LEVEL
  cells : ∀ v k, (t.assign v k = s.assign v k ∧ t.level v k = s.level v k) ∨
    t.level v k = s.LEVEL

/-- The variable record without the contents of its occurrence lists. -/
def Variable.norecs (V : Variable) : Variable :=
  { V with ATOMRECPOS := V.ATOMRECPOS.map (fun _ => []), ATOMRECNEG := V.ATOMRECNEG.map (fun _ => []) }

/-- What the search keeps of a loaded problem: the arrays of the variables are sized
to their domains, and the placeholder `VARLIST[0]` has no value. -/
def Sized (s : Formula) : Prop := s.WF ∧ (s.var 0).DOMAINSIZE = 0

instance (s : Formula) : Decidable (Sized s) := by unfold Sized; infer_instance

/-! ## The invariants of propagation and backtracking -/

/-- No clause object is listed twice: `CLAUSELIST[c]` is the object number `c`. -/
def NoAlias (s : Formula) : Prop := s.CLAUSELIST = List.range s.HEAP.length

instance (s : Formula) : Decidable (NoAlias s) := by unfold NoAlias; infer_instance

/-- The value of the atom is Free. -/
def Formula.free (s : Formula) (a : Literal) : Bool := s.assign a.VAR a.VAL == 0

/-- The status of the value of the atom agrees with its polarity: 1 for `=`, -1 for `!`. -/
def Formula.holds (s : Formula) (a : Literal) : Bool :=
  if a.EQUAL then s.assign a.VAR a.VAL == 1 else s.assign a.VAR a.VAL == -1

/-- The atom is on the value `k` of the variable `v`. -/
def onCell (v k : Nat) (a : Literal) : Bool := a.VAR == v && a.VAL == k

/-- Every atom of every clause is on a declared variable and a value of its domain. -/
def AtomsInRange (s : Formula) : Prop :=
  ∀ c < s.CLAUSELIST.length, ∀ a ∈ (s.clause c).ATOM_LIST,
    1 ≤ a.VAR ∧ a.VAR < s.VARLIST.length ∧ a.VAL < (s.var a.VAR).DOMAINSIZE

instance (s : Formula) : Decidable (AtomsInRange s) := by unfold AtomsInRange; infer_instance

/-- The occurrence lists are exact: the list of the atom `v e k` holds the clause `c`
as often as the clause holds the atom. -/
def RecordsExact (s : Formula) : Prop :=
  ∀ v < s.VARLIST.length, ∀ k < (s.var v).DOMAINSIZE, ∀ e c,
    (s.records v e k).count c =
      if c < s.CLAUSELIST.length then (s.clause c).ATOM_LIST.count ⟨v, k, e⟩ else 0

/-- The structure of a loaded problem, which propagation and backtracking keep. -/
structure Struct (s : Formula) : Prop where
  sized : Sized s
  noalias : NoAlias s
  atoms : AtomsInRange s
  recs : RecordsExact s

/-- The counter `ATOMCNTPOS[k]` or `ATOMCNTNEG[k]` of variable `v`. -/
def Formula.cnt (s : Formula) (v : Nat) (e : Bool) (k : Nat) : Int :=
  if e then s.cntPos v k else s.cntNeg v k

/-- Number of occurrences of the atom `v e k` in clauses that are not satisfied,
counted along its occurrence list. -/
def Formula.unsatRecs (s : Formula) (v : Nat) (e : Bool) (k : Nat) : Nat :=
  ((s.records v e k).filter (fun c => !(s.clause c).SAT)).length

/-- The state of the values: three statuses, a level between 0 and `LEVEL` for a
value that is not Free, a negative level for a Free one. -/
structure CellInv (s : Formula) : Prop where
  tern : Ternary s
  bound : ∀ v k, s.assign v k ≠ 0 → 0 ≤ s.level v k ∧ s.level v k ≤ s.LEVEL
  free : ∀ v < s.VARLIST.length, ∀ k < (s.var v).DOMAINSIZE, s.assign v k = 0 → s.level v k < 0

/-- The state of the clauses.  A clause that is not satisfied counts its Free atoms in
`NumUnAss`, has `LEVEL` -1 and no atom that holds.  A satisfied clause has `NumUnAss`
0 and an atom that holds whose level is the `LEVEL` of the clause, and none of its
atoms that hold has a lower level. -/
structure ClauseInv (s : Formula) : Prop where
  unsat : ∀ c < s.CLAUSELIST.length, (s.clause c).SAT = false →
    (s.clause c).NumUnAss = (freeAtoms s (s.clause c) : Int) ∧ (s.clause c).LEVEL = -1 ∧
    ∀ a ∈ (s.clause c).ATOM_LIST, s.holds a = false
  sat : ∀ c < s.CLAUSELIST.length, (s.clause c).SAT = true →
    (s.clause c).NumUnAss = 0 ∧
    (∃ a ∈ (s.clause c).ATOM_LIST, s.holds a = true ∧ s.level a.VAR a.VAL = (s.clause c).LEVEL) ∧
    ∀ a ∈ (s.clause c).ATOM_LIST, s.holds a = true → (s.clause c).LEVEL ≤ s.level a.VAR a.VAL

/-- The state of the counters: for a Free value, the number of occurrences of the
atom in clauses that are not satisfied; 0 for a value that is not Free. -/
def CountInv (s : Formula) : Prop :=
  ∀ v < s.VARLIST.length, ∀ k < (s.var v).DOMAINSIZE, ∀ e,
    s.cnt v e k = if s.assign v k = 0 then (s.unsatRecs v e k : Int) else 0

/-- The statements that make the atom `v e k` hold: the clauses with the atom are
satisfied, the opposite atom is removed, and the value gets its status. -/
def setTrue (s : Formula) (v : Nat) (e : Bool) (k : Nat) : Formula :=
  (removeLiteral (satisfyClauses s v e k) v (!e) k).mark v k (if e then 1 else -1)

/-- The body of the loop of `satisfyClauses` for a clause that is not satisfied. -/
def satisfyOne (s : Formula) (c : Nat) : Formula :=
  let s1 := s.setClause c (fun C => { C with SAT := true, LEVEL := s.LEVEL })
  satisfyAtoms c s1 (s1.clause c).ATOM_LIST

/-- The body of the loop of `removeLiteral` for a clause that is not satisfied. -/
def removeOne (s : Formula) (var : Nat) (equals : Bool) (val : Nat) (c : Nat) : Formula :=
  let s1 := (s.bumpUnAss c (-1)).bumpCnt var equals val (-1)
  let s2 := if (s1.clause c).NumUnAss == 1 then { s1 with UNITLIST := c :: s1.UNITLIST } else s1
  if (s2.clause c).NumUnAss == 0 then
    { s2 with CONFLICT := true, CONFLICTINGCLAUSE := (c : Int) }
  else s2

/-- The invariant of propagation and backtracking: the structure of a loaded problem,
a level that is not negative, and the invariants of values, clauses and counters. -/
structure Consistent (s : Formula) : Prop where
  struct : Struct s
  level : 0 ≤ s.LEVEL
  cells : CellInv s
  clauses : ClauseInv s
  counts : CountInv s

/-- The counters agree with a set `K` of values counted as unassigned: a clause that is
not satisfied counts its atoms on values of `K`, and the counter of an atom on a value
of `K` is the number of its occurrences in clauses that are not satisfied. -/
structure Counted (K : Nat → Nat → Bool) (u : Formula) : Prop where
  unass : ∀ c < u.CLAUSELIST.length, (u.clause c).SAT = false →
    (u.clause c).NumUnAss = (((u.clause c).ATOM_LIST.filter (fun a => K a.VAR a.VAL)).length : Int)
  cnt : ∀ v < u.VARLIST.length, ∀ k < (u.var v).DOMAINSIZE, ∀ e,
    u.cnt v e k = if K v k then (u.unsatRecs v e k : Int) else 0

/-- The invariant of the first loop of `undoTheory s L` in the state `u`, when the
values of `P` have been visited: the values and the flags of the clauses are those of
`s`, and the counters count the Free values and the visited values set above `L`. -/
structure AddInv (s : Formula) (L : Int) (P : Nat → Nat → Bool) (u : Formula) : Prop where
  frame : Frame s u
  flags : ∀ c, (u.clause c).SAT = (s.clause c).SAT ∧ (u.clause c).LEVEL = (s.clause c).LEVEL ∧
    ((s.clause c).SAT = true → u.clause c = s.clause c)
  counted : Counted (fun v k => s.assign v k == 0 || (decide (L < s.level v k) && P v k)) u

/-- The body of the loop of `unsatisfyClauses` for a clause satisfied above `level`. -/
def unsatisfyOne (s : Formula) (c : Nat) (level : Int) : Formula :=
  (unsatisfyAtoms c level s (s.clause c).ATOM_LIST).setClause c
    (fun C => { C with LEVEL := -1, SAT := false })

/-- The invariant of the second loop of `undoTheory s L` in the state `u`, when the
values of `P` have been visited: the visited values set above `L` are Free, the
counters count the values that are Free or set above `L` in `s`, a satisfied clause is
as in `s`, and a clause satisfied above `L` by an atom on a visited value is not
satisfied any more. -/
structure UndoInv (s : Formula) (L : Int) (P : Nat → Nat → Bool) (u : Formula) : Prop where
  shape : Shape s u
  level : u.LEVEL = s.LEVEL
  cells : ∀ v k, u.cell v k = if P v k = true ∧ L < s.level v k then (0, -10, -10) else s.cell v k
  counted : Counted (fun v k => decide (s.level v k > L) || s.assign v k == 0) u
  kept : ∀ c, (u.clause c).SAT = true → u.clause c = s.clause c
  reset : ∀ c, (u.clause c).SAT = false → (u.clause c).LEVEL = -1
  low : ∀ c, (s.clause c).SAT = true → (s.clause c).LEVEL ≤ L → (u.clause c).SAT = true
  done : ∀ c < s.CLAUSELIST.length, ∀ a ∈ (s.clause c).ATOM_LIST, s.holds a = true →
    L < s.level a.VAR a.VAL → P a.VAR a.VAL = true → L < (s.clause c).LEVEL →
    (u.clause c).SAT = false

/-! ## Loaded problems and the states reached from them -/

/-- The input is well formed: every atom of every clause is on a declared variable
and on a value of its domain. -/
def WellFormedInput (doms : List Nat) (clauses : List (List Literal)) : Prop :=
  ∀ cl ∈ clauses, ∀ a ∈ cl, 1 ≤ a.VAR ∧ a.VAR ≤ doms.length ∧ a.VAL < doms.getD (a.VAR - 1) 0

instance (doms : List Nat) (clauses : List (List Literal)) :
    Decidable (WellFormedInput doms clauses) := by
  unfold WellFormedInput; infer_instance

/-- The state while a problem is loaded: every value is Free with level -1, every
clause is as built by `Clause.new`, and every counter is the length of the occurrence
list of its atom. -/
structure Loaded (s : Formula) : Prop where
  struct : Struct s
  level : s.LEVEL = 0
  free : ∀ v k, s.assign v k = 0
  levels : ∀ v < s.VARLIST.length, ∀ k < (s.var v).DOMAINSIZE, s.level v k = -1
  fresh : ∀ c < s.CLAUSELIST.length, (s.clause c).SAT = false ∧ (s.clause c).LEVEL = -1 ∧
    (s.clause c).NumUnAss = ((s.clause c).ATOM_LIST.length : Int)
  counts : ∀ v < s.VARLIST.length, ∀ k < (s.var v).DOMAINSIZE, ∀ e,
    s.cnt v e k = ((s.records v e k).length : Int)

/-- The statements of `BuildFunction` for one atom of the clause number `cn`. -/
def recordAtom (cn : Nat) (s : Formula) (a : Literal) : Formula :=
  (s.bumpCnt a.VAR a.EQUAL a.VAL 1).setVar a.VAR (fun V => V.AddRecord cn a.VAL a.EQUAL)

/-- The last statement of the clause branch of `BuildFunction`: the clause built from
the atoms is pushed. -/
def pushInput (u : Formula) (atoms : List Literal) : Formula :=
  { u with
    HEAP := u.HEAP ++ [Clause.new atoms]
    CLAUSELIST := u.CLAUSELIST ++ [u.HEAP.length] }

/-- The assignment `LEVEL = L` of the drivers. -/
def Formula.withLevel (s : Formula) (L : Int) : Formula := { s with LEVEL := L }

/-- The states reached from the loaded problem by propagation and backtracking, as the
drivers do them: a decision one level up, a call of `reduceTheory` on a Free atom,
`checkUnit`, `unitPropagation`, the backtrack `LEVEL = L; undoTheory(L)` to a level
`L` between 0 and the current one, and any change of the fields that are neither
variables nor clauses nor `LEVEL` (statistics, flags, unit list, decision stack). -/
inductive Propagated (doms : List Nat) (clauses : List (List Literal)) : Formula → Prop
  | load : Propagated doms clauses (BuildFunction doms clauses)
  | decision (s : Formula) (v : Nat) (e : Bool) (k : Nat) :
      Propagated doms clauses s → v < s.VARLIST.length → k < (s.var v).DOMAINSIZE →
      s.assign v k = 0 →
      Propagated doms clauses (reduceTheory (s.withLevel (s.LEVEL + 1)) v e k)
  | reduce (s : Formula) (v : Nat) (e : Bool) (k : Nat) :
      Propagated doms clauses s → v < s.VARLIST.length → k < (s.var v).DOMAINSIZE →
      s.assign v k = 0 → Propagated doms clauses (reduceTheory s v e k)
  | check (s : Formula) : Propagated doms clauses s → Propagated doms clauses (checkUnit s)
  | units (fuel : Nat) (s t : Formula) :
      Propagated doms clauses s → unitPropagation fuel s = some t → Propagated doms clauses t
  | undo (s : Formula) (L : Int) :
      Propagated doms clauses s → 0 ≤ L → L ≤ s.LEVEL →
      Propagated doms clauses (undoTheory (s.withLevel L) L)
  | other (s t : Formula) :
      Propagated doms clauses s → t.VARLIST = s.VARLIST → t.HEAP = s.HEAP →
      t.CLAUSELIST = s.CLAUSELIST → t.LEVEL = s.LEVEL → Propagated doms clauses t

/-- Number of occurrences of the atom `v e k` in the clauses of `CLAUSELIST` that
satisfy `p`. -/
def occurrences (s : Formula) (p : Clause → Bool) (v : Nat) (e : Bool) (k : Nat) : Nat :=
  ((List.range s.CLAUSELIST.length).map
    (fun c => if p (s.clause c) then (s.clause c).ATOM_LIST.count ⟨v, k, e⟩ else 0)).sum

/-! ## Statements about conflict analysis -/

/-- The polarity of the atom contradicts the status of its value: Forbidden for `=`,
Assigned for `!`. -/
def Formula.contradicts (s : Formula) (a : Literal) : Bool :=
  if a.EQUAL then s.assign a.VAR a.VAL == -1 else s.assign a.VAR a.VAL == 1

/-- The atom is falsified at the current level: its polarity contradicts the status of
its value and the level of the value is `LEVEL`. -/
def Formula.falsifiedAt (s : Formula) (a : Literal) : Bool :=
  s.contradicts a && s.level a.VAR a.VAL == s.LEVEL

/-- The loop of `backtrackLevel` over the atoms, from the value `m` of `max`. -/
def levelMax (s : Formula) (atoms : List Literal) (m : Int) : Int :=
  atoms.foldl
    (fun (max : Int) a =>
      let atom_level := s.level a.VAR a.VAL
      if s.LEVEL > atom_level && max < atom_level then atom_level else max)
    m

/-- The state of the search on `exClosure` when the conflict is found: the decision
`1=0` has emptied the clause `1=1 v 1=2`. -/
def exConflict : Formula := reduceTheory exClosure 1 true 0

/-- The pair `(clindex, index)` is a hit of `maxLit`: the stack entry `index` falsifies
the atom `clindex` of the clause. -/
def Hit (s : Formula) (atoms : List Literal) (st : Nat × Nat) : Prop :=
  st.1 < atoms.length ∧ st.2 < s.DECSTACK.length ∧
    falsifiedBy (atoms.getD st.1 default) (s.DECSTACK.getD st.2 default) = true

/-- The state `exDecided` after a second decision, `2=1` at level 2. -/
def exTwoLevels : Formula := reduceTheory (exDecided.withLevel 2) 2 true 1

/-! ## Statements about the choice of a decision literal -/

/-- The score of the value `k` of variable `v`, as `chooseLiteral` computes it in its
local `int tmax`: the difference `ATOMCNTPOS[k] - ATOMCNTNEG[k]`, wrapped into the
range of an `int`. -/
def Formula.score (s : Formula) (v k : Nat) : Int := int32 (s.cntPos v k - s.cntNeg v k)

/-- One variable with the single value 0, Free, whose counters are `ATOMCNTPOS[0]` =
`INT_MAX` and `ATOMCNTNEG[0]` = -1: their difference is `INT_MAX + 1`. -/
def exOverflow : Formula :=
  (BuildFunction [1] []).setVar 1
    (fun V => { V with ATOMCNTPOS := [2147483647], ATOMCNTNEG := [-1] })

/-- The value `k` of variable `v` is a candidate of `chooseLiteral`: the variable is not
assigned and the value is Free. -/
def Formula.candidate (s : Formula) (v k : Nat) : Prop :=
  v < s.VARLIST.length ∧ (s.var v).SAT = false ∧ k < (s.var v).DOMAINSIZE ∧ s.assign v k = 0

instance (s : Formula) (v k : Nat) : Decidable (s.candidate v k) := by
  unfold Formula.candidate; infer_instance

/-- The values the two loops of `chooseLiteral` visit, in the order of the visit. -/
def visited (s : Formula) : List (Nat × Nat) :=
  (List.range s.VARLIST.length).flatMap
    (fun i => if !(s.var i).SAT then (List.range (s.var i).DOMAINSIZE).map (fun j => (i, j)) else [])

/-- One variable with the single value 0 and the clause `1!0`, after unit
propagation. -/
def exEmptyDomain : Formula :=
  (unitPropagation 2 (checkUnit (BuildFunction [1] [[⟨1, 0, false⟩]]))).getD Formula.empty

/-! ## Statements about resolution -/

/-- The condition of the first loop of `resolve` under which the atom `b` of the clause
is kept. -/
def keptFromClause (a b : Literal) : Bool :=
  b.VAR != a.VAR || (b.VAL == a.VAL && b.EQUAL != a.EQUAL) || (b.VAL != a.VAL && b.EQUAL == a.EQUAL)

/-- The condition of the second loop of `resolve` under which the atom `b` of the
reason is added when the resolvent does not have it yet. -/
def addedFromReason (a b : Literal) : Bool :=
  b.VAR != a.VAR || (b.VAL == a.VAL && b.EQUAL == a.EQUAL) || (b.VAL != a.VAL && b.EQUAL != a.EQUAL)
    || (b.VAL != a.VAL && b.EQUAL == a.EQUAL && b.EQUAL == false)

/-- The resolvent as the specification words it: the atoms of the clause and of the
reason that are not on the variable and value of the atom `a`. -/
def resolveUnion (clause : List Literal) (a : Literal) (reason : List Literal) : List Literal :=
  (clause ++ reason).filter (fun b => !(b.VAR == a.VAR && b.VAL == a.VAL))

/-- Two variables with two values each and the clause `1!0 v 2=0`, after the decision
`1=0` at level 1: the clause is left with the one Free atom `2=0`. -/
def exUnitPending : Formula :=
  reduceTheory ((BuildFunction [2, 2] [[⟨1, 0, false⟩, ⟨2, 0, true⟩]]).withLevel 1) 1 true 0

/-! ## Statements about the round trip of a decision and a backtrack -/

/-- From `s` to `t` values have only been taken from Free, at the current level: the
shape and the level are kept, every value keeps its status, level and reason or was
Free and is not any more, every variable keeps its assignment or had a Free value and
is assigned at the current level, and the decision stack has grown by atoms that
were Free. -/
structure Grow (s t : Formula) : Prop where
  shape : Shape s t
  level : t.LEVEL = s.LEVEL
  cells : ∀ v k, t.cell v k = s.cell v k ∨
    (s.assign v k = 0 ∧ t.assign v k ≠ 0 ∧ t.level v k = s.LEVEL)
  heads : ∀ v, t.head v = s.head v ∨
    (v < s.VARLIST.length ∧ (∃ k < (s.var v).DOMAINSIZE, s.assign v k = 0) ∧
      (t.var v).LEVEL = s.LEVEL)
  stack : ∃ new, t.DECSTACK = s.DECSTACK ++ new ∧
    ∀ a ∈ new, s.assign a.VAR a.VAL = 0 ∧ t.assign a.VAR a.VAL ≠ 0

/-- The states reached from `S` by a decision on a Free atom one level up and the
propagation that follows it: `reduceTheory` with its entailment, `checkUnit` and
`unitPropagation`. -/
inductive Above (S : Formula) : Formula → Prop
  | decision (v : Nat) (e : Bool) (k : Nat) :
      v < S.VARLIST.length → k < (S.var v).DOMAINSIZE → S.assign v k = 0 →
      Above S (reduceTheory (S.withLevel (S.LEVEL + 1)) v e k)
  | check (u : Formula) : Above S u → Above S (checkUnit u)
  | units (fuel : Nat) (u t : Formula) :
      Above S u → unitPropagation fuel u = some t → Above S t

/-- Every variable is unassigned, with `VAL` -1 and `LEVEL` -1, or was assigned at a
level up to `LEVEL` and has no Free value. -/
def HeadsClosed (s : Formula) : Prop :=
  ∀ v < s.VARLIST.length, s.head v = (-1, false, -1) ∨
    ((s.var v).LEVEL ≤ s.LEVEL ∧ ∀ k < (s.var v).DOMAINSIZE, s.assign v k ≠ 0)

instance (s : Formula) : Decidable (HeadsClosed s) := by unfold HeadsClosed; infer_instance

/-! ## The invariant of the search drivers -/

/-- The atom is on a declared variable and a value of its domain. -/
def Formula.inRange (s : Formula) (a : Literal) : Prop :=
  a.VAR < s.VARLIST.length ∧ a.VAL < (s.var a.VAR).DOMAINSIZE

instance (s : Formula) (a : Literal) : Decidable (s.inRange a) := by
  unfold Formula.inRange; infer_instance

/-- The value `k` of variable `v` has its status from the atom `u` becoming true: `u` is
the atom on that value and holds, or `u` is `v = j` for another value `j` and `k` is
Forbidden. -/
def Formula.madeBy (s : Formula) (v k : Nat) (u : Literal) : Prop :=
  u.VAR = v ∧
    ((u.VAL = k ∧ s.holds u = true) ∨ (u.VAL ≠ k ∧ u.EQUAL = true ∧ s.assign v k = -1))

/-- The decision stack explains the assignment: every entry holds, and every value that
is not Free has its status from an entry of the same level. -/
structure Trail (s : Formula) : Prop where
  holds : ∀ d ∈ s.DECSTACK, s.inRange d ∧ s.holds d = true
  setter : ∀ v < s.VARLIST.length, ∀ k < (s.var v).DOMAINSIZE, s.assign v k ≠ 0 →
    ∃ d ∈ s.DECSTACK, s.madeBy v k d ∧ s.level d.VAR d.VAL = s.level v k

/-- The reasons explain the assignment.  A value that is not Free and has a clause as
its reason has its status from an atom `u`, and every other atom of the clause is
falsified at a level up to the level of the value.  An Assigned value with the reason
-2 (entailment) has all other values of its variable Forbidden at levels up to its
own. -/
structure Reasons (s : Formula) : Prop where
  unit : ∀ v < s.VARLIST.length, ∀ k < (s.var v).DOMAINSIZE, s.assign v k ≠ 0 →
    0 ≤ s.reason v k →
    (s.reason v k).toNat < s.CLAUSELIST.length ∧
    ∃ u, s.madeBy v k u ∧ ∀ b ∈ (s.clause (s.reason v k).toNat).ATOM_LIST,
      b = u ∨ (s.contradicts b = true ∧ s.level b.VAR b.VAL ≤ s.level v k)
  entailed : ∀ v < s.VARLIST.length, ∀ k < (s.var v).DOMAINSIZE, s.assign v k = 1 →
    s.reason v k = -2 →
    ∀ i < (s.var v).DOMAINSIZE, i ≠ k → s.assign v i = -1 ∧ s.level v i ≤ s.level v k

/-- The assignment fields of the variables agree with the values: a variable with an
Assigned value has that value, at the level of the value; a variable is assigned only
with an Assigned value; an unassigned variable has `VAL` -1 and `LEVEL` -1; and an
Assigned value has all other values of its variable Forbidden, unless it was assigned
at the current level and `CONFLICT` is raised. -/
structure Heads (s : Formula) : Prop where
  assigned : ∀ v < s.VARLIST.length, ∀ k < (s.var v).DOMAINSIZE, s.assign v k = 1 →
    s.head v = ((k : Int), true, s.level v k)
  sat : ∀ v, 1 ≤ v → v < s.VARLIST.length → (s.var v).SAT = true →
    ∃ k < (s.var v).DOMAINSIZE, s.assign v k = 1
  unsat : ∀ v < s.VARLIST.length, (s.var v).SAT = false → s.head v = (-1, false, -1)
  complete : ∀ v < s.VARLIST.length, ∀ k < (s.var v).DOMAINSIZE, s.assign v k = 1 →
    (s.level v k < s.LEVEL ∨ s.CONFLICT = false) →
    ∀ i < (s.var v).DOMAINSIZE, i ≠ k → s.assign v i = -1 ∧ s.level v i ≤ s.level v k

/-- Unit propagation was complete at every decision: for a level `l` from 1 to `LEVEL`,
a clause without an atom that holds below `l` has two atoms or more that are Free or
have a level from `l` on. -/
def UnitClosed (s : Formula) : Prop :=
  ∀ c < s.CLAUSELIST.length, ∀ l : Int, 1 ≤ l → l ≤ s.LEVEL →
    (∀ a ∈ (s.clause c).ATOM_LIST, s.holds a = true → l ≤ s.level a.VAR a.VAL) →
    2 ≤ ((s.clause c).ATOM_LIST.filter
      (fun a => s.free a || decide (l ≤ s.level a.VAR a.VAL))).length

/-- `CONFLICTINGCLAUSE` is the number of a clause that is not satisfied and has no
unassigned atom. -/
def ConflictValid (s : Formula) : Prop :=
  0 ≤ s.CONFLICTINGCLAUSE ∧ s.CONFLICTINGCLAUSE.toNat < s.CLAUSELIST.length ∧
  (s.clause s.CONFLICTINGCLAUSE.toNat).SAT = false ∧
  (s.clause s.CONFLICTINGCLAUSE.toNat).NumUnAss = 0

/-- The unit list and the conflict flag follow the counters `NumUnAss`.  The clause
`x`, when given, is the unit clause taken from the list to be propagated. -/
structure Queue (x : Option Nat) (s : Formula) : Prop where
  zero : s.CONFLICT = false → ∀ c < s.CLAUSELIST.length, (s.clause c).SAT = false →
    (s.clause c).NumUnAss ≠ 0
  conf : s.CONFLICT = true → ConflictValid s
  units : ∀ c < s.CLAUSELIST.length, some c ≠ x → (s.clause c).SAT = false →
    (s.clause c).NumUnAss = 1 → c ∈ s.UNITLIST
  entries : ∀ c ∈ s.UNITLIST, (s.clause c).SAT = false → (s.clause c).NumUnAss ≤ 1

/-- The invariant of the loop of the search drivers, at the head of a round. -/
structure Deep (s : Formula) : Prop where
  cons : Consistent s
  trail : Trail s
  reasons : Reasons s
  heads : Heads s
  closed : UnitClosed s
  zero : 1 ≤ s.LEVEL → s.CONFLICT = false → ∀ c < s.CLAUSELIST.length,
    (s.clause c).SAT = false → (s.clause c).NumUnAss ≠ 0
  conf : 1 ≤ s.LEVEL → s.CONFLICT = true → ConflictValid s

/-- What `reduceTheory` does to the state `s` for the atom `v e k`, giving `t`: the
value `k` gets its status, level and reason; for an `=` atom other values, Free so
far, are Forbidden with the same level and reason, all of them when `CONFLICT` is not
raised; the atom is pushed on the decision stack, and for an `=` atom the variable is
assigned. -/
structure Lit (s t : Formula) (v : Nat) (e : Bool) (k : Nat) : Prop where
  shape : Shape s t
  level : t.LEVEL = s.LEVEL
  unit : t.UNITCLAUSE = s.UNITCLAUSE
  conflict : s.CONFLICT = true → t.CONFLICT = true
  own : t.cell v k = ((if e then 1 else -1), s.LEVEL, s.UNITCLAUSE)
  others : ∀ v' k', ¬ (v' = v ∧ k' = k) → t.cell v' k' = s.cell v' k' ∨
    (v' = v ∧ e = true ∧ k' < (s.var v).DOMAINSIZE ∧ s.assign v' k' = 0 ∧
      t.cell v' k' = (-1, s.LEVEL, s.UNITCLAUSE))
  stack : t.DECSTACK = s.DECSTACK ++ [⟨v, k, e⟩]
  heads : ∀ v', t.head v' = if e = true ∧ v' = v then ((k : Int), true, s.LEVEL) else s.head v'
  complete : e = true → t.CONFLICT = false → ∀ k' < (s.var v).DOMAINSIZE, k' ≠ k →
    s.assign v k' = 0 → t.cell v k' = (-1, s.LEVEL, s.UNITCLAUSE)

/-- The reason `UNITCLAUSE` fits the atom `v e k` that is about to be made true: a
clause has only falsified atoms beside the atom; the reason -2 of an `=` atom comes
with all other values of the variable Forbidden. -/
def Formula.reasonOK (s : Formula) (v : Nat) (e : Bool) (k : Nat) : Prop :=
  (0 ≤ s.UNITCLAUSE → s.UNITCLAUSE.toNat < s.CLAUSELIST.length ∧
    ∀ b ∈ (s.clause s.UNITCLAUSE.toNat).ATOM_LIST, b = ⟨v, k, e⟩ ∨ s.contradicts b = true) ∧
  (s.UNITCLAUSE = -2 → e = true → ∀ i < (s.var v).DOMAINSIZE, i ≠ k → s.assign v i = -1)

/-- The invariant of unit propagation: the invariants of values, clauses, stack,
reasons and variables, with the unit list and the conflict flag following the
counters.  The clause `x`, when given, is the unit clause being propagated. -/
structure Live (x : Option Nat) (s : Formula) : Prop where
  cons : Consistent s
  trail : Trail s
  reasons : Reasons s
  heads : Heads s
  closed : UnitClosed s
  queue : Queue x s

/-- The state after unit propagation: the invariants of values, clauses, stack,
reasons and variables; without a conflict the unit list is empty and no clause that is
not satisfied is unit or without an unassigned atom; with a conflict
`CONFLICTINGCLAUSE` is a clause without an unassigned atom. -/
structure Settled (s : Formula) : Prop where
  cons : Consistent s
  trail : Trail s
  reasons : Reasons s
  heads : Heads s
  closed : UnitClosed s
  queue : s.CONFLICT = false → Queue none s ∧ s.UNITLIST = []
  conf : s.CONFLICT = true → ConflictValid s

/-! ## Statements about the counters of the search -/

/-- The counters `BACKTRACKS`, `RESTARTS`, `DECISIONS` and `ENTAILS`. -/
def Formula.counters (s : Formula) : Int × Int × Int × Int :=
  (s.BACKTRACKS, s.RESTARTS, s.DECISIONS, s.ENTAILS)

/-- The counters `BACKTRACKS`, `RESTARTS` and `DECISIONS`, which only the drivers
write. -/
def Formula.stats (s : Formula) : Int × Int × Int := (s.BACKTRACKS, s.RESTARTS, s.DECISIONS)

/-! ## Statements about restarts -/

/-- The state of `NonChronoBacktrack(int restarts)` after the statements of the restart
branch, in a round entered in the state `s` with a conflict above level 0: the
conflict is analysed, `LEVEL` is set to the backtrack level, `BACKTRACKS` is counted,
`CONFLICT` is cleared, `undoTheory(0)` is called and `RESTARTS` is counted. -/
def restartState (inner : Nat) (s : Formula) : Option Formula :=
  (conflictStep inner s).map (fun s3 =>
    { undoTheory s3 0 with RESTARTS := (undoTheory s3 0).RESTARTS + 1 })

/-- Two variables with two values each and the clauses `1!0 v 2=1 v 2!0`, `1!1 v 1=0`,
`2!1 v 2!1`: the search finds its first conflict at level 2 and learns a clause with
atoms of the levels 1 and 2. -/
def exRestart : List (List Literal) :=
  [[⟨1, 0, false⟩, ⟨2, 1, true⟩, ⟨2, 0, false⟩], [⟨1, 1, false⟩, ⟨1, 0, true⟩],
   [⟨2, 1, false⟩, ⟨2, 1, false⟩]]

/-- The state at the head of the third round of `NonChronoBacktrack(1)` on `exRestart`:
the conflict at level 2. -/
def exRestartHead : Formula :=
  ((loopHeadRestart (fun _ => false) 10 1 2 0 1 (BuildFunction [2, 2] exRestart)).getD
    (Formula.empty, 0)).1

/-! ## The scenarios of the specification -/

/-- Scenario 2: one variable with three values and the clauses `1!0`, `1!1`. -/
def exEntail : Formula := BuildFunction [3] [[⟨1, 0, false⟩], [⟨1, 1, false⟩]]

/-- Scenario 4: three variables with two values each and the clauses `1=0 v 2=0`,
`1=0 v 2!0`, `1!0 v 3=0`, `1!0 v 3!0`. -/
def exLearn : Formula :=
  BuildFunction [2, 2, 2]
    [[⟨1, 0, true⟩, ⟨2, 0, true⟩], [⟨1, 0, true⟩, ⟨2, 0, false⟩],
     [⟨1, 0, false⟩, ⟨3, 0, true⟩], [⟨1, 0, false⟩, ⟨3, 0, false⟩]]

/-- Scenario 5: one variable with three values and the clauses `1=0 v 1=1`, `1!0`,
`1!1`. -/
def exExclusive : Formula :=
  BuildFunction [3] [[⟨1, 0, true⟩, ⟨1, 1, true⟩], [⟨1, 0, false⟩], [⟨1, 1, false⟩]]

/-- Scenario 1: one variable with two values and the clauses `1=0`, `1!0`. -/
def exUnitsOnly : Formula := BuildFunction [2] [[⟨1, 0, true⟩], [⟨1, 0, false⟩]]

/-! ## Statements about the length of the decision stack -/

/-- The pairs `(v, k)` of a variable and a value of its domain with `ATOMASSIGN` other
than 0. -/
def Formula.nonFree (s : Formula) : List (Nat × Nat) :=
  (List.range s.VARLIST.length).flatMap (fun v =>
    ((List.range (s.var v).DOMAINSIZE).filter (fun k => s.assign v k != 0)).map (fun k => (v, k)))

/-- The pair `(v, k)` is the variable and the value of an entry of `DECSTACK`. -/
def Formula.hasEntry (s : Formula) (p : Nat × Nat) : Bool :=
  s.DECSTACK.any (fun d => d.VAR == p.1 && d.VAL == p.2)

/-- The states reached from the loaded problem by propagation only, as the drivers do
it: a decision one level up, a call of `reduceTheory` on a Free atom, `checkUnit`,
`unitPropagation`, and any change of the fields that are neither variables nor clauses
nor `LEVEL` nor the decision stack (statistics, flags, unit list). -/
inductive Forward (doms : List Nat) (clauses : List (List Literal)) : Formula → Prop
  | load : Forward doms clauses (BuildFunction doms clauses)
  | decision (s : Formula) (v : Nat) (e : Bool) (k : Nat) :
      Forward doms clauses s → v < s.VARLIST.length → k < (s.var v).DOMAINSIZE →
      s.assign v k = 0 →
      Forward doms clauses (reduceTheory (s.withLevel (s.LEVEL + 1)) v e k)
  | reduce (s : Formula) (v : Nat) (e : Bool) (k : Nat) :
      Forward doms clauses s → v < s.VARLIST.length → k < (s.var v).DOMAINSIZE →
      s.assign v k = 0 → Forward doms clauses (reduceTheory s v e k)
  | check (s : Formula) : Forward doms clauses s → Forward doms clauses (checkUnit s)
  | units (fuel : Nat) (s t : Formula) :
      Forward doms clauses s → unitPropagation fuel s = some t → Forward doms clauses t
  | other (s t : Formula) :
      Forward doms clauses s → t.VARLIST = s.VARLIST → t.HEAP = s.HEAP →
      t.CLAUSELIST = s.CLAUSELIST → t.LEVEL = s.LEVEL → t.DECSTACK = s.DECSTACK →
      Forward doms clauses t

/-- The decision stack explains the assignment, and its entries are on different
values. -/
structure Track (s : Formula) : Prop where
  trail : Trail s
  nodup : (s.DECSTACK.map (fun d => (d.VAR, d.VAL))).Nodup

/-! ## Statements about the watched-literal checks -/

/-- The clause has both watched atoms falsified, or its single watched atom
falsified. -/
def Watched.conflicting (w : Watched) : Prop :=
  w.SAT0 = 0 ∧ (w.SAT1 = none ∨ w.SAT1 = some 0)

instance (w : Watched) : Decidable w.conflicting := by
  unfold Watched.conflicting; infer_instance

/-- The fields `SAT` of the watched atoms are 0, 1 or 2. -/
def Watched.ternary (w : Watched) : Prop :=
  (w.SAT0 = 0 ∨ w.SAT0 = 1 ∨ w.SAT0 = 2) ∧
  (w.SAT1 = none ∨ w.SAT1 = some 0 ∨ w.SAT1 = some 1 ∨ w.SAT1 = some 2)

instance (w : Watched) : Decidable w.ternary := by
  unfold Watched.ternary; infer_instance

/-! ## Statements about the verification of a model -/

/-- The atom is true under the assignment of `VAL` to every variable: `v = k` when
`VAL` of `v` is `k`, `v ! k` when it is not. -/
def Formula.trueAt (s : Formula) (a : Literal) : Bool :=
  if a.EQUAL then (s.var a.VAR).VAL == (a.VAL : Int) else (s.var a.VAR).VAL != (a.VAL : Int)

/-- From `s` to `t` clauses have only been marked as satisfied, and variables have at
most got a value `VAL`: the shape and the statuses of the values are kept, `VAL` is
kept outside the variables `T`, and a clause has its flag `SAT` in `t` when it had it
in `s` or is one of the clauses `P`. -/
structure Mark (s t : Formula) (T : Nat → Prop) (P : Nat → Prop) : Prop where
  shape : Shape s t
  assign : ∀ v k, t.assign v k = s.assign v k
  val : ∀ v, ¬ T v → (t.var v).VAL = (s.var v).VAL
  sat : ∀ c < s.CLAUSELIST.length, (t.clause c).SAT = true ↔ ((s.clause c).SAT = true ∨ P c)

/-- The clauses that `verifyModel` marks for the variable `i` in the state `s`: for a
variable with a value, the clauses recorded for `i = VAL` and for `i ! j` with `j`
another value of the domain; for a variable without a value, the clauses recorded for
`i ! j` with `j` Forbidden. -/
def Formula.marks (s : Formula) (i : Nat) (c : Nat) : Prop :=
  if (s.var i).VAL ≠ -1 then
    ∃ j < (s.var i).DOMAINSIZE, c ∈ s.records i (decide ((j : Int) = (s.var i).VAL)) j
  else
    ∃ j < (s.var i).DOMAINSIZE, s.assign i j = -1 ∧ c ∈ s.records i false j

/-- One variable with two values and the clauses `1=0` and `1!1`, after the decision
`1=0` at level 1: the variable has the value 0. -/
def exAssigned : Formula :=
  reduceTheory ((BuildFunction [2] [[⟨1, 0, true⟩], [⟨1, 1, false⟩]]).withLevel 1) 1 true 0

/-! ## Statements about the clauses of conflict analysis -/

/-- Every atom of the clause is on a value of a declared variable and is falsified: its
polarity contradicts the status of its value. -/
def Falsified (s : Formula) (atoms : List Literal) : Prop :=
  ∀ a ∈ atoms, 1 ≤ a.VAR ∧ a.VAR < s.VARLIST.length ∧ a.VAL < (s.var a.VAR).DOMAINSIZE ∧
    s.contradicts a = true

/-- The conflict flag, the conflicting clause, the unit list and the current reason,
which backtracking leaves alone. -/
def Formula.flags (s : Formula) : Bool × Int × List Nat × Int :=
  (s.CONFLICT, s.CONFLICTINGCLAUSE, s.UNITLIST, s.UNITCLAUSE)

/-- The assignment fields of the variables explain the statuses up to the level `L`:
as `Heads`, with the other values of an Assigned value known to be Forbidden when
the value was Assigned below `L`. -/
structure HeadsUpTo (s : Formula) (L : Int) : Prop where
  assigned : ∀ v < s.VARLIST.length, ∀ k < (s.var v).DOMAINSIZE, s.assign v k = 1 →
    s.head v = ((k : Int), true, s.level v k)
  sat : ∀ v, 1 ≤ v → v < s.VARLIST.length → (s.var v).SAT = true →
    ∃ k < (s.var v).DOMAINSIZE, s.assign v k = 1
  unsat : ∀ v < s.VARLIST.length, (s.var v).SAT = false → s.head v = (-1, false, -1)
  complete : ∀ v < s.VARLIST.length, ∀ k < (s.var v).DOMAINSIZE, s.assign v k = 1 →
    s.level v k < L →
    ∀ i < (s.var v).DOMAINSIZE, i ≠ k → s.assign v i = -1 ∧ s.level v i ≤ s.level v k

/-! ## The states of a round of the search drivers -/

/-- The states of a round of a search driver that is entered in the state `s` with the
bound `inner` on the inner loops: the state `s` itself, which the propagation and the
decision of the round before have left; the state after the backtrack of the conflict
branch, `undoTheory(LEVEL)` or, at a restart, `undoTheory(0)` and the count in
`RESTARTS`, with the learned clause in `CLAUSELIST`; and the states after `checkUnit`, after every round of the loop of
`unitPropagation` and after `unitPropagation`. -/
inductive InRound (inner : Nat) (s : Formula) : Formula → Prop
  | head : InRound inner s s
  | backtrack (s3 : Formula) : s.CONFLICT = true → s.LEVEL ≠ 0 →
      conflictStep inner s = some s3 → InRound inner s (undoTheory s3 s3.LEVEL)
  | restart (t : Formula) : s.CONFLICT = true → s.LEVEL ≠ 0 →
      restartState inner s = some t → InRound inner s t
  | check (u : Formula) : InRound inner s u → InRound inner s (checkUnit u)
  | unit (u : Formula) (c : Nat) (rest : List Nat) : InRound inner s u →
      u.CONFLICT = false → u.UNITLIST = c :: rest → InRound inner s (unitRound u c rest)
  | units (u t : Formula) : InRound inner s u → unitPropagation inner u = some t →
      InRound inner s t

/-- The state at the head of the third round of `NonChronoBacktrack()` on scenario 4:
the decision `1=0` and the unit `3=0` have emptied the clause `1!0 v 3!0`. -/
def exLearnConflict : Formula :=
  (loopHead (fun _ => false) 10 2 0 exLearn).getD Formula.empty

/-- The state of scenario 4 after the conflict analysis of the third round: the clause
`1!0` is learned and `LEVEL` is the backtrack level 0. -/
def exLearnStep : Formula := (conflictStep 10 exLearnConflict).getD Formula.empty

/-- The state in which `NonChronoBacktrack()` returns on `exLoaded`. -/
def exLoadedEnd : Formula :=
  ((NonChronoBacktrack (fun _ => false) 10 10 exLoaded).getD (1, Formula.empty)).2

/-- The state `s` is at the head of a round of `NonChronoBacktrack()` or of
`NonChronoBacktrack(int restarts)`, run on the loaded problem with the bound `inner`
on the inner loops. -/
def AtHead (doms : List Nat) (clauses : List (List Literal)) (inner : Nat) (s : Formula) : Prop :=
  (∃ clock k, loopHead clock inner k 0 (BuildFunction doms clauses) = some s) ∨
  ∃ clock restarts k rc,
    loopHeadRestart clock inner restarts k 0 restarts (BuildFunction doms clauses) = some (s, rc)

/-! ## Statements about the frame of backtracking -/

/-- From `s` to `u` every clause object whose `LEVEL` in `s` is at most `L` has kept
its flag `SAT` and its `LEVEL`. -/
def LowKept (L : Int) (s u : Formula) : Prop :=
  ∀ c, (s.clause c).LEVEL ≤ L →
    (u.clause c).SAT = (s.clause c).SAT ∧ (u.clause c).LEVEL = (s.clause c).LEVEL

/-! ## Statements about `removeLiteral` -/

/-- One variable with two values and the clause `1=0 v 1=0`, which holds its atom
twice. -/
def exTwice : Formula := BuildFunction [2] [[⟨1, 0, true⟩, ⟨1, 0, true⟩]]

/-! ## Statements about unit propagation -/

/-- The number of Free values of the variables of the state. -/
def Formula.freeCount (s : Formula) : Nat :=
  ((List.range s.VARLIST.length).map
    (fun v => ((List.range (s.var v).DOMAINSIZE).filter (fun k => s.assign v k == 0)).length)).sum

/-- The state at the head of the second round of `NonChronoBacktrack()` on `exUnsound`:
after the unit `1!0` and the decision `1=3` the clause `1!3 v 1=2 v 1=0` is the
conflict, at level 1. -/
def exUnsoundConflict : Formula :=
  (loopHead (fun _ => false) 10 1 0 (BuildFunction [4] exUnsound)).getD Formula.empty

/-- The clauses `2=0 v 2!2`, `2=0 v 1!1 v 1=0`, `2!1 v 2=2`, `1=1 v 2!0` over a variable
with the values 0, 1 and a variable with the values 0, 1, 2. -/
def exStuck : List (List Literal) :=
  [[⟨2, 0, true⟩, ⟨2, 2, false⟩], [⟨2, 0, true⟩, ⟨1, 1, false⟩, ⟨1, 0, true⟩],
   [⟨2, 1, false⟩, ⟨2, 2, true⟩], [⟨1, 1, true⟩, ⟨2, 0, false⟩]]

/-- The state at the head of the third round of `NonChronoBacktrack()` on `exStuck`:
after the decision `1=0`, the units `2!0` and `2!2` and the entailed `2=1`, the clause
`2!1 v 2=2` is the conflict, at level 1. -/
def exStuckConflict : Formula :=
  (loopHead (fun _ => false) 10 2 0 (BuildFunction [2, 3] exStuck)).getD Formula.empty

/-- The clause `1=0 v 2=0` over two variables with two values each, after the
assignment `1=0` at level 0 and at the first decision of the search: the clause is
satisfied with level 0, and the current level is 1. -/
def exKept : Formula :=
  { reduceTheory (BuildFunction [2, 2] [[⟨1, 0, true⟩, ⟨2, 0, true⟩]]) 1 true 0 with LEVEL := 1 }

/-! ## Basic facts on vectors -/

theorem length_modifyAt {α : Type} (l : List α) (i : Nat) (f : α → α) :
    (modifyAt l i f).length = l.length := by
  induction l generalizing i with
  | nil => rfl
  | cons a as ih => cases i <;> simp [modifyAt, ih]

theorem getD_modifyAt {α : Type} (l : List α) (i j : Nat) (f : α → α) (d : α) :
    (modifyAt l i f).getD j d = if i = j ∧ j < l.length then f (l.getD j d) else l.getD j d := by
  induction l generalizing i j with
  | nil => simp [modifyAt]
  | cons a as ih =>
    cases i with
    | zero => cases j <;> simp [modifyAt]
    | succ i =>
      cases j with
      | zero => simp [modifyAt]
      | succ j => simpa [modifyAt] using ih i j

theorem getD_modifyAt_ne {α : Type} (l : List α) (i j : Nat) (f : α → α) (d : α) (h : i ≠ j) :
    (modifyAt l i f).getD j d = l.getD j d := by
  rw [getD_modifyAt]; simp [h]

theorem getD_modifyAt_self {α : Type} (l : List α) (i : Nat) (f : α → α) (d : α)
    (h : i < l.length) : (modifyAt l i f).getD i d = f (l.getD i d) := by
  rw [getD_modifyAt]; simp [h]

theorem getD_set_eq {α : Type} (l : List α) (i j : Nat) (a d : α) :
    (l.set i a).getD j d = if i = j ∧ j < l.length then a else l.getD j d := by
  induction l generalizing i j with
  | nil => simp
  | cons b bs ih =>
    cases i with
    | zero => cases j <;> simp
    | succ i =>
      cases j with
      | zero => simp
      | succ j => simpa using ih i j

theorem map_modifyAt {α β : Type} (l : List α) (i : Nat) (f : α → α) (g : α → β)
    (h : ∀ a, g (f a) = g a) : (modifyAt l i f).map g = l.map g := by
  induction l generalizing i with
  | nil => rfl
  | cons a as ih => cases i <;> simp [modifyAt, ih, h]

theorem mem_modifyAt {α : Type} (l : List α) (i : Nat) (f : α → α) (P : α → Prop)
    (hl : ∀ a ∈ l, P a) (hf : ∀ a, P a → P (f a)) : ∀ a ∈ modifyAt l i f, P a := by
  induction l generalizing i with
  | nil => intro a ha; simp [modifyAt] at ha
  | cons b bs ih =>
    cases i with
    | zero =>
      intro a ha
      simp only [modifyAt, List.mem_cons] at ha
      rcases ha with rfl | ha
      · exact hf _ (hl _ (List.mem_cons_self _ _))
      · exact hl _ (List.mem_cons_of_mem _ ha)
    | succ i =>
      intro a ha
      simp only [modifyAt, List.mem_cons] at ha
      rcases ha with rfl | ha
      · exact hl _ (List.mem_cons_self _ _)
      · exact ih i (fun a ha => hl _ (List.mem_cons_of_mem _ ha)) a ha

/-! ## Frames of the counter updates -/

theorem frame_refl (s : Formula) : Frame s s := ⟨rfl, rfl, rfl, rfl, rfl, rfl, id⟩

theorem frame_trans {s t u : Formula} (h1 : Frame s t) (h2 : Frame t u) : Frame s u :=
  ⟨h2.vars.trans h1.vars, h2.atoms.trans h1.atoms, h2.clist.trans h1.clist,
   h2.stack.trans h1.stack, h2.level.trans h1.level, h2.unitclause.trans h1.unitclause,
   fun h => h2.conflict (h1.conflict h)⟩

theorem frame_foldl {α : Type} (step : Formula → α → Formula)
    (h : ∀ s a, Frame s (step s a)) (l : List α) (s : Formula) : Frame s (l.foldl step s) := by
  induction l generalizing s with
  | nil => exact frame_refl s
  | cons a as ih => exact frame_trans (h s a) (ih (step s a))

theorem frame_setVar (s : Formula) (v : Nat) (f : Variable → Variable)
    (h : ∀ V, (f V).status = V.status) : Frame s (s.setVar v f) :=
  ⟨map_modifyAt _ _ _ _ h, rfl, rfl, rfl, rfl, rfl, id⟩

theorem frame_setClause (s : Formula) (c : Nat) (f : Clause → Clause)
    (h : ∀ C, (f C).ATOM_LIST = C.ATOM_LIST) : Frame s (s.setClause c f) :=
  ⟨rfl, map_modifyAt _ _ _ _ h, rfl, rfl, rfl, rfl, id⟩

theorem frame_bumpCnt (s : Formula) (v : Nat) (e : Bool) (k : Nat) (d : Int) :
    Frame s (s.bumpCnt v e k d) := by
  apply frame_setVar
  intro V
  cases e <;> simp [Variable.status, length_modifyAt, List.map_const']

theorem frame_bumpUnAss (s : Formula) (c : Nat) (d : Int) : Frame s (s.bumpUnAss c d) :=
  frame_setClause s c _ (fun _ => rfl)

theorem frame_var_status {s t : Formula} (h : Frame s t) (v : Nat) :
    (t.var v).status = (s.var v).status := by
  have h1 := congrArg (fun l => l.getD v (default : Variable).status) h.vars
  simpa [Formula.var, List.getD_map] using h1

theorem frame_satisfyAtoms (c : Nat) (s : Formula) (atoms : List Literal) :
    Frame s (satisfyAtoms c s atoms) := by
  apply frame_foldl
  intro s a
  by_cases h : s.assign a.VAR a.VAL == 0
  · simp only [h, if_true]
    exact frame_trans (frame_bumpUnAss s c (-1)) (frame_bumpCnt _ _ _ _ _)
  · simp only [h]; exact frame_refl s

theorem frame_satisfyClauses (s : Formula) (var : Nat) (equals : Bool) (val : Nat) :
    Frame s (satisfyClauses s var equals val) := by
  apply frame_foldl
  intro s c
  by_cases h : (s.clause c).SAT
  · simp only [h, Bool.not_true, Bool.false_eq_true, if_false]; exact frame_refl s
  · simp only [h, Bool.not_false, if_true]
    exact frame_trans (frame_setClause s c (fun C => { C with SAT := true, LEVEL := s.LEVEL })
      (fun _ => rfl)) (frame_satisfyAtoms _ _ _)

theorem frame_removeLiteral (s : Formula) (var : Nat) (equals : Bool) (val : Nat) :
    Frame s (removeLiteral s var equals val) := by
  apply frame_foldl
  intro s c
  by_cases h : (s.clause c).SAT
  · simp only [h, Bool.not_true, Bool.false_eq_true, if_false]; exact frame_refl s
  · simp only [h, Bool.not_false, if_true]
    have h1 : Frame s ((s.bumpUnAss c (-1)).bumpCnt var equals val (-1)) :=
      frame_trans (frame_bumpUnAss s c (-1)) (frame_bumpCnt _ _ _ _ _)
    split_ifs
    all_goals first
      | exact h1
      | exact frame_trans h1 ⟨rfl, rfl, rfl, rfl, rfl, rfl, id⟩
      | exact frame_trans h1 ⟨rfl, rfl, rfl, rfl, rfl, rfl, fun _ => rfl⟩

theorem frame_addLiteral (s : Formula) (var : Nat) (equals : Bool) (val : Nat) :
    Frame s (addLiteral s var equals val) := by
  apply frame_foldl
  intro s c
  by_cases h : (s.clause c).SAT
  · simp only [h, Bool.not_true, Bool.false_eq_true, if_false]; exact frame_refl s
  · simp only [h, Bool.not_false, if_true]
    exact frame_trans (frame_bumpUnAss s c 1) (frame_bumpCnt _ _ _ _ _)

theorem frame_unsatisfyAtoms (c : Nat) (level : Int) (s : Formula) (atoms : List Literal) :
    Frame s (unsatisfyAtoms c level s atoms) := by
  apply frame_foldl
  intro s a
  split_ifs
  · exact frame_trans (frame_bumpUnAss s c 1) (frame_bumpCnt _ _ _ _ _)
  · exact frame_refl s

theorem frame_unsatisfyClauses (s : Formula) (var : Nat) (equals : Bool) (val : Nat) (level : Int) :
    Frame s (unsatisfyClauses s var equals val level) := by
  apply frame_foldl
  intro s c
  split_ifs
  · exact frame_trans (frame_unsatisfyAtoms _ _ _ _) (frame_setClause _ c _ (fun _ => rfl))
  · exact frame_refl s

/-! ### What a frame keeps -/

theorem frame_length_eq {s t : Formula} (h : Frame s t) : t.VARLIST.length = s.VARLIST.length := by
  simpa using congrArg List.length h.vars

theorem frame_assign_eq {s t : Formula} (h : Frame s t) (v k : Nat) : t.assign v k = s.assign v k := by
  have := congrArg Variable.ATOMASSIGN (frame_var_status h v)
  simpa [Formula.assign, Variable.status] using congrArg (fun l => l.getD k 0) this

theorem frame_level_eq {s t : Formula} (h : Frame s t) (v k : Nat) : t.level v k = s.level v k := by
  have := congrArg Variable.ATOMLEVEL (frame_var_status h v)
  simpa [Formula.level, Variable.status] using congrArg (fun l => l.getD k 0) this

theorem frame_reason_eq {s t : Formula} (h : Frame s t) (v k : Nat) : t.reason v k = s.reason v k := by
  have := congrArg Variable.CLAUSEID (frame_var_status h v)
  simpa [Formula.reason, Variable.status] using congrArg (fun l => l.getD k 0) this

theorem frame_dom_eq {s t : Formula} (h : Frame s t) (v : Nat) :
    (t.var v).DOMAINSIZE = (s.var v).DOMAINSIZE := by
  simpa [Variable.status] using congrArg Variable.DOMAINSIZE (frame_var_status h v)

theorem frame_sat_eq {s t : Formula} (h : Frame s t) (v : Nat) : (t.var v).SAT = (s.var v).SAT := by
  simpa [Variable.status] using congrArg Variable.SAT (frame_var_status h v)

theorem frame_val_eq {s t : Formula} (h : Frame s t) (v : Nat) : (t.var v).VAL = (s.var v).VAL := by
  simpa [Variable.status] using congrArg Variable.VAL (frame_var_status h v)

theorem frame_varLevel_eq {s t : Formula} (h : Frame s t) (v : Nat) :
    (t.var v).LEVEL = (s.var v).LEVEL := by
  simpa [Variable.status] using congrArg Variable.LEVEL (frame_var_status h v)

theorem frame_records_eq {s t : Formula} (h : Frame s t) (v : Nat) (e : Bool) (k : Nat) :
    t.records v e k = s.records v e k := by
  have h1 := congrArg Variable.ATOMRECPOS (frame_var_status h v)
  have h2 := congrArg Variable.ATOMRECNEG (frame_var_status h v)
  simp only [Variable.status] at h1 h2
  simp [Formula.records, h1, h2]

theorem wf_of_status {V W : Variable} (h : W.status = V.status) (hV : V.WF) : W.WF := by
  have e1 := congrArg Variable.ATOMLEVEL h
  have e2 := congrArg Variable.ATOMASSIGN h
  have e3 := congrArg Variable.CLAUSEID h
  have e4 := congrArg (fun V => V.ATOMCNTPOS.length) h
  have e5 := congrArg (fun V => V.ATOMCNTNEG.length) h
  have e6 := congrArg Variable.ATOMRECPOS h
  have e7 := congrArg Variable.ATOMRECNEG h
  have e8 := congrArg Variable.DOMAINSIZE h
  simp only [Variable.status, List.length_map] at e1 e2 e3 e4 e5 e6 e7 e8
  unfold Variable.WF at *
  rw [e1, e2, e3, e4, e5, e6, e7, e8]
  exact hV

theorem wf_iff (s : Formula) : s.WF ↔ ∀ v, v < s.VARLIST.length → (s.var v).WF := by
  constructor
  · intro h v hv
    have : s.var v = s.VARLIST[v] := by simp [Formula.var, List.getD_eq_getElem?_getD, hv]
    rw [this]; exact h _ (List.getElem_mem _)
  · intro h V hV
    obtain ⟨i, hi, rfl⟩ := List.getElem_of_mem hV
    have : s.var i = s.VARLIST[i] := by simp [Formula.var, List.getD_eq_getElem?_getD, hi]
    rw [← this]; exact h i hi

theorem frame_wf {s t : Formula} (h : Frame s t) (hs : s.WF) : t.WF := by
  rw [wf_iff] at *
  intro v hv
  exact wf_of_status (frame_var_status h v) (hs v (frame_length_eq h ▸ hv))

/-! ## Shapes -/

theorem shape_refl (s : Formula) : Shape s s := ⟨rfl, rfl, rfl⟩

theorem shape_trans {s t u : Formula} (h1 : Shape s t) (h2 : Shape t u) : Shape s u :=
  ⟨h2.vars.trans h1.vars, h2.atoms.trans h1.atoms, h2.clist.trans h1.clist⟩

theorem shape_foldl {α : Type} (step : Formula → α → Formula)
    (h : ∀ s a, Shape s (step s a)) (l : List α) (s : Formula) : Shape s (l.foldl step s) := by
  induction l generalizing s with
  | nil => exact shape_refl s
  | cons a as ih => exact shape_trans (h s a) (ih (step s a))

theorem shape_status (V : Variable) : V.status.shape = V.shape := by
  simp [Variable.shape, Variable.status]

theorem shape_of_frame {s t : Formula} (h : Frame s t) : Shape s t := by
  refine ⟨?_, h.atoms, h.clist⟩
  have := congrArg (List.map Variable.shape) h.vars
  simpa [List.map_map, Function.comp_def, shape_status] using this

theorem shape_setVar (s : Formula) (v : Nat) (f : Variable → Variable)
    (h : ∀ V, (f V).shape = V.shape) : Shape s (s.setVar v f) :=
  ⟨map_modifyAt _ _ _ _ h, rfl, rfl⟩

theorem shape_var {s t : Formula} (h : Shape s t) (v : Nat) :
    (t.var v).shape = (s.var v).shape := by
  have h1 := congrArg (fun l => l.getD v (default : Variable).shape) h.vars
  simpa [Formula.var, List.getD_map] using h1

theorem shape_length {s t : Formula} (h : Shape s t) : t.VARLIST.length = s.VARLIST.length := by
  simpa using congrArg List.length h.vars

theorem shape_dom {s t : Formula} (h : Shape s t) (v : Nat) :
    (t.var v).DOMAINSIZE = (s.var v).DOMAINSIZE := by
  simpa [Variable.shape] using congrArg Variable.DOMAINSIZE (shape_var h v)

theorem shape_records {s t : Formula} (h : Shape s t) (v : Nat) (e : Bool) (k : Nat) :
    t.records v e k = s.records v e k := by
  have h1 := congrArg Variable.ATOMRECPOS (shape_var h v)
  have h2 := congrArg Variable.ATOMRECNEG (shape_var h v)
  simp only [Variable.shape] at h1 h2
  simp [Formula.records, h1, h2]

theorem wf_of_shape {V W : Variable} (h : W.shape = V.shape) (hV : V.WF) : W.WF := by
  have e1 := congrArg (fun V => V.ATOMLEVEL.length) h
  have e2 := congrArg (fun V => V.ATOMASSIGN.length) h
  have e3 := congrArg (fun V => V.CLAUSEID.length) h
  have e4 := congrArg (fun V => V.ATOMCNTPOS.length) h
  have e5 := congrArg (fun V => V.ATOMCNTNEG.length) h
  have e6 := congrArg Variable.ATOMRECPOS h
  have e7 := congrArg Variable.ATOMRECNEG h
  have e8 := congrArg Variable.DOMAINSIZE h
  simp only [Variable.shape, List.length_map] at e1 e2 e3 e4 e5 e6 e7 e8
  unfold Variable.WF at *
  rw [e1, e2, e3, e4, e5, e6, e7, e8]
  exact hV

theorem shape_wf {s t : Formula} (h : Shape s t) (hs : s.WF) : t.WF := by
  rw [wf_iff] at *
  intro v hv
  exact wf_of_shape (shape_var h v) (hs v (shape_length h ▸ hv))

theorem shape_addr {s t : Formula} (h : Shape s t) (c : Nat) : t.addr c = s.addr c := by
  have := congrArg List.length h.atoms
  simp only [List.length_map] at this
  simp [Formula.addr, h.clist, this]

theorem shape_atoms {s t : Formula} (h : Shape s t) (c : Nat) :
    (t.clause c).ATOM_LIST = (s.clause c).ATOM_LIST := by
  have h1 := congrArg (fun l => l.getD (s.addr c) (default : Clause).ATOM_LIST) h.atoms
  simp only [List.getD_map] at h1
  simpa [Formula.clause, shape_addr h c] using h1

/-! ## Reading a variable after a write -/

theorem var_setVar (s : Formula) (v u : Nat) (f : Variable → Variable) :
    (s.setVar v f).var u = if v = u ∧ u < s.VARLIST.length then f (s.var u) else s.var u :=
  getD_modifyAt _ _ _ _ _

theorem wf_var {s : Formula} (h : s.WF) {v : Nat} (hv : v < s.VARLIST.length) : (s.var v).WF :=
  (wf_iff s).1 h v hv

/-! ## Backtracking: what `undoTheory` does to the variables -/

theorem frame_undoAdd (L : Int) (i : Nat) (s : Formula) (j : Nat) : Frame s (undoAdd L i s j) := by
  unfold undoAdd
  split_ifs
  · exact frame_addLiteral _ _ _ _
  · exact frame_addLiteral _ _ _ _
  · exact frame_refl s

theorem frame_undoAddLoop (L : Int) (vars : List Nat) (s : Formula) :
    Frame s (vars.foldl
      (fun s i => (List.range (s.var i).DOMAINSIZE).foldl (undoAdd L i) s) s) := by
  apply frame_foldl
  intro s i
  exact frame_foldl _ (fun s j => frame_undoAdd L i s j) _ s

theorem cell_of_frame {s t : Formula} (h : Frame s t) (v k : Nat) : t.cell v k = s.cell v k := by
  simp [Formula.cell, frame_assign_eq h, frame_level_eq h, frame_reason_eq h]

theorem head_of_frame {s t : Formula} (h : Frame s t) (v : Nat) : t.head v = s.head v := by
  simp [Formula.head, frame_sat_eq h, frame_val_eq h, frame_varLevel_eq h]

/-- The state before the three resets of `undoValue`. -/
theorem frame_undoValue_pre (L : Int) (i : Nat) (s : Formula) (j : Nat) :
    Frame s (if s.assign i j == -1 then unsatisfyClauses s i false j L
             else unsatisfyClauses s i true j L) := by
  split_ifs
  · exact frame_unsatisfyClauses _ _ _ _ _
  · exact frame_unsatisfyClauses _ _ _ _ _

theorem undoValue_pos (L : Int) (i : Nat) (s : Formula) (j : Nat) (h : s.level i j > L) :
    undoValue L i s j =
      (if s.assign i j == -1 then unsatisfyClauses s i false j L
       else unsatisfyClauses s i true j L).setVar i (fun V =>
        { V with
          ATOMLEVEL := V.ATOMLEVEL.set j (-10)
          ATOMASSIGN := V.ATOMASSIGN.set j 0
          CLAUSEID := V.CLAUSEID.set j (-10) }) := by
  rw [undoValue, if_pos h]

theorem undoValue_neg (L : Int) (i : Nat) (s : Formula) (j : Nat) (h : ¬ s.level i j > L) :
    undoValue L i s j = s := by
  rw [undoValue, if_neg h]

theorem shape_undoValue (L : Int) (i : Nat) (s : Formula) (j : Nat) :
    Shape s (undoValue L i s j) := by
  by_cases h1 : s.level i j > L
  · rw [undoValue_pos L i s j h1]
    refine shape_trans (shape_of_frame (frame_undoValue_pre L i s j)) (shape_setVar _ _ _ ?_)
    intro V; simp [Variable.shape]
  · rw [undoValue_neg L i s j h1]; exact shape_refl s

theorem stack_undoValue (L : Int) (i : Nat) (s : Formula) (j : Nat) :
    (undoValue L i s j).DECSTACK = s.DECSTACK ∧ (undoValue L i s j).LEVEL = s.LEVEL := by
  by_cases h1 : s.level i j > L
  · rw [undoValue_pos L i s j h1]
    exact ⟨(frame_undoValue_pre L i s j).stack, (frame_undoValue_pre L i s j).level⟩
  · rw [undoValue_neg L i s j h1]; exact ⟨rfl, rfl⟩

theorem head_undoValue (L : Int) (i : Nat) (s : Formula) (j v : Nat) :
    (undoValue L i s j).head v = s.head v := by
  by_cases h1 : s.level i j > L
  · rw [undoValue_pos L i s j h1, ← head_of_frame (frame_undoValue_pre L i s j) v]
    simp only [Formula.head, var_setVar]
    split_ifs <;> rfl
  · rw [undoValue_neg L i s j h1]

theorem cell_undoValue (L : Int) (i : Nat) (s : Formula) (j : Nat) (hwf : s.WF)
    (hi : i < s.VARLIST.length) (hj : j < (s.var i).DOMAINSIZE) (v k : Nat) :
    (undoValue L i s j).cell v k =
      if v = i ∧ k = j ∧ L < s.level i j then (0, -10, -10) else s.cell v k := by
  by_cases h1 : s.level i j > L
  · have hf := frame_undoValue_pre L i s j
    rw [undoValue_pos L i s j h1, ← cell_of_frame hf v k]
    generalize (if s.assign i j == -1 then unsatisfyClauses s i false j L
             else unsatisfyClauses s i true j L) = t at hf
    have hit : i < t.VARLIST.length := by rw [frame_length_eq hf]; exact hi
    have hw := wf_var (frame_wf hf hwf) hit
    have hjt : j < (t.var i).DOMAINSIZE := by rw [frame_dom_eq hf]; exact hj
    obtain ⟨w1, w2, w3, -⟩ := hw
    simp only [Formula.cell, Formula.assign, Formula.level, Formula.reason, var_setVar]
    by_cases hv : i = v
    · subst hv
      simp only [hit, and_self, if_true, getD_set_eq, w1, w2, w3, true_and]
      by_cases hk : j = k
      · subst hk
        have h1' := h1
        simp only [Formula.level, gt_iff_lt, List.getD_eq_getElem?_getD] at h1'
        simp [hjt, h1']
      · have : ¬ k = j := fun h => hk h.symm
        simp [hk, this]
    · have : ¬ v = i := fun h => hv h.symm
      simp [hv, this]
  · have : ¬ L < s.level i j := h1
    rw [undoValue_neg L i s j h1]
    simp [this]

theorem cell_undoValues (L : Int) (i : Nat) (js : List Nat) (hnd : js.Nodup) (s : Formula)
    (hwf : s.WF) (hi : i < s.VARLIST.length) (hjs : ∀ j ∈ js, j < (s.var i).DOMAINSIZE)
    (v k : Nat) :
    (js.foldl (undoValue L i) s).cell v k =
      if v = i ∧ k ∈ js ∧ L < s.level i k then (0, -10, -10) else s.cell v k := by
  induction js generalizing s with
  | nil => simp
  | cons j js ih =>
    have hsh := shape_undoValue L i s j
    have hj := hjs j (List.mem_cons_self _ _)
    rw [List.foldl_cons, ih (List.nodup_cons.1 hnd).2 _ (shape_wf hsh hwf)
      (by rw [shape_length hsh]; exact hi)
      (fun j' hj' => by rw [shape_dom hsh]; exact hjs j' (List.mem_cons_of_mem _ hj'))]
    have hc := cell_undoValue L i s j hwf hi hj
    have hnot : j ∉ js := (List.nodup_cons.1 hnd).1
    have hlev : ∀ k', k' ∈ js → (undoValue L i s j).level i k' = s.level i k' := by
      intro k' hk'
      have hne : ¬ k' = j := fun h => hnot (h ▸ hk')
      have := congrArg (fun c => c.2.1) (hc i k')
      simpa [Formula.cell, hne] using this
    rw [hc v k]
    by_cases hv : v = i
    · subst hv
      by_cases hk : k = j
      · subst hk
        simp [hnot]
      · by_cases hk' : k ∈ js
        · simp [hk, hk', hlev k hk']
        · simp [hk, hk']
    · simp [hv]

theorem shape_undoVar (L : Int) (s : Formula) (i : Nat) : Shape s (undoVar L s i) := by
  unfold undoVar
  have h1 : Shape s ((List.range (s.var i).DOMAINSIZE).foldl (undoValue L i) s) :=
    shape_foldl _ (fun s j => shape_undoValue L i s j) _ s
  simp only
  split_ifs
  · exact shape_trans h1 (shape_setVar _ _ _ (fun V => by simp [Variable.shape]))
  · exact h1

theorem stack_undoValues (L : Int) (i : Nat) (js : List Nat) (s : Formula) :
    (js.foldl (undoValue L i) s).DECSTACK = s.DECSTACK ∧
    (js.foldl (undoValue L i) s).LEVEL = s.LEVEL := by
  induction js generalizing s with
  | nil => exact ⟨rfl, rfl⟩
  | cons j js ih =>
    rw [List.foldl_cons]
    exact ⟨(ih _).1.trans (stack_undoValue L i s j).1, (ih _).2.trans (stack_undoValue L i s j).2⟩

theorem head_undoValues (L : Int) (i : Nat) (js : List Nat) (s : Formula) (v : Nat) :
    (js.foldl (undoValue L i) s).head v = s.head v := by
  induction js generalizing s with
  | nil => rfl
  | cons j js ih => rw [List.foldl_cons, ih, head_undoValue]

theorem stack_undoVar (L : Int) (s : Formula) (i : Nat) :
    (undoVar L s i).DECSTACK = s.DECSTACK ∧ (undoVar L s i).LEVEL = s.LEVEL := by
  unfold undoVar
  simp only
  split_ifs
  · exact stack_undoValues L i _ s
  · exact stack_undoValues L i _ s

theorem cell_undoVar (L : Int) (s : Formula) (i : Nat) (hwf : s.WF)
    (hi : i < s.VARLIST.length) (v k : Nat) :
    (undoVar L s i).cell v k =
      if v = i ∧ k < (s.var i).DOMAINSIZE ∧ L < s.level i k then (0, -10, -10)
      else s.cell v k := by
  have h := cell_undoValues L i (List.range (s.var i).DOMAINSIZE) (List.nodup_range _) s hwf hi
    (fun j hj => List.mem_range.1 hj) v k
  simp only [List.mem_range] at h
  rw [← h]
  unfold undoVar
  simp only
  split_ifs
  · simp only [Formula.cell, Formula.assign, Formula.level, Formula.reason, var_setVar]
    split_ifs <;> rfl
  · rfl

theorem head_undoVar (L : Int) (s : Formula) (i : Nat) (hi : i < s.VARLIST.length) (v : Nat) :
    (undoVar L s i).head v =
      if v = i ∧ L < (s.var i).LEVEL then (-1, false, -1) else s.head v := by
  have h := head_undoValues L i (List.range (s.var i).DOMAINSIZE) s
  have hsh : Shape s ((List.range (s.var i).DOMAINSIZE).foldl (undoValue L i) s) :=
    shape_foldl _ (fun s j => shape_undoValue L i s j) _ s
  have hlev : (((List.range (s.var i).DOMAINSIZE).foldl (undoValue L i) s).var i).LEVEL
      = (s.var i).LEVEL := by
    have := congrArg (fun c => c.2.2) (h i)
    simpa [Formula.head] using this
  unfold undoVar
  simp only [hlev]
  by_cases hl : (s.var i).LEVEL > L
  · simp only [hl, if_true, gt_iff_lt.1 hl, and_true]
    by_cases hv : v = i
    · subst hv
      simp [Formula.head, var_setVar, shape_length hsh, hi]
    · have hv' : ¬ i = v := fun e => hv e.symm
      rw [← h v]
      simp [Formula.head, var_setVar, hv, hv']
  · have : ¬ L < (s.var i).LEVEL := hl
    simp [hl, this, h v]

theorem shape_undoVars (L : Int) (is : List Nat) (s : Formula) :
    Shape s (is.foldl (undoVar L) s) :=
  shape_foldl _ (fun s i => shape_undoVar L s i) _ s

theorem stack_undoVars (L : Int) (is : List Nat) (s : Formula) :
    (is.foldl (undoVar L) s).DECSTACK = s.DECSTACK ∧ (is.foldl (undoVar L) s).LEVEL = s.LEVEL := by
  induction is generalizing s with
  | nil => exact ⟨rfl, rfl⟩
  | cons i is ih =>
    rw [List.foldl_cons]
    exact ⟨(ih _).1.trans (stack_undoVar L s i).1, (ih _).2.trans (stack_undoVar L s i).2⟩

theorem cell_undoVars (L : Int) (is : List Nat) (hnd : is.Nodup) (s : Formula)
    (hwf : s.WF) (his : ∀ i ∈ is, i < s.VARLIST.length) (v k : Nat) :
    (is.foldl (undoVar L) s).cell v k =
      if v ∈ is ∧ k < (s.var v).DOMAINSIZE ∧ L < s.level v k then (0, -10, -10)
      else s.cell v k := by
  induction is generalizing s with
  | nil => simp
  | cons i is ih =>
    have hsh := shape_undoVar L s i
    have hi := his i (List.mem_cons_self _ _)
    rw [List.foldl_cons, ih (List.nodup_cons.1 hnd).2 _ (shape_wf hsh hwf)
      (fun i' hi' => by rw [shape_length hsh]; exact his i' (List.mem_cons_of_mem _ hi'))]
    have hc := cell_undoVar L s i hwf hi
    have hnot : i ∉ is := (List.nodup_cons.1 hnd).1
    have hlev : ∀ v', v' ∈ is → (undoVar L s i).level v' k = s.level v' k := by
      intro v' hv'
      have hne : ¬ v' = i := fun h => hnot (h ▸ hv')
      have := congrArg (fun c => c.2.1) (hc v' k)
      simpa [Formula.cell, hne] using this
    rw [hc v k, shape_dom hsh]
    by_cases hv : v = i
    · subst hv
      simp [hnot]
    · by_cases hv' : v ∈ is
      · simp [hv, hv', hlev v hv']
      · simp [hv, hv']

theorem head_undoVars (L : Int) (is : List Nat) (hnd : is.Nodup) (s : Formula)
    (his : ∀ i ∈ is, i < s.VARLIST.length) (v : Nat) :
    (is.foldl (undoVar L) s).head v =
      if v ∈ is ∧ L < (s.var v).LEVEL then (-1, false, -1) else s.head v := by
  induction is generalizing s with
  | nil => simp
  | cons i is ih =>
    have hsh := shape_undoVar L s i
    have hi := his i (List.mem_cons_self _ _)
    rw [List.foldl_cons, ih (List.nodup_cons.1 hnd).2 _
      (fun i' hi' => by rw [shape_length hsh]; exact his i' (List.mem_cons_of_mem _ hi'))]
    have hc := head_undoVar L s i hi
    have hnot : i ∉ is := (List.nodup_cons.1 hnd).1
    have hlev : ∀ v', v' ∈ is → ((undoVar L s i).var v').LEVEL = (s.var v').LEVEL := by
      intro v' hv'
      have hne : ¬ v' = i := fun h => hnot (h ▸ hv')
      have := congrArg (fun c => c.2.2) (hc v')
      simpa [Formula.head, hne] using this
    rw [hc v]
    by_cases hv : v = i
    · subst hv
      simp [hnot]
    · by_cases hv' : v ∈ is
      · simp [hv, hv', hlev v hv']
      · simp [hv, hv']

/-- The state of `undoTheory` before its last loop. -/
theorem undoTheory_stack_eq (s : Formula) (L : Int) :
    ∃ t, Shape s t ∧ t.DECSTACK = s.DECSTACK ∧ t.LEVEL = s.LEVEL ∧
      (∀ v k, t.cell v k = (undoTheory s L).cell v k) ∧
      (∀ v, t.head v = (undoTheory s L).head v) ∧
      undoTheory s L = { t with DECSTACK := undoStack t t.DECSTACK.length t.DECSTACK } := by
  let vars := List.range' 1 (s.VARLIST.length - 1)
  let s1 := vars.foldl (fun s i => (List.range (s.var i).DOMAINSIZE).foldl (undoAdd L i) s) s
  refine ⟨vars.foldl (undoVar L) s1, ?_, ?_, ?_, fun _ _ => rfl, fun _ => rfl, rfl⟩
  · exact shape_trans (shape_of_frame (frame_undoAddLoop L vars s)) (shape_undoVars L vars s1)
  · exact (stack_undoVars L vars s1).1.trans (frame_undoAddLoop L vars s).stack
  · exact (stack_undoVars L vars s1).2.trans (frame_undoAddLoop L vars s).level

theorem shape_undoTheory (s : Formula) (L : Int) : Shape s (undoTheory s L) := by
  obtain ⟨t, h1, -, -, -, -, h2⟩ := undoTheory_stack_eq s L
  rw [h2]; exact ⟨h1.vars, h1.atoms, h1.clist⟩

theorem level_undoTheory (s : Formula) (L : Int) : (undoTheory s L).LEVEL = s.LEVEL := by
  obtain ⟨t, -, -, h1, -, -, h2⟩ := undoTheory_stack_eq s L
  rw [h2]; exact h1

theorem cell_undoTheory (s : Formula) (L : Int) (hwf : s.WF) (v k : Nat) :
    (undoTheory s L).cell v k =
      if 1 ≤ v ∧ v < s.VARLIST.length ∧ k < (s.var v).DOMAINSIZE ∧ L < s.level v k
      then (0, -10, -10) else s.cell v k := by
  let vars := List.range' 1 (s.VARLIST.length - 1)
  let s1 := vars.foldl (fun s i => (List.range (s.var i).DOMAINSIZE).foldl (undoAdd L i) s) s
  have hf : Frame s s1 := frame_undoAddLoop L vars s
  have hmem : ∀ i, i ∈ vars ↔ 1 ≤ i ∧ i < s.VARLIST.length := by
    intro i; simp only [vars, List.mem_range'_1]; omega
  have h := cell_undoVars L vars (List.nodup_range' _ _) s1 (frame_wf hf hwf)
    (fun i hi => by rw [frame_length_eq hf]; exact ((hmem i).1 hi).2) v k
  rw [frame_dom_eq hf, frame_level_eq hf, cell_of_frame hf] at h
  simp only [hmem, and_assoc] at h
  exact h

theorem head_undoTheory (s : Formula) (L : Int) (v : Nat) :
    (undoTheory s L).head v =
      if 1 ≤ v ∧ v < s.VARLIST.length ∧ L < (s.var v).LEVEL
      then (-1, false, -1) else s.head v := by
  let vars := List.range' 1 (s.VARLIST.length - 1)
  let s1 := vars.foldl (fun s i => (List.range (s.var i).DOMAINSIZE).foldl (undoAdd L i) s) s
  have hf : Frame s s1 := frame_undoAddLoop L vars s
  have hmem : ∀ i, i ∈ vars ↔ 1 ≤ i ∧ i < s.VARLIST.length := by
    intro i; simp only [vars, List.mem_range'_1]; omega
  have h := head_undoVars L vars (List.nodup_range' _ _) s1
    (fun i hi => by rw [frame_length_eq hf]; exact ((hmem i).1 hi).2) v
  rw [frame_varLevel_eq hf, head_of_frame hf] at h
  simp only [hmem, and_assoc] at h
  exact h

/-! ## Backtracking: the decision stack -/

theorem undoStack_eq (s : Formula) (n : Nat) (st : List Literal) (hn : n ≤ st.length) :
    undoStack s n st =
      (st.take n).filter (fun a => !(s.assign a.VAR a.VAL == 0)) ++ st.drop n := by
  induction n generalizing st with
  | zero => simp [undoStack]
  | succ n ih =>
    have hlt : n < st.length := hn
    have hget : st.getD n default = st[n] := by
      simp [List.getD_eq_getElem?_getD, hlt]
    have htake : st.take (n + 1) = st.take n ++ [st[n]] := by
      rw [List.take_succ]; simp [hlt]
    have hdrop : st.drop n = st[n] :: st.drop (n + 1) := by
      simp
    rw [undoStack]
    simp only [hget]
    by_cases hp : s.assign st[n].VAR st[n].VAL == 0
    · simp only [hp, if_true]
      have hlen : n ≤ (st.eraseIdx n).length := by
        rw [List.length_eraseIdx]; simp [hlt]; omega
      rw [ih _ hlen, htake, List.filter_append]
      have e1 : (st.eraseIdx n).take n = st.take n := by
        rw [List.eraseIdx_eq_take_drop_succ, List.take_append_of_le_length (by simp; omega)]
        simp
      have e2 : (st.eraseIdx n).drop n = st.drop (n + 1) := by
        rw [List.eraseIdx_eq_take_drop_succ]
        have : (st.take n).length = n := by simp; omega
        rw [List.drop_append_of_le_length (by omega)]
        simp [List.drop_eq_nil_of_le, this]
      rw [e1, e2]
      simp [hp]
    · simp only [hp, Bool.false_eq_true, if_false]
      rw [ih _ (Nat.le_of_lt hlt), htake, List.filter_append, hdrop]
      simp [hp]

theorem filter_sorted_isPrefix {α : Type} (key : α → Int) (L : Int) (l : List α)
    (h : l.Pairwise (fun a b => key a ≤ key b)) :
    l.filter (fun a => decide (key a ≤ L)) <+: l := by
  induction l with
  | nil => simp
  | cons a l ih =>
    rw [List.pairwise_cons] at h
    by_cases ha : key a ≤ L
    · rw [List.filter_cons_of_pos (by simpa using ha)]
      obtain ⟨t, ht⟩ := ih h.2
      exact ⟨t, by rw [List.cons_append, ht]⟩
    · have hall : l.filter (fun a => decide (key a ≤ L)) = [] := by
        rw [List.filter_eq_nil_iff]
        intro b hb
        have := h.1 b hb
        simp only [decide_eq_true_eq]
        omega
      rw [List.filter_cons_of_neg (by simpa using ha), hall]
      exact ⟨a :: l, rfl⟩

/-! ## Propagation: what `reduceTheory` does to the variables -/

theorem steady_refl (s : Formula) : Steady s s := ⟨shape_refl s, rfl, rfl, rfl, fun _ => rfl, id⟩

theorem steady_trans {s t u : Formula} (h1 : Steady s t) (h2 : Steady t u) : Steady s u :=
  ⟨shape_trans h1.shape h2.shape, h2.level.trans h1.level, h2.unitclause.trans h1.unitclause,
   h2.stack.trans h1.stack, fun v => (h2.head v).trans (h1.head v),
   fun h => h2.conflict (h1.conflict h)⟩

theorem steady_foldl {α : Type} (step : Formula → α → Formula)
    (h : ∀ s a, Steady s (step s a)) (l : List α) (s : Formula) : Steady s (l.foldl step s) := by
  induction l generalizing s with
  | nil => exact steady_refl s
  | cons a as ih => exact steady_trans (h s a) (ih (step s a))

theorem steady_of_frame {s t : Formula} (h : Frame s t) : Steady s t :=
  ⟨shape_of_frame h, h.level, h.unitclause, h.stack, head_of_frame h, h.conflict⟩

theorem steady_mark (s : Formula) (var val : Nat) (a : Int) : Steady s (s.mark var val a) := by
  refine ⟨shape_setVar _ _ _ (fun V => by simp [Variable.shape]), rfl, rfl, rfl, ?_, id⟩
  intro v
  simp only [Formula.mark, Formula.head, var_setVar]
  split_ifs <;> rfl

theorem cell_mark (s : Formula) (var val : Nat) (a : Int) (hwf : s.WF)
    (hv : var < s.VARLIST.length) (hk : val < (s.var var).DOMAINSIZE) (v k : Nat) :
    (s.mark var val a).cell v k =
      if v = var ∧ k = val then (a, s.LEVEL, s.UNITCLAUSE) else s.cell v k := by
  obtain ⟨w1, w2, w3, -⟩ := wf_var hwf hv
  simp only [Formula.mark, Formula.cell, Formula.assign, Formula.level, Formula.reason, var_setVar]
  by_cases h1 : var = v
  · subst h1
    simp only [hv, and_self, if_true, getD_set_eq, w1, w2, w3, true_and]
    by_cases h2 : val = k
    · subst h2; simp [hk]
    · have : ¬ k = val := fun h => h2 h.symm
      simp [h2, this]
  · have : ¬ v = var := fun h => h1 h.symm
    simp [h1, this]

/-- The state of `forbidValue` before its three assignments. -/
theorem frame_forbid_pre (s : Formula) (var i : Nat) :
    Frame s (removeLiteral (satisfyClauses s var false i) var true i) :=
  frame_trans (frame_satisfyClauses s var false i) (frame_removeLiteral _ var true i)

theorem forbidValue_pos (var : Nat) (s : Formula) (i : Nat) (h1 : s.CONFLICT = false)
    (h2 : s.assign var i = 0) :
    forbidValue var s i =
      (removeLiteral (satisfyClauses s var false i) var true i).mark var i (-1) := by
  simp [forbidValue, h1, h2]

theorem forbidValue_neg (var : Nat) (s : Formula) (i : Nat)
    (h : ¬ (s.CONFLICT = false ∧ s.assign var i = 0)) : forbidValue var s i = s := by
  unfold forbidValue
  by_cases h1 : s.CONFLICT = true
  · simp [h1]
  · have h1' : s.CONFLICT = false := by simpa using h1
    have h2 : ¬ s.assign var i = 0 := fun h2 => h ⟨h1', h2⟩
    simp [h1', h2]

theorem steady_forbidValue (var : Nat) (s : Formula) (i : Nat) : Steady s (forbidValue var s i) := by
  by_cases h : s.CONFLICT = false ∧ s.assign var i = 0
  · rw [forbidValue_pos var s i h.1 h.2]
    exact steady_trans (steady_of_frame (frame_forbid_pre s var i)) (steady_mark _ _ _ _)
  · rw [forbidValue_neg var s i h]; exact steady_refl s

theorem cell_forbidValue (var : Nat) (s : Formula) (i : Nat) (hwf : s.WF)
    (hv : var < s.VARLIST.length) (hi : i < (s.var var).DOMAINSIZE) (v k : Nat) :
    (forbidValue var s i).cell v k =
      if v = var ∧ k = i ∧ s.CONFLICT = false ∧ s.assign var i = 0
      then (-1, s.LEVEL, s.UNITCLAUSE) else s.cell v k := by
  by_cases h : s.CONFLICT = false ∧ s.assign var i = 0
  · have hf := frame_forbid_pre s var i
    rw [forbidValue_pos var s i h.1 h.2,
      cell_mark _ var i (-1) (frame_wf hf hwf) (by rw [frame_length_eq hf]; exact hv)
        (by rw [frame_dom_eq hf]; exact hi),
      hf.level, hf.unitclause, cell_of_frame hf]
    simp [h.1, h.2]
  · rw [forbidValue_neg var s i h]
    have : ¬ (v = var ∧ k = i ∧ s.CONFLICT = false ∧ s.assign var i = 0) := fun h' => h h'.2.2
    simp only [this, if_false]

theorem cell_forbidValues (var : Nat) (js : List Nat) (hnd : js.Nodup) (s : Formula)
    (hwf : s.WF) (hv : var < s.VARLIST.length) (hjs : ∀ j ∈ js, j < (s.var var).DOMAINSIZE) :
    (∀ v k, (js.foldl (forbidValue var) s).cell v k = s.cell v k ∨
      (v = var ∧ k ∈ js ∧ s.assign var k = 0 ∧
        (js.foldl (forbidValue var) s).cell v k = (-1, s.LEVEL, s.UNITCLAUSE))) ∧
    ((js.foldl (forbidValue var) s).CONFLICT = false →
      ∀ k ∈ js, s.assign var k = 0 →
        (js.foldl (forbidValue var) s).cell var k = (-1, s.LEVEL, s.UNITCLAUSE)) := by
  induction js generalizing s with
  | nil => exact ⟨fun v k => Or.inl rfl, fun _ k hk => absurd hk (List.not_mem_nil k)⟩
  | cons j js ih =>
    have hst := steady_forbidValue var s j
    have hj := hjs j (List.mem_cons_self _ _)
    have hnot : j ∉ js := (List.nodup_cons.1 hnd).1
    have hc := cell_forbidValue var s j hwf hv hj
    obtain ⟨iha, ihb⟩ := ih (List.nodup_cons.1 hnd).2 (forbidValue var s j)
      (shape_wf hst.shape hwf) (by rw [shape_length hst.shape]; exact hv)
      (fun j' hj' => by rw [shape_dom hst.shape]; exact hjs j' (List.mem_cons_of_mem _ hj'))
    rw [hst.level, hst.unitclause] at iha ihb
    have hsame : ∀ k, k ∈ js → (forbidValue var s j).assign var k = s.assign var k := by
      intro k hk
      have hne : ¬ k = j := fun h => hnot (h ▸ hk)
      have := congrArg (fun c => c.1) (hc var k)
      simpa [Formula.cell, hne] using this
    rw [List.foldl_cons]
    refine ⟨fun v k => ?_, fun hcf k hk hfree => ?_⟩
    · rcases iha v k with h | ⟨h1, h2, h3, h4⟩
      · rw [h, hc v k]
        by_cases hcond : v = var ∧ k = j ∧ s.CONFLICT = false ∧ s.assign var j = 0
        · obtain ⟨e1, e2, e3, e4⟩ := hcond
          subst e1 e2
          right
          exact ⟨rfl, List.mem_cons_self _ _, e4, by simp [e3, e4]⟩
        · left; simp only [hcond, if_false]
      · right
        exact ⟨h1, List.mem_cons_of_mem _ h2, (hsame k h2) ▸ h3, h4⟩
    · have hcf' : (forbidValue var s j).CONFLICT = false := by
        by_contra hne
        have := (steady_foldl _ (fun s a => steady_forbidValue var s a) js _).conflict
          (by simpa using hne)
        rw [this] at hcf; exact Bool.noConfusion hcf
      have hcs : s.CONFLICT = false := by
        by_contra hne
        have := hst.conflict (by simpa using hne)
        rw [this] at hcf'; exact Bool.noConfusion hcf'
      rcases List.mem_cons.1 hk with rfl | hk'
      · rcases iha var k with h | ⟨-, h2, -, -⟩
        · rw [h, hc var k]; simp [hcs, hfree]
        · exact absurd h2 hnot
      · exact ihb hcf k hk' ((hsame k hk').trans hfree)

theorem assignValue_basic (s : Formula) (var val : Nat) :
    Shape s (assignValue s var val) ∧ (assignValue s var val).LEVEL = s.LEVEL ∧
    (assignValue s var val).UNITCLAUSE = s.UNITCLAUSE ∧
    (assignValue s var val).DECSTACK = s.DECSTACK ++ [⟨var, val, true⟩] ∧
    (s.CONFLICT = true → (assignValue s var val).CONFLICT = true) ∧
    (∀ v, (assignValue s var val).head v =
      if v = var ∧ var < s.VARLIST.length then ((val : Int), true, s.LEVEL) else s.head v) := by
  have hf : Frame s (removeLiteral (satisfyClauses s var true val) var false val) :=
    frame_trans (frame_satisfyClauses s var true val) (frame_removeLiteral _ var false val)
  have hm := steady_mark (removeLiteral (satisfyClauses s var true val) var false val) var val 1
  have hst := steady_trans (steady_of_frame hf) hm
  refine ⟨?_, hst.level, hst.unitclause, ?_, hst.conflict, ?_⟩
  · refine shape_trans hst.shape ?_
    exact ⟨map_modifyAt _ _ _ _ (fun V => by simp [Variable.shape]), rfl, rfl⟩
  · exact congrArg (fun l => l ++ [(⟨var, val, true⟩ : Literal)]) hst.stack
  · intro v
    have hlen := shape_length hst.shape
    have hh := hst.head v
    simp only [Formula.head] at hh ⊢
    simp only [assignValue, Formula.var, Formula.setVar, getD_modifyAt, hlen]
    by_cases h1 : var = v
    · subst h1
      by_cases h2 : var < s.VARLIST.length
      · simp [h2, hst.level]
      · simp only [h2, and_false, if_false]
        exact hh
    · have : ¬ v = var := fun h => h1 h.symm
      simp only [h1, this, false_and, if_false]
      exact hh

theorem cell_assignValue (s : Formula) (var val : Nat) (hwf : s.WF)
    (hv : var < s.VARLIST.length) (hk : val < (s.var var).DOMAINSIZE) (v k : Nat) :
    (assignValue s var val).cell v k =
      if v = var ∧ k = val then (1, s.LEVEL, s.UNITCLAUSE) else s.cell v k := by
  have hf : Frame s (removeLiteral (satisfyClauses s var true val) var false val) :=
    frame_trans (frame_satisfyClauses s var true val) (frame_removeLiteral _ var false val)
  have hc := cell_mark _ var val 1 (frame_wf hf hwf) (by rw [frame_length_eq hf]; exact hv)
    (by rw [frame_dom_eq hf]; exact hk) v k
  rw [hf.level, hf.unitclause, cell_of_frame hf] at hc
  rw [← hc]
  simp only [assignValue, Formula.cell, Formula.assign, Formula.level, Formula.reason,
    Formula.var, Formula.setVar, getD_modifyAt]
  split_ifs <;> rfl

/-- The values visited by the two domain loops of `reduceTheory`. -/
theorem domainLoop_mem (val D k : Nat) :
    k ∈ List.range val ++ List.range' (val + 1) (D - (val + 1)) ↔ k < D ∧ k ≠ val ∨ k < val := by
  simp only [List.mem_append, List.mem_range, List.mem_range'_1]
  omega

theorem domainLoop_nodup (val D : Nat) :
    (List.range val ++ List.range' (val + 1) (D - (val + 1))).Nodup := by
  rw [List.nodup_append]
  refine ⟨List.nodup_range _, List.nodup_range' _ _, ?_⟩
  intro a h1 h2
  simp only [List.mem_range, List.mem_range'_1] at h1 h2
  omega

theorem reduceLiteral_true_eq (s : Formula) (var val : Nat) :
    reduceLiteral s var true val =
      (List.range val ++ List.range' (val + 1) ((s.var var).DOMAINSIZE - (val + 1))).foldl
        (forbidValue var) (assignValue s var val) := by
  have h1 : Shape s ((List.range val).foldl (forbidValue var) (assignValue s var val)) :=
    shape_trans (assignValue_basic s var val).1
      (steady_foldl _ (fun s a => steady_forbidValue var s a) _ _).shape
  simp only [reduceLiteral, if_true, List.foldl_append, shape_dom h1]

theorem reduceLiteral_false_eq (s : Formula) (var val : Nat) :
    reduceLiteral s var false val =
      { (removeLiteral (satisfyClauses s var false val) var true val).mark var val (-1) with
        DECSTACK := ((removeLiteral (satisfyClauses s var false val) var true val).mark
          var val (-1)).DECSTACK ++ [⟨var, val, false⟩] } := by
  simp [reduceLiteral]

theorem reduceLiteral_basic (s : Formula) (var : Nat) (equals : Bool) (val : Nat) :
    Shape s (reduceLiteral s var equals val) ∧ (reduceLiteral s var equals val).LEVEL = s.LEVEL ∧
    (reduceLiteral s var equals val).UNITCLAUSE = s.UNITCLAUSE ∧
    (reduceLiteral s var equals val).DECSTACK = s.DECSTACK ++ [⟨var, val, equals⟩] ∧
    (s.CONFLICT = true → (reduceLiteral s var equals val).CONFLICT = true) ∧
    (∀ v, (reduceLiteral s var equals val).head v =
      if equals = true ∧ v = var ∧ var < s.VARLIST.length then ((val : Int), true, s.LEVEL)
      else s.head v) := by
  cases equals with
  | true =>
    rw [reduceLiteral_true_eq]
    obtain ⟨a1, a2, a3, a4, a5, a6⟩ := assignValue_basic s var val
    have hst := steady_foldl _ (fun s a => steady_forbidValue var s a)
      (List.range val ++ List.range' (val + 1) ((s.var var).DOMAINSIZE - (val + 1)))
      (assignValue s var val)
    refine ⟨shape_trans a1 hst.shape, hst.level.trans a2, hst.unitclause.trans a3,
      hst.stack.trans a4, fun h => hst.conflict (a5 h), fun v => ?_⟩
    rw [hst.head v, a6 v]; simp
  | false =>
    rw [reduceLiteral_false_eq]
    have hf := frame_forbid_pre s var val
    have hst := steady_trans (steady_of_frame hf) (steady_mark _ var val (-1))
    refine ⟨⟨hst.shape.vars, hst.shape.atoms, hst.shape.clist⟩, hst.level, hst.unitclause, ?_,
      hst.conflict, fun v => ?_⟩
    · exact congrArg (fun l => l ++ [(⟨var, val, false⟩ : Literal)]) hst.stack
    · simpa using hst.head v

theorem cell_reduceLiteral_false (s : Formula) (var val : Nat) (hwf : s.WF)
    (hv : var < s.VARLIST.length) (hk : val < (s.var var).DOMAINSIZE) (v k : Nat) :
    (reduceLiteral s var false val).cell v k =
      if v = var ∧ k = val then (-1, s.LEVEL, s.UNITCLAUSE) else s.cell v k := by
  rw [reduceLiteral_false_eq]
  have hf := frame_forbid_pre s var val
  have hc := cell_mark _ var val (-1) (frame_wf hf hwf) (by rw [frame_length_eq hf]; exact hv)
    (by rw [frame_dom_eq hf]; exact hk) v k
  rw [hf.level, hf.unitclause, cell_of_frame hf] at hc
  exact hc

theorem cell_reduceLiteral_true (s : Formula) (var val : Nat) (hwf : s.WF)
    (hv : var < s.VARLIST.length) (hk : val < (s.var var).DOMAINSIZE) :
    (reduceLiteral s var true val).cell var val = (1, s.LEVEL, s.UNITCLAUSE) ∧
    (∀ v k, ¬ (v = var ∧ k = val) →
      (reduceLiteral s var true val).cell v k = s.cell v k ∨
      (v = var ∧ k < (s.var var).DOMAINSIZE ∧ s.assign var k = 0 ∧
        (reduceLiteral s var true val).cell v k = (-1, s.LEVEL, s.UNITCLAUSE))) ∧
    ((reduceLiteral s var true val).CONFLICT = false →
      ∀ k < (s.var var).DOMAINSIZE, k ≠ val → s.assign var k = 0 →
        (reduceLiteral s var true val).cell var k = (-1, s.LEVEL, s.UNITCLAUSE)) := by
  obtain ⟨a1, a2, a3, -, -, -⟩ := assignValue_basic s var val
  have hca := cell_assignValue s var val hwf hv hk
  have hmem := domainLoop_mem val (s.var var).DOMAINSIZE
  obtain ⟨ha, hb⟩ := cell_forbidValues var _ (domainLoop_nodup val (s.var var).DOMAINSIZE)
    (assignValue s var val) (shape_wf a1 hwf) (by rw [shape_length a1]; exact hv)
    (fun j hj => by rw [shape_dom a1]; rcases (hmem j).1 hj with h | h <;> omega)
  rw [← reduceLiteral_true_eq, a2, a3] at ha hb
  have hnotmem : val ∉ List.range val ++ List.range' (val + 1) ((s.var var).DOMAINSIZE - (val + 1)) := by
    rw [hmem]; omega
  have hassign : ∀ k, k ≠ val → (assignValue s var val).assign var k = s.assign var k := by
    intro k hne
    have := congrArg (fun c => c.1) (hca var k)
    simpa [Formula.cell, hne] using this
  refine ⟨?_, ?_, ?_⟩
  · rcases ha var val with h | ⟨-, h2, -, -⟩
    · rw [h, hca]; simp
    · exact absurd h2 hnotmem
  · intro v k hne
    rcases ha v k with h | ⟨h1, h2, h3, h4⟩
    · left; rw [h, hca]; simp only [hne, if_false]
    · right
      have hk' : k < (s.var var).DOMAINSIZE ∧ k ≠ val := by
        rcases (hmem k).1 h2 with h | h
        · exact h
        · exact ⟨by omega, by omega⟩
      exact ⟨h1, hk'.1, (hassign k hk'.2) ▸ h3, h4⟩
  · intro hcf k hkD hne hfree
    exact hb hcf k ((hmem k).2 (Or.inl ⟨hkD, hne⟩)) ((hassign k hne).trans hfree)

/-! ## Entailment -/

theorem entailScan_spec (V : Variable) (js : List Nat) (flag : Bool) (dv r : Nat)
    (h : entailScan V js (flag, dv) = (true, r)) :
    (flag = true ∧ r = dv ∧ ∀ j ∈ js, V.ATOMASSIGN.getD j 0 ≠ 0) ∨
    (flag = false ∧ r ∈ js ∧ V.ATOMASSIGN.getD r 0 = 0 ∧
      ∀ j ∈ js, j ≠ r → V.ATOMASSIGN.getD j 0 ≠ 0) := by
  induction js generalizing flag dv with
  | nil =>
    simp only [entailScan, Prod.mk.injEq] at h
    exact Or.inl ⟨h.1, h.2.symm, fun j hj => absurd hj (List.not_mem_nil j)⟩
  | cons j js ih =>
    rw [entailScan] at h
    by_cases hfree : V.ATOMASSIGN.getD j 0 = 0
    · simp only [hfree, beq_self_eq_true, if_true] at h
      cases flag with
      | true => simp at h
      | false =>
        simp only [Bool.not_false, if_true] at h
        rcases ih true j h with ⟨-, h2, h3⟩ | ⟨h1, -⟩
        · subst h2
          refine Or.inr ⟨rfl, List.mem_cons_self _ _, hfree, fun j' hj' hne => ?_⟩
          rcases List.mem_cons.1 hj' with h' | h'
          · exact absurd h' hne
          · exact h3 j' h'
        · exact Bool.noConfusion h1
    · have hb : (V.ATOMASSIGN.getD j 0 == 0) = false := by simpa using hfree
      simp only [hb, Bool.false_eq_true, if_false] at h
      rcases ih flag dv h with ⟨h1, h2, h3⟩ | ⟨h1, h2, h3, h4⟩
      · refine Or.inl ⟨h1, h2, fun j' hj' => ?_⟩
        rcases List.mem_cons.1 hj' with h' | h'
        · subst h'; exact hfree
        · exact h3 j' h'
      · refine Or.inr ⟨h1, List.mem_cons_of_mem _ h2, h3, fun j' hj' hne => ?_⟩
        rcases List.mem_cons.1 hj' with h' | h'
        · subst h'; exact hfree
        · exact h4 j' h' hne

theorem checkEntail_spec (s : Formula) (var k : Nat) (h : checkEntail s var = some k) :
    (s.var var).SAT = false ∧ k < (s.var var).DOMAINSIZE ∧ s.assign var k = 0 ∧
    ∀ j < (s.var var).DOMAINSIZE, j ≠ k → s.assign var j ≠ 0 := by
  unfold checkEntail at h
  by_cases hs : (s.var var).SAT = true
  · simp [hs] at h
  · have hs' : (s.var var).SAT = false := by simpa using hs
    simp only [hs', Bool.not_false, if_true] at h
    generalize hr : entailScan (s.var var) (List.range (s.var var).DOMAINSIZE) (false, 0) = r at h
    obtain ⟨r1, r2⟩ := r
    by_cases hr1 : r1 = true
    · subst hr1
      simp only [if_true, Option.some.injEq] at h
      subst h
      rcases entailScan_spec _ _ _ _ _ hr with ⟨h1, -⟩ | ⟨-, h2, h3, h4⟩
      · exact Bool.noConfusion h1
      · exact ⟨hs', List.mem_range.1 h2, h3, fun j hj hne => h4 j (List.mem_range.2 hj) hne⟩
    · simp [hr1] at h

theorem checkEntail_reduceLiteral_true (s : Formula) (var val : Nat) :
    checkEntail (reduceLiteral s var true val) var = none := by
  obtain ⟨hsh, -, -, -, -, hh⟩ := reduceLiteral_basic s var true val
  by_cases hv : var < s.VARLIST.length
  · have := congrArg (fun c => c.2.1) (hh var)
    simp only [Formula.head, hv, and_self, if_true] at this
    simp [checkEntail, this]
  · have hlen : ¬ var < (reduceLiteral s var true val).VARLIST.length := by
      rw [shape_length hsh]; exact hv
    have hd : (reduceLiteral s var true val).var var = default := by
      simp only [Formula.var]
      rw [List.getD_eq_default _ _ (by omega)]
    simp only [checkEntail, hd]
    rfl

/-- The entailed literal that `reduceTheory` propagates after `var ! val`, with the
state it is propagated in. -/
theorem reduceTheoryAux_eq (n : Nat) (s : Formula) (var : Nat) (equals : Bool) (val : Nat) :
    reduceTheoryAux (n + 2) s var equals val =
      some (match checkEntail (reduceLiteral s var equals val) var with
        | some k =>
          reduceLiteral
            { reduceLiteral s var equals val with
              ENTAILLITERAL := some ⟨var, k, true⟩
              ENTAILS := (reduceLiteral s var equals val).ENTAILS + 1
              UNITCLAUSE := -2 } var true k
        | none => reduceLiteral s var equals val) := by
  rw [reduceTheoryAux]
  cases h : checkEntail (reduceLiteral s var equals val) var with
  | none => rfl
  | some k =>
    simp only
    rw [reduceTheoryAux, checkEntail_reduceLiteral_true]

theorem reduceTheory_eq (s : Formula) (var : Nat) (equals : Bool) (val : Nat) :
    reduceTheory s var equals val =
      match checkEntail (reduceLiteral s var equals val) var with
        | some k =>
          reduceLiteral
            { reduceLiteral s var equals val with
              ENTAILLITERAL := some ⟨var, k, true⟩
              ENTAILS := (reduceLiteral s var equals val).ENTAILS + 1
              UNITCLAUSE := -2 } var true k
        | none => reduceLiteral s var equals val := by
  rw [reduceTheory, reduceTheoryAux_eq 0]
  rfl

theorem reduceTheory_true (s : Formula) (var val : Nat) :
    reduceTheory s var true val = reduceLiteral s var true val := by
  rw [reduceTheory_eq, checkEntail_reduceLiteral_true]

/-- The recursion of `reduceTheory` ends: with a bound of two or more,
`reduceTheoryAux` returns the state `reduceTheory` stands for. -/
theorem reduceTheoryAux_returns (n : Nat) (s : Formula) (var : Nat) (equals : Bool) (val : Nat) :
    reduceTheoryAux (n + 2) s var equals val = some (reduceTheory s var equals val) := by
  rw [reduceTheoryAux_eq, reduceTheory_eq]

/-! ## The domain invariant under propagation and backtracking -/

theorem assign_of_cell {s t : Formula} {v k v' k' : Nat} (h : t.cell v k = s.cell v' k') :
    t.assign v k = s.assign v' k' := congrArg (fun c => c.1) h

theorem assign_of_cell_val {t : Formula} {v k : Nat} {a b c : Int} (h : t.cell v k = (a, b, c)) :
    t.assign v k = a := congrArg (fun c => c.1) h

/-- A variable with a Free value has no Assigned value, under the domain invariant. -/
theorem no_assigned_of_free {s : Formula} (hinv : DomainInv s) {var val : Nat}
    (hv : var < s.VARLIST.length) (hk : val < (s.var var).DOMAINSIZE)
    (hfree : s.assign var val = 0) :
    ∀ k < (s.var var).DOMAINSIZE, s.assign var k ≠ 1 := by
  intro k hkD h1
  rcases hinv.2 var hv k hkD val hk h1 with h | h
  · rw [h, h1] at hfree; exact absurd hfree (by decide)
  · rw [h] at hfree; exact absurd hfree (by decide)

theorem ternary_reduceLiteral (s : Formula) (var : Nat) (equals : Bool) (val : Nat)
    (hwf : s.WF) (hter : Ternary s) (hv : var < s.VARLIST.length)
    (hk : val < (s.var var).DOMAINSIZE) : Ternary (reduceLiteral s var equals val) := by
  obtain ⟨hsh, -⟩ := reduceLiteral_basic s var equals val
  intro v hv' k hk'
  rw [shape_length hsh] at hv'
  rw [shape_dom hsh] at hk'
  cases equals with
  | false =>
    by_cases h : v = var ∧ k = val
    · right; left
      have := cell_reduceLiteral_false s var val hwf hv hk v k
      rw [if_pos h] at this
      exact assign_of_cell_val this
    · have := cell_reduceLiteral_false s var val hwf hv hk v k
      rw [if_neg h] at this
      rw [assign_of_cell this]; exact hter v hv' k hk'
  | true =>
    obtain ⟨c1, c2, -⟩ := cell_reduceLiteral_true s var val hwf hv hk
    by_cases h : v = var ∧ k = val
    · right; right
      obtain ⟨rfl, rfl⟩ := h
      exact assign_of_cell_val c1
    · rcases c2 v k h with h' | ⟨-, -, -, h'⟩
      · rw [assign_of_cell h']; exact hter v hv' k hk'
      · right; left; exact assign_of_cell_val h'

theorem domainInv_reduceLiteral_false (s : Formula) (var val : Nat)
    (hwf : s.WF) (hinv : DomainInv s) (hv : var < s.VARLIST.length)
    (hk : val < (s.var var).DOMAINSIZE) (hfree : s.assign var val = 0) :
    DomainInv (reduceLiteral s var false val) ∧
    ∀ k < (s.var var).DOMAINSIZE, (reduceLiteral s var false val).assign var k ≠ 1 := by
  obtain ⟨hsh, -⟩ := reduceLiteral_basic s var false val
  have hno := no_assigned_of_free hinv hv hk hfree
  have hc := cell_reduceLiteral_false s var val hwf hv hk
  have hone : ∀ v k, (reduceLiteral s var false val).assign v k = 1 →
      s.assign v k = 1 ∧ ¬ (v = var ∧ k = val) := by
    intro v k h1
    by_cases h : v = var ∧ k = val
    · have := hc v k; rw [if_pos h] at this
      rw [assign_of_cell_val this] at h1; exact absurd h1 (by decide)
    · have := hc v k; rw [if_neg h] at this
      exact ⟨(assign_of_cell this) ▸ h1, h⟩
  refine ⟨⟨?_, ?_⟩, ?_⟩
  · intro v hv' k hk' j hj' h1 h2
    rw [shape_length hsh] at hv'
    rw [shape_dom hsh] at hk' hj'
    exact hinv.1 v hv' k hk' j hj' (hone v k h1).1 (hone v j h2).1
  · intro v hv' k hk' j hj' h1
    rw [shape_length hsh] at hv'
    rw [shape_dom hsh] at hk' hj'
    obtain ⟨h1s, -⟩ := hone v k h1
    by_cases h : v = var ∧ j = val
    · right
      have := hc v j; rw [if_pos h] at this
      exact assign_of_cell_val this
    · have := hc v j; rw [if_neg h] at this
      rw [assign_of_cell this]
      exact hinv.2 v hv' k hk' j hj' h1s
  · intro k hkD h1
    exact hno k hkD (hone var k h1).1

theorem domainInv_reduceLiteral_true (s : Formula) (var val : Nat)
    (hwf : s.WF) (hter : Ternary s) (hinv : DomainInv s) (hv : var < s.VARLIST.length)
    (hk : val < (s.var var).DOMAINSIZE)
    (hno : ∀ k < (s.var var).DOMAINSIZE, s.assign var k ≠ 1) :
    AtMostOneAssigned (reduceLiteral s var true val) ∧
    (((reduceLiteral s var true val).CONFLICT = false ∨
        ∀ j < (s.var var).DOMAINSIZE, j ≠ val → s.assign var j ≠ 0) →
      OthersForbidden (reduceLiteral s var true val)) := by
  obtain ⟨hsh, -⟩ := reduceLiteral_basic s var true val
  obtain ⟨c1, c2, c3⟩ := cell_reduceLiteral_true s var val hwf hv hk
  -- an Assigned value after the call is `val` itself, or was Assigned on another variable
  have hone : ∀ v k, k < (s.var v).DOMAINSIZE → (reduceLiteral s var true val).assign v k = 1 →
      (v = var ∧ k = val) ∨ (v ≠ var ∧ s.assign v k = 1) := by
    intro v k hkD h1
    by_cases h : v = var ∧ k = val
    · exact Or.inl h
    · rcases c2 v k h with h' | ⟨-, -, -, h'⟩
      · rw [assign_of_cell h'] at h1
        by_cases hvv : v = var
        · subst hvv; exact absurd h1 (hno k hkD)
        · exact Or.inr ⟨hvv, h1⟩
      · rw [assign_of_cell_val h'] at h1; exact absurd h1 (by decide)
  have hother : ∀ v k, v ≠ var → (reduceLiteral s var true val).assign v k = s.assign v k := by
    intro v k hne
    rcases c2 v k (fun h => hne h.1) with h' | ⟨h', -⟩
    · exact assign_of_cell h'
    · exact absurd h' hne
  refine ⟨?_, fun hcase => ?_⟩
  · intro v hv' k hk' j hj' h1 h2
    rw [shape_length hsh] at hv'
    rw [shape_dom hsh] at hk' hj'
    rcases hone v k hk' h1 with ⟨e1, e2⟩ | ⟨n1, a1⟩
    · rcases hone v j hj' h2 with ⟨-, e4⟩ | ⟨n2, -⟩
      · rw [e2, e4]
      · exact absurd e1 n2
    · rcases hone v j hj' h2 with ⟨e3, -⟩ | ⟨-, a2⟩
      · exact absurd e3 n1
      · exact hinv.1 v hv' k hk' j hj' a1 a2
  · intro v hv' k hk' j hj' h1
    rw [shape_length hsh] at hv'
    rw [shape_dom hsh] at hk' hj'
    rcases hone v k hk' h1 with ⟨e1, e2⟩ | ⟨n1, a1⟩
    · subst e1 e2
      by_cases hjk : j = k
      · exact Or.inl hjk
      · right
        rcases hter v hv' j hj' with h0 | hm | hp
        · rcases hcase with hcf | hall
          · exact assign_of_cell_val (c3 hcf j hj' hjk h0)
          · exact absurd h0 (hall j hj' hjk)
        · rcases c2 v j (fun h => hjk h.2) with h' | ⟨-, -, -, h'⟩
          · rw [assign_of_cell h']; exact hm
          · exact assign_of_cell_val h'
        · exact absurd hp (hno j hj')
    · rw [hother v j n1]
      exact hinv.2 v hv' k hk' j hj' a1

theorem domainInv_undoTheory (s : Formula) (L : Int) (hwf : s.WF) (hinv : DomainInv s)
    (hlo : LevelOrdered s) : DomainInv (undoTheory s L) := by
  have hsh := shape_undoTheory s L
  have hc := cell_undoTheory s L hwf
  have hone : ∀ v k, (undoTheory s L).assign v k = 1 →
      s.assign v k = 1 ∧
      ¬ (1 ≤ v ∧ v < s.VARLIST.length ∧ k < (s.var v).DOMAINSIZE ∧ L < s.level v k) := by
    intro v k h1
    by_cases h : 1 ≤ v ∧ v < s.VARLIST.length ∧ k < (s.var v).DOMAINSIZE ∧ L < s.level v k
    · have := hc v k; rw [if_pos h] at this
      rw [assign_of_cell_val this] at h1; exact absurd h1 (by decide)
    · have := hc v k; rw [if_neg h] at this
      exact ⟨(assign_of_cell this) ▸ h1, h⟩
  refine ⟨?_, ?_⟩
  · intro v hv' k hk' j hj' h1 h2
    rw [shape_length hsh] at hv'
    rw [shape_dom hsh] at hk' hj'
    exact hinv.1 v hv' k hk' j hj' (hone v k h1).1 (hone v j h2).1
  · intro v hv' k hk' j hj' h1
    rw [shape_length hsh] at hv'
    rw [shape_dom hsh] at hk' hj'
    obtain ⟨h1s, hnr⟩ := hone v k h1
    rcases hinv.2 v hv' k hk' j hj' h1s with hjk | hm
    · exact Or.inl hjk
    · right
      have hle := hlo v hv' k hk' j hj' h1s hm
      have hnr' : ¬ (1 ≤ v ∧ v < s.VARLIST.length ∧ j < (s.var v).DOMAINSIZE ∧ L < s.level v j) := by
        intro ⟨a1, a2, _, a4⟩
        exact hnr ⟨a1, a2, hk', by omega⟩
      have := hc v j; rw [if_neg hnr'] at this
      rw [assign_of_cell this]; exact hm

/-! ## The level invariant under propagation -/

theorem cell_mark_gen (s : Formula) (var val : Nat) (a : Int) (hwf : s.WF) (v k : Nat) :
    (s.mark var val a).cell v k =
      if v = var ∧ k = val ∧ var < s.VARLIST.length ∧ val < (s.var var).DOMAINSIZE
      then (a, s.LEVEL, s.UNITCLAUSE) else s.cell v k := by
  by_cases hv : var < s.VARLIST.length
  · by_cases hk : val < (s.var var).DOMAINSIZE
    · rw [cell_mark s var val a hwf hv hk]; simp [hv, hk]
    · obtain ⟨w1, w2, w3, -⟩ := wf_var hwf hv
      have hcond : ¬ (v = var ∧ k = val ∧ var < s.VARLIST.length ∧ val < (s.var var).DOMAINSIZE) :=
        fun h => hk h.2.2.2
      rw [if_neg hcond]
      simp only [Formula.mark, Formula.cell, Formula.assign, Formula.level, Formula.reason,
        var_setVar]
      by_cases h1 : var = v
      · subst h1
        have e1 : ¬ val < (s.var var).ATOMASSIGN.length := by rw [w2]; exact hk
        have e2 : ¬ val < (s.var var).ATOMLEVEL.length := by rw [w1]; exact hk
        have e3 : ¬ val < (s.var var).CLAUSEID.length := by rw [w3]; exact hk
        simp only [hv, and_self, if_true, getD_set_eq]
        by_cases h2 : val = k
        · subst h2; simp [e1, e2, e3]
        · simp [h2]
      · simp [h1]
  · have hcond : ¬ (v = var ∧ k = val ∧ var < s.VARLIST.length ∧ val < (s.var var).DOMAINSIZE) :=
      fun h => hv h.2.2.1
    rw [if_neg hcond]
    simp only [Formula.mark, Formula.cell, Formula.assign, Formula.level, Formula.reason,
      var_setVar]
    by_cases h1 : var = v
    · subst h1; simp [hv]
    · simp [h1]

theorem levelStep_refl (s : Formula) : LevelStep s s :=
  ⟨shape_refl s, rfl, fun _ _ => Or.inl ⟨rfl, rfl⟩⟩

theorem levelStep_trans {s t u : Formula} (h1 : LevelStep s t) (h2 : LevelStep t u) :
    LevelStep s u := by
  refine ⟨shape_trans h1.shape h2.shape, h2.level.trans h1.level, fun v k => ?_⟩
  rcases h2.cells v k with ⟨a, b⟩ | c
  · rcases h1.cells v k with ⟨a', b'⟩ | c'
    · exact Or.inl ⟨a.trans a', b.trans b'⟩
    · exact Or.inr (b.trans c')
  · exact Or.inr (c.trans h1.level)

theorem levelStep_foldl {α : Type} (step : Formula → α → Formula)
    (h : ∀ s a, s.WF → LevelStep s (step s a)) (l : List α) (s : Formula) (hwf : s.WF) :
    LevelStep s (l.foldl step s) := by
  induction l generalizing s with
  | nil => exact levelStep_refl s
  | cons a as ih =>
    exact levelStep_trans (h s a hwf) (ih (step s a) (shape_wf (h s a hwf).shape hwf))

theorem levelStep_of_frame {s t : Formula} (h : Frame s t) : LevelStep s t :=
  ⟨shape_of_frame h, h.level, fun v k => Or.inl ⟨frame_assign_eq h v k, frame_level_eq h v k⟩⟩

theorem levelStep_mark (s : Formula) (var val : Nat) (a : Int) (hwf : s.WF) :
    LevelStep s (s.mark var val a) := by
  refine ⟨(steady_mark s var val a).shape, rfl, fun v k => ?_⟩
  have hc := cell_mark_gen s var val a hwf v k
  split_ifs at hc with h
  · right; exact congrArg (fun c => c.2.1) hc
  · left; exact ⟨congrArg (fun c => c.1) hc, congrArg (fun c => c.2.1) hc⟩

/-- A step that leaves `VARLIST` and `LEVEL` alone. -/
theorem levelStep_same {s t : Formula} (h1 : t.VARLIST = s.VARLIST) (h2 : t.HEAP = s.HEAP)
    (h3 : t.CLAUSELIST = s.CLAUSELIST) (h4 : t.LEVEL = s.LEVEL) : LevelStep s t := by
  refine ⟨⟨by rw [h1], by rw [h2], h3⟩, h4, fun v k => Or.inl ?_⟩
  simp [Formula.assign, Formula.level, Formula.var, h1]

theorem levelStep_forbidValue (var : Nat) (s : Formula) (i : Nat) (hwf : s.WF) :
    LevelStep s (forbidValue var s i) := by
  by_cases h : s.CONFLICT = false ∧ s.assign var i = 0
  · rw [forbidValue_pos var s i h.1 h.2]
    have hf := frame_forbid_pre s var i
    exact levelStep_trans (levelStep_of_frame hf) (levelStep_mark _ _ _ _ (frame_wf hf hwf))
  · rw [forbidValue_neg var s i h]; exact levelStep_refl s

theorem levelStep_assignValue (s : Formula) (var val : Nat) (hwf : s.WF) :
    LevelStep s (assignValue s var val) := by
  have hf : Frame s (removeLiteral (satisfyClauses s var true val) var false val) :=
    frame_trans (frame_satisfyClauses s var true val) (frame_removeLiteral _ var false val)
  have h1 := levelStep_trans (levelStep_of_frame hf) (levelStep_mark _ var val 1 (frame_wf hf hwf))
  refine levelStep_trans h1 ⟨⟨map_modifyAt _ _ _ _ (fun V => by simp [Variable.shape]), rfl, rfl⟩,
    rfl, fun v k => Or.inl ?_⟩
  simp only [assignValue, Formula.assign, Formula.level, Formula.var, Formula.setVar,
    getD_modifyAt]
  constructor <;> split_ifs <;> rfl

theorem levelStep_reduceLiteral (s : Formula) (var : Nat) (equals : Bool) (val : Nat)
    (hwf : s.WF) : LevelStep s (reduceLiteral s var equals val) := by
  cases equals with
  | true =>
    rw [reduceLiteral_true_eq]
    have h1 := levelStep_assignValue s var val hwf
    exact levelStep_trans h1
      (levelStep_foldl _ (fun s a hw => levelStep_forbidValue var s a hw) _ _ (shape_wf h1.shape hwf))
  | false =>
    rw [reduceLiteral_false_eq]
    have hf := frame_forbid_pre s var val
    have h1 := levelStep_trans (levelStep_of_frame hf) (levelStep_mark _ var val (-1) (frame_wf hf hwf))
    exact levelStep_trans h1 (levelStep_same rfl rfl rfl rfl)

theorem levelStep_reduceTheory (s : Formula) (var : Nat) (equals : Bool) (val : Nat)
    (hwf : s.WF) : LevelStep s (reduceTheory s var equals val) := by
  rw [reduceTheory_eq]
  have h1 := levelStep_reduceLiteral s var equals val hwf
  cases checkEntail (reduceLiteral s var equals val) var with
  | none => exact h1
  | some k =>
    simp only
    have h2 : LevelStep (reduceLiteral s var equals val)
        { reduceLiteral s var equals val with
          ENTAILLITERAL := some ⟨var, k, true⟩
          ENTAILS := (reduceLiteral s var equals val).ENTAILS + 1
          UNITCLAUSE := -2 } := levelStep_same rfl rfl rfl rfl
    have h12 := levelStep_trans h1 h2
    exact levelStep_trans h12 (levelStep_reduceLiteral _ var true k (shape_wf h12.shape hwf))

theorem levelInv_of_step {s t : Formula} (h : LevelStep s t) (hs : LevelInv s) : LevelInv t := by
  refine ⟨h.level ▸ hs.1, fun v k hne => ?_⟩
  rw [h.level]
  rcases h.cells v k with ⟨a, b⟩ | c
  · rw [b]; exact hs.2 v k (a ▸ hne)
  · rw [c]; exact ⟨hs.1, le_refl _⟩

theorem sized_of_shape {s t : Formula} (h : Shape s t) (hs : Sized s) : Sized t :=
  ⟨shape_wf h hs.1, (shape_dom h 0).trans hs.2⟩

/-! ## The level invariant along the search drivers -/

theorem checkUnit_same (s : Formula) :
    (checkUnit s).VARLIST = s.VARLIST ∧ (checkUnit s).HEAP = s.HEAP ∧
    (checkUnit s).CLAUSELIST = s.CLAUSELIST ∧ (checkUnit s).LEVEL = s.LEVEL ∧
    (checkUnit s).DECSTACK = s.DECSTACK := by
  unfold checkUnit
  generalize List.range s.CLAUSELIST.length = l
  have key : ∀ (l : List Nat) (t : Formula),
      (l.foldl (fun s i =>
        if (s.clause i).NumUnAss == 1 && !(s.clause i).SAT then
          { s with UNITLIST := s.UNITLIST ++ [i] }
        else if (s.clause i).NumUnAss == 0 && !(s.clause i).SAT then
          { s with CONFLICT := true }
        else s) t).VARLIST = t.VARLIST ∧
      (l.foldl (fun s i =>
        if (s.clause i).NumUnAss == 1 && !(s.clause i).SAT then
          { s with UNITLIST := s.UNITLIST ++ [i] }
        else if (s.clause i).NumUnAss == 0 && !(s.clause i).SAT then
          { s with CONFLICT := true }
        else s) t).HEAP = t.HEAP ∧
      (l.foldl (fun s i =>
        if (s.clause i).NumUnAss == 1 && !(s.clause i).SAT then
          { s with UNITLIST := s.UNITLIST ++ [i] }
        else if (s.clause i).NumUnAss == 0 && !(s.clause i).SAT then
          { s with CONFLICT := true }
        else s) t).CLAUSELIST = t.CLAUSELIST ∧
      (l.foldl (fun s i =>
        if (s.clause i).NumUnAss == 1 && !(s.clause i).SAT then
          { s with UNITLIST := s.UNITLIST ++ [i] }
        else if (s.clause i).NumUnAss == 0 && !(s.clause i).SAT then
          { s with CONFLICT := true }
        else s) t).LEVEL = t.LEVEL ∧
      (l.foldl (fun s i =>
        if (s.clause i).NumUnAss == 1 && !(s.clause i).SAT then
          { s with UNITLIST := s.UNITLIST ++ [i] }
        else if (s.clause i).NumUnAss == 0 && !(s.clause i).SAT then
          { s with CONFLICT := true }
        else s) t).DECSTACK = t.DECSTACK := by
    intro l
    induction l with
    | nil => intro t; exact ⟨rfl, rfl, rfl, rfl, rfl⟩
    | cons i l ih =>
      intro t
      rw [List.foldl_cons]
      split_ifs
      · exact ih _
      · exact ih _
      · exact ih _
  exact key l _

theorem levelStep_checkUnit (s : Formula) : LevelStep s (checkUnit s) := by
  obtain ⟨h1, h2, h3, h4, -⟩ := checkUnit_same s
  exact levelStep_same h1 h2 h3 h4

theorem levelStep_unitRound (s : Formula) (c : Nat) (rest : List Nat) (hwf : s.WF) :
    LevelStep s (unitRound s c rest) := by
  unfold unitRound
  simp only
  split_ifs with h
  · cases hf : firstFree { s with UNITS := s.UNITS + 1, UNITCLAUSE := (c : Int), UNITLIST := rest }
        ({ s with UNITS := s.UNITS + 1, UNITCLAUSE := (c : Int), UNITLIST := rest }.clause c).ATOM_LIST with
    | none => exact levelStep_same rfl rfl rfl rfl
    | some a =>
      simp only
      have h1 : LevelStep s { s with UNITS := s.UNITS + 1, UNITCLAUSE := (c : Int), UNITLIST := rest } :=
        levelStep_same rfl rfl rfl rfl
      have h2 : LevelStep { s with UNITS := s.UNITS + 1, UNITCLAUSE := (c : Int), UNITLIST := rest }
          (({ s with UNITS := s.UNITS + 1, UNITCLAUSE := (c : Int), UNITLIST := rest } : Formula).setVar
            a.VAR (fun V => { V with CLAUSEID := V.CLAUSEID.set a.VAL (c : Int) })) := by
        refine ⟨shape_setVar _ _ _ (fun V => by simp [Variable.shape]), rfl, fun v k => Or.inl ?_⟩
        simp only [Formula.assign, Formula.level, var_setVar]
        constructor <;> split_ifs <;> rfl
      have h12 := levelStep_trans h1 h2
      exact levelStep_trans h12 (levelStep_reduceTheory _ _ _ _ (shape_wf h12.shape hwf))
  · exact levelStep_same rfl rfl rfl rfl

theorem levelStep_unitPropagation (fuel : Nat) (s t : Formula) (hwf : s.WF)
    (h : unitPropagation fuel s = some t) : LevelStep s t := by
  induction fuel generalizing s with
  | zero => simp [unitPropagation] at h
  | succ fuel ih =>
    rw [unitPropagation] at h
    split_ifs at h with hc
    · simp only [Option.some.injEq] at h
      subst h; exact levelStep_same rfl rfl rfl rfl
    · cases hu : s.UNITLIST with
      | nil =>
        simp only [hu, Option.some.injEq] at h
        subst h; exact levelStep_refl s
      | cons c rest =>
        simp only [hu] at h
        have h1 := levelStep_unitRound s c rest hwf
        exact levelStep_trans h1 (ih _ (shape_wf h1.shape hwf) h)

theorem levelInv_propagateDecide (fuel : Nat) (s t : Formula) (hs : Sized s) (hl : LevelInv s)
    (h : propagateDecide fuel s = some t) : Sized t ∧ LevelInv t := by
  unfold propagateDecide at h
  have h1 := levelStep_checkUnit s
  have hwf1 := shape_wf h1.shape hs.1
  simp only at h
  cases hp : (if (checkUnit s).UNITLIST.isEmpty then some (checkUnit s)
      else unitPropagation fuel (checkUnit s)) with
  | none => rw [hp] at h; simp at h
  | some s2 =>
    rw [hp] at h
    simp only at h
    have h2 : LevelStep (checkUnit s) s2 := by
      split_ifs at hp with he
      · simp only [Option.some.injEq] at hp; subst hp; exact levelStep_refl _
      · exact levelStep_unitPropagation fuel _ _ hwf1 hp
    have h12 := levelStep_trans h1 h2
    have hl2 := levelInv_of_step h12 hl
    have hs2 := sized_of_shape h12.shape hs
    split_ifs at h with hc
    · cases ha : chooseLiteral s2 with
      | none =>
        simp only [ha, Option.some.injEq] at h
        subst h
        exact ⟨hs2, hl2⟩
      | some atom =>
        simp only [ha, Option.some.injEq] at h
        subst h
        have key : ∀ t0 : Formula, t0.VARLIST = s2.VARLIST → t0.HEAP = s2.HEAP →
            t0.CLAUSELIST = s2.CLAUSELIST → t0.LEVEL = s2.LEVEL + 1 →
            Sized (reduceTheory t0 atom.VAR atom.EQUAL atom.VAL) ∧
            LevelInv (reduceTheory t0 atom.VAR atom.EQUAL atom.VAL) := by
          intro t0 e1 e2 e3 e4
          have hst : Shape s2 t0 := ⟨by rw [e1], by rw [e2], e3⟩
          have hs3 := sized_of_shape hst hs2
          have hl3 : LevelInv t0 := by
            refine ⟨?_, fun v k hne => ?_⟩
            · have := hl2.1; omega
            · have hne' : s2.assign v k ≠ 0 := by
                simpa [Formula.assign, Formula.var, e1] using hne
              have := hl2.2 v k hne'
              have hlev : t0.level v k = s2.level v k := by
                simp [Formula.level, Formula.var, e1]
              rw [hlev, e4]
              exact ⟨this.1, by omega⟩
          have h3 := levelStep_reduceTheory t0 atom.VAR atom.EQUAL atom.VAL hs3.1
          exact ⟨sized_of_shape h3.shape hs3, levelInv_of_step h3 hl3⟩
        exact key _ rfl rfl rfl rfl
    · simp only [Option.some.injEq] at h
      subst h
      exact ⟨hs2, hl2⟩

theorem norecs_addRecord (V : Variable) (c k : Nat) (e : Bool) :
    (V.AddRecord c k e).norecs = V.norecs := by
  cases e <;> simp [Variable.AddRecord, Variable.norecs, length_modifyAt, List.map_const']

theorem pushClause_vars (s : Formula) (r : ClauseRef) :
    (pushClause s r).VARLIST = s.VARLIST ∧ (pushClause s r).LEVEL = s.LEVEL := by
  cases r <;> exact ⟨rfl, rfl⟩

theorem learnClause_vars (s : Formula) (r : ClauseRef) :
    (learnClause s r).VARLIST.map Variable.norecs = s.VARLIST.map Variable.norecs ∧
    (learnClause s r).LEVEL = s.LEVEL := by
  unfold learnClause
  simp only
  rw [← (pushClause_vars s r).1, ← (pushClause_vars s r).2]
  generalize pushClause s r = s1
  generalize (s1.CLAUSELIST.length - 1) = cid
  generalize r.atoms s = atoms
  induction atoms generalizing s1 with
  | nil => exact ⟨rfl, rfl⟩
  | cons a as ih =>
    rw [List.foldl_cons]
    obtain ⟨h1, h2⟩ := ih (s1.setVar a.VAR (fun V => V.AddRecord cid a.VAL a.EQUAL))
    refine ⟨h1.trans ?_, h2⟩
    exact map_modifyAt _ _ _ _ (fun V => norecs_addRecord V _ _ _)

theorem norecs_var {s t : Formula}
    (h : t.VARLIST.map Variable.norecs = s.VARLIST.map Variable.norecs) (v : Nat) :
    (t.var v).norecs = (s.var v).norecs := by
  have h1 := congrArg (fun l => l.getD v (default : Variable).norecs) h
  simpa [Formula.var, List.getD_map] using h1

theorem norecs_cells {s t : Formula}
    (h : t.VARLIST.map Variable.norecs = s.VARLIST.map Variable.norecs) (v k : Nat) :
    t.assign v k = s.assign v k ∧ t.level v k = s.level v k := by
  have h1 := congrArg Variable.ATOMASSIGN (norecs_var h v)
  have h2 := congrArg Variable.ATOMLEVEL (norecs_var h v)
  simp only [Variable.norecs] at h1 h2
  simp [Formula.assign, Formula.level, h1, h2]

theorem norecs_sized {s t : Formula}
    (h : t.VARLIST.map Variable.norecs = s.VARLIST.map Variable.norecs) (hs : Sized s) :
    Sized t := by
  have hlen : t.VARLIST.length = s.VARLIST.length := by simpa using congrArg List.length h
  constructor
  · rw [wf_iff]
    intro v hv
    have hV := wf_var hs.1 (hlen ▸ hv)
    have e := norecs_var h v
    have e1 := congrArg Variable.ATOMLEVEL e
    have e2 := congrArg Variable.ATOMASSIGN e
    have e3 := congrArg Variable.CLAUSEID e
    have e4 := congrArg Variable.ATOMCNTPOS e
    have e5 := congrArg Variable.ATOMCNTNEG e
    have e6 := congrArg (fun V => V.ATOMRECPOS.length) e
    have e7 := congrArg (fun V => V.ATOMRECNEG.length) e
    have e8 := congrArg Variable.DOMAINSIZE e
    simp only [Variable.norecs, List.length_map] at e1 e2 e3 e4 e5 e6 e7 e8
    unfold Variable.WF at *
    rw [e1, e2, e3, e4, e5, e6, e7, e8]
    exact hV
  · have e8 := congrArg Variable.DOMAINSIZE (norecs_var h 0)
    simp only [Variable.norecs] at e8
    rw [e8]; exact hs.2

theorem analyzeConflict_learns (fuel : Nat) (s : Formula) (r : ClauseRef) (t : Formula)
    (learned : List Literal) (h : analyzeConflict fuel s r = some (t, learned)) :
    ∃ r', t = learnClause s r' ∧ learned = r'.atoms s := by
  induction fuel generalizing r with
  | zero => simp [analyzeConflict] at h
  | succ fuel ih =>
    rw [analyzeConflict] at h
    simp only at h
    split_ifs at h with hp
    · simp only [Option.some.injEq, Prod.mk.injEq] at h
      exact ⟨r, h.1.symm, h.2.symm⟩
    · split at h
      · simp at h
      · split at h
        · simp at h
        · exact ih _ h

theorem backtrackLevel_bounds (s : Formula) (atoms : List Literal) (h : 0 ≤ s.LEVEL) :
    0 ≤ backtrackLevel s atoms ∧ backtrackLevel s atoms ≤ s.LEVEL := by
  unfold backtrackLevel
  split_ifs with h1
  · exact ⟨le_refl _, h⟩
  · simp only
    have key : ∀ (l : List Literal) (m : Int), (m = -1 ∨ (0 ≤ m ∧ m ≤ s.LEVEL)) →
        (l.foldl (fun (max : Int) a =>
          if s.LEVEL > s.level a.VAR a.VAL && max < s.level a.VAR a.VAL
          then s.level a.VAR a.VAL else max) m = -1 ∨
         (0 ≤ l.foldl (fun (max : Int) a =>
          if s.LEVEL > s.level a.VAR a.VAL && max < s.level a.VAR a.VAL
          then s.level a.VAR a.VAL else max) m ∧
          l.foldl (fun (max : Int) a =>
          if s.LEVEL > s.level a.VAR a.VAL && max < s.level a.VAR a.VAL
          then s.level a.VAR a.VAL else max) m ≤ s.LEVEL)) := by
      intro l
      induction l with
      | nil => intro m hm; exact hm
      | cons a l ih =>
        intro m hm
        rw [List.foldl_cons]
        apply ih
        split_ifs with hc
        · simp only [gt_iff_lt, Bool.and_eq_true, decide_eq_true_eq] at hc
          right
          rcases hm with hm | hm <;> omega
        · exact hm
    have hk := key atoms (-1) (Or.inl rfl)
    generalize List.foldl _ (-1 : Int) atoms = M at hk ⊢
    split_ifs with h2
    · rcases hk with hk | hk
      · simp [hk] at h2
      · exact hk
    · exact ⟨h, le_refl _⟩

theorem assign_out_of_range {s : Formula} (hs : Sized s) {v k : Nat}
    (h : ¬ (1 ≤ v ∧ v < s.VARLIST.length ∧ k < (s.var v).DOMAINSIZE)) : s.assign v k = 0 := by
  by_cases hv : v < s.VARLIST.length
  · obtain ⟨-, w2, -⟩ := wf_var hs.1 hv
    have hk : (s.var v).DOMAINSIZE ≤ k := by
      by_cases h0 : v = 0
      · subst h0; rw [hs.2]; exact Nat.zero_le _
      · by_contra hlt
        exact h ⟨by omega, hv, by omega⟩
    simp only [Formula.assign]
    rw [List.getD_eq_default _ _ (by rw [w2]; exact hk)]
  · have hd : s.var v = default := by
      simp only [Formula.var]
      rw [List.getD_eq_default _ _ (by omega)]
    simp only [Formula.assign, hd]
    rfl

theorem levelBound_undoTheory (s : Formula) (L : Int) (hs : Sized s)
    (h0 : ∀ v k, s.assign v k ≠ 0 → 0 ≤ s.level v k) (v k : Nat)
    (hne : (undoTheory s L).assign v k ≠ 0) :
    0 ≤ (undoTheory s L).level v k ∧ (undoTheory s L).level v k ≤ L := by
  have hc := cell_undoTheory s L hs.1 v k
  by_cases hcond : 1 ≤ v ∧ v < s.VARLIST.length ∧ k < (s.var v).DOMAINSIZE ∧ L < s.level v k
  · rw [if_pos hcond] at hc
    exact absurd (assign_of_cell_val hc) hne
  · rw [if_neg hcond] at hc
    have ha : (undoTheory s L).assign v k = s.assign v k := assign_of_cell hc
    have hl : (undoTheory s L).level v k = s.level v k := congrArg (fun c => c.2.1) hc
    rw [ha] at hne
    rw [hl]
    refine ⟨h0 v k hne, ?_⟩
    by_contra hgt
    apply hcond
    by_cases hr : 1 ≤ v ∧ v < s.VARLIST.length ∧ k < (s.var v).DOMAINSIZE
    · exact ⟨hr.1, hr.2.1, hr.2.2, by omega⟩
    · exact absurd (assign_out_of_range hs hr) hne

theorem conflictStep_level (inner : Nat) (s t : Formula) (hs : Sized s) (hl : LevelInv s)
    (h : conflictStep inner s = some t) :
    Sized t ∧ 0 ≤ t.LEVEL ∧ (∀ v k, t.assign v k ≠ 0 → 0 ≤ t.level v k) := by
  unfold conflictStep at h
  split_ifs at h with hc
  split at h
  · simp at h
  · rename_i s1 learned ha
    simp only [Option.some.injEq] at h
    subst h
    obtain ⟨r', e1, -⟩ := analyzeConflict_learns _ _ _ _ _ ha
    obtain ⟨hv, hlev⟩ := learnClause_vars s r'
    rw [← e1] at hv hlev
    have hs1 : Sized s1 := norecs_sized hv hs
    have hb := backtrackLevel_bounds s1 learned (hlev ▸ hl.1)
    refine ⟨hs1, hb.1, fun v k hne => ?_⟩
    obtain ⟨a1, a2⟩ := norecs_cells hv v k
    have hne' : s.assign v k ≠ 0 := a1 ▸ hne
    have : s1.level v k = s.level v k := a2
    show 0 ≤ s1.level v k
    rw [this]; exact (hl.2 v k hne').1

theorem levelInv_undo_to (s : Formula) (L : Int) (hs : Sized s) (hL : 0 ≤ L) (hLs : L ≤ s.LEVEL)
    (h0 : ∀ v k, s.assign v k ≠ 0 → 0 ≤ s.level v k) :
    Sized (undoTheory s L) ∧ LevelInv (undoTheory s L) := by
  refine ⟨sized_of_shape (shape_undoTheory s L) hs, ?_, fun v k hne => ?_⟩
  · rw [level_undoTheory]; omega
  · have := levelBound_undoTheory s L hs h0 v k hne
    rw [level_undoTheory]
    exact ⟨this.1, by omega⟩

theorem levelInv_searchRound (inner : Nat) (timeUp : Bool) (s t : Formula) (hs : Sized s)
    (hl : LevelInv s) (h : searchRound inner timeUp s = some (.next t)) :
    Sized t ∧ LevelInv t := by
  unfold searchRound at h
  split_ifs at h with h1 h2 h3 h4
  · simp at h
  · simp at h
  · simp at h
  · split at h
    · simp at h
    · rename_i s3 hc
      obtain ⟨a1, a2, a3⟩ := conflictStep_level inner s s3 hs hl hc
      obtain ⟨b1, b2⟩ := levelInv_undo_to s3 s3.LEVEL a1 a2 (le_refl _) a3
      cases hp : propagateDecide inner (undoTheory s3 s3.LEVEL) with
      | none => simp [hp] at h
      | some u =>
        simp only [hp, Option.map_some', Option.some.injEq, Round.next.injEq] at h
        subst h
        exact levelInv_propagateDecide inner _ _ b1 b2 hp
  · cases hp : propagateDecide inner s with
    | none => simp [hp] at h
    | some u =>
      simp only [hp, Option.map_some', Option.some.injEq, Round.next.injEq] at h
      subst h
      exact levelInv_propagateDecide inner _ _ hs hl hp

theorem levelInv_searchRoundRestart (inner : Nat) (timeUp : Bool) (restarts rc rc' : Int)
    (s t : Formula) (hs : Sized s) (hl : LevelInv s)
    (h : searchRoundRestart inner timeUp restarts rc s = some (.next t, rc')) :
    Sized t ∧ LevelInv t := by
  unfold searchRoundRestart at h
  split_ifs at h with h1 h2 h3 h4
  · simp at h
  · simp at h
  · simp at h
  · split at h
    · simp at h
    · rename_i s3 hc
      obtain ⟨a1, a2, a3⟩ := conflictStep_level inner s s3 hs hl hc
      split_ifs at h with h5
      · obtain ⟨b1, b2⟩ := levelInv_undo_to s3 0 a1 (le_refl _) a2 a3
        have key : ∀ u0 : Formula, u0.VARLIST = (undoTheory s3 0).VARLIST →
            u0.HEAP = (undoTheory s3 0).HEAP → u0.CLAUSELIST = (undoTheory s3 0).CLAUSELIST →
            u0.LEVEL = (undoTheory s3 0).LEVEL → Sized u0 ∧ LevelInv u0 := by
          intro u0 e1 e2 e3 e4
          have hst := levelStep_same e1 e2 e3 e4
          exact ⟨sized_of_shape hst.shape b1, levelInv_of_step hst b2⟩
        obtain ⟨c1, c2⟩ := key { undoTheory s3 0 with RESTARTS := (undoTheory s3 0).RESTARTS + 1 }
          rfl rfl rfl rfl
        cases hp : propagateDecide inner
            { undoTheory s3 0 with RESTARTS := (undoTheory s3 0).RESTARTS + 1 } with
        | none => simp [hp] at h
        | some u =>
          simp only [hp, Option.map_some', Option.some.injEq, Prod.mk.injEq, Round.next.injEq] at h
          obtain ⟨h, -⟩ := h
          subst h
          exact levelInv_propagateDecide inner _ _ c1 c2 hp
      · obtain ⟨b1, b2⟩ := levelInv_undo_to s3 s3.LEVEL a1 a2 (le_refl _) a3
        cases hp : propagateDecide inner (undoTheory s3 s3.LEVEL) with
        | none => simp [hp] at h
        | some u =>
          simp only [hp, Option.map_some', Option.some.injEq, Prod.mk.injEq, Round.next.injEq] at h
          obtain ⟨h, -⟩ := h
          subst h
          exact levelInv_propagateDecide inner _ _ b1 b2 hp
  · cases hp : propagateDecide inner s with
    | none => simp [hp] at h
    | some u =>
      simp only [hp, Option.map_some', Option.some.injEq, Prod.mk.injEq, Round.next.injEq] at h
      obtain ⟨h, -⟩ := h
      subst h
      exact levelInv_propagateDecide inner _ _ hs hl hp

theorem levelInv_loopHead (clock : Nat → Bool) (inner k n : Nat) (s t : Formula) (hs : Sized s)
    (hl : LevelInv s) (h : loopHead clock inner k n s = some t) : Sized t ∧ LevelInv t := by
  induction k generalizing n s with
  | zero =>
    simp only [loopHead, Option.some.injEq] at h
    subst h; exact ⟨hs, hl⟩
  | succ k ih =>
    rw [loopHead] at h
    split at h
    · rename_i s1 hr
      obtain ⟨a, b⟩ := levelInv_searchRound inner _ s s1 hs hl hr
      exact ih _ _ a b h
    · simp at h

theorem levelInv_loopHeadRestart (clock : Nat → Bool) (inner : Nat) (restarts : Int)
    (k n : Nat) (rc rc' : Int) (s t : Formula) (hs : Sized s) (hl : LevelInv s)
    (h : loopHeadRestart clock inner restarts k n rc s = some (t, rc')) :
    Sized t ∧ LevelInv t := by
  induction k generalizing n s rc with
  | zero =>
    simp only [loopHeadRestart, Option.some.injEq, Prod.mk.injEq] at h
    obtain ⟨h, -⟩ := h
    subst h; exact ⟨hs, hl⟩
  | succ k ih =>
    rw [loopHeadRestart] at h
    split at h
    · rename_i s1 rc1 hr
      obtain ⟨a, b⟩ := levelInv_searchRoundRestart inner _ _ _ _ s s1 hs hl hr
      exact ih _ _ _ a b h
    · simp at h

/-! ## The loaded problem -/

theorem wf_new (var dom : Nat) : (Variable.new var dom).WF := by
  simp [Variable.WF, Variable.new]

/-- What loading keeps: sized arrays, every value Free, level 0. -/
theorem addInputClause_fresh (s : Formula) (atoms : List Literal)
    (h : Sized s ∧ (∀ v k, s.assign v k = 0) ∧ s.LEVEL = 0) :
    Sized (addInputClause s atoms) ∧ (∀ v k, (addInputClause s atoms).assign v k = 0) ∧
    (addInputClause s atoms).LEVEL = 0 := by
  unfold addInputClause
  simp only
  generalize s.CLAUSELIST.length = clause_num
  have key : ∀ (l : List Literal) (t : Formula),
      (Sized t ∧ (∀ v k, t.assign v k = 0) ∧ t.LEVEL = 0) →
      (Sized (l.foldl (fun s a => (s.bumpCnt a.VAR a.EQUAL a.VAL 1).setVar a.VAR
          (fun V => V.AddRecord clause_num a.VAL a.EQUAL)) t) ∧
       (∀ v k, (l.foldl (fun s a => (s.bumpCnt a.VAR a.EQUAL a.VAL 1).setVar a.VAR
          (fun V => V.AddRecord clause_num a.VAL a.EQUAL)) t).assign v k = 0) ∧
       (l.foldl (fun s a => (s.bumpCnt a.VAR a.EQUAL a.VAL 1).setVar a.VAR
          (fun V => V.AddRecord clause_num a.VAL a.EQUAL)) t).LEVEL = 0) := by
    intro l
    induction l with
    | nil => intro t ht; exact ht
    | cons a l ih =>
      intro t ht
      rw [List.foldl_cons]
      apply ih
      have hf := frame_bumpCnt t a.VAR a.EQUAL a.VAL 1
      have hn : ((t.bumpCnt a.VAR a.EQUAL a.VAL 1).setVar a.VAR
          (fun V => V.AddRecord clause_num a.VAL a.EQUAL)).VARLIST.map Variable.norecs =
          (t.bumpCnt a.VAR a.EQUAL a.VAL 1).VARLIST.map Variable.norecs :=
        map_modifyAt _ _ _ _ (fun V => norecs_addRecord V _ _ _)
      refine ⟨norecs_sized hn ⟨frame_wf hf ht.1.1, (frame_dom_eq hf 0).trans ht.1.2⟩,
        fun v k => ?_, ht.2.2⟩
      rw [(norecs_cells hn v k).1, frame_assign_eq hf]
      exact ht.2.1 v k
  obtain ⟨a, b, c⟩ := key atoms s h
  exact ⟨a, b, c⟩

theorem buildFunction_fresh (doms : List Nat) (clauses : List (List Literal)) :
    Sized (BuildFunction doms clauses) ∧ (∀ v k, (BuildFunction doms clauses).assign v k = 0) ∧
    (BuildFunction doms clauses).LEVEL = 0 := by
  unfold BuildFunction
  simp only
  have h0 : ∀ t : Formula,
      t.VARLIST = { Variable.new 0 0 with SAT := true } ::
        (List.range doms.length).map (fun i => Variable.new (i + 1) (doms.getD i 0)) →
      t.LEVEL = 0 → Sized t ∧ (∀ v k, t.assign v k = 0) ∧ t.LEVEL = 0 := by
    intro t ht hl
    have hall : ∀ V ∈ t.VARLIST, V.WF ∧ ∀ k, V.ATOMASSIGN.getD k 0 = 0 := by
      intro V hV
      rw [ht] at hV
      rcases List.mem_cons.1 hV with rfl | hV
      · exact ⟨by simp [Variable.WF, Variable.new], fun k => by simp [Variable.new]⟩
      · obtain ⟨i, -, rfl⟩ := List.mem_map.1 hV
        refine ⟨wf_new _ _, fun k => ?_⟩
        simp only [Variable.new, List.getD_eq_getElem?_getD, List.getElem?_replicate]
        split_ifs <;> rfl
    refine ⟨⟨fun V hV => (hall V hV).1, ?_⟩, fun v k => ?_, hl⟩
    · simp [Formula.var, ht, Variable.new]
    · by_cases hv : v < t.VARLIST.length
      · have : t.var v = t.VARLIST[v] := by simp [Formula.var, List.getD_eq_getElem?_getD, hv]
        simp only [Formula.assign, this]
        exact (hall _ (List.getElem_mem _)).2 k
      · have hd : t.var v = default := by
          simp only [Formula.var]
          rw [List.getD_eq_default _ _ (by omega)]
        simp only [Formula.assign, hd]
        rfl
  have key : ∀ (l : List (List Literal)) (t : Formula),
      (Sized t ∧ (∀ v k, t.assign v k = 0) ∧ t.LEVEL = 0) →
      (Sized (l.foldl addInputClause t) ∧ (∀ v k, (l.foldl addInputClause t).assign v k = 0) ∧
        (l.foldl addInputClause t).LEVEL = 0) := by
    intro l
    induction l with
    | nil => intro t ht; exact ht
    | cons a l ih => intro t ht; rw [List.foldl_cons]; exact ih _ (addInputClause_fresh t a ht)
  exact key clauses _ (h0 _ rfl rfl)

theorem levelInv_buildFunction (doms : List Nat) (clauses : List (List Literal)) :
    Sized (BuildFunction doms clauses) ∧ LevelInv (BuildFunction doms clauses) := by
  obtain ⟨a, b, c⟩ := buildFunction_fresh doms clauses
  exact ⟨a, by rw [c], fun v k hne => absurd (b v k) hne⟩

/-! ## Clauses of a state without aliases -/

theorem noalias_length {s : Formula} (h : NoAlias s) : s.CLAUSELIST.length = s.HEAP.length := by
  rw [h]; simp

theorem noalias_addr {s : Formula} (h : NoAlias s) (c : Nat) :
    s.addr c = if c < s.HEAP.length then c else s.HEAP.length := by
  unfold Formula.addr
  rw [h]
  by_cases hc : c < s.HEAP.length
  · simp [List.getD_eq_getElem?_getD, hc]
  · have hn : (List.range s.HEAP.length)[c]? = none :=
      List.getElem?_eq_none (by simp; omega)
    simp [List.getD_eq_getElem?_getD, hc, hn]

theorem clause_eq_getD {s : Formula} (h : NoAlias s) (c : Nat) :
    s.clause c = s.HEAP.getD c default := by
  unfold Formula.clause
  rw [noalias_addr h]
  by_cases hc : c < s.HEAP.length
  · simp [hc]
  · simp only [hc, if_false]
    rw [List.getD_eq_default _ _ (le_refl _), List.getD_eq_default _ _ (by omega)]

theorem setClause_heap {s : Formula} (h : NoAlias s) (c : Nat) (f : Clause → Clause) :
    (s.setClause c f).HEAP = modifyAt s.HEAP c f := by
  unfold Formula.setClause
  simp only
  rw [noalias_addr h]
  by_cases hc : c < s.HEAP.length
  · simp [hc]
  · simp only [hc, if_false]
    apply List.ext_getElem
    · simp [length_modifyAt]
    · intro i h1 h2
      have h3 : i < s.HEAP.length := by simpa [length_modifyAt] using h1
      have e1 := getD_modifyAt s.HEAP s.HEAP.length i f default
      have e2 := getD_modifyAt s.HEAP c i f default
      have n1 : ¬ (s.HEAP.length = i ∧ i < s.HEAP.length) := by omega
      have n2 : ¬ (c = i ∧ i < s.HEAP.length) := by omega
      rw [if_neg n1] at e1
      rw [if_neg n2] at e2
      simp only [List.getD_eq_getElem?_getD, List.getElem?_eq_getElem h1,
        List.getElem?_eq_getElem h2, List.getElem?_eq_getElem h3, Option.getD_some] at e1 e2
      rw [e1, e2]

theorem noalias_setClause {s : Formula} (h : NoAlias s) (c : Nat) (f : Clause → Clause) :
    NoAlias (s.setClause c f) := by
  unfold NoAlias
  rw [setClause_heap h, length_modifyAt]
  exact h

theorem clause_setClause {s : Formula} (h : NoAlias s) (c c' : Nat) (f : Clause → Clause) :
    (s.setClause c f).clause c' =
      if c = c' ∧ c' < s.HEAP.length then f (s.clause c') else s.clause c' := by
  rw [clause_eq_getD (noalias_setClause h c f), setClause_heap h, getD_modifyAt, clause_eq_getD h]

theorem noalias_of_shape {s t : Formula} (h : Shape s t) (hs : NoAlias s) : NoAlias t := by
  unfold NoAlias at *
  have := congrArg List.length h.atoms
  simp only [List.length_map] at this
  rw [h.clist, this]; exact hs

theorem struct_of_shape {s t : Formula} (h : Shape s t) (hs : Struct s) : Struct t := by
  refine ⟨sized_of_shape h hs.sized, noalias_of_shape h hs.noalias, ?_, ?_⟩
  · intro c hc a ha
    rw [h.clist] at hc
    rw [shape_atoms h] at ha
    rw [shape_length h, shape_dom h]
    exact hs.atoms c hc a ha
  · intro v hv k hk e c
    rw [shape_length h] at hv
    rw [shape_dom h] at hk
    rw [shape_records h, h.clist, shape_atoms h]
    exact hs.recs v hv k hk e c

theorem clause_setVar (s : Formula) (v : Nat) (f : Variable → Variable) (c : Nat) :
    (s.setVar v f).clause c = s.clause c := rfl

theorem clause_bumpCnt (s : Formula) (v : Nat) (e : Bool) (k : Nat) (d : Int) (c : Nat) :
    (s.bumpCnt v e k d).clause c = s.clause c := rfl

theorem free_of_frame {s t : Formula} (h : Frame s t) (a : Literal) : t.free a = s.free a := by
  simp [Formula.free, frame_assign_eq h]

theorem holds_of_frame {s t : Formula} (h : Frame s t) (a : Literal) : t.holds a = s.holds a := by
  simp [Formula.holds, frame_assign_eq h]

theorem freeAtoms_of_frame {s t : Formula} (h : Frame s t) (C : Clause) :
    freeAtoms t C = freeAtoms s C := by
  simp [freeAtoms, frame_assign_eq h]

/-! ## Effects of the elementary statements on clauses and counters -/

theorem foldl_prefix {α σ : Type} (f : σ → α → σ) (P : List α → σ → Prop) (l : List α) (s0 : σ)
    (h0 : P [] s0)
    (hstep : ∀ pre a post s, l = pre ++ a :: post → P pre s → P (pre ++ [a]) (f s a)) :
    P l (l.foldl f s0) := by
  have key : ∀ post pre s, l = pre ++ post → P pre s → P l (post.foldl f s) := by
    intro post
    induction post with
    | nil => intro pre s hl hp; simp at hl; subst hl; exact hp
    | cons a post ih =>
      intro pre s hl hp
      simp only [List.foldl_cons]
      apply ih (pre ++ [a]) (f s a)
      · simp [hl]
      · exact hstep pre a post s hl hp
  exact key l [] s0 rfl h0

theorem frame_heapLength {s t : Formula} (h : Frame s t) : t.HEAP.length = s.HEAP.length := by
  have := congrArg List.length h.atoms
  simpa using this

theorem shape_heapLength {s t : Formula} (h : Shape s t) : t.HEAP.length = s.HEAP.length := by
  have := congrArg List.length h.atoms
  simpa using this

theorem clause_bumpUnAss {s : Formula} (h : NoAlias s) (c c' : Nat) (d : Int) :
    (s.bumpUnAss c d).clause c' =
      if c = c' ∧ c' < s.HEAP.length then
        { s.clause c' with NumUnAss := (s.clause c').NumUnAss + d }
      else s.clause c' := by
  unfold Formula.bumpUnAss
  rw [clause_setClause h]

theorem cnt_setClause (s : Formula) (c : Nat) (f : Clause → Clause) (v : Nat) (e : Bool) (k : Nat) :
    (s.setClause c f).cnt v e k = s.cnt v e k := rfl

theorem cnt_bumpUnAss (s : Formula) (c : Nat) (d : Int) (v : Nat) (e : Bool) (k : Nat) :
    (s.bumpUnAss c d).cnt v e k = s.cnt v e k := rfl

theorem cnt_bumpCnt (s : Formula) (hwf : s.WF) (v : Nat) (e : Bool) (k : Nat) (d : Int)
    (v' : Nat) (e' : Bool) (k' : Nat) :
    (s.bumpCnt v e k d).cnt v' e' k' =
      if v = v' ∧ e = e' ∧ k = k' ∧ v' < s.VARLIST.length ∧ k' < (s.var v').DOMAINSIZE then
        s.cnt v' e' k' + d
      else s.cnt v' e' k' := by
  by_cases hv : v = v' ∧ v' < s.VARLIST.length
  · obtain ⟨rfl, hlt⟩ := hv
    have hw := wf_var hwf hlt
    obtain ⟨-, -, -, h4, h5, -, -⟩ := hw
    unfold Formula.bumpCnt Formula.cnt Formula.cntPos Formula.cntNeg
    rw [var_setVar, if_pos (And.intro rfl hlt)]
    cases e <;> cases e' <;>
      simp only [Bool.false_eq_true, Bool.true_eq_false, if_false, if_true, true_and, false_and,
        hlt, and_true]
    · rw [getD_modifyAt, h5]
    · rw [getD_modifyAt, h4]
  · have hcond : ¬ (v = v' ∧ e = e' ∧ k = k' ∧ v' < s.VARLIST.length ∧
        k' < (s.var v').DOMAINSIZE) := fun hh => hv ⟨hh.1, hh.2.2.2.1⟩
    rw [if_neg hcond]
    unfold Formula.bumpCnt Formula.cnt Formula.cntPos Formula.cntNeg
    rw [var_setVar, if_neg hv]

theorem cnt_of_vars {s t : Formula} (h : t.VARLIST = s.VARLIST) (v : Nat) (e : Bool) (k : Nat) :
    t.cnt v e k = s.cnt v e k := by
  simp [Formula.cnt, Formula.cntPos, Formula.cntNeg, Formula.var, h]

theorem clause_of_heap {s t : Formula} (h1 : t.HEAP = s.HEAP) (h2 : t.CLAUSELIST = s.CLAUSELIST)
    (c : Nat) : t.clause c = s.clause c := by
  simp [Formula.clause, Formula.addr, h1, h2]

theorem satisfyAtoms_spec (c : Nat) (atoms : List Literal) (s : Formula) (hna : NoAlias s)
    (hwf : s.WF) (hc : c < s.HEAP.length)
    (hr : ∀ a ∈ atoms, a.VAR < s.VARLIST.length ∧ a.VAL < (s.var a.VAR).DOMAINSIZE) :
    (∀ c', (satisfyAtoms c s atoms).clause c' =
      if c' = c then
        { s.clause c' with NumUnAss := (s.clause c').NumUnAss -
            ((atoms.filter (fun a => s.assign a.VAR a.VAL == 0)).length : Int) }
      else s.clause c') ∧
    (∀ v e k, (satisfyAtoms c s atoms).cnt v e k =
      s.cnt v e k - (if s.assign v k = 0 then (atoms.count ⟨v, k, e⟩ : Int) else 0)) := by
  induction atoms generalizing s with
  | nil =>
    refine ⟨fun c' => ?_, fun v e k => ?_⟩
    · simp [satisfyAtoms]
    · simp [satisfyAtoms]
  | cons a as ih =>
    have hstep : satisfyAtoms c s (a :: as) =
        satisfyAtoms c (if s.assign a.VAR a.VAL == 0 then
          (s.bumpUnAss c (-1)).bumpCnt a.VAR a.EQUAL a.VAL (-1) else s) as := rfl
    rw [hstep]
    have hra := hr a (List.mem_cons_self _ _)
    by_cases hf : s.assign a.VAR a.VAL = 0
    · have hf' : (s.assign a.VAR a.VAL == 0) = true := by simp [hf]
      rw [if_pos hf']
      have hfr : Frame s ((s.bumpUnAss c (-1)).bumpCnt a.VAR a.EQUAL a.VAL (-1)) :=
        frame_trans (frame_bumpUnAss s c (-1)) (frame_bumpCnt _ _ _ _ _)
      have hsh := shape_of_frame hfr
      obtain ⟨ih1, ih2⟩ := ih _ (noalias_of_shape hsh hna) (frame_wf hfr hwf)
        (by rw [frame_heapLength hfr]; exact hc)
        (fun b hb => by
          rw [shape_length hsh, shape_dom hsh]
          exact hr b (List.mem_cons_of_mem _ hb))
      refine ⟨fun c' => ?_, fun v e k => ?_⟩
      · rw [ih1 c']
        simp only [frame_assign_eq hfr, clause_bumpCnt, clause_bumpUnAss hna]
        by_cases hcc : c' = c
        · subst hcc
          simp only [if_true, true_and, hc, List.filter_cons, hf', List.length_cons]
          congr 1
          push_cast
          ring
        · have hcc' : ¬ (c = c' ∧ c' < s.HEAP.length) := fun h => hcc h.1.symm
          simp only [hcc, if_false, hcc']
      · rw [ih2 v e k]
        rw [frame_assign_eq hfr, cnt_bumpCnt _ (frame_wf (frame_bumpUnAss s c (-1)) hwf),
          cnt_bumpUnAss, List.count_cons]
        have hlen : (s.bumpUnAss c (-1)).VARLIST.length = s.VARLIST.length := rfl
        have hvar : ∀ u, (s.bumpUnAss c (-1)).var u = s.var u := fun _ => rfl
        rw [hlen, hvar]
        by_cases hcell : a = ⟨v, k, e⟩
        · subst hcell
          simp only [true_and, hf, if_true, hra.1, hra.2, and_self, beq_self_eq_true]
          push_cast
          ring
        · have h1 : ¬ (a.VAR = v ∧ a.EQUAL = e ∧ a.VAL = k ∧ v < s.VARLIST.length ∧
              k < (s.var v).DOMAINSIZE) := by
            intro h
            apply hcell
            cases a
            simp only [Literal.mk.injEq]
            exact ⟨h.1, h.2.2.1, h.2.1⟩
          have h2 : (a == (⟨v, k, e⟩ : Literal)) = false := by simpa using hcell
          rw [if_neg h1, h2]
          simp
    · have hf' : ¬ (s.assign a.VAR a.VAL == 0) = true := by simpa using hf
      rw [if_neg hf']
      obtain ⟨ih1, ih2⟩ := ih s hna hwf hc (fun b hb => hr b (List.mem_cons_of_mem _ hb))
      refine ⟨fun c' => ?_, fun v e k => ?_⟩
      · rw [ih1 c', List.filter_cons, if_neg hf']
      · rw [ih2 v e k, List.count_cons]
        by_cases hcell : a = ⟨v, k, e⟩
        · subst hcell
          simp only [hf, if_false]
        · have h2 : (a == (⟨v, k, e⟩ : Literal)) = false := by simpa using hcell
          rw [h2]
          simp

theorem filter_length_flip (l : List Nat) (p q : Nat → Bool) (c0 : Nat)
    (h : ∀ c, c ≠ c0 → q c = p c) (hp : p c0 = true) (hq : q c0 = false) :
    (l.filter q).length + l.count c0 = (l.filter p).length := by
  induction l with
  | nil => simp
  | cons a l ih =>
    rw [List.filter_cons, List.filter_cons, List.count_cons]
    by_cases ha : a = c0
    · subst ha
      simp only [hp, hq, if_true, beq_self_eq_true, List.length_cons]
      simp only [Bool.false_eq_true, if_false]
      omega
    · have h2 : (a == c0) = false := by simpa using ha
      rw [h a ha, h2]
      by_cases hpa : p a = true
      · simp only [hpa, if_true, List.length_cons, Bool.false_eq_true, if_false]
        omega
      · simp only [hpa, if_false, Bool.false_eq_true]
        omega

theorem satisfyClauses_fold (s : Formula) (var : Nat) (equals : Bool) (val : Nat) :
    satisfyClauses s var equals val =
      (s.records var equals val).foldl
        (fun s c => if !(s.clause c).SAT then satisfyOne s c else s) s := rfl

theorem frame_satisfyOne (s : Formula) (c : Nat) : Frame s (satisfyOne s c) :=
  frame_trans (frame_setClause s c (fun C => { C with SAT := true, LEVEL := s.LEVEL }) (fun _ => rfl))
    (frame_satisfyAtoms _ _ _)

theorem records_mem {s : Formula} (hst : Struct s) {v k : Nat} (hv : v < s.VARLIST.length)
    (hk : k < (s.var v).DOMAINSIZE) (e : Bool) (c : Nat) :
    c ∈ s.records v e k ↔ c < s.CLAUSELIST.length ∧ (⟨v, k, e⟩ : Literal) ∈ (s.clause c).ATOM_LIST := by
  rw [← List.count_pos_iff, hst.recs v hv k hk e c]
  by_cases hc : c < s.CLAUSELIST.length
  · simp [hc, List.count_pos_iff]
  · simp [hc]

theorem satisfyOne_spec (u : Formula) (c : Nat) (hst : Struct u) (hcnt : CountInv u)
    (hc : c < u.CLAUSELIST.length) (hunsat : (u.clause c).SAT = false) :
    (∀ c', (satisfyOne u c).clause c' =
      if c' = c then
        { u.clause c' with SAT := true, LEVEL := u.LEVEL, NumUnAss := (u.clause c').NumUnAss - (freeAtoms u (u.clause c') : Int) }
      else u.clause c') ∧
    CountInv (satisfyOne u c) := by
  have hna := hst.noalias
  have hwf := hst.sized.1
  have hcl : c < u.HEAP.length := by rw [← noalias_length hna]; exact hc
  have hfr1 : Frame u (u.setClause c (fun C => { C with SAT := true, LEVEL := u.LEVEL })) :=
    frame_setClause u c _ (fun _ => rfl)
  have hsh1 := shape_of_frame hfr1
  have hat : ((u.setClause c (fun C => { C with SAT := true, LEVEL := u.LEVEL })).clause c).ATOM_LIST
      = (u.clause c).ATOM_LIST := shape_atoms hsh1 c
  obtain ⟨h1, h2⟩ := satisfyAtoms_spec c
    ((u.setClause c (fun C => { C with SAT := true, LEVEL := u.LEVEL })).clause c).ATOM_LIST
    (u.setClause c (fun C => { C with SAT := true, LEVEL := u.LEVEL }))
    (noalias_of_shape hsh1 hna) (frame_wf hfr1 hwf) (by rw [frame_heapLength hfr1]; exact hcl)
    (fun a ha => by
      rw [hat] at ha
      rw [shape_length hsh1, shape_dom hsh1]
      exact (hst.atoms c hc a ha).2)
  have hcl' : ∀ c', (satisfyOne u c).clause c' =
      if c' = c then
        { u.clause c' with SAT := true, LEVEL := u.LEVEL, NumUnAss := (u.clause c').NumUnAss - (freeAtoms u (u.clause c') : Int) }
      else u.clause c' := by
    intro c'
    show (satisfyAtoms c _ _).clause c' = _
    rw [h1 c', clause_setClause hna]
    by_cases hcc : c' = c
    · subst hcc
      simp only [if_true, true_and, hcl, hat, frame_assign_eq hfr1, freeAtoms]
    · have hcc' : ¬ (c = c' ∧ c' < u.HEAP.length) := fun h => hcc h.1.symm
      simp only [hcc, if_false, hcc']
  refine ⟨hcl', ?_⟩
  have hfr := frame_satisfyOne u c
  intro v hv k hk e
  rw [frame_length_eq hfr] at hv
  rw [frame_dom_eq hfr] at hk
  have hcv : (satisfyOne u c).cnt v e k = u.cnt v e k -
      (if u.assign v k = 0 then ((u.clause c).ATOM_LIST.count ⟨v, k, e⟩ : Int) else 0) := by
    show (satisfyAtoms c _ _).cnt v e k = _
    rw [h2 v e k, hat, frame_assign_eq hfr1]
    rfl
  rw [hcv, frame_assign_eq hfr, hcnt v hv k hk e]
  by_cases hf : u.assign v k = 0
  · simp only [hf, if_true]
    have hflip := filter_length_flip (u.records v e k) (fun c' => !(u.clause c').SAT)
      (fun c' => !((satisfyOne u c).clause c').SAT) c
      (fun c' hne => by simp only [hcl' c', if_neg hne])
      (by simp [hunsat]) (by simp [hcl' c])
    have hrec := hst.recs v hv k hk e c
    rw [if_pos hc] at hrec
    unfold Formula.unsatRecs
    rw [frame_records_eq hfr, ← hrec]
    omega
  · simp only [hf, if_false, sub_zero]

theorem satisfyClauses_spec (s : Formula) (hst : Struct s) (hcl : ClauseInv s) (hcnt : CountInv s)
    (v : Nat) (e : Bool) (k : Nat) (hv : v < s.VARLIST.length) (hk : k < (s.var v).DOMAINSIZE) :
    (∀ c, (satisfyClauses s v e k).clause c =
      if (s.clause c).SAT = false ∧ c ∈ s.records v e k then
        { s.clause c with SAT := true, LEVEL := s.LEVEL, NumUnAss := 0 }
      else s.clause c) ∧
    CountInv (satisfyClauses s v e k) := by
  rw [satisfyClauses_fold]
  have key := foldl_prefix (fun s c => if !(s.clause c).SAT then satisfyOne s c else s)
    (fun pre u => Frame s u ∧ CountInv u ∧ ∀ c, u.clause c =
      if (s.clause c).SAT = false ∧ c ∈ pre then
        { s.clause c with SAT := true, LEVEL := s.LEVEL, NumUnAss := 0 }
      else s.clause c)
    (s.records v e k) s ⟨frame_refl s, hcnt, fun c => by simp⟩ ?_
  · exact ⟨key.2.2, key.2.1⟩
  · intro pre c post u hl ⟨hfr, hcu, hform⟩
    have hmem : c ∈ s.records v e k := by rw [hl]; simp
    have hclt : c < s.CLAUSELIST.length := ((records_mem hst hv hk e c).1 hmem).1
    by_cases hsat : (u.clause c).SAT = true
    · have hstep : (if !(u.clause c).SAT then satisfyOne u c else u) = u := by simp [hsat]
      simp only [hstep]
      refine ⟨hfr, hcu, fun c' => ?_⟩
      rw [hform c']
      by_cases hcc : c' = c
      · subst hcc
        by_cases hcond : (s.clause c').SAT = false ∧ c' ∈ pre
        · rw [if_pos hcond, if_pos ⟨hcond.1, by simp [hcond.2]⟩]
        · have hu := hform c'
          rw [if_neg hcond] at hu
          rw [hu] at hsat
          rw [if_neg hcond, if_neg (fun h => by simp [hsat] at h)]
      · have : c' ∈ pre ++ [c] ↔ c' ∈ pre := by simp [hcc]
        simp only [this]
    · have hunsat : (u.clause c).SAT = false := by simpa using hsat
      have hstep : (if !(u.clause c).SAT then satisfyOne u c else u) = satisfyOne u c := by
        simp [hunsat]
      simp only [hstep]
      have hstu := struct_of_shape (shape_of_frame hfr) hst
      have hcu' : c < u.CLAUSELIST.length := by rw [hfr.clist]; exact hclt
      obtain ⟨h1, h2⟩ := satisfyOne_spec u c hstu hcu hcu' hunsat
      have hcond : ¬ ((s.clause c).SAT = false ∧ c ∈ pre) := by
        intro hcond
        have hu := hform c
        rw [if_pos hcond] at hu
        rw [hu] at hunsat
        simp at hunsat
      have hu := hform c
      rw [if_neg hcond] at hu
      have hsu : (s.clause c).SAT = false := by rw [← hu]; exact hunsat
      refine ⟨frame_trans hfr (frame_satisfyOne u c), h2, fun c' => ?_⟩
      rw [h1 c']
      by_cases hcc : c' = c
      · subst hcc
        rw [if_pos rfl, if_pos ⟨hsu, by simp⟩, hu, freeAtoms_of_frame hfr, hfr.level,
          (hcl.unsat c' hclt hsu).1]
        simp
      · have : c' ∈ pre ++ [c] ↔ c' ∈ pre := by simp [hcc]
        rw [if_neg hcc, hform c']
        simp only [this]

theorem removeLiteral_fold (s : Formula) (var : Nat) (equals : Bool) (val : Nat) :
    removeLiteral s var equals val =
      (s.records var equals val).foldl
        (fun s c => if !(s.clause c).SAT then removeOne s var equals val c else s) s := rfl

theorem removeOne_same (s : Formula) (var : Nat) (equals : Bool) (val : Nat) (c : Nat) :
    (removeOne s var equals val c).VARLIST =
      ((s.bumpUnAss c (-1)).bumpCnt var equals val (-1)).VARLIST ∧
    (removeOne s var equals val c).HEAP = ((s.bumpUnAss c (-1)).bumpCnt var equals val (-1)).HEAP ∧
    (removeOne s var equals val c).CLAUSELIST =
      ((s.bumpUnAss c (-1)).bumpCnt var equals val (-1)).CLAUSELIST := by
  unfold removeOne
  simp only
  split_ifs <;> exact ⟨rfl, rfl, rfl⟩

theorem frame_removeOne (s : Formula) (var : Nat) (equals : Bool) (val : Nat) (c : Nat) :
    Frame s (removeOne s var equals val c) := by
  have h1 : Frame s ((s.bumpUnAss c (-1)).bumpCnt var equals val (-1)) :=
    frame_trans (frame_bumpUnAss s c (-1)) (frame_bumpCnt _ _ _ _ _)
  unfold removeOne
  simp only
  split_ifs
  all_goals
    exact ⟨h1.vars, h1.atoms, h1.clist, h1.stack, h1.level, h1.unitclause, fun h => by
      first
      | rfl
      | exact h1.conflict h⟩

theorem removeLiteral_spec (s : Formula) (hst : Struct s) (v : Nat) (e : Bool) (k : Nat)
    (hv : v < s.VARLIST.length) (hk : k < (s.var v).DOMAINSIZE) :
    (∀ c, (removeLiteral s v e k).clause c =
      if (s.clause c).SAT = false then
        { s.clause c with NumUnAss := (s.clause c).NumUnAss - ((s.records v e k).count c : Int) }
      else s.clause c) ∧
    (∀ v' e' k', (removeLiteral s v e k).cnt v' e' k' =
      if v' = v ∧ e' = e ∧ k' = k then s.cnt v e k - (s.unsatRecs v e k : Int)
      else s.cnt v' e' k') := by
  rw [removeLiteral_fold]
  have key := foldl_prefix (fun s c => if !(s.clause c).SAT then removeOne s v e k c else s)
    (fun pre u => Frame s u ∧
      (∀ c, u.clause c =
        if (s.clause c).SAT = false then
          { s.clause c with NumUnAss := (s.clause c).NumUnAss - (pre.count c : Int) }
        else s.clause c) ∧
      (∀ v' e' k', u.cnt v' e' k' =
        if v' = v ∧ e' = e ∧ k' = k then
          s.cnt v e k - ((pre.filter (fun c => !(s.clause c).SAT)).length : Int)
        else s.cnt v' e' k'))
    (s.records v e k) s ⟨frame_refl s, fun c => by simp, fun v' e' k' => by
      by_cases h : v' = v ∧ e' = e ∧ k' = k
      · obtain ⟨rfl, rfl, rfl⟩ := h
        simp
      · simp [h]⟩ ?_
  · exact ⟨key.2.1, key.2.2⟩
  · intro pre c post u hl ⟨hfr, hform, hcf⟩
    have hmem : c ∈ s.records v e k := by rw [hl]; simp
    have hclt : c < s.CLAUSELIST.length := ((records_mem hst hv hk e c).1 hmem).1
    have hsame : (u.clause c).SAT = (s.clause c).SAT := by
      rw [hform c]; split_ifs <;> rfl
    by_cases hsat : (s.clause c).SAT = true
    · have hstep : (if !(u.clause c).SAT then removeOne u v e k c else u) = u := by
        simp [hsame, hsat]
      simp only [hstep]
      refine ⟨hfr, fun c' => ?_, fun v' e' k' => ?_⟩
      · rw [hform c']
        by_cases hcc : c' = c
        · subst hcc
          simp [hsat]
        · have : (pre ++ [c]).count c' = pre.count c' := by
            rw [List.count_append]
            simp [List.count_cons, Ne.symm hcc]
          rw [this]
      · rw [hcf v' e' k', List.filter_append]
        simp [hsat]
    · have hunsat : (s.clause c).SAT = false := by simpa using hsat
      have hstep : (if !(u.clause c).SAT then removeOne u v e k c else u) = removeOne u v e k c := by
        simp [hsame, hunsat]
      simp only [hstep]
      have hshu := shape_of_frame hfr
      have hnau := noalias_of_shape hshu hst.noalias
      have hwfu := frame_wf hfr hst.sized.1
      have hcu : c < u.HEAP.length := by
        rw [← noalias_length hnau, hfr.clist]; exact hclt
      obtain ⟨e1, e2, e3⟩ := removeOne_same u v e k c
      refine ⟨frame_trans hfr (frame_removeOne u v e k c), fun c' => ?_, fun v' e' k' => ?_⟩
      · rw [clause_of_heap e2 e3, clause_bumpCnt, clause_bumpUnAss hnau, hform c']
        by_cases hcc : c' = c
        · subst hcc
          rw [if_pos ⟨rfl, hcu⟩, if_pos hunsat, if_pos hunsat, List.count_append]
          simp only [List.count_cons, List.count_nil, beq_self_eq_true, if_true]
          congr 1
          push_cast
          ring
        · have : (pre ++ [c]).count c' = pre.count c' := by
            rw [List.count_append]
            simp [List.count_cons, Ne.symm hcc]
          rw [this, if_neg (fun h => hcc h.1.symm)]
      · rw [cnt_of_vars e1, cnt_bumpCnt _ (frame_wf (frame_bumpUnAss u c (-1)) hwfu),
          cnt_bumpUnAss, hcf v' e' k', List.filter_append]
        have hlen : (u.bumpUnAss c (-1)).VARLIST.length = s.VARLIST.length := by
          rw [← frame_length_eq hfr]; rfl
        have hvar : ((u.bumpUnAss c (-1)).var v').DOMAINSIZE = (s.var v').DOMAINSIZE := by
          rw [← frame_dom_eq hfr]; rfl
        rw [hlen, hvar]
        by_cases hcell : v' = v ∧ e' = e ∧ k' = k
        · obtain ⟨rfl, rfl, rfl⟩ := hcell
          simp only [true_and, and_self, hv, hk, if_true, List.filter_cons, hunsat,
            Bool.not_false, List.filter_nil, List.length_append, List.length_cons, List.length_nil]
          push_cast
          ring
        · have h1 : ¬ (v = v' ∧ e = e' ∧ k = k' ∧ v' < s.VARLIST.length ∧
              k' < (s.var v').DOMAINSIZE) := fun h => hcell ⟨h.1.symm, h.2.1.symm, h.2.2.1.symm⟩
          rw [if_neg h1, if_neg hcell, if_neg hcell]

theorem cnt_mark (s : Formula) (var val : Nat) (a : Int) (v : Nat) (e : Bool) (k : Nat) :
    (s.mark var val a).cnt v e k = s.cnt v e k := by
  unfold Formula.mark Formula.cnt Formula.cntPos Formula.cntNeg
  rw [var_setVar]
  split_ifs <;> rfl

theorem frame_setTrue_pre (s : Formula) (v : Nat) (e : Bool) (k : Nat) :
    Frame s (removeLiteral (satisfyClauses s v e k) v (!e) k) :=
  frame_trans (frame_satisfyClauses s v e k) (frame_removeLiteral _ _ _ _)

theorem steady_setTrue (s : Formula) (v : Nat) (e : Bool) (k : Nat) : Steady s (setTrue s v e k) :=
  steady_trans (steady_of_frame (frame_setTrue_pre s v e k)) (steady_mark _ _ _ _)

theorem cell_setTrue (s : Formula) (v : Nat) (e : Bool) (k : Nat) (hwf : s.WF)
    (hv : v < s.VARLIST.length) (hk : k < (s.var v).DOMAINSIZE) (v' k' : Nat) :
    (setTrue s v e k).cell v' k' =
      if v' = v ∧ k' = k then ((if e then 1 else -1), s.LEVEL, s.UNITCLAUSE) else s.cell v' k' := by
  have hfr := frame_setTrue_pre s v e k
  unfold setTrue
  rw [cell_mark _ _ _ _ (frame_wf hfr hwf) (by rw [frame_length_eq hfr]; exact hv)
    (by rw [frame_dom_eq hfr]; exact hk), cell_of_frame hfr, hfr.level, hfr.unitclause]

theorem setTrue_clause (s : Formula) (hst : Struct s) (hcl : ClauseInv s) (hcnt : CountInv s)
    (v : Nat) (e : Bool) (k : Nat) (hv : v < s.VARLIST.length) (hk : k < (s.var v).DOMAINSIZE)
    (c : Nat) :
    (setTrue s v e k).clause c =
      if (s.clause c).SAT = false then
        if c ∈ s.records v e k then { s.clause c with SAT := true, LEVEL := s.LEVEL, NumUnAss := 0 }
        else { s.clause c with NumUnAss := (s.clause c).NumUnAss - ((s.records v (!e) k).count c : Int) }
      else s.clause c := by
  obtain ⟨h1, -⟩ := satisfyClauses_spec s hst hcl hcnt v e k hv hk
  have hfr1 := frame_satisfyClauses s v e k
  have hst1 := struct_of_shape (shape_of_frame hfr1) hst
  obtain ⟨h2, -⟩ := removeLiteral_spec (satisfyClauses s v e k) hst1 v (!e) k
    (by rw [frame_length_eq hfr1]; exact hv) (by rw [frame_dom_eq hfr1]; exact hk)
  unfold setTrue
  unfold Formula.mark
  rw [clause_setVar, h2 c, h1 c, frame_records_eq hfr1]
  by_cases hsat : (s.clause c).SAT = false
  · by_cases hmem : c ∈ s.records v e k
    · simp [hsat, hmem]
    · simp [hsat, hmem]
  · have hsat' : (s.clause c).SAT = true := by simpa using hsat
    simp [hsat']

theorem filter_length_mark {α : Type} (l : List α) (fs ft oc : α → Bool)
    (h1 : ∀ a ∈ l, oc a = false → ft a = fs a)
    (h2 : ∀ a ∈ l, oc a = true → fs a = true ∧ ft a = false) :
    (l.filter ft).length + (l.filter oc).length = (l.filter fs).length := by
  induction l with
  | nil => simp
  | cons a l ih =>
    have ih' := ih (fun b hb => h1 b (List.mem_cons_of_mem _ hb))
      (fun b hb => h2 b (List.mem_cons_of_mem _ hb))
    rw [List.filter_cons, List.filter_cons, List.filter_cons]
    by_cases ha : oc a = true
    · obtain ⟨e1, e2⟩ := h2 a (List.mem_cons_self _ _) ha
      simp only [ha, e1, e2, if_true, Bool.false_eq_true, if_false, List.length_cons]
      omega
    · have ha' : oc a = false := by simpa using ha
      rw [h1 a (List.mem_cons_self _ _) ha']
      by_cases hf : fs a = true
      · simp only [ha', hf, if_true, Bool.false_eq_true, if_false, List.length_cons]
        omega
      · simp only [ha', hf, Bool.false_eq_true, if_false]
        omega

theorem filter_onCell (l : List Literal) (v k : Nat) :
    (l.filter (onCell v k)).length = l.count ⟨v, k, true⟩ + l.count ⟨v, k, false⟩ := by
  induction l with
  | nil => simp
  | cons a l ih =>
    rw [List.filter_cons, List.count_cons, List.count_cons]
    obtain ⟨x, y, z⟩ := a
    by_cases h : x = v ∧ y = k
    · obtain ⟨rfl, rfl⟩ := h
      cases z <;> simp [onCell, ih] <;> omega
    · have h' : onCell v k ⟨x, y, z⟩ = false := by
        simp only [onCell, Bool.and_eq_false_iff, beq_eq_false_iff_ne, ne_eq]
        by_contra hc
        push_neg at hc
        exact h hc
      have h1 : ((⟨x, y, z⟩ : Literal) == ⟨v, k, true⟩) = false := by
        simp only [beq_eq_false_iff_ne, ne_eq, Literal.mk.injEq, not_and]
        intro a b; exact absurd ⟨a, b⟩ h
      have h2 : ((⟨x, y, z⟩ : Literal) == ⟨v, k, false⟩) = false := by
        simp only [beq_eq_false_iff_ne, ne_eq, Literal.mk.injEq, not_and]
        intro a b; exact absurd ⟨a, b⟩ h
      simp only [h', h1, h2, Bool.false_eq_true, if_false, ih, add_zero]

theorem assign_setTrue (s : Formula) (v : Nat) (e : Bool) (k : Nat) (hwf : s.WF)
    (hv : v < s.VARLIST.length) (hk : k < (s.var v).DOMAINSIZE) (v' k' : Nat) :
    (setTrue s v e k).assign v' k' =
      if v' = v ∧ k' = k then (if e then 1 else -1) else s.assign v' k' := by
  have h := congrArg Prod.fst (cell_setTrue s v e k hwf hv hk v' k')
  simp only [Formula.cell] at h
  rw [h]
  split_ifs <;> rfl

theorem level_setTrue (s : Formula) (v : Nat) (e : Bool) (k : Nat) (hwf : s.WF)
    (hv : v < s.VARLIST.length) (hk : k < (s.var v).DOMAINSIZE) (v' k' : Nat) :
    (setTrue s v e k).level v' k' = if v' = v ∧ k' = k then s.LEVEL else s.level v' k' := by
  have h := congrArg (fun p => p.2.1) (cell_setTrue s v e k hwf hv hk v' k')
  simp only [Formula.cell] at h
  rw [h]
  split_ifs <;> rfl

theorem holds_setTrue (s : Formula) (v : Nat) (e : Bool) (k : Nat) (hwf : s.WF)
    (hv : v < s.VARLIST.length) (hk : k < (s.var v).DOMAINSIZE) (a : Literal) :
    (setTrue s v e k).holds a = if a.VAR = v ∧ a.VAL = k then (a.EQUAL == e) else s.holds a := by
  unfold Formula.holds
  rw [assign_setTrue s v e k hwf hv hk]
  by_cases h : a.VAR = v ∧ a.VAL = k
  · simp only [h, and_self, if_true]
    cases e <;> cases a.EQUAL <;> simp
  · simp only [h, if_false]

theorem cellInv_setTrue (s : Formula) (hs : Consistent s) (v : Nat) (e : Bool) (k : Nat)
    (hv : v < s.VARLIST.length) (hk : k < (s.var v).DOMAINSIZE) :
    CellInv (setTrue s v e k) := by
  have hwf := hs.struct.sized.1
  have hsd := steady_setTrue s v e k
  have ha := assign_setTrue s v e k hwf hv hk
  have hl := level_setTrue s v e k hwf hv hk
  refine ⟨?_, ?_, ?_⟩
  · intro v' hv' k' hk'
    rw [shape_length hsd.shape] at hv'
    rw [shape_dom hsd.shape] at hk'
    rw [ha]
    by_cases h : v' = v ∧ k' = k
    · simp only [h, and_self, if_true]
      cases e <;> simp
    · simp only [h, if_false]
      exact hs.cells.tern v' hv' k' hk'
  · intro v' k' hne
    rw [ha] at hne
    rw [hl, hsd.level]
    by_cases h : v' = v ∧ k' = k
    · simp only [h, and_self, if_true]
      exact ⟨hs.level, le_refl _⟩
    · simp only [h, if_false] at hne ⊢
      exact hs.cells.bound v' k' hne
  · intro v' hv' k' hk' h0
    rw [shape_length hsd.shape] at hv'
    rw [shape_dom hsd.shape] at hk'
    rw [ha] at h0
    rw [hl]
    by_cases h : v' = v ∧ k' = k
    · simp only [h, and_self, if_true] at h0
      cases e <;> simp at h0
    · simp only [h, if_false] at h0 ⊢
      exact hs.cells.free v' hv' k' hk' h0

theorem freeAtoms_setTrue (s : Formula) (v : Nat) (e : Bool) (k : Nat) (hwf : s.WF)
    (hv : v < s.VARLIST.length) (hk : k < (s.var v).DOMAINSIZE) (hfree : s.assign v k = 0)
    (C : Clause) :
    freeAtoms (setTrue s v e k) C + (C.ATOM_LIST.count ⟨v, k, true⟩ + C.ATOM_LIST.count ⟨v, k, false⟩)
      = freeAtoms s C := by
  rw [← filter_onCell]
  unfold freeAtoms
  apply filter_length_mark
  · intro a _ hon
    rw [assign_setTrue s v e k hwf hv hk]
    have : ¬ (a.VAR = v ∧ a.VAL = k) := by
      intro h
      simp [onCell, h] at hon
    simp only [this, if_false]
  · intro a _ hon
    have h : a.VAR = v ∧ a.VAL = k := by
      simpa [onCell] using hon
    rw [assign_setTrue s v e k hwf hv hk]
    simp only [h, and_self, if_true, hfree]
    cases e <;> simp

theorem clauseInv_setTrue (s : Formula) (hs : Consistent s) (v : Nat) (e : Bool) (k : Nat)
    (hv : v < s.VARLIST.length) (hk : k < (s.var v).DOMAINSIZE) (hfree : s.assign v k = 0) :
    ClauseInv (setTrue s v e k) := by
  have hwf := hs.struct.sized.1
  have hsd := steady_setTrue s v e k
  have hl := level_setTrue s v e k hwf hv hk
  have hh := holds_setTrue s v e k hwf hv hk
  have hclause := setTrue_clause s hs.struct hs.clauses hs.counts v e k hv hk
  have hnothold : ∀ a : Literal, s.holds a = true → ¬ (a.VAR = v ∧ a.VAL = k) := by
    intro a ha h
    unfold Formula.holds at ha
    rw [h.1, h.2, hfree] at ha
    cases a.EQUAL <;> simp at ha
  refine ⟨?_, ?_⟩
  · intro c hc hunsat
    rw [hsd.shape.clist] at hc
    rw [hclause c] at hunsat ⊢
    by_cases hsat : (s.clause c).SAT = false
    · by_cases hmem : c ∈ s.records v e k
      · simp [hsat, hmem] at hunsat
      · simp only [hsat, hmem, if_true, if_false]
        obtain ⟨u1, u2, u3⟩ := hs.clauses.unsat c hc hsat
        have hr1 := hs.struct.recs v hv k hk e c
        have hr2 := hs.struct.recs v hv k hk (!e) c
        rw [if_pos hc] at hr1 hr2
        have hz : (s.records v e k).count c = 0 := List.count_eq_zero.2 hmem
        have hfa := freeAtoms_setTrue s v e k hwf hv hk hfree (s.clause c)
        rw [hz] at hr1
        refine ⟨?_, u2, ?_⟩
        · show (s.clause c).NumUnAss - ((s.records v (!e) k).count c : Int)
            = (freeAtoms (setTrue s v e k) (s.clause c) : Int)
          rw [u1]
          cases e
          · simp only [Bool.not_false] at hr2 ⊢
            omega
          · simp only [Bool.not_true] at hr2 ⊢
            omega
        · intro a ha
          rw [hh a]
          by_cases hon : a.VAR = v ∧ a.VAL = k
          · simp only [hon, and_self, if_true]
            by_contra hne
            have heq : a.EQUAL = e := by simpa using hne
            have : a = ⟨v, k, e⟩ := by
              cases a
              simp only [Literal.mk.injEq]
              exact ⟨hon.1, hon.2, heq⟩
            rw [this] at ha
            have hcnt : 0 < (s.clause c).ATOM_LIST.count ⟨v, k, e⟩ := List.count_pos_iff.2 ha
            omega
          · simp only [hon, if_false]
            exact u3 a ha
    · have hsat' : (s.clause c).SAT = true := by simpa using hsat
      simp [hsat'] at hunsat
  · intro c hc hsatT
    rw [hsd.shape.clist] at hc
    rw [hclause c] at hsatT ⊢
    by_cases hsat : (s.clause c).SAT = false
    · by_cases hmem : c ∈ s.records v e k
      · simp only [hsat, hmem, if_true]
        obtain ⟨-, -, u3⟩ := hs.clauses.unsat c hc hsat
        have hin := ((records_mem hs.struct hv hk e c).1 hmem).2
        refine ⟨trivial, ⟨⟨v, k, e⟩, hin, ?_, ?_⟩, ?_⟩
        · rw [hh]; simp
        · rw [hl]; simp
        · intro a ha hta
          rw [hh a] at hta
          rw [hl]
          by_cases hon : a.VAR = v ∧ a.VAL = k
          · simp only [hon, and_self, if_true, le_refl]
          · simp only [hon, if_false] at hta
            rw [u3 a ha] at hta
            simp at hta
      · simp [hsat, hmem] at hsatT
    · have hsat' : (s.clause c).SAT = true := by simpa using hsat
      simp only [hsat', Bool.true_eq_false, if_false]
      obtain ⟨u1, ⟨w, hw, hw1, hw2⟩, u3⟩ := hs.clauses.sat c hc hsat'
      have hwne := hnothold w hw1
      have hwb : s.assign w.VAR w.VAL ≠ 0 := by
        intro h0
        unfold Formula.holds at hw1
        rw [h0] at hw1
        cases w.EQUAL <;> simp at hw1
      refine ⟨u1, ⟨w, hw, ?_, ?_⟩, ?_⟩
      · rw [hh]; simp only [hwne, if_false]; exact hw1
      · rw [hl]; simp only [hwne, if_false]; exact hw2
      · intro a ha hta
        rw [hh a] at hta
        rw [hl]
        by_cases hon : a.VAR = v ∧ a.VAL = k
        · simp only [hon, and_self, if_true]
          rw [← hw2]
          exact (hs.cells.bound w.VAR w.VAL hwb).2
        · simp only [hon, if_false] at hta ⊢
          exact u3 a ha hta

theorem unsatRecs_congr {s t : Formula} (h1 : ∀ c, (t.clause c).SAT = (s.clause c).SAT)
    (h2 : ∀ v e k, t.records v e k = s.records v e k) (v : Nat) (e : Bool) (k : Nat) :
    t.unsatRecs v e k = s.unsatRecs v e k := by
  unfold Formula.unsatRecs
  rw [h2]
  congr 1
  apply List.filter_congr
  intro c _
  rw [h1]

theorem countInv_setTrue (s : Formula) (hs : Consistent s) (v : Nat) (e : Bool) (k : Nat)
    (hv : v < s.VARLIST.length) (hk : k < (s.var v).DOMAINSIZE) (hfree : s.assign v k = 0) :
    CountInv (setTrue s v e k) := by
  have hwf := hs.struct.sized.1
  have hsd := steady_setTrue s v e k
  have ha := assign_setTrue s v e k hwf hv hk
  obtain ⟨h1, hc1⟩ := satisfyClauses_spec s hs.struct hs.clauses hs.counts v e k hv hk
  have hfr1 := frame_satisfyClauses s v e k
  have hst1 := struct_of_shape (shape_of_frame hfr1) hs.struct
  have hv1 : v < (satisfyClauses s v e k).VARLIST.length := by rw [frame_length_eq hfr1]; exact hv
  have hk1 : k < ((satisfyClauses s v e k).var v).DOMAINSIZE := by rw [frame_dom_eq hfr1]; exact hk
  obtain ⟨h2, h3⟩ := removeLiteral_spec (satisfyClauses s v e k) hst1 v (!e) k hv1 hk1
  have hcnt : ∀ v' e' k', (setTrue s v e k).cnt v' e' k' =
      if v' = v ∧ e' = (!e) ∧ k' = k then
        (satisfyClauses s v e k).cnt v (!e) k - ((satisfyClauses s v e k).unsatRecs v (!e) k : Int)
      else (satisfyClauses s v e k).cnt v' e' k' := by
    intro v' e' k'
    unfold setTrue
    rw [cnt_mark, h3]
  have hsat : ∀ c, ((setTrue s v e k).clause c).SAT = ((satisfyClauses s v e k).clause c).SAT := by
    intro c
    unfold setTrue Formula.mark
    rw [clause_setVar, h2 c]
    split_ifs <;> rfl
  have hrecs : ∀ v' e' k', (setTrue s v e k).records v' e' k' =
      (satisfyClauses s v e k).records v' e' k' := by
    intro v' e' k'
    rw [shape_records hsd.shape, frame_records_eq hfr1]
  have hur := unsatRecs_congr hsat hrecs
  intro v' hv' k' hk' e'
  rw [shape_length hsd.shape] at hv'
  rw [shape_dom hsd.shape] at hk'
  have hc1' := hc1 v' (by rw [frame_length_eq hfr1]; exact hv') k'
    (by rw [frame_dom_eq hfr1]; exact hk') e'
  rw [frame_assign_eq hfr1] at hc1'
  rw [hcnt, ha, hur]
  by_cases hcell : v' = v ∧ k' = k
  · obtain ⟨rfl, rfl⟩ := hcell
    have hne : (if e = true then (1 : Int) else -1) ≠ 0 := by cases e <;> simp
    simp only [and_self, if_true, hne, if_false, true_and, and_true]
    by_cases hpol : e' = !e
    · subst hpol
      rw [if_pos rfl, hc1', if_pos hfree]
      simp
    · rw [if_neg hpol, hc1', if_pos hfree]
      have he : e' = e := by cases e <;> cases e' <;> simp at hpol ⊢
      subst he
      have hall : ∀ c ∈ (satisfyClauses s v' e' k').records v' e' k',
          ((satisfyClauses s v' e' k').clause c).SAT = true := by
        intro c hc
        rw [frame_records_eq hfr1] at hc
        rw [h1 c]
        by_cases hcs : (s.clause c).SAT = false
        · simp [hcs, hc]
        · have : (s.clause c).SAT = true := by simpa using hcs
          simp [this]
      unfold Formula.unsatRecs
      rw [List.filter_eq_nil_iff.2]
      · simp
      · intro c hc
        simp [hall c hc]
  · have hcell' : ¬ (v' = v ∧ e' = (!e) ∧ k' = k) := fun h => hcell ⟨h.1, h.2.2⟩
    rw [if_neg hcell', if_neg hcell, hc1']

theorem consistent_setTrue (s : Formula) (hs : Consistent s) (v : Nat) (e : Bool) (k : Nat)
    (hv : v < s.VARLIST.length) (hk : k < (s.var v).DOMAINSIZE) (hfree : s.assign v k = 0) :
    Consistent (setTrue s v e k) :=
  ⟨struct_of_shape (steady_setTrue s v e k).shape hs.struct,
   by rw [(steady_setTrue s v e k).level]; exact hs.level,
   cellInv_setTrue s hs v e k hv hk,
   clauseInv_setTrue s hs v e k hv hk hfree,
   countInv_setTrue s hs v e k hv hk hfree⟩

theorem consistent_congr {s t : Formula} (hsh : Shape s t) (hlev : t.LEVEL = s.LEVEL)
    (hcell : ∀ v k, t.assign v k = s.assign v k ∧ t.level v k = s.level v k)
    (hcnt : ∀ v e k, t.cnt v e k = s.cnt v e k) (hcl : ∀ c, t.clause c = s.clause c)
    (hs : Consistent s) : Consistent t := by
  have hfree : ∀ C, freeAtoms t C = freeAtoms s C := by
    intro C; simp [freeAtoms, (hcell _ _).1]
  have hholds : ∀ a, t.holds a = s.holds a := by
    intro a; simp [Formula.holds, (hcell _ _).1]
  refine ⟨struct_of_shape hsh hs.struct, by rw [hlev]; exact hs.level, ⟨?_, ?_, ?_⟩, ⟨?_, ?_⟩, ?_⟩
  · intro v hv k hk
    rw [shape_length hsh] at hv
    rw [shape_dom hsh] at hk
    rw [(hcell v k).1]
    exact hs.cells.tern v hv k hk
  · intro v k hne
    rw [(hcell v k).1] at hne
    rw [(hcell v k).2, hlev]
    exact hs.cells.bound v k hne
  · intro v hv k hk h0
    rw [shape_length hsh] at hv
    rw [shape_dom hsh] at hk
    rw [(hcell v k).1] at h0
    rw [(hcell v k).2]
    exact hs.cells.free v hv k hk h0
  · intro c hc hu
    rw [hsh.clist] at hc
    rw [hcl c] at hu ⊢
    rw [hfree]
    obtain ⟨u1, u2, u3⟩ := hs.clauses.unsat c hc hu
    exact ⟨u1, u2, fun a ha => by rw [hholds]; exact u3 a ha⟩
  · intro c hc hu
    rw [hsh.clist] at hc
    rw [hcl c] at hu ⊢
    obtain ⟨u1, ⟨w, hw, hw1, hw2⟩, u3⟩ := hs.clauses.sat c hc hu
    refine ⟨u1, ⟨w, hw, by rw [hholds]; exact hw1, by rw [(hcell _ _).2]; exact hw2⟩, ?_⟩
    intro a ha hta
    rw [hholds] at hta
    rw [(hcell _ _).2]
    exact u3 a ha hta
  · intro v hv k hk e
    rw [shape_length hsh] at hv
    rw [shape_dom hsh] at hk
    rw [hcnt, (hcell v k).1,
      unsatRecs_congr (fun c => by rw [hcl c]) (fun v e k => shape_records hsh v e k)]
    exact hs.counts v hv k hk e

theorem consistent_same {s t : Formula} (hs : Consistent s) (h1 : t.VARLIST = s.VARLIST)
    (h2 : t.HEAP = s.HEAP) (h3 : t.CLAUSELIST = s.CLAUSELIST) (h4 : t.LEVEL = s.LEVEL) :
    Consistent t := by
  apply consistent_congr ⟨by rw [h1], by rw [h2], h3⟩ h4 _ _ _ hs
  · intro v k; simp [Formula.assign, Formula.level, Formula.var, h1]
  · intro v e k; exact cnt_of_vars h1 v e k
  · intro c; exact clause_of_heap h2 h3 c

theorem consistent_setHead {s : Formula} (hs : Consistent s) (v : Nat) (a : Int) (b : Bool) (c : Int) :
    Consistent (s.setVar v (fun V => { V with VAL := a, SAT := b, LEVEL := c })) := by
  apply consistent_congr (shape_setVar _ _ _ (fun V => by simp [Variable.shape])) rfl _ _ _ hs
  · intro v' k
    simp only [Formula.assign, Formula.level, var_setVar]
    constructor <;> split_ifs <;> rfl
  · intro v' e k
    simp only [Formula.cnt, Formula.cntPos, Formula.cntNeg, var_setVar]
    split_ifs <;> rfl
  · intro c'; rfl

theorem consistent_setReason {s : Formula} (hs : Consistent s) (v k : Nat) (r : Int) :
    Consistent (s.setVar v (fun V => { V with CLAUSEID := V.CLAUSEID.set k r })) := by
  apply consistent_congr (shape_setVar _ _ _ (fun V => by simp [Variable.shape])) rfl _ _ _ hs
  · intro v' k
    simp only [Formula.assign, Formula.level, var_setVar]
    constructor <;> split_ifs <;> rfl
  · intro v' e k
    simp only [Formula.cnt, Formula.cntPos, Formula.cntNeg, var_setVar]
    split_ifs <;> rfl
  · intro c'; rfl

theorem assignValue_setTrue (s : Formula) (var val : Nat) :
    assignValue s var val =
      { (setTrue s var true val).setVar var
          (fun V => { V with VAL := (val : Int), SAT := true, LEVEL := (setTrue s var true val).LEVEL }) with
        DECSTACK := (setTrue s var true val).DECSTACK ++ [⟨var, val, true⟩] } := rfl

theorem consistent_assignValue (s : Formula) (hs : Consistent s) (v k : Nat)
    (hv : v < s.VARLIST.length) (hk : k < (s.var v).DOMAINSIZE) (hfree : s.assign v k = 0) :
    Consistent (assignValue s v k) := by
  rw [assignValue_setTrue]
  exact consistent_same
    (consistent_setHead (consistent_setTrue s hs v true k hv hk hfree) v _ _ _) rfl rfl rfl rfl

theorem consistent_forbidValue (s : Formula) (hs : Consistent s) (v i : Nat)
    (hv : v < s.VARLIST.length) (hi : i < (s.var v).DOMAINSIZE) :
    Consistent (forbidValue v s i) := by
  by_cases h : s.CONFLICT = false ∧ s.assign v i = 0
  · rw [forbidValue_pos v s i h.1 h.2]
    exact consistent_setTrue s hs v false i hv hi h.2
  · rw [forbidValue_neg v s i h]
    exact hs

theorem consistent_forbidValues (v : Nat) (js : List Nat) (s : Formula) (hs : Consistent s)
    (hv : v < s.VARLIST.length) (hjs : ∀ j ∈ js, j < (s.var v).DOMAINSIZE) :
    Consistent (js.foldl (forbidValue v) s) := by
  induction js generalizing s with
  | nil => exact hs
  | cons j js ih =>
    simp only [List.foldl_cons]
    have hsd := steady_forbidValue v s j
    apply ih _ (consistent_forbidValue s hs v j hv (hjs j (List.mem_cons_self _ _)))
    · rw [shape_length hsd.shape]; exact hv
    · intro i hi
      rw [shape_dom hsd.shape]
      exact hjs i (List.mem_cons_of_mem _ hi)

theorem consistent_reduceLiteral (s : Formula) (hs : Consistent s) (v : Nat) (e : Bool) (k : Nat)
    (hv : v < s.VARLIST.length) (hk : k < (s.var v).DOMAINSIZE) (hfree : s.assign v k = 0) :
    Consistent (reduceLiteral s v e k) := by
  cases e with
  | true =>
    rw [reduceLiteral_true_eq]
    obtain ⟨hsh, -⟩ := assignValue_basic s v k
    apply consistent_forbidValues v _ _ (consistent_assignValue s hs v k hv hk hfree)
    · rw [shape_length hsh]; exact hv
    · intro j hj
      rw [shape_dom hsh]
      rw [domainLoop_mem] at hj
      rcases hj with h | h
      · exact h.1
      · omega
  | false =>
    rw [reduceLiteral_false_eq]
    exact consistent_same (consistent_setTrue s hs v false k hv hk hfree) rfl rfl rfl rfl

theorem consistent_reduceTheory (s : Formula) (hs : Consistent s) (v : Nat) (e : Bool) (k : Nat)
    (hv : v < s.VARLIST.length) (hk : k < (s.var v).DOMAINSIZE) (hfree : s.assign v k = 0) :
    Consistent (reduceTheory s v e k) := by
  rw [reduceTheory_eq]
  have h1 := consistent_reduceLiteral s hs v e k hv hk hfree
  obtain ⟨hsh, -⟩ := reduceLiteral_basic s v e k
  cases he : checkEntail (reduceLiteral s v e k) v with
  | none => exact h1
  | some j =>
    obtain ⟨-, e2, e3, -⟩ := checkEntail_spec _ _ _ he
    simp only
    apply consistent_reduceLiteral
    · exact consistent_same h1 rfl rfl rfl rfl
    · show v < (reduceLiteral s v e k).VARLIST.length
      rw [shape_length hsh]; exact hv
    · exact e2
    · exact e3

theorem clause_out_of_range {s : Formula} (h : NoAlias s) {c : Nat} (hc : ¬ c < s.CLAUSELIST.length) :
    s.clause c = default := by
  rw [clause_eq_getD h]
  rw [noalias_length h] at hc
  exact List.getD_eq_default _ _ (by omega)

theorem atoms_in_range {s : Formula} (hst : Struct s) (c : Nat) (a : Literal)
    (ha : a ∈ (s.clause c).ATOM_LIST) :
    1 ≤ a.VAR ∧ a.VAR < s.VARLIST.length ∧ a.VAL < (s.var a.VAR).DOMAINSIZE := by
  by_cases hc : c < s.CLAUSELIST.length
  · exact hst.atoms c hc a ha
  · rw [clause_out_of_range hst.noalias hc] at ha
    simp [default] at ha

theorem consistent_unitRound (s : Formula) (hs : Consistent s) (c : Nat) (rest : List Nat) :
    Consistent (unitRound s c rest) := by
  have h1 : Consistent { s with UNITS := s.UNITS + 1, UNITCLAUSE := (c : Int), UNITLIST := rest } :=
    consistent_same hs rfl rfl rfl rfl
  unfold unitRound
  simp only
  split_ifs with h
  · cases hf : firstFree { s with UNITS := s.UNITS + 1, UNITCLAUSE := (c : Int), UNITLIST := rest }
        ({ s with UNITS := s.UNITS + 1, UNITCLAUSE := (c : Int), UNITLIST := rest }.clause c).ATOM_LIST with
    | none => exact h1
    | some a =>
      simp only
      have hmem := List.mem_of_find?_eq_some hf
      have hfree := List.find?_some hf
      obtain ⟨-, r2, r3⟩ := atoms_in_range h1.struct c a hmem
      have h2 := consistent_setReason h1 a.VAR a.VAL (c : Int)
      have hsh : Shape { s with UNITS := s.UNITS + 1, UNITCLAUSE := (c : Int), UNITLIST := rest }
          (({ s with UNITS := s.UNITS + 1, UNITCLAUSE := (c : Int), UNITLIST := rest } : Formula).setVar
            a.VAR (fun V => { V with CLAUSEID := V.CLAUSEID.set a.VAL (c : Int) })) :=
        shape_setVar _ _ _ (fun V => by simp [Variable.shape])
      apply consistent_reduceTheory _ h2
      · rw [shape_length hsh]; exact r2
      · rw [shape_dom hsh]; exact r3
      · have : ∀ v k, (({ s with UNITS := s.UNITS + 1, UNITCLAUSE := (c : Int), UNITLIST := rest } : Formula).setVar
            a.VAR (fun V => { V with CLAUSEID := V.CLAUSEID.set a.VAL (c : Int) })).assign v k
            = ({ s with UNITS := s.UNITS + 1, UNITCLAUSE := (c : Int), UNITLIST := rest } : Formula).assign v k := by
          intro v k
          simp only [Formula.assign, var_setVar]
          split_ifs <;> rfl
        rw [this]
        simpa using hfree
  · exact h1

theorem consistent_unitPropagation (fuel : Nat) (s t : Formula) (hs : Consistent s)
    (h : unitPropagation fuel s = some t) : Consistent t := by
  induction fuel generalizing s with
  | zero => simp [unitPropagation] at h
  | succ fuel ih =>
    rw [unitPropagation] at h
    split_ifs at h with hc
    · simp only [Option.some.injEq] at h
      subst h
      exact consistent_same hs rfl rfl rfl rfl
    · cases hu : s.UNITLIST with
      | nil =>
        rw [hu] at h
        simp only [Option.some.injEq] at h
        subst h; exact hs
      | cons c rest =>
        rw [hu] at h
        exact ih _ (consistent_unitRound s hs c rest) h

theorem consistent_checkUnit (s : Formula) (hs : Consistent s) : Consistent (checkUnit s) := by
  obtain ⟨h1, h2, h3, h4, -⟩ := checkUnit_same s
  exact consistent_same hs h1 h2 h3 h4

/-! ## Two nested loops over the values of the variables -/

theorem nested_fold (vars : List Nat) (hnd : vars.Nodup) (dom : Formula → Nat → Nat) (D : Nat → Nat)
    (inner : Nat → Formula → Nat → Formula) (post : Formula → Nat → Formula)
    (I : (Nat → Nat → Bool) → Formula → Prop)
    (hdom : ∀ P u i, I P u → dom u i = D i)
    (hstep : ∀ P u i j, i ∈ vars → j < D i → P i j = false → I P u →
      I (fun v k => P v k || (v == i && k == j)) (inner i u j))
    (hpost : ∀ P u i, i ∈ vars → I P u → I P (post u i))
    (s : Formula) (h0 : I (fun _ _ => false) s) :
    I (fun v k => decide (v ∈ vars) && decide (k < D v))
      (vars.foldl (fun s i => post ((List.range (dom s i)).foldl (inner i) s) i) s) := by
  apply foldl_prefix (fun s i => post ((List.range (dom s i)).foldl (inner i) s) i)
    (fun pre u => I (fun v k => decide (v ∈ pre) && decide (k < D v)) u) vars s
  · have : (fun (v k : Nat) => decide (v ∈ ([] : List Nat)) && decide (k < D v)) = fun _ _ => false := by
      funext v k; simp
    rw [this]; exact h0
  · intro pre i rest u hl hI
    have hi : i ∈ vars := by rw [hl]; simp
    have hni : i ∉ pre := by
      rw [hl] at hnd
      have := List.nodup_append.1 hnd
      intro hmem
      exact this.2.2 hmem (List.mem_cons_self _ _)
    rw [hdom _ u i hI]
    apply hpost _ _ i hi
    have key := foldl_prefix (inner i)
      (fun preJ w => I (fun v k => (decide (v ∈ pre) && decide (k < D v)) ||
        (v == i && decide (k ∈ preJ))) w) (List.range (D i)) u ?_ ?_
    · have : (fun (v k : Nat) => decide (v ∈ pre ++ [i]) && decide (k < D v)) =
          (fun v k => (decide (v ∈ pre) && decide (k < D v)) ||
            (v == i && decide (k ∈ List.range (D i)))) := by
        funext v k
        by_cases hv : v = i
        · subst hv
          simp [hni]
        · simp [hv]
      rw [this]; exact key
    · have : (fun (v k : Nat) => (decide (v ∈ pre) && decide (k < D v)) ||
          (v == i && decide (k ∈ ([] : List Nat)))) =
          (fun v k => decide (v ∈ pre) && decide (k < D v)) := by
        funext v k; simp
      simp only [this]; exact hI
    · intro preJ j restJ w hlJ hIw
      have hj : j < D i := by
        have : j ∈ List.range (D i) := by rw [hlJ]; simp
        simpa using this
      have hnj : j ∉ preJ := by
        have hndJ := List.nodup_range (D i)
        rw [hlJ] at hndJ
        have := List.nodup_append.1 hndJ
        intro hmem
        exact this.2.2 hmem (List.mem_cons_self _ _)
      have hP : (fun (v k : Nat) => (decide (v ∈ pre) && decide (k < D v)) ||
          (v == i && decide (k ∈ preJ))) i j = false := by
        simp [hni, hnj]
      have := hstep _ w i j hi hj hP hIw
      have heq : (fun (v k : Nat) => (decide (v ∈ pre) && decide (k < D v)) ||
          (v == i && decide (k ∈ preJ ++ [j]))) =
          (fun v k => ((decide (v ∈ pre) && decide (k < D v)) ||
            (v == i && decide (k ∈ preJ))) || (v == i && k == j)) := by
        funext v k
        have hv' : (v == i) = decide (v = i) := rfl
        have hk' : (k == j) = decide (k = j) := rfl
        rw [hv', hk']
        by_cases hv : v = i
        · by_cases hk : k = j
          · simp [hv, hk]
          · simp [hv, hk]
        · simp [hv]
      simp only [heq]
      exact this

theorem addLiteral_spec (s : Formula) (hst : Struct s) (v : Nat) (e : Bool) (k : Nat)
    (hv : v < s.VARLIST.length) (hk : k < (s.var v).DOMAINSIZE) :
    (∀ c, (addLiteral s v e k).clause c =
      if (s.clause c).SAT = false then
        { s.clause c with NumUnAss := (s.clause c).NumUnAss + ((s.records v e k).count c : Int) }
      else s.clause c) ∧
    (∀ v' e' k', (addLiteral s v e k).cnt v' e' k' =
      if v' = v ∧ e' = e ∧ k' = k then s.cnt v e k + (s.unsatRecs v e k : Int)
      else s.cnt v' e' k') := by
  unfold addLiteral
  have key := foldl_prefix
    (fun s c => if !(s.clause c).SAT then (s.bumpUnAss c 1).bumpCnt v e k 1 else s)
    (fun pre u => Frame s u ∧
      (∀ c, u.clause c =
        if (s.clause c).SAT = false then
          { s.clause c with NumUnAss := (s.clause c).NumUnAss + (pre.count c : Int) }
        else s.clause c) ∧
      (∀ v' e' k', u.cnt v' e' k' =
        if v' = v ∧ e' = e ∧ k' = k then
          s.cnt v e k + ((pre.filter (fun c => !(s.clause c).SAT)).length : Int)
        else s.cnt v' e' k'))
    (s.records v e k) s ⟨frame_refl s, fun c => by simp, fun v' e' k' => by
      by_cases h : v' = v ∧ e' = e ∧ k' = k
      · obtain ⟨rfl, rfl, rfl⟩ := h
        simp
      · simp [h]⟩ ?_
  · exact ⟨key.2.1, key.2.2⟩
  · intro pre c post u hl ⟨hfr, hform, hcf⟩
    have hmem : c ∈ s.records v e k := by rw [hl]; simp
    have hclt : c < s.CLAUSELIST.length := ((records_mem hst hv hk e c).1 hmem).1
    have hsame : (u.clause c).SAT = (s.clause c).SAT := by
      rw [hform c]; split_ifs <;> rfl
    by_cases hsat : (s.clause c).SAT = true
    · have hstep : (if !(u.clause c).SAT then (u.bumpUnAss c 1).bumpCnt v e k 1 else u) = u := by
        simp [hsame, hsat]
      simp only [hstep]
      refine ⟨hfr, fun c' => ?_, fun v' e' k' => ?_⟩
      · rw [hform c']
        by_cases hcc : c' = c
        · subst hcc
          simp [hsat]
        · have : (pre ++ [c]).count c' = pre.count c' := by
            rw [List.count_append]
            simp [List.count_cons, Ne.symm hcc]
          rw [this]
      · rw [hcf v' e' k', List.filter_append]
        simp [hsat]
    · have hunsat : (s.clause c).SAT = false := by simpa using hsat
      have hstep : (if !(u.clause c).SAT then (u.bumpUnAss c 1).bumpCnt v e k 1 else u)
          = (u.bumpUnAss c 1).bumpCnt v e k 1 := by
        simp [hsame, hunsat]
      simp only [hstep]
      have hshu := shape_of_frame hfr
      have hnau := noalias_of_shape hshu hst.noalias
      have hwfu := frame_wf hfr hst.sized.1
      have hcu : c < u.HEAP.length := by
        rw [← noalias_length hnau, hfr.clist]; exact hclt
      refine ⟨frame_trans hfr (frame_trans (frame_bumpUnAss u c 1) (frame_bumpCnt _ _ _ _ _)),
        fun c' => ?_, fun v' e' k' => ?_⟩
      · rw [clause_bumpCnt, clause_bumpUnAss hnau, hform c']
        by_cases hcc : c' = c
        · subst hcc
          rw [if_pos ⟨rfl, hcu⟩, if_pos hunsat, if_pos hunsat, List.count_append]
          simp only [List.count_cons, List.count_nil, beq_self_eq_true, if_true]
          congr 1
          push_cast
          ring
        · have : (pre ++ [c]).count c' = pre.count c' := by
            rw [List.count_append]
            simp [List.count_cons, Ne.symm hcc]
          rw [this, if_neg (fun h => hcc h.1.symm)]
      · rw [cnt_bumpCnt _ (frame_wf (frame_bumpUnAss u c 1) hwfu),
          cnt_bumpUnAss, hcf v' e' k', List.filter_append]
        have hlen : (u.bumpUnAss c 1).VARLIST.length = s.VARLIST.length := by
          rw [← frame_length_eq hfr]; rfl
        have hvar : ((u.bumpUnAss c 1).var v').DOMAINSIZE = (s.var v').DOMAINSIZE := by
          rw [← frame_dom_eq hfr]; rfl
        rw [hlen, hvar]
        by_cases hcell : v' = v ∧ e' = e ∧ k' = k
        · obtain ⟨rfl, rfl, rfl⟩ := hcell
          simp only [true_and, and_self, hv, hk, if_true, List.filter_cons, hunsat,
            Bool.not_false, List.filter_nil, List.length_append, List.length_cons, List.length_nil]
          push_cast
          ring
        · have h1 : ¬ (v = v' ∧ e = e' ∧ k = k' ∧ v' < s.VARLIST.length ∧
              k' < (s.var v').DOMAINSIZE) := fun h => hcell ⟨h.1.symm, h.2.1.symm, h.2.2.1.symm⟩
          rw [if_neg h1, if_neg hcell, if_neg hcell]

theorem counted_congr {K K' : Nat → Nat → Bool} {u : Formula} (hst : Struct u)
    (h : ∀ v k, v < u.VARLIST.length → k < (u.var v).DOMAINSIZE → K v k = K' v k)
    (hc : Counted K u) : Counted K' u := by
  refine ⟨fun c hcl hu => ?_, fun v hv k hk e => ?_⟩
  · rw [hc.unass c hcl hu]
    congr 2
    apply List.filter_congr
    intro a ha
    obtain ⟨-, r2, r3⟩ := hst.atoms c hcl a ha
    exact h _ _ r2 r3
  · rw [hc.cnt v hv k hk e, h v k hv hk]

theorem counted_of_consistent {s : Formula} (hs : Consistent s) :
    Counted (fun v k => s.assign v k == 0) s :=
  ⟨fun c hc hu => (hs.clauses.unsat c hc hu).1, fun v hv k hk e => by
    rw [hs.counts v hv k hk e]
    by_cases h : s.assign v k = 0
    · simp [h]
    · simp [h]⟩

theorem nonfree_of_level {s : Formula} (hs : Consistent s) {L : Int} (hL : -1 ≤ L) {v k : Nat}
    (hv : v < s.VARLIST.length) (hk : k < (s.var v).DOMAINSIZE) (h : L < s.level v k) :
    s.assign v k = -1 ∨ s.assign v k = 1 := by
  rcases hs.cells.tern v hv k hk with h0 | h1 | h2
  · have := hs.cells.free v hv k hk h0
    omega
  · exact Or.inl h1
  · exact Or.inr h2

theorem sat_of_holds {s : Formula} (hs : Consistent s) {c : Nat} (hc : c < s.CLAUSELIST.length)
    {a : Literal} (ha : a ∈ (s.clause c).ATOM_LIST) (hh : s.holds a = true) :
    (s.clause c).SAT = true := by
  by_contra hne
  have hu : (s.clause c).SAT = false := by simpa using hne
  have := (hs.clauses.unsat c hc hu).2.2 a ha
  rw [this] at hh
  simp at hh

theorem unsatRecs_of_holds {s : Formula} (hs : Consistent s) {v k : Nat} {e : Bool}
    (hv : v < s.VARLIST.length) (hk : k < (s.var v).DOMAINSIZE)
    (hh : s.holds ⟨v, k, e⟩ = true) : s.unsatRecs v e k = 0 := by
  unfold Formula.unsatRecs
  rw [List.filter_eq_nil_iff.2]
  · rfl
  · intro c hc
    obtain ⟨h1, h2⟩ := (records_mem hs.struct hv hk e c).1 hc
    simp [sat_of_holds hs h1 h2 hh]

theorem addInv_undoAdd (s : Formula) (hs : Consistent s) (L : Int) (hL : -1 ≤ L)
    (P : Nat → Nat → Bool) (u : Formula) (i j : Nat) (hi : i < s.VARLIST.length)
    (hj : j < (s.var i).DOMAINSIZE) (hP : P i j = false) (h : AddInv s L P u) :
    AddInv s L (fun v k => P v k || (v == i && k == j)) (undoAdd L i u j) := by
  have hfr := h.frame
  unfold undoAdd
  rw [frame_level_eq hfr, frame_assign_eq hfr]
  by_cases hlev : s.level i j > L
  · rw [if_pos hlev]
    have hadd : (if (s.assign i j == -1) = true then addLiteral u i true j else addLiteral u i false j)
        = addLiteral u i (s.assign i j == -1) j := by
      cases (s.assign i j == -1) <;> rfl
    rw [hadd]
    have hstu := struct_of_shape (shape_of_frame hfr) hs.struct
    have hiu : i < u.VARLIST.length := by rw [frame_length_eq hfr]; exact hi
    have hju : j < (u.var i).DOMAINSIZE := by rw [frame_dom_eq hfr]; exact hj
    obtain ⟨a1, a2⟩ := addLiteral_spec u hstu i (s.assign i j == -1) j hiu hju
    have hfr2 := frame_addLiteral u i (s.assign i j == -1) j
    have hnf := nonfree_of_level hs hL hi hj hlev
    have hne0 : s.assign i j ≠ 0 := by rcases hnf with h | h <;> rw [h] <;> decide
    have hholds : s.holds ⟨i, j, !(s.assign i j == -1)⟩ = true := by
      unfold Formula.holds
      rcases hnf with h | h <;> simp [h]
    have hKold : (s.assign i j == 0 || (decide (L < s.level i j) && P i j)) = false := by
      simp [hne0, hP]
    have hflag : ∀ c, ((addLiteral u i (s.assign i j == -1) j).clause c).SAT = (u.clause c).SAT ∧
        ((addLiteral u i (s.assign i j == -1) j).clause c).LEVEL = (u.clause c).LEVEL ∧
        ((addLiteral u i (s.assign i j == -1) j).clause c).ATOM_LIST = (u.clause c).ATOM_LIST := by
      intro c
      rw [a1 c]
      split_ifs <;> exact ⟨rfl, rfl, rfl⟩
    refine ⟨frame_trans hfr hfr2, fun c => ?_, ⟨fun c hc hu => ?_, fun v hv k hk e => ?_⟩⟩
    · obtain ⟨f1, f2, f3⟩ := h.flags c
      refine ⟨by rw [(hflag c).1, f1], by rw [(hflag c).2.1, f2], fun hsat => ?_⟩
      rw [a1 c, f3 hsat]
      simp [hsat]
    · rw [hfr2.clist] at hc
      have hcs : c < s.CLAUSELIST.length := by rw [← hfr.clist]; exact hc
      rw [(hflag c).1] at hu
      have hus : (s.clause c).SAT = false := by rw [← (h.flags c).1]; exact hu
      have hatoms : (u.clause c).ATOM_LIST = (s.clause c).ATOM_LIST := shape_atoms (shape_of_frame hfr) c
      rw [a1 c, if_pos hu]
      show (u.clause c).NumUnAss + _ = (((u.clause c).ATOM_LIST.filter _).length : Int)
      rw [h.counted.unass c hc hu, hatoms]
      have hrec := hstu.recs i hiu j hju (s.assign i j == -1) c
      rw [if_pos hc, hatoms] at hrec
      rw [hrec]
      have hmark := filter_length_mark (s.clause c).ATOM_LIST
        (fun a => s.assign a.VAR a.VAL == 0 || (decide (L < s.level a.VAR a.VAL) &&
          (P a.VAR a.VAL || (a.VAR == i && a.VAL == j))))
        (fun a => s.assign a.VAR a.VAL == 0 || (decide (L < s.level a.VAR a.VAL) && P a.VAR a.VAL))
        (onCell i j)
        (fun a _ hon => by
          have : (a.VAR == i && a.VAL == j) = false := hon
          simp only [this, Bool.or_false])
        (fun a _ hon => by
          have hon' : a.VAR = i ∧ a.VAL = j := by simpa [onCell] using hon
          beta_reduce
          rw [hon'.1, hon'.2, hKold]
          simp [hlev])
      rw [filter_onCell] at hmark
      have hzero : (s.clause c).ATOM_LIST.count ⟨i, j, !(s.assign i j == -1)⟩ = 0 := by
        apply List.count_eq_zero.2
        intro hmem
        have := sat_of_holds hs hcs hmem hholds
        rw [hus] at this
        simp at this
      cases hb : (s.assign i j == -1)
      · rw [hb] at hzero
        simp only [Bool.not_false] at hzero
        omega
      · rw [hb] at hzero
        simp only [Bool.not_true] at hzero
        omega
    · rw [frame_length_eq hfr2] at hv
      rw [frame_dom_eq hfr2] at hk
      have hur : (addLiteral u i (s.assign i j == -1) j).unsatRecs v e k = u.unsatRecs v e k :=
        unsatRecs_congr (fun c => (hflag c).1) (fun v e k => frame_records_eq hfr2 v e k) v e k
      have hurs : u.unsatRecs v e k = s.unsatRecs v e k :=
        unsatRecs_congr (fun c => (h.flags c).1) (fun v e k => frame_records_eq hfr v e k) v e k
      rw [a2, hur, h.counted.cnt v hv k hk e]
      by_cases hcell : v = i ∧ k = j
      · obtain ⟨rfl, rfl⟩ := hcell
        have hKnew : (s.assign v k == 0 || (decide (L < s.level v k) && (P v k || (v == v && k == k))))
            = true := by simp [hlev]
        rw [hKold, hKnew]
        simp only [true_and, and_true, Bool.false_eq_true, if_false, if_true]
        by_cases hpol : e = (s.assign v k == -1)
        · rw [if_pos hpol, ← hpol, h.counted.cnt v hv k hk e, hKold]
          simp
        · rw [if_neg hpol]
          have he : e = !(s.assign v k == -1) := by
            cases e <;> cases hb : (s.assign v k == -1) <;> simp [hb] at hpol ⊢
          rw [hurs, he, unsatRecs_of_holds hs hi hj hholds]
          simp
      · have hcell' : ¬ (v = i ∧ e = (s.assign i j == -1) ∧ k = j) := fun h => hcell ⟨h.1, h.2.2⟩
        have hoff : (v == i && k == j) = false := by
          simp only [Bool.and_eq_false_iff, beq_eq_false_iff_ne, ne_eq]
          by_contra hc
          push_neg at hc
          exact hcell hc
        rw [if_neg hcell', hoff]
        simp only [Bool.or_false]
  · rw [if_neg hlev]
    have hK : (fun (v k : Nat) => s.assign v k == 0 || (decide (L < s.level v k) &&
        (P v k || (v == i && k == j)))) =
        (fun v k => s.assign v k == 0 || (decide (L < s.level v k) && P v k)) := by
      funext v k
      by_cases hcell : v = i ∧ k = j
      · obtain ⟨rfl, rfl⟩ := hcell
        have : decide (L < s.level v k) = false := by simpa using hlev
        simp [this]
      · have hoff : (v == i && k == j) = false := by
          simp only [Bool.and_eq_false_iff, beq_eq_false_iff_ne, ne_eq]
          by_contra hc
          push_neg at hc
          exact hcell hc
        simp [hoff]
    exact ⟨h.frame, h.flags, by rw [hK]; exact h.counted⟩

theorem addInv_loop (s : Formula) (hs : Consistent s) (L : Int) (hL : -1 ≤ L) :
    AddInv s L (fun v k => decide (v ∈ List.range' 1 (s.VARLIST.length - 1)) &&
        decide (k < (s.var v).DOMAINSIZE))
      ((List.range' 1 (s.VARLIST.length - 1)).foldl
        (fun s i => (List.range (s.var i).DOMAINSIZE).foldl (undoAdd L i) s) s) := by
  apply nested_fold (List.range' 1 (s.VARLIST.length - 1)) (List.nodup_range' _ _)
    (fun u i => (u.var i).DOMAINSIZE) (fun i => (s.var i).DOMAINSIZE) (undoAdd L)
    (fun u _ => u) (AddInv s L)
  · intro P u i h
    exact frame_dom_eq h.frame i
  · intro P u i j hi hj hP h
    have hi' : i < s.VARLIST.length := by
      rw [List.mem_range'] at hi
      omega
    exact addInv_undoAdd s hs L hL P u i j hi' hj hP h
  · intro P u i _ h
    exact h
  · refine ⟨frame_refl s, fun c => ⟨rfl, rfl, fun _ => rfl⟩, ?_⟩
    have : (fun (v k : Nat) => s.assign v k == 0 || (decide (L < s.level v k) && false)) =
        fun v k => s.assign v k == 0 := by
      funext v k; simp
    rw [this]
    exact counted_of_consistent hs

theorem unsatisfyAtoms_spec (c : Nat) (L : Int) (atoms : List Literal) (s : Formula) (hna : NoAlias s)
    (hwf : s.WF) (hc : c < s.HEAP.length)
    (hr : ∀ a ∈ atoms, a.VAR < s.VARLIST.length ∧ a.VAL < (s.var a.VAR).DOMAINSIZE) :
    (∀ c', (unsatisfyAtoms c L s atoms).clause c' =
      if c' = c then
        { s.clause c' with NumUnAss := (s.clause c').NumUnAss +
            ((atoms.filter (fun a => decide (s.level a.VAR a.VAL > L) ||
              s.assign a.VAR a.VAL == 0)).length : Int) }
      else s.clause c') ∧
    (∀ v e k, (unsatisfyAtoms c L s atoms).cnt v e k =
      s.cnt v e k + (if (decide (s.level v k > L) || s.assign v k == 0) = true then
        (atoms.count ⟨v, k, e⟩ : Int) else 0)) := by
  induction atoms generalizing s with
  | nil =>
    refine ⟨fun c' => ?_, fun v e k => ?_⟩
    · simp [unsatisfyAtoms]
    · simp [unsatisfyAtoms]
  | cons a as ih =>
    have hstep : unsatisfyAtoms c L s (a :: as) =
        unsatisfyAtoms c L (if decide (s.level a.VAR a.VAL > L) || s.assign a.VAR a.VAL == 0 then
          (s.bumpUnAss c 1).bumpCnt a.VAR a.EQUAL a.VAL 1 else s) as := rfl
    rw [hstep]
    have hra := hr a (List.mem_cons_self _ _)
    by_cases hf : (decide (s.level a.VAR a.VAL > L) || s.assign a.VAR a.VAL == 0) = true
    · rw [if_pos hf]
      have hfr : Frame s ((s.bumpUnAss c 1).bumpCnt a.VAR a.EQUAL a.VAL 1) :=
        frame_trans (frame_bumpUnAss s c 1) (frame_bumpCnt _ _ _ _ _)
      have hsh := shape_of_frame hfr
      obtain ⟨ih1, ih2⟩ := ih _ (noalias_of_shape hsh hna) (frame_wf hfr hwf)
        (by rw [frame_heapLength hfr]; exact hc)
        (fun b hb => by
          rw [shape_length hsh, shape_dom hsh]
          exact hr b (List.mem_cons_of_mem _ hb))
      refine ⟨fun c' => ?_, fun v e k => ?_⟩
      · rw [ih1 c']
        simp only [frame_assign_eq hfr, frame_level_eq hfr, clause_bumpCnt, clause_bumpUnAss hna]
        by_cases hcc : c' = c
        · subst hcc
          simp only [if_true, true_and, hc, List.filter_cons, hf, List.length_cons]
          congr 1
          push_cast
          ring
        · have hcc' : ¬ (c = c' ∧ c' < s.HEAP.length) := fun h => hcc h.1.symm
          simp only [hcc, if_false, hcc']
      · rw [ih2 v e k]
        rw [frame_assign_eq hfr, frame_level_eq hfr,
          cnt_bumpCnt _ (frame_wf (frame_bumpUnAss s c 1) hwf), cnt_bumpUnAss, List.count_cons]
        have hlen : (s.bumpUnAss c 1).VARLIST.length = s.VARLIST.length := rfl
        have hvar : ∀ u, (s.bumpUnAss c 1).var u = s.var u := fun _ => rfl
        rw [hlen, hvar]
        by_cases hcell : a = ⟨v, k, e⟩
        · subst hcell
          simp only [true_and, hf, if_true, hra.1, hra.2, and_self, beq_self_eq_true]
          push_cast
          ring
        · have h1 : ¬ (a.VAR = v ∧ a.EQUAL = e ∧ a.VAL = k ∧ v < s.VARLIST.length ∧
              k < (s.var v).DOMAINSIZE) := by
            intro h
            apply hcell
            cases a
            simp only [Literal.mk.injEq]
            exact ⟨h.1, h.2.2.1, h.2.1⟩
          have h2 : (a == (⟨v, k, e⟩ : Literal)) = false := by simpa using hcell
          rw [if_neg h1, h2]
          simp
    · rw [if_neg hf]
      obtain ⟨ih1, ih2⟩ := ih s hna hwf hc (fun b hb => hr b (List.mem_cons_of_mem _ hb))
      refine ⟨fun c' => ?_, fun v e k => ?_⟩
      · rw [ih1 c', List.filter_cons, if_neg hf]
      · rw [ih2 v e k, List.count_cons]
        by_cases hcell : a = ⟨v, k, e⟩
        · subst hcell
          simp only [hf, Bool.false_eq_true, if_false]
        · have h2 : (a == (⟨v, k, e⟩ : Literal)) = false := by simpa using hcell
          rw [h2]
          simp

theorem undoInv_cond {s u : Formula} {L : Int} {P : Nat → Nat → Bool} (h : UndoInv s L P u)
    (v k : Nat) :
    (decide (u.level v k > L) || u.assign v k == 0) =
      (decide (s.level v k > L) || s.assign v k == 0) := by
  have hc := h.cells v k
  by_cases hp : P v k = true ∧ L < s.level v k
  · rw [if_pos hp] at hc
    simp only [Formula.cell, Prod.mk.injEq] at hc
    have h2 : decide (s.level v k > L) = true := by simpa using hp.2
    rw [hc.1, h2]
    simp
  · rw [if_neg hp] at hc
    simp only [Formula.cell, Prod.mk.injEq] at hc
    rw [hc.1, hc.2.1]

theorem frame_unsatisfyOne (u : Formula) (c : Nat) (L : Int) : Frame u (unsatisfyOne u c L) :=
  frame_trans (frame_unsatisfyAtoms c L u _)
    (frame_setClause _ c (fun C => { C with LEVEL := -1, SAT := false }) (fun _ => rfl))

theorem unsatisfyOne_spec (s : Formula) (hs : Consistent s) (L : Int) (hL : -1 ≤ L)
    (P : Nat → Nat → Bool) (u : Formula) (h : UndoInv s L P u) (c : Nat)
    (hc : c < s.CLAUSELIST.length) (hlev : (u.clause c).LEVEL > L) :
    (∀ c', (unsatisfyOne u c L).clause c' =
      if c' = c then
        { s.clause c with NumUnAss := (((s.clause c).ATOM_LIST.filter (fun a => decide (s.level a.VAR a.VAL > L) || s.assign a.VAR a.VAL == 0)).length : Int), LEVEL := -1, SAT := false }
      else u.clause c') ∧
    (∀ v e k, (unsatisfyOne u c L).cnt v e k =
      u.cnt v e k + (if (decide (s.level v k > L) || s.assign v k == 0) = true then
        ((s.clause c).ATOM_LIST.count ⟨v, k, e⟩ : Int) else 0)) ∧
    u.clause c = s.clause c ∧ (s.clause c).SAT = true := by
  have hsatu : (u.clause c).SAT = true := by
    by_contra hne
    have hu : (u.clause c).SAT = false := by simpa using hne
    have := h.reset c hu
    omega
  have hkept := h.kept c hsatu
  have hsats : (s.clause c).SAT = true := by rw [← hkept]; exact hsatu
  have hnum := (hs.clauses.sat c hc hsats).1
  have hstu := struct_of_shape h.shape hs.struct
  have hcu : c < u.CLAUSELIST.length := by rw [h.shape.clist]; exact hc
  have hch : c < u.HEAP.length := by rw [← noalias_length hstu.noalias]; exact hcu
  obtain ⟨a1, a2⟩ := unsatisfyAtoms_spec c L (u.clause c).ATOM_LIST u hstu.noalias hstu.sized.1 hch
    (fun a ha => (hstu.atoms c hcu a ha).2)
  have hfra := frame_unsatisfyAtoms c L u (u.clause c).ATOM_LIST
  have hnaa := noalias_of_shape (shape_of_frame hfra) hstu.noalias
  have hfilter : (u.clause c).ATOM_LIST.filter (fun a => decide (u.level a.VAR a.VAL > L) ||
      u.assign a.VAR a.VAL == 0) = (s.clause c).ATOM_LIST.filter (fun a =>
        decide (s.level a.VAR a.VAL > L) || s.assign a.VAR a.VAL == 0) := by
    rw [hkept]
    apply List.filter_congr
    intro a _
    exact undoInv_cond h a.VAR a.VAL
  refine ⟨fun c' => ?_, fun v e k => ?_, hkept, hsats⟩
  · unfold unsatisfyOne
    rw [clause_setClause hnaa, a1 c', frame_heapLength hfra]
    by_cases hcc : c' = c
    · subst hcc
      rw [if_pos ⟨rfl, hch⟩, if_pos rfl, if_pos rfl, hfilter, hkept, hnum]
      simp
    · rw [if_neg (fun h => hcc h.1.symm), if_neg hcc, if_neg hcc]
  · unfold unsatisfyOne
    rw [cnt_setClause, a2 v e k, undoInv_cond h v k, hkept]

theorem undoInv_unsatisfyOne (s : Formula) (hs : Consistent s) (L : Int) (hL : -1 ≤ L)
    (P : Nat → Nat → Bool) (u : Formula) (h : UndoInv s L P u) (c : Nat)
    (hc : c < s.CLAUSELIST.length) (hlev : (u.clause c).LEVEL > L) :
    UndoInv s L P (unsatisfyOne u c L) := by
  obtain ⟨a1, a2, hkept, hsats⟩ := unsatisfyOne_spec s hs L hL P u h c hc hlev
  have hfr := frame_unsatisfyOne u c L
  have hstu := struct_of_shape h.shape hs.struct
  have hcu : c < u.CLAUSELIST.length := by rw [h.shape.clist]; exact hc
  have hother : ∀ c', c' ≠ c → (unsatisfyOne u c L).clause c' = u.clause c' := by
    intro c' hne; rw [a1 c', if_neg hne]
  have hself : ((unsatisfyOne u c L).clause c).SAT = false := by rw [a1 c, if_pos rfl]
  have hmono : ∀ c', (u.clause c').SAT = false → ((unsatisfyOne u c L).clause c').SAT = false := by
    intro c' hu
    by_cases hcc : c' = c
    · rw [hcc]; exact hself
    · rw [hother c' hcc]; exact hu
  refine ⟨shape_trans h.shape (shape_of_frame hfr), by rw [hfr.level]; exact h.level,
    fun v k => by rw [cell_of_frame hfr]; exact h.cells v k, ⟨?_, ?_⟩, ?_, ?_, ?_, ?_⟩
  · intro c' hc' hu
    rw [hfr.clist] at hc'
    by_cases hcc : c' = c
    · subst hcc
      rw [a1 c', if_pos rfl]
    · rw [hother c' hcc] at hu ⊢
      exact h.counted.unass c' hc' hu
  · intro v hv k hk e
    rw [frame_length_eq hfr] at hv
    rw [frame_dom_eq hfr] at hk
    rw [a2 v e k, h.counted.cnt v hv k hk e]
    have hflip := filter_length_flip (u.records v e k)
      (fun c' => !((unsatisfyOne u c L).clause c').SAT) (fun c' => !(u.clause c').SAT) c
      (fun c' hne => by simp only [hother c' hne])
      (by simp [hself]) (by simp [hkept, hsats])
    have hrec := hstu.recs v hv k hk e c
    rw [if_pos hcu, hkept] at hrec
    by_cases hF : (decide (s.level v k > L) || s.assign v k == 0) = true
    · simp only [hF, if_true]
      unfold Formula.unsatRecs
      rw [frame_records_eq hfr, ← hrec]
      have := hflip
      push_cast [← this]
      ring
    · simp only [hF, if_false, Bool.false_eq_true, add_zero]
  · intro c' hsat
    by_cases hcc : c' = c
    · rw [hcc, hself] at hsat
      simp at hsat
    · rw [hother c' hcc] at hsat ⊢
      exact h.kept c' hsat
  · intro c' hu
    by_cases hcc : c' = c
    · rw [hcc, a1 c, if_pos rfl]
    · rw [hother c' hcc] at hu ⊢
      exact h.reset c' hu
  · intro c' hsat hlow
    by_cases hcc : c' = c
    · subst hcc
      rw [hkept] at hlev
      omega
    · rw [hother c' hcc]
      exact h.low c' hsat hlow
  · intro c' hc' a ha hh hl hp hcl
    exact hmono c' (h.done c' hc' a ha hh hl hp hcl)

theorem unsatisfyClauses_fold (s : Formula) (var : Nat) (equals : Bool) (val : Nat) (level : Int) :
    unsatisfyClauses s var equals val level =
      (s.records var equals val).foldl
        (fun s c => if (s.clause c).LEVEL > level then unsatisfyOne s c level else s) s := rfl

theorem undoInv_unsatisfyClauses (s : Formula) (hs : Consistent s) (L : Int) (hL : -1 ≤ L)
    (P : Nat → Nat → Bool) (u : Formula) (h : UndoInv s L P u) (v : Nat) (e : Bool) (k : Nat)
    (hv : v < s.VARLIST.length) (hk : k < (s.var v).DOMAINSIZE) :
    UndoInv s L P (unsatisfyClauses u v e k L) ∧
    ∀ c ∈ s.records v e k, ((unsatisfyClauses u v e k L).clause c).LEVEL ≤ L := by
  rw [unsatisfyClauses_fold, shape_records h.shape]
  apply foldl_prefix (fun s c => if (s.clause c).LEVEL > L then unsatisfyOne s c L else s)
    (fun pre w => UndoInv s L P w ∧ ∀ c ∈ pre, (w.clause c).LEVEL ≤ L) (s.records v e k) u
  · exact ⟨h, fun c hc => by simp at hc⟩
  · intro pre c post w hl ⟨hw, hpre⟩
    have hmem : c ∈ s.records v e k := by rw [hl]; simp
    have hclt : c < s.CLAUSELIST.length := ((records_mem hs.struct hv hk e c).1 hmem).1
    by_cases hlev : (w.clause c).LEVEL > L
    · simp only [hlev, if_true]
      obtain ⟨a1, -⟩ := unsatisfyOne_spec s hs L hL P w hw c hclt hlev
      refine ⟨undoInv_unsatisfyOne s hs L hL P w hw c hclt hlev, fun c' hc' => ?_⟩
      rw [a1 c']
      by_cases hcc : c' = c
      · rw [if_pos hcc]
        show (-1 : Int) ≤ L
        exact hL
      · rw [if_neg hcc]
        rw [List.mem_append] at hc'
        rcases hc' with h1 | h1
        · exact hpre c' h1
        · simp at h1; exact absurd h1 hcc
    · simp only [hlev, if_false]
      refine ⟨hw, fun c' hc' => ?_⟩
      rw [List.mem_append] at hc'
      rcases hc' with h1 | h1
      · exact hpre c' h1
      · simp at h1
        rw [h1]
        omega

theorem cnt_setVar (s : Formula) (i : Nat) (f : Variable → Variable)
    (hf : ∀ V, (f V).ATOMCNTPOS = V.ATOMCNTPOS ∧ (f V).ATOMCNTNEG = V.ATOMCNTNEG)
    (v : Nat) (e : Bool) (k : Nat) : (s.setVar i f).cnt v e k = s.cnt v e k := by
  unfold Formula.cnt Formula.cntPos Formula.cntNeg
  rw [var_setVar]
  split_ifs <;> simp [(hf _).1, (hf _).2]

theorem undoInv_update {s : Formula} {L : Int} {P P' : Nat → Nat → Bool} {w t : Formula}
    (h : UndoInv s L P w) (hsh : Shape w t) (hlev : t.LEVEL = w.LEVEL)
    (hcl : ∀ c, t.clause c = w.clause c) (hcnt : ∀ v e k, t.cnt v e k = w.cnt v e k)
    (hcells : ∀ v k, t.cell v k =
      if P' v k = true ∧ L < s.level v k then (0, -10, -10) else s.cell v k)
    (hdone : ∀ c < s.CLAUSELIST.length, ∀ a ∈ (s.clause c).ATOM_LIST, s.holds a = true →
      L < s.level a.VAR a.VAL → P' a.VAR a.VAL = true → L < (s.clause c).LEVEL →
      (w.clause c).SAT = false) :
    UndoInv s L P' t := by
  refine ⟨shape_trans h.shape hsh, by rw [hlev]; exact h.level, hcells, ⟨?_, ?_⟩, ?_, ?_, ?_, ?_⟩
  · intro c hc hu
    rw [hsh.clist] at hc
    rw [hcl c] at hu ⊢
    exact h.counted.unass c hc hu
  · intro v hv k hk e
    rw [shape_length hsh] at hv
    rw [shape_dom hsh] at hk
    rw [hcnt, unsatRecs_congr (fun c => by rw [hcl c]) (fun v e k => shape_records hsh v e k)]
    exact h.counted.cnt v hv k hk e
  · intro c hsat
    rw [hcl c] at hsat ⊢
    exact h.kept c hsat
  · intro c hu
    rw [hcl c] at hu ⊢
    exact h.reset c hu
  · intro c hsat hlow
    rw [hcl c]
    exact h.low c hsat hlow
  · intro c hc a ha hh hl hp hlc
    rw [hcl c]
    exact hdone c hc a ha hh hl hp hlc

theorem undoInv_undoValue (s : Formula) (hs : Consistent s) (L : Int) (hL : -1 ≤ L)
    (P : Nat → Nat → Bool) (u : Formula) (i j : Nat) (hi : i < s.VARLIST.length)
    (hj : j < (s.var i).DOMAINSIZE) (hP : P i j = false) (h : UndoInv s L P u) :
    UndoInv s L (fun v k => P v k || (v == i && k == j)) (undoValue L i u j) := by
  have hwfu := shape_wf h.shape hs.struct.sized.1
  have hiu : i < u.VARLIST.length := by rw [shape_length h.shape]; exact hi
  have hju : j < (u.var i).DOMAINSIZE := by rw [shape_dom h.shape]; exact hj
  have hcij := h.cells i j
  rw [hP] at hcij
  simp only [Bool.false_eq_true, false_and, if_false] at hcij
  have hlu : u.level i j = s.level i j := by
    have := congrArg (fun p => p.2.1) hcij
    simpa [Formula.cell] using this
  have hau : u.assign i j = s.assign i j := by
    have := congrArg (fun p => p.1) hcij
    simpa [Formula.cell] using this
  have hcells : ∀ v k, (undoValue L i u j).cell v k =
      if (P v k || (v == i && k == j)) = true ∧ L < s.level v k then (0, -10, -10)
      else s.cell v k := by
    intro v k
    rw [cell_undoValue L i u j hwfu hiu hju v k, hlu]
    by_cases hcell : v = i ∧ k = j
    · obtain ⟨rfl, rfl⟩ := hcell
      by_cases hl : L < s.level v k
      · simp [hl]
      · simp [hl, hcij]
    · have hoff : (v == i && k == j) = false := by
        simp only [Bool.and_eq_false_iff, beq_eq_false_iff_ne, ne_eq]
        by_contra hc
        push_neg at hc
        exact hcell hc
      have hn : ¬ (v = i ∧ k = j ∧ L < s.level i j) := fun hh => hcell ⟨hh.1, hh.2.1⟩
      rw [if_neg hn, hoff, Bool.or_false]
      exact h.cells v k
  by_cases hlev : u.level i j > L
  · have hlevs : s.level i j > L := by rw [← hlu]; exact hlev
    have hnf := nonfree_of_level hs hL hi hj hlevs
    have hinner : (if u.assign i j == -1 then unsatisfyClauses u i false j L
        else unsatisfyClauses u i true j L) = unsatisfyClauses u i (!(s.assign i j == -1)) j L := by
      rw [hau]
      cases (s.assign i j == -1) <;> rfl
    obtain ⟨hw, hlow⟩ := undoInv_unsatisfyClauses s hs L hL P u h i (!(s.assign i j == -1)) j hi hj
    have heq := undoValue_pos L i u j hlev
    rw [hinner] at heq
    obtain ⟨f, hf⟩ : ∃ f : Variable → Variable, f = (fun V => { V with ATOMLEVEL := V.ATOMLEVEL.set j (-10), ATOMASSIGN := V.ATOMASSIGN.set j 0, CLAUSEID := V.CLAUSEID.set j (-10) }) := ⟨_, rfl⟩
    rw [← hf] at heq
    generalize unsatisfyClauses u i (!(s.assign i j == -1)) j L = w at heq hw hlow
    rw [heq] at hcells ⊢
    have hsh : Shape w (w.setVar i f) :=
      shape_setVar _ _ _ (fun V => by rw [hf]; simp [Variable.shape])
    have hcnt : ∀ v e k, (w.setVar i f).cnt v e k = w.cnt v e k :=
      fun v e k => cnt_setVar _ _ _ (fun V => by rw [hf]; exact ⟨rfl, rfl⟩) v e k
    refine undoInv_update hw hsh rfl (fun c => rfl) hcnt hcells ?_
    intro c hc a ha hh hl hp hlc
    by_cases hon : a.VAR = i ∧ a.VAL = j
    · have hpol : a.EQUAL = !(s.assign i j == -1) := by
        unfold Formula.holds at hh
        rw [hon.1, hon.2] at hh
        rcases hnf with h1 | h1 <;> rw [h1] at hh ⊢ <;> cases hE : a.EQUAL <;> simp [hE] at hh ⊢
      have ha' : a = ⟨i, j, !(s.assign i j == -1)⟩ := by
        cases a
        simp only [Literal.mk.injEq]
        exact ⟨hon.1, hon.2, hpol⟩
      rw [ha'] at ha
      have hmem := (records_mem hs.struct hi hj (!(s.assign i j == -1)) c).2 ⟨hc, ha⟩
      have hle := hlow c hmem
      by_contra hne
      have hsat : (w.clause c).SAT = true := by
        simpa using hne
      rw [hw.kept c hsat] at hle
      omega
    · have hoff : (a.VAR == i && a.VAL == j) = false := by
        simp only [Bool.and_eq_false_iff, beq_eq_false_iff_ne, ne_eq]
        by_contra hc
        push_neg at hc
        exact hon hc
      rw [hoff, Bool.or_false] at hp
      exact hw.done c hc a ha hh hl hp hlc
  · have heq := undoValue_neg L i u j hlev
    rw [heq] at hcells ⊢
    refine undoInv_update h (shape_refl u) rfl (fun c => rfl) (fun v e k => rfl) hcells ?_
    intro c hc a ha hh hl hp hlc
    by_cases hon : a.VAR = i ∧ a.VAL = j
    · rw [hon.1, hon.2, ← hlu] at hl
      exact absurd hl hlev
    · have hoff : (a.VAR == i && a.VAL == j) = false := by
        simp only [Bool.and_eq_false_iff, beq_eq_false_iff_ne, ne_eq]
        by_contra hc
        push_neg at hc
        exact hon hc
      rw [hoff, Bool.or_false] at hp
      exact h.done c hc a ha hh hl hp hlc

theorem cell_setVar (s : Formula) (i : Nat) (f : Variable → Variable)
    (hf : ∀ V, (f V).ATOMASSIGN = V.ATOMASSIGN ∧ (f V).ATOMLEVEL = V.ATOMLEVEL ∧
      (f V).CLAUSEID = V.CLAUSEID) (v k : Nat) : (s.setVar i f).cell v k = s.cell v k := by
  unfold Formula.cell Formula.assign Formula.level Formula.reason
  rw [var_setVar]
  split_ifs <;> simp [(hf _).1, (hf _).2.1, (hf _).2.2]

theorem undoVar_eq (L : Int) :
    undoVar L = fun s i =>
      (fun (u : Formula) (i : Nat) =>
        if (u.var i).LEVEL > L then
          u.setVar i (fun V => { V with LEVEL := -1, SAT := false, VAL := -1 })
        else u) ((List.range (s.var i).DOMAINSIZE).foldl (undoValue L i) s) i := rfl

theorem mem_vars (n v : Nat) : v ∈ List.range' 1 (n - 1) ↔ 1 ≤ v ∧ v < n := by
  rw [List.mem_range']
  constructor
  · rintro ⟨i, hi, rfl⟩
    omega
  · intro h
    exact ⟨v - 1, by omega, by omega⟩

theorem undoInv_start (s : Formula) (hs : Consistent s) (L : Int) (hL : -1 ≤ L) :
    UndoInv s L (fun _ _ => false)
      ((List.range' 1 (s.VARLIST.length - 1)).foldl
        (fun s i => (List.range (s.var i).DOMAINSIZE).foldl (undoAdd L i) s) s) := by
  have h := addInv_loop s hs L hL
  have hfr := h.frame
  have hst := struct_of_shape (shape_of_frame hfr) hs.struct
  refine ⟨shape_of_frame hfr, hfr.level, fun v k => ?_, ?_, ?_, ?_, ?_, ?_⟩
  · rw [cell_of_frame hfr]; simp
  · apply counted_congr hst _ h.counted
    intro v k hv hk
    rw [frame_length_eq hfr] at hv
    rw [frame_dom_eq hfr] at hk
    have hv1 : 1 ≤ v := by
      by_contra hne
      have : v = 0 := by omega
      rw [this, hs.struct.sized.2] at hk
      omega
    have hmem : v ∈ List.range' 1 (s.VARLIST.length - 1) := (mem_vars _ _).2 ⟨hv1, hv⟩
    simp only [hmem, hk, decide_True, Bool.and_true, gt_iff_lt]
    rw [Bool.or_comm]
  · intro c hsat
    have hf := h.flags c
    rw [hf.1] at hsat
    exact hf.2.2 hsat
  · intro c hu
    have hf := h.flags c
    rw [hf.1] at hu
    rw [hf.2.1]
    by_cases hc : c < s.CLAUSELIST.length
    · exact (hs.clauses.unsat c hc hu).2.1
    · rw [clause_out_of_range hs.struct.noalias hc]; rfl
  · intro c hsat _
    rw [(h.flags c).1]; exact hsat
  · intro c _ a _ _ _ hp
    simp at hp

theorem undoInv_post (s : Formula) (L : Int) (P : Nat → Nat → Bool) (u : Formula) (i : Nat)
    (h : UndoInv s L P u) :
    UndoInv s L P (if (u.var i).LEVEL > L then
      u.setVar i (fun V => { V with LEVEL := -1, SAT := false, VAL := -1 }) else u) := by
  split_ifs
  · have hsh : Shape u (u.setVar i (fun V => { V with LEVEL := -1, SAT := false, VAL := -1 })) :=
      shape_setVar _ _ _ (fun V => by simp [Variable.shape])
    have hcnt : ∀ v e k, (u.setVar i (fun V => { V with LEVEL := -1, SAT := false, VAL := -1 })).cnt
        v e k = u.cnt v e k := by
      intro v e k
      apply cnt_setVar
      intro V
      exact ⟨rfl, rfl⟩
    have hcell : ∀ v k, (u.setVar i (fun V => { V with LEVEL := -1, SAT := false, VAL := -1 })).cell
        v k = u.cell v k := by
      intro v k
      apply cell_setVar
      intro V
      exact ⟨rfl, rfl, rfl⟩
    refine undoInv_update h hsh rfl (fun c => rfl) hcnt ?_ h.done
    intro v k
    rw [hcell]
    exact h.cells v k
  · exact h

theorem undoInv_undoTheory (s : Formula) (hs : Consistent s) (L : Int) (hL : -1 ≤ L) :
    UndoInv s L (fun v k => decide (v ∈ List.range' 1 (s.VARLIST.length - 1)) &&
      decide (k < (s.var v).DOMAINSIZE)) (undoTheory s L) := by
  have h0 := undoInv_start s hs L hL
  have hfr := (addInv_loop s hs L hL).frame
  have key := nested_fold (List.range' 1 (s.VARLIST.length - 1)) (List.nodup_range' _ _)
    (fun u i => (u.var i).DOMAINSIZE) (fun i => (s.var i).DOMAINSIZE) (undoValue L)
    (fun (u : Formula) (i : Nat) =>
        if (u.var i).LEVEL > L then
          u.setVar i (fun V => { V with LEVEL := -1, SAT := false, VAL := -1 })
        else u) (UndoInv s L)
    (fun P u i h => shape_dom h.shape i)
    (fun P u i j hi hj hP h =>
      undoInv_undoValue s hs L hL P u i j ((mem_vars _ _).1 hi).2 hj hP h)
    (fun P u i _ h => undoInv_post s L P u i h) _ h0
  rw [← undoVar_eq] at key
  unfold undoTheory
  simp only
  generalize List.foldl (undoVar L) _ _ = X at key ⊢
  refine undoInv_update key ?_ ?_ ?_ ?_ ?_ key.done
  · exact ⟨rfl, rfl, rfl⟩
  · rfl
  · intro c; rfl
  · intro v e k; rfl
  · exact key.cells

/-! ## The state after `undoTheory` -/

theorem undoTheory_cell_cases (s : Formula) (hs : Consistent s) (L : Int) (v k : Nat)
    (hv : v < s.VARLIST.length) (hk : k < (s.var v).DOMAINSIZE) :
    (L < s.level v k ∧ (undoTheory s L).cell v k = (0, -10, -10)) ∨
    (¬ L < s.level v k ∧ (undoTheory s L).cell v k = s.cell v k) := by
  have h := cell_undoTheory s L hs.struct.sized.1 v k
  have hv1 : 1 ≤ v := by
    by_contra hne
    have : v = 0 := by omega
    rw [this, hs.struct.sized.2] at hk
    omega
  by_cases hl : L < s.level v k
  · left
    rw [if_pos ⟨hv1, hv, hk, hl⟩] at h
    exact ⟨hl, h⟩
  · right
    rw [if_neg (fun hh => hl hh.2.2.2)] at h
    exact ⟨hl, h⟩

theorem undoTheory_free_iff (s : Formula) (hs : Consistent s) (L : Int) (v k : Nat)
    (hv : v < s.VARLIST.length) (hk : k < (s.var v).DOMAINSIZE) :
    ((undoTheory s L).assign v k == 0) = (decide (s.level v k > L) || s.assign v k == 0) := by
  rcases undoTheory_cell_cases s hs L v k hv hk with ⟨h1, h2⟩ | ⟨h1, h2⟩
  · have : (undoTheory s L).assign v k = 0 := assign_of_cell_val h2
    simp [this, h1]
  · have : (undoTheory s L).assign v k = s.assign v k := assign_of_cell h2
    simp [this, h1]

theorem undoTheory_holds (s : Formula) (hs : Consistent s) (L : Int) (a : Literal)
    (hv : a.VAR < s.VARLIST.length) (hk : a.VAL < (s.var a.VAR).DOMAINSIZE) :
    (undoTheory s L).holds a = (s.holds a && decide (s.level a.VAR a.VAL ≤ L)) ∧
    ((undoTheory s L).holds a = true →
      (undoTheory s L).level a.VAR a.VAL = s.level a.VAR a.VAL) := by
  rcases undoTheory_cell_cases s hs L a.VAR a.VAL hv hk with ⟨h1, h2⟩ | ⟨h1, h2⟩
  · have h0 : (undoTheory s L).assign a.VAR a.VAL = 0 := assign_of_cell_val h2
    have hh : (undoTheory s L).holds a = false := by
      unfold Formula.holds
      rw [h0]
      cases a.EQUAL <;> simp
    have hd : decide (s.level a.VAR a.VAL ≤ L) = false := by simp; omega
    rw [hh, hd]
    simp
  · have h0 : (undoTheory s L).assign a.VAR a.VAL = s.assign a.VAR a.VAL := assign_of_cell h2
    have hl : (undoTheory s L).level a.VAR a.VAL = s.level a.VAR a.VAL := by
      have := congrArg (fun p => p.2.1) h2
      simpa [Formula.cell] using this
    have hd : decide (s.level a.VAR a.VAL ≤ L) = true := by simp; omega
    refine ⟨?_, fun _ => hl⟩
    unfold Formula.holds
    rw [h0, hd]
    simp

theorem freeAtoms_undoTheory (s : Formula) (hs : Consistent s) (L : Int) (c : Nat)
    (hc : c < s.CLAUSELIST.length) :
    freeAtoms (undoTheory s L) ((undoTheory s L).clause c) =
      ((s.clause c).ATOM_LIST.filter (fun a => decide (s.level a.VAR a.VAL > L) ||
        s.assign a.VAR a.VAL == 0)).length := by
  unfold freeAtoms
  rw [shape_atoms (shape_undoTheory s L)]
  congr 1
  apply List.filter_congr
  intro a ha
  obtain ⟨-, r2, r3⟩ := hs.struct.atoms c hc a ha
  exact undoTheory_free_iff s hs L a.VAR a.VAL r2 r3

theorem clauseInv_undoTheory (s : Formula) (hs : Consistent s) (L : Int) (hL : -1 ≤ L) :
    ClauseInv (undoTheory s L) := by
  have h := undoInv_undoTheory s hs L hL
  have hsh := shape_undoTheory s L
  refine ⟨?_, ?_⟩
  · intro c hc hu
    have hcs : c < s.CLAUSELIST.length := by rw [← hsh.clist]; exact hc
    refine ⟨?_, h.reset c hu, ?_⟩
    · rw [freeAtoms_undoTheory s hs L c hcs, h.counted.unass c hc hu,
        shape_atoms hsh]
    · intro a ha
      rw [shape_atoms hsh] at ha
      obtain ⟨-, r2, r3⟩ := hs.struct.atoms c hcs a ha
      obtain ⟨e1, -⟩ := undoTheory_holds s hs L a r2 r3
      rw [e1]
      by_contra hne
      have hne' : (s.holds a && decide (s.level a.VAR a.VAL ≤ L)) = true := by simpa using hne
      rw [Bool.and_eq_true] at hne'
      have hle : s.level a.VAR a.VAL ≤ L := by simpa using hne'.2
      have hsat := sat_of_holds hs hcs ha hne'.1
      have hlow := (hs.clauses.sat c hcs hsat).2.2 a ha hne'.1
      have := h.low c hsat (by omega)
      rw [hu] at this
      simp at this
  · intro c hc hsat
    have hcs : c < s.CLAUSELIST.length := by rw [← hsh.clist]; exact hc
    have hk := h.kept c hsat
    have hsats : (s.clause c).SAT = true := by rw [← hk]; exact hsat
    obtain ⟨u1, ⟨w, hw, hw1, hw2⟩, u3⟩ := hs.clauses.sat c hcs hsats
    obtain ⟨-, r2, r3⟩ := hs.struct.atoms c hcs w hw
    have hwl : s.level w.VAR w.VAL ≤ L := by
      by_contra hne
      have hlt : L < s.level w.VAR w.VAL := by omega
      have hp : (decide (w.VAR ∈ List.range' 1 (s.VARLIST.length - 1)) &&
          decide (w.VAL < (s.var w.VAR).DOMAINSIZE)) = true := by
        have hv1 : 1 ≤ w.VAR := (hs.struct.atoms c hcs w hw).1
        simp [(mem_vars _ _).2 ⟨hv1, r2⟩, r3]
      have := h.done c hcs w hw hw1 hlt hp (by rw [← hw2]; exact hlt)
      rw [hsat] at this
      simp at this
    rw [hk]
    refine ⟨u1, ⟨w, hw, ?_, ?_⟩, ?_⟩
    · rw [(undoTheory_holds s hs L w r2 r3).1, hw1]
      simpa using hwl
    · rw [(undoTheory_holds s hs L w r2 r3).2 (by
        rw [(undoTheory_holds s hs L w r2 r3).1, hw1]; simpa using hwl)]
      exact hw2
    · intro a ha hta
      obtain ⟨-, a2, a3⟩ := hs.struct.atoms c hcs a ha
      obtain ⟨e1, e2⟩ := undoTheory_holds s hs L a a2 a3
      rw [e2 hta]
      rw [e1, Bool.and_eq_true] at hta
      exact u3 a ha hta.1

theorem consistent_undoTheory (s : Formula) (hs : Consistent s) (L : Int) (hL : -1 ≤ L) :
    Consistent (undoTheory s L) := by
  have h := undoInv_undoTheory s hs L hL
  have hsh := shape_undoTheory s L
  refine ⟨struct_of_shape hsh hs.struct, by rw [level_undoTheory]; exact hs.level, ⟨?_, ?_, ?_⟩,
    clauseInv_undoTheory s hs L hL, ?_⟩
  · intro v hv k hk
    rw [shape_length hsh] at hv
    rw [shape_dom hsh] at hk
    rcases undoTheory_cell_cases s hs L v k hv hk with ⟨-, h2⟩ | ⟨-, h2⟩
    · left; exact assign_of_cell_val h2
    · rw [assign_of_cell h2]; exact hs.cells.tern v hv k hk
  · intro v k hne
    have hc := cell_undoTheory s L hs.struct.sized.1 v k
    split_ifs at hc with hcond
    · exact absurd (assign_of_cell_val hc) hne
    · have hl : (undoTheory s L).level v k = s.level v k := by
        have := congrArg (fun p => p.2.1) hc
        simpa [Formula.cell] using this
      rw [assign_of_cell hc] at hne
      rw [hl, level_undoTheory]
      exact hs.cells.bound v k hne
  · intro v hv k hk h0
    rw [shape_length hsh] at hv
    rw [shape_dom hsh] at hk
    rcases undoTheory_cell_cases s hs L v k hv hk with ⟨-, h2⟩ | ⟨-, h2⟩
    · have : (undoTheory s L).level v k = -10 := by
        have := congrArg (fun p => p.2.1) h2
        simpa [Formula.cell] using this
      rw [this]; decide
    · have hl : (undoTheory s L).level v k = s.level v k := by
        have := congrArg (fun p => p.2.1) h2
        simpa [Formula.cell] using this
      rw [assign_of_cell h2] at h0
      rw [hl]
      exact hs.cells.free v hv k hk h0
  · intro v hv k hk e
    have hkc := h.counted.cnt v hv k hk e
    rw [shape_length hsh] at hv
    rw [shape_dom hsh] at hk
    have hf := undoTheory_free_iff s hs L v k hv hk
    rw [hkc]
    by_cases h0 : (undoTheory s L).assign v k = 0
    · have : (decide (s.level v k > L) || s.assign v k == 0) = true := by
        rw [← hf]; simp [h0]
      rw [if_pos this, if_pos h0]
    · have : ¬ (decide (s.level v k > L) || s.assign v k == 0) = true := by
        rw [← hf]; simpa using h0
      rw [if_neg this, if_neg h0]

theorem consistent_of_loaded {s : Formula} (h : Loaded s) : Consistent s := by
  have hholds : ∀ a, s.holds a = false := by
    intro a
    unfold Formula.holds
    rw [h.free]
    cases a.EQUAL <;> simp
  refine ⟨h.struct, by rw [h.level], ⟨?_, ?_, ?_⟩, ⟨?_, ?_⟩, ?_⟩
  · intro v _ k _
    exact Or.inl (h.free v k)
  · intro v k hne
    exact absurd (h.free v k) hne
  · intro v hv k hk _
    rw [h.levels v hv k hk]; decide
  · intro c hc _
    obtain ⟨-, f2, f3⟩ := h.fresh c hc
    refine ⟨?_, f2, fun a _ => hholds a⟩
    rw [f3]
    unfold freeAtoms
    rw [List.filter_eq_self.2]
    intro a _
    simp [h.free]
  · intro c hc hsat
    rw [(h.fresh c hc).1] at hsat
    simp at hsat
  · intro v hv k hk e
    rw [h.counts v hv k hk e, if_pos (h.free v k)]
    unfold Formula.unsatRecs
    rw [List.filter_eq_self.2]
    intro c hc
    have := ((records_mem h.struct hv hk e c).1 hc).1
    simp [(h.fresh c this).1]

theorem recordAtom_same (cn : Nat) (s : Formula) (a : Literal) :
    (recordAtom cn s a).HEAP = s.HEAP ∧ (recordAtom cn s a).CLAUSELIST = s.CLAUSELIST ∧
    (recordAtom cn s a).LEVEL = s.LEVEL ∧
    (recordAtom cn s a).VARLIST.length = s.VARLIST.length := by
  refine ⟨rfl, rfl, rfl, ?_⟩
  simp [recordAtom, Formula.setVar, Formula.bumpCnt, length_modifyAt]

theorem recordAtom_var (cn : Nat) (s : Formula) (a : Literal) (v : Nat) :
    (recordAtom cn s a).var v =
      if a.VAR = v ∧ v < s.VARLIST.length then
        ((if a.EQUAL then { s.var v with ATOMCNTPOS := modifyAt (s.var v).ATOMCNTPOS a.VAL (fun n => n + 1) }
          else { s.var v with ATOMCNTNEG := modifyAt (s.var v).ATOMCNTNEG a.VAL (fun n => n + 1) }) : Variable).AddRecord cn a.VAL a.EQUAL
      else s.var v := by
  unfold recordAtom Formula.bumpCnt
  rw [var_setVar, var_setVar]
  have hl : (s.setVar a.VAR (fun V =>
      if a.EQUAL then { V with ATOMCNTPOS := modifyAt V.ATOMCNTPOS a.VAL (fun n => n + 1) }
      else { V with ATOMCNTNEG := modifyAt V.ATOMCNTNEG a.VAL (fun n => n + 1) })).VARLIST.length
      = s.VARLIST.length := by simp [Formula.setVar, length_modifyAt]
  rw [hl]
  by_cases h : a.VAR = v ∧ v < s.VARLIST.length
  · rw [if_pos h, if_pos h, if_pos h]
  · rw [if_neg h, if_neg h, if_neg h]

theorem recordAtom_cells (cn : Nat) (s : Formula) (a : Literal) (v k : Nat) :
    (recordAtom cn s a).assign v k = s.assign v k ∧ (recordAtom cn s a).level v k = s.level v k ∧
    ((recordAtom cn s a).var v).DOMAINSIZE = (s.var v).DOMAINSIZE := by
  unfold Formula.assign Formula.level
  rw [recordAtom_var]
  by_cases h : a.VAR = v ∧ v < s.VARLIST.length
  · rw [if_pos h]
    cases a.EQUAL <;> simp [Variable.AddRecord]
  · rw [if_neg h]
    exact ⟨rfl, rfl, rfl⟩

theorem recordAtom_wf (cn : Nat) (s : Formula) (a : Literal) (hwf : s.WF) :
    (recordAtom cn s a).WF := by
  rw [wf_iff]
  intro v hv
  rw [(recordAtom_same cn s a).2.2.2] at hv
  have hw := wf_var hwf hv
  rw [recordAtom_var]
  by_cases h : a.VAR = v ∧ v < s.VARLIST.length
  · rw [if_pos h]
    obtain ⟨h1, h2, h3, h4, h5, h6, h7⟩ := hw
    cases a.EQUAL <;>
      simp [Variable.AddRecord, Variable.WF, length_modifyAt, h1, h2, h3, h4, h5, h6, h7]
  · rw [if_neg h]; exact hw

theorem recordAtom_cnt (cn : Nat) (s : Formula) (a : Literal) (hwf : s.WF) (v : Nat) (e : Bool)
    (k : Nat) (hv : v < s.VARLIST.length) (hk : k < (s.var v).DOMAINSIZE) :
    (recordAtom cn s a).cnt v e k = s.cnt v e k + (if a = ⟨v, k, e⟩ then 1 else 0) ∧
    (recordAtom cn s a).records v e k =
      s.records v e k ++ (if a = ⟨v, k, e⟩ then [cn] else []) := by
  obtain ⟨-, -, -, h4, h5, h6, h7⟩ := wf_var hwf hv
  unfold Formula.cnt Formula.cntPos Formula.cntNeg Formula.records
  rw [recordAtom_var]
  obtain ⟨x, y, z⟩ := a
  simp only [Literal.mk.injEq]
  by_cases h : x = v ∧ v < s.VARLIST.length
  · rw [if_pos h]
    obtain ⟨rfl, -⟩ := h
    have hk4 : k < (s.var x).ATOMCNTPOS.length := by rw [h4]; exact hk
    have hk5 : k < (s.var x).ATOMCNTNEG.length := by rw [h5]; exact hk
    have hk6 : k < (s.var x).ATOMRECPOS.length := by rw [h6]; exact hk
    have hk7 : k < (s.var x).ATOMRECNEG.length := by rw [h7]; exact hk
    by_cases hy : y = k
    · subst hy
      cases z <;> cases e <;>
        simp only [Variable.AddRecord, getD_modifyAt, hk4, hk5, hk6, hk7, Bool.false_eq_true,
          Bool.true_eq_false, if_false, if_true, and_self, and_true, and_false, true_and,
          add_zero, List.append_nil]
    · have hy' : ¬ (y = k ∧ True) := fun hh => hy hh.1
      cases z <;> cases e <;>
        simp only [Variable.AddRecord, getD_modifyAt, hk4, hk5, hk6, hk7, Bool.false_eq_true,
          Bool.true_eq_false, if_false, if_true, and_self, and_true, and_false, true_and, hy,
          false_and, add_zero, List.append_nil]
  · rw [if_neg h]
    have hx : ¬ x = v := fun hx => h ⟨hx, hv⟩
    simp [hx]

theorem recordAtoms_spec (cn : Nat) (s : Formula) (hwf : s.WF) (atoms : List Literal) :
    (atoms.foldl (recordAtom cn) s).HEAP = s.HEAP ∧
    (atoms.foldl (recordAtom cn) s).CLAUSELIST = s.CLAUSELIST ∧
    (atoms.foldl (recordAtom cn) s).LEVEL = s.LEVEL ∧
    (atoms.foldl (recordAtom cn) s).VARLIST.length = s.VARLIST.length ∧
    (atoms.foldl (recordAtom cn) s).WF ∧
    (∀ v k, (atoms.foldl (recordAtom cn) s).assign v k = s.assign v k ∧
      (atoms.foldl (recordAtom cn) s).level v k = s.level v k ∧
      ((atoms.foldl (recordAtom cn) s).var v).DOMAINSIZE = (s.var v).DOMAINSIZE) ∧
    (∀ v < s.VARLIST.length, ∀ k < (s.var v).DOMAINSIZE, ∀ e,
      (atoms.foldl (recordAtom cn) s).cnt v e k = s.cnt v e k + (atoms.count ⟨v, k, e⟩ : Int) ∧
      (atoms.foldl (recordAtom cn) s).records v e k =
        s.records v e k ++ List.replicate (atoms.count ⟨v, k, e⟩) cn) := by
  apply foldl_prefix (recordAtom cn)
    (fun pre u => u.HEAP = s.HEAP ∧ u.CLAUSELIST = s.CLAUSELIST ∧ u.LEVEL = s.LEVEL ∧
      u.VARLIST.length = s.VARLIST.length ∧ u.WF ∧
      (∀ v k, u.assign v k = s.assign v k ∧ u.level v k = s.level v k ∧
        (u.var v).DOMAINSIZE = (s.var v).DOMAINSIZE) ∧
      (∀ v < s.VARLIST.length, ∀ k < (s.var v).DOMAINSIZE, ∀ e,
        u.cnt v e k = s.cnt v e k + (pre.count ⟨v, k, e⟩ : Int) ∧
        u.records v e k = s.records v e k ++ List.replicate (pre.count ⟨v, k, e⟩) cn)) atoms s
  · exact ⟨rfl, rfl, rfl, rfl, hwf, fun v k => ⟨rfl, rfl, rfl⟩, fun v _ k _ e => by simp⟩
  · intro pre a post u _ ⟨h1, h2, h3, h4, h5, h6, h7⟩
    obtain ⟨r1, r2, r3, r4⟩ := recordAtom_same cn u a
    refine ⟨r1.trans h1, r2.trans h2, r3.trans h3, r4.trans h4, recordAtom_wf cn u a h5,
      fun v k => ?_, fun v hv k hk e => ?_⟩
    · obtain ⟨c1, c2, c3⟩ := recordAtom_cells cn u a v k
      obtain ⟨d1, d2, d3⟩ := h6 v k
      exact ⟨c1.trans d1, c2.trans d2, c3.trans d3⟩
    · obtain ⟨e1, e2⟩ := recordAtom_cnt cn u a h5 v e k (by rw [h4]; exact hv)
        (by rw [(h6 v k).2.2]; exact hk)
      obtain ⟨f1, f2⟩ := h7 v hv k hk e
      rw [e1, e2, f1, f2, List.count_append]
      by_cases ha : a = ⟨v, k, e⟩
      · subst ha
        simp only [if_true, List.count_cons, List.count_nil, beq_self_eq_true, zero_add]
        refine ⟨by push_cast; ring, ?_⟩
        rw [List.append_assoc, ← List.replicate_succ', ]
      · have hb : (a == (⟨v, k, e⟩ : Literal)) = false := by simpa using ha
        simp only [ha, if_false, List.count_cons, List.count_nil, hb, Bool.false_eq_true,
          add_zero, List.append_nil]
        exact ⟨trivial, trivial⟩

theorem addInputClause_eq (s : Formula) (atoms : List Literal) :
    addInputClause s atoms =
      { atoms.foldl (recordAtom s.CLAUSELIST.length) s with
        HEAP := (atoms.foldl (recordAtom s.CLAUSELIST.length) s).HEAP ++ [Clause.new atoms]
        CLAUSELIST := (atoms.foldl (recordAtom s.CLAUSELIST.length) s).CLAUSELIST ++
          [(atoms.foldl (recordAtom s.CLAUSELIST.length) s).HEAP.length] } := rfl

theorem loaded_addInputClause (s : Formula) (h : Loaded s) (atoms : List Literal)
    (hr : ∀ a ∈ atoms, 1 ≤ a.VAR ∧ a.VAR < s.VARLIST.length ∧ a.VAL < (s.var a.VAR).DOMAINSIZE) :
    Loaded (addInputClause s atoms) := by
  obtain ⟨h1, h2, h3, h4, h5, h6, h7⟩ :=
    recordAtoms_spec s.CLAUSELIST.length s h.struct.sized.1 atoms
  have heq : addInputClause s atoms =
      pushInput (atoms.foldl (recordAtom s.CLAUSELIST.length) s) atoms := rfl
  rw [heq]
  generalize atoms.foldl (recordAtom s.CLAUSELIST.length) s = u at h1 h2 h3 h4 h5 h6 h7
  have hna := h.struct.noalias
  have hlen := noalias_length hna
  have hvar : ∀ v, (pushInput u atoms).var v = u.var v := fun _ => rfl
  have hnlen : (pushInput u atoms).CLAUSELIST.length
      = s.CLAUSELIST.length + 1 := by simp [pushInput, h2]
  have hclause : ∀ c, (pushInput u atoms).clause c =
      if c < s.CLAUSELIST.length then s.clause c
      else if c = s.CLAUSELIST.length then Clause.new atoms else default := by
    intro c
    have hna' : NoAlias (pushInput u atoms) := by
      unfold NoAlias pushInput
      simp only [List.length_append, List.length_singleton]
      rw [List.range_succ, h2, h1, hna]
    rw [clause_eq_getD hna', clause_eq_getD hna]
    simp only [pushInput, h1]
    by_cases hc : c < s.CLAUSELIST.length
    · rw [if_pos hc]
      simp only [List.getD_eq_getElem?_getD]
      rw [List.getElem?_append_left (by omega)]
    · rw [if_neg hc]
      by_cases hc2 : c = s.CLAUSELIST.length
      · rw [if_pos hc2, hc2, hlen]
        simp [List.getD_eq_getElem?_getD]
      · rw [if_neg hc2]
        apply List.getD_eq_default
        simp only [List.length_append, List.length_singleton]
        omega
  have hrec : ∀ v < s.VARLIST.length, ∀ k < (s.var v).DOMAINSIZE, ∀ e,
      (pushInput u atoms).records v e k =
        s.records v e k ++ List.replicate (atoms.count ⟨v, k, e⟩) s.CLAUSELIST.length :=
    fun v hv k hk e => (h7 v hv k hk e).2
  refine ⟨⟨⟨h5, ?_⟩, ?_, ?_, ?_⟩, h3.trans h.level, fun v k => ?_, ?_, ?_, ?_⟩
  · rw [hvar, (h6 0 0).2.2]; exact h.struct.sized.2
  · unfold NoAlias pushInput
    simp only [List.length_append, List.length_singleton]
    rw [List.range_succ, h2, h1, hna]
  · intro c hc a ha
    rw [hnlen] at hc
    rw [hclause c] at ha
    show 1 ≤ a.VAR ∧ a.VAR < u.VARLIST.length ∧ a.VAL < (u.var a.VAR).DOMAINSIZE
    rw [h4, (h6 a.VAR 0).2.2]
    by_cases hc1 : c < s.CLAUSELIST.length
    · rw [if_pos hc1] at ha
      exact h.struct.atoms c hc1 a ha
    · have hc2 : c = s.CLAUSELIST.length := by omega
      rw [if_neg hc1, if_pos hc2] at ha
      exact hr a ha
  · intro v hv k hk e c
    have hv' : v < s.VARLIST.length := by rw [← h4]; exact hv
    have hk' : k < (s.var v).DOMAINSIZE := by rw [← (h6 v 0).2.2]; exact hk
    rw [hrec v hv' k hk' e, hnlen, hclause c, List.count_append, h.struct.recs v hv' k hk' e c]
    by_cases hc1 : c < s.CLAUSELIST.length
    · have hne : s.CLAUSELIST.length ≠ c := by omega
      rw [if_pos hc1, if_pos (by omega), if_pos hc1, List.count_replicate]
      simp [hne]
    · rw [if_neg hc1, if_neg hc1]
      by_cases hc2 : c = s.CLAUSELIST.length
      · rw [if_pos (by omega), if_pos hc2, hc2, List.count_replicate]
        simp [Clause.new]
      · have hne : ¬ (s.CLAUSELIST.length = c) := fun hh => hc2 hh.symm
        rw [if_neg (by omega), List.count_replicate]
        simp [hne]
  · show u.assign v k = 0
    rw [(h6 v k).1]; exact h.free v k
  · intro v hv k hk
    have hv' : v < s.VARLIST.length := by rw [← h4]; exact hv
    have hk' : k < (s.var v).DOMAINSIZE := by rw [← (h6 v 0).2.2]; exact hk
    show u.level v k = -1
    rw [(h6 v k).2.1]; exact h.levels v hv' k hk'
  · intro c hc
    rw [hnlen] at hc
    rw [hclause c]
    by_cases hc1 : c < s.CLAUSELIST.length
    · rw [if_pos hc1]; exact h.fresh c hc1
    · have hc2 : c = s.CLAUSELIST.length := by omega
      rw [if_neg hc1, if_pos hc2]
      exact ⟨rfl, rfl, rfl⟩
  · intro v hv k hk e
    have hv' : v < s.VARLIST.length := by rw [← h4]; exact hv
    have hk' : k < (s.var v).DOMAINSIZE := by rw [← (h6 v 0).2.2]; exact hk
    rw [hrec v hv' k hk' e]
    show u.cnt v e k = _
    rw [(h7 v hv' k hk' e).1, h.counts v hv' k hk' e]
    simp

theorem var_initial (doms : List Nat) (t : Formula)
    (ht : t.VARLIST = { Variable.new 0 0 with SAT := true } ::
      (List.range doms.length).map (fun i => Variable.new (i + 1) (doms.getD i 0))) (v : Nat) :
    t.var v = if v = 0 then { Variable.new 0 0 with SAT := true }
      else if v ≤ doms.length then Variable.new v (doms.getD (v - 1) 0) else default := by
  unfold Formula.var
  rw [ht]
  cases v with
  | zero => simp
  | succ i =>
    simp only [List.getD_cons_succ, Nat.succ_ne_zero, if_false, Nat.add_sub_cancel]
    by_cases hi : i < doms.length
    · rw [if_pos (by omega)]
      simp [List.getD_eq_getElem?_getD, hi]
    · rw [if_neg (by omega)]
      apply List.getD_eq_default
      simp; omega

theorem loaded_initial (doms : List Nat) (t : Formula)
    (ht : t.VARLIST = { Variable.new 0 0 with SAT := true } ::
      (List.range doms.length).map (fun i => Variable.new (i + 1) (doms.getD i 0)))
    (hh : t.HEAP = []) (hc : t.CLAUSELIST = []) (hl : t.LEVEL = 0) : Loaded t := by
  have hvar := var_initial doms t ht
  have hlen : t.VARLIST.length = doms.length + 1 := by rw [ht]; simp
  have hnew : ∀ v, t.var v = default ∨ (∃ d, t.var v = Variable.new v d) ∨
      t.var v = { Variable.new 0 0 with SAT := true } := by
    intro v
    rw [hvar v]
    split_ifs
    · right; right; rfl
    · right; left; exact ⟨_, rfl⟩
    · left; rfl
  have hassign : ∀ v k, t.assign v k = 0 := by
    intro v k
    unfold Formula.assign
    rcases hnew v with h | ⟨d, h⟩ | h <;> rw [h]
    · rfl
    · simp only [Variable.new, List.getD_eq_getElem?_getD, List.getElem?_replicate]
      split_ifs <;> rfl
    · rfl
  have hlevel : ∀ v, ∀ k < (t.var v).DOMAINSIZE, t.level v k = -1 := by
    intro v k hk
    unfold Formula.level
    rcases hnew v with h | ⟨d, h⟩ | h <;> rw [h] at hk ⊢
    · simp [default] at hk
    · simp only [Variable.new] at hk
      simp [Variable.new, List.getD_eq_getElem?_getD, List.getElem?_replicate, hk]
    · simp [Variable.new] at hk
  have hrecs : ∀ v e k, t.records v e k = [] := by
    intro v e k
    unfold Formula.records
    rcases hnew v with h | ⟨d, h⟩ | h <;> rw [h]
    · cases e <;> rfl
    · cases e <;>
        simp only [Variable.new, List.getD_eq_getElem?_getD, List.getElem?_replicate] <;>
        split_ifs <;> rfl
    · cases e <;> rfl
  have hcnt : ∀ v e k, t.cnt v e k = 0 := by
    intro v e k
    unfold Formula.cnt Formula.cntPos Formula.cntNeg
    rcases hnew v with h | ⟨d, h⟩ | h <;> rw [h]
    · cases e <;> rfl
    · cases e <;>
        simp only [Variable.new, List.getD_eq_getElem?_getD, List.getElem?_replicate,
          Bool.false_eq_true, if_false, if_true] <;>
        split_ifs <;> rfl
    · cases e <;> rfl
  have hwf : t.WF := by
    intro V hV
    rw [ht] at hV
    rcases List.mem_cons.1 hV with rfl | hV
    · simp [Variable.WF, Variable.new]
    · obtain ⟨i, -, rfl⟩ := List.mem_map.1 hV
      exact wf_new _ _
  refine ⟨⟨⟨hwf, ?_⟩, ?_, ?_, ?_⟩, hl, hassign, fun v _ k hk => hlevel v k hk, ?_, ?_⟩
  · rw [hvar 0]; rfl
  · unfold NoAlias; rw [hh, hc]; rfl
  · intro c hcl
    rw [hc] at hcl
    simp at hcl
  · intro v _ k _ e c
    rw [hrecs, hc]
    simp
  · intro c hcl
    rw [hc] at hcl
    simp at hcl
  · intro v _ k _ e
    rw [hcnt, hrecs]
    rfl

theorem loaded_buildFunction (doms : List Nat) (clauses : List (List Literal))
    (hwf : WellFormedInput doms clauses) : Loaded (BuildFunction doms clauses) := by
  unfold BuildFunction
  simp only
  have key : ∀ (l : List (List Literal)) (t : Formula),
      (∀ cl ∈ l, ∀ a ∈ cl, 1 ≤ a.VAR ∧ a.VAR ≤ doms.length ∧ a.VAL < doms.getD (a.VAR - 1) 0) →
      Loaded t → t.VARLIST.length = doms.length + 1 →
      (∀ v, 1 ≤ v → v ≤ doms.length → (t.var v).DOMAINSIZE = doms.getD (v - 1) 0) →
      Loaded (l.foldl addInputClause t) := by
    intro l
    induction l with
    | nil => intro t _ ht _ _; exact ht
    | cons cl l ih =>
      intro t hl ht hn hd
      rw [List.foldl_cons]
      obtain ⟨-, -, -, h4, -, h6, -⟩ :=
        recordAtoms_spec t.CLAUSELIST.length t ht.struct.sized.1 cl
      apply ih
      · intro cl' hcl'
        exact hl cl' (List.mem_cons_of_mem _ hcl')
      · apply loaded_addInputClause t ht cl
        intro a ha
        obtain ⟨a1, a2, a3⟩ := hl cl (List.mem_cons_self _ _) a ha
        exact ⟨a1, by omega, by rw [hd a.VAR a1 a2]; exact a3⟩
      · show (cl.foldl (recordAtom t.CLAUSELIST.length) t).VARLIST.length = _
        rw [h4, hn]
      · intro v hv1 hv2
        show ((cl.foldl (recordAtom t.CLAUSELIST.length) t).var v).DOMAINSIZE = _
        rw [(h6 v 0).2.2]
        exact hd v hv1 hv2
  apply key clauses _ hwf (loaded_initial doms _ rfl rfl rfl rfl)
  · simp
  · intro v hv1 hv2
    rw [var_initial doms _ rfl v, if_neg (by omega), if_pos hv2]
    rfl

theorem consistent_buildFunction (doms : List Nat) (clauses : List (List Literal))
    (hwf : WellFormedInput doms clauses) : Consistent (BuildFunction doms clauses) :=
  consistent_of_loaded (loaded_buildFunction doms clauses hwf)

/-! ## `undoTheory` does not read `LEVEL` -/

theorem foldl_comm {α : Type} (g : Formula → Formula) (f : Formula → α → Formula)
    (hf : ∀ s a, f (g s) a = g (f s a)) (l : List α) (s : Formula) :
    l.foldl f (g s) = g (l.foldl f s) := by
  induction l generalizing s with
  | nil => rfl
  | cons a l ih => rw [List.foldl_cons, List.foldl_cons, hf, ih]

theorem addLiteral_withLevel (s : Formula) (L' : Int) (v : Nat) (e : Bool) (k : Nat) :
    addLiteral (s.withLevel L') v e k = (addLiteral s v e k).withLevel L' := by
  unfold addLiteral
  have : (s.withLevel L').records v e k = s.records v e k := rfl
  rw [this]
  apply foldl_comm (fun s => s.withLevel L')
  intro t c
  have hc : ((t.withLevel L').clause c).SAT = (t.clause c).SAT := rfl
  simp only [hc]
  split_ifs <;> rfl

theorem unsatisfyAtoms_withLevel (c : Nat) (L : Int) (s : Formula) (L' : Int)
    (atoms : List Literal) :
    unsatisfyAtoms c L (s.withLevel L') atoms = (unsatisfyAtoms c L s atoms).withLevel L' := by
  unfold unsatisfyAtoms
  apply foldl_comm (fun s => s.withLevel L')
  intro t a
  have h1 : (t.withLevel L').level a.VAR a.VAL = t.level a.VAR a.VAL := rfl
  have h2 : (t.withLevel L').assign a.VAR a.VAL = t.assign a.VAR a.VAL := rfl
  simp only [h1, h2]
  split_ifs <;> rfl

theorem unsatisfyClauses_withLevel (s : Formula) (L' : Int) (v : Nat) (e : Bool) (k : Nat)
    (L : Int) :
    unsatisfyClauses (s.withLevel L') v e k L = (unsatisfyClauses s v e k L).withLevel L' := by
  unfold unsatisfyClauses
  have : (s.withLevel L').records v e k = s.records v e k := rfl
  rw [this]
  apply foldl_comm (fun s => s.withLevel L')
  intro t c
  have hc : (t.withLevel L').clause c = t.clause c := rfl
  simp only [hc, unsatisfyAtoms_withLevel]
  split_ifs <;> rfl

theorem undoAdd_withLevel (L : Int) (i : Nat) (s : Formula) (L' : Int) (j : Nat) :
    undoAdd L i (s.withLevel L') j = (undoAdd L i s j).withLevel L' := by
  unfold undoAdd
  have h1 : (s.withLevel L').level i j = s.level i j := rfl
  have h2 : (s.withLevel L').assign i j = s.assign i j := rfl
  simp only [h1, h2, addLiteral_withLevel]
  split_ifs <;> rfl

theorem undoValue_withLevel (L : Int) (i : Nat) (s : Formula) (L' : Int) (j : Nat) :
    undoValue L i (s.withLevel L') j = (undoValue L i s j).withLevel L' := by
  unfold undoValue
  have h1 : (s.withLevel L').level i j = s.level i j := rfl
  have h2 : (s.withLevel L').assign i j = s.assign i j := rfl
  simp only [h1, h2, unsatisfyClauses_withLevel]
  split_ifs <;> rfl

theorem undoVar_withLevel (L : Int) (s : Formula) (L' : Int) (i : Nat) :
    undoVar L (s.withLevel L') i = (undoVar L s i).withLevel L' := by
  unfold undoVar
  have h1 : ((s.withLevel L').var i).DOMAINSIZE = (s.var i).DOMAINSIZE := rfl
  simp only [h1]
  rw [foldl_comm (fun s => s.withLevel L') (undoValue L i)
    (fun t j => undoValue_withLevel L i t L' j)]
  have h2 : ∀ t : Formula, ((t.withLevel L').var i).LEVEL = (t.var i).LEVEL := fun _ => rfl
  simp only [h2]
  split_ifs <;> rfl

theorem undoStack_withLevel (s : Formula) (L' : Int) (n : Nat) (st : List Literal) :
    undoStack (s.withLevel L') n st = undoStack s n st := by
  induction n generalizing st with
  | zero => rfl
  | succ n ih =>
    unfold undoStack
    have h2 : ∀ a : Literal, (s.withLevel L').assign a.VAR a.VAL = s.assign a.VAR a.VAL :=
      fun _ => rfl
    simp only [h2, ih]

theorem undoTheory_withLevel (s : Formula) (L' L : Int) :
    undoTheory (s.withLevel L') L = (undoTheory s L).withLevel L' := by
  unfold undoTheory
  have h0 : (s.withLevel L').VARLIST.length = s.VARLIST.length := rfl
  simp only [h0]
  rw [foldl_comm (fun s => s.withLevel L')
    (fun s i => (List.range (s.var i).DOMAINSIZE).foldl (undoAdd L i) s)
    (fun t i => by
      have h1 : ((t.withLevel L').var i).DOMAINSIZE = (t.var i).DOMAINSIZE := rfl
      simp only [h1]
      exact foldl_comm (fun s => s.withLevel L') (undoAdd L i)
        (fun t j => undoAdd_withLevel L i t L' j) _ _)]
  rw [foldl_comm (fun s => s.withLevel L') (undoVar L) (fun t i => undoVar_withLevel L t L' i)]
  generalize List.foldl (undoVar L) _ _ = X
  simp only [undoStack_withLevel]
  rfl

theorem consistent_withLevel {s : Formula} (hs : Consistent s) (L' : Int) (h0 : 0 ≤ L')
    (hb : ∀ v k, s.assign v k ≠ 0 → s.level v k ≤ L') : Consistent (s.withLevel L') :=
  ⟨struct_of_shape (⟨rfl, rfl, rfl⟩ : Shape s (s.withLevel L')) hs.struct, h0,
   ⟨hs.cells.tern, fun v k hne => ⟨(hs.cells.bound v k hne).1, hb v k hne⟩, hs.cells.free⟩,
   ⟨hs.clauses.unsat, hs.clauses.sat⟩, hs.counts⟩

theorem consistent_undo_to (s : Formula) (hs : Consistent s) (L : Int) (hL : 0 ≤ L) :
    Consistent (undoTheory (s.withLevel L) L) := by
  rw [undoTheory_withLevel]
  apply consistent_withLevel (consistent_undoTheory s hs L (by omega)) L hL
  intro v k hne
  exact (levelBound_undoTheory s L hs.struct.sized
    (fun v k hne => (hs.cells.bound v k hne).1) v k hne).2

theorem consistent_of_propagated (doms : List Nat) (clauses : List (List Literal))
    (hwf : WellFormedInput doms clauses) (s : Formula) (h : Propagated doms clauses s) :
    Consistent s := by
  induction h with
  | load => exact consistent_buildFunction doms clauses hwf
  | decision s v e k _ hv hk hfree ih =>
    exact consistent_reduceTheory _
      (consistent_withLevel ih _ (by have := ih.level; omega)
        (fun v k hne => by have := (ih.cells.bound v k hne).2; omega)) v e k hv hk hfree
  | reduce s v e k _ hv hk hfree ih => exact consistent_reduceTheory s ih v e k hv hk hfree
  | check s _ ih => exact consistent_checkUnit s ih
  | units fuel s t _ hu ih => exact consistent_unitPropagation fuel s t ih hu
  | undo s L _ hL _ ih => exact consistent_undo_to s ih L hL
  | other s t _ h1 h2 h3 h4 ih => exact consistent_same ih h1 h2 h3 h4

theorem sum_range_single (n a x : Nat) (q : Nat → Bool) (ha : a < n) :
    ((List.range n).map (fun c => if q c = true ∧ a = c then x else 0)).sum =
      if q a = true then x else 0 := by
  induction n with
  | zero => omega
  | succ n ih =>
    rw [List.range_succ, List.map_append, List.sum_append]
    by_cases han : a = n
    · subst han
      have hz : ((List.range a).map (fun c => if q c = true ∧ a = c then x else 0)).sum = 0 := by
        apply List.sum_eq_zero
        intro y hy
        obtain ⟨c, hc, rfl⟩ := List.mem_map.1 hy
        have : c < a := by simpa using hc
        rw [if_neg]
        omega
      rw [hz]
      simp
    · rw [ih (by omega)]
      have : ¬ (q n = true ∧ a = n) := fun h => han h.2
      simp [this]

theorem filter_length_sum (l : List Nat) (n : Nat) (q : Nat → Bool) (hl : ∀ c ∈ l, c < n) :
    (l.filter q).length =
      ((List.range n).map (fun c => if q c = true then l.count c else 0)).sum := by
  induction l with
  | nil => simp
  | cons a l ih =>
    have iha := ih (fun c hc => hl c (List.mem_cons_of_mem _ hc))
    have han := hl a (List.mem_cons_self _ _)
    have hsplit : ((List.range n).map (fun c => if q c = true then (a :: l).count c else 0)).sum =
        ((List.range n).map (fun c => if q c = true then l.count c else 0)).sum +
        ((List.range n).map (fun c => if q c = true ∧ a = c then 1 else 0)).sum := by
      rw [← List.sum_map_add]
      congr 1
      apply List.map_congr_left
      intro c _
      rw [List.count_cons]
      by_cases hq : q c = true
      · by_cases hac : a = c
        · simp [hq, hac]
        · simp [hq, hac]
      · simp [hq]
    rw [hsplit, sum_range_single n a 1 q han, ← iha, List.filter_cons]
    by_cases hq : q a = true
    · simp [hq]
    · simp [hq]

theorem occurrences_eq_records {s : Formula} (hst : Struct s) (p : Clause → Bool) {v k : Nat}
    (hv : v < s.VARLIST.length) (hk : k < (s.var v).DOMAINSIZE) (e : Bool) :
    ((s.records v e k).filter (fun c => p (s.clause c))).length = occurrences s p v e k := by
  rw [filter_length_sum (s.records v e k) s.CLAUSELIST.length (fun c => p (s.clause c))
    (fun c hc => ((records_mem hst hv hk e c).1 hc).1)]
  unfold occurrences
  congr 1
  apply List.map_congr_left
  intro c hc
  have hc' : c < s.CLAUSELIST.length := by simpa using hc
  rw [hst.recs v hv k hk e c, if_pos hc']

theorem filter_length_or (l : List Nat) (p q : Nat → Bool) (h : ∀ c ∈ l, ¬ (p c = true ∧ q c = true)) :
    (l.filter (fun c => p c || q c)).length = (l.filter p).length + (l.filter q).length := by
  induction l with
  | nil => simp
  | cons a l ih =>
    have iha := ih (fun c hc => h c (List.mem_cons_of_mem _ hc))
    have ha := h a (List.mem_cons_self _ _)
    rw [List.filter_cons, List.filter_cons, List.filter_cons]
    cases hp : p a <;> cases hq : q a <;> simp [hp, hq] at ha ⊢ <;> omega

theorem undoTheory_unsat_iff (s : Formula) (hs : Consistent s) (L : Int) (hL : -1 ≤ L) (c : Nat)
    (hc : c < s.CLAUSELIST.length) :
    ((undoTheory s L).clause c).SAT = false ↔
      ((s.clause c).SAT = false ∨ L < (s.clause c).LEVEL) := by
  have h := undoInv_undoTheory s hs L hL
  constructor
  · intro hu
    by_cases hsat : (s.clause c).SAT = true
    · right
      by_contra hne
      have := h.low c hsat (by omega)
      rw [hu] at this
      simp at this
    · left; simpa using hsat
  · rintro (hu | hl)
    · by_contra hne
      have hsat : ((undoTheory s L).clause c).SAT = true := by simpa using hne
      rw [h.kept c hsat, hu] at hsat
      simp at hsat
    · have hsat : (s.clause c).SAT = true := by
        by_contra hne
        have hu : (s.clause c).SAT = false := by simpa using hne
        have := (hs.clauses.unsat c hc hu).2.1
        omega
      obtain ⟨-, ⟨w, hw, hw1, hw2⟩, -⟩ := hs.clauses.sat c hc hsat
      obtain ⟨r1, r2, r3⟩ := hs.struct.atoms c hc w hw
      have hp : (decide (w.VAR ∈ List.range' 1 (s.VARLIST.length - 1)) &&
          decide (w.VAL < (s.var w.VAR).DOMAINSIZE)) = true := by
        simp [(mem_vars _ _).2 ⟨r1, r2⟩, r3]
      exact h.done c hc w hw hw1 (by rw [hw2]; exact hl) hp hl

theorem undoTheory_rebuilt (s : Formula) (hs : Consistent s) (L : Int) (hL : -1 ≤ L) (c : Nat)
    (hc : c < s.CLAUSELIST.length) (hl : L < (s.clause c).LEVEL) :
    ((undoTheory s L).clause c).SAT = false ∧ ((undoTheory s L).clause c).LEVEL = -1 ∧
    ((undoTheory s L).clause c).NumUnAss =
      (freeAtoms (undoTheory s L) ((undoTheory s L).clause c) : Int) := by
  have hu := (undoTheory_unsat_iff s hs L hL c hc).2 (Or.inr hl)
  have hc' : c < (undoTheory s L).CLAUSELIST.length := by
    rw [(shape_undoTheory s L).clist]; exact hc
  obtain ⟨u1, u2, -⟩ := (consistent_undoTheory s hs L hL).clauses.unsat c hc' hu
  exact ⟨hu, u2, u1⟩

theorem undoTheory_counters (s : Formula) (hs : Consistent s) (L : Int) (hL : -1 ≤ L) (v k : Nat)
    (hv : v < s.VARLIST.length) (hk : k < (s.var v).DOMAINSIZE) (e : Bool) :
    (undoTheory s L).cnt v e k = s.cnt v e k +
      (if (undoTheory s L).assign v k = 0 then
        (occurrences s (fun C => decide (L < C.LEVEL)) v e k : Int) +
          (if s.assign v k = 0 then 0 else (occurrences s (fun C => !C.SAT) v e k : Int))
      else 0) := by
  have ht := consistent_undoTheory s hs L hL
  have hsh := shape_undoTheory s L
  have hct := ht.counts v (by rw [shape_length hsh]; exact hv) k (by rw [shape_dom hsh]; exact hk) e
  have hcs := hs.counts v hv k hk e
  have hfree := undoTheory_free_iff s hs L v k hv hk
  rw [← occurrences_eq_records hs.struct _ hv hk e, ← occurrences_eq_records hs.struct _ hv hk e]
  have hsplit : (undoTheory s L).unsatRecs v e k =
      ((s.records v e k).filter (fun c => !(s.clause c).SAT)).length +
      ((s.records v e k).filter (fun c => decide (L < (s.clause c).LEVEL))).length := by
    unfold Formula.unsatRecs
    rw [shape_records hsh, ← filter_length_or]
    · congr 1
      apply List.filter_congr
      intro c hc
      have hcl := ((records_mem hs.struct hv hk e c).1 hc).1
      have hiff := undoTheory_unsat_iff s hs L hL c hcl
      by_cases hu : ((undoTheory s L).clause c).SAT = false
      · rcases hiff.1 hu with h1 | h1
        · simp [hu, h1]
        · simp [hu, h1]
      · have hsat : ((undoTheory s L).clause c).SAT = true := by simpa using hu
        have hn := mt hiff.2 hu
        push_neg at hn
        have h1 : (s.clause c).SAT = true := by simpa using hn.1
        have h2 : ¬ L < (s.clause c).LEVEL := not_lt.2 hn.2
        simp [hsat, h1, h2]
    · intro c hc ⟨h1, h2⟩
      have hcl := ((records_mem hs.struct hv hk e c).1 hc).1
      have hu : (s.clause c).SAT = false := by simpa using h1
      have := (hs.clauses.unsat c hcl hu).2.1
      have h2' : L < (s.clause c).LEVEL := by simpa using h2
      omega
  rw [hct, hcs, hsplit]
  by_cases h0 : (undoTheory s L).assign v k = 0
  · rw [if_pos h0, if_pos h0]
    by_cases hs0 : s.assign v k = 0
    · rw [if_pos hs0, if_pos hs0]
      unfold Formula.unsatRecs
      push_cast
      ring
    · rw [if_neg hs0, if_neg hs0]
      push_cast
      ring
  · rw [if_neg h0, if_neg h0]
    have hs0 : s.assign v k ≠ 0 := by
      intro hs0
      apply h0
      have : ((undoTheory s L).assign v k == 0) = true := by rw [hfree]; simp [hs0]
      simpa using this
    rw [if_neg hs0]
    simp

/-! ## Conflict analysis -/

theorem potent_eq (s : Formula) (atoms : List Literal) :
    Potent s atoms =
      decide ((atoms.filter (fun a => s.level a.VAR a.VAL == s.LEVEL)).length = 1) := by
  unfold Potent
  have key : ∀ (l : List Literal) (n : Nat),
      l.foldl (fun (n : Nat) a => if s.level a.VAR a.VAL == s.LEVEL then n + 1 else n) n =
        n + (l.filter (fun a => s.level a.VAR a.VAL == s.LEVEL)).length := by
    intro l
    induction l with
    | nil => intro n; simp
    | cons a l ih =>
      intro n
      rw [List.foldl_cons, ih, List.filter_cons]
      split_ifs
      · simp; omega
      · simp
  simp only [key, zero_add]
  by_cases h : (atoms.filter (fun a => s.level a.VAR a.VAL == s.LEVEL)).length = 1
  · simp [h]
  · simp [h]

theorem backtrackLevel_eq (s : Formula) (atoms : List Literal) :
    backtrackLevel s atoms =
      if atoms.length = 1 then 0
      else if levelMax s atoms (-1) ≠ -1 then levelMax s atoms (-1) else s.LEVEL := by
  unfold backtrackLevel levelMax
  by_cases h : atoms.length = 1
  · simp [h]
  · simp only [beq_iff_eq, h, if_false, bne_iff_ne, ne_eq, ite_not]

theorem levelMax_spec (s : Formula) (atoms : List Literal) (m : Int) :
    m ≤ levelMax s atoms m ∧
    (levelMax s atoms m = m ∨
      ∃ a ∈ atoms, s.level a.VAR a.VAL = levelMax s atoms m ∧ levelMax s atoms m < s.LEVEL) ∧
    ∀ a ∈ atoms, s.level a.VAR a.VAL < s.LEVEL → s.level a.VAR a.VAL ≤ levelMax s atoms m := by
  induction atoms generalizing m with
  | nil => exact ⟨le_refl _, Or.inl rfl, fun a ha => by simp at ha⟩
  | cons b l ih =>
    have hstep : levelMax s (b :: l) m =
        levelMax s l (if s.LEVEL > s.level b.VAR b.VAL && m < s.level b.VAR b.VAL
          then s.level b.VAR b.VAL else m) := rfl
    rw [hstep]
    by_cases hc : (decide (s.LEVEL > s.level b.VAR b.VAL) && decide (m < s.level b.VAR b.VAL)) = true
    · rw [if_pos hc]
      simp only [gt_iff_lt, Bool.and_eq_true, decide_eq_true_eq] at hc
      obtain ⟨i1, i2, i3⟩ := ih (s.level b.VAR b.VAL)
      refine ⟨by omega, ?_, ?_⟩
      · right
        rcases i2 with i2 | ⟨a, ha, e1, e2⟩
        · exact ⟨b, List.mem_cons_self _ _, i2.symm, by rw [i2]; exact hc.1⟩
        · exact ⟨a, List.mem_cons_of_mem _ ha, e1, e2⟩
      · intro a ha hlt
        rcases List.mem_cons.1 ha with rfl | ha
        · exact i1
        · exact i3 a ha hlt
    · rw [if_neg hc]
      simp only [gt_iff_lt, Bool.and_eq_true, decide_eq_true_eq, not_and, not_lt] at hc
      obtain ⟨i1, i2, i3⟩ := ih m
      refine ⟨i1, ?_, ?_⟩
      · rcases i2 with i2 | ⟨a, ha, e1, e2⟩
        · exact Or.inl i2
        · exact Or.inr ⟨a, List.mem_cons_of_mem _ ha, e1, e2⟩
      · intro a ha hlt
        rcases List.mem_cons.1 ha with rfl | ha
        · have := hc hlt
          omega
        · exact i3 a ha hlt

theorem maxLit_inner (s : Formula) (atoms : List Literal) (i : Nat) (hi : i < atoms.length)
    (js : List Nat) (hjs : ∀ j ∈ js, j < s.DECSTACK.length) (st : Nat × Nat)
    (hst : Hit s atoms st ∨ st = (0, 0)) :
    Hit s atoms (js.foldl (fun (st : Nat × Nat) j =>
        if falsifiedBy (atoms.getD i default) (s.DECSTACK.getD j default) && decide (st.2 ≤ j)
        then (i, j) else st) st) ∨
    (js.foldl (fun (st : Nat × Nat) j =>
        if falsifiedBy (atoms.getD i default) (s.DECSTACK.getD j default) && decide (st.2 ≤ j)
        then (i, j) else st) st = (0, 0) ∧ st = (0, 0) ∧
      ∀ j ∈ js, falsifiedBy (atoms.getD i default) (s.DECSTACK.getD j default) = false) := by
  induction js generalizing st with
  | nil =>
    rcases hst with h | h
    · exact Or.inl h
    · exact Or.inr ⟨h, h, fun j hj => by simp at hj⟩
  | cons j js ih =>
    rw [List.foldl_cons]
    have hj := hjs j (List.mem_cons_self _ _)
    have hjs' : ∀ j' ∈ js, j' < s.DECSTACK.length := fun j' h => hjs j' (List.mem_cons_of_mem _ h)
    by_cases hc : (falsifiedBy (atoms.getD i default) (s.DECSTACK.getD j default) &&
        decide (st.2 ≤ j)) = true
    · rw [if_pos hc]
      have hf : falsifiedBy (atoms.getD i default) (s.DECSTACK.getD j default) = true := by
        rw [Bool.and_eq_true] at hc; exact hc.1
      have hhit : Hit s atoms (i, j) := ⟨hi, hj, hf⟩
      rcases ih hjs' (i, j) (Or.inl hhit) with h | ⟨h0, h1, -⟩
      · exact Or.inl h
      · left
        rw [h0, ← h1]
        exact hhit
    · rw [if_neg hc]
      rcases ih hjs' st hst with h | ⟨h0, h1, h2⟩
      · exact Or.inl h
      · right
        refine ⟨h0, h1, fun j' hj' => ?_⟩
        rcases List.mem_cons.1 hj' with rfl | hj'
        · rw [h1] at hc
          simpa using hc
        · exact h2 j' hj'

theorem maxLit_hit (s : Formula) (atoms : List Literal) :
    Hit s atoms (maxLit s atoms) ∨
    (maxLit s atoms = (0, 0) ∧
      ∀ i < atoms.length, ∀ j < s.DECSTACK.length,
        falsifiedBy (atoms.getD i default) (s.DECSTACK.getD j default) = false) := by
  unfold maxLit
  simp only
  have outer : ∀ (is : List Nat), (∀ i ∈ is, i < atoms.length) → ∀ (st : Nat × Nat),
      (Hit s atoms st ∨ st = (0, 0)) →
      Hit s atoms (is.foldl (fun st i =>
        (List.range s.DECSTACK.length).reverse.foldl (fun (st : Nat × Nat) j =>
          if falsifiedBy (atoms.getD i default) (s.DECSTACK.getD j default) && decide (st.2 ≤ j)
          then (i, j) else st) st) st) ∨
      (is.foldl (fun st i =>
        (List.range s.DECSTACK.length).reverse.foldl (fun (st : Nat × Nat) j =>
          if falsifiedBy (atoms.getD i default) (s.DECSTACK.getD j default) && decide (st.2 ≤ j)
          then (i, j) else st) st) st = (0, 0) ∧ st = (0, 0) ∧
        ∀ i ∈ is, ∀ j < s.DECSTACK.length,
          falsifiedBy (atoms.getD i default) (s.DECSTACK.getD j default) = false) := by
    intro is
    induction is with
    | nil =>
      intro _ st hst
      rcases hst with h | h
      · exact Or.inl h
      · exact Or.inr ⟨h, h, fun i hi => by simp at hi⟩
    | cons i is ih =>
      intro his st hst
      rw [List.foldl_cons]
      have hi := his i (List.mem_cons_self _ _)
      have his' : ∀ i' ∈ is, i' < atoms.length := fun i' h => his i' (List.mem_cons_of_mem _ h)
      have hin := maxLit_inner s atoms i hi (List.range s.DECSTACK.length).reverse
        (fun j hj => by simpa using hj) st hst
      rcases hin with h | ⟨h0, h1, h2⟩
      · rcases ih his' _ (Or.inl h) with h' | ⟨h0', h1', -⟩
        · exact Or.inl h'
        · left
          rw [h0', ← h1']
          exact h
      · rw [h0]
        rcases ih his' _ (Or.inr rfl) with h' | ⟨h0', -, h1'⟩
        · exact Or.inl h'
        · right
          refine ⟨h0', h1, fun i' hi' j hj => ?_⟩
          rcases List.mem_cons.1 hi' with rfl | hi'
          · exact h2 j (by simpa using hj)
          · exact h1' i' hi' j hj
  rcases outer (List.range atoms.length) (fun i hi => by simpa using hi) (0, 0) (Or.inr rfl) with
    h | ⟨h0, -, h1⟩
  · exact Or.inl h
  · exact Or.inr ⟨h0, fun i hi j hj => h1 i (by simpa using hi) j hj⟩

/-! ## Completeness of the entailment scan -/

theorem entailScan_skip (V : Variable) (js : List Nat) (st : Bool × Nat)
    (h : ∀ j ∈ js, V.ATOMASSIGN.getD j 0 ≠ 0) : entailScan V js st = st := by
  induction js with
  | nil => obtain ⟨f, d⟩ := st; rfl
  | cons j js ih =>
    obtain ⟨f, d⟩ := st
    rw [entailScan]
    have hj := h j (List.mem_cons_self _ _)
    have hb : (V.ATOMASSIGN.getD j 0 == 0) = false := by simpa using hj
    simp only [hb, Bool.false_eq_true, if_false]
    exact ih (fun j' hj' => h j' (List.mem_cons_of_mem _ hj'))

theorem entailScan_one_free (V : Variable) (js : List Nat) (dv k : Nat) (hnd : js.Nodup)
    (hk : k ∈ js) (hfree : V.ATOMASSIGN.getD k 0 = 0)
    (hrest : ∀ j ∈ js, j ≠ k → V.ATOMASSIGN.getD j 0 ≠ 0) :
    entailScan V js (false, dv) = (true, k) := by
  induction js with
  | nil => simp at hk
  | cons j js ih =>
    rw [entailScan]
    obtain ⟨hj, hnd'⟩ := List.nodup_cons.1 hnd
    by_cases hjk : j = k
    · subst hjk
      simp only [hfree, beq_self_eq_true, if_true, Bool.not_false]
      apply entailScan_skip
      intro j' hj'
      exact hrest j' (List.mem_cons_of_mem _ hj') (fun e => hj (e ▸ hj'))
    · have hb : (V.ATOMASSIGN.getD j 0 == 0) = false := by
        simpa using hrest j (List.mem_cons_self _ _) hjk
      simp only [hb, Bool.false_eq_true, if_false]
      refine ih hnd' ?_ (fun j' hj' => hrest j' (List.mem_cons_of_mem _ hj'))
      rcases List.mem_cons.1 hk with e | e
      · exact absurd e.symm hjk
      · exact e

theorem checkEntail_complete (s : Formula) (var k : Nat) (hs : (s.var var).SAT = false)
    (hk : k < (s.var var).DOMAINSIZE) (hfree : s.assign var k = 0)
    (hrest : ∀ j < (s.var var).DOMAINSIZE, j ≠ k → s.assign var j ≠ 0) :
    checkEntail s var = some k := by
  unfold checkEntail
  simp only [hs, Bool.not_false, if_true]
  rw [entailScan_one_free (s.var var) (List.range (s.var var).DOMAINSIZE) 0 k
    (List.nodup_range _) (List.mem_range.2 hk) hfree
    (fun j hj hne => hrest j (List.mem_range.1 hj) hne)]
  rfl

/-! ## The choice of a decision literal -/

theorem foldl_flatten {σ : Type} (c : Nat → Bool) (g : Nat → List Nat) (f : Nat → σ → Nat → σ)
    (is : List Nat) (st : σ) :
    is.foldl (fun st i => if c i then (g i).foldl (f i) st else st) st =
      (is.flatMap (fun i => if c i then (g i).map (fun j => (i, j)) else [])).foldl
        (fun st p => f p.1 st p.2) st := by
  induction is generalizing st with
  | nil => rfl
  | cons i is ih =>
    rw [List.foldl_cons, List.flatMap_cons, List.foldl_append, ih]
    congr 1
    by_cases hc : c i = true
    · simp only [hc, if_true, List.foldl_map]
    · simp only [hc, Bool.false_eq_true, if_false, List.foldl_nil]

theorem chooseLiteral_flat (s : Formula) :
    chooseLiteral s =
      ((visited s).foldl (fun st p => chooseValue s p.1 st p.2) ((-2147483648 : Int), none)).2.map
        (fun p => ⟨p.1, p.2, true⟩) := by
  unfold chooseLiteral visited
  simp only
  rw [foldl_flatten (fun i => !(s.var i).SAT) (fun i => List.range (s.var i).DOMAINSIZE)
    (chooseValue s)]

theorem mem_visited (s : Formula) (v k : Nat) :
    (v, k) ∈ visited s ↔ v < s.VARLIST.length ∧ (s.var v).SAT = false ∧ k < (s.var v).DOMAINSIZE := by
  unfold visited
  simp only [List.mem_flatMap, List.mem_range]
  constructor
  · rintro ⟨i, hi, h⟩
    by_cases hc : (s.var i).SAT = true
    · simp [hc] at h
    · have hc' : (s.var i).SAT = false := by simpa using hc
      simp only [hc', Bool.not_false, if_true, List.mem_map, List.mem_range, Prod.mk.injEq] at h
      obtain ⟨j, hj, e1, e2⟩ := h
      subst e1 e2
      exact ⟨hi, hc', hj⟩
  · rintro ⟨h1, h2, h3⟩
    refine ⟨v, h1, ?_⟩
    simp only [h2, Bool.not_false, if_true, List.mem_map, List.mem_range, Prod.mk.injEq]
    exact ⟨k, h3, trivial, rfl⟩

theorem visited_sorted (s : Formula) :
    (visited s).Pairwise (fun p q => p.1 < q.1 ∨ (p.1 = q.1 ∧ p.2 < q.2)) := by
  unfold visited
  rw [List.pairwise_flatMap]
  constructor
  · intro i _
    by_cases hc : (s.var i).SAT = true
    · simp [hc]
    · have hc' : (s.var i).SAT = false := by simpa using hc
      simp only [hc', Bool.not_false, if_true, List.pairwise_map]
      exact (List.pairwise_lt_range _).imp (fun h => Or.inr ⟨trivial, h⟩)
  · refine (List.pairwise_lt_range _).imp ?_
    intro a b hab x hx y hy
    have hx1 : x.1 = a := by
      by_cases hc : (s.var a).SAT = true
      · simp [hc] at hx
      · have hc' : (s.var a).SAT = false := by simpa using hc
        simp only [hc', Bool.not_false, if_true, List.mem_map] at hx
        obtain ⟨j, -, e⟩ := hx
        rw [← e]
    have hy1 : y.1 = b := by
      by_cases hc : (s.var b).SAT = true
      · simp [hc] at hy
      · have hc' : (s.var b).SAT = false := by simpa using hc
        simp only [hc', Bool.not_false, if_true, List.mem_map] at hy
        obtain ⟨j, -, e⟩ := hy
        rw [← e]
    left
    omega

/-- An integer between `INT_MIN` and `INT_MAX` is its own value as an `int`. -/
theorem int32_of_fits (x : Int) (h1 : -2147483648 ≤ x) (h2 : x ≤ 2147483647) : int32 x = x := by
  unfold int32
  omega

/-- The value of an `int` lies between `INT_MIN` and `INT_MAX`. -/
theorem int32_bounds (x : Int) : -2147483648 ≤ int32 x ∧ int32 x ≤ 2147483647 := by
  unfold int32
  omega

theorem chooseValue_fold (s : Formula) (l : List (Nat × Nat)) (m : Int) (o : Option (Nat × Nat)) :
    (l.foldl (fun st p => chooseValue s p.1 st p.2) (m, o) = (m, o) ∧
      ∀ p ∈ l, s.assign p.1 p.2 = 0 → s.score p.1 p.2 ≤ m) ∨
    (∃ l1 q l2, l = l1 ++ q :: l2 ∧ s.assign q.1 q.2 = 0 ∧
      l.foldl (fun st p => chooseValue s p.1 st p.2) (m, o) = (s.score q.1 q.2, some q) ∧
      m < s.score q.1 q.2 ∧
      (∀ p ∈ l1, s.assign p.1 p.2 = 0 → s.score p.1 p.2 < s.score q.1 q.2) ∧
      (∀ p ∈ l2, s.assign p.1 p.2 = 0 → s.score p.1 p.2 ≤ s.score q.1 q.2)) := by
  induction l generalizing m o with
  | nil => exact Or.inl ⟨rfl, fun p hp => by simp at hp⟩
  | cons a l ih =>
    rw [List.foldl_cons]
    by_cases hc : s.assign a.1 a.2 = 0 ∧ m < s.score a.1 a.2
    · have hstep : chooseValue s a.1 (m, o) a.2 = (s.score a.1 a.2, some a) := by
        unfold chooseValue
        simp only [hc.1, beq_self_eq_true, if_true]
        have : m < int32 (s.cntPos a.1 a.2 - s.cntNeg a.1 a.2) := hc.2
        simp only [this, if_true]
        rfl
      rw [hstep]
      rcases ih (s.score a.1 a.2) (some a) with ⟨h1, h2⟩ | ⟨l1, q, l2, e, hq, hr, hlt, hl1, hl2⟩
      · exact Or.inr ⟨[], a, l, rfl, hc.1, h1, hc.2, fun p hp => by simp at hp, h2⟩
      · refine Or.inr ⟨a :: l1, q, l2, by rw [e]; rfl, hq, hr, by omega, ?_, hl2⟩
        intro p hp hfree
        rcases List.mem_cons.1 hp with rfl | hp
        · exact hlt
        · exact hl1 p hp hfree
    · have hstep : chooseValue s a.1 (m, o) a.2 = (m, o) := by
        unfold chooseValue
        by_cases hf : s.assign a.1 a.2 = 0
        · have hn : ¬ m < int32 (s.cntPos a.1 a.2 - s.cntNeg a.1 a.2) := fun h => hc ⟨hf, h⟩
          simp only [hf, beq_self_eq_true, if_true, hn, if_false]
        · have hb : (s.assign a.1 a.2 == 0) = false := by simpa using hf
          simp only [hb, Bool.false_eq_true, if_false]
      rw [hstep]
      have ha : s.assign a.1 a.2 = 0 → s.score a.1 a.2 ≤ m := by
        intro hf
        by_contra hlt
        exact hc ⟨hf, by omega⟩
      rcases ih m o with ⟨h1, h2⟩ | ⟨l1, q, l2, e, hq, hr, hlt, hl1, hl2⟩
      · refine Or.inl ⟨h1, fun p hp hfree => ?_⟩
        rcases List.mem_cons.1 hp with rfl | hp
        · exact ha hfree
        · exact h2 p hp hfree
      · refine Or.inr ⟨a :: l1, q, l2, by rw [e]; rfl, hq, hr, hlt, ?_, hl2⟩
        intro p hp hfree
        rcases List.mem_cons.1 hp with rfl | hp
        · have := ha hfree
          omega
        · exact hl1 p hp hfree

theorem candidate_visited (s : Formula) (v k : Nat) :
    s.candidate v k ↔ (v, k) ∈ visited s ∧ s.assign v k = 0 := by
  unfold Formula.candidate
  rw [mem_visited]
  tauto

/-- The result of `chooseLiteral` in terms of the candidates: none when no candidate
has a score above `INT_MIN`; otherwise the first candidate of the greatest score. -/
theorem chooseLiteral_spec (s : Formula) :
    (chooseLiteral s = none ∧
      ∀ v k, s.candidate v k → s.score v k ≤ -2147483648) ∨
    (∃ v k, chooseLiteral s = some ⟨v, k, true⟩ ∧ s.candidate v k ∧
      -2147483648 < s.score v k ∧
      (∀ v' k', s.candidate v' k' → s.score v' k' ≤ s.score v k) ∧
      (∀ v' k', s.candidate v' k' → s.score v' k' = s.score v k →
        v < v' ∨ (v = v' ∧ k ≤ k'))) := by
  rw [chooseLiteral_flat]
  generalize hI : (-2147483648 : Int) = I
  rcases chooseValue_fold s (visited s) I none with
    ⟨h1, h2⟩ | ⟨l1, q, l2, e, hq, hr, hlt, hl1, hl2⟩
  · left
    rw [h1]
    constructor
    · rfl
    · intro v k hc
      rw [candidate_visited] at hc
      exact h2 (v, k) hc.1 hc.2
  · right
    obtain ⟨qv, qk⟩ := q
    have hmem : (qv, qk) ∈ visited s := by rw [e]; simp
    refine ⟨qv, qk, ?_, ?_, hlt, ?_, ?_⟩
    · rw [hr]; rfl
    · rw [candidate_visited]
      exact ⟨hmem, hq⟩
    · intro v' k' hc
      rw [candidate_visited] at hc
      obtain ⟨hm, hfree⟩ := hc
      rw [e] at hm
      rcases List.mem_append.1 hm with h | h
      · have h5 : s.score v' k' < s.score qv qk := hl1 (v', k') h hfree
        omega
      · rcases List.mem_cons.1 h with h | h
        · rw [Prod.mk.injEq] at h
          rw [h.1, h.2]
        · exact hl2 (v', k') h hfree
    · intro v' k' hc heq
      rw [candidate_visited] at hc
      obtain ⟨hm, hfree⟩ := hc
      have hsorted := visited_sorted s
      rw [e] at hm hsorted
      rcases List.mem_append.1 hm with h | h
      · have h5 : s.score v' k' < s.score qv qk := hl1 (v', k') h hfree
        omega
      · rcases List.mem_cons.1 h with h | h
        · rw [Prod.mk.injEq] at h
          exact Or.inr ⟨h.1.symm, by omega⟩
        · have h3 := (List.pairwise_append.1 hsorted).2.1
          have h4 : qv < v' ∨ (qv = v' ∧ qk < k') := (List.pairwise_cons.1 h3).1 (v', k') h
          rcases h4 with h4 | ⟨h4, h5⟩
          · exact Or.inl h4
          · exact Or.inr ⟨h4, by omega⟩

/-! ## Resolution -/

theorem hasAtom_iff (atoms : List Literal) (b : Literal) : HasAtom atoms b = true ↔ b ∈ atoms := by
  unfold HasAtom
  rw [List.any_eq_true]
  constructor
  · rintro ⟨x, hx, h⟩
    simp only [Bool.and_eq_true, beq_iff_eq] at h
    have : x = b := by
      obtain ⟨x1, x2, x3⟩ := x
      obtain ⟨b1, b2, b3⟩ := b
      simp only at h
      simp only [Literal.mk.injEq]
      exact ⟨h.1.1, h.2, h.1.2⟩
    rw [← this]
    exact hx
  · intro h
    exact ⟨b, h, by simp⟩

theorem resolve_first (a : Literal) (C acc : List Literal) :
    C.foldl
      (fun res b =>
        if b.VAR != a.VAR then res ++ [b]
        else if b.VAL == a.VAL && b.EQUAL != a.EQUAL then res ++ [b]
        else if b.VAL != a.VAL && b.EQUAL == a.EQUAL then res ++ [b]
        else res) acc = acc ++ C.filter (keptFromClause a) := by
  induction C generalizing acc with
  | nil => simp
  | cons b C ih =>
    rw [List.foldl_cons, ih, List.filter_cons]
    unfold keptFromClause
    by_cases e1 : b.VAR = a.VAR <;> by_cases e2 : b.VAL = a.VAL <;>
      by_cases e3 : b.EQUAL = a.EQUAL <;> simp [e1, e2, e3]

theorem resolve_second (a : Literal) (R acc : List Literal) (x : Literal) :
    (x ∈ R.foldl
      (fun res b =>
        if b.VAR != a.VAR && !HasAtom res b then res ++ [b]
        else if b.VAL == a.VAL && b.EQUAL == a.EQUAL && !HasAtom res b then res ++ [b]
        else if b.VAL != a.VAL && b.EQUAL != a.EQUAL && !HasAtom res b then res ++ [b]
        else if b.VAL != a.VAL && b.EQUAL == a.EQUAL && b.EQUAL == false
            && !HasAtom res b then res ++ [b]
        else res) acc ↔ x ∈ acc ∨ (x ∈ R ∧ addedFromReason a x = true)) ∧
    (x ∉ acc → (R.foldl
      (fun res b =>
        if b.VAR != a.VAR && !HasAtom res b then res ++ [b]
        else if b.VAL == a.VAL && b.EQUAL == a.EQUAL && !HasAtom res b then res ++ [b]
        else if b.VAL != a.VAL && b.EQUAL != a.EQUAL && !HasAtom res b then res ++ [b]
        else if b.VAL != a.VAL && b.EQUAL == a.EQUAL && b.EQUAL == false
            && !HasAtom res b then res ++ [b]
        else res) acc).count x ≤ 1) ∧
    (R.foldl
      (fun res b =>
        if b.VAR != a.VAR && !HasAtom res b then res ++ [b]
        else if b.VAL == a.VAL && b.EQUAL == a.EQUAL && !HasAtom res b then res ++ [b]
        else if b.VAL != a.VAL && b.EQUAL != a.EQUAL && !HasAtom res b then res ++ [b]
        else if b.VAL != a.VAL && b.EQUAL == a.EQUAL && b.EQUAL == false
            && !HasAtom res b then res ++ [b]
        else res) acc).count x ≤ max (acc.count x) 1 := by
  induction R generalizing acc with
  | nil =>
    simp only [List.foldl_nil, List.not_mem_nil, false_and, or_false, true_and]
    exact ⟨fun h => by rw [List.count_eq_zero_of_not_mem h]; omega, le_max_left _ _⟩
  | cons b R ih =>
    rw [List.foldl_cons]
    have hstep : (if b.VAR != a.VAR && !HasAtom acc b then acc ++ [b]
        else if b.VAL == a.VAL && b.EQUAL == a.EQUAL && !HasAtom acc b then acc ++ [b]
        else if b.VAL != a.VAL && b.EQUAL != a.EQUAL && !HasAtom acc b then acc ++ [b]
        else if b.VAL != a.VAL && b.EQUAL == a.EQUAL && b.EQUAL == false
            && !HasAtom acc b then acc ++ [b]
        else acc) = if addedFromReason a b && !HasAtom acc b then acc ++ [b] else acc := by
      unfold addedFromReason
      by_cases e1 : b.VAR = a.VAR <;> by_cases e2 : b.VAL = a.VAL <;>
        cases hb : b.EQUAL <;> cases ha : a.EQUAL <;> cases h0 : HasAtom acc b <;>
        simp [e1, e2]
    rw [hstep]
    by_cases hadd : (addedFromReason a b && !HasAtom acc b) = true
    · rw [if_pos hadd]
      rw [Bool.and_eq_true] at hadd
      have hnb : b ∉ acc := by
        intro h
        have := (hasAtom_iff acc b).2 h
        rw [this] at hadd
        exact absurd hadd.2 (by decide)
      obtain ⟨i1, i2, i3⟩ := ih (acc ++ [b])
      refine ⟨?_, ?_, ?_⟩
      · rw [i1, List.mem_append, List.mem_singleton, List.mem_cons]
        constructor
        · rintro ((h | h) | h)
          · exact Or.inl h
          · exact Or.inr ⟨Or.inl h, by rw [h]; exact hadd.1⟩
          · exact Or.inr ⟨Or.inr h.1, h.2⟩
        · rintro (h | ⟨h | h, h'⟩)
          · exact Or.inl (Or.inl h)
          · exact Or.inl (Or.inr h)
          · exact Or.inr ⟨h, h'⟩
      · intro hx
        by_cases hxb : x = b
        · subst hxb
          have : (acc ++ [x]).count x = 1 := by
            rw [List.count_append, List.count_eq_zero_of_not_mem hx]
            simp
          rw [this] at i3
          exact i3
        · apply i2
          rw [List.mem_append, List.mem_singleton]
          rintro (h | h)
          · exact hx h
          · exact hxb h
      · by_cases hxb : x = b
        · subst hxb
          have : (acc ++ [x]).count x = 1 := by
            rw [List.count_append, List.count_eq_zero_of_not_mem hnb]
            simp
          rw [this] at i3
          exact le_trans i3 (le_max_right _ _)
        · have : (acc ++ [b]).count x = acc.count x := by
            rw [List.count_append]
            have : [b].count x = 0 := by
              apply List.count_eq_zero_of_not_mem
              rw [List.mem_singleton]
              exact hxb
            omega
          rw [this] at i3
          exact i3
    · rw [if_neg hadd]
      obtain ⟨i1, i2, i3⟩ := ih acc
      refine ⟨?_, i2, i3⟩
      rw [i1, List.mem_cons]
      constructor
      · rintro (h | h)
        · exact Or.inl h
        · exact Or.inr ⟨Or.inr h.1, h.2⟩
      · rintro (h | ⟨h | h, h'⟩)
        · exact Or.inl h
        · subst h
          left
          rw [h'] at hadd
          simp only [Bool.true_and, Bool.not_eq_true', Bool.not_eq_false] at hadd
          exact (hasAtom_iff acc x).1 hadd
        · exact Or.inr ⟨h, h'⟩

theorem resolve_mem_iff (C R : List Literal) (a b : Literal) :
    (b ∈ resolve C a R ↔
      (b ∈ C ∧ keptFromClause a b = true) ∨ (b ∈ R ∧ addedFromReason a b = true)) ∧
    ((b ∉ C ∨ keptFromClause a b = false) → (resolve C a R).count b ≤ 1) := by
  unfold resolve
  simp only
  rw [resolve_first, List.nil_append]
  obtain ⟨i1, i2, -⟩ := resolve_second a R (C.filter (keptFromClause a)) b
  refine ⟨?_, fun h => i2 ?_⟩
  · rw [i1, List.mem_filter]
  · rw [List.mem_filter]
    rintro ⟨h1, h2⟩
    rcases h with h | h
    · exact h h1
    · rw [h2] at h
      exact Bool.noConfusion h

/-! ## Propagation of an atom that already holds -/

theorem entailScan_congr (V W : Variable) (h : ∀ j, W.ATOMASSIGN.getD j 0 = V.ATOMASSIGN.getD j 0)
    (js : List Nat) (st : Bool × Nat) : entailScan W js st = entailScan V js st := by
  induction js generalizing st with
  | nil => obtain ⟨f, d⟩ := st; rfl
  | cons j js ih =>
    obtain ⟨f, d⟩ := st
    rw [entailScan, entailScan, h j]
    split_ifs
    · exact ih _
    · rfl
    · exact ih _

theorem checkEntail_congr (s t : Formula) (v : Nat) (hsat : (t.var v).SAT = (s.var v).SAT)
    (hdom : (t.var v).DOMAINSIZE = (s.var v).DOMAINSIZE)
    (hassign : ∀ j, t.assign v j = s.assign v j) : checkEntail t v = checkEntail s v := by
  unfold checkEntail
  simp only [hsat, hdom]
  rw [entailScan_congr (s.var v) (t.var v) hassign]

theorem forbidValue_fold_id (var : Nat) (l : List Nat) (u : Formula)
    (h : ∀ i ∈ l, u.assign var i ≠ 0) : l.foldl (forbidValue var) u = u := by
  induction l with
  | nil => rfl
  | cons i l ih =>
    rw [List.foldl_cons]
    have hi : forbidValue var u i = u := by
      unfold forbidValue
      have hb : (u.assign var i == 0) = false := by
        simpa using h i (List.mem_cons_self _ _)
      simp only [hb, Bool.false_eq_true, if_false, ite_self]
    rw [hi]
    exact ih (fun j hj => h j (List.mem_cons_of_mem _ hj))

theorem setTrue_clause_holds (s : Formula) (hs : Consistent s) (v : Nat) (e : Bool) (k : Nat)
    (hv : v < s.VARLIST.length) (hk : k < (s.var v).DOMAINSIZE)
    (hholds : s.holds ⟨v, k, e⟩ = true) (c : Nat) (hc : c < s.CLAUSELIST.length) :
    (setTrue s v e k).clause c =
      if (s.clause c).SAT = false then
        { s.clause c with
          NumUnAss := (s.clause c).NumUnAss - ((s.clause c).ATOM_LIST.count ⟨v, k, !e⟩ : Int) }
      else s.clause c := by
  rw [setTrue_clause s hs.struct hs.clauses hs.counts v e k hv hk c]
  by_cases hsat : (s.clause c).SAT = false
  · simp only [hsat, if_true]
    have hnot : c ∉ s.records v e k := by
      intro hmem
      have := (records_mem hs.struct hv hk e c).1 hmem
      have hno := (hs.clauses.unsat c hc hsat).2.2 _ this.2
      rw [hholds] at hno
      exact Bool.noConfusion hno
    rw [if_neg hnot, hs.struct.recs v hv k hk (!e) c, if_pos hc]
  · rw [if_neg hsat, if_neg hsat]

theorem reduceLiteral_again (s : Formula) (hs : Consistent s) (v : Nat) (e : Bool) (k : Nat)
    (hv : v < s.VARLIST.length) (hk : k < (s.var v).DOMAINSIZE)
    (hholds : s.holds ⟨v, k, e⟩ = true)
    (hothers : e = true → ∀ j < (s.var v).DOMAINSIZE, j ≠ k → s.assign v j ≠ 0) :
    (∀ v' k', (reduceLiteral s v e k).cell v' k' =
      if v' = v ∧ k' = k then (s.assign v k, s.LEVEL, s.UNITCLAUSE) else s.cell v' k') ∧
    (∀ c < s.CLAUSELIST.length, (reduceLiteral s v e k).clause c =
      if (s.clause c).SAT = false then
        { s.clause c with
          NumUnAss := (s.clause c).NumUnAss - ((s.clause c).ATOM_LIST.count ⟨v, k, !e⟩ : Int) }
      else s.clause c) := by
  have hwf := hs.struct.sized.1
  cases e with
  | false =>
    have ha : s.assign v k = -1 := by simpa [Formula.holds] using hholds
    refine ⟨fun v' k' => ?_, fun c hc => ?_⟩
    · rw [cell_reduceLiteral_false s v k hwf hv hk, ha]
    · rw [← setTrue_clause_holds s hs v false k hv hk hholds c hc, reduceLiteral_false_eq]
      rfl
  | true =>
    have ha : s.assign v k = 1 := by simpa [Formula.holds] using hholds
    have hid : reduceLiteral s v true k = assignValue s v k := by
      rw [reduceLiteral_true_eq]
      apply forbidValue_fold_id
      intro i hi
      have hi' := (domainLoop_mem k (s.var v).DOMAINSIZE i).1 hi
      have hik : i ≠ k := by omega
      have hid : i < (s.var v).DOMAINSIZE := by omega
      have hc := cell_assignValue s v k hwf hv hk v i
      rw [if_neg (fun h => hik h.2)] at hc
      have : (assignValue s v k).assign v i = s.assign v i := congrArg Prod.fst hc
      rw [this]
      exact hothers rfl i hid hik
    rw [hid]
    refine ⟨fun v' k' => ?_, fun c hc => ?_⟩
    · rw [cell_assignValue s v k hwf hv hk, ha]
    · rw [← setTrue_clause_holds s hs v true k hv hk hholds c hc, assignValue_setTrue]
      rfl

/-! ## Growth of the assignment by propagation -/

theorem grow_refl (s : Formula) : Grow s s :=
  ⟨shape_refl s, rfl, fun _ _ => Or.inl rfl, fun _ => Or.inl rfl, [], by simp, by simp⟩

theorem grow_same {s t : Formula} (h1 : t.VARLIST = s.VARLIST) (h2 : t.HEAP = s.HEAP)
    (h3 : t.CLAUSELIST = s.CLAUSELIST) (h4 : t.LEVEL = s.LEVEL) (h5 : t.DECSTACK = s.DECSTACK) :
    Grow s t := by
  refine ⟨⟨by rw [h1], by rw [h2], h3⟩, h4, fun v k => Or.inl ?_, fun v => Or.inl ?_,
    [], by simp [h5], by simp⟩
  · simp [Formula.cell, Formula.assign, Formula.level, Formula.reason, Formula.var, h1]
  · simp [Formula.head, Formula.var, h1]

theorem grow_trans {s t u : Formula} (h1 : Grow s t) (h2 : Grow t u) : Grow s u := by
  have hfree : ∀ v k, t.assign v k = 0 → s.assign v k = 0 := by
    intro v k h0
    rcases h1.cells v k with h | ⟨-, h, -⟩
    · rw [← assign_of_cell h]; exact h0
    · exact absurd h0 h
  have hkeep : ∀ v k, t.assign v k ≠ 0 → u.assign v k ≠ 0 := by
    intro v k hne
    rcases h2.cells v k with h | ⟨h, -, -⟩
    · rw [assign_of_cell h]; exact hne
    · exact absurd h hne
  refine ⟨shape_trans h1.shape h2.shape, h2.level.trans h1.level, fun v k => ?_, fun v => ?_, ?_⟩
  · rcases h2.cells v k with h | ⟨a1, a2, a3⟩
    · rcases h1.cells v k with h' | ⟨b1, b2, b3⟩
      · exact Or.inl (h.trans h')
      · refine Or.inr ⟨b1, ?_, ?_⟩
        · rw [assign_of_cell h]; exact b2
        · have : u.level v k = t.level v k := congrArg (fun c => c.2.1) h
          rw [this]; exact b3
    · exact Or.inr ⟨hfree v k a1, a2, a3.trans h1.level⟩
  · rcases h2.heads v with h | ⟨a1, ⟨k, a2, a3⟩, a4⟩
    · rcases h1.heads v with h' | ⟨b1, b2, b3⟩
      · exact Or.inl (h.trans h')
      · refine Or.inr ⟨b1, b2, ?_⟩
        have : (u.var v).LEVEL = (t.var v).LEVEL := congrArg (fun c => c.2.2) h
        rw [this]; exact b3
    · refine Or.inr ⟨by rw [← shape_length h1.shape]; exact a1,
        ⟨k, by rw [← shape_dom h1.shape]; exact a2, hfree v k a3⟩, a4.trans h1.level⟩
  · obtain ⟨n1, e1, p1⟩ := h1.stack
    obtain ⟨n2, e2, p2⟩ := h2.stack
    refine ⟨n1 ++ n2, by rw [e2, e1, List.append_assoc], fun a ha => ?_⟩
    rcases List.mem_append.1 ha with h | h
    · exact ⟨(p1 a h).1, hkeep _ _ (p1 a h).2⟩
    · exact ⟨hfree _ _ (p2 a h).1, (p2 a h).2⟩

theorem grow_reduceLiteral (s : Formula) (hwf : s.WF) (v : Nat) (e : Bool) (k : Nat)
    (hv : v < s.VARLIST.length) (hk : k < (s.var v).DOMAINSIZE) (hfree : s.assign v k = 0) :
    Grow s (reduceLiteral s v e k) := by
  obtain ⟨hsh, hlev, -, hstack, -, hheads⟩ := reduceLiteral_basic s v e k
  have hcells : ∀ v' k', (reduceLiteral s v e k).cell v' k' = s.cell v' k' ∨
      (s.assign v' k' = 0 ∧ (reduceLiteral s v e k).assign v' k' ≠ 0 ∧
        (reduceLiteral s v e k).level v' k' = s.LEVEL) := by
    intro v' k'
    cases e with
    | false =>
      have hc := cell_reduceLiteral_false s v k hwf hv hk v' k'
      by_cases hvk : v' = v ∧ k' = k
      · rw [if_pos hvk] at hc
        refine Or.inr ⟨by rw [hvk.1, hvk.2]; exact hfree, ?_, congrArg (fun c => c.2.1) hc⟩
        rw [assign_of_cell_val hc]; decide
      · rw [if_neg hvk] at hc
        exact Or.inl hc
    | true =>
      obtain ⟨c1, c2, -⟩ := cell_reduceLiteral_true s v k hwf hv hk
      by_cases hvk : v' = v ∧ k' = k
      · obtain ⟨rfl, rfl⟩ := hvk
        refine Or.inr ⟨hfree, ?_, congrArg (fun c => c.2.1) c1⟩
        rw [assign_of_cell_val c1]; decide
      · rcases c2 v' k' hvk with h | ⟨h1, -, h3, h4⟩
        · exact Or.inl h
        · subst h1
          refine Or.inr ⟨h3, ?_, congrArg (fun c => c.2.1) h4⟩
          rw [assign_of_cell_val h4]; decide
  refine ⟨hsh, hlev, hcells, fun v' => ?_, [⟨v, k, e⟩], hstack, fun a ha => ?_⟩
  · have hh := hheads v'
    by_cases hc : e = true ∧ v' = v ∧ v < s.VARLIST.length
    · rw [if_pos hc] at hh
      obtain ⟨-, rfl, -⟩ := hc
      exact Or.inr ⟨hv, ⟨k, hk, hfree⟩, congrArg (fun c => c.2.2) hh⟩
    · rw [if_neg hc] at hh
      exact Or.inl hh
  · rw [List.mem_singleton] at ha
    subst ha
    refine ⟨hfree, ?_⟩
    rcases hcells v k with h | ⟨-, h, -⟩
    · intro h0
      cases e with
      | false =>
        have hc := cell_reduceLiteral_false s v k hwf hv hk v k
        rw [if_pos ⟨rfl, rfl⟩] at hc
        rw [assign_of_cell_val hc] at h0
        exact absurd h0 (by decide)
      | true =>
        obtain ⟨c1, -, -⟩ := cell_reduceLiteral_true s v k hwf hv hk
        rw [assign_of_cell_val c1] at h0
        exact absurd h0 (by decide)
    · exact h

theorem grow_reduceTheory (s : Formula) (hwf : s.WF) (v : Nat) (e : Bool) (k : Nat)
    (hv : v < s.VARLIST.length) (hk : k < (s.var v).DOMAINSIZE) (hfree : s.assign v k = 0) :
    Grow s (reduceTheory s v e k) ∧ (reduceTheory s v e k).assign v k ≠ 0 := by
  have h1 := grow_reduceLiteral s hwf v e k hv hk hfree
  have hne : (reduceLiteral s v e k).assign v k ≠ 0 := by
    obtain ⟨new, e1, p1⟩ := h1.stack
    have e2 := (reduceLiteral_basic s v e k).2.2.2.1
    rw [e1] at e2
    have : new = [⟨v, k, e⟩] := List.append_cancel_left e2
    exact (p1 ⟨v, k, e⟩ (by rw [this]; simp)).2
  rw [reduceTheory_eq]
  cases he : checkEntail (reduceLiteral s v e k) v with
  | none => exact ⟨h1, hne⟩
  | some j =>
    simp only
    obtain ⟨-, e2, e3, -⟩ := checkEntail_spec _ _ _ he
    have h2 : Grow (reduceLiteral s v e k)
        { reduceLiteral s v e k with
          ENTAILLITERAL := some ⟨v, j, true⟩
          ENTAILS := (reduceLiteral s v e k).ENTAILS + 1
          UNITCLAUSE := -2 } := grow_same rfl rfl rfl rfl rfl
    have h3 := grow_reduceLiteral
      { reduceLiteral s v e k with
          ENTAILLITERAL := some ⟨v, j, true⟩
          ENTAILS := (reduceLiteral s v e k).ENTAILS + 1
          UNITCLAUSE := -2 } (shape_wf (shape_trans h1.shape h2.shape) hwf) v true j
      (by show v < (reduceLiteral s v e k).VARLIST.length
          rw [shape_length h1.shape]; exact hv) e2 e3
    refine ⟨grow_trans h1 (grow_trans h2 h3), ?_⟩
    rcases h3.cells v k with h | ⟨h, -, -⟩
    · rw [assign_of_cell h]; exact hne
    · exact absurd h hne

theorem grow_checkUnit (s : Formula) : Grow s (checkUnit s) := by
  obtain ⟨h1, h2, h3, h4, h5⟩ := checkUnit_same s
  exact grow_same h1 h2 h3 h4 h5

theorem grow_unitRound (s : Formula) (hs : Consistent s) (c : Nat) (rest : List Nat) :
    Grow s (unitRound s c rest) := by
  have hwf := hs.struct.sized.1
  unfold unitRound
  simp only
  split_ifs with h
  · cases hf : firstFree { s with UNITS := s.UNITS + 1, UNITCLAUSE := (c : Int), UNITLIST := rest }
        ({ s with UNITS := s.UNITS + 1, UNITCLAUSE := (c : Int), UNITLIST := rest }.clause c).ATOM_LIST with
    | none => exact grow_same rfl rfl rfl rfl rfl
    | some a =>
      simp only
      have hmem : a ∈ (s.clause c).ATOM_LIST := List.mem_of_find?_eq_some hf
      have hfree : s.assign a.VAR a.VAL = 0 := by
        have := List.find?_some hf
        simpa using this
      obtain ⟨-, r2, r3⟩ := atoms_in_range hs.struct c a hmem
      obtain ⟨f, hfdef⟩ : ∃ f : Variable → Variable,
          f = (fun V => { V with CLAUSEID := V.CLAUSEID.set a.VAL (c : Int) }) := ⟨_, rfl⟩
      obtain ⟨s1, hs1⟩ : ∃ s1 : Formula,
          s1 = { s with UNITS := s.UNITS + 1, UNITCLAUSE := (c : Int), UNITLIST := rest } := ⟨_, rfl⟩
      rw [← hs1, ← hfdef]
      have hsh1 : Shape s s1 := by rw [hs1]; exact ⟨rfl, rfl, rfl⟩
      have hsh2 : Shape s (s1.setVar a.VAR f) :=
        shape_trans hsh1 (shape_setVar s1 a.VAR f (fun V => by rw [hfdef]; simp [Variable.shape]))
      have hassign : ∀ v k, (s1.setVar a.VAR f).assign v k = s.assign v k := by
        intro v k
        rw [hs1, hfdef]
        simp only [Formula.assign, var_setVar]
        split_ifs <;> rfl
      have hcell : ∀ v k, ¬ (v = a.VAR ∧ k = a.VAL) → (s1.setVar a.VAR f).cell v k = s.cell v k := by
        intro v k hvk
        rw [hs1, hfdef]
        simp only [Formula.cell, Formula.assign, Formula.level, Formula.reason, var_setVar]
        by_cases h1 : a.VAR = v ∧ v < s.VARLIST.length
        · rw [if_pos h1]
          have hk : ¬ a.VAL = k := fun h' => hvk ⟨h1.1.symm, h'.symm⟩
          simp only [getD_set_eq, hk, false_and, if_false]
          rfl
        · rw [if_neg h1]
          rfl
      have hhead : ∀ v, (s1.setVar a.VAR f).head v = s.head v := by
        intro v
        rw [hs1, hfdef]
        simp only [Formula.head, var_setVar]
        split_ifs <;> rfl
      have hdom : ∀ v, ((s1.setVar a.VAR f).var v).DOMAINSIZE = (s.var v).DOMAINSIZE :=
        fun v => shape_dom hsh2 v
      obtain ⟨g, gne⟩ := grow_reduceTheory (s1.setVar a.VAR f) (shape_wf hsh2 hwf) a.VAR a.EQUAL a.VAL
        (by rw [shape_length hsh2]; exact r2) (by rw [hdom]; exact r3) (by rw [hassign]; exact hfree)
      have hlev : (s1.setVar a.VAR f).LEVEL = s.LEVEL := by rw [hs1]; rfl
      have hstk : (s1.setVar a.VAR f).DECSTACK = s.DECSTACK := by rw [hs1]; rfl
      refine ⟨shape_trans hsh2 g.shape, g.level.trans hlev, fun v k => ?_, fun v => ?_, ?_⟩
      · rcases g.cells v k with h' | ⟨a1, a2, a3⟩
        · by_cases hvk : v = a.VAR ∧ k = a.VAL
          · obtain ⟨rfl, rfl⟩ := hvk
            have := assign_of_cell h'
            rw [hassign, hfree] at this
            exact absurd this gne
          · exact Or.inl (h'.trans (hcell v k hvk))
        · exact Or.inr ⟨by rw [← hassign]; exact a1, a2, a3.trans hlev⟩
      · rcases g.heads v with h' | ⟨a1, ⟨k, a2, a3⟩, a4⟩
        · exact Or.inl (h'.trans (hhead v))
        · exact Or.inr ⟨by rw [← shape_length hsh2]; exact a1,
            ⟨k, by rw [← hdom]; exact a2, by rw [← hassign]; exact a3⟩, a4.trans hlev⟩
      · obtain ⟨new, e1, p1⟩ := g.stack
        exact ⟨new, by rw [e1, hstk], fun b hb => ⟨by rw [← hassign]; exact (p1 b hb).1, (p1 b hb).2⟩⟩
  · exact grow_same rfl rfl rfl rfl rfl

theorem grow_unitPropagation (fuel : Nat) (s t : Formula) (hs : Consistent s)
    (h : unitPropagation fuel s = some t) : Grow s t := by
  induction fuel generalizing s with
  | zero => simp [unitPropagation] at h
  | succ fuel ih =>
    rw [unitPropagation] at h
    split_ifs at h with hc
    · simp only [Option.some.injEq] at h
      subst h; exact grow_same rfl rfl rfl rfl rfl
    · cases hu : s.UNITLIST with
      | nil =>
        simp only [hu, Option.some.injEq] at h
        subst h; exact grow_refl s
      | cons c rest =>
        simp only [hu] at h
        exact grow_trans (grow_unitRound s hs c rest) (ih _ (consistent_unitRound s hs c rest) h)

theorem above_grow {S u : Formula} (hS : Consistent S) (h : Above S u) :
    Grow (S.withLevel (S.LEVEL + 1)) u ∧ Consistent u := by
  have hS1 : Consistent (S.withLevel (S.LEVEL + 1)) :=
    consistent_withLevel hS _ (by have := hS.level; omega)
      (fun v k hne => by have := (hS.cells.bound v k hne).2; omega)
  induction h with
  | decision v e k hv hk hfree =>
    exact ⟨(grow_reduceTheory _ hS1.struct.sized.1 v e k hv hk hfree).1,
      consistent_reduceTheory _ hS1 v e k hv hk hfree⟩
  | check u _ ih => exact ⟨grow_trans ih.1 (grow_checkUnit u), consistent_checkUnit u ih.2⟩
  | units fuel u t _ hp ih =>
    exact ⟨grow_trans ih.1 (grow_unitPropagation fuel u t ih.2 hp),
      consistent_unitPropagation fuel u t ih.2 hp⟩

/-! ## The round trip of a decision and a backtrack -/

theorem undoTheory_stack_filter (s : Formula) (L : Int) :
    (undoTheory s L).DECSTACK =
      s.DECSTACK.filter (fun a => !((undoTheory s L).assign a.VAR a.VAL == 0)) := by
  obtain ⟨t, -, hst, -, hcell, -, heq⟩ := undoTheory_stack_eq s L
  have h1 : (undoTheory s L).DECSTACK = undoStack t t.DECSTACK.length t.DECSTACK := by
    rw [heq]
  rw [h1, undoStack_eq t _ _ (Nat.le_refl _), List.take_length, List.drop_length,
    List.append_nil, hst]
  apply List.filter_congr
  intro a _
  rw [assign_of_cell (hcell a.VAR a.VAL)]

theorem assign_ne_of_holds {s : Formula} {a : Literal} (h : s.holds a = true) :
    s.assign a.VAR a.VAL ≠ 0 := by
  unfold Formula.holds at h
  intro h0
  rw [h0] at h
  cases a.EQUAL <;> simp at h

theorem holds_congr {s t : Formula} (h : ∀ v k, t.assign v k = s.assign v k) (a : Literal) :
    t.holds a = s.holds a := by
  unfold Formula.holds
  rw [h]

/-- In consistent states of the same shape the clause fields and the counters are
determined by the statuses and the levels of the values that are not Free. -/
theorem clauses_determined {s t : Formula} (hs : Consistent s) (ht : Consistent t)
    (hsh : Shape s t) (hassign : ∀ v k, t.assign v k = s.assign v k)
    (hlevel : ∀ v k, s.assign v k ≠ 0 → t.level v k = s.level v k) :
    (∀ c, (t.clause c).SAT = (s.clause c).SAT) ∧
    (∀ c < s.CLAUSELIST.length, (t.clause c).LEVEL = (s.clause c).LEVEL ∧
      (t.clause c).NumUnAss = (s.clause c).NumUnAss) ∧
    (∀ v < s.VARLIST.length, ∀ k < (s.var v).DOMAINSIZE, ∀ e, t.cnt v e k = s.cnt v e k) := by
  have hlen : t.CLAUSELIST.length = s.CLAUSELIST.length := by rw [hsh.clist]
  have hatoms := shape_atoms hsh
  have hsat : ∀ c, (t.clause c).SAT = (s.clause c).SAT := by
    intro c
    by_cases hc : c < s.CLAUSELIST.length
    · have hc' : c < t.CLAUSELIST.length := by rw [hlen]; exact hc
      cases h1 : (s.clause c).SAT with
      | true =>
        obtain ⟨-, ⟨a, ha, hh, -⟩, -⟩ := hs.clauses.sat c hc h1
        cases h2 : (t.clause c).SAT with
        | true => rfl
        | false =>
          have := (ht.clauses.unsat c hc' h2).2.2 a (by rw [hatoms]; exact ha)
          rw [holds_congr hassign, hh] at this
          exact Bool.noConfusion this
      | false =>
        cases h2 : (t.clause c).SAT with
        | false => rfl
        | true =>
          obtain ⟨-, ⟨a, ha, hh, -⟩, -⟩ := ht.clauses.sat c hc' h2
          rw [hatoms] at ha
          have := (hs.clauses.unsat c hc h1).2.2 a ha
          rw [holds_congr hassign, this] at hh
          exact Bool.noConfusion hh
    · rw [clause_out_of_range hs.struct.noalias hc,
        clause_out_of_range ht.struct.noalias (by rw [hlen]; exact hc)]
  refine ⟨hsat, fun c hc => ?_, fun v hv k hk e => ?_⟩
  · have hc' : c < t.CLAUSELIST.length := by rw [hlen]; exact hc
    cases h1 : (s.clause c).SAT with
    | false =>
      have h2 : (t.clause c).SAT = false := by rw [hsat, h1]
      obtain ⟨a1, a2, -⟩ := hs.clauses.unsat c hc h1
      obtain ⟨b1, b2, -⟩ := ht.clauses.unsat c hc' h2
      refine ⟨by rw [a2, b2], ?_⟩
      rw [a1, b1]
      unfold freeAtoms
      rw [hatoms]
      congr 2
      apply List.filter_congr
      intro a _
      rw [hassign]
    | true =>
      have h2 : (t.clause c).SAT = true := by rw [hsat, h1]
      obtain ⟨a1, ⟨a, ha, ah, al⟩, a3⟩ := hs.clauses.sat c hc h1
      obtain ⟨b1, ⟨b, hb, bh, bl⟩, b3⟩ := ht.clauses.sat c hc' h2
      refine ⟨?_, by rw [a1, b1]⟩
      have e1 : (t.clause c).LEVEL ≤ t.level a.VAR a.VAL :=
        b3 a (by rw [hatoms]; exact ha) (by rw [holds_congr hassign]; exact ah)
      rw [hlevel _ _ (assign_ne_of_holds ah), al] at e1
      rw [hatoms] at hb
      have bh' : s.holds b = true := by rw [← holds_congr hassign]; exact bh
      have e2 := a3 b hb bh'
      rw [← hlevel _ _ (assign_ne_of_holds bh'), bl] at e2
      omega
  · have hv' : v < t.VARLIST.length := by rw [shape_length hsh]; exact hv
    have hk' : k < (t.var v).DOMAINSIZE := by rw [shape_dom hsh]; exact hk
    rw [hs.counts v hv k hk e, ht.counts v hv' k hk' e, hassign,
      unsatRecs_congr hsat (fun v e k => shape_records hsh v e k)]

theorem roundTrip_of_grow {S u : Formula} (hS : Consistent S) (hu : Consistent u)
    (hg : Grow (S.withLevel (S.LEVEL + 1)) u) (htrail : TrailAssigned S) (hheads : HeadsClosed S) :
    (∀ v k, (undoTheory u S.LEVEL).assign v k = S.assign v k) ∧
    (∀ v k, ((undoTheory u S.LEVEL).level v k = S.level v k ∧
        (undoTheory u S.LEVEL).reason v k = S.reason v k) ∨
      (S.assign v k = 0 ∧ (undoTheory u S.LEVEL).level v k = -10 ∧
        (undoTheory u S.LEVEL).reason v k = -10)) ∧
    (∀ v, (undoTheory u S.LEVEL).head v = S.head v) ∧
    (undoTheory u S.LEVEL).DECSTACK = S.DECSTACK ∧
    (∀ c, ((undoTheory u S.LEVEL).clause c).SAT = (S.clause c).SAT) ∧
    (∀ c < S.CLAUSELIST.length,
      ((undoTheory u S.LEVEL).clause c).LEVEL = (S.clause c).LEVEL ∧
      ((undoTheory u S.LEVEL).clause c).NumUnAss = (S.clause c).NumUnAss) ∧
    (∀ v < S.VARLIST.length, ∀ k < (S.var v).DOMAINSIZE, ∀ e,
      (undoTheory u S.LEVEL).cnt v e k = S.cnt v e k) := by
  have hL := hS.level
  have hshu : Shape S u := ⟨hg.shape.vars, hg.shape.atoms, hg.shape.clist⟩
  have hshT : Shape S (undoTheory u S.LEVEL) := shape_trans hshu (shape_undoTheory u S.LEVEL)
  have huL : u.LEVEL = S.LEVEL + 1 := hg.level
  have hcells : ∀ v k, ((undoTheory u S.LEVEL).cell v k = S.cell v k) ∨
      (S.assign v k = 0 ∧ (undoTheory u S.LEVEL).cell v k = (0, -10, -10)) := by
    intro v k
    have hc := cell_undoTheory u S.LEVEL hu.struct.sized.1 v k
    rcases hg.cells v k with h | ⟨a1, a2, a3⟩
    · have h' : u.cell v k = S.cell v k := h
      have hlev : u.level v k = S.level v k := congrArg (fun c => c.2.1) h'
      have hle : 1 ≤ v ∧ v < u.VARLIST.length ∧ k < (u.var v).DOMAINSIZE → S.level v k ≤ S.LEVEL := by
        intro hr
        by_cases h0 : S.assign v k = 0
        · have := hS.cells.free v (by rw [← shape_length hshu]; exact hr.2.1) k
            (by rw [← shape_dom hshu]; exact hr.2.2) h0
          omega
        · exact (hS.cells.bound v k h0).2
      rw [if_neg (fun hr => by have := hle ⟨hr.1, hr.2.1, hr.2.2.1⟩; omega)] at hc
      exact Or.inl (hc.trans h')
    · have a1' : S.assign v k = 0 := a1
      have a3' : u.level v k = S.LEVEL + 1 := a3
      have hr : 1 ≤ v ∧ v < u.VARLIST.length ∧ k < (u.var v).DOMAINSIZE := by
        by_contra hn
        exact a2 (assign_out_of_range hu.struct.sized hn)
      rw [if_pos ⟨hr.1, hr.2.1, hr.2.2, by omega⟩] at hc
      exact Or.inr ⟨a1', hc⟩
  have hassign : ∀ v k, (undoTheory u S.LEVEL).assign v k = S.assign v k := by
    intro v k
    rcases hcells v k with h | ⟨h0, h⟩
    · exact assign_of_cell h
    · rw [assign_of_cell_val h, h0]
  have hlevel : ∀ v k, S.assign v k ≠ 0 → (undoTheory u S.LEVEL).level v k = S.level v k := by
    intro v k hne
    rcases hcells v k with h | ⟨h0, -⟩
    · exact congrArg (fun c => c.2.1) h
    · exact absurd h0 hne
  have hT := consistent_undoTheory u hu S.LEVEL (by omega)
  obtain ⟨c1, c2, c3⟩ := clauses_determined hS hT hshT hassign hlevel
  refine ⟨hassign, fun v k => ?_, fun v => ?_, ?_, c1, c2, c3⟩
  · rcases hcells v k with h | ⟨h0, h⟩
    · exact Or.inl ⟨congrArg (fun c => c.2.1) h, congrArg (fun c => c.2.2) h⟩
    · exact Or.inr ⟨h0, congrArg (fun c => c.2.1) h, congrArg (fun c => c.2.2) h⟩
  · have hh := head_undoTheory u S.LEVEL v
    rcases hg.heads v with h | ⟨a1, ⟨k, a2, a3⟩, a4⟩
    · have h' : u.head v = S.head v := h
      have hlev : (u.var v).LEVEL = (S.var v).LEVEL := congrArg (fun c => c.2.2) h'
      have hle : v < S.VARLIST.length → (S.var v).LEVEL ≤ S.LEVEL := by
        intro hv
        rcases hheads v hv with e | ⟨e, -⟩
        · have : (S.var v).LEVEL = -1 := congrArg (fun c => c.2.2) e
          omega
        · exact e
      rw [if_neg (fun hr => by
        have := hle (by rw [← shape_length hshu]; exact hr.2.1)
        omega)] at hh
      exact hh.trans h'
    · have a1' : v < S.VARLIST.length := a1
      have a2' : k < (S.var v).DOMAINSIZE := a2
      have a3' : S.assign v k = 0 := a3
      have a4' : (u.var v).LEVEL = S.LEVEL + 1 := a4
      have hv1 : 1 ≤ v := by
        by_contra hn
        have : v = 0 := by omega
        rw [this, hS.struct.sized.2] at a2'
        omega
      rw [if_pos ⟨hv1, by rw [shape_length hshu]; exact a1', by omega⟩] at hh
      rcases hheads v a1' with e | ⟨-, e⟩
      · rw [hh, e]
      · exact absurd a3' (e k a2')
  · rw [undoTheory_stack_filter]
    obtain ⟨new, e1, p1⟩ := hg.stack
    have e1' : u.DECSTACK = S.DECSTACK ++ new := e1
    rw [e1', List.filter_append]
    have h1 : S.DECSTACK.filter (fun a => !((undoTheory u S.LEVEL).assign a.VAR a.VAL == 0)) =
        S.DECSTACK := by
      rw [List.filter_eq_self]
      intro a ha
      rw [hassign]
      simpa using (htrail a ha).2.2.2
    have h2 : new.filter (fun a => !((undoTheory u S.LEVEL).assign a.VAR a.VAL == 0)) = [] := by
      rw [List.filter_eq_nil_iff]
      intro a ha
      rw [hassign]
      have : S.assign a.VAR a.VAL = 0 := (p1 a ha).1
      simp [this]
    rw [h1, h2, List.append_nil]

/-! ## The driver invariant: what `reduceTheory` does to the values -/

theorem lit_reduceLiteral (s : Formula) (hwf : s.WF) (v : Nat) (e : Bool) (k : Nat)
    (hv : v < s.VARLIST.length) (hk : k < (s.var v).DOMAINSIZE) :
    Lit s (reduceLiteral s v e k) v e k := by
  obtain ⟨hsh, hlev, hunit, hstack, hconf, hheads⟩ := reduceLiteral_basic s v e k
  have hh : ∀ v', (reduceLiteral s v e k).head v' =
      if e = true ∧ v' = v then ((k : Int), true, s.LEVEL) else s.head v' := by
    intro v'
    rw [hheads v']
    by_cases hc : e = true ∧ v' = v
    · rw [if_pos ⟨hc.1, hc.2, hv⟩, if_pos hc]
    · rw [if_neg (fun h => hc ⟨h.1, h.2.1⟩), if_neg hc]
  cases e with
  | false =>
    have hc := cell_reduceLiteral_false s v k hwf hv hk
    refine ⟨hsh, hlev, hunit, hconf, ?_, fun v' k' hne => ?_, hstack, hh, fun h => ?_⟩
    · rw [hc v k, if_pos ⟨rfl, rfl⟩]; rfl
    · rw [hc v' k', if_neg hne]; exact Or.inl rfl
    · exact Bool.noConfusion h
  | true =>
    obtain ⟨c1, c2, c3⟩ := cell_reduceLiteral_true s v k hwf hv hk
    refine ⟨hsh, hlev, hunit, hconf, c1, fun v' k' hne => ?_, hstack, hh, fun _ hcf => c3 hcf⟩
    rcases c2 v' k' hne with h | ⟨h1, h2, h3, h4⟩
    · exact Or.inl h
    · exact Or.inr ⟨h1, rfl, h2, by rw [h1]; exact h3, h4⟩

theorem lit_keep {s t : Formula} {v : Nat} {e : Bool} {k : Nat} (h : Lit s t v e k)
    (hfree : s.assign v k = 0) (v' k' : Nat) (hne : s.assign v' k' ≠ 0) :
    t.cell v' k' = s.cell v' k' := by
  have hvk : ¬ (v' = v ∧ k' = k) := by
    rintro ⟨rfl, rfl⟩
    exact hne hfree
  rcases h.others v' k' hvk with h1 | ⟨-, -, -, h1, -⟩
  · exact h1
  · exact absurd h1 hne

theorem lit_new {s t : Formula} {v : Nat} {e : Bool} {k : Nat} (h : Lit s t v e k)
    (v' k' : Nat) (h0 : s.assign v' k' = 0) (hne : t.assign v' k' ≠ 0) :
    v' = v ∧ t.level v' k' = s.LEVEL ∧ t.reason v' k' = s.UNITCLAUSE ∧
    ((k' = k ∧ t.assign v' k' = if e then 1 else -1) ∨
      (k' ≠ k ∧ e = true ∧ t.assign v' k' = -1)) := by
  by_cases hvk : v' = v ∧ k' = k
  · obtain ⟨rfl, rfl⟩ := hvk
    have := h.own
    exact ⟨rfl, congrArg (fun c => c.2.1) this, congrArg (fun c => c.2.2) this,
      Or.inl ⟨rfl, congrArg (fun c => c.1) this⟩⟩
  · rcases h.others v' k' hvk with h1 | ⟨a1, a2, -, -, a5⟩
    · rw [assign_of_cell h1] at hne
      exact absurd h0 hne
    · have hk' : k' ≠ k := fun hk' => hvk ⟨a1, hk'⟩
      exact ⟨a1, congrArg (fun c => c.2.1) a5, congrArg (fun c => c.2.2) a5,
        Or.inr ⟨hk', a2, congrArg (fun c => c.1) a5⟩⟩

theorem holds_of_cell {s t : Formula} {a : Literal} (h : t.cell a.VAR a.VAL = s.cell a.VAR a.VAL) :
    t.holds a = s.holds a := by
  unfold Formula.holds
  rw [assign_of_cell h]

theorem contradicts_of_cell {s t : Formula} {a : Literal}
    (h : t.cell a.VAR a.VAL = s.cell a.VAR a.VAL) : t.contradicts a = s.contradicts a := by
  unfold Formula.contradicts
  rw [assign_of_cell h]

theorem level_of_cell {s t : Formula} {v k v' k' : Nat} (h : t.cell v k = s.cell v' k') :
    t.level v k = s.level v' k' := congrArg (fun c => c.2.1) h

theorem level_of_cell_val {t : Formula} {v k : Nat} {a b c : Int} (h : t.cell v k = (a, b, c)) :
    t.level v k = b := congrArg (fun c => c.2.1) h

theorem reason_of_cell_val {t : Formula} {v k : Nat} {a b c : Int} (h : t.cell v k = (a, b, c)) :
    t.reason v k = c := congrArg (fun c => c.2.2) h

theorem reason_of_cell {s t : Formula} {v k v' k' : Nat} (h : t.cell v k = s.cell v' k') :
    t.reason v k = s.reason v' k' := congrArg (fun c => c.2.2) h

theorem assign_ne_of_contradicts {s : Formula} {a : Literal} (h : s.contradicts a = true) :
    s.assign a.VAR a.VAL ≠ 0 := by
  unfold Formula.contradicts at h
  intro h0
  rw [h0] at h
  cases a.EQUAL <;> simp at h

theorem madeBy_keep {s t : Formula} {v k : Nat} {u : Literal}
    (hkeep : ∀ v' k', s.assign v' k' ≠ 0 → t.cell v' k' = s.cell v' k')
    (hne : s.assign v k ≠ 0) (h : s.madeBy v k u) : t.madeBy v k u := by
  obtain ⟨h1, h2⟩ := h
  refine ⟨h1, ?_⟩
  rcases h2 with ⟨a1, a2⟩ | ⟨a1, a2, a3⟩
  · left
    refine ⟨a1, ?_⟩
    rw [holds_of_cell (hkeep _ _ (assign_ne_of_holds a2))]
    exact a2
  · right
    refine ⟨a1, a2, ?_⟩
    rw [assign_of_cell (hkeep v k hne)]
    exact a3

theorem trail_lit {s t : Formula} {v : Nat} {e : Bool} {k : Nat} (h : Lit s t v e k)
    (hv : v < s.VARLIST.length) (hk : k < (s.var v).DOMAINSIZE) (hfree : s.assign v k = 0)
    (hT : Trail s) : Trail t := by
  have hkeep := lit_keep h hfree
  have hlen := shape_length h.shape
  have hdom := shape_dom h.shape
  have hown : t.holds ⟨v, k, e⟩ = true := by
    unfold Formula.holds
    rw [assign_of_cell_val h.own]
    cases e <;> simp
  refine ⟨fun d hd => ?_, fun v' hv' k' hk' hne => ?_⟩
  · rw [h.stack, List.mem_append, List.mem_singleton] at hd
    rcases hd with hd | hd
    · obtain ⟨⟨r1, r2⟩, hh⟩ := hT.holds d hd
      refine ⟨⟨by rw [hlen]; exact r1, by rw [hdom]; exact r2⟩, ?_⟩
      rw [holds_of_cell (hkeep _ _ (assign_ne_of_holds hh))]
      exact hh
    · subst hd
      exact ⟨⟨by rw [hlen]; exact hv, by rw [hdom]; exact hk⟩, hown⟩
  · rw [hlen] at hv'
    rw [hdom] at hk'
    by_cases h0 : s.assign v' k' = 0
    · obtain ⟨n1, n2, -, n4⟩ := lit_new h v' k' h0 hne
      subst n1
      refine ⟨⟨v', k, e⟩, by rw [h.stack]; simp, ⟨rfl, ?_⟩, ?_⟩
      · rcases n4 with ⟨rfl, -⟩ | ⟨a1, a2, a3⟩
        · exact Or.inl ⟨rfl, hown⟩
        · exact Or.inr ⟨fun h' => a1 h'.symm, a2, a3⟩
      · show t.level v' k = t.level v' k'
        rw [n2, level_of_cell_val h.own]
    · obtain ⟨d, hd, hm, hl⟩ := hT.setter v' hv' k' hk' h0
      have hdh := (hT.holds d hd).2
      refine ⟨d, by rw [h.stack]; exact List.mem_append_left _ hd, madeBy_keep hkeep h0 hm, ?_⟩
      rw [level_of_cell (hkeep _ _ (assign_ne_of_holds hdh)), level_of_cell (hkeep _ _ h0)]
      exact hl

theorem reasons_lit {s t : Formula} {v : Nat} {e : Bool} {k : Nat} (h : Lit s t v e k)
    (hfree : s.assign v k = 0) (hci : CellInv s) (hR : Reasons s) (hok : s.reasonOK v e k) :
    Reasons t := by
  have hkeep := lit_keep h hfree
  have hlen := shape_length h.shape
  have hdom := shape_dom h.shape
  have hatoms := shape_atoms h.shape
  have hown : t.holds ⟨v, k, e⟩ = true := by
    unfold Formula.holds
    rw [assign_of_cell_val h.own]
    cases e <;> simp
  refine ⟨fun v' hv' k' hk' hne hr => ?_, fun v' hv' k' hk' h1 hr i hi hik => ?_⟩
  · rw [hlen] at hv'
    rw [hdom] at hk'
    by_cases h0 : s.assign v' k' = 0
    · obtain ⟨n1, n2, n3, n4⟩ := lit_new h v' k' h0 hne
      subst n1
      rw [n3] at hr ⊢
      obtain ⟨o1, o2⟩ := hok.1 hr
      refine ⟨by rw [h.shape.clist]; exact o1, ⟨v', k, e⟩, ⟨rfl, ?_⟩, fun b hb => ?_⟩
      · rcases n4 with ⟨rfl, -⟩ | ⟨a1, a2, a3⟩
        · exact Or.inl ⟨rfl, hown⟩
        · exact Or.inr ⟨fun h' => a1 h'.symm, a2, a3⟩
      · rw [hatoms] at hb
        rcases o2 b hb with hbu | hbc
        · exact Or.inl hbu
        · have hbn := assign_ne_of_contradicts hbc
          refine Or.inr ⟨by rw [contradicts_of_cell (hkeep _ _ hbn)]; exact hbc, ?_⟩
          rw [level_of_cell (hkeep _ _ hbn), n2]
          exact (hci.bound _ _ hbn).2
    · have hc := hkeep v' k' h0
      rw [reason_of_cell hc] at hr ⊢
      obtain ⟨o1, u, o2, o3⟩ := hR.unit v' hv' k' hk' h0 hr
      refine ⟨by rw [h.shape.clist]; exact o1, u, madeBy_keep hkeep h0 o2, fun b hb => ?_⟩
      rw [hatoms] at hb
      rcases o3 b hb with hbu | ⟨hbc, hbl⟩
      · exact Or.inl hbu
      · have hbn := assign_ne_of_contradicts hbc
        refine Or.inr ⟨by rw [contradicts_of_cell (hkeep _ _ hbn)]; exact hbc, ?_⟩
        rw [level_of_cell (hkeep _ _ hbn), level_of_cell hc]
        exact hbl
  · rw [hlen] at hv'
    rw [hdom] at hk' hi
    by_cases h0 : s.assign v' k' = 0
    · obtain ⟨n1, n2, n3, n4⟩ := lit_new h v' k' h0 (by rw [h1]; decide)
      subst n1
      rcases n4 with ⟨rfl, a2⟩ | ⟨-, -, a3⟩
      · have he : e = true := by
          rw [h1] at a2
          cases e with
          | true => rfl
          | false => exact absurd a2 (by decide)
        rw [n3] at hr
        have hs1 := hok.2 hr he i hi hik
        have hin : s.assign v' i ≠ 0 := by rw [hs1]; decide
        rw [assign_of_cell (hkeep _ _ hin), level_of_cell (hkeep _ _ hin), n2]
        exact ⟨hs1, (hci.bound _ _ hin).2⟩
      · rw [h1] at a3
        exact absurd a3 (by decide)
    · have hc := hkeep v' k' h0
      rw [assign_of_cell hc] at h1
      rw [reason_of_cell hc] at hr
      obtain ⟨o1, o2⟩ := hR.entailed v' hv' k' hk' h1 hr i hi hik
      have hin : s.assign v' i ≠ 0 := by rw [o1]; decide
      rw [assign_of_cell (hkeep _ _ hin), level_of_cell (hkeep _ _ hin), level_of_cell hc]
      exact ⟨o1, o2⟩

theorem heads_lit {s t : Formula} {v : Nat} {e : Bool} {k : Nat} (h : Lit s t v e k)
    (hv : v < s.VARLIST.length) (hk : k < (s.var v).DOMAINSIZE) (hfree : s.assign v k = 0)
    (hci : CellInv s) (hH : Heads s)
    (hna : e = true → ∀ i < (s.var v).DOMAINSIZE, s.assign v i ≠ 1) : Heads t := by
  have hkeep := lit_keep h hfree
  have hlen := shape_length h.shape
  have hdom := shape_dom h.shape
  refine ⟨fun v' hv' k' hk' h1 => ?_, fun v' hv1 hv' hsat => ?_, fun v' hv' hsat => ?_,
    fun v' hv' k' hk' h1 hor i hi hik => ?_⟩
  · rw [hlen] at hv'
    rw [hdom] at hk'
    by_cases h0 : s.assign v' k' = 0
    · obtain ⟨n1, n2, -, n4⟩ := lit_new h v' k' h0 (by rw [h1]; decide)
      subst n1
      rcases n4 with ⟨rfl, a2⟩ | ⟨-, -, a3⟩
      · have he : e = true := by
          rw [h1] at a2
          cases e with
          | true => rfl
          | false => exact absurd a2 (by decide)
        rw [h.heads, if_pos ⟨he, rfl⟩, n2]
      · rw [h1] at a3
        exact absurd a3 (by decide)
    · have hc := hkeep v' k' h0
      have hs1 : s.assign v' k' = 1 := by rw [← assign_of_cell hc]; exact h1
      have hnot : ¬ (e = true ∧ v' = v) := by
        rintro ⟨he, rfl⟩
        exact hna he k' hk' hs1
      rw [h.heads, if_neg hnot, hH.assigned v' hv' k' hk' hs1, level_of_cell hc]
  · rw [hlen] at hv'
    have hhd := h.heads v'
    by_cases hc : e = true ∧ v' = v
    · obtain ⟨he, rfl⟩ := hc
      refine ⟨k, by rw [hdom]; exact hk, ?_⟩
      rw [assign_of_cell_val h.own, he]
      rfl
    · rw [if_neg hc] at hhd
      have hs : (s.var v').SAT = true := by
        have := congrArg (fun c => c.2.1) hhd
        simp only [Formula.head] at this
        rw [← this]; exact hsat
      obtain ⟨k', hk', h1⟩ := hH.sat v' hv1 hv' hs
      refine ⟨k', by rw [hdom]; exact hk', ?_⟩
      rw [assign_of_cell (hkeep _ _ (by rw [h1]; decide))]
      exact h1
  · rw [hlen] at hv'
    have hhd := h.heads v'
    by_cases hc : e = true ∧ v' = v
    · rw [if_pos hc] at hhd
      have := congrArg (fun c => c.2.1) hhd
      simp only [Formula.head] at this
      rw [hsat] at this
      exact Bool.noConfusion this
    · rw [if_neg hc] at hhd
      have hs : (s.var v').SAT = false := by
        have := congrArg (fun c => c.2.1) hhd
        simp only [Formula.head] at this
        rw [← this]; exact hsat
      rw [hhd]
      exact hH.unsat v' hv' hs
  · rw [hlen] at hv'
    rw [hdom] at hk' hi
    by_cases h0 : s.assign v' k' = 0
    · obtain ⟨n1, n2, n3, n4⟩ := lit_new h v' k' h0 (by rw [h1]; decide)
      subst n1
      rcases n4 with ⟨rfl, a2⟩ | ⟨-, -, a3⟩
      · have he : e = true := by
          rw [h1] at a2
          cases e with
          | true => rfl
          | false => exact absurd a2 (by decide)
        have hcf : t.CONFLICT = false := by
          rcases hor with hl | hcf
          · rw [n2, h.level] at hl
            omega
          · exact hcf
        by_cases hi0 : s.assign v' i = 0
        · have hc := h.complete he hcf i hi hik hi0
          rw [assign_of_cell_val hc, level_of_cell_val hc, n2]
          exact ⟨rfl, le_refl _⟩
        · have hc := hkeep v' i hi0
          rw [assign_of_cell hc, level_of_cell hc, n2]
          refine ⟨?_, (hci.bound _ _ hi0).2⟩
          rcases hci.tern v' hv' i hi with t0 | t1 | t2
          · exact absurd t0 hi0
          · exact t1
          · exact absurd t2 (hna he i hi)
      · rw [h1] at a3
        exact absurd a3 (by decide)
    · have hc := hkeep v' k' h0
      have hs1 : s.assign v' k' = 1 := by rw [← assign_of_cell hc]; exact h1
      have hor' : s.level v' k' < s.LEVEL ∨ s.CONFLICT = false := by
        rcases hor with hl | hcf
        · left
          rw [level_of_cell hc, h.level] at hl
          exact hl
        · right
          cases hsc : s.CONFLICT with
          | false => rfl
          | true =>
            rw [h.conflict hsc] at hcf
            exact Bool.noConfusion hcf
      obtain ⟨o1, o2⟩ := hH.complete v' hv' k' hk' hs1 hor' i hi hik
      have hin : s.assign v' i ≠ 0 := by rw [o1]; decide
      rw [assign_of_cell (hkeep _ _ hin), level_of_cell (hkeep _ _ hin), level_of_cell hc]
      exact ⟨o1, o2⟩

/-! ## The driver invariant: unit closure along propagation -/

theorem closed_grow {s t : Formula} (h : Grow s t) (hU : UnitClosed s) : UnitClosed t := by
  have hatoms := shape_atoms h.shape
  have hkeep : ∀ v k, s.assign v k ≠ 0 → t.cell v k = s.cell v k := by
    intro v k hne
    rcases h.cells v k with h1 | ⟨h1, -, -⟩
    · exact h1
    · exact absurd h1 hne
  intro c hc l hl1 hl2 hhold
  rw [h.shape.clist] at hc
  rw [h.level] at hl2
  rw [hatoms] at hhold ⊢
  have h2 := hU c hc l hl1 hl2 (fun a ha hh => by
    have hc' := hkeep _ _ (assign_ne_of_holds hh)
    have := hhold a ha (by rw [holds_of_cell hc']; exact hh)
    rw [level_of_cell hc'] at this
    exact this)
  have heq : (s.clause c).ATOM_LIST.filter
      (fun a => t.free a || decide (l ≤ t.level a.VAR a.VAL)) =
      (s.clause c).ATOM_LIST.filter
      (fun a => s.free a || decide (l ≤ s.level a.VAR a.VAL)) := by
    apply List.filter_congr
    intro a _
    rcases h.cells a.VAR a.VAL with h1 | ⟨a1, a2, a3⟩
    · unfold Formula.free
      rw [assign_of_cell h1, level_of_cell h1]
    · unfold Formula.free
      have hb : (t.assign a.VAR a.VAL == 0) = false := by simpa using a2
      have hd : decide (l ≤ t.level a.VAR a.VAL) = true := by
        rw [a3]; simpa using hl2
      simp [a1, hb, hd]
  rw [heq]
  exact h2

/-! ## The driver invariant: the unit list and the conflict flag -/

theorem removeOne_clause (u : Formula) (hna : NoAlias u) (v : Nat) (e : Bool) (k c : Nat)
    (hc : c < u.HEAP.length) (c' : Nat) :
    (removeOne u v e k c).clause c' =
      if c' = c then { u.clause c' with NumUnAss := (u.clause c').NumUnAss - 1 }
      else u.clause c' := by
  obtain ⟨-, e2, e3⟩ := removeOne_same u v e k c
  rw [clause_of_heap e2 e3, clause_bumpCnt, clause_bumpUnAss hna]
  by_cases hcc : c' = c
  · subst hcc
    rw [if_pos ⟨rfl, hc⟩, if_pos rfl]
    rfl
  · rw [if_neg (fun h => hcc h.1.symm), if_neg hcc]

theorem removeOne_flags (u : Formula) (hna : NoAlias u) (v : Nat) (e : Bool) (k c : Nat)
    (hc : c < u.HEAP.length) :
    (removeOne u v e k c).UNITLIST =
      (if (u.clause c).NumUnAss - 1 = 1 then c :: u.UNITLIST else u.UNITLIST) ∧
    (removeOne u v e k c).CONFLICT =
      (if (u.clause c).NumUnAss - 1 = 0 then true else u.CONFLICT) ∧
    (removeOne u v e k c).CONFLICTINGCLAUSE =
      (if (u.clause c).NumUnAss - 1 = 0 then (c : Int) else u.CONFLICTINGCLAUSE) := by
  have h1 : (((u.bumpUnAss c (-1)).bumpCnt v e k (-1)).clause c).NumUnAss =
      (u.clause c).NumUnAss - 1 := by
    rw [clause_bumpCnt, clause_bumpUnAss hna, if_pos ⟨rfl, hc⟩]
    rfl
  unfold removeOne
  simp only
  by_cases hone : (u.clause c).NumUnAss - 1 = 1
  · have hz : ¬ (u.clause c).NumUnAss - 1 = 0 := by omega
    have h2 : ((({ (u.bumpUnAss c (-1)).bumpCnt v e k (-1) with
        UNITLIST := c :: ((u.bumpUnAss c (-1)).bumpCnt v e k (-1)).UNITLIST } : Formula).clause c).NumUnAss)
        = (u.clause c).NumUnAss - 1 := h1
    simp only [h1, hone, beq_self_eq_true, if_true, h2]
    simp only [show ((1 : Int) == 0) = false from rfl, Bool.false_eq_true, if_false,
      show ¬ ((1 : Int) = 0) from by decide]
    exact ⟨rfl, rfl, rfl⟩
  · have hb : (((u.clause c).NumUnAss - 1) == 1) = false := by simpa using hone
    simp only [h1, hb, Bool.false_eq_true, if_false, hone]
    by_cases hz : (u.clause c).NumUnAss - 1 = 0
    · simp only [hz, beq_self_eq_true, if_true]
      exact ⟨rfl, trivial, trivial⟩
    · have hbz : (((u.clause c).NumUnAss - 1) == 0) = false := by simpa using hz
      simp only [hbz, Bool.false_eq_true, if_false, hz]
      exact ⟨rfl, rfl, rfl⟩

theorem satisfyClauses_flags (s : Formula) (v : Nat) (e : Bool) (k : Nat) :
    (satisfyClauses s v e k).UNITLIST = s.UNITLIST ∧
    (satisfyClauses s v e k).CONFLICT = s.CONFLICT ∧
    (satisfyClauses s v e k).CONFLICTINGCLAUSE = s.CONFLICTINGCLAUSE := by
  unfold satisfyClauses
  generalize s.records v e k = l
  induction l generalizing s with
  | nil => exact ⟨rfl, rfl, rfl⟩
  | cons c l ih =>
    rw [List.foldl_cons]
    have hatoms : ∀ (atoms : List Literal) (u : Formula),
        (satisfyAtoms c u atoms).UNITLIST = u.UNITLIST ∧
        (satisfyAtoms c u atoms).CONFLICT = u.CONFLICT ∧
        (satisfyAtoms c u atoms).CONFLICTINGCLAUSE = u.CONFLICTINGCLAUSE := by
      intro atoms
      induction atoms with
      | nil => intro u; exact ⟨rfl, rfl, rfl⟩
      | cons a atoms iha =>
        intro u
        unfold satisfyAtoms
        rw [List.foldl_cons]
        split_ifs
        · exact iha _
        · exact iha _
    split_ifs
    · obtain ⟨h1, h2, h3⟩ := ih
        (satisfyAtoms c (s.setClause c (fun C => { C with SAT := true, LEVEL := s.LEVEL }))
          ((s.setClause c (fun C => { C with SAT := true, LEVEL := s.LEVEL })).clause c).ATOM_LIST)
      obtain ⟨g1, g2, g3⟩ := hatoms
        ((s.setClause c (fun C => { C with SAT := true, LEVEL := s.LEVEL })).clause c).ATOM_LIST
        (s.setClause c (fun C => { C with SAT := true, LEVEL := s.LEVEL }))
      exact ⟨h1.trans g1, h2.trans g2, h3.trans g3⟩
    · exact ih s

/-- The flags after `removeLiteral`, when every clause that is not satisfied counts at
least its occurrences of the literal as unassigned. -/
theorem removeLiteral_flags (s : Formula) (hst : Struct s) (v : Nat) (e : Bool) (k : Nat)
    (hv : v < s.VARLIST.length) (hk : k < (s.var v).DOMAINSIZE)
    (hge : ∀ c, (s.clause c).SAT = false →
      ((s.records v e k).count c : Int) ≤ (s.clause c).NumUnAss) :
    (s.CONFLICT = true → (removeLiteral s v e k).CONFLICT = true) ∧
    ((removeLiteral s v e k).CONFLICT = true →
      (s.CONFLICT = true ∧
        (removeLiteral s v e k).CONFLICTINGCLAUSE = s.CONFLICTINGCLAUSE) ∨
      (∃ c ∈ s.records v e k, (removeLiteral s v e k).CONFLICTINGCLAUSE = (c : Int) ∧
        (s.clause c).SAT = false ∧ ((removeLiteral s v e k).clause c).NumUnAss = 0)) ∧
    ((removeLiteral s v e k).CONFLICT = false → ∀ c ∈ s.records v e k,
      (s.clause c).SAT = false → ((removeLiteral s v e k).clause c).NumUnAss ≠ 0) ∧
    (∃ new, (removeLiteral s v e k).UNITLIST = new ++ s.UNITLIST ∧
      ∀ c ∈ new, c ∈ s.records v e k ∧ (s.clause c).SAT = false ∧
        ((removeLiteral s v e k).clause c).NumUnAss ≤ 1) ∧
    (∀ c ∈ s.records v e k, (s.clause c).SAT = false →
      ((removeLiteral s v e k).clause c).NumUnAss = 1 → c ∈ (removeLiteral s v e k).UNITLIST) := by
  rw [removeLiteral_fold]
  have key := foldl_prefix (fun s c => if !(s.clause c).SAT then removeOne s v e k c else s)
    (fun pre u => Frame s u ∧
      (∀ c, u.clause c =
        if (s.clause c).SAT = false then
          { s.clause c with NumUnAss := (s.clause c).NumUnAss - (pre.count c : Int) }
        else s.clause c) ∧
      (u.CONFLICT = true →
        (s.CONFLICT = true ∧ u.CONFLICTINGCLAUSE = s.CONFLICTINGCLAUSE) ∨
        (∃ c ∈ pre, u.CONFLICTINGCLAUSE = (c : Int) ∧
          (s.clause c).SAT = false ∧ (u.clause c).NumUnAss = 0)) ∧
      (u.CONFLICT = false → ∀ c ∈ pre, (s.clause c).SAT = false → (u.clause c).NumUnAss ≠ 0) ∧
      (∃ new, u.UNITLIST = new ++ s.UNITLIST ∧
        ∀ c ∈ new, c ∈ pre ∧ (s.clause c).SAT = false ∧ (u.clause c).NumUnAss ≤ 1) ∧
      (∀ c ∈ pre, (s.clause c).SAT = false → (u.clause c).NumUnAss = 1 → c ∈ u.UNITLIST))
    (s.records v e k) s
    ⟨frame_refl s, fun c => by simp, fun h => Or.inl ⟨h, rfl⟩, fun _ c hc => by simp at hc,
      ⟨[], rfl, fun c hc => by simp at hc⟩, fun c hc => by simp at hc⟩ ?_
  · exact ⟨key.1.conflict, key.2.2.1, key.2.2.2.1, key.2.2.2.2.1, key.2.2.2.2.2⟩
  · intro pre c post u hl ⟨hfr, hform, i3, i4, i5, i6⟩
    have hmem : c ∈ s.records v e k := by rw [hl]; simp
    have hclt : c < s.CLAUSELIST.length := ((records_mem hst hv hk e c).1 hmem).1
    have hsame : (u.clause c).SAT = (s.clause c).SAT := by
      rw [hform c]; split_ifs <;> rfl
    have hcount : ∀ c', (pre ++ [c]).count c' = pre.count c' + (if c' = c then 1 else 0) := by
      intro c'
      rw [List.count_append]
      by_cases hcc : c' = c
      · subst hcc; simp
      · simp [List.count_cons, Ne.symm hcc, hcc]
    by_cases hsat : (s.clause c).SAT = true
    · have hstep : (if !(u.clause c).SAT then removeOne u v e k c else u) = u := by
        simp [hsame, hsat]
      simp only [hstep]
      have hnc : ∀ c', (s.clause c').SAT = false → c' ≠ c := by
        intro c' h1 h2
        rw [h2, hsat] at h1
        exact Bool.noConfusion h1
      refine ⟨hfr, fun c' => ?_, fun hcf => ?_, fun hcf c' hc' hu => ?_, ?_, fun c' hc' hu => ?_⟩
      · rw [hform c', hcount]
        by_cases hu : (s.clause c').SAT = false
        · rw [if_pos hu, if_pos hu, if_neg (hnc c' hu)]
          simp
        · rw [if_neg hu, if_neg hu]
      · rcases i3 hcf with h | ⟨c', hc', h1, h2, h3⟩
        · exact Or.inl h
        · exact Or.inr ⟨c', List.mem_append_left _ hc', h1, h2, h3⟩
      · rcases List.mem_append.1 hc' with h | h
        · exact i4 hcf c' h hu
        · rw [List.mem_singleton] at h
          exact absurd h (hnc c' hu)
      · obtain ⟨new, e1, p1⟩ := i5
        exact ⟨new, e1, fun c' hc' => ⟨List.mem_append_left _ (p1 c' hc').1, (p1 c' hc').2⟩⟩
      · rcases List.mem_append.1 hc' with h | h
        · exact i6 c' h hu
        · rw [List.mem_singleton] at h
          exact absurd h (hnc c' hu)
    · have hunsat : (s.clause c).SAT = false := by simpa using hsat
      have hstep : (if !(u.clause c).SAT then removeOne u v e k c else u) = removeOne u v e k c := by
        simp [hsame, hunsat]
      simp only [hstep]
      have hshu := shape_of_frame hfr
      have hnau := noalias_of_shape hshu hst.noalias
      have hcu : c < u.HEAP.length := by
        rw [← noalias_length hnau, hfr.clist]; exact hclt
      have hcl := removeOne_clause u hnau v e k c hcu
      obtain ⟨f1, f2, f3⟩ := removeOne_flags u hnau v e k c hcu
      have hun : (u.clause c).NumUnAss = (s.clause c).NumUnAss - (pre.count c : Int) := by
        rw [hform c, if_pos hunsat]
      have hpos : 1 ≤ (u.clause c).NumUnAss := by
        have := hge c hunsat
        rw [hl, List.count_append, List.count_cons_self] at this
        push_cast at this
        omega
      have hdec : ∀ c', ((removeOne u v e k c).clause c').NumUnAss ≤ (u.clause c').NumUnAss := by
        intro c'
        rw [hcl c']
        split_ifs
        · show (u.clause c').NumUnAss - 1 ≤ _
          omega
        · exact le_refl _
      have hnew : ((removeOne u v e k c).clause c).NumUnAss = (u.clause c).NumUnAss - 1 := by
        rw [hcl c, if_pos rfl]
      have hother : ∀ c', c' ≠ c → (removeOne u v e k c).clause c' = u.clause c' := by
        intro c' hcc
        rw [hcl c', if_neg hcc]
      refine ⟨frame_trans hfr (frame_removeOne u v e k c), fun c' => ?_, fun hcf => ?_,
        fun hcf c' hc' hu => ?_, ?_, fun c' hc' hu h1 => ?_⟩
      · rw [hcl c', hform c', hcount]
        by_cases hcc : c' = c
        · subst hcc
          rw [if_pos rfl, if_pos hunsat, if_pos hunsat, if_pos rfl]
          simp only [Clause.mk.injEq, true_and, and_true]
          push_cast
          ring
        · rw [if_neg hcc, if_neg hcc]
          simp
      · by_cases hz : (u.clause c).NumUnAss - 1 = 0
        · right
          refine ⟨c, by simp, ?_, hunsat, by rw [hnew]; exact hz⟩
          rw [f3, if_pos hz]
        · rw [f2, if_neg hz] at hcf
          rw [f3, if_neg hz]
          rcases i3 hcf with h | ⟨c', hc', h1, h2, h3⟩
          · exact Or.inl h
          · refine Or.inr ⟨c', List.mem_append_left _ hc', h1, h2, ?_⟩
            by_cases hcc : c' = c
            · subst hcc
              omega
            · rw [hother c' hcc]; exact h3
      · have hz : ¬ (u.clause c).NumUnAss - 1 = 0 := by
          intro hz
          rw [f2, if_pos hz] at hcf
          exact Bool.noConfusion hcf
        rw [f2, if_neg hz] at hcf
        by_cases hcc : c' = c
        · subst hcc
          rw [hnew]; exact hz
        · rw [hother c' hcc]
          rcases List.mem_append.1 hc' with h | h
          · exact i4 hcf c' h hu
          · rw [List.mem_singleton] at h
            exact absurd h hcc
      · obtain ⟨new, e1, p1⟩ := i5
        have hold : ∀ c' ∈ new, c' ∈ pre ++ [c] ∧ (s.clause c').SAT = false ∧
            ((removeOne u v e k c).clause c').NumUnAss ≤ 1 := by
          intro c' hc'
          obtain ⟨q1, q2, q3⟩ := p1 c' hc'
          exact ⟨List.mem_append_left _ q1, q2, le_trans (hdec c') q3⟩
        by_cases hone : (u.clause c).NumUnAss - 1 = 1
        · refine ⟨c :: new, by rw [f1, if_pos hone, e1]; rfl, fun c' hc' => ?_⟩
          rcases List.mem_cons.1 hc' with h | h
          · subst h
            exact ⟨by simp, hunsat, by rw [hnew, hone]⟩
          · exact hold c' h
        · exact ⟨new, by rw [f1, if_neg hone, e1], hold⟩
      · by_cases hcc : c' = c
        · subst hcc
          rw [hnew] at h1
          rw [f1, if_pos h1]
          exact List.mem_cons_self _ _
        · rw [hother c' hcc] at h1
          have hin : c' ∈ u.UNITLIST := by
            rcases List.mem_append.1 hc' with h | h
            · exact i6 c' h hu h1
            · rw [List.mem_singleton] at h
              exact absurd h hcc
          rw [f1]
          split_ifs
          · exact List.mem_cons_of_mem _ hin
          · exact hin

/-! ## The driver invariant: the queue along propagation -/

theorem count_le_freeAtoms (s : Formula) (C : Clause) (v k : Nat) (e : Bool)
    (hfree : s.assign v k = 0) : C.ATOM_LIST.count ⟨v, k, e⟩ ≤ freeAtoms s C := by
  unfold freeAtoms
  rw [List.count, List.countP_eq_length_filter]
  apply List.Sublist.length_le
  apply List.monotone_filter_right
  intro a ha
  have : a = ⟨v, k, e⟩ := by simpa using ha
  rw [this]
  simp [hfree]

theorem setTrue_flags (s : Formula) (v : Nat) (e : Bool) (k : Nat) :
    (setTrue s v e k).UNITLIST = (removeLiteral (satisfyClauses s v e k) v (!e) k).UNITLIST ∧
    (setTrue s v e k).CONFLICT = (removeLiteral (satisfyClauses s v e k) v (!e) k).CONFLICT ∧
    (setTrue s v e k).CONFLICTINGCLAUSE =
      (removeLiteral (satisfyClauses s v e k) v (!e) k).CONFLICTINGCLAUSE ∧
    ∀ c, (setTrue s v e k).clause c = (removeLiteral (satisfyClauses s v e k) v (!e) k).clause c :=
  ⟨rfl, rfl, rfl, fun _ => rfl⟩

theorem queue_setTrue (x : Option Nat) (s : Formula) (hs : Consistent s) (hq : Queue x s)
    (v : Nat) (e : Bool) (k : Nat) (hv : v < s.VARLIST.length) (hk : k < (s.var v).DOMAINSIZE)
    (hfree : s.assign v k = 0) : Queue x (setTrue s v e k) := by
  obtain ⟨g1, g2, g3, g4⟩ := setTrue_flags s v e k
  obtain ⟨q1, q2, q3⟩ := satisfyClauses_flags s v e k
  have hfr1 := frame_satisfyClauses s v e k
  have hst1 := struct_of_shape (shape_of_frame hfr1) hs.struct
  have hv1 : v < (satisfyClauses s v e k).VARLIST.length := by rw [frame_length_eq hfr1]; exact hv
  have hk1 : k < ((satisfyClauses s v e k).var v).DOMAINSIZE := by rw [frame_dom_eq hfr1]; exact hk
  have hrec : (satisfyClauses s v e k).records v (!e) k = s.records v (!e) k :=
    frame_records_eq hfr1 v (!e) k
  obtain ⟨hc1, -⟩ := satisfyClauses_spec s hs.struct hs.clauses hs.counts v e k hv hk
  have hcl := setTrue_clause s hs.struct hs.clauses hs.counts v e k hv hk
  have hlen : (setTrue s v e k).CLAUSELIST.length = s.CLAUSELIST.length := by
    rw [(steady_setTrue s v e k).shape.clist]
  have hnum : ∀ c, c < s.CLAUSELIST.length → (s.clause c).SAT = false →
      ((s.clause c).ATOM_LIST.count ⟨v, k, e⟩ + (s.clause c).ATOM_LIST.count ⟨v, k, !e⟩ : Int)
        ≤ (s.clause c).NumUnAss := by
    intro c hc hu
    rw [(hs.clauses.unsat c hc hu).1]
    have := freeAtoms_setTrue s v e k hs.struct.sized.1 hv hk hfree (s.clause c)
    cases e <;> simp only [Bool.not_true, Bool.not_false] <;> omega
  have hcnt : ∀ c (e' : Bool), c < s.CLAUSELIST.length →
      ((s.records v e' k).count c : Int) = ((s.clause c).ATOM_LIST.count ⟨v, k, e'⟩ : Int) := by
    intro c e' hc
    rw [hs.struct.recs v hv k hk e' c, if_pos hc]
  have hcnt0 : ∀ c (e' : Bool), ¬ c < s.CLAUSELIST.length → (s.records v e' k).count c = 0 := by
    intro c e' hc
    rw [hs.struct.recs v hv k hk e' c, if_neg hc]
  have hge : ∀ c, ((satisfyClauses s v e k).clause c).SAT = false →
      (((satisfyClauses s v e k).records v (!e) k).count c : Int) ≤
        ((satisfyClauses s v e k).clause c).NumUnAss := by
    intro c hu
    rw [hc1 c] at hu ⊢
    by_cases hcond : (s.clause c).SAT = false ∧ c ∈ s.records v e k
    · rw [if_pos hcond] at hu
      exact Bool.noConfusion hu
    · rw [if_neg hcond] at hu ⊢
      rw [hrec]
      by_cases hc : c < s.CLAUSELIST.length
      · have := hnum c hc hu
        rw [hcnt c (!e) hc]
        have h0 : (0 : Int) ≤ ((s.clause c).ATOM_LIST.count ⟨v, k, e⟩ : Int) := Int.natCast_nonneg _
        omega
      · rw [hcnt0 c (!e) hc, clause_out_of_range hs.struct.noalias hc]
        decide
  obtain ⟨f1, f2, f3, f4, f5⟩ := removeLiteral_flags (satisfyClauses s v e k) hst1 v (!e) k hv1 hk1 hge
  rw [hrec] at f2 f3 f4 f5
  rw [q2] at f1 f2
  rw [q3] at f2
  rw [q1] at f4
  rw [← g2] at f1 f2 f3
  rw [← g3] at f2
  rw [← g1] at f4 f5
  simp only [← g4] at f2 f3 f4 f5
  have hun : ∀ c, ((setTrue s v e k).clause c).SAT = false →
      (s.clause c).SAT = false ∧ c ∉ s.records v e k ∧
      ((setTrue s v e k).clause c).NumUnAss =
        (s.clause c).NumUnAss - ((s.records v (!e) k).count c : Int) := by
    intro c hu
    rw [hcl c] at hu ⊢
    by_cases h1 : (s.clause c).SAT = false
    · rw [if_pos h1] at hu ⊢
      by_cases h2 : c ∈ s.records v e k
      · rw [if_pos h2] at hu
        exact Bool.noConfusion hu
      · rw [if_neg h2]
        exact ⟨h1, h2, rfl⟩
    · rw [if_neg h1] at hu
      exact absurd hu h1
  have hun1 : ∀ c, (s.clause c).SAT = false → c ∉ s.records v e k →
      ((satisfyClauses s v e k).clause c).SAT = false := by
    intro c h1 h2
    rw [hc1 c, if_neg (fun h => h2 h.2)]
    exact h1
  have hsc : (setTrue s v e k).CONFLICT = false → s.CONFLICT = false := by
    intro h
    cases hc : s.CONFLICT with
    | false => rfl
    | true =>
      rw [f1 hc] at h
      exact Bool.noConfusion h
  refine ⟨fun hcf c hc hu => ?_, fun hcf => ?_, fun c hc hx hu h1 => ?_, fun c hc hu => ?_⟩
  · obtain ⟨u1, u2, u3⟩ := hun c hu
    by_cases hm : c ∈ s.records v (!e) k
    · exact f3 hcf c hm (hun1 c u1 u2)
    · rw [u3, List.count_eq_zero_of_not_mem hm]
      rw [hlen] at hc
      have := hq.zero (hsc hcf) c hc u1
      simpa using this
  · rcases f2 hcf with ⟨h1, h2⟩ | ⟨c, hm, h1, h2, h3⟩
    · obtain ⟨v1, v2, v3, v4⟩ := hq.conf h1
      have hz : ∀ e', (s.records v e' k).count s.CONFLICTINGCLAUSE.toNat = 0 := by
        intro e'
        have h0 := (hs.clauses.unsat _ v2 v3).1
        rw [v4] at h0
        have hle := count_le_freeAtoms s (s.clause s.CONFLICTINGCLAUSE.toNat) v k e' hfree
        rw [hs.struct.recs v hv k hk e' _, if_pos v2]
        have : freeAtoms s (s.clause s.CONFLICTINGCLAUSE.toNat) = 0 := by
          have := h0.symm
          exact_mod_cast this
        omega
      unfold ConflictValid
      rw [h2, hlen, hcl]
      rw [if_pos v3, if_neg (fun hmem => by
        have := List.count_pos_iff.2 hmem
        rw [hz e] at this
        exact absurd this (by decide))]
      refine ⟨v1, v2, v3, ?_⟩
      show (s.clause s.CONFLICTINGCLAUSE.toNat).NumUnAss - _ = 0
      rw [hz (!e), v4]
      rfl
    · have hclt : c < s.CLAUSELIST.length := ((records_mem hs.struct hv hk (!e) c).1 hm).1
      unfold ConflictValid
      rw [h1, hlen]
      have hsat : ((setTrue s v e k).clause c).SAT = false := by
        rw [g4]
        have := (removeLiteral_spec (satisfyClauses s v e k) hst1 v (!e) k hv1 hk1).1 c
        rw [this, if_pos h2]
        exact h2
      exact ⟨Int.natCast_nonneg _, by simpa using hclt, by simpa using hsat, by simpa using h3⟩
  · obtain ⟨u1, u2, u3⟩ := hun c hu
    obtain ⟨new, e1, -⟩ := f4
    by_cases hm : c ∈ s.records v (!e) k
    · exact f5 c hm (hun1 c u1 u2) h1
    · rw [u3, List.count_eq_zero_of_not_mem hm] at h1
      rw [hlen] at hc
      rw [e1]
      exact List.mem_append_right _ (hq.units c hc hx u1 (by simpa using h1))
  · obtain ⟨u1, u2, u3⟩ := hun c hu
    obtain ⟨new, e1, p1⟩ := f4
    rw [e1] at hc
    rcases List.mem_append.1 hc with h | h
    · exact (p1 c h).2.2
    · have := hq.entries c h u1
      rw [u3]
      have h0 : (0 : Int) ≤ ((s.records v (!e) k).count c : Int) := Int.natCast_nonneg _
      omega

theorem queue_same {x : Option Nat} {s t : Formula} (hq : Queue x s) (h1 : t.HEAP = s.HEAP)
    (h2 : t.CLAUSELIST = s.CLAUSELIST) (h3 : t.UNITLIST = s.UNITLIST)
    (h4 : t.CONFLICT = s.CONFLICT) (h5 : t.CONFLICTINGCLAUSE = s.CONFLICTINGCLAUSE) :
    Queue x t := by
  have hcl : ∀ c, t.clause c = s.clause c := clause_of_heap h1 h2
  refine ⟨fun hcf c hc hu => ?_, fun hcf => ?_, fun c hc hx hu hn => ?_, fun c hc hu => ?_⟩
  · rw [hcl] at hu ⊢
    rw [h2] at hc
    exact hq.zero (by rw [← h4]; exact hcf) c hc hu
  · unfold ConflictValid
    rw [h5, h2, hcl]
    exact hq.conf (by rw [← h4]; exact hcf)
  · rw [hcl] at hu hn
    rw [h2] at hc
    rw [h3]
    exact hq.units c hc hx hu hn
  · rw [hcl] at hu ⊢
    rw [h3] at hc
    exact hq.entries c hc hu

theorem queue_forbidValue (x : Option Nat) (s : Formula) (hs : Consistent s) (hq : Queue x s)
    (v i : Nat) (hv : v < s.VARLIST.length) (hi : i < (s.var v).DOMAINSIZE) :
    Queue x (forbidValue v s i) := by
  by_cases h : s.CONFLICT = false ∧ s.assign v i = 0
  · rw [forbidValue_pos v s i h.1 h.2]
    exact queue_setTrue x s hs hq v false i hv hi h.2
  · rw [forbidValue_neg v s i h]
    exact hq

theorem queue_forbidValues (x : Option Nat) (v : Nat) (js : List Nat) (s : Formula)
    (hs : Consistent s) (hq : Queue x s)
    (hv : v < s.VARLIST.length) (hjs : ∀ j ∈ js, j < (s.var v).DOMAINSIZE) :
    Queue x (js.foldl (forbidValue v) s) := by
  induction js generalizing s with
  | nil => exact hq
  | cons j js ih =>
    simp only [List.foldl_cons]
    have hsd := steady_forbidValue v s j
    have hj := hjs j (List.mem_cons_self _ _)
    apply ih _ (consistent_forbidValue s hs v j hv hj) (queue_forbidValue x s hs hq v j hv hj)
    · rw [shape_length hsd.shape]; exact hv
    · intro i hi
      rw [shape_dom hsd.shape]
      exact hjs i (List.mem_cons_of_mem _ hi)

theorem queue_reduceLiteral (x : Option Nat) (s : Formula) (hs : Consistent s) (hq : Queue x s)
    (v : Nat) (e : Bool) (k : Nat) (hv : v < s.VARLIST.length) (hk : k < (s.var v).DOMAINSIZE)
    (hfree : s.assign v k = 0) : Queue x (reduceLiteral s v e k) := by
  cases e with
  | true =>
    rw [reduceLiteral_true_eq]
    obtain ⟨hsh, -⟩ := assignValue_basic s v k
    have hq1 : Queue x (assignValue s v k) := by
      rw [assignValue_setTrue]
      exact queue_same (queue_setTrue x s hs hq v true k hv hk hfree) rfl rfl rfl rfl rfl
    apply queue_forbidValues x v _ _ (consistent_assignValue s hs v k hv hk hfree) hq1
    · rw [shape_length hsh]; exact hv
    · intro j hj
      rw [shape_dom hsh]
      rw [domainLoop_mem] at hj
      rcases hj with h | h
      · exact h.1
      · omega
  | false =>
    rw [reduceLiteral_false_eq]
    exact queue_same (queue_setTrue x s hs hq v false k hv hk hfree) rfl rfl rfl rfl rfl

theorem queue_reduceTheory (x : Option Nat) (s : Formula) (hs : Consistent s) (hq : Queue x s)
    (v : Nat) (e : Bool) (k : Nat) (hv : v < s.VARLIST.length) (hk : k < (s.var v).DOMAINSIZE)
    (hfree : s.assign v k = 0) : Queue x (reduceTheory s v e k) := by
  rw [reduceTheory_eq]
  have h1 := consistent_reduceLiteral s hs v e k hv hk hfree
  have hq1 := queue_reduceLiteral x s hs hq v e k hv hk hfree
  obtain ⟨hsh, -⟩ := reduceLiteral_basic s v e k
  cases he : checkEntail (reduceLiteral s v e k) v with
  | none => exact hq1
  | some j =>
    obtain ⟨-, e2, e3, -⟩ := checkEntail_spec _ _ _ he
    simp only
    apply queue_reduceLiteral
    · exact consistent_same h1 rfl rfl rfl rfl
    · exact queue_same hq1 rfl rfl rfl rfl rfl
    · show v < (reduceLiteral s v e k).VARLIST.length
      rw [shape_length hsh]; exact hv
    · exact e2
    · exact e3

/-! ## The driver invariant: stack, reasons and variables along propagation -/

/-- The invariants of the stack, the reasons and the variables only read the statuses
and levels of the values, the reasons of the values that are not Free, the assignment
fields of the variables, the stack, the level, the conflict flag and the atoms of the
clauses. -/
theorem cells_congr {s t : Formula} (hlen : t.VARLIST.length = s.VARLIST.length)
    (hdom : ∀ v, (t.var v).DOMAINSIZE = (s.var v).DOMAINSIZE)
    (hclen : s.CLAUSELIST.length ≤ t.CLAUSELIST.length)
    (hatoms : ∀ c < s.CLAUSELIST.length, (t.clause c).ATOM_LIST = (s.clause c).ATOM_LIST)
    (hstack : t.DECSTACK = s.DECSTACK)
    (hprem : ∀ l : Int, (l < t.LEVEL ∨ t.CONFLICT = false) → (l < s.LEVEL ∨ s.CONFLICT = false))
    (hassign : ∀ v k, t.assign v k = s.assign v k) (hlevel : ∀ v k, t.level v k = s.level v k)
    (hreason : ∀ v k, s.assign v k ≠ 0 → t.reason v k = s.reason v k)
    (hhead : ∀ v, t.head v = s.head v)
    (hT : Trail s) (hR : Reasons s) (hH : Heads s) : Trail t ∧ Reasons t ∧ Heads t := by
  have hholds : ∀ a, t.holds a = s.holds a := holds_congr hassign
  have hcontra : ∀ a, t.contradicts a = s.contradicts a := by
    intro a
    unfold Formula.contradicts
    rw [hassign]
  have hmade : ∀ v k u, s.madeBy v k u → t.madeBy v k u := by
    intro v k u h
    unfold Formula.madeBy at h ⊢
    rw [hholds, hassign]
    exact h
  refine ⟨⟨fun d hd => ?_, fun v hv k hk hne => ?_⟩,
    ⟨fun v hv k hk hne hr => ?_, fun v hv k hk h1 hr i hi hik => ?_⟩,
    ⟨fun v hv k hk h1 => ?_, fun v hv1 hv hsat => ?_, fun v hv hsat => ?_,
      fun v hv k hk h1 hor i hi hik => ?_⟩⟩
  · rw [hstack] at hd
    obtain ⟨⟨r1, r2⟩, hh⟩ := hT.holds d hd
    exact ⟨⟨by rw [hlen]; exact r1, by rw [hdom]; exact r2⟩, by rw [hholds]; exact hh⟩
  · rw [hlen] at hv
    rw [hdom] at hk
    rw [hassign] at hne
    obtain ⟨d, hd, hm, hl⟩ := hT.setter v hv k hk hne
    exact ⟨d, by rw [hstack]; exact hd, hmade v k d hm, by rw [hlevel, hlevel]; exact hl⟩
  · rw [hlen] at hv
    rw [hdom] at hk
    rw [hassign] at hne
    rw [hreason v k hne] at hr ⊢
    obtain ⟨o1, u, o2, o3⟩ := hR.unit v hv k hk hne hr
    refine ⟨lt_of_lt_of_le o1 hclen, u, hmade v k u o2, fun b hb => ?_⟩
    rw [hatoms _ o1] at hb
    rcases o3 b hb with hbu | ⟨hbc, hbl⟩
    · exact Or.inl hbu
    · exact Or.inr ⟨by rw [hcontra]; exact hbc, by rw [hlevel, hlevel]; exact hbl⟩
  · rw [hlen] at hv
    rw [hdom] at hk hi
    rw [hassign] at h1
    rw [hreason v k (by rw [h1]; decide)] at hr
    rw [hassign, hlevel, hlevel]
    exact hR.entailed v hv k hk h1 hr i hi hik
  · rw [hlen] at hv
    rw [hdom] at hk
    rw [hassign] at h1
    rw [hhead, hlevel]
    exact hH.assigned v hv k hk h1
  · rw [hlen] at hv
    have hs : (s.var v).SAT = true := by
      have := congrArg (fun c => c.2.1) (hhead v)
      simp only [Formula.head] at this
      rw [← this]; exact hsat
    obtain ⟨k, hk, h1⟩ := hH.sat v hv1 hv hs
    exact ⟨k, by rw [hdom]; exact hk, by rw [hassign]; exact h1⟩
  · rw [hlen] at hv
    have hs : (s.var v).SAT = false := by
      have := congrArg (fun c => c.2.1) (hhead v)
      simp only [Formula.head] at this
      rw [← this]; exact hsat
    rw [hhead]
    exact hH.unsat v hv hs
  · rw [hlen] at hv
    rw [hdom] at hk hi
    rw [hassign] at h1
    rw [hlevel] at hor
    rw [hassign, hlevel, hlevel]
    exact hH.complete v hv k hk h1 (hprem _ hor) i hi hik

theorem cells_same {s t : Formula} (h1 : t.VARLIST = s.VARLIST) (h2 : t.HEAP = s.HEAP)
    (h3 : t.CLAUSELIST = s.CLAUSELIST) (h4 : t.DECSTACK = s.DECSTACK) (h5 : t.LEVEL = s.LEVEL)
    (h6 : t.CONFLICT = s.CONFLICT) (hT : Trail s) (hR : Reasons s) (hH : Heads s) :
    Trail t ∧ Reasons t ∧ Heads t := by
  have hvar : ∀ v, t.var v = s.var v := fun v => by simp [Formula.var, h1]
  apply cells_congr (by rw [h1]) (fun v => by rw [hvar]) (by rw [h3])
    (fun c _ => by rw [clause_of_heap h2 h3]) h4 (fun l h => by rw [← h5, ← h6]; exact h)
    _ _ _ _ hT hR hH
  · intro v k; simp [Formula.assign, hvar]
  · intro v k; simp [Formula.level, hvar]
  · intro v k _; simp [Formula.reason, hvar]
  · intro v; simp [Formula.head, hvar]

theorem cells_reduceLiteral (s : Formula) (hs : Consistent s) (hT : Trail s) (hR : Reasons s)
    (hH : Heads s) (v : Nat) (e : Bool) (k : Nat) (hv : v < s.VARLIST.length)
    (hk : k < (s.var v).DOMAINSIZE) (hfree : s.assign v k = 0) (hok : s.reasonOK v e k)
    (hna : e = true → ∀ i < (s.var v).DOMAINSIZE, s.assign v i ≠ 1) :
    Trail (reduceLiteral s v e k) ∧ Reasons (reduceLiteral s v e k) ∧
      Heads (reduceLiteral s v e k) := by
  have hl := lit_reduceLiteral s hs.struct.sized.1 v e k hv hk
  exact ⟨trail_lit hl hv hk hfree hT, reasons_lit hl hfree hs.cells hR hok,
    heads_lit hl hv hk hfree hs.cells hH hna⟩

theorem cells_reduceTheory (s : Formula) (hs : Consistent s) (hT : Trail s) (hR : Reasons s)
    (hH : Heads s) (v : Nat) (e : Bool) (k : Nat) (hv : v < s.VARLIST.length)
    (hk : k < (s.var v).DOMAINSIZE) (hfree : s.assign v k = 0) (hok : s.reasonOK v e k)
    (hna : e = true → ∀ i < (s.var v).DOMAINSIZE, s.assign v i ≠ 1) :
    Trail (reduceTheory s v e k) ∧ Reasons (reduceTheory s v e k) ∧
      Heads (reduceTheory s v e k) := by
  rw [reduceTheory_eq]
  have h1 := consistent_reduceLiteral s hs v e k hv hk hfree
  obtain ⟨t1, t2, t3⟩ := cells_reduceLiteral s hs hT hR hH v e k hv hk hfree hok hna
  obtain ⟨hsh, -⟩ := reduceLiteral_basic s v e k
  cases he : checkEntail (reduceLiteral s v e k) v with
  | none => exact ⟨t1, t2, t3⟩
  | some j =>
    obtain ⟨e1, e2, e3, e4⟩ := checkEntail_spec _ _ _ he
    simp only
    have hv' : v < (reduceLiteral s v e k).VARLIST.length := by
      rw [shape_length hsh]; exact hv
    have hnone : ∀ i < ((reduceLiteral s v e k).var v).DOMAINSIZE,
        (reduceLiteral s v e k).assign v i ≠ 1 := by
      intro i hi h1'
      have := t3.assigned v hv' i hi h1'
      have hsat : ((reduceLiteral s v e k).var v).SAT = true := congrArg (fun c => c.2.1) this
      rw [e1] at hsat
      exact Bool.noConfusion hsat
    have hc := fun (t : Formula) (a1 : t.VARLIST = (reduceLiteral s v e k).VARLIST)
      (a2 : t.HEAP = (reduceLiteral s v e k).HEAP)
      (a3 : t.CLAUSELIST = (reduceLiteral s v e k).CLAUSELIST)
      (a4 : t.DECSTACK = (reduceLiteral s v e k).DECSTACK)
      (a5 : t.LEVEL = (reduceLiteral s v e k).LEVEL)
      (a6 : t.CONFLICT = (reduceLiteral s v e k).CONFLICT) =>
      cells_same a1 a2 a3 a4 a5 a6 t1 t2 t3
    apply cells_reduceLiteral
    · exact consistent_same h1 rfl rfl rfl rfl
    · exact And.left (hc _ rfl rfl rfl rfl rfl rfl)
    · exact And.left (And.right (hc _ rfl rfl rfl rfl rfl rfl))
    · exact And.right (And.right (hc _ rfl rfl rfl rfl rfl rfl))
    · exact hv'
    · exact e2
    · exact e3
    · refine ⟨fun h0 => ?_, fun _ _ i hi hij => ?_⟩
      · exact absurd (show (0 : Int) ≤ -2 from h0) (by decide)
      rcases h1.cells.tern v hv' i hi with t0 | t1' | t2'
      · exact absurd t0 (e4 i hi hij)
      · exact t1'
      · exact absurd t2' (hnone i hi)
    · intro _ i hi
      exact hnone i hi

/-! ## The driver invariant along unit propagation -/

theorem reduceTheory_holds (s : Formula) (hwf : s.WF) (v : Nat) (e : Bool) (k : Nat)
    (hv : v < s.VARLIST.length) (hk : k < (s.var v).DOMAINSIZE) :
    (reduceTheory s v e k).holds ⟨v, k, e⟩ = true := by
  have h1 := lit_reduceLiteral s hwf v e k hv hk
  have hh1 : (reduceLiteral s v e k).holds ⟨v, k, e⟩ = true := by
    unfold Formula.holds
    simp only
    rw [assign_of_cell_val h1.own]
    cases e <;> simp
  rw [reduceTheory_eq]
  cases he : checkEntail (reduceLiteral s v e k) v with
  | none => exact hh1
  | some j =>
    obtain ⟨-, e2, e3, -⟩ := checkEntail_spec _ _ _ he
    simp only
    have hne : (reduceLiteral s v e k).assign v k ≠ 0 := assign_ne_of_holds hh1
    have hwf1 : (reduceLiteral s v e k).WF := shape_wf h1.shape hwf
    have h2 := lit_reduceLiteral { reduceLiteral s v e k with
        ENTAILLITERAL := some ⟨v, j, true⟩
        ENTAILS := (reduceLiteral s v e k).ENTAILS + 1
        UNITCLAUSE := -2 } hwf1 v true j
      (by rw [shape_length h1.shape]; exact hv) e2
    have hc := lit_keep h2 e3 v k hne
    have := holds_of_cell (a := ⟨v, k, e⟩) hc
    rw [this]
    exact hh1

theorem eq_of_filter_le_one {α : Type} (p : α → Bool) (l : List α)
    (h : (l.filter p).length ≤ 1) (a b : α) (ha : a ∈ l) (hb : b ∈ l)
    (pa : p a = true) (pb : p b = true) : a = b := by
  have ha' : a ∈ l.filter p := List.mem_filter.2 ⟨ha, pa⟩
  have hb' : b ∈ l.filter p := List.mem_filter.2 ⟨hb, pb⟩
  match hl : l.filter p, h with
  | [], _ => rw [hl] at ha'; exact absurd ha' (List.not_mem_nil _)
  | [x], _ =>
    rw [hl] at ha' hb'
    rw [List.mem_singleton.1 ha', List.mem_singleton.1 hb']
  | _ :: _ :: _, h => simp at h

theorem contradicts_of_not {s : Formula} (hter : Ternary s) (a : Literal)
    (hv : a.VAR < s.VARLIST.length) (hk : a.VAL < (s.var a.VAR).DOMAINSIZE)
    (hfree : s.assign a.VAR a.VAL ≠ 0) (hh : s.holds a = false) : s.contradicts a = true := by
  unfold Formula.holds at hh
  unfold Formula.contradicts
  rcases hter a.VAR hv a.VAL hk with h | h | h
  · exact absurd h hfree
  · rw [h] at hh ⊢
    cases he : a.EQUAL <;> simp_all
  · rw [h] at hh ⊢
    cases he : a.EQUAL <;> simp_all

theorem closed_congr {s t : Formula} (hclen : t.CLAUSELIST.length = s.CLAUSELIST.length)
    (hatoms : ∀ c, (t.clause c).ATOM_LIST = (s.clause c).ATOM_LIST) (hlev : t.LEVEL = s.LEVEL)
    (hassign : ∀ v k, t.assign v k = s.assign v k) (hlevel : ∀ v k, t.level v k = s.level v k)
    (hU : UnitClosed s) : UnitClosed t := by
  intro c hc l hl1 hl2 hhold
  rw [hclen] at hc
  rw [hlev] at hl2
  rw [hatoms] at hhold ⊢
  have hf : ∀ a, t.free a = s.free a := by
    intro a; unfold Formula.free; rw [hassign]
  have := hU c hc l hl1 hl2 (fun a ha hh => by
    have := hhold a ha (by rw [holds_congr hassign]; exact hh)
    rw [hlevel] at this
    exact this)
  simp only [hf, hlevel]
  exact this

theorem live_reduceTheory (x : Option Nat) (s : Formula) (hl : Live x s) (v : Nat) (e : Bool)
    (k : Nat) (hv : v < s.VARLIST.length) (hk : k < (s.var v).DOMAINSIZE)
    (hfree : s.assign v k = 0) (hok : s.reasonOK v e k)
    (hna : e = true → ∀ i < (s.var v).DOMAINSIZE, s.assign v i ≠ 1) :
    Live x (reduceTheory s v e k) := by
  obtain ⟨c1, c2, c3⟩ := cells_reduceTheory s hl.cons hl.trail hl.reasons hl.heads v e k hv hk
    hfree hok hna
  exact ⟨consistent_reduceTheory s hl.cons v e k hv hk hfree, c1, c2, c3,
    closed_grow (grow_reduceTheory s hl.cons.struct.sized.1 v e k hv hk hfree).1 hl.closed,
    queue_reduceTheory x s hl.cons hl.queue v e k hv hk hfree⟩

theorem live_unitRound (s : Formula) (hl : Live none s) (hcf : s.CONFLICT = false) (c : Nat)
    (rest : List Nat) (hu : s.UNITLIST = c :: rest) : Live none (unitRound s c rest) := by
  have hs := hl.cons
  have hwf := hs.struct.sized.1
  have hclosed := closed_grow (grow_unitRound s hs c rest) hl.closed
  have hcons := consistent_unitRound s hs c rest
  obtain ⟨s1, hs1⟩ : ∃ s1 : Formula,
      s1 = { s with UNITS := s.UNITS + 1, UNITCLAUSE := (c : Int), UNITLIST := rest } := ⟨_, rfl⟩
  have hcl1 : ∀ c', s1.clause c' = s.clause c' := by
    intro c'; rw [hs1]; exact clause_of_heap rfl rfl c'
  have q1 : ∀ y : Option Nat, (∀ c', some c' ≠ y → c' < s.CLAUSELIST.length →
      (s.clause c').SAT = false → (s.clause c').NumUnAss = 1 → c' ≠ c) → Queue y s1 := by
    intro y hy
    refine ⟨fun h c' hc' hu' => ?_, fun h => ?_, fun c' hc' hx hu' hn => ?_, fun c' hc' hu' => ?_⟩
    · rw [hcl1] at hu' ⊢
      exact hl.queue.zero hcf c' (by rw [hs1] at hc'; exact hc') hu'
    · rw [hs1] at h
      exact absurd (h : s.CONFLICT = true) (by rw [hcf]; decide)
    · rw [hcl1] at hu' hn
      have hc'' : c' < s.CLAUSELIST.length := by rw [hs1] at hc'; exact hc'
      have := hl.queue.units c' hc'' (by simp) hu' hn
      rw [hu] at this
      rcases List.mem_cons.1 this with h1 | h1
      · exact absurd h1 (hy c' hx hc'' hu' hn)
      · rw [hs1]; exact h1
    · rw [hcl1] at hu' ⊢
      have : c' ∈ s.UNITLIST := by
        rw [hu]; rw [hs1] at hc'; exact List.mem_cons_of_mem _ hc'
      exact hl.queue.entries c' this hu'
  have hcells1 := cells_same (s := s) (t := s1) (by rw [hs1]) (by rw [hs1]) (by rw [hs1])
    (by rw [hs1]) (by rw [hs1]) (by rw [hs1]) hl.trail hl.reasons hl.heads
  have hcons1 : Consistent s1 := by
    rw [hs1]; exact consistent_same hs rfl rfl rfl rfl
  have hclosed1 : UnitClosed s1 := by
    rw [hs1]; exact closed_grow (grow_same rfl rfl rfl rfl rfl) hl.closed
  have hfinal : unitRound s c rest =
      if !(s1.clause c).SAT then
        match firstFree s1 (s1.clause c).ATOM_LIST with
        | some a => reduceTheory
            (s1.setVar a.VAR (fun V => { V with CLAUSEID := V.CLAUSEID.set a.VAL (c : Int) }))
            a.VAR a.EQUAL a.VAL
        | none => s1
      else s1 := by
    rw [hs1]; rfl
  rw [hfinal] at hclosed hcons ⊢
  by_cases hsat : (s1.clause c).SAT = true
  · rw [hsat]
    simp only [Bool.not_true, Bool.false_eq_true, if_false]
    refine ⟨hcons1, hcells1.1, hcells1.2.1, hcells1.2.2, hclosed1, q1 none ?_⟩
    intro c' _ _ hu' _ hcc
    rw [hcc, ← hcl1, hsat] at hu'
    exact Bool.noConfusion hu'
  · have hsat' : (s1.clause c).SAT = false := by simpa using hsat
    rw [hsat'] at hclosed hcons ⊢
    simp only [Bool.not_false, if_true] at hclosed hcons ⊢
    have hunsat : (s.clause c).SAT = false := by rw [← hcl1]; exact hsat'
    cases hf : firstFree s1 (s1.clause c).ATOM_LIST with
    | none =>
      simp only
      refine ⟨hcons1, hcells1.1, hcells1.2.1, hcells1.2.2, hclosed1, q1 none ?_⟩
      intro c' _ hc' hu' hn hcc
      subst hcc
      have h1 := (hs.clauses.unsat c' hc' hu').1
      rw [hn] at h1
      have h2 : freeAtoms s (s.clause c') = 1 := by exact_mod_cast h1.symm
      unfold freeAtoms at h2
      unfold firstFree at hf
      rw [List.find?_eq_none] at hf
      have h3 : (s.clause c').ATOM_LIST.filter (fun a => s.assign a.VAR a.VAL == 0) = [] := by
        rw [List.filter_eq_nil_iff]
        intro a ha
        rw [hcl1] at hf
        have := hf a ha
        rw [hs1] at this
        exact this
      rw [h3] at h2
      simp at h2
    | some a =>
      rw [hf] at hclosed hcons
      simp only at hclosed hcons ⊢
      obtain ⟨f, hfdef⟩ : ∃ f : Variable → Variable,
          f = (fun V => { V with CLAUSEID := V.CLAUSEID.set a.VAL (c : Int) }) := ⟨_, rfl⟩
      rw [← hfdef] at hclosed hcons ⊢
      have hmem : a ∈ (s.clause c).ATOM_LIST := by
        rw [← hcl1]; exact List.mem_of_find?_eq_some hf
      have hfree : s.assign a.VAR a.VAL = 0 := by
        have := List.find?_some hf
        rw [hs1] at this
        simpa using this
      have hc : c < s.CLAUSELIST.length := by
        by_contra hc
        rw [clause_out_of_range hs.struct.noalias hc] at hmem
        simp [default] at hmem
      obtain ⟨-, r2, r3⟩ := atoms_in_range hs.struct c a hmem
      have hsh2 : Shape s (s1.setVar a.VAR f) :=
        shape_trans (by rw [hs1]; exact ⟨rfl, rfl, rfl⟩)
          (shape_setVar s1 a.VAR f (fun V => by rw [hfdef]; simp [Variable.shape]))
      have hassign : ∀ v k, (s1.setVar a.VAR f).assign v k = s.assign v k := by
        intro v k
        rw [hs1, hfdef]
        simp only [Formula.assign, var_setVar]
        split_ifs <;> rfl
      have hlevel : ∀ v k, (s1.setVar a.VAR f).level v k = s.level v k := by
        intro v k
        rw [hs1, hfdef]
        simp only [Formula.level, var_setVar]
        split_ifs <;> rfl
      have hreason : ∀ v k, s.assign v k ≠ 0 → (s1.setVar a.VAR f).reason v k = s.reason v k := by
        intro v k hne
        rw [hs1, hfdef]
        simp only [Formula.reason, var_setVar]
        by_cases h1 : a.VAR = v ∧ v < s.VARLIST.length
        · rw [if_pos h1]
          have hk : ¬ a.VAL = k := by
            intro h'
            rw [← h1.1, ← h'] at hne
            exact hne hfree
          simp only [getD_set_eq, hk, false_and, if_false]
          rfl
        · rw [if_neg h1]
          rfl
      have hhead : ∀ v, (s1.setVar a.VAR f).head v = s.head v := by
        intro v
        rw [hs1, hfdef]
        simp only [Formula.head, var_setVar]
        split_ifs <;> rfl
      have hcl2 : ∀ c', (s1.setVar a.VAR f).clause c' = s.clause c' := by
        intro c'
        rw [← hcl1]
        exact clause_of_heap rfl rfl c'
      have hcells2 := cells_congr (s := s) (t := s1.setVar a.VAR f) (shape_length hsh2)
        (shape_dom hsh2) (le_of_eq (congrArg List.length hsh2.clist.symm))
        (fun c' _ => by rw [hcl2]) (by rw [hs1]; rfl) (fun l h => by rw [hs1] at h; exact h)
        hassign hlevel hreason hhead hl.trail hl.reasons hl.heads
      have hcons2 : Consistent (s1.setVar a.VAR f) := by
        rw [hfdef]; exact consistent_setReason hcons1 a.VAR a.VAL (c : Int)
      have hq2 : Queue (some c) (s1.setVar a.VAR f) :=
        queue_same (q1 (some c) (fun c' hx _ _ _ hcc => hx (by rw [hcc]))) rfl rfl rfl rfl rfl
      have hv2 : a.VAR < (s1.setVar a.VAR f).VARLIST.length := by
        rw [shape_length hsh2]; exact r2
      have hk2 : a.VAL < ((s1.setVar a.VAR f).var a.VAR).DOMAINSIZE := by
        rw [shape_dom hsh2]; exact r3
      have hfree2 : (s1.setVar a.VAR f).assign a.VAR a.VAL = 0 := by rw [hassign]; exact hfree
      have hle : freeAtoms s (s.clause c) ≤ 1 := by
        have h1 := (hs.clauses.unsat c hc hunsat).1
        have h2 := hl.queue.entries c (by rw [hu]; exact List.mem_cons_self _ _) hunsat
        rw [h1] at h2
        exact_mod_cast h2
      have hok : (s1.setVar a.VAR f).reasonOK a.VAR a.EQUAL a.VAL := by
        have hunit : (s1.setVar a.VAR f).UNITCLAUSE = (c : Int) := by rw [hs1]; rfl
        refine ⟨fun _ => ?_, fun h2 => ?_⟩
        · rw [hunit, Int.toNat_ofNat, hcl2]
          refine ⟨by rw [hsh2.clist]; exact hc, fun b hb => ?_⟩
          by_cases hbf : s.assign b.VAR b.VAL = 0
          · left
            exact eq_of_filter_le_one _ _ hle b a hb hmem (by simpa using hbf) (by simpa using hfree)
          · right
            obtain ⟨-, b2, b3⟩ := atoms_in_range hs.struct c b hb
            have := contradicts_of_not hs.cells.tern b b2 b3 hbf
              ((hs.clauses.unsat c hc hunsat).2.2 b hb)
            unfold Formula.contradicts at this ⊢
            rw [hassign]
            exact this
        · rw [hunit] at h2
          omega
      have hna : a.EQUAL = true → ∀ i < ((s1.setVar a.VAR f).var a.VAR).DOMAINSIZE,
          (s1.setVar a.VAR f).assign a.VAR i ≠ 1 := by
        intro _ i hi h1
        rw [hassign] at h1
        rw [shape_dom hsh2] at hi
        by_cases hik : a.VAL = i
        · rw [← hik, hfree] at h1
          exact absurd h1 (by decide)
        · have := (hl.heads.complete a.VAR r2 i hi h1 (Or.inr hcf) a.VAL r3 hik).1
          rw [hfree] at this
          exact absurd this (by decide)
      have hlive := live_reduceTheory (some c) (s1.setVar a.VAR f)
        ⟨hcons2, hcells2.1, hcells2.2.1, hcells2.2.2,
          closed_congr (congrArg List.length hsh2.clist) (fun c' => by rw [hcl2])
            (by rw [hs1]; rfl) hassign hlevel hl.closed, hq2⟩
        a.VAR a.EQUAL a.VAL hv2 hk2 hfree2 hok hna
      have hholds := reduceTheory_holds (s1.setVar a.VAR f) hcons2.struct.sized.1
        a.VAR a.EQUAL a.VAL hv2 hk2
      have hsat2 : ((reduceTheory (s1.setVar a.VAR f) a.VAR a.EQUAL a.VAL).clause c).SAT = true := by
        by_contra hns
        have hns' : ((reduceTheory (s1.setVar a.VAR f) a.VAR a.EQUAL a.VAL).clause c).SAT = false := by
          simpa using hns
        have hsh3 := (grow_reduceTheory (s1.setVar a.VAR f) hcons2.struct.sized.1
          a.VAR a.EQUAL a.VAL hv2 hk2 hfree2).1.shape
        have hc3 : c < (reduceTheory (s1.setVar a.VAR f) a.VAR a.EQUAL a.VAL).CLAUSELIST.length := by
          rw [hsh3.clist, hsh2.clist]; exact hc
        have hmem3 : a ∈ ((reduceTheory (s1.setVar a.VAR f) a.VAR a.EQUAL a.VAL).clause c).ATOM_LIST := by
          rw [shape_atoms hsh3, hcl2]; exact hmem
        have := (hlive.cons.clauses.unsat c hc3 hns').2.2 a hmem3
        rw [hholds] at this
        exact Bool.noConfusion this
      refine ⟨hlive.cons, hlive.trail, hlive.reasons, hlive.heads, hlive.closed,
        hlive.queue.zero, hlive.queue.conf, fun c' hc' _ hu' hn => ?_, hlive.queue.entries⟩
      by_cases hcc : c' = c
      · rw [hcc, hsat2] at hu'
        exact Bool.noConfusion hu'
      · exact hlive.queue.units c' hc' (by simpa using hcc) hu' hn

/-! ## `checkUnit` rebuilds the unit list -/

theorem checkUnit_fold (l : List Nat) (t : Formula) :
    let r := l.foldl (fun s i =>
        if (s.clause i).NumUnAss == 1 && !(s.clause i).SAT then
          { s with UNITLIST := s.UNITLIST ++ [i] }
        else if (s.clause i).NumUnAss == 0 && !(s.clause i).SAT then
          { s with CONFLICT := true }
        else s) t
    (∀ c, r.clause c = t.clause c) ∧ r.CONFLICTINGCLAUSE = t.CONFLICTINGCLAUSE ∧
    (∀ c, c ∈ r.UNITLIST ↔ c ∈ t.UNITLIST ∨
      (c ∈ l ∧ (t.clause c).NumUnAss = 1 ∧ (t.clause c).SAT = false)) ∧
    (r.CONFLICT = true ↔ t.CONFLICT = true ∨
      ∃ c ∈ l, (t.clause c).NumUnAss = 0 ∧ (t.clause c).SAT = false) := by
  induction l generalizing t with
  | nil => simp
  | cons i l ih =>
    simp only [List.foldl_cons]
    by_cases h1 : ((t.clause i).NumUnAss == 1 && !(t.clause i).SAT) = true
    · rw [if_pos h1]
      obtain ⟨a1, a2, a3, a4⟩ := ih { t with UNITLIST := t.UNITLIST ++ [i] }
      have hcl : ∀ c, ({ t with UNITLIST := t.UNITLIST ++ [i] } : Formula).clause c = t.clause c :=
        fun c => clause_of_heap rfl rfl c
      simp only [hcl] at a1 a3 a4
      simp only [Bool.and_eq_true, beq_iff_eq, Bool.not_eq_true'] at h1
      refine ⟨a1, a2, fun c => ?_, ?_⟩
      · rw [a3]
        simp only [List.mem_append, List.mem_singleton, List.mem_cons, List.not_mem_nil, or_false]
        constructor
        · rintro ((h | h) | h)
          · exact Or.inl h
          · exact Or.inr ⟨Or.inl h, by rw [h]; exact h1⟩
          · exact Or.inr ⟨Or.inr h.1, h.2⟩
        · rintro (h | ⟨h | h, h'⟩)
          · exact Or.inl (Or.inl h)
          · exact Or.inl (Or.inr h)
          · exact Or.inr ⟨h, h'⟩
      · rw [a4]
        simp only [List.mem_cons]
        constructor
        · rintro (h | ⟨c, hc, h⟩)
          · exact Or.inl h
          · exact Or.inr ⟨c, Or.inr hc, h⟩
        · rintro (h | ⟨c, hc | hc, h⟩)
          · exact Or.inl h
          · rw [hc, h1.1] at h
            exact absurd h.1 (by decide)
          · exact Or.inr ⟨c, hc, h⟩
    · rw [if_neg h1]
      by_cases h2 : ((t.clause i).NumUnAss == 0 && !(t.clause i).SAT) = true
      · rw [if_pos h2]
        obtain ⟨a1, a2, a3, a4⟩ := ih { t with CONFLICT := true }
        have hcl : ∀ c, ({ t with CONFLICT := true } : Formula).clause c = t.clause c :=
          fun c => clause_of_heap rfl rfl c
        simp only [hcl] at a1 a3 a4
        simp only [Bool.and_eq_true, beq_iff_eq, Bool.not_eq_true'] at h1 h2
        refine ⟨a1, a2, fun c => ?_, ?_⟩
        · rw [a3]
          simp only [List.mem_cons]
          constructor
          · rintro (h | h)
            · exact Or.inl h
            · exact Or.inr ⟨Or.inr h.1, h.2⟩
          · rintro (h | ⟨h | h, h'⟩)
            · exact Or.inl h
            · rw [h] at h'
              exact absurd h' h1
            · exact Or.inr ⟨h, h'⟩
        · rw [a4]
          simp only [List.mem_cons, true_or, true_iff]
          exact Or.inr ⟨i, Or.inl rfl, h2⟩
      · rw [if_neg h2]
        obtain ⟨a1, a2, a3, a4⟩ := ih t
        simp only [Bool.and_eq_true, beq_iff_eq, Bool.not_eq_true'] at h1 h2
        refine ⟨a1, a2, fun c => ?_, ?_⟩
        · rw [a3]
          simp only [List.mem_cons]
          constructor
          · rintro (h | h)
            · exact Or.inl h
            · exact Or.inr ⟨Or.inr h.1, h.2⟩
          · rintro (h | ⟨h | h, h'⟩)
            · exact Or.inl h
            · rw [h] at h'
              exact absurd h' h1
            · exact Or.inr ⟨h, h'⟩
        · rw [a4]
          simp only [List.mem_cons]
          constructor
          · rintro (h | ⟨c, hc, h⟩)
            · exact Or.inl h
            · exact Or.inr ⟨c, Or.inr hc, h⟩
          · rintro (h | ⟨c, hc | hc, h⟩)
            · exact Or.inl h
            · rw [hc] at h
              exact absurd h h2
            · exact Or.inr ⟨c, hc, h⟩

theorem checkUnit_spec (s : Formula) :
    (∀ c, (checkUnit s).clause c = s.clause c) ∧
    (checkUnit s).CONFLICTINGCLAUSE = s.CONFLICTINGCLAUSE ∧
    (∀ c, c ∈ (checkUnit s).UNITLIST ↔
      (c < s.CLAUSELIST.length ∧ (s.clause c).NumUnAss = 1 ∧ (s.clause c).SAT = false)) ∧
    ((checkUnit s).CONFLICT = true ↔ s.CONFLICT = true ∨
      ∃ c < s.CLAUSELIST.length, (s.clause c).NumUnAss = 0 ∧ (s.clause c).SAT = false) := by
  obtain ⟨a1, a2, a3, a4⟩ := checkUnit_fold (List.range s.CLAUSELIST.length) { s with UNITLIST := [] }
  have hcl : ∀ c, ({ s with UNITLIST := [] } : Formula).clause c = s.clause c :=
    fun c => clause_of_heap rfl rfl c
  simp only [hcl, List.mem_range, List.not_mem_nil, false_or] at a1 a3 a4
  exact ⟨a1, a2, a3, a4⟩

theorem queue_checkUnit (s : Formula) (hcf : s.CONFLICT = false)
    (hz : ∀ c < s.CLAUSELIST.length, (s.clause c).SAT = false → (s.clause c).NumUnAss ≠ 0) :
    Queue none (checkUnit s) ∧ (checkUnit s).CONFLICT = false := by
  obtain ⟨a1, a2, a3, a4⟩ := checkUnit_spec s
  obtain ⟨-, -, hcl, -, -⟩ := checkUnit_same s
  have hnc : (checkUnit s).CONFLICT = false := by
    by_contra h
    have h' : (checkUnit s).CONFLICT = true := by simpa using h
    rcases a4.1 h' with h1 | ⟨c, hc, h1, h2⟩
    · rw [hcf] at h1; exact Bool.noConfusion h1
    · exact hz c hc h2 h1
  refine ⟨⟨fun _ c hc hu => ?_, fun h => ?_, fun c hc _ hu hn => ?_, fun c hc hu => ?_⟩, hnc⟩
  · rw [a1] at hu ⊢
    rw [hcl] at hc
    exact hz c hc hu
  · rw [hnc] at h; exact Bool.noConfusion h
  · rw [a1] at hu hn
    rw [hcl] at hc
    exact (a3 c).2 ⟨hc, hn, hu⟩
  · rw [a1]
    rw [((a3 c).1 hc).2.1]

/-! ## The driver invariant along a round without a conflict -/

theorem live_unitPropagation (fuel : Nat) (s t : Formula) (hl : Live none s)
    (h : unitPropagation fuel s = some t) : Settled t := by
  induction fuel generalizing s with
  | zero => simp [unitPropagation] at h
  | succ fuel ih =>
    rw [unitPropagation] at h
    split_ifs at h with hc
    · simp only [Option.some.injEq] at h
      subst h
      obtain ⟨c1, c2, c3⟩ := cells_same (s := s) (t := { s with UNITLIST := [] })
        rfl rfl rfl rfl rfl rfl hl.trail hl.reasons hl.heads
      refine ⟨consistent_same hl.cons rfl rfl rfl rfl, c1, c2, c3,
        closed_grow (grow_same rfl rfl rfl rfl rfl) hl.closed, fun h0 => ?_, fun _ => ?_⟩
      · exact absurd (h0 : s.CONFLICT = false) (by rw [hc]; decide)
      · exact hl.queue.conf hc
    · have hcf : s.CONFLICT = false := by simpa using hc
      cases hu : s.UNITLIST with
      | nil =>
        simp only [hu, Option.some.injEq] at h
        subst h
        exact ⟨hl.cons, hl.trail, hl.reasons, hl.heads, hl.closed, fun _ => ⟨hl.queue, hu⟩,
          hl.queue.conf⟩
      | cons c rest =>
        simp only [hu] at h
        exact ih _ (live_unitRound s hl hcf c rest hu) h

/-- After a decision the new level is closed under unit propagation: without a unit
clause and without a clause that has no unassigned atom, every clause that is not
satisfied has two Free atoms. -/
theorem closed_decide {s t : Formula} (hs : Consistent s) (hU : UnitClosed s)
    (hz : ∀ c < s.CLAUSELIST.length, (s.clause c).SAT = false →
      (s.clause c).NumUnAss ≠ 0 ∧ (s.clause c).NumUnAss ≠ 1)
    (h1 : t.VARLIST = s.VARLIST) (h2 : t.HEAP = s.HEAP) (h3 : t.CLAUSELIST = s.CLAUSELIST)
    (h4 : t.LEVEL = s.LEVEL + 1) : UnitClosed t := by
  have hvar : ∀ v, t.var v = s.var v := fun v => by simp [Formula.var, h1]
  have hassign : ∀ v k, t.assign v k = s.assign v k := fun v k => by simp [Formula.assign, hvar]
  have hlevel : ∀ v k, t.level v k = s.level v k := fun v k => by simp [Formula.level, hvar]
  have hcl : ∀ c, t.clause c = s.clause c := clause_of_heap h2 h3
  have hf : ∀ a, t.free a = s.free a := fun a => by unfold Formula.free; rw [hassign]
  intro c hc l hl1 hl2 hhold
  rw [h3] at hc
  rw [hcl] at hhold ⊢
  simp only [hf, hlevel]
  have hhold' : ∀ a ∈ (s.clause c).ATOM_LIST, s.holds a = true → l ≤ s.level a.VAR a.VAL := by
    intro a ha hh
    have := hhold a ha (by rw [holds_congr hassign]; exact hh)
    rw [hlevel] at this
    exact this
  by_cases hl : l ≤ s.LEVEL
  · exact hU c hc l hl1 hl hhold'
  · have hl' : l = s.LEVEL + 1 := by rw [h4] at hl2; omega
    have hno : ∀ a ∈ (s.clause c).ATOM_LIST, s.holds a = false := by
      intro a ha
      by_contra hh
      have hh' : s.holds a = true := by simpa using hh
      have := hhold' a ha hh'
      have hb := (hs.cells.bound a.VAR a.VAL (assign_ne_of_holds hh')).2
      omega
    have hunsat : (s.clause c).SAT = false := by
      by_contra hsat
      have hsat' : (s.clause c).SAT = true := by simpa using hsat
      obtain ⟨a, ha, hh, -⟩ := (hs.clauses.sat c hc hsat').2.1
      rw [hno a ha] at hh
      exact Bool.noConfusion hh
    have hn := (hs.clauses.unsat c hc hunsat).1
    obtain ⟨z0, z1⟩ := hz c hc hunsat
    rw [hn] at z0 z1
    have h2' : 2 ≤ freeAtoms s (s.clause c) := by
      have a0 : freeAtoms s (s.clause c) ≠ 0 := fun h => z0 (by rw [h]; rfl)
      have a1 : freeAtoms s (s.clause c) ≠ 1 := fun h => z1 (by rw [h]; rfl)
      omega
    unfold freeAtoms at h2'
    refine le_trans h2' ?_
    apply List.Sublist.length_le
    apply List.monotone_filter_right
    intro a ha
    unfold Formula.free
    simp only [Bool.or_eq_true]
    exact Or.inl ha

theorem live_decide (s t0 : Formula) (hst : Settled s) (hcf : s.CONFLICT = false)
    (h1 : t0.VARLIST = s.VARLIST) (h2 : t0.HEAP = s.HEAP) (h3 : t0.CLAUSELIST = s.CLAUSELIST)
    (h4 : t0.LEVEL = s.LEVEL + 1) (h5 : t0.DECSTACK = s.DECSTACK) (h6 : t0.UNITLIST = s.UNITLIST)
    (h7 : t0.CONFLICT = s.CONFLICT) (h8 : t0.CONFLICTINGCLAUSE = s.CONFLICTINGCLAUSE)
    (h9 : t0.UNITCLAUSE = -1) (v k : Nat) (hcand : s.candidate v k) :
    Live none (reduceTheory t0 v true k) := by
  obtain ⟨hq, hnil⟩ := hst.queue hcf
  have hvar : ∀ v, t0.var v = s.var v := fun v => by simp [Formula.var, h1]
  have hassign : ∀ v k, t0.assign v k = s.assign v k := fun v k => by simp [Formula.assign, hvar]
  have hcons : Consistent t0 := by
    have := consistent_withLevel hst.cons (s.LEVEL + 1) (by have := hst.cons.level; omega)
      (fun v k hne => by have := (hst.cons.cells.bound v k hne).2; omega)
    exact consistent_same this h1 h2 h3 h4
  obtain ⟨c1, c2, c3⟩ := cells_congr (s := s) (t := t0) (by rw [h1]) (fun v => by rw [hvar])
    (by rw [h3]) (fun c _ => by rw [clause_of_heap h2 h3]) h5 (fun _ _ => Or.inr hcf)
    hassign (fun v k => by simp [Formula.level, hvar]) (fun v k _ => by simp [Formula.reason, hvar])
    (fun v => by simp [Formula.head, hvar]) hst.trail hst.reasons hst.heads
  have hclosed : UnitClosed t0 := by
    apply closed_decide hst.cons hst.closed _ h1 h2 h3 h4
    intro c hc hu
    refine ⟨hq.zero hcf c hc hu, fun h => ?_⟩
    have := hq.units c hc (by simp) hu h
    rw [hnil] at this
    exact absurd this (List.not_mem_nil _)
  have hlive : Live none t0 := ⟨hcons, c1, c2, c3, hclosed, queue_same hq h2 h3 h6 h7 h8⟩
  obtain ⟨a1, a2, a3, a4⟩ := hcand
  apply live_reduceTheory none t0 hlive v true k (by rw [h1]; exact a1) (by rw [hvar]; exact a3)
    (by rw [hassign]; exact a4)
  · refine ⟨fun h => ?_, fun h => ?_⟩
    · rw [h9] at h; omega
    · rw [h9] at h; omega
  · intro _ i hi hi1
    rw [hvar] at hi
    rw [hassign] at hi1
    have := hst.heads.assigned v a1 i hi hi1
    have hsat : (s.var v).SAT = true := congrArg (fun c => c.2.1) this
    rw [a2] at hsat
    exact Bool.noConfusion hsat

theorem deep_of_settled {s : Formula} (h : Settled s) : Deep s :=
  ⟨h.cons, h.trail, h.reasons, h.heads, h.closed,
    fun _ hcf => (h.queue hcf).1.zero hcf, fun _ hc => h.conf hc⟩

theorem deep_of_live {s : Formula} (h : Live none s) : Deep s :=
  ⟨h.cons, h.trail, h.reasons, h.heads, h.closed,
    fun _ hcf => h.queue.zero hcf, fun _ hc => h.queue.conf hc⟩

/-- The decision of a round, from a state after unit propagation without a conflict. -/
theorem deep_decide (s2 t : Formula) (hst : Settled s2) (hcf : s2.CONFLICT = false)
    (h : (match chooseLiteral s2 with
      | some atom =>
        some (reduceTheory
          { s2 with UNITCLAUSE := -1, DECISIONS := s2.DECISIONS + 1, LEVEL := s2.LEVEL + 1 }
          atom.VAR atom.EQUAL atom.VAL)
      | none => some { s2 with UNITCLAUSE := -1 }) = some t) : Deep t := by
  rcases chooseLiteral_spec s2 with ⟨hn, -⟩ | ⟨v, k, hsome, hcand, -⟩
  · rw [hn] at h
    simp only [Option.some.injEq] at h
    subst h
    obtain ⟨c1, c2, c3⟩ := cells_same (s := s2) (t := { s2 with UNITCLAUSE := -1 })
      rfl rfl rfl rfl rfl rfl hst.trail hst.reasons hst.heads
    have hq := (hst.queue hcf).1
    exact ⟨consistent_same hst.cons rfl rfl rfl rfl, c1, c2, c3,
      closed_grow (grow_same rfl rfl rfl rfl rfl) hst.closed,
      fun _ hcf' => (queue_same hq (t := { s2 with UNITCLAUSE := -1 }) rfl rfl rfl rfl rfl).zero hcf',
      fun _ hc => absurd (hc : s2.CONFLICT = true) (by rw [hcf]; decide)⟩
  · rw [hsome] at h
    simp only [Option.some.injEq] at h
    subst h
    apply deep_of_live
    apply live_decide s2 _ hst hcf
    all_goals first | rfl | exact hcand

theorem deep_propagateDecide (fuel : Nat) (s t : Formula) (hd : Deep s) (hcf : s.CONFLICT = false)
    (h : propagateDecide fuel s = some t) : Deep t := by
  unfold propagateDecide at h
  simp only at h
  obtain ⟨e1, e2, e3, e4, e5⟩ := checkUnit_same s
  cases hp : (if (checkUnit s).UNITLIST.isEmpty then some (checkUnit s)
      else unitPropagation fuel (checkUnit s)) with
  | none => rw [hp] at h; simp at h
  | some s2 =>
    rw [hp] at h
    simp only at h
    by_cases hz : ∀ c < s.CLAUSELIST.length, (s.clause c).SAT = false → (s.clause c).NumUnAss ≠ 0
    · obtain ⟨hq, hcf1⟩ := queue_checkUnit s hcf hz
      obtain ⟨c1, c2, c3⟩ := cells_same (s := s) (t := checkUnit s) e1 e2 e3 e5 e4
        (by rw [hcf1, hcf]) hd.trail hd.reasons hd.heads
      have hlive : Live none (checkUnit s) :=
        ⟨consistent_checkUnit s hd.cons, c1, c2, c3, closed_grow (grow_checkUnit s) hd.closed, hq⟩
      have hst : Settled s2 := by
        split_ifs at hp with he
        · simp only [Option.some.injEq] at hp
          subst hp
          exact ⟨hlive.cons, c1, c2, c3, hlive.closed,
            fun _ => ⟨hq, List.isEmpty_iff.1 he⟩,
            fun hc => absurd hc (by rw [hcf1]; decide)⟩
        · exact live_unitPropagation fuel _ _ hlive hp
      split_ifs at h with hc
      · exact deep_decide s2 t hst (by simpa using hc) h
      · simp only [Option.some.injEq] at h
        subst h
        exact deep_of_settled hst
    · have hz' : ∃ c < s.CLAUSELIST.length, (s.clause c).NumUnAss = 0 ∧ (s.clause c).SAT = false := by
        by_contra hne
        apply hz
        intro c hc hu h0
        exact hne ⟨c, hc, h0, hu⟩
      have hlev : s.LEVEL = 0 := by
        by_contra hl
        have h1 : 1 ≤ s.LEVEL := by have := hd.cons.level; omega
        obtain ⟨c, hc, h0, hu⟩ := hz'
        exact hd.zero h1 hcf c hc hu h0
      have hcf1 : (checkUnit s).CONFLICT = true := (checkUnit_spec s).2.2.2.2 (Or.inr hz')
      have hs2 : s2.VARLIST = s.VARLIST ∧ s2.HEAP = s.HEAP ∧ s2.CLAUSELIST = s.CLAUSELIST ∧
          s2.LEVEL = s.LEVEL ∧ s2.DECSTACK = s.DECSTACK ∧ s2.CONFLICT = true := by
        split_ifs at hp with he
        · simp only [Option.some.injEq] at hp
          subst hp
          exact ⟨e1, e2, e3, e4, e5, hcf1⟩
        · cases fuel with
          | zero => simp [unitPropagation] at hp
          | succ fuel =>
            rw [unitPropagation, if_pos hcf1] at hp
            simp only [Option.some.injEq] at hp
            subst hp
            exact ⟨e1, e2, e3, e4, e5, hcf1⟩
      obtain ⟨f1, f2, f3, f4, f5, f6⟩ := hs2
      rw [f6] at h
      simp only [Bool.not_true, Bool.false_eq_true, if_false, Option.some.injEq] at h
      subst h
      have hvar : ∀ v, s2.var v = s.var v := fun v => by simp [Formula.var, f1]
      obtain ⟨c1, c2, c3⟩ := cells_congr (s := s) (t := s2) (by rw [f1]) (fun v => by rw [hvar])
        (by rw [f3]) (fun c _ => by rw [clause_of_heap f2 f3]) f5
        (fun l hl => by
          rcases hl with hl | hl
          · left; rw [← f4]; exact hl
          · rw [f6] at hl; exact Bool.noConfusion hl)
        (fun v k => by simp [Formula.assign, hvar]) (fun v k => by simp [Formula.level, hvar])
        (fun v k _ => by simp [Formula.reason, hvar])
        (fun v => by simp [Formula.head, hvar]) hd.trail hd.reasons hd.heads
      refine ⟨consistent_same hd.cons f1 f2 f3 f4, c1, c2, c3,
        closed_grow (grow_same f1 f2 f3 f4 f5) hd.closed, fun h1 => ?_, fun h1 => ?_⟩
      · rw [f4, hlev] at h1; omega
      · rw [f4, hlev] at h1; omega

/-! ## The scan of `maxLit` -/

theorem scan_noop (F : Nat → Bool) (i : Nat) (js : List Nat) (st : Nat × Nat)
    (h : ∀ j ∈ js, F j = true → j < st.2) :
    js.foldl (fun (st : Nat × Nat) j => if F j && decide (st.2 ≤ j) then (i, j) else st) st = st := by
  induction js with
  | nil => rfl
  | cons j js ih =>
    rw [List.foldl_cons]
    have hc : ¬ ((F j && decide (st.2 ≤ j)) = true) := by
      rw [Bool.and_eq_true, decide_eq_true_eq]
      rintro ⟨h1, h2⟩
      have := h j (List.mem_cons_self _ _) h1
      omega
    rw [if_neg hc]
    exact ih (fun j' hj' => h j' (List.mem_cons_of_mem _ hj'))

theorem scan_down (F : Nat → Bool) (i n : Nat) (st : Nat × Nat) :
    let r := (List.range n).reverse.foldl
      (fun (st : Nat × Nat) j => if F j && decide (st.2 ≤ j) then (i, j) else st) st
    (r = st ∧ ∀ j < n, F j = true → j < st.2) ∨
    (r.1 = i ∧ r.2 < n ∧ F r.2 = true ∧ st.2 ≤ r.2 ∧ ∀ j < n, F j = true → j ≤ r.2) := by
  induction n with
  | zero =>
    left
    exact ⟨rfl, fun j hj => absurd hj (Nat.not_lt_zero _)⟩
  | succ n ih =>
    simp only [List.range_succ, List.reverse_append, List.reverse_singleton, List.singleton_append,
      List.foldl_cons]
    by_cases hc : (F n && decide (st.2 ≤ n)) = true
    · rw [if_pos hc]
      rw [Bool.and_eq_true, decide_eq_true_eq] at hc
      right
      rw [scan_noop F i (List.range n).reverse (i, n) (fun j hj _ => by
        have := List.mem_range.1 (List.mem_reverse.1 hj)
        exact this)]
      exact ⟨rfl, Nat.lt_succ_self n, hc.1, hc.2, fun j hj _ => Nat.lt_succ_iff.1 hj⟩
    · rw [if_neg hc]
      rw [Bool.and_eq_true, decide_eq_true_eq] at hc
      rcases ih with ⟨h1, h2⟩ | ⟨h1, h2, h3, h4, h5⟩
      · left
        refine ⟨h1, fun j hj hF => ?_⟩
        rcases Nat.lt_succ_iff_lt_or_eq.1 hj with hlt | heq
        · exact h2 j hlt hF
        · subst heq
          by_contra hge
          exact hc ⟨hF, by omega⟩
      · right
        refine ⟨h1, Nat.lt_succ_of_lt h2, h3, h4, fun j hj hF => ?_⟩
        rcases Nat.lt_succ_iff_lt_or_eq.1 hj with hlt | heq
        · exact h5 j hlt hF
        · subst heq
          exfalso
          exact hc ⟨hF, by omega⟩

theorem scan_atoms (F : Nat → Nat → Bool) (n k : Nat) :
    let st := (List.range k).foldl
      (fun st i => (List.range n).reverse.foldl
        (fun (st : Nat × Nat) j => if F i j && decide (st.2 ≤ j) then (i, j) else st) st) (0, 0)
    (∀ i < k, ∀ j < n, F i j = true → j ≤ st.2) ∧
    ((∃ i < k, ∃ j < n, F i j = true) →
      st.1 < k ∧ st.2 < n ∧ F st.1 st.2 = true ∧ ∀ i < k, st.1 < i → F i st.2 = false) ∧
    ((¬ ∃ i < k, ∃ j < n, F i j = true) → st = (0, 0)) := by
  induction k with
  | zero =>
    refine ⟨fun i hi => absurd hi (Nat.not_lt_zero _), ?_, fun _ => rfl⟩
    rintro ⟨i, hi, -⟩
    exact absurd hi (Nat.not_lt_zero _)
  | succ k ih =>
    simp only [List.range_succ, List.foldl_append, List.foldl_cons, List.foldl_nil]
    simp only at ih
    generalize (List.range k).foldl
      (fun st i => (List.range n).reverse.foldl
        (fun (st : Nat × Nat) j => if F i j && decide (st.2 ≤ j) then (i, j) else st) st) (0, 0) = st at ih ⊢
    obtain ⟨i1, i2, i3⟩ := ih
    have hst : st.2 < n ∨ st = (0, 0) := by
      by_cases hex : ∃ i < k, ∃ j < n, F i j = true
      · exact Or.inl (i2 hex).2.1
      · exact Or.inr (i3 hex)
    have hsd := scan_down (F k) k n st
    simp only at hsd
    generalize (List.range n).reverse.foldl
      (fun (st : Nat × Nat) j => if F k j && decide (st.2 ≤ j) then (k, j) else st) st = r at hsd ⊢
    rcases hsd with ⟨h1, h2⟩ | ⟨h1, h2, h3, h4, h5⟩
    · rw [h1]
      refine ⟨fun i hi j hj hF => ?_, fun hex => ?_, fun hex => ?_⟩
      · rcases Nat.lt_succ_iff_lt_or_eq.1 hi with hlt | heq
        · exact i1 i hlt j hj hF
        · subst heq
          exact le_of_lt (h2 j hj hF)
      · have hex' : ∃ i < k, ∃ j < n, F i j = true := by
          obtain ⟨i, hi, j, hj, hF⟩ := hex
          rcases Nat.lt_succ_iff_lt_or_eq.1 hi with hlt | heq
          · exact ⟨i, hlt, j, hj, hF⟩
          · subst heq
            by_contra hno
            have := h2 j hj hF
            rw [i3 hno] at this
            exact absurd this (Nat.not_lt_zero _)
        obtain ⟨a1, a2, a3, a4⟩ := i2 hex'
        refine ⟨Nat.lt_succ_of_lt a1, a2, a3, fun i hi hlt => ?_⟩
        rcases Nat.lt_succ_iff_lt_or_eq.1 hi with hlt' | heq
        · exact a4 i hlt' hlt
        · subst heq
          by_contra hF
          have hF' : F i st.2 = true := by simpa using hF
          exact absurd (h2 st.2 a2 hF') (lt_irrefl _)
      · apply i3
        rintro ⟨i, hi, j, hj, hF⟩
        exact hex ⟨i, Nat.lt_succ_of_lt hi, j, hj, hF⟩
    · refine ⟨fun i hi j hj hF => ?_, fun _ => ?_, fun hex => ?_⟩
      · rcases Nat.lt_succ_iff_lt_or_eq.1 hi with hlt | heq
        · exact le_trans (i1 i hlt j hj hF) h4
        · subst heq
          exact h5 j hj hF
      · rw [h1]
        exact ⟨Nat.lt_succ_self k, h2, h3, fun i hi hlt => by omega⟩
      · exfalso
        exact hex ⟨k, Nat.lt_succ_self k, _, h2, h3⟩

theorem maxLit_spec (s : Formula) (atoms : List Literal) :
    (∀ i < atoms.length, ∀ j < s.DECSTACK.length,
      falsifiedBy (atoms.getD i default) (s.DECSTACK.getD j default) = true →
      j ≤ (maxLit s atoms).2) ∧
    ((∃ i < atoms.length, ∃ j < s.DECSTACK.length,
        falsifiedBy (atoms.getD i default) (s.DECSTACK.getD j default) = true) →
      (maxLit s atoms).1 < atoms.length ∧ (maxLit s atoms).2 < s.DECSTACK.length ∧
      falsifiedBy (atoms.getD (maxLit s atoms).1 default)
        (s.DECSTACK.getD (maxLit s atoms).2 default) = true ∧
      ∀ i < atoms.length, (maxLit s atoms).1 < i →
        falsifiedBy (atoms.getD i default) (s.DECSTACK.getD (maxLit s atoms).2 default) = false) :=
  ⟨(scan_atoms (fun i j => falsifiedBy (atoms.getD i default) (s.DECSTACK.getD j default))
      s.DECSTACK.length atoms.length).1,
   (scan_atoms (fun i j => falsifiedBy (atoms.getD i default) (s.DECSTACK.getD j default))
      s.DECSTACK.length atoms.length).2.1⟩

theorem getD_of_get? {α : Type} [Inhabited α] {l : List α} {i : Nat} {a : α}
    (h : l.get? i = some a) : i < l.length ∧ l.getD i default = a := by
  have hi : i < l.length := by
    by_contra hge
    rw [List.get?_eq_none.2 (by omega)] at h
    exact Option.noConfusion h
  refine ⟨hi, ?_⟩
  rw [List.getD_eq_getElem _ _ hi]
  rw [List.get?_eq_get hi] at h
  exact Option.some.inj h

theorem get?_of_getD {α : Type} [Inhabited α] {l : List α} {i : Nat} (hi : i < l.length) :
    l.get? i = some (l.getD i default) := by
  rw [List.get?_eq_get hi, List.getD_eq_getElem _ _ hi]
  rfl

/-! ## Propagation, backtracking and learning leave the counters of the search alone -/

theorem foldl_keeps {α β : Type} (p : Formula → β) (f : Formula → α → Formula)
    (hf : ∀ s a, p (f s a) = p s) (l : List α) (s : Formula) : p (l.foldl f s) = p s := by
  induction l generalizing s with
  | nil => rfl
  | cons a l ih => rw [List.foldl_cons, ih, hf]

theorem stats_of_counters {s t : Formula} (h : t.counters = s.counters) : t.stats = s.stats := by
  simp only [Formula.counters, Prod.mk.injEq] at h
  simp only [Formula.stats, h.1, h.2.1, h.2.2.1]

theorem counters_setVar (s : Formula) (v : Nat) (f : Variable → Variable) :
    (s.setVar v f).counters = s.counters := rfl

theorem counters_setClause (s : Formula) (c : Nat) (f : Clause → Clause) :
    (s.setClause c f).counters = s.counters := rfl

theorem counters_bump (s : Formula) (c : Nat) (d : Int) (v : Nat) (e : Bool) (k : Nat) (d' : Int) :
    ((s.bumpUnAss c d).bumpCnt v e k d').counters = s.counters := rfl

theorem counters_satisfyAtoms (c : Nat) (s : Formula) (atoms : List Literal) :
    (satisfyAtoms c s atoms).counters = s.counters := by
  unfold satisfyAtoms
  apply foldl_keeps
  intro s a
  split_ifs
  · rfl
  · rfl

theorem counters_satisfyClauses (s : Formula) (v : Nat) (e : Bool) (k : Nat) :
    (satisfyClauses s v e k).counters = s.counters := by
  unfold satisfyClauses
  apply foldl_keeps
  intro s c
  split_ifs
  · simp only
    rw [counters_satisfyAtoms]
    rfl
  · rfl

theorem counters_removeLiteral (s : Formula) (v : Nat) (e : Bool) (k : Nat) :
    (removeLiteral s v e k).counters = s.counters := by
  unfold removeLiteral
  apply foldl_keeps
  intro s c
  simp only
  split_ifs <;> rfl

theorem counters_mark (s : Formula) (v k : Nat) (a : Int) : (s.mark v k a).counters = s.counters :=
  rfl

theorem counters_forbidValue (v : Nat) (s : Formula) (i : Nat) :
    (forbidValue v s i).counters = s.counters := by
  unfold forbidValue
  split_ifs
  · rfl
  · simp only
    rw [counters_mark, counters_removeLiteral, counters_satisfyClauses]
  · rfl

theorem counters_assignValue (s : Formula) (v k : Nat) :
    (assignValue s v k).counters = s.counters := by
  have h : (assignValue s v k).counters =
      ((removeLiteral (satisfyClauses s v true k) v false k).mark v k 1).counters := rfl
  rw [h, counters_mark, counters_removeLiteral, counters_satisfyClauses]

theorem counters_reduceLiteral (s : Formula) (v : Nat) (e : Bool) (k : Nat) :
    (reduceLiteral s v e k).counters = s.counters := by
  unfold reduceLiteral
  cases e with
  | true =>
    simp only [if_true]
    rw [foldl_keeps _ _ (counters_forbidValue v), foldl_keeps _ _ (counters_forbidValue v),
      counters_assignValue]
  | false =>
    simp only [Bool.false_eq_true, if_false]
    have h : ∀ t : Formula, ({ t with DECSTACK := t.DECSTACK ++ [⟨v, k, false⟩] } : Formula).counters
        = t.counters := fun _ => rfl
    rw [h, counters_mark, counters_removeLiteral, counters_satisfyClauses]

theorem stats_reduceTheory (s : Formula) (v : Nat) (e : Bool) (k : Nat) :
    (reduceTheory s v e k).stats = s.stats := by
  rw [reduceTheory_eq]
  cases he : checkEntail (reduceLiteral s v e k) v with
  | none => exact stats_of_counters (counters_reduceLiteral s v e k)
  | some j =>
    simp only
    rw [stats_of_counters (counters_reduceLiteral _ v true j)]
    have h := counters_reduceLiteral s v e k
    simp only [Formula.counters, Prod.mk.injEq] at h
    simp only [Formula.stats, h.1, h.2.1, h.2.2.1]

theorem counters_checkUnit (s : Formula) : (checkUnit s).counters = s.counters := by
  unfold checkUnit
  have h : ({ s with UNITLIST := [] } : Formula).counters = s.counters := rfl
  rw [← h]
  apply foldl_keeps
  intro s i
  split_ifs <;> rfl

theorem stats_unitRound (s : Formula) (c : Nat) (rest : List Nat) :
    ((unitRound s c rest).stats) = s.stats := by
  unfold unitRound
  simp only
  split_ifs
  · split
    · rw [stats_reduceTheory]; rfl
    · rfl
  · rfl

theorem stats_unitPropagation (fuel : Nat) (s t : Formula) (h : unitPropagation fuel s = some t) :
    t.stats = s.stats := by
  induction fuel generalizing s with
  | zero => simp [unitPropagation] at h
  | succ fuel ih =>
    rw [unitPropagation] at h
    split_ifs at h with hc
    · simp only [Option.some.injEq] at h
      subst h; rfl
    · cases hu : s.UNITLIST with
      | nil =>
        simp only [hu, Option.some.injEq] at h
        subst h; rfl
      | cons c rest =>
        simp only [hu] at h
        rw [ih _ h, stats_unitRound]

theorem counters_addLiteral (s : Formula) (v : Nat) (e : Bool) (k : Nat) :
    (addLiteral s v e k).counters = s.counters := by
  unfold addLiteral
  apply foldl_keeps
  intro s c
  split_ifs <;> rfl

theorem counters_unsatisfyAtoms (c : Nat) (L : Int) (s : Formula) (atoms : List Literal) :
    (unsatisfyAtoms c L s atoms).counters = s.counters := by
  unfold unsatisfyAtoms
  apply foldl_keeps
  intro s a
  split_ifs <;> rfl

theorem counters_unsatisfyClauses (s : Formula) (v : Nat) (e : Bool) (k : Nat) (L : Int) :
    (unsatisfyClauses s v e k L).counters = s.counters := by
  unfold unsatisfyClauses
  apply foldl_keeps
  intro s c
  split_ifs
  · simp only
    rw [counters_setClause, counters_unsatisfyAtoms]
  · rfl

theorem counters_undoAdd (L : Int) (i : Nat) (s : Formula) (j : Nat) :
    (undoAdd L i s j).counters = s.counters := by
  unfold undoAdd
  split_ifs <;> first | rfl | exact counters_addLiteral _ _ _ _

theorem counters_undoValue (L : Int) (i : Nat) (s : Formula) (j : Nat) :
    (undoValue L i s j).counters = s.counters := by
  unfold undoValue
  by_cases h : s.level i j > L
  · rw [if_pos h]
    simp only
    rw [counters_setVar]
    split_ifs <;> exact counters_unsatisfyClauses _ _ _ _ _
  · rw [if_neg h]

theorem counters_undoVar (L : Int) (s : Formula) (i : Nat) :
    (undoVar L s i).counters = s.counters := by
  unfold undoVar
  simp only
  split_ifs
  · rw [counters_setVar, foldl_keeps _ _ (counters_undoValue L i)]
  · rw [foldl_keeps _ _ (counters_undoValue L i)]

theorem counters_undoTheory (s : Formula) (L : Int) : (undoTheory s L).counters = s.counters := by
  unfold undoTheory
  simp only
  have h : ∀ (t : Formula) (st : List Literal),
      ({ t with DECSTACK := st } : Formula).counters = t.counters := fun _ _ => rfl
  rw [h, foldl_keeps _ _ (counters_undoVar L)]
  apply foldl_keeps
  intro t i
  exact foldl_keeps _ _ (counters_undoAdd L i) _ _

theorem counters_learnClause (s : Formula) (r : ClauseRef) :
    (learnClause s r).counters = s.counters := by
  unfold learnClause
  simp only
  rw [foldl_keeps _ _ (fun t a => counters_setVar t _ _)]
  unfold pushClause
  cases r <;> rfl

theorem analyzeConflict_counters (fuel : Nat) (s : Formula) (r : ClauseRef) (t : Formula)
    (learned : List Literal) (h : analyzeConflict fuel s r = some (t, learned)) :
    t.counters = s.counters := by
  induction fuel generalizing r with
  | zero => simp [analyzeConflict] at h
  | succ fuel ih =>
    rw [analyzeConflict] at h
    simp only at h
    split_ifs at h with hp
    · simp only [Option.some.injEq, Prod.mk.injEq] at h
      rw [← h.1]
      exact counters_learnClause s r
    · split at h
      · exact Option.noConfusion h
      · split at h
        · exact Option.noConfusion h
        · exact ih _ h

/-! ## The counters along the rounds of the drivers -/

theorem propagateDecide_counts (fuel : Nat) (s t : Formula) (h : propagateDecide fuel s = some t) :
    t.BACKTRACKS = s.BACKTRACKS ∧ t.RESTARTS = s.RESTARTS := by
  unfold propagateDecide at h
  simp only at h
  have h1 : (checkUnit s).stats = s.stats := stats_of_counters (counters_checkUnit s)
  cases hp : (if (checkUnit s).UNITLIST.isEmpty then some (checkUnit s)
      else unitPropagation fuel (checkUnit s)) with
  | none => rw [hp] at h; simp at h
  | some s2 =>
    rw [hp] at h
    simp only at h
    have h2 : s2.stats = s.stats := by
      split_ifs at hp with he
      · simp only [Option.some.injEq] at hp
        subst hp; exact h1
      · rw [stats_unitPropagation fuel _ _ hp, h1]
    have key : ∀ u : Formula, u.stats = s.stats →
        u.BACKTRACKS = s.BACKTRACKS ∧ u.RESTARTS = s.RESTARTS := by
      intro u hu
      simp only [Formula.stats, Prod.mk.injEq] at hu
      exact ⟨hu.1, hu.2.1⟩
    obtain ⟨k1, k2⟩ := key s2 h2
    split_ifs at h with hc
    · cases ha : chooseLiteral s2 with
      | none =>
        simp only [ha, Option.some.injEq] at h
        subst h
        exact ⟨k1, k2⟩
      | some atom =>
        simp only [ha, Option.some.injEq] at h
        subst h
        have h3 := stats_reduceTheory
          { s2 with UNITCLAUSE := -1, DECISIONS := s2.DECISIONS + 1, LEVEL := s2.LEVEL + 1 }
          atom.VAR atom.EQUAL atom.VAL
        simp only [Formula.stats, Prod.mk.injEq] at h3
        exact ⟨h3.1.trans k1, h3.2.1.trans k2⟩
    · simp only [Option.some.injEq] at h
      subst h
      exact ⟨k1, k2⟩

theorem conflictStep_counts (inner : Nat) (s t : Formula) (h : conflictStep inner s = some t) :
    t.BACKTRACKS = s.BACKTRACKS + 1 ∧ t.RESTARTS = s.RESTARTS := by
  unfold conflictStep at h
  split_ifs at h with hc
  cases ha : analyzeConflict inner s (.stored (s.addr s.CONFLICTINGCLAUSE.toNat)) with
  | none => rw [ha] at h; simp at h
  | some p =>
    obtain ⟨s1, learned⟩ := p
    rw [ha] at h
    simp only [Option.some.injEq] at h
    subst h
    have := analyzeConflict_counters inner s _ s1 learned ha
    simp only [Formula.counters, Prod.mk.injEq] at this
    exact ⟨by simp only; rw [this.1], this.2.1⟩

theorem undoTheory_counts (s : Formula) (L : Int) :
    (undoTheory s L).BACKTRACKS = s.BACKTRACKS ∧ (undoTheory s L).RESTARTS = s.RESTARTS := by
  have := counters_undoTheory s L
  simp only [Formula.counters, Prod.mk.injEq] at this
  exact ⟨this.1, this.2.1⟩

theorem searchRound_counts (inner : Nat) (timeUp : Bool) (s : Formula) (r : Round)
    (h : searchRound inner timeUp s = some r) :
    (∀ c t, r = .ret c t → t = s) ∧
    (∀ t, r = .next t → s.BACKTRACKS ≤ t.BACKTRACKS ∧ t.RESTARTS = s.RESTARTS) := by
  unfold searchRound at h
  split_ifs at h with h1 h2 h3 h4
  · simp only [Option.some.injEq] at h
    subst h
    exact ⟨fun c t e => by cases e; rfl, fun t e => by cases e⟩
  · simp only [Option.some.injEq] at h
    subst h
    exact ⟨fun c t e => by cases e; rfl, fun t e => by cases e⟩
  · simp only [Option.some.injEq] at h
    subst h
    exact ⟨fun c t e => by cases e; rfl, fun t e => by cases e⟩
  · cases hcs : conflictStep inner s with
    | none => rw [hcs] at h; simp at h
    | some s3 =>
      rw [hcs] at h
      simp only [Option.map_eq_some'] at h
      obtain ⟨t, ht, rfl⟩ := h
      obtain ⟨a1, a2⟩ := conflictStep_counts inner s s3 hcs
      obtain ⟨b1, b2⟩ := undoTheory_counts s3 s3.LEVEL
      obtain ⟨c1, c2⟩ := propagateDecide_counts inner _ t ht
      refine ⟨fun c t e => (by cases e), fun t1 e => ?_⟩
      cases e
      exact ⟨(by rw [c1, b1, a1]; omega), (by rw [c2, b2, a2])⟩
  · simp only [Option.map_eq_some'] at h
    obtain ⟨t, ht, rfl⟩ := h
    obtain ⟨c1, c2⟩ := propagateDecide_counts inner _ t ht
    refine ⟨fun c t e => (by cases e), fun t1 e => ?_⟩
    cases e
    exact ⟨le_of_eq c1.symm, c2⟩

theorem searchRoundRestart_zero (inner : Nat) (timeUp : Bool) (s : Formula)
    (hb : 0 ≤ s.BACKTRACKS) :
    searchRoundRestart inner timeUp 0 0 s = (searchRound inner timeUp s).map (fun r => (r, 0)) := by
  unfold searchRoundRestart searchRound
  split_ifs with h1 h2 h3 h4
  · rfl
  · rfl
  · rfl
  · cases hcs : conflictStep inner s with
    | none => rfl
    | some s3 =>
      simp only
      obtain ⟨a1, -⟩ := conflictStep_counts inner s s3 hcs
      have hne : ¬ (s3.BACKTRACKS == 0) = true := by
        rw [beq_iff_eq, a1]; omega
      rw [if_neg hne]
      simp only [Option.map_map]
      rfl
  · simp only [Option.map_map]
    rfl

theorem restartFrom_zero (clock : Nat → Bool) (inner fuel n : Nat) (s : Formula)
    (hb : 0 ≤ s.BACKTRACKS) :
    NonChronoBacktrackRestartFrom clock inner 0 fuel n 0 s =
      NonChronoBacktrackFrom clock inner fuel n s := by
  induction fuel generalizing n s with
  | zero => rfl
  | succ fuel ih =>
    rw [NonChronoBacktrackRestartFrom, NonChronoBacktrackFrom, searchRoundRestart_zero _ _ _ hb]
    cases hr : searchRound inner (clock n) s with
    | none => rfl
    | some r =>
      cases r with
      | ret c t => rfl
      | next t =>
        simp only [Option.map_some']
        exact ih (n + 1) t (le_trans hb ((searchRound_counts inner _ s _ hr).2 t rfl).1)

theorem nonChrono_restarts (clock : Nat → Bool) (inner fuel n : Nat) (s t : Formula) (code : Nat)
    (h : NonChronoBacktrackFrom clock inner fuel n s = some (code, t)) :
    t.RESTARTS = s.RESTARTS := by
  induction fuel generalizing n s with
  | zero => simp [NonChronoBacktrackFrom] at h
  | succ fuel ih =>
    rw [NonChronoBacktrackFrom] at h
    cases hr : searchRound inner (clock n) s with
    | none => rw [hr] at h; simp at h
    | some r =>
      rw [hr] at h
      cases r with
      | ret c u =>
        simp only [Option.some.injEq, Prod.mk.injEq] at h
        rw [← h.2, (searchRound_counts inner _ s _ hr).1 c u rfl]
      | next u =>
        simp only at h
        rw [ih (n + 1) u h, ((searchRound_counts inner _ s _ hr).2 u rfl).2]

theorem learnClause_clist (s : Formula) (r : ClauseRef) :
    ∃ a, (learnClause s r).CLAUSELIST = s.CLAUSELIST ++ [a] := by
  unfold learnClause
  simp only
  have hk : ∀ (l : List Literal) (t : Formula) (cid : Nat),
      (l.foldl (fun s a => s.setVar a.VAR (fun V => V.AddRecord cid a.VAL a.EQUAL)) t).CLAUSELIST
        = t.CLAUSELIST := by
    intro l t cid
    apply foldl_keeps Formula.CLAUSELIST
    intro s a
    rfl
  rw [hk]
  cases r with
  | stored a => exact ⟨a, rfl⟩
  | fresh atoms => exact ⟨s.HEAP.length, rfl⟩

/-! ## The decision stack along propagation -/

theorem track_lit {s t : Formula} {v : Nat} {e : Bool} {k : Nat} (h : Lit s t v e k)
    (hv : v < s.VARLIST.length) (hk : k < (s.var v).DOMAINSIZE) (hfree : s.assign v k = 0)
    (hT : Track s) : Track t := by
  refine ⟨trail_lit h hv hk hfree hT.trail, ?_⟩
  rw [h.stack, List.map_append, List.nodup_append]
  refine ⟨hT.nodup, List.nodup_singleton _, ?_⟩
  intro p hp hq
  simp only [List.map_cons, List.map_nil, List.mem_singleton] at hq
  obtain ⟨d, hd, hdp⟩ := List.mem_map.1 hp
  rw [hq] at hdp
  simp only [Prod.mk.injEq] at hdp
  have := assign_ne_of_holds (hT.trail.holds d hd).2
  rw [hdp.1, hdp.2] at this
  exact this hfree

theorem track_congr {s t : Formula} (hlen : t.VARLIST.length = s.VARLIST.length)
    (hdom : ∀ v, (t.var v).DOMAINSIZE = (s.var v).DOMAINSIZE)
    (hstack : t.DECSTACK = s.DECSTACK)
    (hassign : ∀ v k, t.assign v k = s.assign v k) (hlevel : ∀ v k, t.level v k = s.level v k)
    (hT : Track s) : Track t := by
  have hholds : ∀ a, t.holds a = s.holds a := holds_congr hassign
  refine ⟨⟨fun d hd => ?_, fun v hv k hk hne => ?_⟩, by rw [hstack]; exact hT.nodup⟩
  · rw [hstack] at hd
    obtain ⟨⟨r1, r2⟩, hh⟩ := hT.trail.holds d hd
    exact ⟨⟨by rw [hlen]; exact r1, by rw [hdom]; exact r2⟩, by rw [hholds]; exact hh⟩
  · rw [hlen] at hv
    rw [hdom] at hk
    rw [hassign] at hne
    obtain ⟨d, hd, hm, hl⟩ := hT.trail.setter v hv k hk hne
    refine ⟨d, by rw [hstack]; exact hd, ?_, by rw [hlevel, hlevel]; exact hl⟩
    unfold Formula.madeBy at hm ⊢
    rw [hholds, hassign]
    exact hm

theorem track_same {s t : Formula} (h1 : t.VARLIST = s.VARLIST) (h2 : t.DECSTACK = s.DECSTACK)
    (hT : Track s) : Track t := by
  have hvar : ∀ v, t.var v = s.var v := fun v => by simp [Formula.var, h1]
  exact track_congr (by rw [h1]) (fun v => by rw [hvar]) h2
    (fun v k => by simp [Formula.assign, hvar]) (fun v k => by simp [Formula.level, hvar]) hT

theorem track_reduceTheory (s : Formula) (hwf : s.WF) (hT : Track s) (v : Nat) (e : Bool)
    (k : Nat) (hv : v < s.VARLIST.length) (hk : k < (s.var v).DOMAINSIZE)
    (hfree : s.assign v k = 0) : Track (reduceTheory s v e k) := by
  rw [reduceTheory_eq]
  have h1 := lit_reduceLiteral s hwf v e k hv hk
  have t1 := track_lit h1 hv hk hfree hT
  cases he : checkEntail (reduceLiteral s v e k) v with
  | none => exact t1
  | some j =>
    obtain ⟨-, e2, e3, -⟩ := checkEntail_spec _ _ _ he
    simp only
    have hwf1 : (reduceLiteral s v e k).WF := shape_wf h1.shape hwf
    have hv1 : v < (reduceLiteral s v e k).VARLIST.length := by
      rw [shape_length h1.shape]; exact hv
    have key : ∀ u : Formula, u.VARLIST = (reduceLiteral s v e k).VARLIST →
        u.DECSTACK = (reduceLiteral s v e k).DECSTACK → Track (reduceLiteral u v true j) := by
      intro u u1 u2
      have hvar : ∀ w, u.var w = (reduceLiteral s v e k).var w := fun w => by simp [Formula.var, u1]
      have hwfu : u.WF := by unfold Formula.WF; rw [u1]; exact hwf1
      exact track_lit (lit_reduceLiteral u hwfu v true j (by rw [u1]; exact hv1)
        (by rw [hvar]; exact e2)) (by rw [u1]; exact hv1) (by rw [hvar]; exact e2)
        (by simp only [Formula.assign, hvar]; exact e3) (track_same u1 u2 t1)
    exact key _ rfl rfl

theorem track_unitRound (s : Formula) (hs : Consistent s) (hT : Track s) (c : Nat)
    (rest : List Nat) : Track (unitRound s c rest) := by
  unfold unitRound
  simp only
  split_ifs with h
  · cases hf : firstFree { s with UNITS := s.UNITS + 1, UNITCLAUSE := (c : Int), UNITLIST := rest }
        ({ s with UNITS := s.UNITS + 1, UNITCLAUSE := (c : Int), UNITLIST := rest }.clause c).ATOM_LIST with
    | none => exact track_same (s := s) rfl rfl hT
    | some a =>
      simp only
      have hmem : a ∈ (s.clause c).ATOM_LIST := List.mem_of_find?_eq_some hf
      have hfree : s.assign a.VAR a.VAL = 0 := by
        have := List.find?_some hf
        simpa using this
      obtain ⟨-, r2, r3⟩ := atoms_in_range hs.struct c a hmem
      obtain ⟨f, hfdef⟩ : ∃ f : Variable → Variable,
          f = (fun V => { V with CLAUSEID := V.CLAUSEID.set a.VAL (c : Int) }) := ⟨_, rfl⟩
      obtain ⟨s1, hs1⟩ : ∃ s1 : Formula,
          s1 = { s with UNITS := s.UNITS + 1, UNITCLAUSE := (c : Int), UNITLIST := rest } := ⟨_, rfl⟩
      rw [← hs1, ← hfdef]
      have hsh2 : Shape s (s1.setVar a.VAR f) :=
        shape_trans (by rw [hs1]; exact ⟨rfl, rfl, rfl⟩)
          (shape_setVar s1 a.VAR f (fun V => by rw [hfdef]; simp [Variable.shape]))
      have hassign : ∀ v k, (s1.setVar a.VAR f).assign v k = s.assign v k := by
        intro v k
        rw [hs1, hfdef]
        simp only [Formula.assign, var_setVar]
        split_ifs <;> rfl
      have hlevel : ∀ v k, (s1.setVar a.VAR f).level v k = s.level v k := by
        intro v k
        rw [hs1, hfdef]
        simp only [Formula.level, var_setVar]
        split_ifs <;> rfl
      have hT2 : Track (s1.setVar a.VAR f) :=
        track_congr (shape_length hsh2) (shape_dom hsh2) (by rw [hs1]; rfl) hassign hlevel hT
      exact track_reduceTheory _ (shape_wf hsh2 hs.struct.sized.1) hT2 a.VAR a.EQUAL a.VAL
        (by rw [shape_length hsh2]; exact r2) (by rw [shape_dom hsh2]; exact r3)
        (by rw [hassign]; exact hfree)
  · exact track_same (s := s) rfl rfl hT

theorem track_unitPropagation (fuel : Nat) (s t : Formula) (hs : Consistent s) (hT : Track s)
    (h : unitPropagation fuel s = some t) : Track t := by
  induction fuel generalizing s with
  | zero => simp [unitPropagation] at h
  | succ fuel ih =>
    rw [unitPropagation] at h
    split_ifs at h with hc
    · simp only [Option.some.injEq] at h
      subst h
      exact track_same (s := s) rfl rfl hT
    · cases hu : s.UNITLIST with
      | nil =>
        simp only [hu, Option.some.injEq] at h
        subst h; exact hT
      | cons c rest =>
        simp only [hu] at h
        exact ih _ (consistent_unitRound s hs c rest) (track_unitRound s hs hT c rest) h

theorem forward_propagated (doms : List Nat) (clauses : List (List Literal)) (s : Formula)
    (h : Forward doms clauses s) : Propagated doms clauses s := by
  induction h with
  | load => exact Propagated.load
  | decision s v e k _ hv hk hf ih => exact Propagated.decision s v e k ih hv hk hf
  | reduce s v e k _ hv hk hf ih => exact Propagated.reduce s v e k ih hv hk hf
  | check s _ ih => exact Propagated.check s ih
  | units fuel s t _ hu ih => exact Propagated.units fuel s t ih hu
  | other s t _ h1 h2 h3 h4 _ ih => exact Propagated.other s t ih h1 h2 h3 h4

theorem buildFunction_stack (doms : List Nat) (clauses : List (List Literal)) :
    (BuildFunction doms clauses).DECSTACK = [] := by
  unfold BuildFunction
  simp only
  rw [foldl_keeps Formula.DECSTACK addInputClause]
  · rfl
  · intro s atoms
    unfold addInputClause
    simp only
    apply foldl_keeps Formula.DECSTACK
    intro t a
    rfl

theorem track_of_forward (doms : List Nat) (clauses : List (List Literal))
    (hwf : WellFormedInput doms clauses) (s : Formula) (h : Forward doms clauses s) :
    Track s := by
  induction h with
  | load =>
    have hl := loaded_buildFunction doms clauses hwf
    have hst : (BuildFunction doms clauses).DECSTACK = [] := buildFunction_stack doms clauses
    refine ⟨⟨fun d hd => ?_, fun v _ k _ hne => absurd (hl.free v k) hne⟩, ?_⟩
    · rw [hst] at hd
      exact absurd hd (List.not_mem_nil _)
    · rw [hst]
      exact List.nodup_nil
  | decision s v e k hf hv hk hfree ih =>
    have hs := consistent_of_propagated doms clauses hwf s (forward_propagated _ _ _ hf)
    exact track_reduceTheory (s.withLevel (s.LEVEL + 1)) hs.struct.sized.1
      (track_same (s := s) rfl rfl ih) v e k hv hk hfree
  | reduce s v e k hf hv hk hfree ih =>
    have hs := consistent_of_propagated doms clauses hwf s (forward_propagated _ _ _ hf)
    exact track_reduceTheory _ hs.struct.sized.1 ih v e k hv hk hfree
  | check s _ ih =>
    obtain ⟨e1, -, -, -, e5⟩ := checkUnit_same s
    exact track_same e1 e5 ih
  | units fuel s t hf hu ih =>
    have hs := consistent_of_propagated doms clauses hwf s (forward_propagated _ _ _ hf)
    exact track_unitPropagation fuel s t hs ih hu
  | other s t _ h1 _ _ _ h5 ih => exact track_same h1 h5 ih

theorem mem_nonFree (s : Formula) (v k : Nat) :
    (v, k) ∈ s.nonFree ↔ v < s.VARLIST.length ∧ k < (s.var v).DOMAINSIZE ∧ s.assign v k ≠ 0 := by
  unfold Formula.nonFree
  simp only [List.mem_flatMap, List.mem_range, List.mem_map, List.mem_filter, bne_iff_ne, ne_eq,
    Prod.mk.injEq]
  constructor
  · rintro ⟨v', hv', k', ⟨hk', hne⟩, rfl, rfl⟩
    exact ⟨hv', hk', hne⟩
  · rintro ⟨hv, hk, hne⟩
    exact ⟨v, hv, k, ⟨hk, hne⟩, rfl, rfl⟩

theorem nodup_nonFree (s : Formula) : s.nonFree.Nodup := by
  unfold Formula.nonFree
  rw [List.nodup_flatMap]
  constructor
  · intro v _
    apply List.Nodup.map
    · intro a b h
      simpa using h
    · exact List.Nodup.filter _ (List.nodup_range _)
  · apply List.Pairwise.imp _ (List.nodup_range s.VARLIST.length)
    intro a b hab
    simp only [Function.onFun]
    rw [List.disjoint_iff_ne]
    intro p hp q hq hpq
    obtain ⟨k, -, rfl⟩ := List.mem_map.1 hp
    obtain ⟨k', -, rfl⟩ := List.mem_map.1 hq
    simp only [Prod.mk.injEq] at hpq
    exact hab hpq.1

theorem hasEntry_iff (s : Formula) (p : Nat × Nat) :
    s.hasEntry p = true ↔ p ∈ s.DECSTACK.map (fun d => (d.VAR, d.VAL)) := by
  unfold Formula.hasEntry
  rw [List.any_eq_true, List.mem_map]
  constructor
  · rintro ⟨d, hd, h⟩
    simp only [Bool.and_eq_true, beq_iff_eq] at h
    exact ⟨d, hd, by rw [h.1, h.2]⟩
  · rintro ⟨d, hd, h⟩
    refine ⟨d, hd, ?_⟩
    rw [← h]
    simp

/-! ## `verifyModel` marks the clauses with a true atom -/

theorem mark_refl (s : Formula) : Mark s s (fun _ => False) (fun _ => False) :=
  ⟨shape_refl s, fun _ _ => rfl, fun _ _ => rfl, fun _ _ => by simp⟩

theorem mark_trans {s t u : Formula} {T T' P Q : Nat → Prop} (h1 : Mark s t T P)
    (h2 : Mark t u T' Q) : Mark s u (fun v => T v ∨ T' v) (fun c => P c ∨ Q c) := by
  refine ⟨shape_trans h1.shape h2.shape, fun v k => (h2.assign v k).trans (h1.assign v k),
    fun v hv => ?_, fun c hc => ?_⟩
  · rw [h2.val v (fun h => hv (Or.inr h)), h1.val v (fun h => hv (Or.inl h))]
  · rw [h2.sat c (by rw [h1.shape.clist]; exact hc), h1.sat c hc]
    tauto

theorem mark_imp {s t : Formula} {T T' P P' : Nat → Prop} (h : Mark s t T P)
    (hT : ∀ v, T v → T' v) (hP : ∀ c, c < s.CLAUSELIST.length → (P c ↔ P' c)) : Mark s t T' P' :=
  ⟨h.shape, h.assign, fun v hv => h.val v (fun hh => hv (hT v hh)),
    fun c hc => by rw [h.sat c hc, hP c hc]⟩

theorem mark_setSat (s : Formula) (hna : NoAlias s) (c : Nat) :
    Mark s (s.setClause c (fun C => { C with SAT := true })) (fun _ => False) (fun c' => c' = c) := by
  refine ⟨⟨rfl, ?_, rfl⟩, fun _ _ => rfl, fun _ _ => rfl, fun c' hc' => ?_⟩
  · exact map_modifyAt _ _ _ _ (fun _ => rfl)
  · rw [clause_setClause hna]
    rw [noalias_length hna] at hc'
    by_cases h : c = c'
    · rw [if_pos ⟨h, hc'⟩]
      simp [h]
    · rw [if_neg (fun hh => h hh.1)]
      constructor
      · exact fun hh => Or.inl hh
      · rintro (hh | hh)
        · exact hh
        · exact absurd hh.symm h

theorem mark_markSat (s : Formula) (hna : NoAlias s) (recs : List Nat) :
    Mark s (markSat s recs) (fun _ => False) (fun c => c ∈ recs) := by
  unfold markSat
  induction recs generalizing s with
  | nil => exact mark_imp (mark_refl s) (fun _ h => h) (fun c _ => by simp)
  | cons c recs ih =>
    rw [List.foldl_cons]
    have h1 := mark_setSat s hna c
    have h2 := ih _ (noalias_of_shape h1.shape hna)
    exact mark_imp (mark_trans h1 h2) (fun v h => h.elim id id) (fun c' _ => by
      simp only [List.mem_cons])

theorem mark_verifyValues (i : Nat) (val : Int) (js : List Nat) (s : Formula) (hna : NoAlias s) :
    Mark s (js.foldl (verifyValue i val) s) (fun _ => False)
      (fun c => ∃ j ∈ js, c ∈ s.records i (decide ((j : Int) = val)) j) := by
  induction js generalizing s with
  | nil => exact mark_imp (mark_refl s) (fun _ h => h) (fun c _ => by simp)
  | cons j js ih =>
    rw [List.foldl_cons]
    have h1 : Mark s (verifyValue i val s j) (fun _ => False)
        (fun c => c ∈ s.records i (decide ((j : Int) = val)) j) := by
      unfold verifyValue
      by_cases hj : (j : Int) = val
      · simp only [hj, bne_self_eq_false, Bool.false_eq_true, if_false, decide_True]
        exact mark_markSat s hna _
      · have : ((j : Int) != val) = true := by simpa using hj
        simp only [this, if_true, hj, decide_False]
        exact mark_markSat s hna _
    have h2 := ih _ (noalias_of_shape h1.shape hna)
    refine mark_imp (mark_trans h1 h2) (fun v h => h.elim id id) (fun c _ => ?_)
    simp only [List.mem_cons, exists_eq_or_imp, shape_records h1.shape]

theorem mark_verifyFrees (i : Nat) (js : List Nat) (s : Formula) (hna : NoAlias s) :
    Mark s (js.foldl (verifyFree i) s) (fun v => v = i)
      (fun c => ∃ j ∈ js, s.assign i j = -1 ∧ c ∈ s.records i false j) := by
  induction js generalizing s with
  | nil => exact mark_imp (mark_refl s) (fun _ h => h.elim) (fun c _ => by simp)
  | cons j js ih =>
    rw [List.foldl_cons]
    have h1 : Mark s (verifyFree i s j) (fun v => v = i)
        (fun c => s.assign i j = -1 ∧ c ∈ s.records i false j) := by
      unfold verifyFree
      by_cases hj : s.assign i j = -1
      · simp only [hj, beq_self_eq_true, if_true, true_and]
        exact mark_imp (mark_markSat s hna _) (fun _ h => h.elim) (fun c _ => Iff.rfl)
      · have : (s.assign i j == -1) = false := by simpa using hj
        simp only [this, Bool.false_eq_true, if_false, hj, false_and]
        refine ⟨shape_setVar _ _ _ (fun V => by simp [Variable.shape]), fun v k => ?_,
          fun v hv => ?_, fun c _ => ?_⟩
        · simp only [Formula.assign, var_setVar]
          split_ifs <;> rfl
        · rw [var_setVar, if_neg (fun h => hv h.1.symm)]
        · have : ∀ f, (s.setVar i f).clause c = s.clause c := fun f => clause_of_heap rfl rfl c
          rw [this]
          simp
    have h2 := ih _ (noalias_of_shape h1.shape hna)
    refine mark_imp (mark_trans h1 h2) (fun v h => h.elim id id) (fun c _ => ?_)
    simp only [List.mem_cons, exists_eq_or_imp, shape_records h1.shape, h1.assign]

theorem mark_verifyVar (s : Formula) (hna : NoAlias s) (i : Nat) :
    Mark s (verifyVar s i) (fun v => v = i ∧ (s.var i).VAL = -1) (s.marks i) := by
  unfold verifyVar
  simp only
  by_cases hv : (s.var i).VAL = -1
  · have : ((s.var i).VAL != -1) = false := by simpa using hv
    rw [this]
    simp only [Bool.false_eq_true, if_false]
    refine mark_imp (mark_verifyFrees i _ s hna) (fun v h => ⟨h, hv⟩) (fun c _ => ?_)
    unfold Formula.marks
    rw [if_neg (by simpa using hv)]
    simp only [List.mem_range]
  · have : ((s.var i).VAL != -1) = true := by simpa using hv
    rw [this]
    simp only [if_true]
    refine mark_imp (mark_verifyValues i _ _ s hna) (fun v h => h.elim) (fun c _ => ?_)
    unfold Formula.marks
    rw [if_pos hv]
    simp only [List.mem_range]

theorem marks_congr {s t : Formula} (hsh : Shape s t) (hassign : ∀ v k, t.assign v k = s.assign v k)
    (i : Nat) (hval : (t.var i).VAL = (s.var i).VAL) (c : Nat) : t.marks i c ↔ s.marks i c := by
  unfold Formula.marks
  simp only [hval, shape_dom hsh, shape_records hsh, hassign]

theorem mark_verifyVars (is : List Nat) (hnd : is.Nodup) (s : Formula) (hna : NoAlias s) :
    Mark s (is.foldl verifyVar s) (fun v => v ∈ is ∧ (s.var v).VAL = -1)
      (fun c => ∃ i ∈ is, s.marks i c) := by
  induction is generalizing s with
  | nil => exact mark_imp (mark_refl s) (fun _ h => h.elim) (fun c _ => by simp)
  | cons i is ih =>
    rw [List.foldl_cons]
    have hi : i ∉ is := (List.nodup_cons.1 hnd).1
    have h1 := mark_verifyVar s hna i
    have h2 := ih (List.nodup_cons.1 hnd).2 _ (noalias_of_shape h1.shape hna)
    have hval : ∀ v ∈ is, ((verifyVar s i).var v).VAL = (s.var v).VAL := by
      intro v hv
      apply h1.val
      rintro ⟨rfl, -⟩
      exact hi hv
    refine mark_imp (mark_trans h1 h2) (fun v h => ?_) (fun c _ => ?_)
    · rcases h with ⟨rfl, h⟩ | ⟨h, h'⟩
      · exact ⟨List.mem_cons_self _ _, h⟩
      · exact ⟨List.mem_cons_of_mem _ h, by rw [← hval v h]; exact h'⟩
    · simp only [List.mem_cons, exists_eq_or_imp]
      constructor
      · rintro (h | ⟨v, hv, h⟩)
        · exact Or.inl h
        · exact Or.inr ⟨v, hv, (marks_congr h1.shape h1.assign v (hval v hv) c).1 h⟩
      · rintro (h | ⟨v, hv, h⟩)
        · exact Or.inl h
        · exact Or.inr ⟨v, hv, (marks_congr h1.shape h1.assign v (hval v hv) c).2 h⟩

theorem clearSat_spec (l : List Nat) (s : Formula) (hna : NoAlias s) :
    let t := l.foldl (fun s i => s.setClause i (fun C => { C with SAT := false })) s
    Shape s t ∧ t.VARLIST = s.VARLIST ∧
    ∀ c, (t.clause c).SAT = if c ∈ l ∧ c < s.HEAP.length then false else (s.clause c).SAT := by
  induction l generalizing s with
  | nil => exact ⟨shape_refl s, rfl, fun c => by simp⟩
  | cons i l ih =>
    simp only [List.foldl_cons]
    have hsh : Shape s (s.setClause i (fun C => { C with SAT := false })) :=
      ⟨rfl, map_modifyAt _ _ _ _ (fun _ => rfl), rfl⟩
    obtain ⟨a1, a2, a3⟩ := ih _ (noalias_of_shape hsh hna)
    refine ⟨shape_trans hsh a1, a2, fun c => ?_⟩
    rw [a3, clause_setClause hna]
    have hlen : (s.setClause i (fun C => { C with SAT := false })).HEAP.length = s.HEAP.length := by
      rw [setClause_heap hna, length_modifyAt]
    rw [hlen]
    by_cases hc : c < s.HEAP.length
    · by_cases hcl : c ∈ l
      · simp [hcl, hc]
      · by_cases hci : i = c
        · simp [hci, hc]
        · have : ¬ c = i := fun h => hci h.symm
          simp [hcl, hci, this]
    · simp [hc]

/-- The flags `SAT` after the loops of `verifyModel`: a clause has its flag when the
loops mark it for some variable. -/
theorem verifyState_spec (s : Formula) (hst : Struct s) :
    Shape s (verifyState s) ∧ (∀ v k, (verifyState s).assign v k = s.assign v k) ∧
    ∀ c < s.CLAUSELIST.length, ((verifyState s).clause c).SAT = true ↔
      ∃ i, 1 ≤ i ∧ i < s.VARLIST.length ∧ s.marks i c := by
  unfold verifyState
  simp only
  obtain ⟨a1, a2, a3⟩ := clearSat_spec (List.range s.CLAUSELIST.length) s hst.noalias
  generalize (List.range s.CLAUSELIST.length).foldl
    (fun s i => s.setClause i (fun C => { C with SAT := false })) s = s0 at a1 a2 a3 ⊢
  have hvar : ∀ v, s0.var v = s.var v := fun v => by simp [Formula.var, a2]
  have hassign0 : ∀ v k, s0.assign v k = s.assign v k := fun v k => by simp [Formula.assign, hvar]
  have hm := mark_verifyVars (List.range' 1 (s0.VARLIST.length - 1)) (List.nodup_range' _ _) s0
    (noalias_of_shape a1 hst.noalias)
  refine ⟨shape_trans a1 hm.shape, fun v k => (hm.assign v k).trans (hassign0 v k), fun c hc => ?_⟩
  rw [hm.sat c (by rw [a1.clist]; exact hc)]
  have hfalse : (s0.clause c).SAT = false := by
    rw [a3, if_pos ⟨List.mem_range.2 hc, by rw [← noalias_length hst.noalias]; exact hc⟩]
  rw [hfalse]
  simp only [Bool.false_eq_true, false_or, List.mem_range'_1]
  constructor
  · rintro ⟨i, ⟨h1, h2⟩, h⟩
    refine ⟨i, h1, ?_, (marks_congr a1 hassign0 i (by rw [hvar]) c).1 h⟩
    rw [a2] at h2
    omega
  · rintro ⟨i, h1, h2, h⟩
    refine ⟨i, ⟨h1, ?_⟩, (marks_congr a1 hassign0 i (by rw [hvar]) c).2 h⟩
    rw [a2]
    omega

theorem checkSat_iff (s : Formula) :
    checkSat s = true ↔ ∀ c < s.CLAUSELIST.length, (s.clause c).SAT = true := by
  unfold checkSat
  simp [List.all_eq_true]

/-! ## The driver invariant: the clauses of conflict analysis are falsified -/

theorem falsifiedBy_iff (a d : Literal) :
    falsifiedBy a d = true ↔
      d.VAR = a.VAR ∧ ((d.VAL = a.VAL ∧ a.EQUAL ≠ d.EQUAL) ∨
        (d.VAL ≠ a.VAL ∧ a.EQUAL = true ∧ d.EQUAL = true)) := by
  unfold falsifiedBy
  obtain ⟨av, ak, ae⟩ := a
  obtain ⟨dv, dk, de⟩ := d
  simp only [Bool.or_eq_true, Bool.and_eq_true, beq_iff_eq, bne_iff_ne, ne_eq]
  constructor
  · rintro (⟨⟨h1, h2⟩, h3⟩ | ⟨⟨⟨h1, h2⟩, h3⟩, h4⟩)
    · exact ⟨h1.symm, Or.inl ⟨h2.symm, h3⟩⟩
    · exact ⟨h1.symm, Or.inr ⟨fun h => h2 h.symm, h4, by rw [← h3]; exact h4⟩⟩
  · rintro ⟨h1, ⟨h2, h3⟩ | ⟨h2, h3, h4⟩⟩
    · exact Or.inl ⟨⟨h1.symm, h2.symm⟩, h3⟩
    · exact Or.inr ⟨⟨⟨h1.symm, fun h => h2 h.symm⟩, by rw [h3, h4]⟩, h3⟩

theorem contradicts_iff (s : Formula) (a : Literal) :
    s.contradicts a = true ↔
      (a.EQUAL = true ∧ s.assign a.VAR a.VAL = -1) ∨ (a.EQUAL = false ∧ s.assign a.VAR a.VAL = 1) := by
  unfold Formula.contradicts
  cases a.EQUAL <;> simp

theorem holds_iff (s : Formula) (a : Literal) :
    s.holds a = true ↔
      (a.EQUAL = true ∧ s.assign a.VAR a.VAL = 1) ∨ (a.EQUAL = false ∧ s.assign a.VAR a.VAL = -1) := by
  unfold Formula.holds
  cases a.EQUAL <;> simp

/-- An atom that is falsified has an entry of the decision stack that falsifies it. -/
theorem falsifier_exists {s : Formula} (hT : Trail s) (a : Literal)
    (hv : a.VAR < s.VARLIST.length) (hk : a.VAL < (s.var a.VAR).DOMAINSIZE)
    (hc : s.contradicts a = true) : ∃ d ∈ s.DECSTACK, falsifiedBy a d = true := by
  have hne : s.assign a.VAR a.VAL ≠ 0 := by
    rcases (contradicts_iff s a).1 hc with ⟨-, h⟩ | ⟨-, h⟩ <;> rw [h] <;> decide
  obtain ⟨d, hd, ⟨hdv, hm⟩, -⟩ := hT.setter a.VAR hv a.VAL hk hne
  refine ⟨d, hd, (falsifiedBy_iff a d).2 ⟨hdv, ?_⟩⟩
  rcases hm with ⟨hdk, hh⟩ | ⟨hdk, hde, h1⟩
  · left
    refine ⟨hdk, ?_⟩
    rw [holds_iff, hdv, hdk] at hh
    rcases (contradicts_iff s a).1 hc with ⟨e1, e2⟩ | ⟨e1, e2⟩
    · rcases hh with ⟨g1, g2⟩ | ⟨g1, g2⟩
      · rw [e2] at g2; exact absurd g2 (by decide)
      · rw [e1, g1]; decide
    · rcases hh with ⟨g1, g2⟩ | ⟨g1, g2⟩
      · rw [e1, g1]; decide
      · rw [e2] at g2; exact absurd g2 (by decide)
  · right
    refine ⟨hdk, ?_, hde⟩
    rcases (contradicts_iff s a).1 hc with ⟨e1, -⟩ | ⟨-, e2⟩
    · exact e1
    · rw [e2] at h1; exact absurd h1 (by decide)

theorem maxLit_hit_of_falsified {s : Formula} (hT : Trail s) (atoms : List Literal)
    (hF : Falsified s atoms) (a : Literal) (ha : atoms.get? (maxLit s atoms).1 = some a) :
    ∃ f, s.DECSTACK.get? (maxLit s atoms).2 = some f ∧ f ∈ s.DECSTACK ∧ a ∈ atoms ∧
      falsifiedBy a f = true := by
  obtain ⟨hi, hia⟩ := getD_of_get? ha
  have hmem : a ∈ atoms := by
    rw [← hia, List.getD_eq_getElem _ _ hi]
    exact List.getElem_mem _
  obtain ⟨-, r1, r2, r3⟩ := hF a hmem
  obtain ⟨d, hd, hFd⟩ := falsifier_exists hT a r1 r2 r3
  obtain ⟨i, hi', hia'⟩ := List.getElem_of_mem hmem
  obtain ⟨j, hj, hjd⟩ := List.getElem_of_mem hd
  have hex : ∃ i < atoms.length, ∃ j < s.DECSTACK.length,
      falsifiedBy (atoms.getD i default) (s.DECSTACK.getD j default) = true := by
    refine ⟨i, hi', j, hj, ?_⟩
    rw [List.getD_eq_getElem _ _ hi', List.getD_eq_getElem _ _ hj, hia', hjd]
    exact hFd
  obtain ⟨-, a2, a3, -⟩ := (maxLit_spec s atoms).2 hex
  refine ⟨_, get?_of_getD a2, ?_, hmem, ?_⟩
  · rw [List.getD_eq_getElem _ _ a2]
    exact List.getElem_mem _
  · rw [hia] at a3
    exact a3

theorem falsified_resolve {s : Formula} (hs : Consistent s) (hT : Trail s) (hR : Reasons s)
    (atoms : List Literal) (hF : Falsified s atoms) (a : Literal)
    (ha : atoms.get? (maxLit s atoms).1 = some a) (reason : List Literal)
    (hr : reasonAtoms s a (maxLit s atoms).2 = some reason) :
    Falsified s (resolve atoms a reason) := by
  obtain ⟨f, hf, hfmem, hamem, hFf⟩ := maxLit_hit_of_falsified hT atoms hF a ha
  obtain ⟨av1, av, ak, ac⟩ := hF a hamem
  obtain ⟨hfv, hfcase⟩ := (falsifiedBy_iff a f).1 hFf
  obtain ⟨⟨fr1, fr2⟩, fholds⟩ := hT.holds f hfmem
  intro b hb
  rcases ((resolve_mem_iff atoms reason a b).1).1 hb with ⟨hbA, -⟩ | ⟨hbR, hadd⟩
  · exact hF b hbA
  unfold reasonAtoms at hr
  simp only at hr
  unfold addedFromReason at hadd
  simp only [Bool.or_eq_true, Bool.and_eq_true, bne_iff_ne, ne_eq, beq_iff_eq] at hadd
  by_cases h1 : s.reason a.VAR a.VAL = -1
  · rw [h1] at hr
    simp only [beq_self_eq_true, if_true, hf, Option.map_some', Option.some.injEq] at hr
    rw [← hr] at hbR
    simp only [List.mem_cons, List.mem_singleton, List.not_mem_nil, or_false] at hbR
    rcases hfcase with ⟨hfk, hne⟩ | ⟨hfk, hae, hfe⟩
    · -- the entry is on the value of the atom: only the atom itself is added
      have hba : b = a := by
        obtain ⟨bv, bk, be⟩ := b
        obtain ⟨av', ak', ae'⟩ := a
        simp only [Literal.mk.injEq] at hbR ⊢
        simp only at hadd hfv hfk
        rcases hbR with ⟨r1, r2, r3⟩ | ⟨r1, r2, r3⟩ <;>
          rcases hadd with ((h | h) | h) | h <;>
          first
          | exact absurd (r1.trans hfv) h
          | exact ⟨r1.trans hfv, r2.trans hfk, h.2⟩
          | exact absurd (r2.trans hfk) h.1
          | exact absurd (r2.trans hfk) h.1.1
      rw [hba]
      exact ⟨av1, av, ak, ac⟩
    · -- the entry is `v = j` for another value: the atom `v ! j` is added
      have hbe : b = ⟨f.VAR, f.VAL, false⟩ := by
        rcases hbR with r | r
        · exfalso
          rw [r] at hadd
          simp only at hadd
          rcases hadd with ((h | h) | h) | h
          · exact h hfv
          · exact hfk h.1
          · exact h.2 hae.symm
          · exact Bool.noConfusion h.2
        · exact r
      rw [hbe]
      refine ⟨by rw [hfv]; exact av1, fr1, fr2, ?_⟩
      rw [contradicts_iff]
      right
      refine ⟨rfl, ?_⟩
      rcases (holds_iff s f).1 fholds with ⟨-, g⟩ | ⟨g, -⟩
      · exact g
      · rw [hfe] at g; exact Bool.noConfusion g
  · have h1' : (s.reason a.VAR a.VAL == -1) = false := by simpa using h1
    rw [h1'] at hr
    simp only [Bool.false_eq_true, if_false] at hr
    by_cases h2 : s.reason a.VAR a.VAL = -2
    · rw [h2] at hr
      simp only [beq_self_eq_true, if_true, Option.some.injEq] at hr
      rw [← hr] at hbR
      obtain ⟨i, hi, hbi⟩ := List.mem_map.1 hbR
      rw [List.mem_range] at hi
      rw [← hbi] at hadd ⊢
      simp only at hadd
      refine ⟨av1, av, hi, ?_⟩
      rcases hadd with ((h | h) | h) | h
      · exact absurd trivial h
      · have : (⟨a.VAR, i, true⟩ : Literal) = a := by
          obtain ⟨av', ak', ae'⟩ := a
          simp only [Literal.mk.injEq, true_and]
          exact ⟨h.1, h.2⟩
        rw [this]; exact ac
      · have hae : a.EQUAL = false := by
          cases hE : a.EQUAL with
          | true => exact absurd hE.symm h.2
          | false => rfl
        rcases (contradicts_iff s a).1 ac with ⟨e1, -⟩ | ⟨-, e2⟩
        · rw [hae] at e1; exact Bool.noConfusion e1
        · have := (hR.entailed a.VAR av a.VAL ak e2 h2 i hi h.1).1
          rw [contradicts_iff]
          exact Or.inl ⟨rfl, this⟩
      · exact Bool.noConfusion h.2
    · have h2' : (s.reason a.VAR a.VAL == -2) = false := by simpa using h2
      rw [h2'] at hr
      simp only [Bool.false_eq_true, if_false] at hr
      split_ifs at hr with h3
      simp only [Option.some.injEq] at hr
      rw [← hr] at hbR
      have hne : s.assign a.VAR a.VAL ≠ 0 := assign_ne_of_contradicts ac
      obtain ⟨-, u, hm, hall⟩ := hR.unit a.VAR av a.VAL ak hne h3.1
      rcases hall b hbR with hbu | ⟨hbc, -⟩
      · exfalso
        obtain ⟨huv, hu⟩ := hm
        rw [hbu] at hadd
        rcases hu with ⟨huk, hh⟩ | ⟨huk, hue, hf1⟩
        · have hdiff : u.EQUAL ≠ a.EQUAL := by
            rw [holds_iff, huv, huk] at hh
            rcases (contradicts_iff s a).1 ac with ⟨e1, e2⟩ | ⟨e1, e2⟩
            · rcases hh with ⟨g1, g2⟩ | ⟨g1, g2⟩
              · rw [e2] at g2; exact absurd g2 (by decide)
              · rw [e1, g1]; decide
            · rcases hh with ⟨g1, g2⟩ | ⟨g1, g2⟩
              · rw [e1, g1]; decide
              · rw [e2] at g2; exact absurd g2 (by decide)
          rcases hadd with ((h | h) | h) | h
          · exact h huv
          · exact hdiff h.2
          · exact h.1 huk
          · exact h.1.1 huk
        · have hae : a.EQUAL = true := by
            rcases (contradicts_iff s a).1 ac with ⟨e1, -⟩ | ⟨-, e2⟩
            · exact e1
            · rw [e2] at hf1; exact absurd hf1 (by decide)
          rcases hadd with ((h | h) | h) | h
          · exact h huv
          · exact huk h.1
          · exact h.2 (by rw [hue, hae])
          · rw [hue] at h; exact Bool.noConfusion h.2
      · obtain ⟨b1, b2, b3⟩ := hs.struct.atoms _ h3.2 b hbR
        exact ⟨b1, b2, b3, hbc⟩

theorem conflict_falsified {s : Formula} (hs : Consistent s) (hcv : ConflictValid s) :
    Falsified s (s.clause s.CONFLICTINGCLAUSE.toNat).ATOM_LIST := by
  obtain ⟨-, hc, hu, hn⟩ := hcv
  obtain ⟨u1, -, u3⟩ := hs.clauses.unsat _ hc hu
  rw [hn] at u1
  have hfree : freeAtoms s (s.clause s.CONFLICTINGCLAUSE.toNat) = 0 := by exact_mod_cast u1.symm
  unfold freeAtoms at hfree
  rw [List.length_eq_zero, List.filter_eq_nil_iff] at hfree
  intro a ha
  obtain ⟨r1, r2, r3⟩ := hs.struct.atoms _ hc a ha
  refine ⟨r1, r2, r3, contradicts_of_not hs.cells.tern a r2 r3 ?_ (u3 a ha)⟩
  have := hfree a ha
  simpa using this

theorem conflict_not_potent {s : Formula} (hs : Consistent s) (hU : UnitClosed s)
    (hl : 1 ≤ s.LEVEL) (hcv : ConflictValid s) :
    Potent s (s.clause s.CONFLICTINGCLAUSE.toNat).ATOM_LIST = false := by
  have hF := conflict_falsified hs hcv
  obtain ⟨-, hc, hu, -⟩ := hcv
  obtain ⟨-, -, u3⟩ := hs.clauses.unsat _ hc hu
  have h2 := hU _ hc s.LEVEL hl (le_refl _) (fun a ha hh => by
    rw [u3 a ha] at hh; exact Bool.noConfusion hh)
  rw [potent_eq]
  have heq : (s.clause s.CONFLICTINGCLAUSE.toNat).ATOM_LIST.filter
      (fun a => s.free a || decide (s.LEVEL ≤ s.level a.VAR a.VAL)) =
      (s.clause s.CONFLICTINGCLAUSE.toNat).ATOM_LIST.filter
        (fun a => s.level a.VAR a.VAL == s.LEVEL) := by
    apply List.filter_congr
    intro a ha
    obtain ⟨-, -, -, hc'⟩ := hF a ha
    have hne := assign_ne_of_contradicts hc'
    have hb := (hs.cells.bound a.VAR a.VAL hne).2
    have hfr : s.free a = false := by unfold Formula.free; simpa using hne
    rw [hfr, Bool.false_or]
    by_cases he : s.level a.VAR a.VAL = s.LEVEL
    · simp [he]
    · have : ¬ s.LEVEL ≤ s.level a.VAR a.VAL := by omega
      simp [he, this]
  rw [heq] at h2
  simp only [decide_eq_false_iff_not]
  omega

theorem analyze_falsified (fuel : Nat) (s : Formula) (hs : Consistent s) (hT : Trail s)
    (hR : Reasons s) (r : ClauseRef) (hF : Falsified s (r.atoms s))
    (hst : ∀ a, r = .stored a → Potent s (r.atoms s) = false) (t : Formula)
    (learned : List Literal) (h : analyzeConflict fuel s r = some (t, learned)) :
    t = learnClause s (.fresh learned) ∧ Falsified s learned ∧ Potent s learned = true := by
  induction fuel generalizing r with
  | zero => simp [analyzeConflict] at h
  | succ fuel ih =>
    rw [analyzeConflict] at h
    simp only at h
    by_cases hp : Potent s (r.atoms s) = true
    · rw [if_pos hp] at h
      simp only [Option.some.injEq, Prod.mk.injEq] at h
      cases r with
      | stored a =>
        rw [hst a rfl] at hp
        exact Bool.noConfusion hp
      | fresh atoms =>
        obtain ⟨h1, h2⟩ := h
        have : atoms = learned := h2
        subst this
        exact ⟨h1.symm, hF, hp⟩
    · rw [if_neg hp] at h
      cases ha : (r.atoms s).get? (maxLit s (r.atoms s)).1 with
      | none => rw [ha] at h; exact Option.noConfusion h
      | some a =>
        rw [ha] at h
        simp only at h
        cases hr : reasonAtoms s a (maxLit s (r.atoms s)).2 with
        | none => rw [hr] at h; exact Option.noConfusion h
        | some reason =>
          rw [hr] at h
          simp only at h
          exact ih (.fresh (resolve (r.atoms s) a reason))
            (falsified_resolve hs hT hR (r.atoms s) hF a ha reason hr)
            (fun a' h' => ClauseRef.noConfusion h') h

/-- The conflict analysis of a driver round: the learned clause is a new clause, all
of its atoms are falsified and exactly one of them has the current level. -/
theorem analyze_conflict (inner : Nat) (s : Formula) (hd : Deep s) (hc : s.CONFLICT = true)
    (hl : 1 ≤ s.LEVEL) (t : Formula) (learned : List Literal)
    (h : analyzeConflict inner s (.stored (s.addr s.CONFLICTINGCLAUSE.toNat)) = some (t, learned)) :
    t = learnClause s (.fresh learned) ∧ Falsified s learned ∧ Potent s learned = true := by
  have hcv := hd.conf hl hc
  exact analyze_falsified inner s hd.cons hd.trail hd.reasons
    (.stored (s.addr s.CONFLICTINGCLAUSE.toNat)) (conflict_falsified hd.cons hcv)
    (fun a _ => conflict_not_potent hd.cons hd.closed hl hcv) t learned h

/-! ## Learning a clause whose atoms are falsified -/

theorem norecs_fields {s t : Formula}
    (h : t.VARLIST.map Variable.norecs = s.VARLIST.map Variable.norecs) :
    t.VARLIST.length = s.VARLIST.length ∧
    (∀ v, (t.var v).DOMAINSIZE = (s.var v).DOMAINSIZE) ∧
    (∀ v k, t.assign v k = s.assign v k) ∧ (∀ v k, t.level v k = s.level v k) ∧
    (∀ v k, t.reason v k = s.reason v k) ∧ (∀ v, t.head v = s.head v) ∧
    (∀ v e k, t.cnt v e k = s.cnt v e k) := by
  have hlen : t.VARLIST.length = s.VARLIST.length := by simpa using congrArg List.length h
  have e := norecs_var h
  refine ⟨hlen, fun v => ?_, fun v k => ?_, fun v k => ?_, fun v k => ?_, fun v => ?_,
    fun v e' k => ?_⟩
  · simpa [Variable.norecs] using congrArg Variable.DOMAINSIZE (e v)
  · have := congrArg Variable.ATOMASSIGN (e v)
    simp only [Variable.norecs] at this
    simp [Formula.assign, this]
  · have := congrArg Variable.ATOMLEVEL (e v)
    simp only [Variable.norecs] at this
    simp [Formula.level, this]
  · have := congrArg Variable.CLAUSEID (e v)
    simp only [Variable.norecs] at this
    simp [Formula.reason, this]
  · have h1 := congrArg Variable.VAL (e v)
    have h2 := congrArg Variable.SAT (e v)
    have h3 := congrArg Variable.LEVEL (e v)
    simp only [Variable.norecs] at h1 h2 h3
    simp [Formula.head, h1, h2, h3]
  · have h1 := congrArg Variable.ATOMCNTPOS (e v)
    have h2 := congrArg Variable.ATOMCNTNEG (e v)
    simp only [Variable.norecs] at h1 h2
    simp [Formula.cnt, Formula.cntPos, Formula.cntNeg, h1, h2]

theorem addRecord_records (cn : Nat) (s : Formula) (a : Literal) (hwf : s.WF) (v : Nat) (e : Bool)
    (k : Nat) (hv : v < s.VARLIST.length) (hk : k < (s.var v).DOMAINSIZE) :
    (s.setVar a.VAR (fun V => V.AddRecord cn a.VAL a.EQUAL)).records v e k =
      s.records v e k ++ (if a = ⟨v, k, e⟩ then [cn] else []) := by
  obtain ⟨-, -, -, -, -, h6, h7⟩ := wf_var hwf hv
  unfold Formula.records
  rw [var_setVar]
  obtain ⟨x, y, z⟩ := a
  simp only [Literal.mk.injEq]
  by_cases h : x = v ∧ v < s.VARLIST.length
  · rw [if_pos h]
    obtain ⟨rfl, -⟩ := h
    have hk6 : k < (s.var x).ATOMRECPOS.length := by rw [h6]; exact hk
    have hk7 : k < (s.var x).ATOMRECNEG.length := by rw [h7]; exact hk
    by_cases hy : y = k
    · subst hy
      cases z <;> cases e <;>
        simp only [Variable.AddRecord, getD_modifyAt, hk6, hk7, Bool.false_eq_true,
          Bool.true_eq_false, if_false, if_true, and_self, and_true, and_false, true_and,
          List.append_nil]
    · cases z <;> cases e <;>
        simp only [Variable.AddRecord, getD_modifyAt, hk6, hk7, Bool.false_eq_true,
          Bool.true_eq_false, if_false, if_true, and_self, and_true, and_false, true_and, hy,
          false_and, List.append_nil]
  · rw [if_neg h]
    have hx : ¬ x = v := fun hx => h ⟨hx, hv⟩
    simp [hx]

theorem addRecords_spec (cn : Nat) (s : Formula) (hsz : Sized s) (atoms : List Literal) :
    let t := atoms.foldl (fun s a => s.setVar a.VAR (fun V => V.AddRecord cn a.VAL a.EQUAL)) s
    t.VARLIST.map Variable.norecs = s.VARLIST.map Variable.norecs ∧
    ∀ v < s.VARLIST.length, ∀ k < (s.var v).DOMAINSIZE, ∀ e,
      t.records v e k = s.records v e k ++ List.replicate (atoms.count ⟨v, k, e⟩) cn := by
  apply foldl_prefix (fun s a => s.setVar a.VAR (fun V => V.AddRecord cn a.VAL a.EQUAL))
    (fun pre u => u.VARLIST.map Variable.norecs = s.VARLIST.map Variable.norecs ∧
      ∀ v < s.VARLIST.length, ∀ k < (s.var v).DOMAINSIZE, ∀ e,
        u.records v e k = s.records v e k ++ List.replicate (pre.count ⟨v, k, e⟩) cn) atoms s
  · exact ⟨rfl, fun v _ k _ e => by simp⟩
  · intro pre a post u _ ⟨h1, h2⟩
    have hn : (u.setVar a.VAR (fun V => V.AddRecord cn a.VAL a.EQUAL)).VARLIST.map Variable.norecs
        = u.VARLIST.map Variable.norecs := map_modifyAt _ _ _ _ (fun V => norecs_addRecord V _ _ _)
    obtain ⟨f1, f2, -⟩ := norecs_fields h1
    have hwfu : u.WF := (norecs_sized h1 hsz).1
    refine ⟨hn.trans h1, fun v hv k hk e => ?_⟩
    rw [addRecord_records cn u a hwfu v e k (by rw [f1]; exact hv) (by rw [f2]; exact hk),
      h2 v hv k hk e, List.count_append]
    by_cases ha : a = ⟨v, k, e⟩
    · subst ha
      simp only [if_true, List.count_cons, List.count_nil, beq_self_eq_true, zero_add]
      rw [List.append_assoc, ← List.replicate_succ']
    · have hb : (a == (⟨v, k, e⟩ : Literal)) = false := by simpa using ha
      simp only [ha, if_false, List.count_cons, List.count_nil, hb, Bool.false_eq_true,
        add_zero, List.append_nil]

theorem learnClause_spec (s : Formula) (hst : Struct s) (A : List Literal) :
    (learnClause s (.fresh A)).VARLIST.map Variable.norecs = s.VARLIST.map Variable.norecs ∧
    (learnClause s (.fresh A)).HEAP = s.HEAP ++ [{ Clause.new A with NumUnAss := 0 }] ∧
    (learnClause s (.fresh A)).CLAUSELIST = s.CLAUSELIST ++ [s.HEAP.length] ∧
    (learnClause s (.fresh A)).LEVEL = s.LEVEL ∧
    (learnClause s (.fresh A)).DECSTACK = s.DECSTACK ∧
    (learnClause s (.fresh A)).CONFLICT = s.CONFLICT ∧
    (learnClause s (.fresh A)).CONFLICTINGCLAUSE = s.CONFLICTINGCLAUSE ∧
    ∀ v < s.VARLIST.length, ∀ k < (s.var v).DOMAINSIZE, ∀ e,
      (learnClause s (.fresh A)).records v e k =
        s.records v e k ++ List.replicate (A.count ⟨v, k, e⟩) s.CLAUSELIST.length := by
  have hcid : (pushClause s (.fresh A)).CLAUSELIST.length - 1 = s.CLAUSELIST.length := by
    simp [pushClause]
  have heq : learnClause s (.fresh A) =
      A.foldl (fun u a => u.setVar a.VAR (fun V => V.AddRecord s.CLAUSELIST.length a.VAL a.EQUAL))
        (pushClause s (.fresh A)) := by
    unfold learnClause
    simp only [hcid]
    rfl
  rw [heq]
  have hk : ∀ (l : List Literal) (t : Formula) (cid : Nat),
      (fun (u : Formula) => (u.HEAP, u.CLAUSELIST, u.LEVEL, u.DECSTACK, u.CONFLICT,
        u.CONFLICTINGCLAUSE))
        (l.foldl (fun s a => s.setVar a.VAR (fun V => V.AddRecord cid a.VAL a.EQUAL)) t) =
      (t.HEAP, t.CLAUSELIST, t.LEVEL, t.DECSTACK, t.CONFLICT, t.CONFLICTINGCLAUSE) := by
    intro l t cid
    apply foldl_keeps (fun (u : Formula) => (u.HEAP, u.CLAUSELIST, u.LEVEL, u.DECSTACK,
      u.CONFLICT, u.CONFLICTINGCLAUSE))
    intro u a
    rfl
  have hk' := hk A (pushClause s (.fresh A)) s.CLAUSELIST.length
  simp only [Prod.mk.injEq] at hk'
  obtain ⟨k1, k2, k3, k4, k5, k6⟩ := hk'
  have hsz1 : Sized (pushClause s (.fresh A)) := hst.sized
  obtain ⟨a1, a2⟩ := addRecords_spec s.CLAUSELIST.length (pushClause s (.fresh A)) hsz1 A
  exact ⟨a1.trans rfl, k1.trans rfl, k2.trans rfl, k3.trans rfl, k4.trans rfl, k5.trans rfl,
    k6.trans rfl, a2⟩

theorem learnClause_clause (s : Formula) (hst : Struct s) (A : List Literal) :
    NoAlias (learnClause s (.fresh A)) ∧
    (learnClause s (.fresh A)).CLAUSELIST.length = s.CLAUSELIST.length + 1 ∧
    ∀ c, (learnClause s (.fresh A)).clause c =
      if c < s.CLAUSELIST.length then s.clause c
      else if c = s.CLAUSELIST.length then { Clause.new A with NumUnAss := 0 } else default := by
  obtain ⟨-, h1, h2, -⟩ := learnClause_spec s hst A
  have hna := hst.noalias
  have hlen := noalias_length hna
  have hna' : NoAlias (learnClause s (.fresh A)) := by
    unfold NoAlias
    rw [h1, h2]
    simp only [List.length_append, List.length_singleton]
    rw [List.range_succ, ← hna]
  refine ⟨hna', by rw [h2]; simp, fun c => ?_⟩
  rw [clause_eq_getD hna', clause_eq_getD hna, h1]
  by_cases hc : c < s.CLAUSELIST.length
  · rw [if_pos hc]
    simp only [List.getD_eq_getElem?_getD]
    rw [List.getElem?_append_left (by omega)]
  · rw [if_neg hc]
    by_cases hc2 : c = s.CLAUSELIST.length
    · rw [if_pos hc2, hc2, hlen]
      simp [List.getD_eq_getElem?_getD]
    · rw [if_neg hc2]
      apply List.getD_eq_default
      simp only [List.length_append, List.length_singleton]
      omega

/-- Learning a new clause whose atoms are falsified keeps the invariants of values,
clauses and counters. -/
theorem consistent_learn (s : Formula) (hs : Consistent s) (A : List Literal)
    (hF : Falsified s A) : Consistent (learnClause s (.fresh A)) := by
  obtain ⟨h1, -, -, h4, -, -, -, hrec⟩ := learnClause_spec s hs.struct A
  obtain ⟨hna', hnlen, hclause⟩ := learnClause_clause s hs.struct A
  obtain ⟨f1, f2, f3, f4, -, -, f7⟩ := norecs_fields h1
  have hholds : ∀ a, (learnClause s (.fresh A)).holds a = s.holds a := holds_congr f3
  have hfree : ∀ C, freeAtoms (learnClause s (.fresh A)) C = freeAtoms s C := by
    intro C; simp [freeAtoms, f3]
  have hnot : ∀ a ∈ A, s.assign a.VAR a.VAL ≠ 0 ∧ s.holds a = false := by
    intro a ha
    obtain ⟨-, -, -, hc⟩ := hF a ha
    refine ⟨assign_ne_of_contradicts hc, ?_⟩
    rcases (contradicts_iff s a).1 hc with ⟨e1, e2⟩ | ⟨e1, e2⟩
    · unfold Formula.holds; rw [e1, e2]; decide
    · unfold Formula.holds; rw [e1, e2]; decide
  refine ⟨⟨norecs_sized h1 hs.struct.sized, hna', ?_, ?_⟩, by rw [h4]; exact hs.level,
    ⟨?_, ?_, ?_⟩, ⟨?_, ?_⟩, ?_⟩
  · intro c hc a ha
    rw [hnlen] at hc
    rw [hclause c] at ha
    rw [f1, f2]
    by_cases hc1 : c < s.CLAUSELIST.length
    · rw [if_pos hc1] at ha
      exact hs.struct.atoms c hc1 a ha
    · have hc2 : c = s.CLAUSELIST.length := by omega
      rw [if_neg hc1, if_pos hc2] at ha
      obtain ⟨r1, r2, r3, -⟩ := hF a ha
      exact ⟨r1, r2, r3⟩
  · intro v hv k hk e c
    rw [f1] at hv
    rw [f2] at hk
    rw [hrec v hv k hk e, hnlen, hclause c, List.count_append, hs.struct.recs v hv k hk e c]
    by_cases hc1 : c < s.CLAUSELIST.length
    · have hne : s.CLAUSELIST.length ≠ c := by omega
      rw [if_pos hc1, if_pos (by omega), if_pos hc1, List.count_replicate]
      simp [hne]
    · rw [if_neg hc1, if_neg hc1]
      by_cases hc2 : c = s.CLAUSELIST.length
      · rw [if_pos (by omega), if_pos hc2, hc2, List.count_replicate]
        simp [Clause.new]
      · have hne : ¬ (s.CLAUSELIST.length = c) := fun hh => hc2 hh.symm
        rw [if_neg (by omega), List.count_replicate]
        simp [hne]
  · intro v hv k hk
    rw [f1] at hv
    rw [f2] at hk
    rw [f3]
    exact hs.cells.tern v hv k hk
  · intro v k hne
    rw [f3] at hne
    rw [f4, h4]
    exact hs.cells.bound v k hne
  · intro v hv k hk h0
    rw [f1] at hv
    rw [f2] at hk
    rw [f3] at h0
    rw [f4]
    exact hs.cells.free v hv k hk h0
  · intro c hc hu
    rw [hnlen] at hc
    rw [hclause c] at hu ⊢
    rw [hfree]
    by_cases hc1 : c < s.CLAUSELIST.length
    · rw [if_pos hc1] at hu ⊢
      obtain ⟨u1, u2, u3⟩ := hs.clauses.unsat c hc1 hu
      exact ⟨u1, u2, fun a ha => by rw [hholds]; exact u3 a ha⟩
    · have hc2 : c = s.CLAUSELIST.length := by omega
      rw [if_neg hc1, if_pos hc2]
      refine ⟨?_, rfl, fun a ha => by rw [hholds]; exact (hnot a ha).2⟩
      have : freeAtoms s { Clause.new A with NumUnAss := 0 } = 0 := by
        unfold freeAtoms
        rw [List.length_eq_zero, List.filter_eq_nil_iff]
        intro a ha
        have := (hnot a ha).1
        simpa using this
      rw [this]
      rfl
  · intro c hc hsat
    rw [hnlen] at hc
    rw [hclause c] at hsat ⊢
    by_cases hc1 : c < s.CLAUSELIST.length
    · rw [if_pos hc1] at hsat ⊢
      obtain ⟨u1, ⟨a, ha, hh, hl⟩, u3⟩ := hs.clauses.sat c hc1 hsat
      refine ⟨u1, ⟨a, ha, by rw [hholds]; exact hh, by rw [f4]; exact hl⟩, fun b hb hh' => ?_⟩
      rw [f4]
      rw [hholds] at hh'
      exact u3 b hb hh'
    · have hc2 : c = s.CLAUSELIST.length := by omega
      rw [if_neg hc1, if_pos hc2] at hsat
      exact Bool.noConfusion hsat
  · intro v hv k hk e
    rw [f1] at hv
    rw [f2] at hk
    rw [f7, f3, hs.counts v hv k hk e]
    by_cases h0 : s.assign v k = 0
    · rw [if_pos h0, if_pos h0]
      have hcount : A.count ⟨v, k, e⟩ = 0 := by
        rw [List.count_eq_zero]
        intro hmem
        exact (hnot _ hmem).1 h0
      unfold Formula.unsatRecs
      rw [hrec v hv k hk e, hcount]
      simp only [List.replicate_zero, List.append_nil]
      congr 2
      apply List.filter_congr
      intro c hc
      have hc1 := ((records_mem hs.struct hv hk e c).1 hc).1
      rw [hclause c, if_pos hc1]
    · rw [if_neg h0, if_neg h0]

/-! ## Backtracking leaves the flags alone -/

theorem flags_addLiteral (s : Formula) (v : Nat) (e : Bool) (k : Nat) :
    (addLiteral s v e k).flags = s.flags := by
  unfold addLiteral
  apply foldl_keeps
  intro s c
  split_ifs <;> rfl

theorem flags_unsatisfyAtoms (c : Nat) (L : Int) (s : Formula) (atoms : List Literal) :
    (unsatisfyAtoms c L s atoms).flags = s.flags := by
  unfold unsatisfyAtoms
  apply foldl_keeps
  intro s a
  split_ifs <;> rfl

theorem flags_unsatisfyClauses (s : Formula) (v : Nat) (e : Bool) (k : Nat) (L : Int) :
    (unsatisfyClauses s v e k L).flags = s.flags := by
  unfold unsatisfyClauses
  apply foldl_keeps
  intro s c
  split_ifs
  · simp only
    have : ∀ (t : Formula) f, (t.setClause c f).flags = t.flags := fun _ _ => rfl
    rw [this, flags_unsatisfyAtoms]
  · rfl

theorem flags_undoAdd (L : Int) (i : Nat) (s : Formula) (j : Nat) :
    (undoAdd L i s j).flags = s.flags := by
  unfold undoAdd
  split_ifs <;> first | rfl | exact flags_addLiteral _ _ _ _

theorem flags_undoValue (L : Int) (i : Nat) (s : Formula) (j : Nat) :
    (undoValue L i s j).flags = s.flags := by
  unfold undoValue
  by_cases h : s.level i j > L
  · rw [if_pos h]
    simp only
    have : ∀ (t : Formula) f, (t.setVar i f).flags = t.flags := fun _ _ => rfl
    rw [this]
    split_ifs <;> exact flags_unsatisfyClauses _ _ _ _ _
  · rw [if_neg h]

theorem flags_undoVar (L : Int) (s : Formula) (i : Nat) :
    (undoVar L s i).flags = s.flags := by
  unfold undoVar
  simp only
  have : ∀ (t : Formula) f, (t.setVar i f).flags = t.flags := fun _ _ => rfl
  split_ifs
  · rw [this, foldl_keeps _ _ (flags_undoValue L i)]
  · rw [foldl_keeps _ _ (flags_undoValue L i)]

theorem flags_undoTheory (s : Formula) (L : Int) : (undoTheory s L).flags = s.flags := by
  unfold undoTheory
  simp only
  have h : ∀ (t : Formula) (st : List Literal),
      ({ t with DECSTACK := st } : Formula).flags = t.flags := fun _ _ => rfl
  rw [h, foldl_keeps _ _ (flags_undoVar L)]
  apply foldl_keeps
  intro t i
  exact foldl_keeps _ _ (flags_undoAdd L i) _ _

theorem conflict_undoTheory (s : Formula) (L : Int) : (undoTheory s L).CONFLICT = s.CONFLICT := by
  have := flags_undoTheory s L
  simp only [Formula.flags, Prod.mk.injEq] at this
  exact this.1

theorem headsUpTo_of_heads {s : Formula} (h : Heads s) : HeadsUpTo s s.LEVEL :=
  ⟨h.assigned, h.sat, h.unsat,
    fun v hv k hk h1 hl => h.complete v hv k hk h1 (Or.inl hl)⟩

/-! ## The deep invariant across backtracking -/

theorem undo_cases {x : Formula} (hx : Consistent x) (M : Int) {v k : Nat}
    (hv : v < x.VARLIST.length) (hk : k < (x.var v).DOMAINSIZE) :
    (M < x.level v k ∧ (undoTheory x M).assign v k = 0) ∨
    (x.level v k ≤ M ∧ (undoTheory x M).assign v k = x.assign v k ∧
      (undoTheory x M).level v k = x.level v k ∧
      (undoTheory x M).reason v k = x.reason v k) := by
  rcases undoTheory_cell_cases x hx M v k hv hk with ⟨h1, h2⟩ | ⟨h1, h2⟩
  · left
    simp only [Formula.cell, Prod.mk.injEq] at h2
    exact ⟨h1, h2.1⟩
  · right
    simp only [Formula.cell, Prod.mk.injEq] at h2
    exact ⟨not_lt.mp h1, h2.1, h2.2.1, h2.2.2⟩

theorem undo_kept {x : Formula} (hx : Consistent x) (M : Int) {v k : Nat}
    (hv : v < x.VARLIST.length) (hk : k < (x.var v).DOMAINSIZE)
    (h : (undoTheory x M).assign v k ≠ 0) :
    x.level v k ≤ M ∧ (undoTheory x M).assign v k = x.assign v k ∧
      (undoTheory x M).level v k = x.level v k ∧
      (undoTheory x M).reason v k = x.reason v k := by
  rcases undo_cases hx M hv hk with ⟨_, h2⟩ | h2
  · exact absurd h2 h
  · exact h2

theorem undo_low {x : Formula} (hx : Consistent x) (M : Int) {v k : Nat}
    (hv : v < x.VARLIST.length) (hk : k < (x.var v).DOMAINSIZE) (h : x.level v k ≤ M) :
    (undoTheory x M).assign v k = x.assign v k ∧
      (undoTheory x M).level v k = x.level v k ∧
      (undoTheory x M).reason v k = x.reason v k := by
  rcases undo_cases hx M hv hk with ⟨h1, _⟩ | h2
  · omega
  · exact h2.2

theorem undo_holds {x : Formula} (hx : Consistent x) (M : Int) {a : Literal}
    (hv : a.VAR < x.VARLIST.length) (hk : a.VAL < (x.var a.VAR).DOMAINSIZE) :
    (undoTheory x M).holds a = true ↔ (x.holds a = true ∧ x.level a.VAR a.VAL ≤ M) := by
  rcases undo_cases hx M hv hk with ⟨h1, h2⟩ | ⟨h1, h2, _⟩
  · constructor
    · intro h
      exact absurd h2 (assign_ne_of_holds h)
    · intro h
      omega
  · rw [holds_iff, holds_iff, h2]
    exact ⟨fun h => ⟨h, h1⟩, fun h => h.1⟩

theorem undo_contradicts {x : Formula} (hx : Consistent x) (M : Int) {a : Literal}
    (hv : a.VAR < x.VARLIST.length) (hk : a.VAL < (x.var a.VAR).DOMAINSIZE) :
    (undoTheory x M).contradicts a = true ↔
      (x.contradicts a = true ∧ x.level a.VAR a.VAL ≤ M) := by
  rcases undo_cases hx M hv hk with ⟨h1, h2⟩ | ⟨h1, h2, _⟩
  · constructor
    · intro h
      rw [contradicts_iff, h2] at h
      rcases h with ⟨_, h⟩ | ⟨_, h⟩ <;> exact absurd h (by decide)
    · intro h
      omega
  · rw [contradicts_iff, contradicts_iff, h2]
    exact ⟨fun h => ⟨h, h1⟩, fun h => h.1⟩

theorem undo_free {x : Formula} (hx : Consistent x) (M : Int) {a : Literal}
    (hv : a.VAR < x.VARLIST.length) (hk : a.VAL < (x.var a.VAR).DOMAINSIZE) :
    (undoTheory x M).free a = true ↔ (x.free a = true ∨ M < x.level a.VAR a.VAL) := by
  rcases undo_cases hx M hv hk with ⟨h1, h2⟩ | ⟨h1, h2, _⟩
  · simp only [Formula.free, beq_iff_eq, h2, true_iff]
    exact Or.inr h1
  · simp only [Formula.free, beq_iff_eq, h2]
    exact ⟨Or.inl, fun h => h.elim id (fun h => by omega)⟩

theorem trail_undo {x : Formula} (hx : Consistent x) (hT : Trail x) (M : Int) :
    Trail (undoTheory x M) := by
  have hsh := shape_undoTheory x M
  have hlen := shape_length hsh
  have hdom := shape_dom hsh
  constructor
  · intro d hd
    rw [undoTheory_stack_filter, List.mem_filter] at hd
    obtain ⟨hd1, hd2⟩ := hd
    have hne : (undoTheory x M).assign d.VAR d.VAL ≠ 0 := by
      intro h0
      rw [h0] at hd2
      exact absurd hd2 (by decide)
    obtain ⟨hr, hh⟩ := hT.holds d hd1
    obtain ⟨hk1, _⟩ := undo_kept hx M hr.1 hr.2 hne
    refine ⟨?_, (undo_holds hx M hr.1 hr.2).2 ⟨hh, hk1⟩⟩
    unfold Formula.inRange
    rw [hlen, hdom]
    exact hr
  · intro v hv k hk hne
    rw [hlen] at hv
    rw [hdom] at hk
    obtain ⟨hl, ha, hlv, _⟩ := undo_kept hx M hv hk hne
    obtain ⟨d, hd, hmd, hld⟩ := hT.setter v hv k hk (by rw [← ha]; exact hne)
    obtain ⟨hr, hh⟩ := hT.holds d hd
    have hdl : x.level d.VAR d.VAL ≤ M := by omega
    obtain ⟨da, dl, _⟩ := undo_low hx M hr.1 hr.2 hdl
    refine ⟨d, ?_, ?_, by rw [dl, hlv, hld]⟩
    · rw [undoTheory_stack_filter, List.mem_filter]
      refine ⟨hd, ?_⟩
      have : (undoTheory x M).assign d.VAR d.VAL ≠ 0 :=
        assign_ne_of_holds ((undo_holds hx M hr.1 hr.2).2 ⟨hh, hdl⟩)
      simpa using this
    · refine ⟨hmd.1, ?_⟩
      rcases hmd.2 with ⟨h1, _⟩ | ⟨h1, h2, h3⟩
      · exact Or.inl ⟨h1, (undo_holds hx M hr.1 hr.2).2 ⟨hh, hdl⟩⟩
      · exact Or.inr ⟨h1, h2, by rw [ha]; exact h3⟩

theorem reasons_undo {x : Formula} (hx : Consistent x) (hR : Reasons x) (M : Int) :
    Reasons (undoTheory x M) := by
  have hsh := shape_undoTheory x M
  have hlen := shape_length hsh
  have hdom := shape_dom hsh
  constructor
  · intro v hv k hk hne h0
    rw [hlen] at hv
    rw [hdom] at hk
    obtain ⟨hl, ha, hlv, hrs⟩ := undo_kept hx M hv hk hne
    rw [hrs] at h0 ⊢
    obtain ⟨hc, u, hmu, hat⟩ := hR.unit v hv k hk (by rw [← ha]; exact hne) h0
    refine ⟨by rw [hsh.clist]; exact hc, u, ?_, ?_⟩
    · refine ⟨hmu.1, ?_⟩
      rcases hmu.2 with ⟨h1, h2⟩ | ⟨h1, h2, h3⟩
      · refine Or.inl ⟨h1, ?_⟩
        have hv' : u.VAR < x.VARLIST.length := by rw [hmu.1]; exact hv
        have hk' : u.VAL < (x.var u.VAR).DOMAINSIZE := by rw [hmu.1, h1]; exact hk
        refine (undo_holds hx M hv' hk').2 ⟨h2, ?_⟩
        rw [hmu.1, h1]
        exact hl
      · exact Or.inr ⟨h1, h2, by rw [ha]; exact h3⟩
    · intro b hb
      rw [shape_atoms hsh] at hb
      rcases hat b hb with h | ⟨h1, h2⟩
      · exact Or.inl h
      · right
        obtain ⟨_, bv, bk⟩ := hx.struct.atoms _ hc b hb
        have hbl : x.level b.VAR b.VAL ≤ M := by omega
        obtain ⟨_, bl, _⟩ := undo_low hx M bv bk hbl
        exact ⟨(undo_contradicts hx M bv bk).2 ⟨h1, hbl⟩, by rw [bl, hlv]; exact h2⟩
  · intro v hv k hk h1 hr i hi hik
    rw [hlen] at hv
    rw [hdom] at hk hi
    have hne : (undoTheory x M).assign v k ≠ 0 := by rw [h1]; decide
    obtain ⟨hl, ha, hlv, hrs⟩ := undo_kept hx M hv hk hne
    obtain ⟨e1, e2⟩ := hR.entailed v hv k hk (by rw [← ha]; exact h1) (by rw [← hrs]; exact hr)
      i hi hik
    obtain ⟨ia, il, _⟩ := undo_low hx M hv hi (by omega)
    exact ⟨by rw [ia]; exact e1, by rw [il, hlv]; exact e2⟩

theorem heads_undo {x : Formula} (hx : Consistent x) (L0 : Int) (hH : HeadsUpTo x L0)
    (M : Int) (hM : M < L0) : Heads (undoTheory x M) := by
  have hsh := shape_undoTheory x M
  have hlen := shape_length hsh
  have hdom := shape_dom hsh
  have hhead := head_undoTheory x M
  have hvl : ∀ v, ((x.var v).VAL, (x.var v).SAT, (x.var v).LEVEL) = x.head v := fun _ => rfl
  have key : ∀ v < x.VARLIST.length, ∀ k < (x.var v).DOMAINSIZE,
      (undoTheory x M).assign v k = 1 →
      x.level v k ≤ M ∧ x.assign v k = 1 ∧ (undoTheory x M).level v k = x.level v k ∧
        (undoTheory x M).head v = x.head v := by
    intro v hv k hk h1
    have hne : (undoTheory x M).assign v k ≠ 0 := by rw [h1]; decide
    obtain ⟨hl, ha, hlv, _⟩ := undo_kept hx M hv hk hne
    have hxa : x.assign v k = 1 := by rw [← ha]; exact h1
    have hxh := hH.assigned v hv k hk hxa
    refine ⟨hl, hxa, hlv, ?_⟩
    rw [hhead, if_neg]
    rintro ⟨_, _, h3⟩
    have : (x.var v).LEVEL = x.level v k := by
      have := congrArg (fun p => p.2.2) hxh
      exact this
    omega
  constructor
  · intro v hv k hk h1
    rw [hlen] at hv
    rw [hdom] at hk
    obtain ⟨_, hxa, hlv, hh⟩ := key v hv k hk h1
    rw [hh, hlv]
    exact hH.assigned v hv k hk hxa
  · intro v h1 hv hs
    rw [hlen] at hv
    have hh := hhead v
    by_cases hc : 1 ≤ v ∧ v < x.VARLIST.length ∧ M < (x.var v).LEVEL
    · rw [if_pos hc] at hh
      have : ((undoTheory x M).var v).SAT = false := congrArg (fun p => p.2.1) hh
      rw [this] at hs
      exact absurd hs (by decide)
    · rw [if_neg hc] at hh
      have hs' : ((undoTheory x M).var v).SAT = (x.var v).SAT := congrArg (fun p => p.2.1) hh
      rw [hs'] at hs
      obtain ⟨k, hk, hxa⟩ := hH.sat v h1 hv hs
      have hxh := hH.assigned v hv k hk hxa
      have hlv : (x.var v).LEVEL = x.level v k := congrArg (fun p => p.2.2) hxh
      have hl : x.level v k ≤ M := by
        by_contra hcon
        exact hc ⟨h1, hv, by omega⟩
      obtain ⟨ka, _, _⟩ := undo_low hx M hv hk hl
      exact ⟨k, by rw [hdom]; exact hk, by rw [ka]; exact hxa⟩
  · intro v hv hs
    rw [hlen] at hv
    have hh := hhead v
    by_cases hc : 1 ≤ v ∧ v < x.VARLIST.length ∧ M < (x.var v).LEVEL
    · rw [if_pos hc] at hh
      exact hh
    · rw [if_neg hc] at hh
      have hs' : ((undoTheory x M).var v).SAT = (x.var v).SAT := congrArg (fun p => p.2.1) hh
      rw [hs'] at hs
      rw [hh]
      exact hH.unsat v hv hs
  · intro v hv k hk h1 _ i hi hik
    rw [hlen] at hv
    rw [hdom] at hk hi
    obtain ⟨hl, hxa, hlv, _⟩ := key v hv k hk h1
    obtain ⟨e1, e2⟩ := hH.complete v hv k hk hxa (by omega) i hi hik
    obtain ⟨ia, il, _⟩ := undo_low hx M hv hi (by omega)
    exact ⟨by rw [ia]; exact e1, by rw [il, hlv]; exact e2⟩

theorem closed_undo {x : Formula} (hx : Consistent x) (bl M : Int) (hM : 0 ≤ M)
    (hU : UnitClosed (x.withLevel bl)) : UnitClosed ((undoTheory x M).withLevel bl) := by
  have hsh := shape_undoTheory x M
  have hU' : ∀ c < x.CLAUSELIST.length, ∀ l : Int, 1 ≤ l → l ≤ bl →
      (∀ a ∈ (x.clause c).ATOM_LIST, x.holds a = true → l ≤ x.level a.VAR a.VAL) →
      2 ≤ ((x.clause c).ATOM_LIST.filter
        (fun a => x.free a || decide (l ≤ x.level a.VAR a.VAL))).length := hU
  intro c hc l h1 hl hprem
  have hc' : c < x.CLAUSELIST.length := by
    have : c < (undoTheory x M).CLAUSELIST.length := hc
    rw [hsh.clist] at this
    exact this
  have hl' : l ≤ bl := hl
  have hprem' : ∀ a ∈ (x.clause c).ATOM_LIST, (undoTheory x M).holds a = true →
      l ≤ (undoTheory x M).level a.VAR a.VAL := by
    intro a ha
    exact hprem a (by
      show a ∈ ((undoTheory x M).clause c).ATOM_LIST
      rw [shape_atoms hsh]
      exact ha)
  show 2 ≤ (((undoTheory x M).clause c).ATOM_LIST.filter
    (fun a => (undoTheory x M).free a || decide (l ≤ (undoTheory x M).level a.VAR a.VAL))).length
  rw [shape_atoms hsh]
  have h2 := hU' c hc' (min l (M + 1)) (by omega) (by omega) (by
    intro a ha hh
    obtain ⟨_, av, ak⟩ := hx.struct.atoms c hc' a ha
    by_cases hlow : x.level a.VAR a.VAL ≤ M
    · have := hprem' a ha ((undo_holds hx M av ak).2 ⟨hh, hlow⟩)
      rw [(undo_low hx M av ak hlow).2.1] at this
      omega
    · omega)
  refine le_trans h2 ?_
  rw [← List.countP_eq_length_filter, ← List.countP_eq_length_filter]
  apply List.countP_mono_left
  intro a ha hp
  obtain ⟨_, av, ak⟩ := hx.struct.atoms c hc' a ha
  simp only [Bool.or_eq_true, decide_eq_true_eq] at hp ⊢
  by_cases hlow : x.level a.VAR a.VAL ≤ M
  · rcases hp with hp | hp
    · exact Or.inl ((undo_free hx M av ak).2 (Or.inl hp))
    · right
      rw [(undo_low hx M av ak hlow).2.1]
      omega
  · exact Or.inl ((undo_free hx M av ak).2 (Or.inr (by omega)))

theorem zero_undo {x : Formula} (hx : Consistent x) (M : Int) (hM : 0 ≤ M)
    (hfree : ∀ c < x.CLAUSELIST.length,
      (∀ a ∈ (x.clause c).ATOM_LIST, x.holds a = true → M < x.level a.VAR a.VAL) →
      ∃ a ∈ (x.clause c).ATOM_LIST, x.free a = true ∨ M < x.level a.VAR a.VAL) :
    ∀ c < (undoTheory x M).CLAUSELIST.length, ((undoTheory x M).clause c).SAT = false →
      ((undoTheory x M).clause c).NumUnAss ≠ 0 := by
  have hsh := shape_undoTheory x M
  have hw := consistent_undoTheory x hx M (by omega)
  intro c hc hs
  obtain ⟨hn, _, hno⟩ := hw.clauses.unsat c hc hs
  have hc' : c < x.CLAUSELIST.length := by rw [← hsh.clist]; exact hc
  rw [shape_atoms hsh] at hno
  obtain ⟨a, ha, hf⟩ := hfree c hc' (by
    intro a ha hh
    obtain ⟨_, av, ak⟩ := hx.struct.atoms c hc' a ha
    by_contra hcon
    have := (undo_holds hx M av ak).2 ⟨hh, by omega⟩
    rw [hno a ha] at this
    exact absurd this (by decide))
  obtain ⟨_, av, ak⟩ := hx.struct.atoms c hc' a ha
  have hfa := (undo_free hx M av ak).2 hf
  rw [hn]
  unfold freeAtoms
  rw [shape_atoms hsh]
  have hmem : a ∈ (x.clause c).ATOM_LIST.filter
      (fun a => (undoTheory x M).assign a.VAR a.VAL == 0) :=
    List.mem_filter.2 ⟨ha, hfa⟩
  have := List.length_pos_of_mem hmem
  omega

theorem deep_undo {x : Formula} (hx : Consistent x) (hT : Trail x) (hR : Reasons x)
    (L0 : Int) (hH : HeadsUpTo x L0) (bl M : Int) (hM : 0 ≤ M) (hMb : M ≤ bl) (hb : bl < L0)
    (hcf : x.CONFLICT = false) (hU : UnitClosed (x.withLevel bl))
    (hfree : ∀ c < x.CLAUSELIST.length,
      (∀ a ∈ (x.clause c).ATOM_LIST, x.holds a = true → M < x.level a.VAR a.VAL) →
      ∃ a ∈ (x.clause c).ATOM_LIST, x.free a = true ∨ M < x.level a.VAR a.VAL) :
    Deep (undoTheory (x.withLevel bl) M) := by
  rw [undoTheory_withLevel]
  have hcw : ((undoTheory x M).withLevel bl).CONFLICT = false := by
    show (undoTheory x M).CONFLICT = false
    rw [conflict_undoTheory]
    exact hcf
  have t1 := trail_undo hx hT M
  have t2 := reasons_undo hx hR M
  have t3 := heads_undo hx L0 hH M (by omega)
  refine ⟨?_, ⟨t1.holds, t1.setter⟩, ⟨t2.unit, t2.entailed⟩,
    ⟨t3.assigned, t3.sat, t3.unsat, ?_⟩, closed_undo hx bl M hM hU, ?_, ?_⟩
  · exact consistent_withLevel (consistent_undoTheory x hx M (by omega)) bl (by omega)
      (fun v k hne => le_trans (levelBound_undoTheory x M hx.struct.sized
        (fun v k h => (hx.cells.bound v k h).1) v k hne).2 hMb)
  · intro v hv k hk h1 _
    exact t3.complete v hv k hk h1 (Or.inr (by rw [conflict_undoTheory]; exact hcf))
  · intro _ _
    exact zero_undo hx M hM hfree
  · intro _ h
    rw [hcw] at h
    exact absurd h (by decide)

/-! ## The learned clause and the backtrack level -/

theorem level_of_falsified {s : Formula} (hs : Consistent s) {A : List Literal}
    (hF : Falsified s A) (a : Literal) (ha : a ∈ A) :
    0 ≤ s.level a.VAR a.VAL ∧ s.level a.VAR a.VAL ≤ s.LEVEL := by
  apply hs.cells.bound
  have := (hF a ha).2.2.2
  rw [contradicts_iff] at this
  rcases this with ⟨_, h⟩ | ⟨_, h⟩ <;> rw [h] <;> decide

theorem learned_levels (s : Formula) (hs : Consistent s) (hl : 1 ≤ s.LEVEL) (A : List Literal)
    (hF : Falsified s A) (hP : Potent s A = true) :
    0 ≤ backtrackLevel s A ∧ backtrackLevel s A < s.LEVEL ∧
    (∃ a ∈ A, s.level a.VAR a.VAL = s.LEVEL) ∧
    (1 ≤ backtrackLevel s A → ∃ b ∈ A, s.level b.VAR b.VAL = backtrackLevel s A) ∧
    (∀ a ∈ A, s.level a.VAR a.VAL < s.LEVEL → s.level a.VAR a.VAL ≤ backtrackLevel s A) := by
  rw [potent_eq, decide_eq_true_eq] at hP
  have hb := level_of_falsified hs hF
  have htop : ∃ a ∈ A, s.level a.VAR a.VAL = s.LEVEL := by
    have hpos : 0 < (A.filter (fun a => s.level a.VAR a.VAL == s.LEVEL)).length := by
      rw [hP]; decide
    obtain ⟨a, ha⟩ := List.exists_mem_of_length_pos hpos
    rw [List.mem_filter] at ha
    exact ⟨a, ha.1, by simpa using ha.2⟩
  rw [backtrackLevel_eq]
  obtain ⟨_, m2, m3⟩ := levelMax_spec s A (-1)
  by_cases h1 : A.length = 1
  · rw [if_pos h1]
    refine ⟨le_refl _, by omega, htop, fun h => absurd h (by decide), ?_⟩
    intro a ha hlt
    obtain ⟨a0, ha0, hl0⟩ := htop
    obtain ⟨y, hy⟩ := List.length_eq_one.1 h1
    rw [hy, List.mem_singleton] at ha ha0
    rw [ha, ← ha0, hl0] at hlt
    omega
  · rw [if_neg h1]
    by_cases h2 : levelMax s A (-1) ≠ -1
    · rw [if_pos h2]
      rcases m2 with m2 | ⟨b, hb1, hb2, hb3⟩
      · exact absurd m2 h2
      · exact ⟨by have := (hb b hb1).1; omega, hb3, htop, fun _ => ⟨b, hb1, hb2⟩, m3⟩
    · exfalso
      have h2' : levelMax s A (-1) = -1 := not_not.1 h2
      have hex : ∃ a ∈ A, s.level a.VAR a.VAL ≠ s.LEVEL := by
        by_contra hcon
        push_neg at hcon
        have : A.filter (fun a => s.level a.VAR a.VAL == s.LEVEL) = A :=
          List.filter_eq_self.2 (fun a ha => by simpa using hcon a ha)
        rw [this] at hP
        exact h1 hP
      obtain ⟨a, ha, hne⟩ := hex
      have h3 := m3 a ha (lt_of_le_of_ne (hb a ha).2 hne)
      have := (hb a ha).1
      omega

theorem backtrackLevel_congr {s t : Formula} (hlev : t.LEVEL = s.LEVEL)
    (hlevel : ∀ v k, t.level v k = s.level v k) (A : List Literal) :
    backtrackLevel t A = backtrackLevel s A := by
  unfold backtrackLevel
  simp only [hlev, hlevel]

theorem learn_ready (s : Formula) (hd : Deep s) (hl : 1 ≤ s.LEVEL)
    (A : List Literal) (hF : Falsified s A) (hP : Potent s A = true) (x : Formula)
    (hx : x = { learnClause s (.fresh A) with
      BACKTRACKS := (learnClause s (.fresh A)).BACKTRACKS + 1, CONFLICT := false }) :
    Consistent x ∧ Trail x ∧ Reasons x ∧ HeadsUpTo x s.LEVEL ∧ x.CONFLICT = false ∧
    x.LEVEL = s.LEVEL ∧
    backtrackLevel x A = backtrackLevel s A ∧
    UnitClosed (x.withLevel (backtrackLevel s A)) ∧
    ∀ M : Int, 0 ≤ M → M ≤ backtrackLevel s A → ∀ c < x.CLAUSELIST.length,
      (∀ a ∈ (x.clause c).ATOM_LIST, x.holds a = true → M < x.level a.VAR a.VAL) →
      ∃ a ∈ (x.clause c).ATOM_LIST, x.free a = true ∨ M < x.level a.VAR a.VAL := by
  have hs := hd.cons
  obtain ⟨q1, _, q3, q4, q5, q6, _, _⟩ := learnClause_spec s hs.struct A
  obtain ⟨_, r2, r3⟩ := learnClause_clause s hs.struct A
  obtain ⟨n1, n2, n3, n4, n5, n6, _⟩ := norecs_fields q1
  obtain ⟨b0, b1, ⟨atop, hatop, ltop⟩, b3, _⟩ := learned_levels s hs hl A hF hP
  have hct := consistent_learn s hs A hF
  obtain ⟨tT, tR, tH⟩ := cells_congr n1 n2 (by rw [r2]; omega)
    (fun c hc => by rw [r3, if_pos hc]) q5 (fun l h => by rw [q4, q6] at h; exact h)
    n3 n4 (fun v k _ => n5 v k) n6 hd.trail hd.reasons hd.heads
  have hUp := headsUpTo_of_heads tH
  rw [q4] at hUp
  have hxa : ∀ v k, x.assign v k = s.assign v k := by
    intro v k; rw [hx]; exact n3 v k
  have hxl : ∀ v k, x.level v k = s.level v k := by
    intro v k; rw [hx]; exact n4 v k
  have hxh : ∀ a, x.holds a = s.holds a := by
    intro a; unfold Formula.holds; rw [hxa]
  have hxf : ∀ a, x.free a = s.free a := by
    intro a; unfold Formula.free; rw [hxa]
  have hxn : x.CLAUSELIST.length = s.CLAUSELIST.length + 1 := by rw [hx]; exact r2
  have hxc : ∀ c, x.clause c =
      if c < s.CLAUSELIST.length then s.clause c
      else if c = s.CLAUSELIST.length then { Clause.new A with NumUnAss := 0 } else default := by
    intro c; rw [hx]; exact r3 c
  have hxL : x.LEVEL = s.LEVEL := by rw [hx]; exact q4
  have hlast : (x.clause s.CLAUSELIST.length).ATOM_LIST = A := by
    rw [hxc, if_neg (lt_irrefl _), if_pos rfl]
    rfl
  refine ⟨?_, ?_, ?_, ?_, by rw [hx], hxL, backtrackLevel_congr hxL hxl A, ?_, ?_⟩
  · rw [hx]
    exact consistent_same hct rfl rfl rfl rfl
  · rw [hx]
    exact ⟨tT.holds, tT.setter⟩
  · rw [hx]
    exact ⟨tR.unit, tR.entailed⟩
  · rw [hx]
    exact ⟨hUp.assigned, hUp.sat, hUp.unsat, hUp.complete⟩
  · intro c hc l h1 hlb hprem
    have hc' : c < s.CLAUSELIST.length + 1 := by rw [← hxn]; exact hc
    have hlb' : l ≤ backtrackLevel s A := hlb
    have hprem' : ∀ a ∈ (x.clause c).ATOM_LIST, x.holds a = true → l ≤ x.level a.VAR a.VAL :=
      hprem
    show 2 ≤ ((x.clause c).ATOM_LIST.filter
      (fun a => x.free a || decide (l ≤ x.level a.VAR a.VAL))).length
    simp only [hxf, hxl]
    simp only [hxh, hxl] at hprem'
    by_cases hold : c < s.CLAUSELIST.length
    · have hcl : x.clause c = s.clause c := by rw [hxc, if_pos hold]
      rw [hcl] at hprem' ⊢
      exact hd.closed c hold l h1 (by omega) hprem'
    · have hce : c = s.CLAUSELIST.length := by omega
      rw [hce, hlast]
      obtain ⟨b, hb, lb⟩ := b3 (by omega)
      by_contra hcon
      have heq := eq_of_filter_le_one
        (fun a => s.free a || decide (l ≤ s.level a.VAR a.VAL)) A (by omega) atop b hatop hb
        (by simp only [Bool.or_eq_true, decide_eq_true_eq]; right; omega)
        (by simp only [Bool.or_eq_true, decide_eq_true_eq]; right; omega)
      rw [heq] at ltop
      omega
  · intro M hM0 hMb c hc hprem
    have hc' : c < s.CLAUSELIST.length + 1 := by rw [← hxn]; exact hc
    simp only [hxf, hxl]
    simp only [hxh, hxl] at hprem
    by_cases hold : c < s.CLAUSELIST.length
    · have hcl : x.clause c = s.clause c := by rw [hxc, if_pos hold]
      rw [hcl] at hprem ⊢
      have h2 := hd.closed c hold (M + 1) (by omega) (by omega)
        (fun a ha hh => by have := hprem a ha hh; omega)
      obtain ⟨a, ha⟩ := List.exists_mem_of_length_pos (lt_of_lt_of_le (by decide : 0 < 2) h2)
      rw [List.mem_filter] at ha
      refine ⟨a, ha.1, ?_⟩
      have := ha.2
      simp only [Bool.or_eq_true, decide_eq_true_eq] at this
      rcases this with h | h
      · exact Or.inl h
      · exact Or.inr (by omega)
    · have hce : c = s.CLAUSELIST.length := by omega
      rw [hce, hlast]
      exact ⟨atop, hatop, Or.inr (by omega)⟩

/-! ## The deep invariant along the drivers -/

theorem heads_setVar (s : Formula) (v : Nat) (f : Variable → Variable)
    (h : ∀ V, ((f V).VAL, (f V).SAT, (f V).LEVEL) = (V.VAL, V.SAT, V.LEVEL)) :
    (s.setVar v f).VARLIST.map (fun V => (V.VAL, V.SAT, V.LEVEL)) =
      s.VARLIST.map (fun V => (V.VAL, V.SAT, V.LEVEL)) :=
  map_modifyAt _ _ _ _ h

theorem buildFunction_heads (doms : List Nat) (clauses : List (List Literal)) :
    (BuildFunction doms clauses).VARLIST.map (fun V => (V.VAL, V.SAT, V.LEVEL)) =
      ((-1 : Int), true, (-1 : Int)) :: List.replicate doms.length ((-1 : Int), false, (-1 : Int)) := by
  unfold BuildFunction
  simp only
  rw [foldl_keeps (fun s => s.VARLIST.map (fun V => (V.VAL, V.SAT, V.LEVEL))) addInputClause]
  · simp only [List.map_cons, List.map_map, Variable.new, List.cons.injEq, true_and]
    apply List.ext_getElem
    · simp
    · intro n h1 h2
      simp
  · intro s atoms
    unfold addInputClause
    simp only
    apply foldl_keeps (fun s => s.VARLIST.map (fun V => (V.VAL, V.SAT, V.LEVEL)))
    intro t a
    rw [heads_setVar, Formula.bumpCnt, heads_setVar]
    · intro V
      split_ifs <;> rfl
    · intro V
      unfold Variable.AddRecord
      split_ifs <;> rfl

theorem buildFunction_head (doms : List Nat) (clauses : List (List Literal)) (v : Nat)
    (hv : v < (BuildFunction doms clauses).VARLIST.length) :
    (BuildFunction doms clauses).head v = (-1, decide (v = 0), -1) := by
  have h := buildFunction_heads doms clauses
  have h2 := congrArg (fun l => l.getD v ((default : Variable).VAL, (default : Variable).SAT,
    (default : Variable).LEVEL)) h
  simp only [List.getD_map] at h2
  have hlen : v < doms.length + 1 := by
    have := congrArg List.length h
    simp only [List.length_map, List.length_cons, List.length_replicate] at this
    omega
  show (((BuildFunction doms clauses).VARLIST.getD v default).VAL,
    ((BuildFunction doms clauses).VARLIST.getD v default).SAT,
    ((BuildFunction doms clauses).VARLIST.getD v default).LEVEL) = _
  rw [h2]
  cases v with
  | zero => rfl
  | succ n =>
    simp only [List.getD_cons_succ]
    rw [List.getD_eq_getElem _ _ (by simp only [List.length_replicate]; omega)]
    simp

theorem deep_buildFunction (doms : List Nat) (clauses : List (List Literal))
    (hwf : WellFormedInput doms clauses) : Deep (BuildFunction doms clauses) := by
  have hld := loaded_buildFunction doms clauses hwf
  have hcons := consistent_of_loaded hld
  have hfree := hld.free
  have hne : ∀ v k, ¬ (BuildFunction doms clauses).assign v k ≠ 0 := fun v k h => h (hfree v k)
  have h1 : ∀ v k, ¬ (BuildFunction doms clauses).assign v k = 1 := fun v k h => by
    rw [hfree v k] at h
    exact absurd h (by decide)
  have hL := hld.level
  refine ⟨hcons, ⟨?_, ?_⟩, ⟨?_, ?_⟩, ⟨?_, ?_, ?_, ?_⟩, ?_, ?_, ?_⟩
  · intro d hd
    rw [buildFunction_stack] at hd
    exact absurd hd (List.not_mem_nil d)
  · intro v _ k _ h
    exact absurd h (hne v k)
  · intro v _ k _ h
    exact absurd h (hne v k)
  · intro v _ k _ h
    exact absurd h (h1 v k)
  · intro v _ k _ h
    exact absurd h (h1 v k)
  · intro v hv1 hv hs
    have h := buildFunction_head doms clauses v hv
    have : ((BuildFunction doms clauses).var v).SAT = decide (v = 0) :=
      congrArg (fun p => p.2.1) h
    rw [this, decide_eq_true_eq] at hs
    omega
  · intro v hv hs
    have h := buildFunction_head doms clauses v hv
    have : ((BuildFunction doms clauses).var v).SAT = decide (v = 0) :=
      congrArg (fun p => p.2.1) h
    rw [this] at hs
    rw [h, hs]
  · intro v _ k _ h
    exact absurd h (h1 v k)
  · intro c _ l hl1 hl2
    rw [hL] at hl2
    omega
  · intro h
    rw [hL] at h
    omega
  · intro h
    rw [hL] at h
    omega

theorem clause_same {s t : Formula} (h2 : t.HEAP = s.HEAP) (h3 : t.CLAUSELIST = s.CLAUSELIST)
    (c : Nat) : t.clause c = s.clause c := by
  unfold Formula.clause Formula.addr
  rw [h2, h3]

theorem deep_same {s t : Formula} (h1 : t.VARLIST = s.VARLIST) (h2 : t.HEAP = s.HEAP)
    (h3 : t.CLAUSELIST = s.CLAUSELIST) (h4 : t.DECSTACK = s.DECSTACK) (h5 : t.LEVEL = s.LEVEL)
    (h6 : t.CONFLICT = s.CONFLICT) (h7 : t.CONFLICTINGCLAUSE = s.CONFLICTINGCLAUSE)
    (hd : Deep s) : Deep t := by
  obtain ⟨tT, tR, tH⟩ := cells_same h1 h2 h3 h4 h5 h6 hd.trail hd.reasons hd.heads
  have hcl := clause_same h2 h3
  have hassign : ∀ v k, t.assign v k = s.assign v k := by
    intro v k; unfold Formula.assign Formula.var; rw [h1]
  have hlevel : ∀ v k, t.level v k = s.level v k := by
    intro v k; unfold Formula.level Formula.var; rw [h1]
  refine ⟨consistent_same hd.cons h1 h2 h3 h5, tT, tR, tH,
    closed_congr (by rw [h3]) (fun c => by rw [hcl]) h5 hassign hlevel hd.closed, ?_, ?_⟩
  · intro hl hc c hcn hs
    rw [hcl] at hs ⊢
    exact hd.zero (by rw [← h5]; exact hl) (by rw [← h6]; exact hc) c (by rw [← h3]; exact hcn) hs
  · intro hl hc
    have := hd.conf (by rw [← h5]; exact hl) (by rw [← h6]; exact hc)
    unfold ConflictValid at this ⊢
    rw [h7, h3, hcl]
    exact this

theorem conflictStep_spec (inner : Nat) (s s3 : Formula) (hd : Deep s) (hc : s.CONFLICT = true)
    (hl : 1 ≤ s.LEVEL) (h : conflictStep inner s = some s3) :
    ∃ A, Falsified s A ∧ Potent s A = true ∧
      s3 = Formula.withLevel { learnClause s (.fresh A) with
        BACKTRACKS := (learnClause s (.fresh A)).BACKTRACKS + 1, CONFLICT := false }
        (backtrackLevel s A) := by
  unfold conflictStep at h
  split_ifs at h with hg
  cases ha : analyzeConflict inner s (.stored (s.addr s.CONFLICTINGCLAUSE.toNat)) with
  | none => rw [ha] at h; cases h
  | some p =>
    obtain ⟨s1, learned⟩ := p
    rw [ha] at h
    simp only [Option.some.injEq] at h
    obtain ⟨e1, e2, e3⟩ := analyze_conflict inner s hd hc hl s1 learned ha
    refine ⟨learned, e2, e3, ?_⟩
    obtain ⟨q1, _, _, q4, _⟩ := learnClause_spec s hd.cons.struct learned
    obtain ⟨_, _, _, n4, _⟩ := norecs_fields q1
    rw [← h, e1, backtrackLevel_congr q4 n4]
    rfl

theorem deep_conflict (inner : Nat) (s s3 : Formula) (hd : Deep s) (hc : s.CONFLICT = true)
    (hl : 1 ≤ s.LEVEL) (h : conflictStep inner s = some s3) (M : Int) (hM : 0 ≤ M)
    (hMb : M ≤ s3.LEVEL) :
    Deep (undoTheory s3 M) ∧ (undoTheory s3 M).CONFLICT = false ∧ 0 ≤ s3.LEVEL ∧
      s3.LEVEL < s.LEVEL := by
  obtain ⟨A, hF, hP, e⟩ := conflictStep_spec inner s s3 hd hc hl h
  obtain ⟨x1, x2, x3, x4, x5, _, _, x8, x9⟩ := learn_ready s hd hl A hF hP _ rfl
  obtain ⟨b0, b1, _⟩ := learned_levels s hd.cons hl A hF hP
  have hL3 : s3.LEVEL = backtrackLevel s A := by rw [e]; rfl
  rw [hL3] at hMb ⊢
  refine ⟨?_, ?_, b0, b1⟩
  · rw [e]
    exact deep_undo x1 x2 x3 s.LEVEL x4 _ M hM hMb b1 x5 x8 (x9 M hM hMb)
  · rw [conflict_undoTheory, e]
    rfl

theorem deep_searchRound (inner : Nat) (timeUp : Bool) (s t : Formula) (hd : Deep s)
    (h : searchRound inner timeUp s = some (.next t)) : Deep t := by
  unfold searchRound at h
  split_ifs at h with h1 h2 h3 h4
  · simp at h
  · simp at h
  · simp at h
  · cases hcs : conflictStep inner s with
    | none => rw [hcs] at h; cases h
    | some s3 =>
      rw [hcs] at h
      simp only [Option.map_eq_some', Round.next.injEq] at h
      obtain ⟨t', ht, rfl⟩ := h
      have hl : 1 ≤ s.LEVEL := by
        have := hd.cons.level
        have hne : s.LEVEL ≠ 0 := by simpa using h4
        omega
      obtain ⟨d1, d2, d3, _⟩ := deep_conflict inner s s3 hd h3 hl hcs s3.LEVEL
        (by
          obtain ⟨A, hF, hP, e⟩ := conflictStep_spec inner s s3 hd h3 hl hcs
          have := (learned_levels s hd.cons hl A hF hP).1
          rw [e]
          exact this)
        (le_refl _)
      exact deep_propagateDecide inner _ _ d1 d2 ht
  · simp only [Option.map_eq_some', Round.next.injEq] at h
    obtain ⟨t', ht, rfl⟩ := h
    exact deep_propagateDecide inner _ _ hd (by simpa using h3) ht

theorem deep_loopHead (clock : Nat → Bool) (inner : Nat) (k n : Nat) (s t : Formula)
    (hd : Deep s) (h : loopHead clock inner k n s = some t) : Deep t := by
  induction k generalizing n s with
  | zero =>
    simp only [loopHead, Option.some.injEq] at h
    rw [← h]; exact hd
  | succ k ih =>
    rw [loopHead] at h
    cases hr : searchRound inner (clock n) s with
    | none => rw [hr] at h; cases h
    | some r =>
      cases r with
      | ret code s1 => rw [hr] at h; cases h
      | next s1 =>
        rw [hr] at h
        exact ih (n + 1) s1 (deep_searchRound inner (clock n) s s1 hd hr) h

theorem deep_searchRoundRestart (inner : Nat) (timeUp : Bool) (restarts rc rc1 : Int)
    (s t : Formula) (hd : Deep s)
    (h : searchRoundRestart inner timeUp restarts rc s = some (.next t, rc1)) : Deep t := by
  unfold searchRoundRestart at h
  split_ifs at h with h1 h2 h3 h4
  · simp at h
  · simp at h
  · simp at h
  · cases hcs : conflictStep inner s with
    | none => rw [hcs] at h; cases h
    | some s3 =>
      rw [hcs] at h
      have hl : 1 ≤ s.LEVEL := by
        have := hd.cons.level
        have hne : s.LEVEL ≠ 0 := by simpa using h4
        omega
      have hb0 : 0 ≤ s3.LEVEL := by
        obtain ⟨A, hF, hP, e⟩ := conflictStep_spec inner s s3 hd h3 hl hcs
        have := (learned_levels s hd.cons hl A hF hP).1
        rw [e]
        exact this
      simp only at h
      split_ifs at h with hrs
      · simp only [Option.map_eq_some', Prod.mk.injEq, Round.next.injEq] at h
        obtain ⟨t', ht, rfl, _⟩ := h
        obtain ⟨d1, d2, _⟩ := deep_conflict inner s s3 hd h3 hl hcs 0 (le_refl _) hb0
        refine deep_propagateDecide inner _ t' ?_ ?_ ht
        · apply deep_same ?_ ?_ ?_ ?_ ?_ ?_ ?_ d1 <;> rfl
        · exact d2
      · simp only [Option.map_eq_some', Prod.mk.injEq, Round.next.injEq] at h
        obtain ⟨t', ht, rfl, _⟩ := h
        obtain ⟨d1, d2, _⟩ := deep_conflict inner s s3 hd h3 hl hcs s3.LEVEL hb0 (le_refl _)
        exact deep_propagateDecide inner _ _ d1 d2 ht
  · simp only [Option.map_eq_some', Prod.mk.injEq, Round.next.injEq] at h
    obtain ⟨t', ht, rfl, _⟩ := h
    exact deep_propagateDecide inner _ _ hd (by simpa using h3) ht

theorem deep_loopHeadRestart (clock : Nat → Bool) (inner : Nat) (restarts : Int) (k n : Nat)
    (rc rc1 : Int) (s t : Formula) (hd : Deep s)
    (h : loopHeadRestart clock inner restarts k n rc s = some (t, rc1)) : Deep t := by
  induction k generalizing n rc s with
  | zero =>
    simp only [loopHeadRestart, Option.some.injEq, Prod.mk.injEq] at h
    rw [← h.1]; exact hd
  | succ k ih =>
    rw [loopHeadRestart] at h
    cases hr : searchRoundRestart inner (clock n) restarts rc s with
    | none => rw [hr] at h; cases h
    | some r =>
      obtain ⟨r1, r2⟩ := r
      cases r1 with
      | ret code s1 => rw [hr] at h; cases h
      | next s1 =>
        rw [hr] at h
        exact ih (n + 1) r2 s1
          (deep_searchRoundRestart inner (clock n) restarts rc r2 s s1 hd hr) h

/-! ## The invariants in the rounds of the drivers -/

theorem consistent_inRound (inner : Nat) (s u : Formula) (hd : Deep s)
    (h : InRound inner s u) : Consistent u := by
  induction h with
  | head => exact hd.cons
  | backtrack s3 hc hl hcs =>
    have hl1 : 1 ≤ s.LEVEL := by have := hd.cons.level; omega
    obtain ⟨_, _, h0, _⟩ := deep_conflict inner s s3 hd hc hl1 hcs 0 (le_refl _)
      (by
        obtain ⟨A, hF, hP, e⟩ := conflictStep_spec inner s s3 hd hc hl1 hcs
        have := (learned_levels s hd.cons hl1 A hF hP).1
        rw [e]
        exact this)
    exact (deep_conflict inner s s3 hd hc hl1 hcs s3.LEVEL h0 (le_refl _)).1.cons
  | restart t hc hl hrs =>
    have hl1 : 1 ≤ s.LEVEL := by have := hd.cons.level; omega
    unfold restartState at hrs
    cases hcs : conflictStep inner s with
    | none => rw [hcs] at hrs; cases hrs
    | some s3 =>
      rw [hcs] at hrs
      simp only [Option.map_some', Option.some.injEq] at hrs
      have h0 := (deep_conflict inner s s3 hd hc hl1 hcs 0 (le_refl _)
        (by
          obtain ⟨A, hF, hP, e⟩ := conflictStep_spec inner s s3 hd hc hl1 hcs
          have := (learned_levels s hd.cons hl1 A hF hP).1
          rw [e]
          exact this)).1.cons
      rw [← hrs]
      exact consistent_same h0 rfl rfl rfl rfl
  | check u _ ih => exact consistent_checkUnit u ih
  | unit u c rest _ _ _ ih => exact consistent_unitRound u ih c rest
  | units u t _ hu ih => exact consistent_unitPropagation inner u t ih hu

theorem counts_occurrences {u : Formula} (hu : Consistent u) :
    ∀ v < u.VARLIST.length, ∀ j < (u.var v).DOMAINSIZE, u.assign v j = 0 →
      u.cntPos v j = (occurrences u (fun C => !C.SAT) v true j : Int) ∧
      u.cntNeg v j = (occurrences u (fun C => !C.SAT) v false j : Int) := by
  intro v hv j hj hf
  have h1 := hu.counts v hv j hj true
  have h2 := hu.counts v hv j hj false
  rw [if_pos hf] at h1 h2
  rw [← occurrences_eq_records hu.struct _ hv hj true,
    ← occurrences_eq_records hu.struct _ hv hj false]
  exact ⟨h1, h2⟩

theorem sat_iff_holds {u : Formula} (hu : Consistent u) :
    ∀ c < u.CLAUSELIST.length,
      ((u.clause c).SAT = true ↔ ∃ a ∈ (u.clause c).ATOM_LIST, u.holds a = true) := by
  intro c hc
  constructor
  · intro h
    obtain ⟨_, ⟨a, ha, hh, _⟩, _⟩ := hu.clauses.sat c hc h
    exact ⟨a, ha, hh⟩
  · rintro ⟨a, ha, hh⟩
    by_contra hn
    have hn' : (u.clause c).SAT = false := by simpa using hn
    have := (hu.clauses.unsat c hc hn').2.2 a ha
    rw [hh] at this
    exact absurd this (by decide)

/-! ## A satisfied state passes the verification -/

theorem not_holds_of_contradicts {s : Formula} {a : Literal} (h : s.contradicts a = true) :
    s.holds a = false := by
  by_contra hn
  have hh : s.holds a = true := by simpa using hn
  rw [holds_iff] at hh
  rw [contradicts_iff] at h
  rcases hh with ⟨e1, a1⟩ | ⟨e1, a1⟩ <;> rcases h with ⟨e2, a2⟩ | ⟨e2, a2⟩
  · rw [a1] at a2; exact absurd a2 (by decide)
  · rw [e1] at e2; exact absurd e2 (by decide)
  · rw [e1] at e2; exact absurd e2 (by decide)
  · rw [a1] at a2; exact absurd a2 (by decide)

theorem marks_of_holds {s : Formula} (hs : Consistent s) (hH : Heads s) (c : Nat)
    (hc : c < s.CLAUSELIST.length) (a : Literal) (ha : a ∈ (s.clause c).ATOM_LIST)
    (hh : s.holds a = true) : s.marks a.VAR c := by
  obtain ⟨a1, av, ak⟩ := hs.struct.atoms c hc a ha
  have hval : ∀ k < (s.var a.VAR).DOMAINSIZE, s.assign a.VAR k = 1 →
      (s.var a.VAR).VAL = (k : Int) := fun k hk h1 =>
    congrArg (fun p => p.1) (hH.assigned a.VAR av k hk h1)
  have hrec : c ∈ s.records a.VAR a.EQUAL a.VAL :=
    (records_mem hs.struct av ak a.EQUAL c).2 ⟨hc, by cases a; exact ha⟩
  rw [holds_iff] at hh
  unfold Formula.marks
  by_cases hv : (s.var a.VAR).VAL ≠ -1
  · rw [if_pos hv]
    refine ⟨a.VAL, ak, ?_⟩
    rcases hh with ⟨e1, h1⟩ | ⟨e1, h1⟩
    · rw [hval a.VAL ak h1, decide_eq_true rfl, ← e1]
      exact hrec
    · have hsat : (s.var a.VAR).SAT = true := by
        by_contra hn
        have hn' : (s.var a.VAR).SAT = false := by simpa using hn
        have := congrArg (fun p => p.1) (hH.unsat a.VAR av hn')
        exact hv this
      obtain ⟨k, hk, hk1⟩ := hH.sat a.VAR a1 av hsat
      have hne : a.VAL ≠ k := by
        intro e
        rw [e, hk1] at h1
        exact absurd h1 (by decide)
      rw [hval k hk hk1, decide_eq_false (by exact_mod_cast hne), ← e1]
      exact hrec
  · rw [if_neg hv]
    rcases hh with ⟨e1, h1⟩ | ⟨e1, h1⟩
    · exfalso
      have := hval a.VAL ak h1
      have hv' : (s.var a.VAR).VAL = -1 := not_not.1 hv
      rw [hv'] at this
      omega
    · refine ⟨a.VAL, ak, h1, ?_⟩
      rw [← e1]
      exact hrec

theorem verifyModel_of_deep {t : Formula} (hd : Deep t) (h : checkSat t = true) :
    verifyModel t = true := by
  unfold verifyModel
  rw [checkSat_iff] at h ⊢
  obtain ⟨hsh, _, hv⟩ := verifyState_spec t hd.cons.struct
  intro c hc
  rw [hsh.clist] at hc
  rw [hv c hc]
  obtain ⟨a, ha, hh⟩ := (sat_iff_holds hd.cons c hc).1 (h c hc)
  obtain ⟨a1, av, _⟩ := hd.cons.struct.atoms c hc a ha
  exact ⟨a.VAR, a1, av, marks_of_holds hd.cons hd.heads c hc a ha hh⟩

theorem searchRound_ret (inner : Nat) (timeUp : Bool) (s t : Formula) (code : Nat)
    (h : searchRound inner timeUp s = some (.ret code t)) :
    t = s ∧ (code = 0 → checkSat s = true) := by
  unfold searchRound at h
  split_ifs at h with h1 h2 h3 h4
  · simp only [Option.some.injEq, Round.ret.injEq] at h
    exact ⟨h.2.symm, fun _ => h1⟩
  · simp only [Option.some.injEq, Round.ret.injEq] at h
    exact ⟨h.2.symm, fun e => by omega⟩
  · simp only [Option.some.injEq, Round.ret.injEq] at h
    exact ⟨h.2.symm, fun e => by omega⟩
  · cases hcs : conflictStep inner s with
    | none => rw [hcs] at h; cases h
    | some s3 =>
      rw [hcs] at h
      simp at h
  · simp at h

theorem deep_nonChrono (clock : Nat → Bool) (inner fuel n : Nat) (s t : Formula) (code : Nat)
    (hd : Deep s) (h : NonChronoBacktrackFrom clock inner fuel n s = some (code, t)) :
    Deep t ∧ (code = 0 → checkSat t = true) := by
  induction fuel generalizing n s with
  | zero => simp [NonChronoBacktrackFrom] at h
  | succ fuel ih =>
    rw [NonChronoBacktrackFrom] at h
    cases hr : searchRound inner (clock n) s with
    | none => rw [hr] at h; cases h
    | some r =>
      cases r with
      | ret c s1 =>
        rw [hr] at h
        simp only [Option.some.injEq, Prod.mk.injEq] at h
        obtain ⟨e1, e2⟩ := searchRound_ret inner (clock n) s s1 c hr
        rw [← h.2, e1, ← h.1]
        exact ⟨hd, e2⟩
      | next s1 =>
        rw [hr] at h
        exact ih (n + 1) s1 (deep_searchRound inner (clock n) s s1 hd hr) h

theorem searchRoundRestart_ret (inner : Nat) (timeUp : Bool) (restarts rc rc1 : Int)
    (s t : Formula) (code : Nat)
    (h : searchRoundRestart inner timeUp restarts rc s = some (.ret code t, rc1)) :
    t = s ∧ (code = 0 → checkSat s = true) := by
  unfold searchRoundRestart at h
  split_ifs at h with h1 h2 h3 h4
  · simp only [Option.some.injEq, Prod.mk.injEq, Round.ret.injEq] at h
    exact ⟨h.1.2.symm, fun _ => h1⟩
  · simp only [Option.some.injEq, Prod.mk.injEq, Round.ret.injEq] at h
    exact ⟨h.1.2.symm, fun e => by omega⟩
  · simp only [Option.some.injEq, Prod.mk.injEq, Round.ret.injEq] at h
    exact ⟨h.1.2.symm, fun e => by omega⟩
  · cases hcs : conflictStep inner s with
    | none => rw [hcs] at h; cases h
    | some s3 =>
      rw [hcs] at h
      simp only at h
      split_ifs at h <;> simp at h
  · simp at h

theorem deep_nonChronoRestart (clock : Nat → Bool) (inner : Nat) (restarts : Int)
    (fuel n : Nat) (rc : Int) (s t : Formula) (code : Nat) (hd : Deep s)
    (h : NonChronoBacktrackRestartFrom clock inner restarts fuel n rc s = some (code, t)) :
    Deep t ∧ (code = 0 → checkSat t = true) := by
  induction fuel generalizing n rc s with
  | zero => simp [NonChronoBacktrackRestartFrom] at h
  | succ fuel ih =>
    rw [NonChronoBacktrackRestartFrom] at h
    cases hr : searchRoundRestart inner (clock n) restarts rc s with
    | none => rw [hr] at h; cases h
    | some r =>
      obtain ⟨r1, r2⟩ := r
      cases r1 with
      | ret c s1 =>
        rw [hr] at h
        simp only [Option.some.injEq, Prod.mk.injEq] at h
        obtain ⟨e1, e2⟩ := searchRoundRestart_ret inner (clock n) restarts rc r2 s s1 c hr
        rw [← h.2, e1, ← h.1]
        exact ⟨hd, e2⟩
      | next s1 =>
        rw [hr] at h
        exact ih (n + 1) r2 s1
          (deep_searchRoundRestart inner (clock n) restarts rc r2 s s1 hd hr) h

/-! ## The learned clause after the backtrack -/

theorem learned_backjump (inner : Nat) (s s1 : Formula) (learned : List Literal)
    (hd : Deep s) (hc : s.CONFLICT = true) (hl : 1 ≤ s.LEVEL)
    (h : analyzeConflict inner s (.stored (s.addr s.CONFLICTINGCLAUSE.toNat)) = some (s1, learned)) :
    0 ≤ backtrackLevel s1 learned ∧ backtrackLevel s1 learned < s.LEVEL := by
  obtain ⟨e1, hF, hP⟩ := analyze_conflict inner s hd hc hl s1 learned h
  obtain ⟨q1, _, _, q4, _⟩ := learnClause_spec s hd.cons.struct learned
  obtain ⟨_, _, _, n4, _⟩ := norecs_fields q1
  obtain ⟨b0, b1, _⟩ := learned_levels s hd.cons hl learned hF hP
  rw [e1, backtrackLevel_congr q4 n4]
  exact ⟨b0, b1⟩

theorem learned_unit (inner : Nat) (s s1 : Formula) (learned : List Literal)
    (hd : Deep s) (hc : s.CONFLICT = true) (hl : 1 ≤ s.LEVEL)
    (h : analyzeConflict inner s (.stored (s.addr s.CONFLICTINGCLAUSE.toNat)) = some (s1, learned))
    (u : Formula)
    (hu : u = undoTheory
      { s1 with
        LEVEL := backtrackLevel s1 learned
        BACKTRACKS := s1.BACKTRACKS + 1
        CONFLICT := false }
      (backtrackLevel s1 learned)) :
    s1.CLAUSELIST.length = s.CLAUSELIST.length + 1 ∧
    (s1.clause s.CLAUSELIST.length).ATOM_LIST = learned ∧
    (∀ a ∈ learned, s.CLAUSELIST.length ∈ s1.records a.VAR a.EQUAL a.VAL) ∧
    (u.clause s.CLAUSELIST.length).ATOM_LIST = learned ∧
    (u.clause s.CLAUSELIST.length).SAT = false ∧
    (u.clause s.CLAUSELIST.length).NumUnAss = 1 ∧
    s.CLAUSELIST.length ∈ (checkUnit u).UNITLIST := by
  obtain ⟨e1, hF, hP⟩ := analyze_conflict inner s hd hc hl s1 learned h
  have hs := hd.cons
  obtain ⟨q1, _, _, q4, _, _, _, q8⟩ := learnClause_spec s hs.struct learned
  obtain ⟨_, r2, r3⟩ := learnClause_clause s hs.struct learned
  obtain ⟨n1, n2, n3, n4, _⟩ := norecs_fields q1
  obtain ⟨b0, b1, _, _, b5⟩ := learned_levels s hs hl learned hF hP
  have hbl := backtrackLevel_congr q4 n4 learned
  have hlast : ((learnClause s (.fresh learned)).clause s.CLAUSELIST.length).ATOM_LIST
      = learned := by
    rw [r3, if_neg (lt_irrefl _), if_pos rfl]
    rfl
  obtain ⟨x1, x2, x3, x4, x5, _, _, x8, x9⟩ := learn_ready s hd hl learned hF hP _ rfl
  have hdu := deep_undo x1 x2 x3 s.LEVEL x4 (backtrackLevel s learned)
    (backtrackLevel s learned) b0 (le_refl _) b1 x5 x8 (x9 _ b0 (le_refl _))
  have hue : u = undoTheory (Formula.withLevel { learnClause s (.fresh learned) with
      BACKTRACKS := (learnClause s (.fresh learned)).BACKTRACKS + 1, CONFLICT := false }
      (backtrackLevel s learned)) (backtrackLevel s learned) := by
    rw [hu, e1, hbl]
    rfl
  rw [← hue] at hdu
  have hsh : Shape (learnClause s (.fresh learned)) u := by
    rw [hue]
    have h1 := shape_undoTheory (Formula.withLevel { learnClause s (.fresh learned) with
      BACKTRACKS := (learnClause s (.fresh learned)).BACKTRACKS + 1, CONFLICT := false }
      (backtrackLevel s learned)) (backtrackLevel s learned)
    exact ⟨h1.vars, h1.atoms, h1.clist⟩
  have huat : (u.clause s.CLAUSELIST.length).ATOM_LIST = learned := by
    rw [shape_atoms hsh, hlast]
  have hun : s.CLAUSELIST.length < u.CLAUSELIST.length := by
    rw [hsh.clist, r2]
    omega
  have hua : ∀ a ∈ learned, (u.holds a = true ↔
      (s.holds a = true ∧ s.level a.VAR a.VAL ≤ backtrackLevel s learned)) ∧
      (u.free a = true ↔ (s.free a = true ∨ backtrackLevel s learned < s.level a.VAR a.VAL)) := by
    intro a ha
    obtain ⟨_, av, ak, _⟩ := hF a ha
    have hh := undo_holds x1 (backtrackLevel s learned) (a := a)
      (by show a.VAR < (learnClause s (.fresh learned)).VARLIST.length; rw [n1]; exact av)
      (by show a.VAL < ((learnClause s (.fresh learned)).var a.VAR).DOMAINSIZE; rw [n2]; exact ak)
    have hf := undo_free x1 (backtrackLevel s learned) (a := a)
      (by show a.VAR < (learnClause s (.fresh learned)).VARLIST.length; rw [n1]; exact av)
      (by show a.VAL < ((learnClause s (.fresh learned)).var a.VAR).DOMAINSIZE; rw [n2]; exact ak)
    have e2 : ∀ b : Literal, Formula.holds { learnClause s (.fresh learned) with
        BACKTRACKS := (learnClause s (.fresh learned)).BACKTRACKS + 1, CONFLICT := false } b
        = s.holds b := by
      intro b
      show (if b.EQUAL then (learnClause s (.fresh learned)).assign b.VAR b.VAL == 1
        else (learnClause s (.fresh learned)).assign b.VAR b.VAL == -1) = _
      rw [n3]
      rfl
    have e3 : ∀ b : Literal, Formula.free { learnClause s (.fresh learned) with
        BACKTRACKS := (learnClause s (.fresh learned)).BACKTRACKS + 1, CONFLICT := false } b
        = s.free b := by
      intro b
      show ((learnClause s (.fresh learned)).assign b.VAR b.VAL == 0) = _
      rw [n3]
      rfl
    have e4 : Formula.level { learnClause s (.fresh learned) with
        BACKTRACKS := (learnClause s (.fresh learned)).BACKTRACKS + 1, CONFLICT := false }
        a.VAR a.VAL = s.level a.VAR a.VAL := n4 _ _
    rw [e2, e4] at hh
    rw [e3, e4] at hf
    rw [undoTheory_withLevel] at hue
    constructor
    · rw [hue]
      exact hh
    · rw [hue]
      exact hf
  have husat : (u.clause s.CLAUSELIST.length).SAT = false := by
    by_contra hn
    have hn' : (u.clause s.CLAUSELIST.length).SAT = true := by simpa using hn
    obtain ⟨a, ha, hh⟩ := (sat_iff_holds hdu.cons _ hun).1 hn'
    rw [huat] at ha
    have h1 := ((hua a ha).1.1 hh).1
    rw [not_holds_of_contradicts (hF a ha).2.2.2] at h1
    exact absurd h1 (by decide)
  have hnum : (u.clause s.CLAUSELIST.length).NumUnAss = 1 := by
    rw [(hdu.cons.clauses.unsat _ hun husat).1]
    unfold freeAtoms
    rw [huat]
    rw [potent_eq, decide_eq_true_eq] at hP
    have : learned.filter (fun a => u.assign a.VAR a.VAL == 0) =
        learned.filter (fun a => s.level a.VAR a.VAL == s.LEVEL) := by
      apply List.filter_congr
      intro a ha
      have hf := (hua a ha).2
      have hb := level_of_falsified hs hF a ha
      have hnf : s.free a = false := by
        have := (hF a ha).2.2.2
        rw [contradicts_iff] at this
        unfold Formula.free
        rcases this with ⟨_, h⟩ | ⟨_, h⟩ <;> rw [h] <;> rfl
      rw [hnf] at hf
      have hfe : (u.assign a.VAR a.VAL == 0) = u.free a := rfl
      rw [hfe]
      by_cases htop : s.level a.VAR a.VAL = s.LEVEL
      · rw [hf.2 (Or.inr (by omega))]
        simp [htop]
      · have hlow := b5 a ha (lt_of_le_of_ne hb.2 htop)
        have : u.free a = false := by
          by_contra hcon
          have hcon' : u.free a = true := by simpa using hcon
          rcases hf.1 hcon' with h | h
          · exact absurd h (by decide)
          · omega
        rw [this]
        simp [htop]
    rw [this, hP]
    rfl
  refine ⟨by rw [e1]; exact r2, by rw [e1]; exact hlast, ?_, huat, husat, hnum, ?_⟩
  · intro a ha
    obtain ⟨_, av, ak, _⟩ := hF a ha
    rw [e1, q8 a.VAR av a.VAL ak a.EQUAL, List.mem_append]
    right
    rw [List.mem_replicate]
    refine ⟨?_, rfl⟩
    have : (⟨a.VAR, a.VAL, a.EQUAL⟩ : Literal) = a := by cases a; rfl
    rw [this]
    exact (List.count_pos_iff.2 ha).ne'
  · exact ((checkUnit_spec u).2.2.1 _).2 ⟨hun, hnum, husat⟩

theorem deep_atHead (doms : List Nat) (clauses : List (List Literal))
    (hwf : WellFormedInput doms clauses) (inner : Nat) (s : Formula)
    (h : AtHead doms clauses inner s) : Deep s := by
  rcases h with ⟨clock, k, h⟩ | ⟨clock, restarts, k, rc, h⟩
  · exact deep_loopHead clock inner k 0 _ s (deep_buildFunction doms clauses hwf) h
  · exact deep_loopHeadRestart clock inner restarts k 0 restarts rc _ s
      (deep_buildFunction doms clauses hwf) h

/-! ## The unit list built by `checkUnit` -/

theorem checkUnit_fold_list (l : List Nat) (t : Formula) :
    (l.foldl (fun s i =>
        if (s.clause i).NumUnAss == 1 && !(s.clause i).SAT then
          { s with UNITLIST := s.UNITLIST ++ [i] }
        else if (s.clause i).NumUnAss == 0 && !(s.clause i).SAT then
          { s with CONFLICT := true }
        else s) t).UNITLIST =
      t.UNITLIST ++ l.filter (fun c => (t.clause c).NumUnAss == 1 && !(t.clause c).SAT) := by
  induction l generalizing t with
  | nil => simp
  | cons i l ih =>
    simp only [List.foldl_cons]
    by_cases h1 : ((t.clause i).NumUnAss == 1 && !(t.clause i).SAT) = true
    · rw [if_pos h1, ih]
      have hcl : ∀ c, ({ t with UNITLIST := t.UNITLIST ++ [i] } : Formula).clause c = t.clause c :=
        fun c => clause_of_heap rfl rfl c
      simp only [hcl]
      rw [List.filter_cons]
      simp only [h1, if_true]
      simp
    · rw [if_neg h1]
      rw [List.filter_cons]
      simp only [h1, Bool.false_eq_true, if_false]
      by_cases h2 : ((t.clause i).NumUnAss == 0 && !(t.clause i).SAT) = true
      · rw [if_pos h2, ih]
        have hcl : ∀ c, ({ t with CONFLICT := true } : Formula).clause c = t.clause c :=
          fun c => clause_of_heap rfl rfl c
        simp only [hcl]
      · rw [if_neg h2, ih]

theorem checkUnit_list (s : Formula) :
    (checkUnit s).UNITLIST = (List.range s.CLAUSELIST.length).filter
      (fun c => (s.clause c).NumUnAss == 1 && !(s.clause c).SAT) := by
  unfold checkUnit
  rw [checkUnit_fold_list]
  have hcl : ∀ c, ({ s with UNITLIST := [] } : Formula).clause c = s.clause c :=
    fun c => clause_of_heap rfl rfl c
  simp only [hcl, List.nil_append]

/-! ## The frame of backtracking on the clauses -/

theorem clause_setClause_any (s : Formula) (c' c : Nat) (f : Clause → Clause) :
    (s.setClause c' f).clause c =
      if s.addr c' = s.addr c ∧ s.addr c < s.HEAP.length then f (s.clause c) else s.clause c := by
  unfold Formula.clause Formula.setClause Formula.addr
  simp only [length_modifyAt]
  exact getD_modifyAt _ _ _ _ _

theorem clause_of_addr (t : Formula) (c' c : Nat) (h : t.addr c' = t.addr c) :
    t.clause c' = t.clause c := by
  unfold Formula.clause
  rw [h]

theorem lowKept_refl (L : Int) (s : Formula) : LowKept L s s := fun _ _ => ⟨rfl, rfl⟩

theorem lowKept_trans {L : Int} {s u t : Formula} (h1 : LowKept L s u) (h2 : LowKept L u t) :
    LowKept L s t := by
  intro c hc
  obtain ⟨a1, a2⟩ := h1 c hc
  obtain ⟨b1, b2⟩ := h2 c (by rw [a2]; exact hc)
  exact ⟨b1.trans a1, b2.trans a2⟩

theorem lowKept_foldl {α : Type} (L : Int) (step : Formula → α → Formula)
    (h : ∀ s a, LowKept L s (step s a)) (l : List α) (s : Formula) :
    LowKept L s (l.foldl step s) := by
  induction l generalizing s with
  | nil => exact lowKept_refl L s
  | cons a as ih => exact lowKept_trans (h s a) (ih (step s a))

theorem lowKept_of_clause {L : Int} {s u : Formula}
    (h : ∀ c, (u.clause c).SAT = (s.clause c).SAT ∧ (u.clause c).LEVEL = (s.clause c).LEVEL) :
    LowKept L s u := fun c _ => h c

theorem flagsOf_bumpUnAss (s : Formula) (c' : Nat) (d : Int) (c : Nat) :
    ((s.bumpUnAss c' d).clause c).SAT = (s.clause c).SAT ∧
    ((s.bumpUnAss c' d).clause c).LEVEL = (s.clause c).LEVEL := by
  unfold Formula.bumpUnAss
  rw [clause_setClause_any]
  split_ifs <;> exact ⟨rfl, rfl⟩

theorem flagsOf_bump (s : Formula) (c' : Nat) (d : Int) (v : Nat) (e : Bool) (k : Nat) (d' : Int)
    (c : Nat) :
    (((s.bumpUnAss c' d).bumpCnt v e k d').clause c).SAT = (s.clause c).SAT ∧
    (((s.bumpUnAss c' d).bumpCnt v e k d').clause c).LEVEL = (s.clause c).LEVEL := by
  rw [clause_bumpCnt]
  exact flagsOf_bumpUnAss s c' d c

theorem flagsOf_foldl {α : Type} (step : Formula → α → Formula)
    (h : ∀ s a c, ((step s a).clause c).SAT = (s.clause c).SAT ∧
      ((step s a).clause c).LEVEL = (s.clause c).LEVEL) (l : List α) (s : Formula) (c : Nat) :
    ((l.foldl step s).clause c).SAT = (s.clause c).SAT ∧
    ((l.foldl step s).clause c).LEVEL = (s.clause c).LEVEL := by
  induction l generalizing s with
  | nil => exact ⟨rfl, rfl⟩
  | cons a as ih =>
    obtain ⟨a1, a2⟩ := ih (step s a)
    obtain ⟨b1, b2⟩ := h s a c
    exact ⟨a1.trans b1, a2.trans b2⟩

theorem flagsOf_addLiteral (s : Formula) (v : Nat) (e : Bool) (k : Nat) (c : Nat) :
    ((addLiteral s v e k).clause c).SAT = (s.clause c).SAT ∧
    ((addLiteral s v e k).clause c).LEVEL = (s.clause c).LEVEL := by
  unfold addLiteral
  apply flagsOf_foldl
  intro s c' c
  split_ifs
  · exact flagsOf_bump s c' 1 v e k 1 c
  · exact ⟨rfl, rfl⟩

theorem flagsOf_unsatisfyAtoms (c' : Nat) (L : Int) (s : Formula) (atoms : List Literal) (c : Nat) :
    ((unsatisfyAtoms c' L s atoms).clause c).SAT = (s.clause c).SAT ∧
    ((unsatisfyAtoms c' L s atoms).clause c).LEVEL = (s.clause c).LEVEL := by
  unfold unsatisfyAtoms
  apply flagsOf_foldl
  intro s a c
  split_ifs
  · exact flagsOf_bump s c' 1 a.VAR a.EQUAL a.VAL 1 c
  · exact ⟨rfl, rfl⟩

theorem lowKept_unsatisfyClauses (s : Formula) (v : Nat) (e : Bool) (k : Nat) (L : Int) :
    LowKept L s (unsatisfyClauses s v e k L) := by
  unfold unsatisfyClauses
  apply lowKept_foldl
  intro s c' c hc
  by_cases hl : (s.clause c').LEVEL > L
  · rw [if_pos hl]
    simp only
    rw [clause_setClause_any]
    obtain ⟨f1, f2⟩ := flagsOf_unsatisfyAtoms c' L s (s.clause c').ATOM_LIST c
    obtain ⟨g1, g2⟩ := flagsOf_unsatisfyAtoms c' L s (s.clause c').ATOM_LIST c'
    by_cases ha : (unsatisfyAtoms c' L s (s.clause c').ATOM_LIST).addr c' =
        (unsatisfyAtoms c' L s (s.clause c').ATOM_LIST).addr c ∧
        (unsatisfyAtoms c' L s (s.clause c').ATOM_LIST).addr c <
          (unsatisfyAtoms c' L s (s.clause c').ATOM_LIST).HEAP.length
    · exfalso
      have heq : (unsatisfyAtoms c' L s (s.clause c').ATOM_LIST).clause c' =
          (unsatisfyAtoms c' L s (s.clause c').ATOM_LIST).clause c :=
        clause_of_addr _ c' c ha.1
      rw [heq] at g2
      rw [g2] at f2
      omega
    · rw [if_neg ha]
      exact ⟨f1, f2⟩
  · rw [if_neg hl]
    exact ⟨rfl, rfl⟩

theorem lowKept_undoValue (L : Int) (i : Nat) (s : Formula) (j : Nat) :
    LowKept L s (undoValue L i s j) := by
  unfold undoValue
  by_cases h : s.level i j > L
  · rw [if_pos h]
    simp only
    intro c hc
    rw [clause_setVar]
    split_ifs
    · exact lowKept_unsatisfyClauses s i false j L c hc
    · exact lowKept_unsatisfyClauses s i true j L c hc
  · rw [if_neg h]
    exact lowKept_refl L s

theorem lowKept_undoVar (L : Int) (s : Formula) (i : Nat) : LowKept L s (undoVar L s i) := by
  unfold undoVar
  simp only
  have h1 := lowKept_foldl L (undoValue L i) (lowKept_undoValue L i)
    (List.range (s.var i).DOMAINSIZE) s
  split_ifs
  · intro c hc
    rw [clause_setVar]
    exact h1 c hc
  · exact h1

theorem lowKept_undoAdd (L : Int) (i : Nat) (s : Formula) (j : Nat) :
    LowKept L s (undoAdd L i s j) := by
  unfold undoAdd
  apply lowKept_of_clause
  intro c
  split_ifs
  · exact flagsOf_addLiteral s i true j c
  · exact flagsOf_addLiteral s i false j c
  · exact ⟨rfl, rfl⟩

theorem lowKept_undoTheory (s : Formula) (L : Int) : LowKept L s (undoTheory s L) := by
  unfold undoTheory
  simp only
  intro c hc
  rw [clause_of_heap rfl rfl]
  refine lowKept_trans ?_ (lowKept_foldl L (undoVar L) (lowKept_undoVar L) _ _) c hc
  apply lowKept_foldl
  intro t i
  exact lowKept_foldl L (undoAdd L i) (lowKept_undoAdd L i) _ _

/-! ## The decision step and the return of 2 -/

theorem searchRound_ret_two (inner : Nat) (timeUp : Bool) (s t : Formula)
    (h : searchRound inner timeUp s = some (.ret 2 t)) :
    t = s ∧ s.CONFLICT = true ∧ s.LEVEL = 0 := by
  unfold searchRound at h
  split_ifs at h with h1 h2 h3 h4
  · simp at h
  · simp at h
  · simp only [Option.some.injEq, Round.ret.injEq, true_and] at h
    exact ⟨h.symm, h3, by simpa using h4⟩
  · cases hcs : conflictStep inner s with
    | none => rw [hcs] at h; cases h
    | some s3 =>
      rw [hcs] at h
      simp at h
  · simp at h

theorem nonChrono_ret_two (clock : Nat → Bool) (inner fuel n : Nat) (s t : Formula)
    (h : NonChronoBacktrackFrom clock inner fuel n s = some (2, t)) :
    t.CONFLICT = true ∧ t.LEVEL = 0 := by
  induction fuel generalizing n s with
  | zero => simp [NonChronoBacktrackFrom] at h
  | succ fuel ih =>
    rw [NonChronoBacktrackFrom] at h
    cases hr : searchRound inner (clock n) s with
    | none => rw [hr] at h; cases h
    | some r =>
      cases r with
      | ret c s1 =>
        rw [hr] at h
        simp only [Option.some.injEq, Prod.mk.injEq] at h
        rw [h.1] at hr
        obtain ⟨e1, e2, e3⟩ := searchRound_ret_two inner (clock n) s s1 hr
        rw [← h.2, e1]
        exact ⟨e2, e3⟩
      | next s1 =>
        rw [hr] at h
        exact ih (n + 1) s1 h

theorem propagated_level (fuel : Nat) (s s2 : Formula) (hwf : s.WF)
    (h2 : (if (checkUnit s).UNITLIST.isEmpty then some (checkUnit s)
      else unitPropagation fuel (checkUnit s)) = some s2) :
    s2.WF ∧ s2.LEVEL = s.LEVEL ∧ s2.DECISIONS = s.DECISIONS := by
  have h1 := levelStep_checkUnit s
  have hwf1 : (checkUnit s).WF := shape_wf h1.shape hwf
  have hc1 : (checkUnit s).DECISIONS = s.DECISIONS := by
    have := stats_of_counters (counters_checkUnit s)
    simp only [Formula.stats, Prod.mk.injEq] at this
    exact this.2.2
  split_ifs at h2 with he
  · simp only [Option.some.injEq] at h2
    rw [← h2]
    exact ⟨hwf1, h1.level, hc1⟩
  · have h3 := levelStep_unitPropagation fuel _ s2 hwf1 h2
    have h4 := stats_unitPropagation fuel _ s2 h2
    simp only [Formula.stats, Prod.mk.injEq] at h4
    exact ⟨shape_wf h3.shape hwf1, h3.level.trans h1.level, h4.2.2.trans hc1⟩

theorem decide_spec (fuel : Nat) (s s2 : Formula) (atom : Literal) (hwf : s.WF)
    (h2 : (if (checkUnit s).UNITLIST.isEmpty then some (checkUnit s)
      else unitPropagation fuel (checkUnit s)) = some s2)
    (hcf : s2.CONFLICT = false) (hch : chooseLiteral s2 = some atom) :
    ∃ t, propagateDecide fuel s = some t ∧ t.LEVEL = s.LEVEL + 1 ∧
      t.DECISIONS = s.DECISIONS + 1 ∧ atom.EQUAL = true ∧ t.assign atom.VAR atom.VAL = 1 ∧
      t.level atom.VAR atom.VAL = t.LEVEL ∧ t.reason atom.VAR atom.VAL = -1 := by
  obtain ⟨hwf2, hl2, hd2⟩ := propagated_level fuel s s2 hwf h2
  have hat : ∃ v k, atom = ⟨v, k, true⟩ ∧ s2.candidate v k := by
    rcases chooseLiteral_spec s2 with ⟨h, _⟩ | ⟨v, k, h, hc, _⟩
    · rw [h] at hch; cases hch
    · rw [h] at hch
      simp only [Option.some.injEq] at hch
      exact ⟨v, k, hch.symm, hc⟩
  obtain ⟨v, k, rfl, hcand⟩ := hat
  have hpd : propagateDecide fuel s = some (reduceTheory
      { s2 with UNITCLAUSE := -1, DECISIONS := s2.DECISIONS + 1, LEVEL := s2.LEVEL + 1 }
      v true k) := by
    unfold propagateDecide
    simp only [h2, hcf, hch, Bool.not_false, if_true]
  refine ⟨_, hpd, ?_⟩
  rw [reduceTheory_true]
  have hwf3 : Formula.WF
      { s2 with UNITCLAUSE := -1, DECISIONS := s2.DECISIONS + 1, LEVEL := s2.LEVEL + 1 } := hwf2
  obtain ⟨c1, _, _⟩ := cell_reduceLiteral_true
    { s2 with UNITCLAUSE := -1, DECISIONS := s2.DECISIONS + 1, LEVEL := s2.LEVEL + 1 }
    v k hwf3 hcand.1 hcand.2.2.1
  obtain ⟨_, b2, _⟩ := reduceLiteral_basic
    { s2 with UNITCLAUSE := -1, DECISIONS := s2.DECISIONS + 1, LEVEL := s2.LEVEL + 1 } v true k
  have hst := stats_reduceTheory
    { s2 with UNITCLAUSE := -1, DECISIONS := s2.DECISIONS + 1, LEVEL := s2.LEVEL + 1 } v true k
  rw [reduceTheory_true] at hst
  simp only [Formula.stats, Prod.mk.injEq] at hst
  simp only [Formula.cell, Prod.mk.injEq] at c1
  refine ⟨?_, ?_, rfl, c1.1, ?_, c1.2.2⟩
  · rw [b2, ← hl2]
  · rw [hst.2.2, ← hd2]
  · rw [c1.2.1, b2]

/-! ## The assignment of a value by `reduceTheory` -/

theorem assign_spec (s : Formula) (hs : Consistent s) (v k : Nat) (hv : v < s.VARLIST.length)
    (hk : k < (s.var v).DOMAINSIZE) (hfree : s.assign v k = 0) :
    (∀ c < s.CLAUSELIST.length, (⟨v, k, true⟩ : Literal) ∈ (s.clause c).ATOM_LIST →
      ((reduceTheory s v true k).clause c).SAT = true ∧
      ((s.clause c).SAT = false → ((reduceTheory s v true k).clause c).LEVEL = s.LEVEL)) ∧
    (reduceTheory s v true k).cell v k = (1, s.LEVEL, s.UNITCLAUSE) ∧
    (reduceTheory s v true k).head v = ((k : Int), true, s.LEVEL) ∧
    (∀ k' < (s.var v).DOMAINSIZE, k' ≠ k → s.assign v k' = 0 →
      (reduceTheory s v true k).cell v k' = (-1, s.LEVEL, s.UNITCLAUSE) ∨
      ((reduceTheory s v true k).CONFLICT = true ∧
        (reduceTheory s v true k).cell v k' = s.cell v k')) ∧
    ((reduceTheory s v true k).CONFLICT = false →
      ∀ k' < (s.var v).DOMAINSIZE, k' ≠ k → s.assign v k' = 0 →
        (reduceTheory s v true k).cell v k' = (-1, s.LEVEL, s.UNITCLAUSE)) := by
  have hwf := hs.struct.sized.1
  have ht := consistent_reduceTheory s hs v true k hv hk hfree
  obtain ⟨hg, _⟩ := grow_reduceTheory s hwf v true k hv hk hfree
  have hsh := hg.shape
  rw [reduceTheory_true] at ht hg hsh ⊢
  obtain ⟨c1, c2, c3⟩ := cell_reduceLiteral_true s v k hwf hv hk
  obtain ⟨_, _, _, _, _, b6⟩ := reduceLiteral_basic s v true k
  refine ⟨?_, c1, ?_, ?_, c3⟩
  · intro c hc ha
    have hc' : c < (reduceLiteral s v true k).CLAUSELIST.length := by rw [hsh.clist]; exact hc
    have ha' : (⟨v, k, true⟩ : Literal) ∈ ((reduceLiteral s v true k).clause c).ATOM_LIST := by
      rw [shape_atoms hsh]; exact ha
    have hh : (reduceLiteral s v true k).holds ⟨v, k, true⟩ = true := by
      rw [holds_iff]
      left
      simp only [Formula.cell, Prod.mk.injEq] at c1
      exact ⟨rfl, c1.1⟩
    have hsat := (sat_iff_holds ht c hc').2 ⟨_, ha', hh⟩
    refine ⟨hsat, fun hun => ?_⟩
    obtain ⟨_, ⟨a, ha1, ha2, ha3⟩, _⟩ := ht.clauses.sat c hc' hsat
    rw [shape_atoms hsh] at ha1
    have hno := (hs.clauses.unsat c hc hun).2.2 a ha1
    rcases hg.cells a.VAR a.VAL with h | ⟨_, _, h3⟩
    · exfalso
      simp only [Formula.cell, Prod.mk.injEq] at h
      have : (reduceLiteral s v true k).holds a = s.holds a := by
        unfold Formula.holds
        rw [h.1]
      rw [this, hno] at ha2
      exact absurd ha2 (by decide)
    · rw [← ha3, h3]
  · rw [b6 v, if_pos ⟨rfl, rfl, hv⟩]
  · intro k' hk' hne hf
    by_cases hcf : (reduceLiteral s v true k).CONFLICT = true
    · rcases c2 v k' (fun h => hne h.2) with h | ⟨_, _, _, h⟩
      · exact Or.inr ⟨hcf, h⟩
      · exact Or.inl h
    · exact Or.inl (c3 (by simpa using hcf) k' hk' hne hf)

theorem consistent_exClosure : Consistent exClosure :=
  consistent_withLevel (consistent_buildFunction _ _ (by decide)) 1 (by decide)
    (fun v k h => absurd ((loaded_buildFunction _ _ (by decide)).free v k) h)

/-! ## The unit list and the conflict flag after `removeLiteral` -/

theorem removeLiteral_queue (s : Formula) (hst : Struct s) (v : Nat) (e : Bool) (k : Nat)
    (hv : v < s.VARLIST.length) (hk : k < (s.var v).DOMAINSIZE) :
    (∃ new, (removeLiteral s v e k).UNITLIST = new ++ s.UNITLIST ∧ new.Nodup ∧
      ∀ c, c ∈ new ↔ ((s.clause c).SAT = false ∧ 2 ≤ (s.clause c).NumUnAss ∧
        (s.clause c).NumUnAss ≤ ((s.records v e k).count c : Int) + 1)) ∧
    ((removeLiteral s v e k).CONFLICT = true ↔ (s.CONFLICT = true ∨
      ∃ c, (s.clause c).SAT = false ∧ 1 ≤ (s.clause c).NumUnAss ∧
        (s.clause c).NumUnAss ≤ ((s.records v e k).count c : Int))) ∧
    (((removeLiteral s v e k).CONFLICTINGCLAUSE = s.CONFLICTINGCLAUSE ∧
        ¬ ∃ c, (s.clause c).SAT = false ∧ 1 ≤ (s.clause c).NumUnAss ∧
          (s.clause c).NumUnAss ≤ ((s.records v e k).count c : Int)) ∨
      ∃ c, ((s.clause c).SAT = false ∧ 1 ≤ (s.clause c).NumUnAss ∧
        (s.clause c).NumUnAss ≤ ((s.records v e k).count c : Int)) ∧
        (removeLiteral s v e k).CONFLICTINGCLAUSE = (c : Int)) := by
  rw [removeLiteral_fold]
  have key := foldl_prefix (fun s c => if !(s.clause c).SAT then removeOne s v e k c else s)
    (fun pre u => Frame s u ∧
      (∀ c, u.clause c =
        if (s.clause c).SAT = false then
          { s.clause c with NumUnAss := (s.clause c).NumUnAss - (pre.count c : Int) }
        else s.clause c) ∧
      (∃ new, u.UNITLIST = new ++ s.UNITLIST ∧ new.Nodup ∧
        ∀ c, c ∈ new ↔ ((s.clause c).SAT = false ∧ 2 ≤ (s.clause c).NumUnAss ∧
          (s.clause c).NumUnAss ≤ (pre.count c : Int) + 1)) ∧
      (u.CONFLICT = true ↔ (s.CONFLICT = true ∨
        ∃ c, (s.clause c).SAT = false ∧ 1 ≤ (s.clause c).NumUnAss ∧
          (s.clause c).NumUnAss ≤ (pre.count c : Int))) ∧
      ((u.CONFLICTINGCLAUSE = s.CONFLICTINGCLAUSE ∧
          ¬ ∃ c, (s.clause c).SAT = false ∧ 1 ≤ (s.clause c).NumUnAss ∧
            (s.clause c).NumUnAss ≤ (pre.count c : Int)) ∨
        ∃ c, ((s.clause c).SAT = false ∧ 1 ≤ (s.clause c).NumUnAss ∧
          (s.clause c).NumUnAss ≤ (pre.count c : Int)) ∧ u.CONFLICTINGCLAUSE = (c : Int)))
    (s.records v e k) s ?_ ?_
  · exact ⟨key.2.2.1, key.2.2.2.1, key.2.2.2.2⟩
  · refine ⟨frame_refl s, fun c => by simp, ⟨[], rfl, List.nodup_nil, fun c => ?_⟩, ?_, ?_⟩
    · simp only [List.not_mem_nil, List.count_nil, Nat.cast_zero, zero_add, false_iff]
      rintro ⟨_, h2, h3⟩
      omega
    · simp only [List.count_nil, Nat.cast_zero]
      constructor
      · exact Or.inl
      · rintro (h | ⟨c, _, h2, h3⟩)
        · exact h
        · omega
    · left
      refine ⟨rfl, ?_⟩
      simp only [List.count_nil, Nat.cast_zero]
      rintro ⟨c, _, h2, h3⟩
      omega
  · intro pre c0 post u hl ⟨hfr, hform, ⟨new, hul, hnd, hnew⟩, hcf, hcc⟩
    have hmem : c0 ∈ s.records v e k := by rw [hl]; simp
    have hclt : c0 < s.CLAUSELIST.length := ((records_mem hst hv hk e c0).1 hmem).1
    have hsame : (u.clause c0).SAT = (s.clause c0).SAT := by
      rw [hform c0]; split_ifs <;> rfl
    have hcount : ∀ c, ((pre ++ [c0]).count c : Int) = (pre.count c : Int) + (if c = c0 then 1 else 0) := by
      intro c
      rw [List.count_append]
      by_cases h : c = c0
      · subst h
        simp
      · simp [List.count_cons, Ne.symm h, h]
    by_cases hsat : (s.clause c0).SAT = true
    · have hstep : (if !(u.clause c0).SAT then removeOne u v e k c0 else u) = u := by
        simp [hsame, hsat]
      simp only [hstep]
      have hgood : ∀ c (a b : Int), ((s.clause c).SAT = false ∧ a ≤ (s.clause c).NumUnAss ∧
          (s.clause c).NumUnAss ≤ ((pre ++ [c0]).count c : Int) + b) ↔
          ((s.clause c).SAT = false ∧ a ≤ (s.clause c).NumUnAss ∧
          (s.clause c).NumUnAss ≤ (pre.count c : Int) + b) := by
        intro c a b
        rw [hcount]
        by_cases h : c = c0
        · subst h
          simp [hsat]
        · simp [h]
      have hgood0 : ∀ c, ((s.clause c).SAT = false ∧ 1 ≤ (s.clause c).NumUnAss ∧
          (s.clause c).NumUnAss ≤ ((pre ++ [c0]).count c : Int)) ↔
          ((s.clause c).SAT = false ∧ 1 ≤ (s.clause c).NumUnAss ∧
          (s.clause c).NumUnAss ≤ (pre.count c : Int)) := by
        intro c
        have := hgood c 1 0
        simpa using this
      refine ⟨hfr, fun c' => ?_, ⟨new, hul, hnd, fun c => ?_⟩, ?_, ?_⟩
      · rw [hform c']
        by_cases hcc' : c' = c0
        · subst hcc'
          simp [hsat]
        · have := hcount c'
          rw [if_neg hcc'] at this
          simp only [add_zero] at this
          rw [this]
      · rw [hnew c, hgood c 2 1]
      · rw [hcf]
        simp only [hgood0]
      · simp only [hgood0]
        exact hcc
    · have hunsat : (s.clause c0).SAT = false := by simpa using hsat
      have hstep : (if !(u.clause c0).SAT then removeOne u v e k c0 else u) =
          removeOne u v e k c0 := by
        simp [hsame, hunsat]
      simp only [hstep]
      have hshu := shape_of_frame hfr
      have hnau := noalias_of_shape hshu hst.noalias
      have hcu : c0 < u.HEAP.length := by
        rw [← noalias_length hnau, hfr.clist]; exact hclt
      obtain ⟨e1, e2, e3⟩ := removeOne_same u v e k c0
      obtain ⟨f1, f2, f3⟩ := removeOne_flags u hnau v e k c0 hcu
      have hnu : (u.clause c0).NumUnAss = (s.clause c0).NumUnAss - (pre.count c0 : Int) := by
        rw [hform c0, if_pos hunsat]
      rw [hnu] at f1 f2 f3
      refine ⟨frame_trans hfr (frame_removeOne u v e k c0), fun c' => ?_, ?_, ?_, ?_⟩
      · rw [removeOne_clause u hnau v e k c0 hcu c', hform c']
        by_cases hcc' : c' = c0
        · subst hcc'
          rw [if_pos rfl, if_pos hunsat, if_pos hunsat, hcount, if_pos rfl, sub_sub]
        · rw [if_neg hcc']
          have := hcount c'
          rw [if_neg hcc'] at this
          simp only [add_zero] at this
          rw [this]
      · by_cases hp : (s.clause c0).NumUnAss - (pre.count c0 : Int) - 1 = 1
        · rw [if_pos hp] at f1
          refine ⟨c0 :: new, by rw [f1, hul]; rfl, List.nodup_cons.2 ⟨?_, hnd⟩, fun c => ?_⟩
          · intro hin
            have := (hnew c0).1 hin
            omega
          · rw [List.mem_cons, hnew c, hcount]
            by_cases h : c = c0
            · subst h
              simp only [true_or, if_true, true_iff]
              exact ⟨hunsat, by omega, by omega⟩
            · simp [h]
        · rw [if_neg hp] at f1
          refine ⟨new, by rw [f1, hul], hnd, fun c => ?_⟩
          rw [hnew c, hcount]
          by_cases h : c = c0
          · subst h
            simp only [if_true]
            constructor
            · rintro ⟨a1, a2, a3⟩
              exact ⟨a1, a2, by omega⟩
            · rintro ⟨a1, a2, a3⟩
              exact ⟨a1, a2, by omega⟩
          · simp [h]
      · rw [f2]
        by_cases hz : (s.clause c0).NumUnAss - (pre.count c0 : Int) - 1 = 0
        · rw [if_pos hz]
          simp only [true_iff]
          right
          refine ⟨c0, hunsat, by omega, ?_⟩
          rw [hcount, if_pos rfl]
          omega
        · rw [if_neg hz, hcf]
          constructor
          · rintro (h | ⟨c, a1, a2, a3⟩)
            · exact Or.inl h
            · right
              refine ⟨c, a1, a2, ?_⟩
              rw [hcount]
              split_ifs <;> omega
          · rintro (h | ⟨c, a1, a2, a3⟩)
            · exact Or.inl h
            · right
              refine ⟨c, a1, a2, ?_⟩
              rw [hcount] at a3
              by_cases h : c = c0
              · subst h
                rw [if_pos rfl] at a3
                omega
              · rw [if_neg h] at a3
                omega
      · rw [f3]
        by_cases hz : (s.clause c0).NumUnAss - (pre.count c0 : Int) - 1 = 0
        · rw [if_pos hz]
          right
          refine ⟨c0, ⟨hunsat, by omega, ?_⟩, rfl⟩
          rw [hcount, if_pos rfl]
          omega
        · rw [if_neg hz]
          rcases hcc with ⟨a1, a2⟩ | ⟨c, ⟨a1, a2, a3⟩, a4⟩
          · left
            refine ⟨a1, ?_⟩
            rintro ⟨c, b1, b2, b3⟩
            apply a2
            refine ⟨c, b1, b2, ?_⟩
            rw [hcount] at b3
            by_cases h : c = c0
            · subst h
              rw [if_pos rfl] at b3
              omega
            · rw [if_neg h] at b3
              omega
          · right
            refine ⟨c, ⟨a1, a2, ?_⟩, a4⟩
            rw [hcount]
            split_ifs <;> omega

theorem records_count {s : Formula} (hst : Struct s) {v k : Nat} (hv : v < s.VARLIST.length)
    (hk : k < (s.var v).DOMAINSIZE) (e : Bool) (c : Nat) :
    ((s.records v e k).count c : Int) =
      if c < s.CLAUSELIST.length then ((s.clause c).ATOM_LIST.count ⟨v, k, e⟩ : Int) else 0 := by
  rw [hst.recs v hv k hk e c]
  split_ifs <;> rfl

theorem removeLiteral_exact (s : Formula) (hst : Struct s) (v : Nat) (e : Bool) (k : Nat)
    (hv : v < s.VARLIST.length) (hk : k < (s.var v).DOMAINSIZE) :
    (∀ c < s.CLAUSELIST.length, (s.clause c).SAT = true →
      (removeLiteral s v e k).clause c = s.clause c) ∧
    (∀ c < s.CLAUSELIST.length, (s.clause c).SAT = false →
      (removeLiteral s v e k).clause c =
        { s.clause c with
          NumUnAss := (s.clause c).NumUnAss - ((s.clause c).ATOM_LIST.count ⟨v, k, e⟩ : Int) }) ∧
    (removeLiteral s v e k).cnt v e k =
      s.cnt v e k - (occurrences s (fun C => !C.SAT) v e k : Int) ∧
    (∃ new, (removeLiteral s v e k).UNITLIST = new ++ s.UNITLIST ∧ new.Nodup ∧
      ∀ c, c ∈ new ↔ (c < s.CLAUSELIST.length ∧ (s.clause c).SAT = false ∧
        2 ≤ (s.clause c).NumUnAss ∧
        (s.clause c).NumUnAss ≤ ((s.clause c).ATOM_LIST.count ⟨v, k, e⟩ : Int) + 1)) ∧
    ((removeLiteral s v e k).CONFLICT = true ↔ (s.CONFLICT = true ∨
      ∃ c < s.CLAUSELIST.length, (s.clause c).SAT = false ∧ 1 ≤ (s.clause c).NumUnAss ∧
        (s.clause c).NumUnAss ≤ ((s.clause c).ATOM_LIST.count ⟨v, k, e⟩ : Int))) ∧
    (((removeLiteral s v e k).CONFLICTINGCLAUSE = s.CONFLICTINGCLAUSE ∧
        ¬ ∃ c < s.CLAUSELIST.length, (s.clause c).SAT = false ∧ 1 ≤ (s.clause c).NumUnAss ∧
          (s.clause c).NumUnAss ≤ ((s.clause c).ATOM_LIST.count ⟨v, k, e⟩ : Int)) ∨
      ∃ c < s.CLAUSELIST.length, ((s.clause c).SAT = false ∧ 1 ≤ (s.clause c).NumUnAss ∧
        (s.clause c).NumUnAss ≤ ((s.clause c).ATOM_LIST.count ⟨v, k, e⟩ : Int)) ∧
        (removeLiteral s v e k).CONFLICTINGCLAUSE = (c : Int)) := by
  obtain ⟨a1, a2⟩ := removeLiteral_spec s hst v e k hv hk
  obtain ⟨⟨new, b1, b2, b3⟩, b4, b5⟩ := removeLiteral_queue s hst v e k hv hk
  have hcnt := records_count hst hv hk e
  have hlow : ∀ (c : Nat) (a b : Int), 1 ≤ a → 0 ≤ b → b ≤ 1 →
      (((s.clause c).SAT = false ∧ a + b ≤ (s.clause c).NumUnAss ∧
        (s.clause c).NumUnAss ≤ ((s.records v e k).count c : Int) + b) ↔
      (c < s.CLAUSELIST.length ∧ (s.clause c).SAT = false ∧ a + b ≤ (s.clause c).NumUnAss ∧
        (s.clause c).NumUnAss ≤ ((s.clause c).ATOM_LIST.count ⟨v, k, e⟩ : Int) + b)) := by
    intro c a b ha hb0 hb1
    rw [hcnt c]
    by_cases hc : c < s.CLAUSELIST.length
    · rw [if_pos hc]
      exact ⟨fun h => ⟨hc, h⟩, fun h => h.2⟩
    · rw [if_neg hc]
      constructor
      · rintro ⟨_, h2, h3⟩
        omega
      · rintro ⟨h, _⟩
        exact absurd h hc
  have hgood : ∀ c, ((s.clause c).SAT = false ∧ 1 ≤ (s.clause c).NumUnAss ∧
        (s.clause c).NumUnAss ≤ ((s.records v e k).count c : Int)) ↔
      (c < s.CLAUSELIST.length ∧ (s.clause c).SAT = false ∧ 1 ≤ (s.clause c).NumUnAss ∧
        (s.clause c).NumUnAss ≤ ((s.clause c).ATOM_LIST.count ⟨v, k, e⟩ : Int)) := by
    intro c
    have := hlow c 1 0 (le_refl _) (le_refl _) (by decide)
    simpa using this
  refine ⟨fun c _ hs => ?_, fun c hc hs => ?_, ?_, ⟨new, b1, b2, fun c => ?_⟩, ?_, ?_⟩
  · rw [a1 c, if_neg (by rw [hs]; decide)]
  · rw [a1 c, if_pos hs, hcnt c, if_pos hc]
  · rw [a2 v e k, if_pos ⟨rfl, rfl, rfl⟩]
    unfold Formula.unsatRecs
    rw [occurrences_eq_records hst (fun C => !C.SAT) hv hk e]
  · rw [b3 c]
    have := hlow c 1 1 (le_refl _) (by decide) (le_refl _)
    simpa using this
  · rw [b4]
    constructor
    · rintro (h | ⟨c, h⟩)
      · exact Or.inl h
      · have := (hgood c).1 h
        exact Or.inr ⟨c, this.1, this.2⟩
    · rintro (h | ⟨c, hc, h⟩)
      · exact Or.inl h
      · exact Or.inr ⟨c, (hgood c).2 ⟨hc, h⟩⟩
  · rcases b5 with ⟨h1, h2⟩ | ⟨c, h1, h2⟩
    · left
      refine ⟨h1, ?_⟩
      rintro ⟨c, hc, h⟩
      exact h2 ⟨c, (hgood c).2 ⟨hc, h⟩⟩
    · right
      have := (hgood c).1 h1
      exact ⟨c, this.1, this.2, h2⟩

/-! ## Unit propagation: the atom of a round and the end of the loop -/

theorem filter_length_lt {α : Type} (p q : α → Bool) (l : List α)
    (h : ∀ x ∈ l, p x = true → q x = true) (x : α) (hx : x ∈ l) (hq : q x = true)
    (hp : p x = false) : (l.filter p).length < (l.filter q).length := by
  rw [← List.countP_eq_length_filter, ← List.countP_eq_length_filter]
  induction l with
  | nil => cases hx
  | cons a as ih =>
    have hmono : as.countP p ≤ as.countP q :=
      List.countP_mono_left (fun y hy => h y (List.mem_cons_of_mem a hy))
    rw [List.countP_cons, List.countP_cons]
    rw [List.mem_cons] at hx
    rcases hx with rfl | hx
    · rw [hp, hq]
      simp only [if_true, Bool.false_eq_true, if_false]
      omega
    · have ih' := ih (fun y hy => h y (List.mem_cons_of_mem a hy)) hx
      have ha := h a (List.mem_cons_self a as)
      cases hpa : p a
      · cases hqa : q a
        · simp only [Bool.false_eq_true, if_false]
          omega
        · simp only [Bool.false_eq_true, if_false, if_true]
          omega
      · rw [ha hpa]
        simp only [if_true]
        omega

theorem freeCount_le {s t : Formula} (hsh : Shape s t)
    (h : ∀ v k, t.assign v k = 0 → s.assign v k = 0) : t.freeCount ≤ s.freeCount := by
  unfold Formula.freeCount
  rw [shape_length hsh]
  apply List.sum_le_sum
  intro v _
  rw [shape_dom hsh, ← List.countP_eq_length_filter, ← List.countP_eq_length_filter]
  apply List.countP_mono_left
  intro k _ hk
  simp only [beq_iff_eq] at hk ⊢
  exact h v k hk

theorem freeCount_lt {s t : Formula} (hsh : Shape s t)
    (h : ∀ v k, t.assign v k = 0 → s.assign v k = 0) (v k : Nat) (hv : v < s.VARLIST.length)
    (hk : k < (s.var v).DOMAINSIZE) (h0 : s.assign v k = 0) (h1 : t.assign v k ≠ 0) :
    t.freeCount < s.freeCount := by
  unfold Formula.freeCount
  rw [shape_length hsh]
  apply List.sum_lt_sum
  · intro v' _
    rw [shape_dom hsh, ← List.countP_eq_length_filter, ← List.countP_eq_length_filter]
    apply List.countP_mono_left
    intro k' _ hk'
    simp only [beq_iff_eq] at hk' ⊢
    exact h v' k' hk'
  · refine ⟨v, List.mem_range.2 hv, ?_⟩
    rw [shape_dom hsh]
    apply filter_length_lt _ _ _ _ k (List.mem_range.2 hk)
    · simpa using h0
    · simpa using h1
    · intro k' _ hk'
      simp only [beq_iff_eq] at hk' ⊢
      exact h v k' hk'

theorem find?_split {α : Type} (p : α → Bool) (l : List α) (a : α) (h : l.find? p = some a) :
    ∃ pre post, l = pre ++ a :: post ∧ (∀ b ∈ pre, p b = false) ∧ p a = true := by
  induction l with
  | nil => cases h
  | cons x xs ih =>
    rw [List.find?_cons] at h
    by_cases hx : p x = true
    · rw [hx] at h
      simp only [Option.some.injEq] at h
      subst h
      exact ⟨[], xs, rfl, fun b hb => absurd hb (List.not_mem_nil b), hx⟩
    · have hx' : p x = false := by simpa using hx
      rw [hx'] at h
      obtain ⟨pre, post, e, h1, h2⟩ := ih h
      refine ⟨x :: pre, post, by rw [e]; rfl, fun b hb => ?_, h2⟩
      rw [List.mem_cons] at hb
      rcases hb with rfl | hb
      · exact hx'
      · exact h1 b hb

theorem find?_of_split {α : Type} (p : α → Bool) (pre post : List α) (a : α)
    (h1 : ∀ b ∈ pre, p b = false) (h2 : p a = true) : (pre ++ a :: post).find? p = some a := by
  induction pre with
  | nil => simp [List.find?_cons, h2]
  | cons x xs ih =>
    rw [List.cons_append, List.find?_cons, h1 x (List.mem_cons_self x xs)]
    exact ih (fun b hb => h1 b (List.mem_cons_of_mem x hb))

theorem reduceTheory_own (s : Formula) (hwf : s.WF) (v : Nat) (e : Bool) (k : Nat)
    (hv : v < s.VARLIST.length) (hk : k < (s.var v).DOMAINSIZE) :
    (reduceTheory s v e k).cell v k = ((if e then 1 else -1), s.LEVEL, s.UNITCLAUSE) := by
  have hl := lit_reduceLiteral s hwf v e k hv hk
  rw [reduceTheory_eq]
  cases hce : checkEntail (reduceLiteral s v e k) v with
  | none => exact hl.own
  | some k' =>
    simp only
    obtain ⟨_, hk', hf', _⟩ := checkEntail_spec _ v k' hce
    have hown := hl.own
    have hne : k ≠ k' := by
      intro h
      rw [← h] at hf'
      have : (reduceLiteral s v e k).assign v k = (if e then 1 else -1) := by
        have := congrArg (fun p => p.1) hown
        exact this
      rw [this] at hf'
      split_ifs at hf'
      exact absurd hf' (by decide)
    have hwf1 : Formula.WF { reduceLiteral s v e k with
        ENTAILLITERAL := some ⟨v, k', true⟩
        ENTAILS := (reduceLiteral s v e k).ENTAILS + 1
        UNITCLAUSE := -2 } := by
      have := shape_wf hl.shape hwf
      exact this
    obtain ⟨_, c2, _⟩ := cell_reduceLiteral_true
      { reduceLiteral s v e k with
        ENTAILLITERAL := some ⟨v, k', true⟩
        ENTAILS := (reduceLiteral s v e k).ENTAILS + 1
        UNITCLAUSE := -2 } v k' hwf1
      (by show v < (reduceLiteral s v e k).VARLIST.length; rw [shape_length hl.shape]; exact hv)
      hk'
    rcases c2 v k (fun h => hne h.2) with h | ⟨_, _, h0, _⟩
    · rw [h]
      exact hown
    · exfalso
      have h0' : (reduceLiteral s v e k).assign v k = 0 := h0
      have : (reduceLiteral s v e k).assign v k = (if e then 1 else -1) :=
        congrArg (fun p => p.1) hown
      rw [this] at h0'
      split_ifs at h0'
      exact absurd h0' (by decide)

theorem unitRound_idle (s : Formula) (c : Nat) (rest : List Nat)
    (h : (s.clause c).SAT = true ∨ ∀ a ∈ (s.clause c).ATOM_LIST, s.assign a.VAR a.VAL ≠ 0) :
    unitRound s c rest =
      { s with UNITS := s.UNITS + 1, UNITCLAUSE := (c : Int), UNITLIST := rest } := by
  unfold unitRound
  simp only
  have hcl : ({ s with UNITS := s.UNITS + 1, UNITCLAUSE := (c : Int), UNITLIST := rest } :
      Formula).clause c = s.clause c := clause_of_heap rfl rfl c
  rw [hcl]
  rcases h with h | h
  · rw [h]
    simp
  · have : firstFree { s with UNITS := s.UNITS + 1, UNITCLAUSE := (c : Int), UNITLIST := rest }
        (s.clause c).ATOM_LIST = none := by
      unfold firstFree
      rw [List.find?_eq_none]
      intro a ha
      have := h a ha
      simpa using this
    rw [this]
    simp

theorem unitRound_first (s : Formula) (hs : Consistent s) (c : Nat) (rest : List Nat)
    (hun : (s.clause c).SAT = false) (a : Literal) (pre post : List Literal)
    (hat : (s.clause c).ATOM_LIST = pre ++ a :: post)
    (hpre : ∀ b ∈ pre, s.assign b.VAR b.VAL ≠ 0) (hfree : s.assign a.VAR a.VAL = 0) :
    unitRound s c rest =
      reduceTheory
        (Formula.setVar { s with UNITS := s.UNITS + 1, UNITCLAUSE := (c : Int), UNITLIST := rest }
          a.VAR (fun V => { V with CLAUSEID := V.CLAUSEID.set a.VAL (c : Int) }))
        a.VAR a.EQUAL a.VAL ∧
    (unitRound s c rest).holds a = true ∧ (unitRound s c rest).reason a.VAR a.VAL = (c : Int) ∧
    (unitRound s c rest).level a.VAR a.VAL = s.LEVEL := by
  have hcl : ({ s with UNITS := s.UNITS + 1, UNITCLAUSE := (c : Int), UNITLIST := rest } :
      Formula).clause c = s.clause c := clause_of_heap rfl rfl c
  have hff : firstFree { s with UNITS := s.UNITS + 1, UNITCLAUSE := (c : Int), UNITLIST := rest }
      (s.clause c).ATOM_LIST = some a := by
    unfold firstFree
    rw [hat]
    apply find?_of_split
    · intro b hb
      have := hpre b hb
      simpa using this
    · simpa using hfree
  have heq : unitRound s c rest =
      reduceTheory
        (Formula.setVar { s with UNITS := s.UNITS + 1, UNITCLAUSE := (c : Int), UNITLIST := rest }
          a.VAR (fun V => { V with CLAUSEID := V.CLAUSEID.set a.VAL (c : Int) }))
        a.VAR a.EQUAL a.VAL := by
    unfold unitRound
    simp only
    rw [hcl, hun, hff]
    simp
  have hmem : a ∈ (s.clause c).ATOM_LIST := by rw [hat]; simp
  obtain ⟨_, av, ak⟩ := atoms_in_range hs.struct c a hmem
  have hsh : Shape s
      (Formula.setVar { s with UNITS := s.UNITS + 1, UNITCLAUSE := (c : Int), UNITLIST := rest }
        a.VAR (fun V => { V with CLAUSEID := V.CLAUSEID.set a.VAL (c : Int) })) := by
    have h1 := shape_setVar
      { s with UNITS := s.UNITS + 1, UNITCLAUSE := (c : Int), UNITLIST := rest }
      a.VAR (fun V => { V with CLAUSEID := V.CLAUSEID.set a.VAL (c : Int) })
      (fun V => by simp [Variable.shape])
    exact ⟨h1.vars, h1.atoms, h1.clist⟩
  have hwf2 := shape_wf hsh hs.struct.sized.1
  have hv2 : a.VAR < (Formula.setVar
      { s with UNITS := s.UNITS + 1, UNITCLAUSE := (c : Int), UNITLIST := rest }
      a.VAR (fun V => { V with CLAUSEID := V.CLAUSEID.set a.VAL (c : Int) })).VARLIST.length := by
    rw [shape_length hsh]; exact av
  have hk2 : a.VAL < ((Formula.setVar
      { s with UNITS := s.UNITS + 1, UNITCLAUSE := (c : Int), UNITLIST := rest }
      a.VAR (fun V => { V with CLAUSEID := V.CLAUSEID.set a.VAL (c : Int) })).var a.VAR).DOMAINSIZE := by
    rw [shape_dom hsh]; exact ak
  have hown := reduceTheory_own _ hwf2 a.VAR a.EQUAL a.VAL hv2 hk2
  have hh := reduceTheory_holds _ hwf2 a.VAR a.EQUAL a.VAL hv2 hk2
  rw [← heq] at hown hh
  simp only [Formula.cell, Prod.mk.injEq] at hown
  have hae : (⟨a.VAR, a.VAL, a.EQUAL⟩ : Literal) = a := by cases a; rfl
  rw [hae] at hh
  exact ⟨heq, hh, hown.2.2, hown.2.1⟩

theorem unitRound_measure (s : Formula) (hs : Consistent s) (c : Nat) (rest : List Nat) :
    (unitRound s c rest).freeCount < s.freeCount ∨
    ((unitRound s c rest).freeCount = s.freeCount ∧ (unitRound s c rest).UNITLIST = rest) := by
  by_cases h : (s.clause c).SAT = true ∨ ∀ a ∈ (s.clause c).ATOM_LIST, s.assign a.VAR a.VAL ≠ 0
  · right
    rw [unitRound_idle s c rest h]
    exact ⟨rfl, rfl⟩
  · left
    push_neg at h
    obtain ⟨hun, a, ha, hfa⟩ := h
    have hun' : (s.clause c).SAT = false := by simpa using hun
    have hfind : ∃ b, (s.clause c).ATOM_LIST.find? (fun b => s.assign b.VAR b.VAL == 0) = some b := by
      cases hf : (s.clause c).ATOM_LIST.find? (fun b => s.assign b.VAR b.VAL == 0) with
      | some b => exact ⟨b, rfl⟩
      | none =>
        rw [List.find?_eq_none] at hf
        have := hf a ha
        simp only [beq_iff_eq] at this
        exact absurd hfa this
    obtain ⟨b, hb⟩ := hfind
    obtain ⟨pre, post, e1, e2, e3⟩ := find?_split _ _ _ hb
    obtain ⟨_, hh, _, _⟩ := unitRound_first s hs c rest hun' b pre post e1
      (fun x hx => by simpa using e2 x hx) (by simpa using e3)
    have hg := grow_unitRound s hs c rest
    have hmem : b ∈ (s.clause c).ATOM_LIST := by rw [e1]; simp
    obtain ⟨_, bv, bk⟩ := atoms_in_range hs.struct c b hmem
    refine freeCount_lt hg.shape ?_ b.VAR b.VAL bv bk (by simpa using e3) (assign_ne_of_holds hh)
    intro v k h0
    rcases hg.cells v k with h | ⟨_, h, _⟩
    · simp only [Formula.cell, Prod.mk.injEq] at h
      rw [← h.1]
      exact h0
    · exact absurd h0 h

theorem unitPropagation_returns (n : Nat) :
    ∀ (l : Nat) (s : Formula), Consistent s → s.freeCount ≤ n → s.UNITLIST.length ≤ l →
      ∃ N, ∀ fuel, N ≤ fuel → ∃ t, unitPropagation fuel s = some t := by
  induction n with
  | zero =>
    intro l
    induction l with
    | zero =>
      intro s _ _ hl
      refine ⟨1, fun fuel hf => ?_⟩
      obtain ⟨f, rfl⟩ : ∃ f, fuel = f + 1 := ⟨fuel - 1, by omega⟩
      rw [unitPropagation]
      split_ifs
      · exact ⟨_, rfl⟩
      · have : s.UNITLIST = [] := List.length_eq_zero.1 (by omega)
        rw [this]
        exact ⟨_, rfl⟩
    | succ l ih =>
      intro s hs hn hl
      by_cases hcf : s.CONFLICT = true
      · refine ⟨1, fun fuel hf => ?_⟩
        obtain ⟨f, rfl⟩ : ∃ f, fuel = f + 1 := ⟨fuel - 1, by omega⟩
        rw [unitPropagation, if_pos hcf]
        exact ⟨_, rfl⟩
      · cases hu : s.UNITLIST with
        | nil =>
          refine ⟨1, fun fuel hf => ?_⟩
          obtain ⟨f, rfl⟩ : ∃ f, fuel = f + 1 := ⟨fuel - 1, by omega⟩
          rw [unitPropagation, if_neg hcf, hu]
          exact ⟨_, rfl⟩
        | cons c rest =>
          have hs' := consistent_unitRound s hs c rest
          rcases unitRound_measure s hs c rest with hlt | ⟨he, hul⟩
          · omega
          · obtain ⟨N, hN⟩ := ih (unitRound s c rest) hs' (by omega)
              (by rw [hul]; rw [hu] at hl; simp only [List.length_cons] at hl; omega)
            refine ⟨N + 1, fun fuel hf => ?_⟩
            obtain ⟨f, rfl⟩ : ∃ f, fuel = f + 1 := ⟨fuel - 1, by omega⟩
            rw [unitPropagation, if_neg hcf, hu]
            exact hN f (by omega)
  | succ n ihn =>
    intro l
    induction l with
    | zero =>
      intro s _ _ hl
      refine ⟨1, fun fuel hf => ?_⟩
      obtain ⟨f, rfl⟩ : ∃ f, fuel = f + 1 := ⟨fuel - 1, by omega⟩
      rw [unitPropagation]
      split_ifs
      · exact ⟨_, rfl⟩
      · have : s.UNITLIST = [] := List.length_eq_zero.1 (by omega)
        rw [this]
        exact ⟨_, rfl⟩
    | succ l ih =>
      intro s hs hn hl
      by_cases hcf : s.CONFLICT = true
      · refine ⟨1, fun fuel hf => ?_⟩
        obtain ⟨f, rfl⟩ : ∃ f, fuel = f + 1 := ⟨fuel - 1, by omega⟩
        rw [unitPropagation, if_pos hcf]
        exact ⟨_, rfl⟩
      · cases hu : s.UNITLIST with
        | nil =>
          refine ⟨1, fun fuel hf => ?_⟩
          obtain ⟨f, rfl⟩ : ∃ f, fuel = f + 1 := ⟨fuel - 1, by omega⟩
          rw [unitPropagation, if_neg hcf, hu]
          exact ⟨_, rfl⟩
        | cons c rest =>
          have hs' := consistent_unitRound s hs c rest
          rcases unitRound_measure s hs c rest with hlt | ⟨he, hul⟩
          · obtain ⟨N, hN⟩ := ihn (unitRound s c rest).UNITLIST.length (unitRound s c rest) hs'
              (by omega) (le_refl _)
            refine ⟨N + 1, fun fuel hf => ?_⟩
            obtain ⟨f, rfl⟩ : ∃ f, fuel = f + 1 := ⟨fuel - 1, by omega⟩
            rw [unitPropagation, if_neg hcf, hu]
            exact hN f (by omega)
          · obtain ⟨N, hN⟩ := ih (unitRound s c rest) hs' (by omega)
              (by rw [hul]; rw [hu] at hl; simp only [List.length_cons] at hl; omega)
            refine ⟨N + 1, fun fuel hf => ?_⟩
            obtain ⟨f, rfl⟩ : ∃ f, fuel = f + 1 := ⟨fuel - 1, by omega⟩
            rw [unitPropagation, if_neg hcf, hu]
            exact hN f (by omega)

theorem unitPropagation_empties (fuel : Nat) (s t : Formula)
    (h : unitPropagation fuel s = some t) : t.UNITLIST = [] := by
  induction fuel generalizing s with
  | zero => simp [unitPropagation] at h
  | succ fuel ih =>
    rw [unitPropagation] at h
    split_ifs at h with hc
    · simp only [Option.some.injEq] at h
      rw [← h]
    · cases hu : s.UNITLIST with
      | nil =>
        rw [hu] at h
        simp only [Option.some.injEq] at h
        rw [← h, hu]
      | cons c rest =>
        rw [hu] at h
        exact ih _ h

/-! ## Soundness of the resolution step -/

theorem resolve_sound (asg : Nat → Nat) (C R : List Literal) (a : Literal)
    (hslip : a.EQUAL = true → ∀ b ∈ C, b.VAR = a.VAR → b.VAL ≠ a.VAL → b.EQUAL = true)
    (hC : C.any (fun b => b.holds asg) = true) (hR : R.any (fun b => b.holds asg) = true) :
    (resolve C a R).any (fun b => b.holds asg) = true := by
  rw [List.any_eq_true] at hC hR ⊢
  obtain ⟨c, hc, hch⟩ := hC
  obtain ⟨r, hr, hrh⟩ := hR
  by_cases ha : a.holds asg = true
  · refine ⟨r, ((resolve_mem_iff C R a r).1).2 (Or.inr ⟨hr, ?_⟩), hrh⟩
    unfold addedFromReason
    unfold Literal.holds at ha hrh
    by_cases hv : r.VAR = a.VAR
    · by_cases hk : r.VAL = a.VAL
      · cases hae : a.EQUAL <;> cases hre : r.EQUAL <;>
          simp only [hae, hre, hv, hk, if_true, if_false, Bool.false_eq_true, beq_iff_eq,
            bne_iff_ne, ne_eq] at ha hrh ⊢ <;> simp_all
      · cases hae : a.EQUAL <;> cases hre : r.EQUAL <;>
          simp only [hae, hre, hv, if_true, if_false, Bool.false_eq_true, beq_iff_eq,
            bne_iff_ne, ne_eq] at ha hrh ⊢ <;> simp_all
    · simp [hv]
  · refine ⟨c, ((resolve_mem_iff C R a c).1).2 (Or.inl ⟨hc, ?_⟩), hch⟩
    have hs := hslip
    unfold keptFromClause
    unfold Literal.holds at ha hch
    by_cases hv : c.VAR = a.VAR
    · by_cases hk : c.VAL = a.VAL
      · cases hae : a.EQUAL <;> cases hce : c.EQUAL <;>
          simp only [hae, hce, hv, hk, if_true, if_false, Bool.false_eq_true, beq_iff_eq,
            bne_iff_ne, ne_eq] at ha hch ⊢ <;> simp_all
      · have h1 := fun h => hs h c hc hv hk
        cases hae : a.EQUAL <;> cases hce : c.EQUAL <;>
          simp only [hae, hce, hv, if_true, if_false, Bool.false_eq_true, beq_iff_eq,
            bne_iff_ne, ne_eq] at ha hch h1 ⊢ <;> simp_all
    · simp [hv]

theorem analyzeConflict_nil (fuel : Nat) (s : Formula) :
    analyzeConflict fuel s (.fresh []) = none := by
  cases fuel with
  | zero => rfl
  | succ n => simp [analyzeConflict, ClauseRef.atoms, Potent, maxLit]

theorem analyzeConflict_step (fuel : Nat) (s : Formula) (r : ClauseRef) (lastFalse : Literal)
    (reason : List Literal) (hp : Potent s (r.atoms s) = false)
    (hl : (r.atoms s).get? (maxLit s (r.atoms s)).1 = some lastFalse)
    (hr : reasonAtoms s lastFalse (maxLit s (r.atoms s)).2 = some reason) :
    analyzeConflict (fuel + 1) s r
      = analyzeConflict fuel s (.fresh (resolve (r.atoms s) lastFalse reason)) := by
  simp only [analyzeConflict, hp, hl, hr, Bool.false_eq_true, if_false]

/-! ## The score of `chooseLiteral` as an `int`, and counting without repeats -/

/-- On the state `exOverflow` the difference of the counters of the only candidate is
`INT_MAX + 1`; as an `int` it is `INT_MIN`, which is not above the start value of
`max`, and `chooseLiteral` returns no atom. -/
theorem chooseLiteral_wraps :
    exOverflow.candidate 1 0 ∧ exOverflow.cntPos 1 0 - exOverflow.cntNeg 1 0 = 2147483648 ∧
    exOverflow.score 1 0 = -2147483648 ∧ chooseLiteral exOverflow = none := by
  decide

theorem filter_length_one_iff {α : Type} (p : α → Bool) (l : List α) (hn : l.Nodup) :
    (l.filter p).length = 1 ↔ ∃! a, a ∈ l ∧ p a = true := by
  constructor
  · intro h
    obtain ⟨a, ha⟩ := List.length_eq_one.1 h
    have hmem : a ∈ l.filter p := by rw [ha]; exact List.mem_singleton_self a
    refine ⟨a, List.mem_filter.1 hmem, fun b hb => ?_⟩
    have : b ∈ l.filter p := List.mem_filter.2 hb
    rw [ha] at this
    exact List.mem_singleton.1 this
  · rintro ⟨a, ha, huniq⟩
    have hmem : a ∈ l.filter p := List.mem_filter.2 ha
    have hnd : (l.filter p).Nodup := hn.filter _
    have hall : ∀ b ∈ l.filter p, b = a := fun b hb => huniq b (List.mem_filter.1 hb)
    cases hf : l.filter p with
    | nil => rw [hf] at hmem; exact absurd hmem (List.not_mem_nil a)
    | cons x xs =>
      cases xs with
      | nil => rfl
      | cons y ys =>
        rw [hf] at hnd hall
        have hx : x = a := hall x (List.mem_cons_self _ _)
        have hy : y = a := hall y (List.mem_cons_of_mem _ (List.mem_cons_self _ _))
        have hne : x ≠ y := by
          intro e
          have := (List.nodup_cons.1 hnd).1
          rw [e] at this
          exact this (List.mem_cons_self _ _)
        exact absurd (hx.trans hy.symm) hne


/-! ## Claims on backtracking -/

/-- C7, as amended: after `undoTheory s L` every value of a variable whose level was
above `L` is Free again with level -10 and reason -10 (the source writes -10, not
-1), and a variable whose own level was above `L` has `SAT` false and `VAL` -1. -/
theorem undoTheory_restores (s : Formula) (L : Int) (hwf : s.WF) : UndoRestores (-10) (-10) s L := by
  constructor
  · intro v k hv hv' hk hl
    have h := cell_undoTheory s L hwf v k
    simp only [hv, hv', hk, hl, and_self, if_true] at h
    simp only [Formula.cell, Prod.mk.injEq] at h
    exact h
  · intro v hv hv' hl
    have h := head_undoTheory s L v
    simp only [hv, hv', hl, and_self, if_true] at h
    simp only [Formula.head, Prod.mk.injEq] at h
    exact ⟨h.2.1, h.1⟩

/-- Witness of `undoTheory_restores`: the decision `1=0` is undone by a backtrack to
level 0. -/
theorem undoTheory_restores_witness :
    exDecided.WF ∧ (0 : Int) < exDecided.level 1 0 ∧ UndoRestores (-10) (-10) exDecided 0 :=
  ⟨by decide, by decide, undoTheory_restores exDecided 0 (by decide)⟩

/-- C7 as stated fails: after the backtrack the level and the reason of the freed
value are -10, not -1. -/
theorem undoTheory_level_not_minus_one : ¬ UndoRestores (-1) (-1) exDecided 0 := by
  intro h
  have h1 := (h.1 1 0 (by decide) (by decide) (by decide) (by decide)).2.1
  revert h1
  decide

/-- C8: after `undoTheory s L` the decision stack consists, in the original order, of
the entries whose level is at most `L`; when the levels do not decrease along the
stack, it is an initial segment of the stack before the call. -/
theorem undoTheory_trail (s : Formula) (L : Int) (hwf : s.WF) (ht : TrailAssigned s) :
    (undoTheory s L).DECSTACK = s.DECSTACK.filter (fun a => decide (s.level a.VAR a.VAL ≤ L)) ∧
    (TrailSorted s → (undoTheory s L).DECSTACK <+: s.DECSTACK) := by
  have key : (undoTheory s L).DECSTACK =
      s.DECSTACK.filter (fun a => decide (s.level a.VAR a.VAL ≤ L)) := by
    obtain ⟨t, -, hst, -, hcell, -, heq⟩ := undoTheory_stack_eq s L
    rw [heq]
    show undoStack t t.DECSTACK.length t.DECSTACK = _
    rw [undoStack_eq t _ _ (Nat.le_refl _), List.take_length, List.drop_length, List.append_nil, hst]
    apply List.filter_congr
    intro a ha
    obtain ⟨h1, h2, h3, h4⟩ := ht a ha
    have hc := (hcell a.VAR a.VAL).trans (cell_undoTheory s L hwf a.VAR a.VAL)
    have hc1 := congrArg (fun c => c.1) hc
    simp only [Formula.cell, h1, h2, h3, true_and] at hc1
    by_cases hl : L < s.level a.VAR a.VAL
    · have hl' : ¬ s.level a.VAR a.VAL ≤ L := by omega
      simp [hc1, hl, hl']
    · have hl' : s.level a.VAR a.VAL ≤ L := by omega
      simp [hc1, hl, hl', h4]
  refine ⟨key, fun hs => ?_⟩
  rw [key]
  exact filter_sorted_isPrefix (fun a : Literal => s.level a.VAR a.VAL) L s.DECSTACK hs

/-- Witness of `undoTheory_trail`: the stack `[1=0]` of level 1 is emptied by a
backtrack to level 0. -/
theorem undoTheory_trail_witness :
    exDecided.WF ∧ TrailAssigned exDecided ∧ TrailSorted exDecided ∧
    (undoTheory exDecided 0).DECSTACK = [] ∧ (undoTheory exDecided 0).DECSTACK <+: exDecided.DECSTACK :=
  ⟨by decide, by decide, by decide,
   ((undoTheory_trail exDecided 0 (by decide) (by decide)).1).trans (by decide),
   (undoTheory_trail exDecided 0 (by decide) (by decide)).2 (by decide)⟩

/-- C3, as amended: from a state that satisfies the domain invariant, `reduceTheory`
on a Free atom leaves at most one Assigned value per variable, and the whole
invariant when it ends without `CONFLICT`; `undoTheory` keeps the invariant when no
Forbidden value has a level above the one of the Assigned value of its variable. -/
theorem domainInv_preserved (s : Formula) (hwf : s.WF) (hter : Ternary s) (hinv : DomainInv s) :
    (∀ var equals val, var < s.VARLIST.length → val < (s.var var).DOMAINSIZE →
      s.assign var val = 0 →
      AtMostOneAssigned (reduceTheory s var equals val) ∧
      ((reduceTheory s var equals val).CONFLICT = false →
        DomainInv (reduceTheory s var equals val))) ∧
    (∀ L, LevelOrdered s → DomainInv (undoTheory s L)) := by
  refine ⟨?_, fun L hlo => domainInv_undoTheory s L hwf hinv hlo⟩
  intro var equals val hv hk hfree
  have hno := no_assigned_of_free hinv hv hk hfree
  cases equals with
  | true =>
    rw [reduceTheory_true]
    obtain ⟨h1, h2⟩ := domainInv_reduceLiteral_true s var val hwf hter hinv hv hk hno
    exact ⟨h1, fun hcf => ⟨h1, h2 (Or.inl hcf)⟩⟩
  | false =>
    rw [reduceTheory_eq]
    obtain ⟨hsh, -⟩ := reduceLiteral_basic s var false val
    obtain ⟨hinv1, hno1⟩ := domainInv_reduceLiteral_false s var val hwf hinv hv hk hfree
    have hter1 := ternary_reduceLiteral s var false val hwf hter hv hk
    cases he : checkEntail (reduceLiteral s var false val) var with
    | none => exact ⟨hinv1.1, fun _ => hinv1⟩
    | some k =>
      obtain ⟨-, e2, e3, e4⟩ := checkEntail_spec _ _ _ he
      have hv1 : var < (reduceLiteral s var false val).VARLIST.length := by
        rw [shape_length hsh]; exact hv
      have hno1' : ∀ j < ((reduceLiteral s var false val).var var).DOMAINSIZE,
          (reduceLiteral s var false val).assign var j ≠ 1 := by
        intro j hj; rw [shape_dom hsh] at hj; exact hno1 j hj
      obtain ⟨h1, h2⟩ := domainInv_reduceLiteral_true
        { reduceLiteral s var false val with
          ENTAILLITERAL := some ⟨var, k, true⟩
          ENTAILS := (reduceLiteral s var false val).ENTAILS + 1
          UNITCLAUSE := -2 } var k (id (shape_wf hsh hwf : (reduceLiteral s var false val).WF))
        (id hter1) (id hinv1) hv1 e2 hno1'
      exact ⟨h1, fun _ => ⟨h1, h2 (Or.inr e4)⟩⟩

/-- Witness of `domainInv_preserved`: after the decision `1=0`, the atom `2=0` is
propagated without conflict, and the decision is undone by a backtrack to level 0. -/
theorem domainInv_preserved_witness :
    exDecided.WF ∧ Ternary exDecided ∧ DomainInv exDecided ∧ LevelOrdered exDecided ∧
    (reduceTheory exDecided 2 true 0).CONFLICT = false ∧
    DomainInv (reduceTheory exDecided 2 true 0) ∧ DomainInv (undoTheory exDecided 0) :=
  ⟨by decide, by decide, by decide, by decide, by decide,
   ((domainInv_preserved exDecided (by decide) (by decide) (by decide)).1 2 true 0
      (by decide) (by decide) (by decide)).2 (by decide),
   (domainInv_preserved exDecided (by decide) (by decide) (by decide)).2 0 (by decide)⟩

/-- C3 as stated fails for a call of `reduceTheory` that raises `CONFLICT`: the
decision `1=0`, the one `chooseLiteral` makes, empties the clause `1=1 v 1=2` while
value 2 is forbidden; the loop stops there and value 3 stays Free beside the
Assigned value 0. -/
theorem domainInv_lost_on_conflict :
    DomainInv exClosure ∧ chooseLiteral exClosure = some ⟨1, 0, true⟩ ∧
    (reduceTheory exClosure 1 true 0).CONFLICT = true ∧
    (reduceTheory exClosure 1 true 0).assign 1 0 = 1 ∧
    (reduceTheory exClosure 1 true 0).assign 1 3 = 0 ∧
    ¬ DomainInv (reduceTheory exClosure 1 true 0) := by
  decide

/-! ## Claims on the search -/

/-- C2 fails on the code: on the satisfiable problem `exUnsound` (the value 1 of its
variable satisfies every clause) the driver learns the clause `1=2`, which does not
follow, and returns 2 (unsatisfiable) in its third round. -/
theorem nonChrono_unsat_on_satisfiable :
    (NonChronoBacktrack (fun _ => false) 10 5 (BuildFunction [4] exUnsound)).map Prod.fst = some 2 ∧
    inDomains [4] (fun _ => 1) ∧ satisfies (fun _ => 1) exUnsound = true := by
  decide

/-- C4 as stated fails: the decision `1=0` satisfies the clause `1=0 v 2=0` and takes
all its free atoms out of `NumUnAss`, which is 0 while the atom `2=0` is still Free. -/
theorem counterInv_lost_on_satisfy :
    CounterInv exLoaded ∧ exDecided = reduceTheory { exLoaded with LEVEL := 1 } 1 true 0 ∧
    (exDecided.clause 0).SAT = true ∧ (exDecided.clause 0).NumUnAss = 0 ∧
    freeAtoms exDecided (exDecided.clause 0) = 1 ∧ ¬ CounterInv exDecided := by
  decide

/-- C10 as stated fails: after the decision `1=0` at level 1 and the backtrack to
level 0 the value has `ATOMLEVEL` -10 and `CLAUSEID` -10, where the loaded state has
-1 and -1. -/
theorem decideAndUndo_level_differs :
    exLoaded.CONFLICT = false ∧ exLoaded.assign 1 0 = 0 ∧
    exLoaded.level 1 0 = -1 ∧ (decideAndUndo exLoaded 1 true 0).level 1 0 = -10 ∧
    exLoaded.reason 1 0 = -1 ∧ (decideAndUndo exLoaded 1 true 0).reason 1 0 = -10 := by
  decide

/-- C6: at the head of every round of `NonChronoBacktrack()` and of
`NonChronoBacktrack(int restarts)`, run on a loaded problem, every value that is not
Free has a level between 0 and `LEVEL`. -/
theorem level_invariant (doms : List Nat) (clauses : List (List Literal)) (clock : Nat → Bool)
    (inner : Nat) (restarts : Int) (k : Nat) :
    (∀ s, loopHead clock inner k 0 (BuildFunction doms clauses) = some s → LevelInv s) ∧
    (∀ s rc, loopHeadRestart clock inner restarts k 0 restarts (BuildFunction doms clauses)
      = some (s, rc) → LevelInv s) := by
  obtain ⟨h1, h2⟩ := levelInv_buildFunction doms clauses
  exact ⟨fun s hs => (levelInv_loopHead clock inner k 0 _ s h1 h2 hs).2,
    fun s rc hs => (levelInv_loopHeadRestart clock inner restarts k 0 _ rc _ s h1 h2 hs).2⟩

/-- Witness of `level_invariant`: the third round of the search on `exUnsound` starts
in a state with values set at level 0. -/
theorem level_invariant_witness :
    ∃ s, loopHead (fun _ => false) 10 2 0 (BuildFunction [4] exUnsound) = some s ∧
      s.assign 1 2 = 1 ∧ LevelInv s := by
  have h : ∃ s, loopHead (fun _ => false) 10 2 0 (BuildFunction [4] exUnsound) = some s ∧
      s.assign 1 2 = 1 := by decide
  obtain ⟨s, hs, ha⟩ := h
  exact ⟨s, hs, ha, (level_invariant [4] exUnsound (fun _ => false) 10 0 2).1 s hs⟩

/-! ## Claims on the counters -/

/-- C4, as amended: in every state reached from a well-formed loaded problem by
propagation and backtracking, a clause that is not satisfied has `NumUnAss` equal to
the number of its atoms on Free values, and a satisfied clause has `NumUnAss` 0. -/
theorem counter_invariant (doms : List Nat) (clauses : List (List Literal))
    (hwf : WellFormedInput doms clauses) (s : Formula) (h : Propagated doms clauses s) :
    ∀ c < s.CLAUSELIST.length,
      ((s.clause c).SAT = false → (s.clause c).NumUnAss = (freeAtoms s (s.clause c) : Int)) ∧
      ((s.clause c).SAT = true → (s.clause c).NumUnAss = 0) := by
  intro c hc
  have hs := consistent_of_propagated doms clauses hwf s h
  exact ⟨fun hu => (hs.clauses.unsat c hc hu).1, fun hsat => (hs.clauses.sat c hc hsat).1⟩

/-- Witness of `counter_invariant`: after the decision `1=0` the clause `1=0 v 2=0` is
satisfied and its `NumUnAss` is 0. -/
theorem counter_invariant_witness :
    WellFormedInput [2, 2] [[⟨1, 0, true⟩, ⟨2, 0, true⟩]] ∧
    (exDecided.clause 0).SAT = true ∧ (exDecided.clause 0).NumUnAss = 0 :=
  ⟨by decide, by decide,
   ((counter_invariant [2, 2] [[⟨1, 0, true⟩, ⟨2, 0, true⟩]] (by decide) exDecided
      (Propagated.decision _ 1 true 0 Propagated.load (by decide) (by decide) (by decide))
      0 (by decide)).2 (by decide))⟩

/-- C9: after `undoTheory s L`, from a state reached by propagation and for a level
`L` of at least -1, every clause whose satisfaction level was above `L` is not
satisfied, has `LEVEL` -1 and has `NumUnAss` equal to the number of its atoms that are
Free after the backtrack; and the counter of an atom whose value is Free after the
backtrack has grown by one for each occurrence of the atom in such a clause, and, when
the value was freed by this backtrack, by one for each occurrence in a clause that was
not satisfied before; the other counters are as before. -/
theorem undoTheory_rebuilds (doms : List Nat) (clauses : List (List Literal))
    (hwf : WellFormedInput doms clauses) (s : Formula) (h : Propagated doms clauses s)
    (L : Int) (hL : -1 ≤ L) :
    (∀ c < s.CLAUSELIST.length, L < (s.clause c).LEVEL →
      ((undoTheory s L).clause c).SAT = false ∧ ((undoTheory s L).clause c).LEVEL = -1 ∧
      ((undoTheory s L).clause c).NumUnAss =
        (freeAtoms (undoTheory s L) ((undoTheory s L).clause c) : Int)) ∧
    (∀ v < s.VARLIST.length, ∀ k < (s.var v).DOMAINSIZE, ∀ e,
      (undoTheory s L).cnt v e k = s.cnt v e k +
        (if (undoTheory s L).assign v k = 0 then
          (occurrences s (fun C => decide (L < C.LEVEL)) v e k : Int) +
            (if s.assign v k = 0 then 0 else (occurrences s (fun C => !C.SAT) v e k : Int))
        else 0)) := by
  have hs := consistent_of_propagated doms clauses hwf s h
  exact ⟨fun c hc hl => undoTheory_rebuilt s hs L hL c hc hl,
    fun v hv k hk e => undoTheory_counters s hs L hL v k hv hk e⟩

/-- Witness of `undoTheory_rebuilds`: the clause `1=0 v 2=0`, satisfied at level 1 by
the decision `1=0`, has two Free atoms after the backtrack to level 0, and the
counter of `2=0` has grown from 0 to 1. -/
theorem undoTheory_rebuilds_witness :
    WellFormedInput [2, 2] [[⟨1, 0, true⟩, ⟨2, 0, true⟩]] ∧
    (0 : Int) < (exDecided.clause 0).LEVEL ∧ exDecided.cnt 2 true 0 = 0 ∧
    ((undoTheory exDecided 0).clause 0).SAT = false ∧
    ((undoTheory exDecided 0).clause 0).LEVEL = -1 ∧
    ((undoTheory exDecided 0).clause 0).NumUnAss = 2 ∧
    (undoTheory exDecided 0).cnt 2 true 0 = 1 := by
  have h := undoTheory_rebuilds [2, 2] [[⟨1, 0, true⟩, ⟨2, 0, true⟩]] (by decide) exDecided
    (Propagated.decision _ 1 true 0 Propagated.load (by decide) (by decide) (by decide))
    0 (by decide)
  obtain ⟨h1, h2, h3⟩ := h.1 0 (by decide) (by decide)
  have h4 := h.2 2 (by decide) 0 (by decide) true
  refine ⟨by decide, by decide, by decide, h1, h2, h3.trans (by decide), h4.trans (by decide)⟩

/-- C16: on a clause all of whose atoms are contradicted by the status of their value,
as the clauses are on which `analyzeConflict` calls it, `Potent` returns true exactly
when one atom of the clause is falsified at the current level: its polarity
contradicts `ATOMASSIGN` and its `ATOMLEVEL` is `LEVEL`.  The atoms are counted as
they are written in the clause; for a clause that repeats no atom this is: there is
exactly one atom of the clause that is falsified at the current level. -/
theorem potent_iff (s : Formula) (atoms : List Literal)
    (hall : ∀ a ∈ atoms, s.contradicts a = true) :
    (Potent s atoms = true ↔ (atoms.filter s.falsifiedAt).length = 1) ∧
    (atoms.Nodup → (Potent s atoms = true ↔ ∃! a, a ∈ atoms ∧ s.falsifiedAt a = true)) := by
  have h1 : Potent s atoms = true ↔
      (atoms.filter (fun a => s.level a.VAR a.VAL == s.LEVEL)).length = 1 := by
    rw [potent_eq]
    simp
  have h2 : atoms.filter s.falsifiedAt =
      atoms.filter (fun a => s.level a.VAR a.VAL == s.LEVEL) := by
    apply List.filter_congr
    intro a ha
    simp [Formula.falsifiedAt, hall a ha]
  have h3 : Potent s atoms = true ↔ (atoms.filter s.falsifiedAt).length = 1 := by
    rw [h1, h2]
  exact ⟨h3, fun hn => h3.trans (filter_length_one_iff _ atoms hn)⟩

/-- Witness of `potent_iff`: in `exTwoLevels` both atoms of the clause `1=1 v 2=0` are
contradicted, `1=1` at level 1 and `2=0` at the current level 2, and `Potent` returns
true. -/
theorem potent_iff_witness :
    (∀ a ∈ [(⟨1, 1, true⟩ : Literal), ⟨2, 0, true⟩], exTwoLevels.contradicts a = true) ∧
    Potent exTwoLevels [⟨1, 1, true⟩, ⟨2, 0, true⟩] = true ∧
    ([(⟨1, 1, true⟩ : Literal), ⟨2, 0, true⟩].filter exTwoLevels.falsifiedAt).length = 1 ∧
    (Potent exTwoLevels [⟨1, 1, true⟩, ⟨2, 0, true⟩] = true ↔
      ([(⟨1, 1, true⟩ : Literal), ⟨2, 0, true⟩].filter exTwoLevels.falsifiedAt).length = 1) :=
  ⟨by decide, by decide, by decide,
    (potent_iff exTwoLevels [⟨1, 1, true⟩, ⟨2, 0, true⟩] (by decide)).1⟩

/-- C17: `backtrackLevel` returns 0 for a clause of one atom.  For a clause of another
length whose atoms have levels from 0 to `LEVEL`, with an atom at `LEVEL` and an atom
below it, the value returned is the second-highest level of the atoms: it is the level
of an atom, it is below `LEVEL`, and every atom level other than `LEVEL` is at most
it. -/
theorem backtrackLevel_second_highest (s : Formula) (atoms : List Literal) :
    (atoms.length = 1 → backtrackLevel s atoms = 0) ∧
    (atoms.length ≠ 1 →
      (∀ a ∈ atoms, 0 ≤ s.level a.VAR a.VAL ∧ s.level a.VAR a.VAL ≤ s.LEVEL) →
      (∃ a ∈ atoms, s.level a.VAR a.VAL = s.LEVEL) →
      (∃ a ∈ atoms, s.level a.VAR a.VAL < s.LEVEL) →
      backtrackLevel s atoms < s.LEVEL ∧
      (∃ a ∈ atoms, s.level a.VAR a.VAL = backtrackLevel s atoms) ∧
      ∀ a ∈ atoms, s.level a.VAR a.VAL ≠ s.LEVEL →
        s.level a.VAR a.VAL ≤ backtrackLevel s atoms) := by
  refine ⟨fun h => by rw [backtrackLevel_eq, if_pos h], fun hlen hrange _ hlow => ?_⟩
  obtain ⟨i1, i2, i3⟩ := levelMax_spec s atoms (-1)
  obtain ⟨b, hb, hblt⟩ := hlow
  have hbm := i3 b hb hblt
  have hb0 := (hrange b hb).1
  have hne : levelMax s atoms (-1) ≠ -1 := by omega
  rw [backtrackLevel_eq, if_neg hlen, if_pos hne]
  rcases i2 with i2 | ⟨a, ha, e1, e2⟩
  · exact absurd i2 hne
  · refine ⟨e2, ⟨a, ha, e1⟩, fun c hc hcne => ?_⟩
    have := (hrange c hc).2
    exact i3 c hc (by omega)

theorem backtrackLevel_second_highest_witness :
    [(⟨1, 1, true⟩ : Literal), ⟨2, 0, true⟩].length ≠ 1 ∧
    backtrackLevel exTwoLevels [⟨1, 1, true⟩, ⟨2, 0, true⟩] < exTwoLevels.LEVEL ∧
    backtrackLevel exTwoLevels [⟨1, 1, true⟩, ⟨2, 0, true⟩] = 1 :=
  ⟨by decide,
    ((backtrackLevel_second_highest exTwoLevels [⟨1, 1, true⟩, ⟨2, 0, true⟩]).2 (by decide)
      (by decide) (by decide) (by decide)).1,
    by decide⟩

/-- C20, counterexample: after the decision `1=0` on `exClosure` the clause
`1=1 v 1=2` is the conflict; `maxLit` selects its atom `1=2`, whose reason is -1, and
the reason clause built for it is `1=0 v 1!0`, on the value 0 of the decision and not
on the value 2 of the atom. -/
theorem reason_on_decided_value :
    exConflict.CONFLICT = true ∧
    (exConflict.clause exConflict.CONFLICTINGCLAUSE.toNat).ATOM_LIST =
      [⟨1, 1, true⟩, ⟨1, 2, true⟩] ∧
    maxLit exConflict [⟨1, 1, true⟩, ⟨1, 2, true⟩] = (1, 0) ∧
    exConflict.reason 1 2 = -1 ∧
    reasonAtoms exConflict ⟨1, 2, true⟩ 0 = some [⟨1, 0, true⟩, ⟨1, 0, false⟩] := by
  decide

/-- C20, as amended: let `a` be the atom of the clause at `maxLit(clause)[0]` and `f`
the stack entry at `maxLit(clause)[1]`.  When the reason of `a` is -1 the reason clause
built by `analyzeConflict` is exactly `f.VAR = f.VAL v f.VAR ! f.VAL`; when some stack
entry falsifies some atom of the clause, `f` is on the variable of `a`, and on the
value of `a` unless both are `=` atoms.  When the reason of `a` is -2 the reason clause
is exactly the atoms `v = j` for `j` from 0 below the domain size of the variable `v`
of `a`. -/
theorem reasonAtoms_synthesized (s : Formula) (atoms : List Literal) (a : Literal)
    (ha : atoms.get? (maxLit s atoms).1 = some a) :
    (s.reason a.VAR a.VAL = -1 → (maxLit s atoms).2 < s.DECSTACK.length →
      reasonAtoms s a (maxLit s atoms).2 =
        some [⟨(s.DECSTACK.getD (maxLit s atoms).2 default).VAR,
                (s.DECSTACK.getD (maxLit s atoms).2 default).VAL, true⟩,
              ⟨(s.DECSTACK.getD (maxLit s atoms).2 default).VAR,
                (s.DECSTACK.getD (maxLit s atoms).2 default).VAL, false⟩]) ∧
    ((∃ i < atoms.length, ∃ j < s.DECSTACK.length,
        falsifiedBy (atoms.getD i default) (s.DECSTACK.getD j default) = true) →
      (s.DECSTACK.getD (maxLit s atoms).2 default).VAR = a.VAR ∧
      ((s.DECSTACK.getD (maxLit s atoms).2 default).VAL = a.VAL ∨
        (a.EQUAL = true ∧ (s.DECSTACK.getD (maxLit s atoms).2 default).EQUAL = true))) ∧
    (s.reason a.VAR a.VAL = -2 →
      reasonAtoms s a (maxLit s atoms).2 =
        some ((List.range (s.var a.VAR).DOMAINSIZE).map (fun j => ⟨a.VAR, j, true⟩))) := by
  refine ⟨fun h1 hlt => ?_, fun hex => ?_, fun h2 => ?_⟩
  · unfold reasonAtoms
    simp only [h1, beq_self_eq_true, if_true]
    rw [List.get?_eq_getElem?, List.getElem?_eq_getElem hlt, List.getD_eq_getElem _ _ hlt]
    rfl
  · rcases maxLit_hit s atoms with h | ⟨-, h⟩
    · obtain ⟨h1, h2, h3⟩ := h
      have hget : atoms.getD (maxLit s atoms).1 default = a := by
        rw [List.getD_eq_getElem?_getD, ← List.get?_eq_getElem?, ha]
        rfl
      rw [hget] at h3
      unfold falsifiedBy at h3
      simp only [Bool.or_eq_true, Bool.and_eq_true, beq_iff_eq, bne_iff_ne, ne_eq] at h3
      rcases h3 with ⟨⟨e1, e2⟩, e3⟩ | ⟨⟨⟨e1, e2⟩, e3⟩, e4⟩
      · exact ⟨e1.symm, Or.inl e2.symm⟩
      · exact ⟨e1.symm, Or.inr ⟨e4, by rw [← e3]; exact e4⟩⟩
    · obtain ⟨i, hi, j, hj, hf⟩ := hex
      rw [h i hi j hj] at hf
      exact absurd hf (by decide)
  · unfold reasonAtoms
    simp only [h2]
    rfl

theorem reasonAtoms_synthesized_witness :
    [(⟨1, 1, true⟩ : Literal), ⟨1, 2, true⟩].get?
        (maxLit exConflict [⟨1, 1, true⟩, ⟨1, 2, true⟩]).1 = some ⟨1, 2, true⟩ ∧
    reasonAtoms exConflict ⟨1, 2, true⟩ (maxLit exConflict [⟨1, 1, true⟩, ⟨1, 2, true⟩]).2 =
      some [⟨(exConflict.DECSTACK.getD (maxLit exConflict [⟨1, 1, true⟩, ⟨1, 2, true⟩]).2
                default).VAR,
              (exConflict.DECSTACK.getD (maxLit exConflict [⟨1, 1, true⟩, ⟨1, 2, true⟩]).2
                default).VAL, true⟩,
            ⟨(exConflict.DECSTACK.getD (maxLit exConflict [⟨1, 1, true⟩, ⟨1, 2, true⟩]).2
                default).VAR,
              (exConflict.DECSTACK.getD (maxLit exConflict [⟨1, 1, true⟩, ⟨1, 2, true⟩]).2
                default).VAL, false⟩] :=
  ⟨by decide,
    (reasonAtoms_synthesized exConflict [⟨1, 1, true⟩, ⟨1, 2, true⟩] ⟨1, 2, true⟩
      (by decide)).1 (by decide) (by decide)⟩

/-- C14: for a variable whose statuses are -1, 0 or 1 and whose `SAT` flag is set
exactly when one of its values has status 1, `checkEntail(v)` returns true and sets
`ENTAILLITERAL` to `v = k` exactly when `k` is a value of `v` with status 0 and every
other value of `v` has status -1; when there is no such value it returns false and
changes nothing. -/
theorem checkEntail_iff (s : Formula) (v : Nat)
    (htern : ∀ k < (s.var v).DOMAINSIZE,
      s.assign v k = 0 ∨ s.assign v k = -1 ∨ s.assign v k = 1)
    (hflag : (s.var v).SAT = true ↔ ∃ k < (s.var v).DOMAINSIZE, s.assign v k = 1) :
    (∀ k, ((checkEntailCall s v).1 = true ∧
          (checkEntailCall s v).2 = { s with ENTAILLITERAL := some ⟨v, k, true⟩ }) ↔
        (k < (s.var v).DOMAINSIZE ∧ s.assign v k = 0 ∧
          ∀ j < (s.var v).DOMAINSIZE, j ≠ k → s.assign v j = -1)) ∧
    ((¬ ∃ k < (s.var v).DOMAINSIZE, s.assign v k = 0 ∧
          ∀ j < (s.var v).DOMAINSIZE, j ≠ k → s.assign v j = -1) →
      (checkEntailCall s v).1 = false ∧ (checkEntailCall s v).2 = s) := by
  have hsound : ∀ k, checkEntail s v = some k →
      k < (s.var v).DOMAINSIZE ∧ s.assign v k = 0 ∧
        ∀ j < (s.var v).DOMAINSIZE, j ≠ k → s.assign v j = -1 := by
    intro k h
    obtain ⟨h1, h2, h3, h4⟩ := checkEntail_spec s v k h
    refine ⟨h2, h3, fun j hj hne => ?_⟩
    rcases htern j hj with e | e | e
    · exact absurd e (h4 j hj hne)
    · exact e
    · have : (s.var v).SAT = true := hflag.2 ⟨j, hj, e⟩
      rw [h1] at this
      exact Bool.noConfusion this
  have hcomplete : ∀ k, k < (s.var v).DOMAINSIZE → s.assign v k = 0 →
      (∀ j < (s.var v).DOMAINSIZE, j ≠ k → s.assign v j = -1) → checkEntail s v = some k := by
    intro k h1 h2 h3
    apply checkEntail_complete s v k ?_ h1 h2
    · intro j hj hne
      rw [h3 j hj hne]
      decide
    · cases hsat : (s.var v).SAT with
      | false => rfl
      | true =>
        obtain ⟨j, hj, e⟩ := hflag.1 hsat
        by_cases hjk : j = k
        · subst hjk
          rw [h2] at e
          exact absurd e (by decide)
        · rw [h3 j hj hjk] at e
          exact absurd e (by decide)
  refine ⟨fun k => ⟨fun h => ?_, fun h => ?_⟩, fun hno => ?_⟩
  · cases hc : checkEntail s v with
    | none =>
      have h1 := h.1
      simp only [checkEntailCall, hc] at h1
      exact Bool.noConfusion h1
    | some k' =>
      have h2 := h.2
      simp only [checkEntailCall, hc] at h2
      have hk : k' = k := by
        have := congrArg Formula.ENTAILLITERAL h2
        simp only [Option.some.injEq, Literal.mk.injEq] at this
        exact this.2.1
      subst hk
      exact hsound k' hc
  · have hc := hcomplete k h.1 h.2.1 h.2.2
    simp only [checkEntailCall, hc, and_self]
  · cases hc : checkEntail s v with
    | none => simp only [checkEntailCall, hc, and_self]
    | some k' => exact absurd ⟨k', hsound k' hc⟩ hno

theorem checkEntail_iff_witness :
    ((reduceLiteral (BuildFunction [2, 2] [[⟨1, 0, true⟩, ⟨2, 0, true⟩]]) 1 false 0).var 1).SAT
      = false ∧
    (checkEntailCall
      (reduceLiteral (BuildFunction [2, 2] [[⟨1, 0, true⟩, ⟨2, 0, true⟩]]) 1 false 0) 1).1
      = true :=
  ⟨by decide,
    (((checkEntail_iff
      (reduceLiteral (BuildFunction [2, 2] [[⟨1, 0, true⟩, ⟨2, 0, true⟩]]) 1 false 0) 1
      (by decide) (by decide)).1 1).2 (by decide)).1⟩

/-- C12: in a state in which the difference `ATOMCNTPOS - ATOMCNTNEG` of every Free
value lies between `INT_MIN` and `INT_MAX`, so that the `int` of `chooseLiteral` holds
it, every atom returned by `chooseLiteral` is an `=` atom on a candidate (a Free value
of a variable that is not assigned) whose difference `ATOMCNTPOS - ATOMCNTNEG` is the
greatest among the candidates, and among the candidates of that difference it has the
lowest variable and, for that variable, the lowest value; an atom is returned as soon
as a candidate has a difference above `INT_MIN`. -/
theorem chooseLiteral_maximal (s : Formula)
    (hfit : ∀ v < s.VARLIST.length, ∀ k < (s.var v).DOMAINSIZE, s.assign v k = 0 →
      -2147483648 ≤ s.cntPos v k - s.cntNeg v k ∧ s.cntPos v k - s.cntNeg v k ≤ 2147483647) :
    (∀ a, chooseLiteral s = some a →
      a.EQUAL = true ∧ s.candidate a.VAR a.VAL ∧
      (∀ v k, s.candidate v k →
        s.cntPos v k - s.cntNeg v k ≤ s.cntPos a.VAR a.VAL - s.cntNeg a.VAR a.VAL) ∧
      (∀ v k, s.candidate v k →
        s.cntPos v k - s.cntNeg v k = s.cntPos a.VAR a.VAL - s.cntNeg a.VAR a.VAL →
        a.VAR < v ∨ (a.VAR = v ∧ a.VAL ≤ k))) ∧
    ((∃ v k, s.candidate v k ∧ -2147483648 < s.cntPos v k - s.cntNeg v k) →
      ∃ a, chooseLiteral s = some a) := by
  have hsc : ∀ v k, s.candidate v k → s.score v k = s.cntPos v k - s.cntNeg v k := by
    intro v k hc
    obtain ⟨c1, -, c3, c4⟩ := hc
    exact int32_of_fits _ (hfit v c1 k c3 c4).1 (hfit v c1 k c3 c4).2
  rcases chooseLiteral_spec s with ⟨h1, h2⟩ | ⟨v, k, h1, h2, h3, h4, h5⟩
  · refine ⟨fun a ha => ?_, fun hex => ?_⟩
    · rw [h1] at ha
      exact Option.noConfusion ha
    · obtain ⟨v, k, hc, hlt⟩ := hex
      have := h2 v k hc
      rw [hsc v k hc] at this
      omega
  · refine ⟨fun a ha => ?_, fun _ => ⟨_, h1⟩⟩
    rw [h1] at ha
    have e : a = ⟨v, k, true⟩ := (Option.some.inj ha).symm
    subst e
    refine ⟨rfl, h2, fun v' k' hc => ?_, fun v' k' hc he => ?_⟩
    · have := h4 v' k' hc
      rw [hsc v' k' hc, hsc v k h2] at this
      exact this
    · apply h5 v' k' hc
      rw [hsc v' k' hc, hsc v k h2]
      exact he

/-- Witness of `chooseLiteral_maximal`: in `exClosure` the differences are small, the
value 0 of the variable 1 is a candidate, and `chooseLiteral` returns `1=0`. -/
theorem chooseLiteral_maximal_witness :
    (∃ v k, exClosure.candidate v k ∧
      -2147483648 < exClosure.cntPos v k - exClosure.cntNeg v k) ∧
    chooseLiteral exClosure = some ⟨1, 0, true⟩ ∧
    ∃ a, chooseLiteral exClosure = some a :=
  ⟨⟨1, 0, by decide, by decide⟩, by decide,
    (chooseLiteral_maximal exClosure (by decide)).2 ⟨1, 0, by decide, by decide⟩⟩

/-- C13, counterexample: after unit propagation of the clause `1!0` on a variable with
the single value 0 there is no conflict, `chooseLiteral` returns no atom, and the
variable 1 is not assigned. -/
theorem chooseLiteral_none_unassigned :
    unitPropagation 2 (checkUnit (BuildFunction [1] [[⟨1, 0, false⟩]])) = some exEmptyDomain ∧
    exEmptyDomain.CONFLICT = false ∧
    chooseLiteral exEmptyDomain = none ∧
    exEmptyDomain.VARLIST.length = 2 ∧
    (exEmptyDomain.var 1).SAT = false := by
  decide

/-- C13, as amended: when the score `ATOMCNTPOS - ATOMCNTNEG` of every Free value, in
the `int` in which `chooseLiteral` computes it, is above `INT_MIN`, `chooseLiteral`
returns no atom exactly when no variable that is not assigned has a Free value; so it
returns no atom when every problem variable is assigned (variable 0 has no values). -/
theorem chooseLiteral_none_iff (s : Formula)
    (hscore : ∀ v < s.VARLIST.length, ∀ k < (s.var v).DOMAINSIZE,
      s.assign v k = 0 → -2147483648 < int32 (s.cntPos v k - s.cntNeg v k)) :
    (chooseLiteral s = none ↔
      ∀ v < s.VARLIST.length, (s.var v).SAT = false →
        ∀ k < (s.var v).DOMAINSIZE, s.assign v k ≠ 0) ∧
    ((s.var 0).DOMAINSIZE = 0 →
      (∀ v < s.VARLIST.length, 1 ≤ v → (s.var v).SAT = true) → chooseLiteral s = none) := by
  have hiff : chooseLiteral s = none ↔
      ∀ v < s.VARLIST.length, (s.var v).SAT = false →
        ∀ k < (s.var v).DOMAINSIZE, s.assign v k ≠ 0 := by
    rcases chooseLiteral_spec s with ⟨h1, h2⟩ | ⟨v, k, h1, h2, h3, h4, h5⟩
    · refine ⟨fun _ v hv hs k hk hfree => ?_, fun _ => h1⟩
      have h6 : int32 (s.cntPos v k - s.cntNeg v k) ≤ -2147483648 := h2 v k ⟨hv, hs, hk, hfree⟩
      have := hscore v hv k hk hfree
      omega
    · refine ⟨fun h => ?_, fun h => ?_⟩
      · rw [h1] at h
        exact Option.noConfusion h
      · obtain ⟨c1, c2, c3, c4⟩ := h2
        exact absurd c4 (h v c1 c2 k c3)
  refine ⟨hiff, fun h0 hall => hiff.2 (fun v hv hs k hk => ?_)⟩
  by_cases hv0 : v = 0
  · subst hv0
    rw [h0] at hk
    exact absurd hk (Nat.not_lt_zero _)
  · have := hall v hv (by omega)
    rw [hs] at this
    exact Bool.noConfusion this

/-- Witness of `chooseLiteral_none_iff`: in `exEmptyDomain` no value is Free, and
`chooseLiteral` returns no atom. -/
theorem chooseLiteral_none_iff_witness :
    (∀ v < exEmptyDomain.VARLIST.length, ∀ k < (exEmptyDomain.var v).DOMAINSIZE,
      exEmptyDomain.assign v k = 0 →
        -2147483648 < int32 (exEmptyDomain.cntPos v k - exEmptyDomain.cntNeg v k)) ∧
    (chooseLiteral exEmptyDomain = none ↔
      ∀ v < exEmptyDomain.VARLIST.length, (exEmptyDomain.var v).SAT = false →
        ∀ k < (exEmptyDomain.var v).DOMAINSIZE, exEmptyDomain.assign v k ≠ 0) :=
  ⟨by decide, (chooseLiteral_none_iff exEmptyDomain (by decide)).1⟩

/-- C15, counterexample: the resolvent of the clause `1=0` on its atom `1=0` with the
reason `1=1` is empty, although `1=1` is an atom of the reason that is not in the
clause and not the complement of `1=0` on the value 0: it belongs to the union minus
the complementary pair. -/
theorem resolve_drops_reason_atom :
    (⟨1, 0, true⟩ : Literal) ∈ [(⟨1, 0, true⟩ : Literal)] ∧
    (⟨1, 1, true⟩ : Literal) ∈ resolveUnion [⟨1, 0, true⟩] ⟨1, 0, true⟩ [⟨1, 1, true⟩] ∧
    resolve [⟨1, 0, true⟩] ⟨1, 0, true⟩ [⟨1, 1, true⟩] = [] := by
  decide

/-- C15, as amended: for every atom `b`, except the atoms `v ! j` on another value `j`
of the variable of an atom `a` that is `v = k`: `b` is in `resolve(C, a, R)` exactly
when it is an atom of `C` other than `a`, and not an atom `v = j` with `j` other than
`k` when `a` is `v ! k`; or it is an atom of `R` that is not the complement of `a` on
the value `k`, and not an atom `v = j` with `j` other than `k` when `a` is `v = k`.
An atom that is not in `C` occurs at most once in the resolvent. -/
theorem resolve_atoms (C R : List Literal) (a b : Literal)
    (hb : ¬ (a.EQUAL = true ∧ b.VAR = a.VAR ∧ b.VAL ≠ a.VAL ∧ b.EQUAL = false)) :
    (b ∈ resolve C a R ↔
      (b ∈ C ∧ b ≠ a ∧
        ¬ (a.EQUAL = false ∧ b.VAR = a.VAR ∧ b.VAL ≠ a.VAL ∧ b.EQUAL = true)) ∨
      (b ∈ R ∧ ¬ (b.VAR = a.VAR ∧ b.VAL = a.VAL ∧ b.EQUAL ≠ a.EQUAL) ∧
        ¬ (a.EQUAL = true ∧ b.VAR = a.VAR ∧ b.VAL ≠ a.VAL ∧ b.EQUAL = true))) ∧
    (b ∉ C → (resolve C a R).count b ≤ 1) := by
  obtain ⟨h1, h2⟩ := resolve_mem_iff C R a b
  refine ⟨?_, fun h => h2 (Or.inl h)⟩
  rw [h1]
  have hk : keptFromClause a b = true ↔ (b ≠ a ∧
      ¬ (a.EQUAL = false ∧ b.VAR = a.VAR ∧ b.VAL ≠ a.VAL ∧ b.EQUAL = true)) := by
    obtain ⟨a1, a2, a3⟩ := a
    obtain ⟨b1, b2, b3⟩ := b
    unfold keptFromClause
    simp only [ne_eq, Literal.mk.injEq] at hb ⊢
    by_cases e1 : b1 = a1 <;> by_cases e2 : b2 = a2 <;> cases a3 <;> cases b3 <;>
      simp [e1, e2] at hb ⊢
  have ha : addedFromReason a b = true ↔
      (¬ (b.VAR = a.VAR ∧ b.VAL = a.VAL ∧ b.EQUAL ≠ a.EQUAL) ∧
        ¬ (a.EQUAL = true ∧ b.VAR = a.VAR ∧ b.VAL ≠ a.VAL ∧ b.EQUAL = true)) := by
    obtain ⟨a1, a2, a3⟩ := a
    obtain ⟨b1, b2, b3⟩ := b
    unfold addedFromReason
    simp only [ne_eq]
    by_cases e1 : b1 = a1 <;> by_cases e2 : b2 = a2 <;> cases a3 <;> cases b3 <;>
      simp [e1, e2]
  rw [hk, ha]

theorem resolve_atoms_witness :
    ¬ ((⟨1, 0, true⟩ : Literal).EQUAL = true ∧ (⟨2, 0, true⟩ : Literal).VAR = 1 ∧
      (⟨2, 0, true⟩ : Literal).VAL ≠ 0 ∧ (⟨2, 0, true⟩ : Literal).EQUAL = false) ∧
    (⟨2, 0, true⟩ : Literal) ∈
      resolve [⟨1, 0, true⟩, ⟨2, 0, true⟩] ⟨1, 0, true⟩ [⟨1, 1, false⟩, ⟨3, 0, true⟩] :=
  ⟨by decide,
    ((resolve_atoms [(⟨1, 0, true⟩ : Literal), ⟨2, 0, true⟩] [(⟨1, 1, false⟩ : Literal), ⟨3, 0, true⟩]
      (⟨1, 0, true⟩ : Literal) (⟨2, 0, true⟩ : Literal) (by decide)).1).2 (Or.inl (by decide))⟩

/-- C11, counterexample: in the state after the decision `1=0` the atom `1=0` holds and
there is no conflict; `reduceTheory(1, true, 0)` pushes the atom on the stack a second
time, takes `NumUnAss` of the clause `1!0 v 2=0` from 1 to 0 and raises `CONFLICT`. -/
theorem reduceTheory_not_idempotent :
    exUnitPending.holds ⟨1, 0, true⟩ = true ∧ exUnitPending.CONFLICT = false ∧
    exUnitPending.DECSTACK = [⟨1, 0, true⟩] ∧
    (reduceTheory exUnitPending 1 true 0).DECSTACK = [⟨1, 0, true⟩, ⟨1, 0, true⟩] ∧
    (exUnitPending.clause 0).NumUnAss = 1 ∧
    ((reduceTheory exUnitPending 1 true 0).clause 0).NumUnAss = 0 ∧
    (reduceTheory exUnitPending 1 true 0).CONFLICT = true := by
  decide

/-- C11, as amended: in a state reached by propagation and backtracking from a
well-formed problem in which the atom `(v, k, p)` already holds (for `=`: `v` has the
value `k` and no other value of `v` is Free; for `!`: `checkEntail(v)` finds nothing),
`reduceTheory(v, p, k)` leaves every `ATOMASSIGN`, the `VAL` and `SAT` of every
variable and the `SAT` and `LEVEL` of every clause unchanged; it pushes the atom on
the decision stack once more, writes `LEVEL` and `UNITCLAUSE` to the level and the
reason of `(v, k)`, and takes every occurrence of the opposite atom in a clause that is
not satisfied out of `NumUnAss` again. -/
theorem reduceTheory_repeated (doms : List Nat) (clauses : List (List Literal))
    (hwf : WellFormedInput doms clauses) (s : Formula) (h : Propagated doms clauses s)
    (v : Nat) (e : Bool) (k : Nat) (hv : v < s.VARLIST.length) (hk : k < (s.var v).DOMAINSIZE)
    (hholds : s.holds ⟨v, k, e⟩ = true)
    (hothers : e = true → ∀ j < (s.var v).DOMAINSIZE, j ≠ k → s.assign v j ≠ 0)
    (hhead : e = true → (s.var v).VAL = (k : Int) ∧ (s.var v).SAT = true)
    (hent : e = false → checkEntail s v = none) :
    (∀ v' k', (reduceTheory s v e k).assign v' k' = s.assign v' k') ∧
    (∀ v', ((reduceTheory s v e k).var v').VAL = (s.var v').VAL ∧
      ((reduceTheory s v e k).var v').SAT = (s.var v').SAT) ∧
    (∀ c < s.CLAUSELIST.length,
      ((reduceTheory s v e k).clause c).SAT = (s.clause c).SAT ∧
      ((reduceTheory s v e k).clause c).LEVEL = (s.clause c).LEVEL ∧
      ((s.clause c).SAT = false →
        ((reduceTheory s v e k).clause c).NumUnAss =
          (s.clause c).NumUnAss - ((s.clause c).ATOM_LIST.count ⟨v, k, !e⟩ : Int))) ∧
    (reduceTheory s v e k).DECSTACK = s.DECSTACK ++ [⟨v, k, e⟩] ∧
    (reduceTheory s v e k).level v k = s.LEVEL ∧
    (reduceTheory s v e k).reason v k = s.UNITCLAUSE := by
  have hs := consistent_of_propagated doms clauses hwf s h
  obtain ⟨hcell, hclause⟩ := reduceLiteral_again s hs v e k hv hk hholds hothers
  obtain ⟨hsh, -, -, hstack, -, hheads⟩ := reduceLiteral_basic s v e k
  have hheadeq : ∀ v', ((reduceLiteral s v e k).var v').VAL = (s.var v').VAL ∧
      ((reduceLiteral s v e k).var v').SAT = (s.var v').SAT := by
    intro v'
    have hh := hheads v'
    by_cases hc : e = true ∧ v' = v ∧ v < s.VARLIST.length
    · rw [if_pos hc] at hh
      obtain ⟨he, hv', -⟩ := hc
      subst hv'
      obtain ⟨h1, h2⟩ := hhead he
      have e1 : ((reduceLiteral s v' e k).var v').VAL = (k : Int) := congrArg Prod.fst hh
      have e2 : ((reduceLiteral s v' e k).var v').SAT = true :=
        congrArg (fun p => p.2.1) hh
      rw [e1, e2, h1, h2]
      exact ⟨rfl, rfl⟩
    · rw [if_neg hc] at hh
      exact ⟨congrArg Prod.fst hh, congrArg (fun p => p.2.1) hh⟩
  have hassign : ∀ v' k', (reduceLiteral s v e k).assign v' k' = s.assign v' k' := by
    intro v' k'
    have hc : (reduceLiteral s v e k).assign v' k' = ((reduceLiteral s v e k).cell v' k').1 := rfl
    rw [hc, hcell]
    by_cases hvk : v' = v ∧ k' = k
    · rw [if_pos hvk, hvk.1, hvk.2]
    · rw [if_neg hvk]
      rfl
  have hred : reduceTheory s v e k = reduceLiteral s v e k := by
    cases e with
    | true => exact reduceTheory_true s v k
    | false =>
      rw [reduceTheory_eq]
      have : checkEntail (reduceLiteral s v false k) v = none := by
        rw [checkEntail_congr s _ v (hheadeq v).2 (shape_dom hsh v) (hassign v)]
        exact hent rfl
      rw [this]
  rw [hred]
  refine ⟨hassign, hheadeq, fun c hc => ?_, hstack, ?_, ?_⟩
  · rw [hclause c hc]
    by_cases hsat : (s.clause c).SAT = false
    · rw [if_pos hsat]
      exact ⟨rfl, rfl, fun _ => rfl⟩
    · rw [if_neg hsat]
      exact ⟨rfl, rfl, fun h' => absurd h' hsat⟩
  · have hc : (reduceLiteral s v e k).level v k = ((reduceLiteral s v e k).cell v k).2.1 := rfl
    rw [hc, hcell, if_pos ⟨rfl, rfl⟩]
  · have hc : (reduceLiteral s v e k).reason v k = ((reduceLiteral s v e k).cell v k).2.2 := rfl
    rw [hc, hcell, if_pos ⟨rfl, rfl⟩]

theorem reduceTheory_repeated_witness :
    WellFormedInput [2, 2] [[⟨1, 0, false⟩, ⟨2, 0, true⟩]] ∧
    exUnitPending.holds ⟨1, 0, true⟩ = true ∧
    (reduceTheory exUnitPending 1 true 0).DECSTACK =
      exUnitPending.DECSTACK ++ [⟨1, 0, true⟩] :=
  ⟨by decide, by decide,
    (reduceTheory_repeated [2, 2] [[⟨1, 0, false⟩, ⟨2, 0, true⟩]] (by decide) exUnitPending
      (Propagated.decision _ 1 true 0 Propagated.load (by decide) (by decide) (by decide))
      1 true 0 (by decide) (by decide) (by decide) (by decide) (by decide)
      (by decide)).2.2.2.1⟩

/-- C10, as amended: let `S` be a state reached by propagation and backtracking from a
well-formed problem, whose stack entries are not Free and whose variables are each
unassigned (`VAL` -1, `LEVEL` -1) or assigned at a level up to `LEVEL` with no Free
value.  After a decision on a Free atom one level up, with any propagation that
follows it, `undoTheory(S.LEVEL)` gives back the `ATOMASSIGN`, the counters, the `VAL`,
`SAT` and `LEVEL` of the variables, the `SAT`, `LEVEL` and `NumUnAss` of the clauses
and the decision stack of `S`; `ATOMLEVEL` and `CLAUSEID` are those of `S`, except for
the values that were assigned in between, where both are -10. -/
theorem decideAndUndo_round_trip (doms : List Nat) (clauses : List (List Literal))
    (hwf : WellFormedInput doms clauses) (S : Formula) (hS : Propagated doms clauses S)
    (htrail : TrailAssigned S) (hheads : HeadsClosed S) (u : Formula) (hu : Above S u) :
    (∀ v k, (undoTheory u S.LEVEL).assign v k = S.assign v k) ∧
    (∀ v k, ((undoTheory u S.LEVEL).level v k = S.level v k ∧
        (undoTheory u S.LEVEL).reason v k = S.reason v k) ∨
      (S.assign v k = 0 ∧ (undoTheory u S.LEVEL).level v k = -10 ∧
        (undoTheory u S.LEVEL).reason v k = -10)) ∧
    (∀ v, (undoTheory u S.LEVEL).head v = S.head v) ∧
    (undoTheory u S.LEVEL).DECSTACK = S.DECSTACK ∧
    (∀ c, ((undoTheory u S.LEVEL).clause c).SAT = (S.clause c).SAT) ∧
    (∀ c < S.CLAUSELIST.length,
      ((undoTheory u S.LEVEL).clause c).LEVEL = (S.clause c).LEVEL ∧
      ((undoTheory u S.LEVEL).clause c).NumUnAss = (S.clause c).NumUnAss) ∧
    (∀ v < S.VARLIST.length, ∀ k < (S.var v).DOMAINSIZE, ∀ e,
      (undoTheory u S.LEVEL).cnt v e k = S.cnt v e k) := by
  have hcons := consistent_of_propagated doms clauses hwf S hS
  obtain ⟨hg, hcu⟩ := above_grow hcons hu
  exact roundTrip_of_grow hcons hcu hg htrail hheads

theorem decideAndUndo_round_trip_witness :
    WellFormedInput [2, 2] [[⟨1, 0, true⟩, ⟨2, 0, true⟩]] ∧
    TrailAssigned exLoaded ∧ HeadsClosed exLoaded ∧
    (undoTheory (reduceTheory (exLoaded.withLevel (exLoaded.LEVEL + 1)) 1 true 0)
      exLoaded.LEVEL).DECSTACK = exLoaded.DECSTACK :=
  ⟨by decide, by decide, by decide,
    (decideAndUndo_round_trip [2, 2] [[⟨1, 0, true⟩, ⟨2, 0, true⟩]] (by decide) exLoaded
      Propagated.load (by decide) (by decide) _
      (Above.decision 1 true 0 (by decide) (by decide) (by decide))).2.2.2.1⟩

/-- C21: for a clause with an atom that an entry of the decision stack falsifies, as
is every atom of a clause all of whose atoms are falsified, `maxLit` returns the index
`result[0]` of an atom of the clause and the index `result[1]` of an entry of
`DECSTACK` that falsifies this atom, and no entry above `result[1]` falsifies any atom
of the clause: the entry is the topmost one that falsifies the atom, and no atom has
a higher one.  When several atoms share this entry, the last of them is returned. -/
theorem maxLit_latest (s : Formula) (atoms : List Literal)
    (h : ∃ a ∈ atoms, ∃ d ∈ s.DECSTACK, falsifiedBy a d = true) :
    (∃ a f, atoms.get? (maxLit s atoms).1 = some a ∧
      s.DECSTACK.get? (maxLit s atoms).2 = some f ∧ falsifiedBy a f = true ∧
      ∀ i b, atoms.get? i = some b → (maxLit s atoms).1 < i → falsifiedBy b f = false) ∧
    ∀ i j b d, atoms.get? i = some b → s.DECSTACK.get? j = some d → falsifiedBy b d = true →
      j ≤ (maxLit s atoms).2 := by
  obtain ⟨h1, h2⟩ := maxLit_spec s atoms
  have hex : ∃ i < atoms.length, ∃ j < s.DECSTACK.length,
      falsifiedBy (atoms.getD i default) (s.DECSTACK.getD j default) = true := by
    obtain ⟨a, ha, d, hd, hF⟩ := h
    obtain ⟨i, hi, hia⟩ := List.getElem_of_mem ha
    obtain ⟨j, hj, hjd⟩ := List.getElem_of_mem hd
    refine ⟨i, hi, j, hj, ?_⟩
    rw [List.getD_eq_getElem _ _ hi, List.getD_eq_getElem _ _ hj, hia, hjd]
    exact hF
  obtain ⟨a1, a2, a3, a4⟩ := h2 hex
  refine ⟨⟨_, _, get?_of_getD a1, get?_of_getD a2, a3, fun i b hb hlt => ?_⟩,
    fun i j b d hb hd hF => ?_⟩
  · obtain ⟨hi, hib⟩ := getD_of_get? hb
    rw [← hib]
    exact a4 i hi hlt
  · obtain ⟨hi, hib⟩ := getD_of_get? hb
    obtain ⟨hj, hjd⟩ := getD_of_get? hd
    apply h1 i hi j hj
    rw [hib, hjd]
    exact hF

/-- Witness of `maxLit_latest`: after the decisions `1=0` and `2=1` the atoms of the
clause `2=0 v 1=1` are falsified by the entries 1 and 0 of the stack; `maxLit` returns
the atom `2=0` and the entry 1. -/
theorem maxLit_latest_witness :
    maxLit exTwoLevels [⟨2, 0, true⟩, ⟨1, 1, true⟩] = (0, 1) ∧
    ∀ i j b d, [(⟨2, 0, true⟩ : Literal), ⟨1, 1, true⟩].get? i = some b →
      exTwoLevels.DECSTACK.get? j = some d → falsifiedBy b d = true →
      j ≤ (maxLit exTwoLevels [⟨2, 0, true⟩, ⟨1, 1, true⟩]).2 :=
  ⟨by decide, (maxLit_latest exTwoLevels [⟨2, 0, true⟩, ⟨1, 1, true⟩]
    ⟨⟨2, 0, true⟩, by decide, ⟨2, 1, true⟩, by decide, by decide⟩).2⟩

/-- C23: from every state whose counter `BACKTRACKS` is not negative, as it is in every
state the solver builds, `NonChronoBacktrack(0)` gives the same return code and the same
final state as `NonChronoBacktrack()`, for the same clock and the same bounds, and
`RESTARTS` is the same in the final state as on entry: no restart is performed. -/
theorem restart_zero_disables (clock : Nat → Bool) (inner fuel : Nat) (s : Formula)
    (hb : 0 ≤ s.BACKTRACKS) :
    NonChronoBacktrackRestart clock inner 0 fuel s = NonChronoBacktrack clock inner fuel s ∧
    ∀ code t, NonChronoBacktrackRestart clock inner 0 fuel s = some (code, t) →
      t.RESTARTS = s.RESTARTS := by
  have h : NonChronoBacktrackRestart clock inner 0 fuel s = NonChronoBacktrack clock inner fuel s :=
    restartFrom_zero clock inner fuel 0 s hb
  refine ⟨h, fun code t ht => ?_⟩
  rw [h] at ht
  exact nonChrono_restarts clock inner fuel 0 s t code ht

/-- Witness of `restart_zero_disables`: on the loaded problem `exUnsound`, whose search
backtracks, the two drivers agree. -/
theorem restart_zero_disables_witness :
    0 ≤ (BuildFunction [4] exUnsound).BACKTRACKS ∧
    NonChronoBacktrackRestart (fun _ => false) 10 0 10 (BuildFunction [4] exUnsound) =
      NonChronoBacktrack (fun _ => false) 10 10 (BuildFunction [4] exUnsound) :=
  ⟨by decide, (restart_zero_disables (fun _ => false) 10 10 (BuildFunction [4] exUnsound)
    (by decide)).1⟩

/-- C22, counterexample: on `exRestart` with the restart threshold 1 the first conflict
is found at level 2, the learned clause gives the backtrack level 1, the counter
`BACKTRACKS` reaches the threshold, and after the statements of the restart `RESTARTS`
is 1 while `LEVEL` is 1, not 0. -/
theorem restart_keeps_level :
    exRestartHead.CONFLICT = true ∧ exRestartHead.LEVEL = 2 ∧ exRestartHead.BACKTRACKS + 1 = 1 ∧
    (restartState 10 exRestartHead).map (fun t => (t.RESTARTS, t.LEVEL)) = some (1, 1) := by
  decide

/-- C22, as amended: in a round of `NonChronoBacktrack(restarts)` entered with a
conflict above level 0 in which the counter `BACKTRACKS` reaches the restart threshold,
the driver calls `undoTheory(0)`: every value with a level above 0 becomes Free and
every other value keeps its status and level; `RESTARTS` is incremented by one, the
threshold is raised by `restarts`, and `CLAUSELIST` is the one before the round with the
learned clause appended.  `LEVEL` keeps the value returned by `backtrackLevel` for the
learned clause. -/
theorem restart_round (inner : Nat) (restarts rc : Int) (s : Formula) (hs : Sized s)
    (hsat : checkSat s = false) (hc : s.CONFLICT = true) (hl : s.LEVEL ≠ 0)
    (hb : s.BACKTRACKS + 1 = rc)
    (h : (searchRoundRestart inner false restarts rc s).isSome = true) :
    ∃ s1 learned t u,
      analyzeConflict inner s (.stored (s.addr s.CONFLICTINGCLAUSE.toNat)) = some (s1, learned) ∧
      restartState inner s = some t ∧ propagateDecide inner t = some u ∧
      searchRoundRestart inner false restarts rc s = some (.next u, rc + restarts) ∧
      t.RESTARTS = s.RESTARTS + 1 ∧ t.BACKTRACKS = rc ∧ t.LEVEL = backtrackLevel s1 learned ∧
      (∃ a, t.CLAUSELIST = s.CLAUSELIST ++ [a]) ∧
      ∀ v < s.VARLIST.length, ∀ k < (s.var v).DOMAINSIZE,
        (0 < s.level v k → t.assign v k = 0) ∧
        (¬ 0 < s.level v k → t.assign v k = s.assign v k ∧ t.level v k = s.level v k) := by
  have hl' : ¬ (s.LEVEL == 0) = true := by simpa using hl
  unfold searchRoundRestart at h ⊢
  unfold restartState
  rw [hsat, hc] at h ⊢
  simp only [Bool.false_eq_true, if_false, if_true, if_neg hl'] at h ⊢
  cases hcs : conflictStep inner s with
  | none => rw [hcs] at h; simp at h
  | some s3 =>
    rw [hcs] at h
    simp only at h ⊢
    obtain ⟨b1, b2⟩ := conflictStep_counts inner s s3 hcs
    have hrc : (s3.BACKTRACKS == rc) = true := by rw [beq_iff_eq, b1, hb]
    rw [if_pos hrc] at h ⊢
    have hcs' := hcs
    unfold conflictStep at hcs'
    split_ifs at hcs' with hcc
    cases ha : analyzeConflict inner s (.stored (s.addr s.CONFLICTINGCLAUSE.toNat)) with
    | none => rw [ha] at hcs'; simp at hcs'
    | some p =>
      obtain ⟨s1, learned⟩ := p
      rw [ha] at hcs'
      simp only [Option.some.injEq] at hcs'
      cases hp : propagateDecide inner
          { undoTheory s3 0 with RESTARTS := (undoTheory s3 0).RESTARTS + 1 } with
      | none => rw [hp] at h; simp at h
      | some u =>
        obtain ⟨r', e1, -⟩ := analyzeConflict_learns _ _ _ _ _ ha
        obtain ⟨hv, -⟩ := learnClause_vars s r'
        rw [← e1] at hv
        have hv3 : s3.VARLIST = s1.VARLIST := by rw [← hcs']
        have hs1 : Sized s1 := norecs_sized hv hs
        have hwf3 : s3.WF := by
          unfold Formula.WF
          rw [hv3]
          exact hs1.1
        obtain ⟨c1, c2⟩ := undoTheory_counts s3 0
        have hlen : s3.VARLIST.length = s.VARLIST.length := by
          rw [hv3]
          have := congrArg List.length hv
          simpa using this
        have hvar3 : ∀ v, s3.var v = s1.var v := fun v => by simp [Formula.var, hv3]
        have hdom : ∀ v, (s3.var v).DOMAINSIZE = (s.var v).DOMAINSIZE := by
          intro v
          rw [hvar3]
          have := congrArg Variable.DOMAINSIZE (norecs_var hv v)
          simpa [Variable.norecs] using this
        have hcell3 : ∀ v k, s3.assign v k = s.assign v k ∧ s3.level v k = s.level v k := by
          intro v k
          obtain ⟨a1, a2⟩ := norecs_cells hv v k
          exact ⟨by simp only [Formula.assign, hvar3]; exact a1,
            by simp only [Formula.level, hvar3]; exact a2⟩
        refine ⟨s1, learned, _, u, rfl, rfl, hp, by rw [b1, hb]; rfl, ?_, ?_, ?_, ?_, ?_⟩
        · show (undoTheory s3 0).RESTARTS + 1 = s.RESTARTS + 1
          rw [c2, b2]
        · show (undoTheory s3 0).BACKTRACKS = rc
          rw [c1, b1, hb]
        · show (undoTheory s3 0).LEVEL = backtrackLevel s1 learned
          rw [level_undoTheory, ← hcs']
        · show ∃ a, (undoTheory s3 0).CLAUSELIST = s.CLAUSELIST ++ [a]
          rw [(shape_undoTheory s3 0).clist]
          obtain ⟨a, ha'⟩ := learnClause_clist s r'
          refine ⟨a, ?_⟩
          rw [← hcs']
          show s1.CLAUSELIST = _
          rw [e1, ha']
        · intro v hv' k hk
          have hcell := cell_undoTheory s3 0 hwf3 v k
          have hv1 : 1 ≤ v := by
            by_contra hne
            have : v = 0 := by omega
            rw [this, hs.2] at hk
            omega
          have hA : ∀ t : Formula, t.cell v k = (undoTheory s3 0).cell v k →
              (0 < s.level v k → t.assign v k = 0) ∧
              (¬ 0 < s.level v k → t.assign v k = s.assign v k ∧ t.level v k = s.level v k) := by
            intro t ht
            rw [hcell] at ht
            constructor
            · intro hpos
              rw [if_pos ⟨hv1, by rw [hlen]; exact hv', by rw [hdom]; exact hk,
                by rw [(hcell3 v k).2]; exact hpos⟩] at ht
              exact assign_of_cell_val ht
            · intro hneg
              rw [if_neg (fun hh => hneg (by rw [← (hcell3 v k).2]; exact hh.2.2.2))] at ht
              exact ⟨(assign_of_cell ht).trans (hcell3 v k).1,
                (level_of_cell ht).trans (hcell3 v k).2⟩
          exact hA _ rfl

/-- Witness of `restart_round`: the third round of `NonChronoBacktrack(1)` on
`exRestart`. -/
theorem restart_round_witness :
    Sized exRestartHead ∧ checkSat exRestartHead = false ∧ exRestartHead.CONFLICT = true ∧
    exRestartHead.LEVEL ≠ 0 ∧ exRestartHead.BACKTRACKS + 1 = 1 ∧
    ∃ t, restartState 10 exRestartHead = some t ∧ t.RESTARTS = exRestartHead.RESTARTS + 1 ∧
      ∃ a, t.CLAUSELIST = exRestartHead.CLAUSELIST ++ [a] := by
  refine ⟨by decide, by decide, by decide, by decide, by decide, ?_⟩
  obtain ⟨s1, learned, t, u, -, h2, -, -, h5, -, -, h8, -⟩ :=
    restart_round 10 1 1 exRestartHead (by decide) (by decide) (by decide) (by decide)
      (by decide) (by decide)
  exact ⟨t, h2, h5, h8⟩

/-- C25: on the problem of scenario 2 the driver returns 0 (satisfied) with the value 2
of the variable Assigned, `VAL` 2, no decision and one entailment.  In general, when a
call `reduceTheory(v, false, k)` forbids the value `k` of a variable `v` that is not
assigned and leaves `j` as its only Free value, the value `j` is Assigned at the
current level with the reason -2, the variable gets the value `j`, `ENTAILS` is
incremented by one and `DECISIONS` is not changed. -/
theorem entailment_forces (s : Formula) (hwf : s.WF) (v k j : Nat) (hv : v < s.VARLIST.length)
    (hk : k < (s.var v).DOMAINSIZE) (hj : j < (s.var v).DOMAINSIZE) (hjk : j ≠ k)
    (hsat : (s.var v).SAT = false) (hfj : s.assign v j = 0)
    (hrest : ∀ i < (s.var v).DOMAINSIZE, i ≠ k → i ≠ j → s.assign v i ≠ 0) :
    (NonChronoBacktrack (fun _ => false) 10 10 exEntail).map
        (fun p => (p.1, p.2.assign 1 2, (p.2.var 1).VAL, p.2.DECISIONS, p.2.ENTAILS))
      = some (0, 1, 2, 0, 1) ∧
    (reduceTheory s v false k).cell v k = (-1, s.LEVEL, s.UNITCLAUSE) ∧
    (reduceTheory s v false k).cell v j = (1, s.LEVEL, -2) ∧
    (reduceTheory s v false k).head v = ((j : Int), true, s.LEVEL) ∧
    (reduceTheory s v false k).ENTAILS = s.ENTAILS + 1 ∧
    (reduceTheory s v false k).DECISIONS = s.DECISIONS := by
  refine ⟨by decide, ?_⟩
  have h1 := lit_reduceLiteral s hwf v false k hv hk
  have hwf1 : (reduceLiteral s v false k).WF := shape_wf h1.shape hwf
  have hkeep : ∀ i, i ≠ k → (reduceLiteral s v false k).cell v i = s.cell v i := by
    intro i hik
    rcases h1.others v i (fun h => hik h.2) with h | ⟨-, h, -⟩
    · exact h
    · exact Bool.noConfusion h
  have hhead : (reduceLiteral s v false k).head v = s.head v := by
    rw [h1.heads v]
    simp
  have hsat1 : ((reduceLiteral s v false k).var v).SAT = false := by
    have := congrArg (fun c => c.2.1) hhead
    simp only [Formula.head] at this
    rw [this]; exact hsat
  have hdom1 : ((reduceLiteral s v false k).var v).DOMAINSIZE = (s.var v).DOMAINSIZE :=
    shape_dom h1.shape v
  have hent : checkEntail (reduceLiteral s v false k) v = some j := by
    apply checkEntail_complete _ _ _ hsat1 (by rw [hdom1]; exact hj)
    · rw [assign_of_cell (hkeep j hjk)]; exact hfj
    · intro i hi hij
      rw [hdom1] at hi
      by_cases hik : i = k
      · rw [hik, assign_of_cell_val h1.own]
        decide
      · rw [assign_of_cell (hkeep i hik)]
        exact hrest i hi hik hij
  rw [reduceTheory_eq, hent]
  simp only
  have h2 := lit_reduceLiteral { reduceLiteral s v false k with
      ENTAILLITERAL := some ⟨v, j, true⟩
      ENTAILS := (reduceLiteral s v false k).ENTAILS + 1
      UNITCLAUSE := -2 } hwf1 v true j
    (show v < (reduceLiteral s v false k).VARLIST.length by rw [shape_length h1.shape]; exact hv)
    (show j < ((reduceLiteral s v false k).var v).DOMAINSIZE by rw [hdom1]; exact hj)
  have hc1 := counters_reduceLiteral s v false k
  have hc2 := counters_reduceLiteral { reduceLiteral s v false k with
      ENTAILLITERAL := some ⟨v, j, true⟩
      ENTAILS := (reduceLiteral s v false k).ENTAILS + 1
      UNITCLAUSE := -2 } v true j
  simp only [Formula.counters, Prod.mk.injEq] at hc1 hc2
  refine ⟨?_, ?_, ?_, ?_, ?_⟩
  · have := lit_keep h2 (by
      show (reduceLiteral s v false k).assign v j = 0
      rw [assign_of_cell (hkeep j hjk)]; exact hfj) v k (by
      show (reduceLiteral s v false k).assign v k ≠ 0
      rw [assign_of_cell_val h1.own]; decide)
    rw [this]
    have e := h1.own
    simp only [Bool.false_eq_true, if_false] at e
    exact e
  · have e := h2.own
    simp only [if_true] at e
    rw [e]
    show (1, (reduceLiteral s v false k).LEVEL, (-2 : Int)) = _
    rw [h1.level]
  · rw [h2.heads v]
    simp only [and_self, if_true]
    show ((j : Int), true, (reduceLiteral s v false k).LEVEL) = _
    rw [h1.level]
  · rw [hc2.2.2.2]
    show (reduceLiteral s v false k).ENTAILS + 1 = _
    rw [hc1.2.2.2]
  · rw [hc2.2.2.1]
    show (reduceLiteral s v false k).DECISIONS = _
    rw [hc1.2.2.1]

/-- Witness of `entailment_forces`: on the loaded problem `exLoaded` the call
`reduceTheory(1, false, 0)` entails `1=1`. -/
theorem entailment_forces_witness :
    exLoaded.WF ∧ (exLoaded.var 1).SAT = false ∧ exLoaded.assign 1 0 = 0 ∧
    exLoaded.assign 1 1 = 0 ∧
    (reduceTheory exLoaded 1 false 0).cell 1 1 = (1, exLoaded.LEVEL, -2) :=
  ⟨by decide, by decide, by decide, by decide,
   (entailment_forces exLoaded (by decide) 1 0 1 (by decide) (by decide) (by decide) (by decide)
      (by decide) (by decide) (by decide)).2.2.1⟩

/-- C26: on the problem of scenario 4 `NonChronoBacktrack()` returns 2 (unsatisfiable)
after one backtrack; the conflict of its third round is analysed to the learned clause
`1!0`, a clause of one atom on the variable 1, which is appended to `CLAUSELIST` as the
clause number 4 and stays there until the return. -/
theorem scenario_learns_unit :
    (NonChronoBacktrack (fun _ => false) 10 10 exLearn).map
        (fun p => (p.1, p.2.BACKTRACKS, p.2.CLAUSELIST.length, (p.2.clause 4).ATOM_LIST))
      = some (2, 1, 5, [⟨1, 0, false⟩]) ∧
    ((loopHead (fun _ => false) 10 2 0 exLearn).bind (fun s =>
        (analyzeConflict 10 s (.stored (s.addr s.CONFLICTINGCLAUSE.toNat))).map
          (fun p => (s.CLAUSELIST.length, s.LEVEL, p.2, p.1.CLAUSELIST.length,
            (p.1.clause 4).ATOM_LIST)))
      = some (4, 1, [⟨1, 0, false⟩], 5, [⟨1, 0, false⟩])) := by
  decide

/-- C27: on the problem of scenario 5 `NonChronoBacktrack()` returns 2 (unsatisfiable)
with no decision and no backtrack, and so it does on the problem of scenario 1. -/
theorem scenarios_unsat_by_propagation :
    (NonChronoBacktrack (fun _ => false) 10 10 exExclusive).map
        (fun p => (p.1, p.2.DECISIONS, p.2.BACKTRACKS)) = some (2, 0, 0) ∧
    (NonChronoBacktrack (fun _ => false) 10 10 exUnitsOnly).map
        (fun p => (p.1, p.2.DECISIONS, p.2.BACKTRACKS)) = some (2, 0, 0) := by
  decide

/-- C28, counterexample: the decision `1=0` on the loaded problem `exLoaded` pushes one
entry on `DECSTACK` and takes two values from Free, the Assigned value 0 and the
Forbidden value 1 of variable 1. -/
theorem trail_shorter_than_assigned :
    Forward [2, 2] [[⟨1, 0, true⟩, ⟨2, 0, true⟩]] exDecided ∧
    exDecided.DECSTACK.length = 1 ∧ exDecided.nonFree.length = 2 :=
  ⟨Forward.decision _ 1 true 0 Forward.load (by decide) (by decide) (by decide), by decide,
    by decide⟩

/-- C28, as amended: in every state reached from a well-formed loaded problem by
propagation only, the entries of `DECSTACK` are on different pairs `(v, k)` with
`ATOMASSIGN` other than 0, so that the length of `DECSTACK` is the number of the pairs
with `ATOMASSIGN` other than 0 that have an entry, which is at most the number of all
such pairs; a pair with `ATOMASSIGN` other than 0 and without an entry is a Forbidden
value `k` of a variable `v` whose entry `v = j` for another value `j` is on the stack
and holds. -/
theorem trail_length (doms : List Nat) (clauses : List (List Literal))
    (hwf : WellFormedInput doms clauses) (s : Formula) (h : Forward doms clauses s) :
    s.DECSTACK.length = (s.nonFree.filter s.hasEntry).length ∧
    s.DECSTACK.length ≤ s.nonFree.length ∧
    ∀ p ∈ s.nonFree, s.hasEntry p = false →
      s.assign p.1 p.2 = -1 ∧
      ∃ d ∈ s.DECSTACK, d.VAR = p.1 ∧ d.VAL ≠ p.2 ∧ d.EQUAL = true ∧ s.holds d = true := by
  have hT := track_of_forward doms clauses hwf s h
  have hperm : (s.DECSTACK.map (fun d => (d.VAR, d.VAL))).Perm (s.nonFree.filter s.hasEntry) := by
    rw [List.perm_ext_iff_of_nodup hT.nodup (List.Nodup.filter _ (nodup_nonFree s))]
    intro p
    rw [List.mem_filter, hasEntry_iff]
    constructor
    · intro hp
      refine ⟨?_, hp⟩
      obtain ⟨d, hd, rfl⟩ := List.mem_map.1 hp
      obtain ⟨⟨r1, r2⟩, hh⟩ := hT.trail.holds d hd
      exact (mem_nonFree s d.VAR d.VAL).2 ⟨r1, r2, assign_ne_of_holds hh⟩
    · exact fun hp => hp.2
  have hlen : s.DECSTACK.length = (s.nonFree.filter s.hasEntry).length := by
    rw [← hperm.length_eq, List.length_map]
  refine ⟨hlen, ?_, ?_⟩
  · rw [hlen]
    exact List.length_filter_le _ _
  · rintro ⟨v, k⟩ hp hno
    obtain ⟨hv, hk, hne⟩ := (mem_nonFree s v k).1 hp
    obtain ⟨d, hd, ⟨hdv, hm⟩, -⟩ := hT.trail.setter v hv k hk hne
    rcases hm with ⟨hdk, -⟩ | ⟨hdk, hde, hf⟩
    · exfalso
      have : s.hasEntry (v, k) = true := by
        rw [hasEntry_iff]
        exact List.mem_map.2 ⟨d, hd, by rw [hdv, hdk]⟩
      rw [hno] at this
      exact Bool.noConfusion this
    · exact ⟨hf, d, hd, hdv, hdk, hde, (hT.trail.holds d hd).2⟩

/-- Witness of `trail_length`: after the decision `1=0` on `exLoaded` the stack has one
entry, and of the two pairs with a status the pair `(1, 0)` has it. -/
theorem trail_length_witness :
    WellFormedInput [2, 2] [[⟨1, 0, true⟩, ⟨2, 0, true⟩]] ∧
    exDecided.DECSTACK.length = (exDecided.nonFree.filter exDecided.hasEntry).length ∧
    exDecided.DECSTACK.length = 1 :=
  ⟨by decide,
   (trail_length [2, 2] [[⟨1, 0, true⟩, ⟨2, 0, true⟩]] (by decide) exDecided
      (Forward.decision _ 1 true 0 Forward.load (by decide) (by decide) (by decide))).1,
   by decide⟩

/-- C30, counterexample: a clause whose first watched atom is undefined and whose
second watched atom is satisfied has a watched atom that is true, and
`watchedCheckSat` returns 2, not 1. -/
theorem watchedCheckSat_undefined_first :
    (watchedCheckSat [⟨2, some 1⟩] false).1 = 2 := by
  decide

/-- C30, as amended: on clauses whose watched atoms have `SAT` 0, 1 or 2 and none of
which has its first watched atom falsified and its second undefined,
`watchedCheckSat` returns 1 exactly when every clause has a watched atom that is
satisfied and its first watched atom is not undefined; it returns 0 exactly when some
clause has both watched atoms falsified, or its single watched atom falsified, and no
clause before it has its first watched atom undefined; and `CONFLICT` is set when 0 is
returned and left as it was otherwise. -/
theorem watchedCheckSat_iff (ws : List Watched) (conflict : Bool)
    (hter : ∀ w ∈ ws, w.ternary) (hno : ∀ w ∈ ws, ¬ (w.SAT0 = 0 ∧ w.SAT1 = some 2)) :
    ((watchedCheckSat ws conflict).1 = 1 ↔
      ∀ w ∈ ws, w.SAT0 ≠ 2 ∧ (w.SAT0 = 1 ∨ w.SAT1 = some 1)) ∧
    ((watchedCheckSat ws conflict).1 = 0 ↔
      ∃ pre w post, ws = pre ++ w :: post ∧ w.conflicting ∧ ∀ u ∈ pre, u.SAT0 ≠ 2) ∧
    (watchedCheckSat ws conflict).2 = (conflict || decide ((watchedCheckSat ws conflict).1 = 0)) := by
  induction ws with
  | nil =>
    refine ⟨⟨fun _ w hw => absurd hw (List.not_mem_nil _), fun _ => rfl⟩, ⟨fun h => ?_, ?_⟩, ?_⟩
    · simp [watchedCheckSat] at h
    · rintro ⟨pre, w, post, h, -⟩
      simp at h
    · simp [watchedCheckSat]
  | cons w ws ih =>
    obtain ⟨i1, i2, i3⟩ := ih (fun u hu => hter u (List.mem_cons_of_mem _ hu))
      (fun u hu => hno u (List.mem_cons_of_mem _ hu))
    have hw := hter w (List.mem_cons_self _ _)
    have hnw := hno w (List.mem_cons_self _ _)
    rw [watchedCheckSat]
    by_cases hc : (w.SAT0 == 0 && (w.SAT1 == none || w.SAT1 == some 0)) = true
    · rw [if_pos hc]
      have hc' : w.conflicting := by
        simp only [Bool.and_eq_true, beq_iff_eq, Bool.or_eq_true] at hc
        exact hc
      refine ⟨⟨fun h => absurd h (by decide), fun h => ?_⟩, ⟨fun _ => ?_, fun _ => rfl⟩, by simp⟩
      · exfalso
        obtain ⟨-, h2⟩ := h w (List.mem_cons_self _ _)
        obtain ⟨c1, c2⟩ := hc'
        rcases h2 with h2 | h2
        · rw [c1] at h2; exact absurd h2 (by decide)
        · rcases c2 with c2 | c2 <;> rw [c2] at h2 <;> simp at h2
      · exact ⟨[], w, ws, rfl, hc', fun u hu => absurd hu (List.not_mem_nil _)⟩
    · rw [if_neg hc]
      have hc' : ¬ w.conflicting := by
        intro h
        apply hc
        simp only [Bool.and_eq_true, beq_iff_eq, Bool.or_eq_true]
        exact h
      by_cases h2 : (w.SAT0 == 2) = true
      · rw [if_pos h2]
        have h2' : w.SAT0 = 2 := by simpa using h2
        refine ⟨⟨fun h => absurd (show (2 : Int) = 1 from h) (by decide), fun h => ?_⟩,
          ⟨fun h => absurd (show (2 : Int) = 0 from h) (by decide), ?_⟩, by simp⟩
        · exact absurd h2' (h w (List.mem_cons_self _ _)).1
        · rintro ⟨pre, u, post, e, hu, hpre⟩
          cases pre with
          | nil =>
            simp only [List.nil_append, List.cons.injEq] at e
            rw [← e.1] at hu
            exact (hc' hu).elim
          | cons p pre =>
            simp only [List.cons_append, List.cons.injEq] at e
            have := hpre p (List.mem_cons_self _ _)
            rw [← e.1] at this
            exact (this h2').elim
      · rw [if_neg h2]
        have h2' : w.SAT0 ≠ 2 := by simpa using h2
        have hgood : w.SAT0 = 1 ∨ w.SAT1 = some 1 := by
          obtain ⟨a, b⟩ := hw
          rcases a with a | a | a
          · right
            rcases b with b | b | b | b
            · exact absurd ⟨a, Or.inl b⟩ hc'
            · exact absurd ⟨a, Or.inr b⟩ hc'
            · exact b
            · exact absurd ⟨a, b⟩ hnw
          · exact Or.inl a
          · exact absurd a h2'
        refine ⟨?_, ?_, i3⟩
        · rw [i1]
          constructor
          · intro h u hu
            rcases List.mem_cons.1 hu with rfl | hu'
            · exact ⟨h2', hgood⟩
            · exact h u hu'
          · exact fun h u hu => h u (List.mem_cons_of_mem _ hu)
        · rw [i2]
          constructor
          · rintro ⟨pre, u, post, e, hu, hpre⟩
            refine ⟨w :: pre, u, post, by rw [e]; rfl, hu, fun x hx => ?_⟩
            rcases List.mem_cons.1 hx with rfl | hx'
            · exact h2'
            · exact hpre x hx'
          · rintro ⟨pre, u, post, e, hu, hpre⟩
            cases pre with
            | nil =>
              simp only [List.nil_append, List.cons.injEq] at e
              rw [← e.1] at hu
              exact absurd hu hc'
            | cons p pre =>
              simp only [List.cons_append, List.cons.injEq] at e
              exact ⟨pre, u, post, e.2, hu, fun x hx => hpre x (List.mem_cons_of_mem _ hx)⟩

/-- Witness of `watchedCheckSat_iff`: of two clauses the first has its second watched
atom satisfied and the second its single watched atom falsified; 0 is returned and
`CONFLICT` is set. -/
theorem watchedCheckSat_iff_witness :
    (∀ w ∈ [(⟨0, some 1⟩ : Watched), ⟨0, none⟩], w.ternary) ∧
    (∀ w ∈ [(⟨0, some 1⟩ : Watched), ⟨0, none⟩], ¬ (w.SAT0 = 0 ∧ w.SAT1 = some 2)) ∧
    (watchedCheckSat [⟨0, some 1⟩, ⟨0, none⟩] false).1 = 0 ∧
    (watchedCheckSat [⟨0, some 1⟩, ⟨0, none⟩] false).2 =
      (false || decide ((watchedCheckSat [⟨0, some 1⟩, ⟨0, none⟩] false).1 = 0)) :=
  ⟨by decide, by decide, by decide,
   (watchedCheckSat_iff [⟨0, some 1⟩, ⟨0, none⟩] false (by decide) (by decide)).2.2⟩

/-- C24: in a state with the structure of a loaded problem (the arrays sized to the
domains, every clause listed once, every atom on a value of a declared variable, the
occurrence lists exact) in which every variable has a value `VAL` other than -1, as
it has when `VAL` is in the domain, `verifyModel` returns true if and only if every
clause of `CLAUSELIST` has an atom that is true under the assignment of `VAL`. -/
theorem verifyModel_iff (s : Formula) (hst : Struct s)
    (hval : ∀ v < s.VARLIST.length, 1 ≤ v → (s.var v).VAL ≠ -1) :
    verifyModel s = true ↔
      ∀ c < s.CLAUSELIST.length, ∃ a ∈ (s.clause c).ATOM_LIST, s.trueAt a = true := by
  obtain ⟨hsh, -, hsat⟩ := verifyState_spec s hst
  unfold verifyModel
  rw [checkSat_iff, hsh.clist]
  have key : ∀ c < s.CLAUSELIST.length,
      ((∃ i, 1 ≤ i ∧ i < s.VARLIST.length ∧ s.marks i c) ↔
        ∃ a ∈ (s.clause c).ATOM_LIST, s.trueAt a = true) := by
    intro c hc
    constructor
    · rintro ⟨i, h1, h2, hm⟩
      unfold Formula.marks at hm
      rw [if_pos (hval i h2 h1)] at hm
      obtain ⟨j, hj, hmem⟩ := hm
      obtain ⟨-, hin⟩ := (records_mem hst h2 hj _ c).1 hmem
      refine ⟨_, hin, ?_⟩
      unfold Formula.trueAt
      by_cases he : (j : Int) = (s.var i).VAL
      · simp [he]
      · have he' : ¬ (s.var i).VAL = (j : Int) := fun h => he h.symm
        simp [he, he']
    · rintro ⟨a, ha, ht⟩
      obtain ⟨r1, r2, r3⟩ := hst.atoms c hc a ha
      refine ⟨a.VAR, r1, r2, ?_⟩
      unfold Formula.marks
      rw [if_pos (hval a.VAR r2 r1)]
      refine ⟨a.VAL, r3, (records_mem hst r2 r3 _ c).2 ⟨hc, ?_⟩⟩
      have : (⟨a.VAR, a.VAL, decide ((a.VAL : Int) = (s.var a.VAR).VAL)⟩ : Literal) = a := by
        unfold Formula.trueAt at ht
        obtain ⟨v, k, e⟩ := a
        simp only [Literal.mk.injEq, true_and]
        cases e with
        | true =>
          simp only [if_true, beq_iff_eq] at ht
          simp [ht]
        | false =>
          simp only [Bool.false_eq_true, if_false, bne_iff_ne, ne_eq] at ht
          have : ¬ (k : Int) = (s.var v).VAL := fun h => ht h.symm
          simp [this]
      rw [this]
      exact ha
  constructor
  · intro h c hc
    exact (key c hc).1 ((hsat c hc).1 (h c hc))
  · intro h c hc
    exact (hsat c hc).2 ((key c hc).2 (h c hc))

/-- Witness of `verifyModel_iff`: in the state `exAssigned` the variable has the value
0, which makes the atom `1=0` of the first clause and the atom `1!1` of the second
true, and `verifyModel` returns true. -/
theorem verifyModel_iff_witness :
    (∀ v < exAssigned.VARLIST.length, 1 ≤ v → (exAssigned.var v).VAL ≠ -1) ∧
    verifyModel exAssigned = true ∧
    ∀ c < exAssigned.CLAUSELIST.length,
      ∃ a ∈ (exAssigned.clause c).ATOM_LIST, exAssigned.trueAt a = true :=
  ⟨by decide, by decide,
   (verifyModel_iff exAssigned
      (consistent_of_propagated [2] [[⟨1, 0, true⟩], [⟨1, 1, false⟩]] (by decide) exAssigned
        (Propagated.decision _ 1 true 0 Propagated.load (by decide) (by decide)
          (by decide))).struct
      (by decide)).1 (by decide)⟩

/-- C29: in every state of a round of `NonChronoBacktrack()` or of
`NonChronoBacktrack(int restarts)` on a well-formed loaded problem (at the head of the
round, after the backtrack of its conflict branch with the learned clause in
`CLAUSELIST`, after `checkUnit`, after every round of the loop of `unitPropagation` and
after `unitPropagation`), for every Free value `j`
of a variable `v` the counter `ATOMCNTPOS[j]` is the number of occurrences of the atom
`v = j` in the clauses of `CLAUSELIST` that are not satisfied, and `ATOMCNTNEG[j]` is
the number of occurrences of `v ! j` in them. -/
theorem heuristic_counters (doms : List Nat) (clauses : List (List Literal))
    (hwf : WellFormedInput doms clauses) (inner : Nat) (s u : Formula)
    (hs : AtHead doms clauses inner s) (hu : InRound inner s u) :
    ∀ v < u.VARLIST.length, ∀ j < (u.var v).DOMAINSIZE, u.assign v j = 0 →
      u.cntPos v j = (occurrences u (fun C => !C.SAT) v true j : Int) ∧
      u.cntNeg v j = (occurrences u (fun C => !C.SAT) v false j : Int) :=
  counts_occurrences (consistent_inRound inner s u (deep_atHead doms clauses hwf inner s hs) hu)

/-- Witness of `heuristic_counters`: after the backtrack of scenario 4 the value 0 of
the variable 1 is Free and its counter `ATOMCNTNEG` is 3, for the occurrences of `1!0`
in the clauses 2 and 3 and in the learned clause 4. -/
theorem heuristic_counters_witness :
    WellFormedInput [2, 2, 2]
      [[⟨1, 0, true⟩, ⟨2, 0, true⟩], [⟨1, 0, true⟩, ⟨2, 0, false⟩],
       [⟨1, 0, false⟩, ⟨3, 0, true⟩], [⟨1, 0, false⟩, ⟨3, 0, false⟩]] ∧
    loopHead (fun _ => false) 10 2 0 exLearn = some exLearnConflict ∧
    conflictStep 10 exLearnConflict = some exLearnStep ∧
    (undoTheory exLearnStep exLearnStep.LEVEL).assign 1 0 = 0 ∧
    (undoTheory exLearnStep exLearnStep.LEVEL).cntNeg 1 0 = 3 ∧
    ((undoTheory exLearnStep exLearnStep.LEVEL).clause 4).ATOM_LIST = [⟨1, 0, false⟩] ∧
    ((undoTheory exLearnStep exLearnStep.LEVEL).cntPos 1 0 =
        (occurrences (undoTheory exLearnStep exLearnStep.LEVEL) (fun C => !C.SAT) 1 true 0 : Int) ∧
      (undoTheory exLearnStep exLearnStep.LEVEL).cntNeg 1 0 =
        (occurrences (undoTheory exLearnStep exLearnStep.LEVEL) (fun C => !C.SAT) 1 false 0 : Int)) :=
  ⟨by decide, by decide, by decide, by decide, by decide, by decide,
   heuristic_counters [2, 2, 2]
      [[⟨1, 0, true⟩, ⟨2, 0, true⟩], [⟨1, 0, true⟩, ⟨2, 0, false⟩],
       [⟨1, 0, false⟩, ⟨3, 0, true⟩], [⟨1, 0, false⟩, ⟨3, 0, false⟩]]
      (by decide) 10 exLearnConflict _
      (Or.inl ⟨fun _ => false, 2, by decide⟩)
      (InRound.backtrack exLearnStep (by decide) (by decide) (by decide))
      1 (by decide) 0 (by decide) (by decide)⟩

/-- C5: in every state of a round of `NonChronoBacktrack()` or of
`NonChronoBacktrack(int restarts)` on a well-formed loaded problem (at the head of the
round, after the backtrack of its conflict branch with the learned clause in
`CLAUSELIST`, after `checkUnit`, after every round of the loop of `unitPropagation` and
after `unitPropagation`), a clause of `CLAUSELIST`, original or learned, has `SAT` set
if and only if one of its atoms holds: the value of the atom has `ATOMASSIGN` 1 for an
`=` atom and -1 for a `!` atom. -/
theorem satisfaction_invariant (doms : List Nat) (clauses : List (List Literal))
    (hwf : WellFormedInput doms clauses) (inner : Nat) (s u : Formula)
    (hs : AtHead doms clauses inner s) (hu : InRound inner s u) :
    ∀ c < u.CLAUSELIST.length,
      ((u.clause c).SAT = true ↔ ∃ a ∈ (u.clause c).ATOM_LIST, u.holds a = true) :=
  sat_iff_holds (consistent_inRound inner s u (deep_atHead doms clauses hwf inner s hs) hu)

/-- Witness of `satisfaction_invariant`: at the head of the third round of scenario 4,
after the decision `1=0` and the unit `3=0`, the clause `1!0 v 3=0` is satisfied and
the clause `1!0 v 3!0` is not. -/
theorem satisfaction_invariant_witness :
    WellFormedInput [2, 2, 2]
      [[⟨1, 0, true⟩, ⟨2, 0, true⟩], [⟨1, 0, true⟩, ⟨2, 0, false⟩],
       [⟨1, 0, false⟩, ⟨3, 0, true⟩], [⟨1, 0, false⟩, ⟨3, 0, false⟩]] ∧
    loopHead (fun _ => false) 10 2 0 exLearn = some exLearnConflict ∧
    (exLearnConflict.clause 2).SAT = true ∧ (exLearnConflict.clause 3).SAT = false ∧
    ((exLearnConflict.clause 2).SAT = true ↔
      ∃ a ∈ (exLearnConflict.clause 2).ATOM_LIST, exLearnConflict.holds a = true) :=
  ⟨by decide, by decide, by decide, by decide,
   satisfaction_invariant [2, 2, 2]
      [[⟨1, 0, true⟩, ⟨2, 0, true⟩], [⟨1, 0, true⟩, ⟨2, 0, false⟩],
       [⟨1, 0, false⟩, ⟨3, 0, true⟩], [⟨1, 0, false⟩, ⟨3, 0, false⟩]]
      (by decide) 10 exLearnConflict exLearnConflict
      (Or.inl ⟨fun _ => false, 2, by decide⟩) InRound.head 2 (by decide)⟩

/-- C18: when a round of `NonChronoBacktrack()` or of `NonChronoBacktrack(int restarts)`
on a well-formed loaded problem is entered with `CONFLICT` raised at a level above 0
and `analyzeConflict` returns the learned clause, the value of `backtrackLevel` on that
clause, which the driver stores in `LEVEL`, is at least 0 and strictly less than the
level of the conflict. -/
theorem backjump_below (doms : List Nat) (clauses : List (List Literal))
    (hwf : WellFormedInput doms clauses) (inner : Nat) (s s1 : Formula) (learned : List Literal)
    (hs : AtHead doms clauses inner s) (hc : s.CONFLICT = true) (hl : 0 < s.LEVEL)
    (h : analyzeConflict inner s (.stored (s.addr s.CONFLICTINGCLAUSE.toNat)) = some (s1, learned)) :
    0 ≤ backtrackLevel s1 learned ∧ backtrackLevel s1 learned < s.LEVEL :=
  learned_backjump inner s s1 learned (deep_atHead doms clauses hwf inner s hs) hc hl h

/-- Witness of `backjump_below`: the conflict of scenario 4 at level 1 is analysed to
the clause `1!0`, and the backtrack level is 0. -/
theorem backjump_below_witness :
    WellFormedInput [2, 2, 2]
      [[⟨1, 0, true⟩, ⟨2, 0, true⟩], [⟨1, 0, true⟩, ⟨2, 0, false⟩],
       [⟨1, 0, false⟩, ⟨3, 0, true⟩], [⟨1, 0, false⟩, ⟨3, 0, false⟩]] ∧
    loopHead (fun _ => false) 10 2 0 exLearn = some exLearnConflict ∧
    exLearnConflict.LEVEL = 1 ∧
    (0 ≤ backtrackLevel (learnClause exLearnConflict (.fresh [⟨1, 0, false⟩])) [⟨1, 0, false⟩] ∧
      backtrackLevel (learnClause exLearnConflict (.fresh [⟨1, 0, false⟩])) [⟨1, 0, false⟩]
        < exLearnConflict.LEVEL) :=
  ⟨by decide, by decide, by decide,
   backjump_below [2, 2, 2]
      [[⟨1, 0, true⟩, ⟨2, 0, true⟩], [⟨1, 0, true⟩, ⟨2, 0, false⟩],
       [⟨1, 0, false⟩, ⟨3, 0, true⟩], [⟨1, 0, false⟩, ⟨3, 0, false⟩]]
      (by decide) 10 exLearnConflict _ _
      (Or.inl ⟨fun _ => false, 2, by decide⟩) (by decide) (by decide) (by decide)⟩

/-- C19: when a round of `NonChronoBacktrack()` or of `NonChronoBacktrack(int restarts)`
on a well-formed loaded problem is entered with `CONFLICT` raised at a level above 0
and `analyzeConflict` returns the learned clause, that clause is the last clause of
`CLAUSELIST`, under the number `n` that was the length of `CLAUSELIST` before; the
occurrence list of every atom of the clause holds `n`; and after the backtrack of the
driver, `LEVEL = backtrackLevel(learned)` and `undoTheory(LEVEL)`, the clause is not
satisfied and has `NumUnAss` 1, and `checkUnit` puts `n` on `UNITLIST`. -/
theorem learned_clause_unit (doms : List Nat) (clauses : List (List Literal))
    (hwf : WellFormedInput doms clauses) (inner : Nat) (s s1 : Formula) (learned : List Literal)
    (hs : AtHead doms clauses inner s) (hc : s.CONFLICT = true) (hl : 0 < s.LEVEL)
    (h : analyzeConflict inner s (.stored (s.addr s.CONFLICTINGCLAUSE.toNat)) = some (s1, learned))
    (u : Formula)
    (hu : u = undoTheory
      { s1 with
        LEVEL := backtrackLevel s1 learned
        BACKTRACKS := s1.BACKTRACKS + 1
        CONFLICT := false }
      (backtrackLevel s1 learned)) :
    s1.CLAUSELIST.length = s.CLAUSELIST.length + 1 ∧
    (s1.clause s.CLAUSELIST.length).ATOM_LIST = learned ∧
    (∀ a ∈ learned, s.CLAUSELIST.length ∈ s1.records a.VAR a.EQUAL a.VAL) ∧
    (u.clause s.CLAUSELIST.length).ATOM_LIST = learned ∧
    (u.clause s.CLAUSELIST.length).SAT = false ∧
    (u.clause s.CLAUSELIST.length).NumUnAss = 1 ∧
    s.CLAUSELIST.length ∈ (checkUnit u).UNITLIST :=
  learned_unit inner s s1 learned (deep_atHead doms clauses hwf inner s hs) hc hl h u hu

/-- Witness of `learned_clause_unit`: in scenario 4 the learned clause `1!0` is the
clause 4, and after the backtrack to level 0 `checkUnit` puts it on `UNITLIST`. -/
theorem learned_clause_unit_witness :
    WellFormedInput [2, 2, 2]
      [[⟨1, 0, true⟩, ⟨2, 0, true⟩], [⟨1, 0, true⟩, ⟨2, 0, false⟩],
       [⟨1, 0, false⟩, ⟨3, 0, true⟩], [⟨1, 0, false⟩, ⟨3, 0, false⟩]] ∧
    loopHead (fun _ => false) 10 2 0 exLearn = some exLearnConflict ∧
    exLearnConflict.CLAUSELIST.length = 4 ∧
    (checkUnit (undoTheory exLearnStep exLearnStep.LEVEL)).UNITLIST = [4] ∧
    exLearnConflict.CLAUSELIST.length ∈
      (checkUnit (undoTheory exLearnStep exLearnStep.LEVEL)).UNITLIST :=
  ⟨by decide, by decide, by decide, by decide,
   (learned_clause_unit [2, 2, 2]
      [[⟨1, 0, true⟩, ⟨2, 0, true⟩], [⟨1, 0, true⟩, ⟨2, 0, false⟩],
       [⟨1, 0, false⟩, ⟨3, 0, true⟩], [⟨1, 0, false⟩, ⟨3, 0, false⟩]]
      (by decide) 10 exLearnConflict
      (learnClause exLearnConflict (.fresh [⟨1, 0, false⟩])) [⟨1, 0, false⟩]
      (Or.inl ⟨fun _ => false, 2, by decide⟩) (by decide) (by decide) (by decide)
      (undoTheory exLearnStep exLearnStep.LEVEL) (by decide)).2.2.2.2.2.2⟩

/-- C1: when `NonChronoBacktrack()`, run on a well-formed loaded problem, returns 0
(satisfied), `verifyModel` returns true on the state of the return. -/
theorem sat_verified (doms : List Nat) (clauses : List (List Literal))
    (hwf : WellFormedInput doms clauses) (clock : Nat → Bool) (inner fuel : Nat) (t : Formula)
    (h : NonChronoBacktrack clock inner fuel (BuildFunction doms clauses) = some (0, t)) :
    verifyModel t = true :=
  verifyModel_of_deep
    (deep_nonChrono clock inner fuel 0 _ t 0 (deep_buildFunction doms clauses hwf) h).1
    ((deep_nonChrono clock inner fuel 0 _ t 0 (deep_buildFunction doms clauses hwf) h).2 rfl)

/-- Witness of `sat_verified`: on the problem `exLoaded` the driver returns 0 with the
variable 1 at the value 0, and `verifyModel` accepts the state. -/
theorem sat_verified_witness :
    WellFormedInput [2, 2] [[⟨1, 0, true⟩, ⟨2, 0, true⟩]] ∧
    NonChronoBacktrack (fun _ => false) 10 10 exLoaded = some (0, exLoadedEnd) ∧
    (exLoadedEnd.var 1).VAL = 0 ∧ verifyModel exLoadedEnd = true :=
  ⟨by decide, by decide, by decide,
   sat_verified [2, 2] [[⟨1, 0, true⟩, ⟨2, 0, true⟩]] (by decide) (fun _ => false) 10 10
      exLoadedEnd (by decide)⟩

/-- C35: `checkUnit` leaves in `UNITLIST`, whatever it held before, exactly the numbers
of the clauses of `CLAUSELIST` that have `NumUnAss` 1 and are not satisfied, in
increasing order; and `CONFLICT` is set afterwards if and only if it was set before or
some clause that is not satisfied has `NumUnAss` 0. -/
theorem checkUnit_rebuilds (s : Formula) :
    (checkUnit s).UNITLIST = (List.range s.CLAUSELIST.length).filter
      (fun c => (s.clause c).NumUnAss == 1 && !(s.clause c).SAT) ∧
    (checkUnit s).UNITLIST.Pairwise (fun a b => a < b) ∧
    ((checkUnit s).CONFLICT = true ↔ s.CONFLICT = true ∨
      ∃ c < s.CLAUSELIST.length, (s.clause c).NumUnAss = 0 ∧ (s.clause c).SAT = false) := by
  refine ⟨checkUnit_list s, ?_, (checkUnit_spec s).2.2.2⟩
  rw [checkUnit_list]
  exact List.Pairwise.filter _ (List.pairwise_lt_range _)

/-- C39: a call of `reduceTheory` on an `=` atom returns without a nested call of
itself, because `checkEntail` finds nothing on the variable it has just assigned; so a
call of `reduceTheory` on any atom makes at most one nested call, the one on the
entailed `=` atom, and returns: a recursion depth of one is enough for an `=` atom and
of two for every atom. -/
theorem reduceTheory_depth (n : Nat) (s : Formula) (var : Nat) (equals : Bool) (val : Nat) :
    checkEntail (reduceLiteral s var true val) var = none ∧
    reduceTheoryAux (n + 1) s var true val = some (reduceLiteral s var true val) ∧
    reduceTheoryAux (n + 2) s var equals val = some (reduceTheory s var equals val) := by
  refine ⟨checkEntail_reduceLiteral_true s var val, ?_, reduceTheoryAux_returns n s var equals val⟩
  rw [reduceTheoryAux]
  simp only [checkEntail_reduceLiteral_true]

/-- C40: `undoTheory(L)` on a state whose arrays have the sizes of the domains leaves
the status, the level and the reason of every value whose level is at most `L` as they
were, leaves the flag `SAT` and the `LEVEL` of every clause whose `LEVEL` is at most
`L` as they were, and leaves `CLAUSELIST` and the atoms of the clauses as they were: no
clause, learned or not, is removed or moved. -/
theorem undoTheory_frame (s : Formula) (L : Int) (hwf : s.WF) :
    (∀ v k, s.level v k ≤ L → (undoTheory s L).assign v k = s.assign v k ∧
      (undoTheory s L).level v k = s.level v k ∧ (undoTheory s L).reason v k = s.reason v k) ∧
    (∀ c, (s.clause c).LEVEL ≤ L → ((undoTheory s L).clause c).SAT = (s.clause c).SAT ∧
      ((undoTheory s L).clause c).LEVEL = (s.clause c).LEVEL) ∧
    (undoTheory s L).CLAUSELIST = s.CLAUSELIST ∧
    (∀ c, ((undoTheory s L).clause c).ATOM_LIST = (s.clause c).ATOM_LIST) := by
  refine ⟨?_, lowKept_undoTheory s L, (shape_undoTheory s L).clist,
    shape_atoms (shape_undoTheory s L)⟩
  intro v k hl
  have h := cell_undoTheory s L hwf v k
  rw [if_neg (by rintro ⟨_, _, _, h4⟩; omega)] at h
  simp only [Formula.cell, Prod.mk.injEq] at h
  exact h

/-- Witness of `undoTheory_frame`: after the decision `1=0` at level 1 the backtrack to
level 1 leaves the value 0 of the variable 1 Assigned at level 1. -/
theorem undoTheory_frame_witness :
    exDecided.WF ∧ exDecided.level 1 0 ≤ 1 ∧ exDecided.cell 1 0 = (1, 1, -1) ∧
    ((undoTheory exDecided 1).assign 1 0 = exDecided.assign 1 0 ∧
      (undoTheory exDecided 1).level 1 0 = exDecided.level 1 0 ∧
      (undoTheory exDecided 1).reason 1 0 = exDecided.reason 1 0) :=
  ⟨by decide, by decide, by decide, (undoTheory_frame exDecided 1 (by decide)).1 1 0 (by decide)⟩

/-- C36: in a round of `NonChronoBacktrack()` in which `checkUnit` and unit
propagation leave no conflict and `chooseLiteral` returns an atom, the driver makes the
decision: the atom is an `=` atom, `LEVEL` and `DECISIONS` are each one more than at the
head of the round, and afterwards the value of the atom has `ATOMASSIGN` 1, the new
`LEVEL` as its level and the reason -1.  And `NonChronoBacktrack()` returns 2 only in a
state with `CONFLICT` set and `LEVEL` 0. -/
theorem decision_step (fuel : Nat) (s s2 : Formula) (atom : Literal) (hwf : s.WF)
    (h2 : (if (checkUnit s).UNITLIST.isEmpty then some (checkUnit s)
      else unitPropagation fuel (checkUnit s)) = some s2)
    (hcf : s2.CONFLICT = false) (hch : chooseLiteral s2 = some atom) :
    (∃ t, propagateDecide fuel s = some t ∧ t.LEVEL = s.LEVEL + 1 ∧
      t.DECISIONS = s.DECISIONS + 1 ∧ atom.EQUAL = true ∧ t.assign atom.VAR atom.VAL = 1 ∧
      t.level atom.VAR atom.VAL = t.LEVEL ∧ t.reason atom.VAR atom.VAL = -1) ∧
    ∀ (clock : Nat → Bool) (inner n : Nat) (s0 t : Formula),
      NonChronoBacktrack clock inner n s0 = some (2, t) → t.CONFLICT = true ∧ t.LEVEL = 0 :=
  ⟨decide_spec fuel s s2 atom hwf h2 hcf hch,
   fun clock inner n s0 t h => nonChrono_ret_two clock inner n 0 s0 t h⟩

/-- Witness of `decision_step`: in the first round on `exLoaded` no clause is unit,
`chooseLiteral` returns `1=0`, and the decision sets the value 0 of the variable 1 at
level 1 with the reason -1. -/
theorem decision_step_witness :
    exLoaded.WF ∧ chooseLiteral (checkUnit exLoaded) = some ⟨1, 0, true⟩ ∧
    (propagateDecide 10 exLoaded).map (fun t => (t.LEVEL, t.DECISIONS, t.cell 1 0))
      = some (1, 1, (1, 1, -1)) ∧
    ∃ t, propagateDecide 10 exLoaded = some t ∧ t.LEVEL = exLoaded.LEVEL + 1 ∧
      t.DECISIONS = exLoaded.DECISIONS + 1 ∧ (⟨1, 0, true⟩ : Literal).EQUAL = true ∧
      t.assign 1 0 = 1 ∧ t.level 1 0 = t.LEVEL ∧ t.reason 1 0 = -1 :=
  ⟨by decide, by decide, by decide,
   (decision_step 10 exLoaded (checkUnit exLoaded) ⟨1, 0, true⟩ (by decide) (by decide)
      (by decide) (by decide)).1⟩

/-- C32, counterexample: in the state `exClosure`, without a conflict and with all
values of the variable 1 Free, `reduceTheory(1, true, 0)` raises `CONFLICT` while it
forbids the value 2; its loop stops there, and the value 3, which was Free, is still
Free with its level and reason as before, not Forbidden.  And in the state `exKept`,
without a conflict, at level 1 and with the value 0 of the variable 2 Free, the clause
`1=0 v 2=0` is satisfied with level 0, and after `reduceTheory(2, true, 0)` its level
is still 0, not the current level. -/
theorem closure_stops_on_conflict :
    exClosure.CONFLICT = false ∧ exClosure.assign 1 0 = 0 ∧ exClosure.assign 1 3 = 0 ∧
    (reduceTheory exClosure 1 true 0).CONFLICT = true ∧
    (reduceTheory exClosure 1 true 0).cell 1 2 = (-1, 1, -1) ∧
    (reduceTheory exClosure 1 true 0).cell 1 3 = exClosure.cell 1 3 ∧
    (reduceTheory exClosure 1 true 0).assign 1 3 = 0 ∧
    exKept.CONFLICT = false ∧ exKept.assign 2 0 = 0 ∧ exKept.LEVEL = 1 ∧
    (⟨2, 0, true⟩ : Literal) ∈ (exKept.clause 0).ATOM_LIST ∧
    (exKept.clause 0).SAT = true ∧ (exKept.clause 0).LEVEL = 0 ∧
    (reduceTheory exKept 2 true 0).CONFLICT = false ∧
    ((reduceTheory exKept 2 true 0).clause 0).SAT = true ∧
    ((reduceTheory exKept 2 true 0).clause 0).LEVEL = 0 := by
  decide

/-- C32, as amended: in a state kept by propagation and backtracking in which the value
`k` of the variable `v` is Free, after `reduceTheory(v, true, k)` every clause with the
atom `v = k` is satisfied, with `LEVEL` the current level when it was not satisfied
before; the value `k` has `ATOMASSIGN` 1, the current level and the reason
`UNITCLAUSE`; the variable has `VAL` `k`, `SAT` set and the current level; every other
value that was Free is Forbidden with the same level and reason when `CONFLICT` is not
raised, and when `CONFLICT` is raised it is Forbidden with that level and reason or is
left as it was. -/
theorem reduceTheory_assigns (s : Formula) (hs : Consistent s) (v k : Nat)
    (hv : v < s.VARLIST.length) (hk : k < (s.var v).DOMAINSIZE) (hfree : s.assign v k = 0) :
    (∀ c < s.CLAUSELIST.length, (⟨v, k, true⟩ : Literal) ∈ (s.clause c).ATOM_LIST →
      ((reduceTheory s v true k).clause c).SAT = true ∧
      ((s.clause c).SAT = false → ((reduceTheory s v true k).clause c).LEVEL = s.LEVEL)) ∧
    (reduceTheory s v true k).cell v k = (1, s.LEVEL, s.UNITCLAUSE) ∧
    (reduceTheory s v true k).head v = ((k : Int), true, s.LEVEL) ∧
    (∀ k' < (s.var v).DOMAINSIZE, k' ≠ k → s.assign v k' = 0 →
      (reduceTheory s v true k).cell v k' = (-1, s.LEVEL, s.UNITCLAUSE) ∨
      ((reduceTheory s v true k).CONFLICT = true ∧
        (reduceTheory s v true k).cell v k' = s.cell v k')) ∧
    ((reduceTheory s v true k).CONFLICT = false →
      ∀ k' < (s.var v).DOMAINSIZE, k' ≠ k → s.assign v k' = 0 →
        (reduceTheory s v true k).cell v k' = (-1, s.LEVEL, s.UNITCLAUSE)) :=
  assign_spec s hs v k hv hk hfree

/-- Witness of `reduceTheory_assigns`: in `exClosure` the assignment `1=3` raises no
conflict before the last value and forbids the values 0, 1 and 2 at level 1. -/
theorem reduceTheory_assigns_witness :
    exClosure.assign 1 3 = 0 ∧ exClosure.assign 1 0 = 0 ∧
    (reduceTheory exClosure 1 true 3).cell 1 3 = (1, exClosure.LEVEL, exClosure.UNITCLAUSE) ∧
    ((reduceTheory exClosure 1 true 3).cell 1 0 = (-1, exClosure.LEVEL, exClosure.UNITCLAUSE) ∨
      ((reduceTheory exClosure 1 true 3).CONFLICT = true ∧
        (reduceTheory exClosure 1 true 3).cell 1 0 = exClosure.cell 1 0)) :=
  ⟨by decide, by decide,
   (reduceTheory_assigns exClosure consistent_exClosure 1 3 (by decide) (by decide)
      (by decide)).2.1,
   (reduceTheory_assigns exClosure consistent_exClosure 1 3 (by decide) (by decide)
      (by decide)).2.2.2.1 0 (by decide) (by decide) (by decide)⟩

/-- C33, counterexample: the clause `1=0 v 1=0` of `exTwice` is not satisfied and holds
the atom `1=0`; `removeLiteral(1, true, 0)` takes its `NumUnAss` from 2 to 0 and the
counter `ATOMCNTPOS` of the atom from 2 to 0, two each and not one, and the clause is
put on `UNITLIST` and is the conflicting clause as well. -/
theorem removeLiteral_twice :
    (exTwice.clause 0).SAT = false ∧ (⟨1, 0, true⟩ : Literal) ∈ (exTwice.clause 0).ATOM_LIST ∧
    (exTwice.clause 0).NumUnAss = 2 ∧ ((removeLiteral exTwice 1 true 0).clause 0).NumUnAss = 0 ∧
    exTwice.cntPos 1 0 = 2 ∧ (removeLiteral exTwice 1 true 0).cntPos 1 0 = 0 ∧
    (removeLiteral exTwice 1 true 0).UNITLIST = [0] ∧
    (removeLiteral exTwice 1 true 0).CONFLICT = true ∧
    (removeLiteral exTwice 1 true 0).CONFLICTINGCLAUSE = 0 := by
  decide

/-- C33, as amended: on a state with the structure of a loaded problem,
`removeLiteral(v, p, k)` leaves the satisfied clauses as they are; a clause that is not
satisfied loses in `NumUnAss` one for each occurrence of the atom in it, and the counter
`ATOMCNTPOS[k]` or `ATOMCNTNEG[k]` of the atom loses one for each occurrence of the atom
in a clause that is not satisfied; the clauses put in front of `UNITLIST`, each once, are
those whose `NumUnAss` passes 1 on the way down; `CONFLICT` is set afterwards if and
only if it was set before or the `NumUnAss` of some clause reaches 0 on the way down,
and then `CONFLICTINGCLAUSE` is such a clause, and else it is as before. -/
theorem removeLiteral_effect (s : Formula) (hst : Struct s) (v : Nat) (e : Bool) (k : Nat)
    (hv : v < s.VARLIST.length) (hk : k < (s.var v).DOMAINSIZE) :
    (∀ c < s.CLAUSELIST.length, (s.clause c).SAT = true →
      (removeLiteral s v e k).clause c = s.clause c) ∧
    (∀ c < s.CLAUSELIST.length, (s.clause c).SAT = false →
      (removeLiteral s v e k).clause c =
        { s.clause c with
          NumUnAss := (s.clause c).NumUnAss - ((s.clause c).ATOM_LIST.count ⟨v, k, e⟩ : Int) }) ∧
    (removeLiteral s v e k).cnt v e k =
      s.cnt v e k - (occurrences s (fun C => !C.SAT) v e k : Int) ∧
    (∃ new, (removeLiteral s v e k).UNITLIST = new ++ s.UNITLIST ∧ new.Nodup ∧
      ∀ c, c ∈ new ↔ (c < s.CLAUSELIST.length ∧ (s.clause c).SAT = false ∧
        2 ≤ (s.clause c).NumUnAss ∧
        (s.clause c).NumUnAss ≤ ((s.clause c).ATOM_LIST.count ⟨v, k, e⟩ : Int) + 1)) ∧
    ((removeLiteral s v e k).CONFLICT = true ↔ (s.CONFLICT = true ∨
      ∃ c < s.CLAUSELIST.length, (s.clause c).SAT = false ∧ 1 ≤ (s.clause c).NumUnAss ∧
        (s.clause c).NumUnAss ≤ ((s.clause c).ATOM_LIST.count ⟨v, k, e⟩ : Int))) ∧
    (((removeLiteral s v e k).CONFLICTINGCLAUSE = s.CONFLICTINGCLAUSE ∧
        ¬ ∃ c < s.CLAUSELIST.length, (s.clause c).SAT = false ∧ 1 ≤ (s.clause c).NumUnAss ∧
          (s.clause c).NumUnAss ≤ ((s.clause c).ATOM_LIST.count ⟨v, k, e⟩ : Int)) ∨
      ∃ c < s.CLAUSELIST.length, ((s.clause c).SAT = false ∧ 1 ≤ (s.clause c).NumUnAss ∧
        (s.clause c).NumUnAss ≤ ((s.clause c).ATOM_LIST.count ⟨v, k, e⟩ : Int)) ∧
        (removeLiteral s v e k).CONFLICTINGCLAUSE = (c : Int)) :=
  removeLiteral_exact s hst v e k hv hk

/-- Witness of `removeLiteral_effect`: on `exLoaded` the clause `1=0 v 2=0` holds the
atom `1=0` once, and `removeLiteral(1, true, 0)` takes its `NumUnAss` from 2 to 1. -/
theorem removeLiteral_effect_witness :
    (exLoaded.clause 0).SAT = false ∧ (exLoaded.clause 0).NumUnAss = 2 ∧
    (exLoaded.clause 0).ATOM_LIST.count ⟨1, 0, true⟩ = 1 ∧
    (removeLiteral exLoaded 1 true 0).UNITLIST = [0] ∧
    (removeLiteral exLoaded 1 true 0).clause 0 =
      { exLoaded.clause 0 with
        NumUnAss := (exLoaded.clause 0).NumUnAss -
          ((exLoaded.clause 0).ATOM_LIST.count ⟨1, 0, true⟩ : Int) } :=
  ⟨by decide, by decide, by decide, by decide,
   (removeLiteral_effect exLoaded
      (loaded_buildFunction [2, 2] [[⟨1, 0, true⟩, ⟨2, 0, true⟩]] (by decide)).struct
      1 true 0 (by decide) (by decide)).2.1 0 (by decide) (by decide)⟩

/-- C34: in a state kept by propagation and backtracking, a round of the loop of
`unitPropagation` on a clause `c` that is not satisfied and has an atom on a Free value
calls `reduceTheory` on the first such atom of the clause, in the order of the clause,
and afterwards that atom holds at the current level with the reason `c`.  The loop makes
a round only while `CONFLICT` is not set; entered with `CONFLICT` set it returns at once
with `UNITLIST` cleared, and whenever it returns `UNITLIST` is empty, the return value
being the negation of `CONFLICT`.  With enough rounds allowed the loop does return. -/
theorem unitPropagation_loop (s : Formula) (hs : Consistent s) :
    (∀ (c : Nat) (rest : List Nat) (a : Literal) (pre post : List Literal),
      (s.clause c).SAT = false → (s.clause c).ATOM_LIST = pre ++ a :: post →
      (∀ b ∈ pre, s.assign b.VAR b.VAL ≠ 0) → s.assign a.VAR a.VAL = 0 →
      unitRound s c rest =
        reduceTheory
          (Formula.setVar
            { s with UNITS := s.UNITS + 1, UNITCLAUSE := (c : Int), UNITLIST := rest }
            a.VAR (fun V => { V with CLAUSEID := V.CLAUSEID.set a.VAL (c : Int) }))
          a.VAR a.EQUAL a.VAL ∧
      (unitRound s c rest).holds a = true ∧
      (unitRound s c rest).reason a.VAR a.VAL = (c : Int) ∧
      (unitRound s c rest).level a.VAR a.VAL = s.LEVEL) ∧
    (∀ (c : Nat) (rest : List Nat) (fuel : Nat), s.CONFLICT = false → s.UNITLIST = c :: rest →
      unitPropagation (fuel + 1) s = unitPropagation fuel (unitRound s c rest)) ∧
    (s.CONFLICT = true → ∀ fuel, unitPropagation (fuel + 1) s = some { s with UNITLIST := [] }) ∧
    (∀ fuel t, unitPropagation fuel s = some t → t.UNITLIST = []) ∧
    (∃ N, ∀ fuel, N ≤ fuel → ∃ t, unitPropagation fuel s = some t) := by
  refine ⟨fun c rest a pre post h1 h2 h3 h4 => unitRound_first s hs c rest h1 a pre post h2 h3 h4,
    fun c rest fuel hcf hu => ?_, fun hcf fuel => ?_,
    fun fuel t h => unitPropagation_empties fuel s t h,
    unitPropagation_returns s.freeCount s.UNITLIST.length s hs (le_refl _) (le_refl _)⟩
  · rw [unitPropagation, if_neg (by rw [hcf]; decide), hu]
  · rw [unitPropagation, if_pos hcf]

/-- Witness of `unitPropagation_loop`: on scenario 1 after `checkUnit` the round on the
clause 0, `1=0`, assigns its only atom with the reason 0. -/
theorem unitPropagation_loop_witness :
    (checkUnit exUnitsOnly).UNITLIST = [0, 1] ∧
    ((checkUnit exUnitsOnly).clause 0).ATOM_LIST = [] ++ (⟨1, 0, true⟩ : Literal) :: [] ∧
    (unitRound (checkUnit exUnitsOnly) 0 [1]).assign 1 0 = 1 ∧
    (unitRound (checkUnit exUnitsOnly) 0 [1]).reason 1 0 = 0 :=
  ⟨by decide, by decide, by decide,
   ((unitPropagation_loop (checkUnit exUnitsOnly)
      (consistent_checkUnit _ (consistent_buildFunction [2] [[⟨1, 0, true⟩], [⟨1, 0, false⟩]]
        (by decide)))).1 0 [1] ⟨1, 0, true⟩ [] [] (by decide) (by decide)
      (fun b hb => absurd hb (List.not_mem_nil b)) (by decide)).2.2.1⟩

/-- C37 fails on the code: in the second round of `NonChronoBacktrack()` on `exUnsound`
`analyzeConflict` resolves the conflicting clause `1!3 v 1=2 v 1=0` on its atom `1=0`
with the reason `1!0`; the value 1 of the variable, which is in its domain, satisfies
the clause and the reason, and it does not satisfy the resolvent `1=2`: `resolve` has
dropped the atom `1!3` with the atom `1=0`. -/
theorem resolve_unsound :
    loopHead (fun _ => false) 10 1 0 (BuildFunction [4] exUnsound) = some exUnsoundConflict ∧
    (exUnsoundConflict.clause exUnsoundConflict.CONFLICTINGCLAUSE.toNat).ATOM_LIST =
      [⟨1, 3, false⟩, ⟨1, 2, true⟩, ⟨1, 0, true⟩] ∧
    [(⟨1, 3, false⟩ : Literal), ⟨1, 2, true⟩, ⟨1, 0, true⟩].get?
      (maxLit exUnsoundConflict [⟨1, 3, false⟩, ⟨1, 2, true⟩, ⟨1, 0, true⟩]).1
      = some ⟨1, 0, true⟩ ∧
    reasonAtoms exUnsoundConflict ⟨1, 0, true⟩
      (maxLit exUnsoundConflict [⟨1, 3, false⟩, ⟨1, 2, true⟩, ⟨1, 0, true⟩]).2
      = some [⟨1, 0, false⟩] ∧
    inDomains [4] (fun _ => 1) ∧
    satisfies (fun _ => 1)
      [[⟨1, 3, false⟩, ⟨1, 2, true⟩, ⟨1, 0, true⟩], [⟨1, 0, false⟩]] = true ∧
    resolve [⟨1, 3, false⟩, ⟨1, 2, true⟩, ⟨1, 0, true⟩] ⟨1, 0, true⟩ [⟨1, 0, false⟩]
      = [⟨1, 2, true⟩] ∧
    satisfies (fun _ => 1)
      [resolve [⟨1, 3, false⟩, ⟨1, 2, true⟩, ⟨1, 0, true⟩] ⟨1, 0, true⟩ [⟨1, 0, false⟩]]
      = false := by
  decide

/-- C38 fails on the code: `NonChronoBacktrack()` on `exStuck` reaches, at the head of
its third round, a state with `CONFLICT` set at level 1 whose conflicting clause is
`2!1 v 2=2`.  The clause is not `Potent`; `maxLit` selects its atom `2=2`, whose reason
is the clause `2=0 v 2!2`, and `resolve` returns the empty clause.  The empty clause is
not `Potent` and `maxLit` gives the index 0 for it, which is no index of its atoms:
`analyzeConflict` reaches no `Potent` clause, whatever the number of steps.  The atom
`2!1`, which `resolve` has dropped with `2=2`, is a `Potent` clause by itself. -/
theorem analyzeConflict_stuck :
    WellFormedInput [2, 3] exStuck ∧
    loopHead (fun _ => false) 10 2 0 (BuildFunction [2, 3] exStuck) = some exStuckConflict ∧
    exStuckConflict.CONFLICT = true ∧ exStuckConflict.LEVEL = 1 ∧
    exStuckConflict.CONFLICTINGCLAUSE = 2 ∧
    (exStuckConflict.clause 2).ATOM_LIST = [⟨2, 1, false⟩, ⟨2, 2, true⟩] ∧
    Potent exStuckConflict [⟨2, 1, false⟩, ⟨2, 2, true⟩] = false ∧
    maxLit exStuckConflict [⟨2, 1, false⟩, ⟨2, 2, true⟩] = (1, 3) ∧
    reasonAtoms exStuckConflict ⟨2, 2, true⟩ 3 = some [⟨2, 0, true⟩, ⟨2, 2, false⟩] ∧
    resolve [⟨2, 1, false⟩, ⟨2, 2, true⟩] ⟨2, 2, true⟩ [⟨2, 0, true⟩, ⟨2, 2, false⟩] = [] ∧
    Potent exStuckConflict [] = false ∧
    ([] : List Literal).get? (maxLit exStuckConflict []).1 = none ∧
    Potent exStuckConflict [⟨2, 1, false⟩] = true ∧
    (∀ fuel, analyzeConflict fuel exStuckConflict
      (.stored (exStuckConflict.addr exStuckConflict.CONFLICTINGCLAUSE.toNat)) = none) ∧
    (∀ fuel, conflictStep fuel exStuckConflict = none) := by
  have hstep : ∀ fuel, analyzeConflict fuel exStuckConflict
      (.stored (exStuckConflict.addr exStuckConflict.CONFLICTINGCLAUSE.toNat)) = none := by
    intro fuel
    cases fuel with
    | zero => rfl
    | succ n =>
      rw [analyzeConflict_step n exStuckConflict _ ⟨2, 2, true⟩ [⟨2, 0, true⟩, ⟨2, 2, false⟩]
        (by decide) (by decide) (by decide)]
      have h : resolve ((ClauseRef.stored
          (exStuckConflict.addr exStuckConflict.CONFLICTINGCLAUSE.toNat)).atoms exStuckConflict)
          ⟨2, 2, true⟩ [⟨2, 0, true⟩, ⟨2, 2, false⟩] = [] := by decide
      rw [h]
      exact analyzeConflict_nil n exStuckConflict
  refine ⟨by decide, by decide, by decide, by decide, by decide, by decide, by decide,
    by decide, by decide, by decide, by decide, by decide, by decide, hstep, ?_⟩
  intro fuel
  unfold conflictStep
  rw [hstep fuel]
  simp

/-- C31 fails on the code: the problem with one variable of the two values 0, 1 and
the clauses `1=0` and `1!0` is well formed and no assignment satisfies it.  On it
`WatchedLiterals` returns 0 (Sat) without a time out: its first two rounds propagate
the units `1=0` and `1!0`, each setting the field `SAT` of its own atom to 1 and
falsifying no atom, and the third round finds every first watched atom satisfied;
`NonChronoBacktrack()` returns 2 (Unsat) on the same problem, without a time out. -/
theorem watched_verdict_differs :
    WellFormedInput [2] [[⟨1, 0, true⟩], [⟨1, 0, false⟩]] ∧
    (∀ asg, satisfies asg [[⟨1, 0, true⟩], [⟨1, 0, false⟩]] = false) ∧
    (∀ inner fuel,
      (WatchedLiterals (fun _ => false) (inner + 1) (fuel + 3)
        (watchedBuild [2] [[⟨1, 0, true⟩], [⟨1, 0, false⟩]])).map Prod.fst = some 0) ∧
    (∀ inner fuel,
      (WatchedLiteralsFrom (fun _ => false) (inner + 1) (fuel + 3) 0
        (watchedBuild [2] [[⟨1, 0, true⟩], [⟨1, 0, false⟩]])).map (fun r => r.2.LITSAT)
        = some [[1], [1]]) ∧
    (watchedPropagateDecide 1 (watchedBuild [2] [[⟨1, 0, true⟩], [⟨1, 0, false⟩]])).map
        (fun w => (w.LITSAT, w.F.DECSTACK, w.F.CONFLICT))
      = some ([[1], [2]], [⟨1, 0, true⟩], false) ∧
    (∀ inner fuel,
      (NonChronoBacktrack (fun _ => false) (inner + 2) (fuel + 2)
        (BuildFunction [2] [[⟨1, 0, true⟩], [⟨1, 0, false⟩]])).map Prod.fst = some 2) := by
  refine ⟨by decide, ?_, fun _ _ => rfl, fun _ _ => rfl, by decide, fun _ _ => rfl⟩
  intro asg
  by_cases h : asg 1 = 0 <;> simp [satisfies, Literal.holds, h]

end MVL
